import Mathlib

/-!
The moxi `cproxy`: downstream pool and pairing engine

A shallow embedding of the pool and pairing code of `cproxy.c`
(`cproxy_create`, `cproxy_add_downstream`, `cproxy_reserve_downstream`,
`cproxy_release_downstream`, `cproxy_free_downstream`,
`cproxy_check_downstream_config`, `downstream_list_remove`,
`cproxy_assign_downstream`, `is_compatible_request`, `upstream_error`).

Memory model.  A pointer is an `Option Nat` (`none` is `NULL`).  The
`downstream` structs live in a heap `World.ds`, a list indexed by address in
which a freed cell is `none`; `calloc` hands out the next unused index, so an
address is never reused.  The `conn` structs live in `World.conns`; they are
owned by the host server and are never freed by this code.  The intrusive
`next` links are kept as pointer fields, exactly as in the C source, and list
operations walk them.

Faults.  Every C function becomes a function into `Except Fault`: a failed
`assert`, a `NULL` dereference, a dereference of a freed or unallocated
address, and a loop that exhausts its iteration budget are reported as
faults.  Loops receive a budget computed from the heap sizes; the theorems
show that the budget is never exhausted on well-formed states.

One worker thread is modelled: the `World` holds the proxy, one `proxy_td`
and the two heaps.  `proxy_lock` is not modelled; the proxy configuration
changes only between operations.  Statistics counters are natural numbers
(the header declaring their C types is not part of the sources).
-/

namespace Moxi

deriving instance DecidableEq for Except

/-- Ways in which the C code can fail to return. -/
inductive Fault
  | assert_failed
  | null_deref
  | bad_pointer
  | out_of_fuel
deriving DecidableEq, Repr

/-- The C `struct timeval`. -/
structure timeval where
  tv_sec : Int := 0
  tv_usec : Int := 0
deriving DecidableEq, Repr

/-- Connection states of the host server used by the proxy code. -/
inductive conn_state
  | conn_listening
  | conn_new_cmd
  | conn_waiting
  | conn_read
  | conn_parse_cmd
  | conn_write
  | conn_nread
  | conn_swallow
  | conn_closing
  | conn_mwrite
  | conn_pause
deriving DecidableEq, Repr

/-- The fields of `proxy_behavior` read by `cproxy.c`. -/
structure proxy_behavior where
  nthreads : Int := 0
  downstream_max : Int := 0
  downstream_prot_binary : Bool := true
  wait_queue_timeout : timeval := {}
  downstream_timeout : timeval := {}
deriving DecidableEq, Repr

/-- The process-wide `proxy`; `config = none` is the `NULL` config of a proxy
that is shutting down. -/
structure proxy where
  name : String := ""
  port : Int := 0
  config : Option String := none
  config_ver : Nat := 0
  behavior : proxy_behavior := {}
  listening : Int := 0
  listening_failed : Int := 0
deriving DecidableEq, Repr

/-- The counter block `proxy_stats`. -/
structure proxy_stats where
  num_upstream : Int := 0
  num_downstream_conn : Int := 0
  tot_upstream : Nat := 0
  tot_downstream_conn : Nat := 0
  tot_downstream_released : Nat := 0
  tot_downstream_reserved : Nat := 0
  tot_downstream_freed : Nat := 0
  tot_downstream_quit_server : Nat := 0
  tot_downstream_max_reached : Nat := 0
  tot_downstream_create_failed : Nat := 0
  tot_assign_downstream : Nat := 0
  tot_assign_upstream : Nat := 0
  tot_reset_upstream_avail : Nat := 0
  tot_oom : Nat := 0
  tot_retry : Nat := 0
deriving DecidableEq, Repr

/-- The per-thread data `proxy_td`.  The four list fields are pointers: heads
of the intrusive lists (and the tail of the wait queue). -/
structure proxy_td where
  waiting_any_downstream_head : Option Nat := none
  waiting_any_downstream_tail : Option Nat := none
  downstream_reserved : Option Nat := none
  downstream_released : Option Nat := none
  downstream_tot : Nat := 0
  downstream_num : Int := 0
  downstream_max : Int := 0
  downstream_assigns : Nat := 0
  timeout_tv : timeval := {}
  stats : proxy_stats := {}
deriving DecidableEq, Repr

/-- The `downstream` struct.  `downstream_conns` is the array of socket slots,
one per host of the server set (`memcached_server_count` is its length); a
slot is `NULL` until connected.  `multiget` and `merger` are the optional
hash tables, kept as association lists; `multiget` maps a key to its chain of
`multiget_entry` structs, newest first, each holding an upstream connection
or `NULL`. -/
structure downstream where
  config : Option String := none
  config_ver : Nat := 0
  behavior : proxy_behavior := {}
  next : Option Nat := none
  downstream_conns : List (Option Nat) := []
  upstream_conn : Option Nat := none
  upstream_suffix : Option String := none
  downstream_used : Int := 0
  downstream_used_start : Int := 0
  multiget : Option (List (List Char × List (Option Nat))) := none
  merger : Option (List (String × String)) := none
  timeout_tv : timeval := {}
deriving DecidableEq, Repr

/-- The fields of a binary response header kept in `c->binary_header`, in
host byte order. -/
structure response_header where
  magic : Nat := 0
  opcode : Nat := 0
  keylen : Nat := 0
  extlen : Nat := 0
  status : Nat := 0
  bodylen : Nat := 0
deriving DecidableEq, Repr

/-- The substates of a binary connection (`enum bin_substates` of the host
server) that the translator names. -/
inductive bin_substates
  | bin_no_state
  | bin_reading_get_key
  | bin_read_set_value
deriving DecidableEq, Repr

/-- The fields of the host server's `conn` touched by the pool and pairing
code and by the translator.  `iov` collects what `add_iov` queued and `out`
what `out_string` wrote.  `rcurr` is `NULL` or the address of the read
buffer; `wbuf` is the write buffer as a list of bytes (`wsize` is its
length); `ilist` holds the items queued for transmission.  For a downstream
connection `cmd_start` is the snapshot of `rcurr` taken by
`cproxy_process_a2b_downstream`: the bytes of the response, header first,
one character per byte; `rdata` holds the bytes at `rcurr`.  `keylen` is the
key length the host stored when it read the header, `rlbytes` the number of
bytes still to read in `conn_nread`. -/
structure conn where
  next : Option Nat := none
  extra : Option Nat := none
  state : conn_state := conn_state.conn_new_cmd
  cmd : Int := 0
  cmd_start : Option String := none
  cmd_retries : Int := 0
  noreply : Bool := false
  item : Option Nat := none
  iov : List String := []
  out : List String := []
  sfd : Int := 0
  rcurr : Option Nat := none
  rbytes : Int := 0
  wbuf : Option (List Nat) := none
  msgused : Int := 0
  write_and_go : conn_state := conn_state.conn_new_cmd
  cmd_start_time : Nat := 0
  binary_header : response_header := {}
  suffixsize : Int := 0
  suffixleft : Int := 0
  ilist : List Nat := []
  rdata : String := ""
  keylen : Int := 0
  rlbytes : Int := 0
  substate : bin_substates := bin_substates.bin_no_state
deriving DecidableEq, Repr

/-- The whole state seen by one worker thread. -/
structure World where
  proxy : proxy := {}
  ptd : proxy_td := {}
  ds : List (Option downstream) := []
  conns : List conn := []
deriving DecidableEq, Repr

/-- Contents of the `downstream` cell at an address, `none` when the address
was freed or never allocated. -/
def World.get_d (w : World) (a : Nat) : Option downstream :=
  (w.ds[a]?).join

/-- Store into the `downstream` cell at an address. -/
def World.set_d (w : World) (a : Nat) (v : downstream) : World :=
  { w with ds := w.ds.set a (some v) }

/-- Release the `downstream` cell at an address (`free`). -/
def World.free_d (w : World) (a : Nat) : World :=
  { w with ds := w.ds.set a none }

/-- Contents of the `conn` cell at an address. -/
def World.get_c (w : World) (a : Nat) : Option conn :=
  w.conns[a]?

/-- Store into the `conn` cell at an address. -/
def World.set_c (w : World) (a : Nat) (v : conn) : World :=
  { w with conns := w.conns.set a v }

/-- Replace the `proxy_td`. -/
def World.set_ptd (w : World) (t : proxy_td) : World :=
  { w with ptd := t }

/-- Replace the statistics block of the `proxy_td`. -/
def World.set_stats (w : World) (s : proxy_stats) : World :=
  { w with ptd := { w.ptd with stats := s } }

/-- External collaborators that are not part of the sources: the host
server's event functions, the stats merger writer, allocation and the server
set parser, and the forwarding function stored in
`ptd->propagate_downstream`.  They are parameters of the model. -/
structure Env where
  update_event : World → Nat → Bool
  add_iov : World → Nat → String → Bool
  drive_machine : World → Nat → World
  protocol_stats_foreach_write : World → Nat → Nat → World
  calloc_downstream : World → Bool
  memcached_create : World → Bool
  memcached_servers_parse : String → Option Nat
  calloc_conns : World → Nat → Bool
  propagate_downstream : World → Nat → Bool × World
  memcached_generate_hash : World → Nat → List Char → Nat := fun _ _ _ => 0
  add_msghdr : World → Nat → Bool := fun _ _ => true
  calloc_multiget_entry : World → Bool := fun _ => true
  realloc_suffixlist : World → Nat → Bool := fun _ _ => true
  cache_alloc_suffix : World → Nat → Bool := fun _ _ => true
  evtimer_add : World → Bool := fun _ => true
  item_key : Nat → List Char := fun _ => []
  item_nbytes : Nat → Int := fun _ => 2
  current_time : Nat := 0

/-- The function `cproxy_reset_stats`: clears the `tot_` counters only. -/
def cproxy_reset_stats (ps : proxy_stats) : proxy_stats :=
  { ps with
    tot_upstream := 0
    tot_downstream_conn := 0
    tot_downstream_released := 0
    tot_downstream_reserved := 0
    tot_downstream_freed := 0
    tot_downstream_quit_server := 0
    tot_downstream_max_reached := 0
    tot_downstream_create_failed := 0
    tot_assign_downstream := 0
    tot_assign_upstream := 0
    tot_reset_upstream_avail := 0
    tot_oom := 0
    tot_retry := 0 }

/-- The function `cproxy_create`, for one worker thread: the proxy and the
freshly initialised `proxy_td`, with empty heaps.  The three entry asserts
(`name`, `port > 0`, `config`) are kept; `config` is a `char *` argument. -/
def cproxy_create (name : String) (port : Int) (config : Option String)
    (config_ver : Nat) (behavior : proxy_behavior) : Except Fault World :=
  if port ≤ 0 then .error .assert_failed
  else if config.isNone then .error .assert_failed
  else
    let p : proxy :=
      { name := name, port := port, config := config, config_ver := config_ver,
        behavior := behavior, listening := 0, listening_failed := 0 }
    let ptd : proxy_td :=
      { waiting_any_downstream_head := none
        waiting_any_downstream_tail := none
        downstream_reserved := none
        downstream_released := none
        downstream_tot := 0
        downstream_num := 0
        downstream_max := p.behavior.downstream_max
        downstream_assigns := 0
        timeout_tv := { tv_sec := 0, tv_usec := 0 }
        stats := cproxy_reset_stats { num_upstream := 0, num_downstream_conn := 0 } }
    .ok { proxy := p, ptd := ptd, ds := [], conns := [] }

/-- The loop of `downstream_list_remove`, with `prev` and `curr` as in the
source.  The first argument bounds the number of iterations. -/
def downstream_list_remove_loop (head : Option Nat) (d : Nat) :
    Nat → World → Option Nat → Option Nat → Except Fault (Option Nat × World)
  | _, w, _, none => .ok (head, w)
  | 0, _, _, some _ => .error .out_of_fuel
  | fuel + 1, w, prev, some c =>
    match w.get_d c with
    | none => .error .bad_pointer
    | some cd =>
      if c = d then
        match prev with
        | some p =>
          if some c = head then .error .assert_failed
          else
            match w.get_d p with
            | none => .error .bad_pointer
            | some pd => .ok (head, w.set_d p { pd with next := cd.next })
        | none =>
          if some c = head then .ok (cd.next, w) else .error .assert_failed
      else downstream_list_remove_loop head d fuel w (some c) cd.next

/-- The function `downstream_list_remove`: returns the new head. -/
def downstream_list_remove (w : World) (head : Option Nat) (d : Nat) :
    Except Fault (Option Nat × World) :=
  downstream_list_remove_loop head d w.ds.length w none head

/-- The function `cproxy_check_downstream_config`.  `strcmp(a, b) == 0` on two
C strings is equality of the strings. -/
def cproxy_check_downstream_config (w : World) (d : Nat) :
    Except Fault (Bool × World) :=
  match w.get_d d with
  | none => .error .bad_pointer
  | some dd =>
    if dd.config_ver = w.proxy.config_ver then .ok (true, w)
    else if dd.config ≠ none ∧ w.proxy.config ≠ none ∧ dd.config = w.proxy.config then
      .ok (true, w.set_d d
        { dd with config_ver := w.proxy.config_ver, behavior := w.proxy.behavior })
    else .ok (false, w)

/-- The loop `for (i = 0; i < n; i++) d->downstream_conns[i]->extra = NULL`
of `cproxy_free_downstream`, over the remaining slots. -/
def cproxy_free_downstream_extras : List (Option Nat) → World → Except Fault World
  | [], w => .ok w
  | none :: _, _ => .error .null_deref
  | some c :: rest, w =>
    match w.get_c c with
    | none => .error .bad_pointer
    | some cc => cproxy_free_downstream_extras rest (w.set_c c { cc with extra := none })

/-- The function `cproxy_free_downstream`. -/
def cproxy_free_downstream (w : World) (d : Nat) : Except Fault World :=
  match w.get_d d with
  | none => .error .bad_pointer
  | some dd =>
    if dd.upstream_conn ≠ none then .error .assert_failed
    else if dd.multiget ≠ none then .error .assert_failed
    else if dd.merger ≠ none then .error .assert_failed
    else if dd.timeout_tv.tv_sec ≠ 0 then .error .assert_failed
    else if dd.timeout_tv.tv_usec ≠ 0 then .error .assert_failed
    else do
      let w1 := w.set_stats
        { w.ptd.stats with tot_downstream_freed := w.ptd.stats.tot_downstream_freed + 1 }
      let (r, w2) ← downstream_list_remove w1 w1.ptd.downstream_reserved d
      let w3 := w2.set_ptd { w2.ptd with downstream_reserved := r }
      let (l, w4) ← downstream_list_remove w3 w3.ptd.downstream_released d
      let w5 := w4.set_ptd { w4.ptd with downstream_released := l }
      let w6 := w5.set_ptd { w5.ptd with downstream_num := w5.ptd.downstream_num - 1 }
      if w6.ptd.downstream_num < 0 then .error .assert_failed
      else
        match w6.get_d d with
        | none => .error .bad_pointer
        | some dd6 => do
          let w7 ← cproxy_free_downstream_extras dd6.downstream_conns w6
          .ok (w7.free_d d)

/-- Modelled from the spec: the host server's `conn_set_state`, which is not
part of the sources; it stores the new state in the connection. -/
def conn_set_state (w : World) (c : Nat) (s : conn_state) : Except Fault World :=
  match w.get_c c with
  | none => .error .bad_pointer
  | some cc => .ok (w.set_c c { cc with state := s })

/-- Modelled from the spec: the host server's `add_iov`, which is not part of
the sources; whether it succeeds is decided by the environment, and on
success the buffer is queued on the connection.  The result is `true` when
the C function returns 0. -/
def add_iov (env : Env) (w : World) (c : Nat) (buf : String) :
    Except Fault (Bool × World) :=
  match w.get_c c with
  | none => .error .bad_pointer
  | some cc =>
    if env.add_iov w c buf then .ok (true, w.set_c c { cc with iov := cc.iov ++ [buf] })
    else .ok (false, w)

/-- The function `cproxy_close_conn`: set the state to `conn_closing`, call
`update_event(c, 0)` (result unused) and run the host's `drive_machine`. -/
def cproxy_close_conn (env : Env) (w : World) (c : Nat) : Except Fault World := do
  let w1 ← conn_set_state w c conn_state.conn_closing
  .ok (env.drive_machine w1 c)

/-- Add one to `tot_oom`. -/
def World.incr_tot_oom (w : World) : World :=
  w.set_stats { w.ptd.stats with tot_oom := w.ptd.stats.tot_oom + 1 }

/-- First block of the loop body of `cproxy_release_downstream`:
`if (d->merger != NULL) { ... }`, writing the merged stats to the upstream
`uc` at the head of the list. -/
def cproxy_release_downstream_merger (env : Env) (d : Nat) (w : World)
    (dd : downstream) (uc : Nat) : Except Fault World :=
  if dd.merger ≠ none then
    let wa := env.protocol_stats_foreach_write w d uc
    if env.update_event wa uc then conn_set_state wa uc conn_state.conn_mwrite
    else cproxy_close_conn env wa.incr_tot_oom uc
  else .ok w

/-- Second block of the loop body of `cproxy_release_downstream`:
`if (d->upstream_suffix != NULL) { ... }`, the last write on the upstream at
the head of the list. -/
def cproxy_release_downstream_suffix (env : Env) (d : Nat) (w : World) :
    Except Fault World :=
  match w.get_d d with
  | none => .error .bad_pointer
  | some dd =>
    match dd.upstream_suffix with
    | none => .ok w
    | some suffix =>
      match dd.upstream_conn with
      | none => .error .null_deref
      | some uc =>
        match add_iov env w uc suffix with
        | .error f => .error f
        | .ok (true, wb) =>
          if env.update_event wb uc then conn_set_state wb uc conn_state.conn_mwrite
          else cproxy_close_conn env wb.incr_tot_oom uc
        | .ok (false, wb) => cproxy_close_conn env wb.incr_tot_oom uc

/-- Last block of the loop body of `cproxy_release_downstream`:
`curr = d->upstream_conn; d->upstream_conn = d->upstream_conn->next;
curr->next = NULL`. -/
def cproxy_release_downstream_pop (d : Nat) (w : World) : Except Fault World :=
  match w.get_d d with
  | none => .error .bad_pointer
  | some dd =>
    match dd.upstream_conn with
    | none => .error .null_deref
    | some curr =>
      match w.get_c curr with
      | none => .error .bad_pointer
      | some cc =>
        .ok ((w.set_d d { dd with upstream_conn := cc.next }).set_c curr { cc with next := none })

/-- One pass of the body of the `while (d->upstream_conn != NULL)` loop of
`cproxy_release_downstream`, for the current head `uc` of the list. -/
def cproxy_release_downstream_delink_body (env : Env) (d : Nat) (w : World)
    (dd : downstream) (uc : Nat) : Except Fault World :=
  match cproxy_release_downstream_merger env d w dd uc with
  | .error f => .error f
  | .ok w1 =>
    match cproxy_release_downstream_suffix env d w1 with
    | .error f => .error f
    | .ok w2 => cproxy_release_downstream_pop d w2

/-- The loop `while (d->upstream_conn != NULL)` of
`cproxy_release_downstream` ("Delink upstream conns").  The first argument
bounds the number of iterations. -/
def cproxy_release_downstream_delink (env : Env) (d : Nat) :
    Nat → World → Except Fault World
  | fuel, w =>
    match w.get_d d with
    | none => .error .bad_pointer
    | some dd =>
      match dd.upstream_conn with
      | none => .ok w
      | some uc =>
        match fuel with
        | 0 => .error .out_of_fuel
        | fuel + 1 =>
          match cproxy_release_downstream_delink_body env d w dd uc with
          | .error f => .error f
          | .ok w1 => cproxy_release_downstream_delink env d fuel w1

/-- The function `cproxy_release_downstream`.  The result is the returned
`bool` and the new state. -/
def cproxy_release_downstream (env : Env) (w : World) (d : Nat) (force : Bool) :
    Except Fault (Bool × World) :=
  match w.get_d d with
  | none => .error .bad_pointer
  | some _ => do
    let w0 := w.set_stats
      { w.ptd.stats with tot_downstream_released := w.ptd.stats.tot_downstream_released + 1 }
    let w1 ← cproxy_release_downstream_delink env d (w0.conns.length + 1) w0
    match w1.get_d d with
    | none => .error .bad_pointer
    | some dd1 =>
      let w2 := w1.set_d d
        { dd1 with
          timeout_tv := { tv_sec := 0, tv_usec := 0 }
          upstream_conn := none
          upstream_suffix := none
          downstream_used := 0
          downstream_used_start := 0
          multiget := none
          merger := none }
      let (ok, w3) ← cproxy_check_downstream_config w2 d
      if ok || force then
        let (r, w4) ← downstream_list_remove w3 w3.ptd.downstream_reserved d
        let w5 := w4.set_ptd { w4.ptd with downstream_reserved := r }
        let (l, w6) ← downstream_list_remove w5 w5.ptd.downstream_released d
        let w7 := w6.set_ptd { w6.ptd with downstream_released := l }
        match w7.get_d d with
        | none => .error .bad_pointer
        | some dd7 =>
          let w8 := w7.set_d d { dd7 with next := w7.ptd.downstream_released }
          .ok (true, w8.set_ptd { w8.ptd with downstream_released := some d })
      else
        let w4 ← cproxy_free_downstream w3 d
        .ok (false, w4)

/-- The function `cproxy_create_downstream`: `calloc` zeroes every field, so
the new struct has `next`, the scratch fields and every socket slot `NULL`.
The result is the address of the new struct, or `NULL`. -/
def cproxy_create_downstream (env : Env) (w : World) (config : String)
    (config_ver : Nat) (behavior : proxy_behavior) : Option Nat × World :=
  if env.calloc_downstream w then
    if env.memcached_create w then
      match env.memcached_servers_parse config with
      | some nconns =>
        if env.calloc_conns w nconns then
          let d : downstream :=
            { config := some config, config_ver := config_ver, behavior := behavior,
              downstream_conns := List.replicate nconns none }
          (some w.ds.length, { w with ds := w.ds ++ [some d] })
        else (none, w)
      | none => (none, w)
    else (none, w)
  else (none, w)

/-- The function `cproxy_add_downstream`. -/
def cproxy_add_downstream (env : Env) (w : World) : Except Fault World :=
  if w.ptd.downstream_num < w.ptd.downstream_max then
    match w.proxy.config with
    | some config =>
      match cproxy_create_downstream env w config w.proxy.config_ver w.proxy.behavior with
      | (some d, w1) => do
        let w2 := w1.set_ptd
          { w1.ptd with
            downstream_tot := w1.ptd.downstream_tot + 1
            downstream_num := w1.ptd.downstream_num + 1 }
        let (_, w3) ← cproxy_release_downstream env w2 d true
        .ok w3
      | (none, w1) =>
        .ok (w1.set_stats
          { w1.ptd.stats with
            tot_downstream_create_failed := w1.ptd.stats.tot_downstream_create_failed + 1 })
    | none => .ok w
  else
    .ok (w.set_stats
      { w.ptd.stats with
        tot_downstream_max_reached := w.ptd.stats.tot_downstream_max_reached + 1 })

/-- One pass of the body of the loop `while (true)` of
`cproxy_reserve_downstream`.  The first component of the result is `some r`
when the body executes `return r`, and `none` when it reaches the end of the
body (after `cproxy_free_downstream(d)`) and the loop goes round again. -/
def cproxy_reserve_downstream_body (env : Env) (w : World) :
    Except Fault (Option (Option Nat) × World) := do
  let w1 ← if w.ptd.downstream_released = none then cproxy_add_downstream env w else pure w
  match w1.ptd.downstream_released with
  | none => .ok (some none, w1)
  | some d =>
    match w1.get_d d with
    | none => .error .bad_pointer
    | some dd =>
      let w2 := w1.set_ptd { w1.ptd with downstream_released := dd.next }
      if dd.upstream_conn ≠ none then .error .assert_failed
      else if dd.upstream_suffix ≠ none then .error .assert_failed
      else if dd.downstream_used ≠ 0 then .error .assert_failed
      else if dd.downstream_used_start ≠ 0 then .error .assert_failed
      else if dd.multiget ≠ none then .error .assert_failed
      else if dd.merger ≠ none then .error .assert_failed
      else if dd.timeout_tv.tv_sec ≠ 0 then .error .assert_failed
      else if dd.timeout_tv.tv_usec ≠ 0 then .error .assert_failed
      else
        let w3 := w2.set_d d
          { dd with
            upstream_conn := none
            upstream_suffix := none
            downstream_used := 0
            downstream_used_start := 0
            multiget := none
            merger := none
            timeout_tv := { tv_sec := 0, tv_usec := 0 } }
        match cproxy_check_downstream_config w3 d with
        | .error f => .error f
        | .ok (true, w4) => do
          let (r, w5) ← downstream_list_remove w4 w4.ptd.downstream_reserved d
          let w6 := w5.set_ptd { w5.ptd with downstream_reserved := r }
          let (l, w7) ← downstream_list_remove w6 w6.ptd.downstream_released d
          let w8 := w7.set_ptd { w7.ptd with downstream_released := l }
          match w8.get_d d with
          | none => .error .bad_pointer
          | some dd8 =>
            let w9 := w8.set_d d { dd8 with next := w8.ptd.downstream_reserved }
            let w10 := w9.set_ptd { w9.ptd with downstream_reserved := some d }
            .ok (some (some d), w10.set_stats
              { w10.ptd.stats with
                tot_downstream_reserved := w10.ptd.stats.tot_downstream_reserved + 1 })
        | .ok (false, w4) => do
          let w5 ← cproxy_free_downstream w4 d
          .ok (none, w5)

/-- The loop `while (true)` of `cproxy_reserve_downstream`.  The first
argument bounds the number of iterations.  The result is the returned
pointer and the new state. -/
def cproxy_reserve_downstream_loop (env : Env) :
    Nat → World → Except Fault (Option Nat × World)
  | 0, _ => .error .out_of_fuel
  | fuel + 1, w =>
    match cproxy_reserve_downstream_body env w with
    | .error f => .error f
    | .ok (some r, w1) => .ok (r, w1)
    | .ok (none, w1) => cproxy_reserve_downstream_loop env fuel w1

/-- The function `cproxy_reserve_downstream`. -/
def cproxy_reserve_downstream (env : Env) (w : World) :
    Except Fault (Option Nat × World) :=
  cproxy_reserve_downstream_loop env (w.ds.length + 1) w

/-! ## Lists threaded through the heaps -/

/-- The `next` link of the `downstream` at an address: `none` when the cell
is freed or unallocated. -/
def World.dnext (w : World) (a : Nat) : Option (Option Nat) :=
  (w.get_d a).map (fun dd => dd.next)

/-- The `next` link of the `conn` at an address. -/
def World.cnext (w : World) (a : Nat) : Option (Option Nat) :=
  (w.get_c a).map (fun cc => cc.next)

/-- `IsChain nxt head xs`: following the links `nxt` from `head` visits
exactly the addresses `xs`, in order, and then reaches `NULL`. -/
inductive IsChain (nxt : Nat → Option (Option Nat)) : Option Nat → List Nat → Prop
  | nil : IsChain nxt none []
  | cons {a : Nat} {p : Option Nat} {xs : List Nat} :
      nxt a = some p → IsChain nxt p xs → IsChain nxt (some a) (a :: xs)

/-- Walk the links from `head` for at most the given number of cells; the
result is the list of addresses visited, or `none` when the walk meets a dead
cell or does not reach `NULL` within the bound. -/
def walk (nxt : Nat → Option (Option Nat)) : Nat → Option Nat → Option (List Nat)
  | _, none => some []
  | 0, some _ => none
  | n + 1, some a =>
    match nxt a with
    | none => none
    | some p => (walk nxt n p).map (fun xs => a :: xs)

/-- The reserved list of the `proxy_td`, read off the heap. -/
def World.reserved_list (w : World) : Option (List Nat) :=
  walk w.dnext w.ds.length w.ptd.downstream_reserved

/-- The released list of the `proxy_td`, read off the heap. -/
def World.released_list (w : World) : Option (List Nat) :=
  walk w.dnext w.ds.length w.ptd.downstream_released

/-- The list of upstream connections attached to a downstream, read off the
heap. -/
def World.upstream_list (w : World) (dd : downstream) : Option (List Nat) :=
  walk w.cnext w.conns.length dd.upstream_conn

/-- The wait queue of the `proxy_td`, read off the heap from its head. -/
def World.wait_queue (w : World) : Option (List Nat) :=
  walk w.cnext w.conns.length w.ptd.waiting_any_downstream_head

/-- The per-request scratch fields are in their released state: the values
asserted at the start of `cproxy_reserve_downstream`. -/
def downstream.scratch_clear (dd : downstream) : Prop :=
  dd.upstream_conn = none ∧ dd.upstream_suffix = none ∧ dd.downstream_used = 0 ∧
  dd.downstream_used_start = 0 ∧ dd.multiget = none ∧ dd.merger = none ∧
  dd.timeout_tv.tv_sec = 0 ∧ dd.timeout_tv.tv_usec = 0

instance (dd : downstream) : Decidable dd.scratch_clear := by
  unfold downstream.scratch_clear; infer_instance

/-- The validity criterion of a downstream against the proxy configuration:
the versions match, or both config strings are present and equal. -/
def config_valid (p : proxy) (dd : downstream) : Prop :=
  dd.config_ver = p.config_ver ∨
    (dd.config ≠ none ∧ p.config ≠ none ∧ dd.config = p.config)

instance (p : proxy) (dd : downstream) : Decidable (config_valid p dd) := by
  unfold config_valid; infer_instance

/-- Every socket slot of the downstream holds a connection of the heap: the
condition under which the loop clearing `extra` in `cproxy_free_downstream`
dereferences no `NULL` slot. -/
def World.slots_connected (w : World) (dd : downstream) : Prop :=
  ∀ s ∈ dd.downstream_conns, ∃ c, s = some c ∧ c < w.conns.length

/-- Two states agree on everything but the contents of the connections,
whose number and `next` links are the same. -/
def same_pool (w w1 : World) : Prop :=
  w1.proxy = w.proxy ∧ w1.ptd = w.ptd ∧ w1.ds = w.ds ∧
  w1.conns.length = w.conns.length ∧ ∀ c, w1.cnext c = w.cnext c

/-- Assumption on the host server: `drive_machine` and the stats writer only
change the contents of connections; they leave the proxy, the `proxy_td`,
the downstreams and the `next` links of the connections alone. -/
def Env.frame (env : Env) : Prop :=
  (∀ w c, same_pool w (env.drive_machine w c)) ∧
  (∀ w d c, same_pool w (env.protocol_stats_foreach_write w d c))

/-- The pool is well formed: the two lists are proper lists of the heap with
no element in common, and every live downstream is on one of them. -/
structure pool_wf (w : World) (rs ls : List Nat) : Prop where
  reserved : IsChain w.dnext w.ptd.downstream_reserved rs
  released : IsChain w.dnext w.ptd.downstream_released ls
  disjoint : ∀ a, a ∈ rs → a ∉ ls
  live : ∀ a, w.get_d a ≠ none → a ∈ rs ∨ a ∈ ls

/-- What the code outside the pool operations may do between two of them:
it may change the contents of downstreams and connections, the wait queue
and the statistics; it leaves alone the proxy, the pool fields of the
`proxy_td`, which cells are live and every `next` link of a downstream. -/
def use_step (w w1 : World) : Prop :=
  w1.proxy = w.proxy ∧
  w1.ptd.downstream_reserved = w.ptd.downstream_reserved ∧
  w1.ptd.downstream_released = w.ptd.downstream_released ∧
  w1.ptd.downstream_num = w.ptd.downstream_num ∧
  w1.ptd.downstream_max = w.ptd.downstream_max ∧
  w1.ds.length = w.ds.length ∧
  (∀ a, w1.dnext a = w.dnext a)

/-- One step of the pool: one of the four pool operations returning
normally, a change of the proxy configuration, or a `use_step`. -/
inductive pool_step (env : Env) : World → World → Prop
  | add {w w1 : World} : cproxy_add_downstream env w = .ok w1 → pool_step env w w1
  | reserve {w w1 : World} {r : Option Nat} :
      cproxy_reserve_downstream env w = .ok (r, w1) → pool_step env w w1
  | release {w w1 : World} {b : Bool} (d : Nat) (force : Bool) :
      cproxy_release_downstream env w d force = .ok (b, w1) → pool_step env w w1
  | free {w w1 : World} (d : Nat) :
      cproxy_free_downstream w d = .ok w1 → pool_step env w w1
  | config {w : World} (config : Option String) (config_ver : Nat)
      (behavior : proxy_behavior) :
      pool_step env w
        { w with proxy :=
          { w.proxy with config := config, config_ver := config_ver, behavior := behavior } }
  | use {w w1 : World} : use_step w w1 → pool_step env w w1

/-- States reachable from a given one by pool steps. -/
inductive pool_reachable (env : Env) (w0 : World) : World → Prop
  | init : pool_reachable env w0 w0
  | step {w w1 : World} : pool_reachable env w0 w → pool_step env w w1 →
      pool_reachable env w0 w1

/-- `relinked w w1 xs d`: the state `w1` is `w` with at most one `next` link
rewritten, in a cell of `xs` other than `d`. -/
def relinked (w w1 : World) (xs : List Nat) (d : Nat) : Prop :=
  w1 = w ∨ ∃ q qd n, q ∈ xs ∧ q ≠ d ∧ w.get_d q = some qd ∧
    w1 = w.set_d q { qd with next := n }

/-- A downstream with its `next` link blanked: what the list operations never
change. -/
def downstream.payload (dd : downstream) : downstream :=
  { dd with next := none }

/-- `same_links w w1`: the two states differ at most in the contents of
connections other than their `next` links, and in the counter `tot_oom`. -/
def same_links (w w1 : World) : Prop :=
  w1.proxy = w.proxy ∧ w1.ds = w.ds ∧ w1.conns.length = w.conns.length ∧
  (∀ c, w1.cnext c = w.cnext c) ∧
  ∃ n, w1.ptd = { w.ptd with stats := { w.ptd.stats with tot_oom := n } }

/-- `delinked d w w1`: what the loop delinking the upstreams of `d` may
change: connections, the counter `tot_oom` and the field `upstream_conn` of
`d`. -/
def delinked (d : Nat) (w w1 : World) : Prop :=
  w1.proxy = w.proxy ∧ w1.ds.length = w.ds.length ∧ w1.conns.length = w.conns.length ∧
  (∀ a, a ≠ d → w1.get_d a = w.get_d a) ∧
  (∃ dd u, w.get_d d = some dd ∧ w1.get_d d = some { dd with upstream_conn := u }) ∧
  ∃ n, w1.ptd = { w.ptd with stats := { w.ptd.stats with tot_oom := n } }

/-- The entry assertions of `cproxy_free_downstream` on the scratch fields. -/
def downstream.free_ready (dd : downstream) : Prop :=
  dd.upstream_conn = none ∧ dd.multiget = none ∧ dd.merger = none ∧
  dd.timeout_tv.tv_sec = 0 ∧ dd.timeout_tv.tv_usec = 0

instance (dd : downstream) : Decidable dd.free_ready := by
  unfold downstream.free_ready; infer_instance

/-- Outcome of a `cproxy_free_downstream` of `d` that returns, from a state
whose lists are `rs` and `ls`. -/
structure freed (w : World) (d : Nat) (rs ls : List Nat) (w1 : World) : Prop where
  ptd : ∃ r l, w1.ptd = { w.ptd with
    downstream_reserved := r
    downstream_released := l
    downstream_num := w.ptd.downstream_num - 1
    stats := { w.ptd.stats with
      tot_downstream_freed := w.ptd.stats.tot_downstream_freed + 1 } }
  proxy : w1.proxy = w.proxy
  ds_length : w1.ds.length = w.ds.length
  conns_length : w1.conns.length = w.conns.length
  cnext : ∀ c, w1.cnext c = w.cnext c
  reserved : IsChain w1.dnext w1.ptd.downstream_reserved (rs.erase d)
  released : IsChain w1.dnext w1.ptd.downstream_released (ls.erase d)
  dead : w1.get_d d = none
  payload : ∀ a, a ≠ d →
    (w1.get_d a).map downstream.payload = (w.get_d a).map downstream.payload
  off : ∀ a, a ∉ rs → a ∉ ls → a ≠ d → w1.get_d a = w.get_d a

/-- Outcome of a `cproxy_release_downstream` of `d` that returns `true`, from
a state whose lists are `rs` and `ls` and where the cell of `d` was `dd`. -/
structure repooled (w : World) (d : Nat) (dd : downstream) (rs ls : List Nat)
    (w1 : World) : Prop where
  ptd : ∃ r n, w1.ptd = { w.ptd with
    downstream_reserved := r
    downstream_released := some d
    stats := { w.ptd.stats with
      tot_downstream_released := w.ptd.stats.tot_downstream_released + 1
      tot_oom := n } }
  proxy : w1.proxy = w.proxy
  ds_length : w1.ds.length = w.ds.length
  conns_length : w1.conns.length = w.conns.length
  reserved : IsChain w1.dnext w1.ptd.downstream_reserved (rs.erase d)
  released : IsChain w1.dnext w1.ptd.downstream_released (d :: ls.erase d)
  cell : ∃ dd1, w1.get_d d = some dd1 ∧ dd1.scratch_clear ∧ dd1.config = dd.config ∧
    dd1.downstream_conns = dd.downstream_conns ∧
    (config_valid w.proxy dd → dd1.config_ver = w.proxy.config_ver) ∧
    (¬ config_valid w.proxy dd → dd1.config_ver = dd.config_ver)
  payload : ∀ a, a ≠ d →
    (w1.get_d a).map downstream.payload = (w.get_d a).map downstream.payload
  off : ∀ a, a ∉ rs → a ∉ ls → a ≠ d → w1.get_d a = w.get_d a
  conns : dd.upstream_conn = none → w1.conns = w.conns

/-- Outcome of a `cproxy_release_downstream` of `d` that returns `false`, from
a state whose lists are `rs` and `ls` and where the cell of `d` was `dd`. -/
structure dropped (w : World) (d : Nat) (dd : downstream) (rs ls : List Nat)
    (w1 : World) : Prop where
  ptd : ∃ r l n, w1.ptd = { w.ptd with
    downstream_reserved := r
    downstream_released := l
    downstream_num := w.ptd.downstream_num - 1
    stats := { w.ptd.stats with
      tot_downstream_released := w.ptd.stats.tot_downstream_released + 1
      tot_oom := n
      tot_downstream_freed := w.ptd.stats.tot_downstream_freed + 1 } }
  proxy : w1.proxy = w.proxy
  ds_length : w1.ds.length = w.ds.length
  conns_length : w1.conns.length = w.conns.length
  reserved : IsChain w1.dnext w1.ptd.downstream_reserved (rs.erase d)
  released : IsChain w1.dnext w1.ptd.downstream_released (ls.erase d)
  dead : w1.get_d d = none
  payload : ∀ a, a ≠ d →
    (w1.get_d a).map downstream.payload = (w.get_d a).map downstream.payload
  off : ∀ a, a ∉ rs → a ∉ ls → a ≠ d → w1.get_d a = w.get_d a
  cnext : dd.upstream_conn = none → ∀ c, w1.cnext c = w.cnext c

/-- Outcome of a `cproxy_add_downstream` that creates a downstream, at the
address `w.ds.length`, from a state whose lists are `rs` and `ls`. -/
structure added (w : World) (rs ls : List Nat) (w1 : World) : Prop where
  room : w.ptd.downstream_num < w.ptd.downstream_max
  ptd : ∃ n, w1.ptd = { w.ptd with
    downstream_released := some w.ds.length
    downstream_tot := w.ptd.downstream_tot + 1
    downstream_num := w.ptd.downstream_num + 1
    stats := { w.ptd.stats with
      tot_downstream_released := w.ptd.stats.tot_downstream_released + 1
      tot_oom := n } }
  proxy : w1.proxy = w.proxy
  ds_length : w1.ds.length = w.ds.length + 1
  conns : w1.conns = w.conns
  reserved : IsChain w1.dnext w1.ptd.downstream_reserved rs
  released : IsChain w1.dnext w1.ptd.downstream_released (w.ds.length :: ls)
  cell : ∃ dd1 n, w1.get_d w.ds.length = some dd1 ∧ dd1.scratch_clear ∧
    dd1.config = w.proxy.config ∧ dd1.config ≠ none ∧
    dd1.config_ver = w.proxy.config_ver ∧ dd1.downstream_conns = List.replicate n none
  payload : ∀ a, a ≠ w.ds.length →
    (w1.get_d a).map downstream.payload = (w.get_d a).map downstream.payload
  off : ∀ a, a ∉ rs → a ∉ ls → a ≠ w.ds.length → w1.get_d a = w.get_d a

/-- Outcome of a `cproxy_reserve_downstream` that returns the downstream `d`,
from a state whose lists are `rs` and `ls`: the downstreams `stale` were
popped and freed before `d`, and `rest` is what remains of the released
list.  `fresh` tells whether `d` was created by this call. -/
structure reserved_some (w : World) (rs ls : List Nat) (d : Nat) (w1 : World)
    (stale rest : List Nat) (fresh : Bool) : Prop where
  split : (fresh = false ∧ ls = stale ++ d :: rest) ∨
    (fresh = true ∧ ls = stale ∧ rest = [] ∧ d = w.ds.length)
  stale_invalid : ∀ a, a ∈ stale → ∃ dd, w.get_d a = some dd ∧ ¬ config_valid w.proxy dd
  stale_dead : ∀ a, a ∈ stale → w1.get_d a = none
  reserved : IsChain w1.dnext w1.ptd.downstream_reserved (d :: rs)
  released : IsChain w1.dnext w1.ptd.downstream_released rest
  cell : ∃ dd1, w1.get_d d = some dd1 ∧ dd1.scratch_clear ∧
    dd1.config_ver = w.proxy.config_ver ∧
    (fresh = true → dd1.config = w.proxy.config ∧ dd1.config ≠ none) ∧
    (fresh = false → ∃ dd, w.get_d d = some dd ∧ config_valid w.proxy dd ∧
      dd1.config = dd.config ∧ dd1.downstream_conns = dd.downstream_conns)
  proxy : w1.proxy = w.proxy
  ptd : ∃ r l st, w1.ptd = { w.ptd with
      downstream_reserved := r
      downstream_released := l
      downstream_tot := w.ptd.downstream_tot + (if fresh then 1 else 0)
      downstream_num := w.ptd.downstream_num - stale.length + (if fresh then 1 else 0)
      stats := st } ∧
    st.tot_downstream_reserved = w.ptd.stats.tot_downstream_reserved + 1 ∧
    st.tot_downstream_freed = w.ptd.stats.tot_downstream_freed + stale.length
  room : fresh = true → w.ptd.downstream_num - stale.length < w.ptd.downstream_max
  ds_length : w1.ds.length = w.ds.length + (if fresh then 1 else 0)
  conns_length : w1.conns.length = w.conns.length
  cnext : ∀ c, w1.cnext c = w.cnext c
  payload : ∀ a, a ∉ stale → a ≠ d →
    (w1.get_d a).map downstream.payload = (w.get_d a).map downstream.payload

/-- Outcome of a `cproxy_reserve_downstream` that returns `NULL`, from a
state whose lists are `rs` and `ls`: every released downstream was popped and
freed, and none could be added. -/
structure reserved_none (w : World) (rs ls : List Nat) (w1 : World) : Prop where
  stale_invalid : ∀ a, a ∈ ls → ∃ dd, w.get_d a = some dd ∧ ¬ config_valid w.proxy dd
  stale_dead : ∀ a, a ∈ ls → w1.get_d a = none
  reserved : IsChain w1.dnext w1.ptd.downstream_reserved rs
  released : w1.ptd.downstream_released = none
  proxy : w1.proxy = w.proxy
  ptd : ∃ r st, w1.ptd = { w.ptd with
      downstream_reserved := r
      downstream_released := none
      downstream_num := w.ptd.downstream_num - ls.length
      stats := st } ∧
    st.tot_downstream_reserved = w.ptd.stats.tot_downstream_reserved ∧
    st.tot_downstream_freed = w.ptd.stats.tot_downstream_freed + ls.length
  ds_length : w1.ds.length = w.ds.length
  conns_length : w1.conns.length = w.conns.length
  cnext : ∀ c, w1.cnext c = w.cnext c
  payload : ∀ a, a ∉ ls →
    (w1.get_d a).map downstream.payload = (w.get_d a).map downstream.payload

/-- Outcome of one pass of the loop of `cproxy_reserve_downstream` that pops
the stale downstream `d`, frees it and goes round again. -/
structure reserved_skip (w : World) (rs : List Nat) (d : Nat) (rest : List Nat)
    (w1 : World) : Prop where
  invalid : ∃ dd, w.get_d d = some dd ∧ ¬ config_valid w.proxy dd
  dead : w1.get_d d = none
  reserved : IsChain w1.dnext w1.ptd.downstream_reserved rs
  released : IsChain w1.dnext w1.ptd.downstream_released rest
  proxy : w1.proxy = w.proxy
  ptd : ∃ r l, w1.ptd = { w.ptd with
      downstream_reserved := r
      downstream_released := l
      downstream_num := w.ptd.downstream_num - 1
      stats := { w.ptd.stats with
        tot_downstream_freed := w.ptd.stats.tot_downstream_freed + 1 } }
  ds_length : w1.ds.length = w.ds.length
  conns_length : w1.conns.length = w.conns.length
  cnext : ∀ c, w1.cnext c = w.cnext c
  payload : ∀ a, a ≠ d →
    (w1.get_d a).map downstream.payload = (w.get_d a).map downstream.payload

/-! ## Concrete states used as examples -/

/-- An environment in which every host call succeeds and changes nothing,
and every server list has one host. -/
def quiet_env : Env :=
  { update_event := fun _ _ => true
    add_iov := fun _ _ _ => true
    drive_machine := fun w _ => w
    protocol_stats_foreach_write := fun w _ _ => w
    calloc_downstream := fun _ => true
    memcached_create := fun _ => true
    memcached_servers_parse := fun _ => some 1
    calloc_conns := fun _ _ => true
    propagate_downstream := fun w _ => (true, w) }

/-- The state built by `cproxy_create "moxi" 11211 "a:11211" 1` with a pool
cap of 2. -/
def created_world : World :=
  { proxy :=
      { name := "moxi", port := 11211, config := some "a:11211", config_ver := 1,
        behavior := { nthreads := 4, downstream_max := 2 } }
    ptd := { downstream_max := 2 } }

/-- The state built by `cproxy_create` with a pool cap of -1. -/
def negative_cap_world : World :=
  { proxy :=
      { name := "moxi", port := 11211, config := some "a:11211", config_ver := 1,
        behavior := { nthreads := 4, downstream_max := -1 } }
    ptd := { downstream_max := -1 } }

/-- The state `created_world` after one `cproxy_add_downstream`: one released
downstream at address 0. -/
def one_released_world : World :=
  { created_world with
    ptd :=
      { downstream_max := 2, downstream_released := some 0, downstream_tot := 1,
        downstream_num := 1, stats := { tot_downstream_released := 1 } }
    ds := [some { config := some "a:11211", config_ver := 1,
                  behavior := { nthreads := 4, downstream_max := 2 },
                  downstream_conns := [none] }] }

/-- The state `one_released_world` after one `cproxy_reserve_downstream`: the
downstream at address 0 is reserved. -/
def one_reserved_world : World :=
  { one_released_world with
    ptd :=
      { downstream_max := 2, downstream_reserved := some 0, downstream_tot := 1,
        downstream_num := 1,
        stats := { tot_downstream_released := 1, tot_downstream_reserved := 1 } } }

/-- The state `one_reserved_world` after the proxy was given a new
configuration: the reserved downstream at address 0 is stale, and its only
socket slot was never connected. -/
def stale_reserved_world : World :=
  { one_reserved_world with
    proxy := { one_reserved_world.proxy with config := some "b:11211", config_ver := 2 } }

/-- A state with one released downstream at address 0 that is stale (the
proxy has moved to version 2 and another server list) and whose only socket
slot holds the connection 0. -/
def stale_pooled_world : World :=
  { proxy :=
      { name := "moxi", port := 11211, config := some "b:11211", config_ver := 2,
        behavior := { nthreads := 4, downstream_max := 2 } }
    ptd :=
      { downstream_max := 2, downstream_released := some 0, downstream_tot := 1,
        downstream_num := 1, stats := { tot_downstream_released := 1 } }
    ds := [some { config := some "a:11211", config_ver := 1,
                  behavior := { nthreads := 4, downstream_max := 2 },
                  downstream_conns := [some 0] }]
    conns := [{ extra := some 0, state := conn_state.conn_pause }] }

/-! ## The pairing engine -/

/-- Modelled from the spec: the host server's `out_string`, which is not part
of the sources; it queues one line of text on the connection. -/
def out_string (w : World) (c : Nat) (line : String) : Except Fault World :=
  match w.get_c c with
  | none => .error .bad_pointer
  | some cc => .ok (w.set_c c { cc with out := cc.out ++ [line] })

/-- The C test `strncmp(s, lit, n) == 0` for a literal `lit` of `n`
characters: the first `n` characters of `s` are those of `lit`. -/
def strncmp_eq (s lit : String) : Bool :=
  s.toList.take lit.length == lit.toList

/-- The function `upstream_error`.  `uc->extra` is the `proxy_td` of the
upstream. -/
def upstream_error (env : Env) (w : World) (uc : Nat) : Except Fault World :=
  match w.get_c uc with
  | none => .error .bad_pointer
  | some cc =>
    if cc.state ≠ conn_state.conn_pause then .error .assert_failed
    else if cc.extra = none then .error .assert_failed
    else
      let line :=
        if cc.cmd = -1 ∧ (match cc.cmd_start with
            | none => false
            | some s => strncmp_eq s "get") = true
        then "END" else "SERVER_ERROR proxy write to downstream"
      match out_string w uc line with
      | .error f => .error f
      | .ok w1 =>
        if env.update_event w1 uc then .ok w1
        else cproxy_close_conn env w1.incr_tot_oom uc

/-- The function `is_compatible_request`.  The asserts on the protocol of the
connections are not modelled (the protocol macros are not part of the
sources); the asserts on the state and on `item` are. -/
def is_compatible_request (w : World) (existing : Nat) (candidate : Option Nat) :
    Except Fault Bool :=
  match w.get_c existing with
  | none => .error .bad_pointer
  | some ex =>
    if ex.state ≠ conn_state.conn_pause then .error .assert_failed
    else
      match candidate with
      | none => .ok false
      | some cand =>
        match w.get_c cand with
        | none => .error .bad_pointer
        | some ca =>
          if ca.state ≠ conn_state.conn_pause then .error .assert_failed
          else if ex.cmd = -1 ∧ ca.cmd = -1 ∧ ex.cmd_retries ≤ 0 ∧ ca.cmd_retries ≤ 0 ∧
              ex.noreply = false ∧ ca.noreply = false then
            match ex.cmd_start with
            | none => .error .null_deref
            | some es =>
              if strncmp_eq es "get " then
                match ca.cmd_start with
                | none => .error .null_deref
                | some cs =>
                  if strncmp_eq cs "get " then
                    if ex.item ≠ none then .error .assert_failed
                    else if ca.item ≠ none then .error .assert_failed
                    else .ok true
                  else .ok false
              else .ok false
          else .ok false

/-- Pop the head of the wait queue, as both loops of
`cproxy_assign_downstream` do: `head = head->next; if (head == NULL) tail =
NULL`. -/
def wait_queue_advance (w : World) : Except Fault World :=
  match w.ptd.waiting_any_downstream_head with
  | none => .error .null_deref
  | some h =>
    match w.get_c h with
    | none => .error .bad_pointer
    | some hc =>
      let w1 := w.set_ptd { w.ptd with waiting_any_downstream_head := hc.next }
      if w1.ptd.waiting_any_downstream_head = none then
        .ok (w1.set_ptd { w1.ptd with waiting_any_downstream_tail := none })
      else .ok w1

/-- The loop `while (is_compatible_request(uc_last, head))` of
`cproxy_assign_downstream`, which appends compatible upstreams to the list
ending in `uc_last`.  The first argument bounds the number of iterations. -/
def cproxy_assign_downstream_squash : Nat → World → Nat → Except Fault World
  | 0, w, uc_last =>
    match is_compatible_request w uc_last w.ptd.waiting_any_downstream_head with
    | .error f => .error f
    | .ok false => .ok w
    | .ok true => .error .out_of_fuel
  | fuel + 1, w, uc_last =>
    match is_compatible_request w uc_last w.ptd.waiting_any_downstream_head with
    | .error f => .error f
    | .ok false => .ok w
    | .ok true =>
      match w.get_c uc_last with
      | none => .error .bad_pointer
      | some lc =>
        let w1 := w.set_c uc_last { lc with next := w.ptd.waiting_any_downstream_head }
        match wait_queue_advance w1 with
        | .error f => .error f
        | .ok w2 =>
          match w2.get_c uc_last with
          | none => .error .bad_pointer
          | some lc2 =>
            match lc2.next with
            | none => .error .null_deref
            | some nxt =>
              match w2.get_c nxt with
              | none => .error .bad_pointer
              | some nc =>
                let w3 := w2.set_c nxt { nc with next := none }
                let w4 := w3.set_stats
                  { w3.ptd.stats with
                    tot_assign_upstream := w3.ptd.stats.tot_assign_upstream + 1 }
                cproxy_assign_downstream_squash fuel w4 nxt

/-- The loop `while (d->upstream_conn != NULL)` in the failure branch of
`cproxy_assign_downstream`: `upstream_error` on every attached upstream,
unlinking each.  The first argument bounds the number of iterations. -/
def cproxy_assign_downstream_errors (env : Env) (d : Nat) :
    Nat → World → Except Fault World
  | fuel, w =>
    match w.get_d d with
    | none => .error .bad_pointer
    | some dd =>
      match dd.upstream_conn with
      | none => .ok w
      | some uc =>
        match fuel with
        | 0 => .error .out_of_fuel
        | fuel + 1 =>
          match upstream_error env w uc with
          | .error f => .error f
          | .ok w1 =>
            match cproxy_release_downstream_pop d w1 with
            | .error f => .error f
            | .ok w2 => cproxy_assign_downstream_errors env d fuel w2

/-- The upstream list attached to the downstream at address `d`, read off
the heap (`none` when the cell is dead or the list is not proper). -/
def World.upstream_list_at (w : World) (d : Nat) : Option (List Nat) :=
  match w.get_d d with
  | none => none
  | some dd => w.upstream_list dd

/-- The part of the loop body of `cproxy_assign_downstream` between the
reserve and the call of `propagate_downstream`: the asserts on the reserved
downstream `d`, the assignment of the first waiting upstream to it, and the
loop adding the compatible upstreams. -/
def cproxy_assign_downstream_pair (w1 : World) (d : Nat) : Except Fault World :=
  match w1.get_d d with
  | none => .error .bad_pointer
  | some dd =>
    if dd.upstream_conn ≠ none then .error .assert_failed
    else if dd.downstream_used ≠ 0 then .error .assert_failed
    else if dd.downstream_used_start ≠ 0 then .error .assert_failed
    else if dd.multiget ≠ none then .error .assert_failed
    else if dd.merger ≠ none then .error .assert_failed
    else if dd.timeout_tv.tv_sec ≠ 0 then .error .assert_failed
    else if dd.timeout_tv.tv_usec ≠ 0 then .error .assert_failed
    else
      let w2 := w1.set_d d { dd with upstream_conn := w1.ptd.waiting_any_downstream_head }
      match wait_queue_advance w2 with
      | .error f => .error f
      | .ok w3 =>
        match w3.get_d d with
        | none => .error .bad_pointer
        | some dd3 =>
          match dd3.upstream_conn with
          | none => .error .null_deref
          | some uc =>
            match w3.get_c uc with
            | none => .error .bad_pointer
            | some ucc =>
              let w4 := w3.set_c uc { ucc with next := none }
              let w5 := w4.set_stats
                { w4.ptd.stats with
                  tot_assign_downstream := w4.ptd.stats.tot_assign_downstream + 1
                  tot_assign_upstream := w4.ptd.stats.tot_assign_upstream + 1 }
              cproxy_assign_downstream_squash w5.conns.length w5 uc

/-- The failure branch of the loop body of `cproxy_assign_downstream`, taken
when `propagate_downstream` returned `false` and `downstream_assigns` is
unchanged: `upstream_error` on every attached upstream, then
`cproxy_release_downstream(d, false)`. -/
def cproxy_assign_downstream_fail (env : Env) (d : Nat) (w7 : World) :
    Except Fault World :=
  match cproxy_assign_downstream_errors env d (w7.conns.length + 1) w7 with
  | .error f => .error f
  | .ok w8 =>
    match cproxy_release_downstream env w8 d false with
    | .error f => .error f
    | .ok (_, w9) => .ok w9

/-- The key loop of `cproxy_assign_downstream`, with `da`, `tail` and `stop`
as in the source.  The first argument bounds the number of iterations.  The
first component of the result is a ghost value, not present in the C code:
the upstream lists handed to `propagate_downstream`, in the order of the
calls. -/
def cproxy_assign_downstream_loop (env : Env) (da : Nat) (tail : Option Nat) :
    Nat → Bool → World → Except Fault (List (Option (List Nat)) × World)
  | 0, stop, w =>
    match w.ptd.waiting_any_downstream_head with
    | none => .ok ([], w)
    | some _ => if stop then .ok ([], w) else .error .out_of_fuel
  | fuel + 1, stop, w =>
    match w.ptd.waiting_any_downstream_head with
    | none => .ok ([], w)
    | some h =>
      if stop then .ok ([], w)
      else
        match cproxy_reserve_downstream env w with
        | .error f => .error f
        | .ok (none, w1) => .ok ([], w1)
        | .ok (some d, w1) =>
          match cproxy_assign_downstream_pair w1 d with
          | .error f => .error f
          | .ok w6 =>
            match env.propagate_downstream w6 d with
            | (true, w7) =>
              match cproxy_assign_downstream_loop env da tail fuel
                  (if some h = tail then true else stop) w7 with
              | .error f => .error f
              | .ok (rest, w8) => .ok (w6.upstream_list_at d :: rest, w8)
            | (false, w7) =>
              if da ≠ w7.ptd.downstream_assigns then .ok ([w6.upstream_list_at d], w7)
              else
                match cproxy_assign_downstream_fail env d w7 with
                | .error f => .error f
                | .ok w9 =>
                  match cproxy_assign_downstream_loop env da tail fuel
                      (if some h = tail then true else stop) w9 with
                  | .error f => .error f
                  | .ok (rest, w10) => .ok (w6.upstream_list_at d :: rest, w10)

/-- The function `cproxy_assign_downstream`.  The first component of the
result is the ghost list of upstream lists handed to `propagate_downstream`. -/
def cproxy_assign_downstream (env : Env) (w : World) :
    Except Fault (List (Option (List Nat)) × World) :=
  let w1 := w.set_ptd { w.ptd with downstream_assigns := w.ptd.downstream_assigns + 1 }
  cproxy_assign_downstream_loop env w1.ptd.downstream_assigns
    w1.ptd.waiting_any_downstream_tail (w1.conns.length + 1) false w1

/-- Assumption on the forwarding function `propagate_downstream` for one
call of `cproxy_assign_downstream`: it leaves the pool lists and the `next`
links of the downstreams alone; it may append upstreams to the wait queue (a
retry puts an upstream back at the tail); and afterwards the upstream list of
the downstream it was given is still a proper list, with no element on the
wait queue.  It may change every other field. -/
def Env.propagate_frame (env : Env) : Prop :=
  ∀ w d,
    (env.propagate_downstream w d).2.ptd.downstream_reserved = w.ptd.downstream_reserved ∧
    (env.propagate_downstream w d).2.ptd.downstream_released = w.ptd.downstream_released ∧
    (∀ a, (env.propagate_downstream w d).2.dnext a = w.dnext a) ∧
    ∀ q dd us, IsChain w.cnext w.ptd.waiting_any_downstream_head q →
      w.get_d d = some dd → IsChain w.cnext dd.upstream_conn us → (∀ a, a ∈ us → a ∉ q) →
      ∃ arrived dd1 us1,
        IsChain (env.propagate_downstream w d).2.cnext
          (env.propagate_downstream w d).2.ptd.waiting_any_downstream_head (q ++ arrived) ∧
        (env.propagate_downstream w d).2.get_d d = some dd1 ∧
        IsChain (env.propagate_downstream w d).2.cnext dd1.upstream_conn us1 ∧
        ∀ a, a ∈ us1 → a ∉ q ++ arrived

/-- The forwarding function `propagate_downstream` puts nothing on the wait
queue: it leaves its head and the `next` links of the connections alone. -/
def Env.propagate_quiet (env : Env) : Prop :=
  ∀ w d,
    (env.propagate_downstream w d).2.ptd.waiting_any_downstream_head =
      w.ptd.waiting_any_downstream_head ∧
    ∀ c, (env.propagate_downstream w d).2.cnext c = w.cnext c

/-- The reserved and released lists of the state are proper lists with no
element in common. -/
def pool_lists (w : World) : Prop :=
  ∃ rs ls, IsChain w.dnext w.ptd.downstream_reserved rs ∧
    IsChain w.dnext w.ptd.downstream_released ls ∧ ∀ a, a ∈ rs → a ∉ ls

/-! ## Example states for the pairing engine -/

/-- A paused upstream connection on the wait queue, holding the request line
`cmd` (ascii protocol, so `cmd` is -1). -/
def waiting_conn (nxt : Option Nat) (cmd : String) : conn :=
  { next := nxt, extra := some 0, state := conn_state.conn_pause, cmd := -1,
    cmd_start := some cmd }

/-- The state after `cproxy_create` with a pool cap of 2, with four upstreams
on the wait queue: two simple gets, a `gets`, and one more simple get. -/
def waiting_world : World :=
  { created_world with
    ptd := { downstream_max := 2, waiting_any_downstream_head := some 0,
             waiting_any_downstream_tail := some 3 }
    conns := [waiting_conn (some 1) "get a b", waiting_conn (some 2) "get b c",
      waiting_conn (some 3) "gets d", waiting_conn none "get e"] }

/-- The state `waiting_world` after one `cproxy_assign_downstream` with a
forwarding function that succeeds: the downstream at address 0 holds the
upstreams 0 and 1, the one at address 1 holds the upstream 2, and the
upstream 3 still waits. -/
def paired_world : World :=
  { proxy := created_world.proxy
    ptd :=
      { waiting_any_downstream_head := some 3
        waiting_any_downstream_tail := some 3
        downstream_reserved := some 1
        downstream_tot := 2
        downstream_num := 2
        downstream_max := 2
        downstream_assigns := 1
        stats :=
          { tot_downstream_released := 2
            tot_downstream_reserved := 2
            tot_downstream_max_reached := 1
            tot_assign_downstream := 2
            tot_assign_upstream := 3 } }
    ds := [some { config := some "a:11211", config_ver := 1,
                  behavior := { nthreads := 4, downstream_max := 2 },
                  downstream_conns := [none], upstream_conn := some 0 },
           some { config := some "a:11211", config_ver := 1,
                  behavior := { nthreads := 4, downstream_max := 2 }, next := some 0,
                  downstream_conns := [none], upstream_conn := some 2 }]
    conns := [waiting_conn (some 1) "get a b", waiting_conn none "get b c",
      waiting_conn none "gets d", waiting_conn none "get e"] }

/-! ## The ascii-to-binary translator: request side

C strings are lists of characters (the terminating NUL is the end of the
list).  A pointer into a command line is an offset into its characters. -/

/-- The host server's `token_t`: `value` is a pointer into the tokenized
string (an offset), or `NULL`; `length` is the number of characters. -/
structure token_t where
  value : Option Nat := none
  length : Nat := 0
deriving DecidableEq, Repr

/-- The `for` loop of `scan_tokens`, reading the characters from `e` on: `s`
and `e` are the two pointers (offsets) of the source and `toks` the tokens
stored so far.  The second component of the result is the value of the
terminal token: `NULL` when `*e` is NUL, otherwise `e`. -/
def scan_tokens_loop (max_tokens : Nat) :
    List Char → Nat → Nat → List token_t → List token_t × Option Nat
  | [], s, e, toks =>
    if toks.length < max_tokens - 1 then
      ((if s ≠ e then toks ++ [{ value := some s, length := e - s }] else toks), none)
    else (toks, none)
  | ch :: rest, s, e, toks =>
    if toks.length < max_tokens - 1 then
      if ch = ' ' then
        scan_tokens_loop max_tokens rest (e + 1) (e + 1)
          (if s ≠ e then toks ++ [{ value := some s, length := e - s }] else toks)
      else scan_tokens_loop max_tokens rest s (e + 1) toks
    else (toks, some e)

/-- The function `scan_tokens`: the token array written, whose length is the
returned count; its last entry is the terminal token. -/
def scan_tokens (command : List Char) (max_tokens : Nat) : Except Fault (List token_t) :=
  if max_tokens ≤ 1 then .error .assert_failed
  else
    match scan_tokens_loop max_tokens command 0 0 [] with
    | (toks, term) => .ok (toks ++ [{ value := term, length := 0 }])

/-- The constant `MAX_TOKENS`. -/
def MAX_TOKENS : Nat := 9

/-- The constant `CMD_TOKEN`. -/
def CMD_TOKEN : Nat := 0

/-- The constant `KEY_TOKEN`. -/
def KEY_TOKEN : Nat := 1

/-- Modelled from the spec: magic byte of a binary request
(`PROTOCOL_BINARY_REQ`); the binary protocol header file is not part of the
sources. -/
def PROTOCOL_BINARY_REQ : Nat := 0x80

/-- Modelled from the spec: magic byte of a binary response. -/
def PROTOCOL_BINARY_RES : Nat := 0x81

/-- Modelled from the spec: opcodes of the binary protocol. -/
def PROTOCOL_BINARY_CMD_GET : Nat := 0x00
/-- Modelled from the spec: opcode. -/
def PROTOCOL_BINARY_CMD_SET : Nat := 0x01
/-- Modelled from the spec: opcode. -/
def PROTOCOL_BINARY_CMD_ADD : Nat := 0x02
/-- Modelled from the spec: opcode. -/
def PROTOCOL_BINARY_CMD_REPLACE : Nat := 0x03
/-- Modelled from the spec: opcode. -/
def PROTOCOL_BINARY_CMD_DELETE : Nat := 0x04
/-- Modelled from the spec: opcode. -/
def PROTOCOL_BINARY_CMD_INCREMENT : Nat := 0x05
/-- Modelled from the spec: opcode. -/
def PROTOCOL_BINARY_CMD_DECREMENT : Nat := 0x06
/-- Modelled from the spec: opcode. -/
def PROTOCOL_BINARY_CMD_QUIT : Nat := 0x07
/-- Modelled from the spec: opcode. -/
def PROTOCOL_BINARY_CMD_FLUSH : Nat := 0x08
/-- Modelled from the spec: opcode. -/
def PROTOCOL_BINARY_CMD_GETQ : Nat := 0x09
/-- Modelled from the spec: opcode. -/
def PROTOCOL_BINARY_CMD_NOOP : Nat := 0x0a
/-- Modelled from the spec: opcode. -/
def PROTOCOL_BINARY_CMD_GETK : Nat := 0x0c
/-- Modelled from the spec: opcode. -/
def PROTOCOL_BINARY_CMD_GETKQ : Nat := 0x0d
/-- Modelled from the spec: opcode. -/
def PROTOCOL_BINARY_CMD_APPEND : Nat := 0x0e
/-- Modelled from the spec: opcode. -/
def PROTOCOL_BINARY_CMD_PREPEND : Nat := 0x0f
/-- Modelled from the spec: opcode. -/
def PROTOCOL_BINARY_CMD_STAT : Nat := 0x10
/-- Modelled from the spec: opcode. -/
def PROTOCOL_BINARY_CMD_SETQ : Nat := 0x11
/-- Modelled from the spec: opcode. -/
def PROTOCOL_BINARY_CMD_ADDQ : Nat := 0x12
/-- Modelled from the spec: opcode. -/
def PROTOCOL_BINARY_CMD_REPLACEQ : Nat := 0x13
/-- Modelled from the spec: opcode. -/
def PROTOCOL_BINARY_CMD_DELETEQ : Nat := 0x14
/-- Modelled from the spec: opcode. -/
def PROTOCOL_BINARY_CMD_INCREMENTQ : Nat := 0x15
/-- Modelled from the spec: opcode. -/
def PROTOCOL_BINARY_CMD_DECREMENTQ : Nat := 0x16
/-- Modelled from the spec: opcode. -/
def PROTOCOL_BINARY_CMD_FLUSHQ : Nat := 0x18
/-- Modelled from the spec: opcode. -/
def PROTOCOL_BINARY_CMD_APPENDQ : Nat := 0x19
/-- Modelled from the spec: opcode. -/
def PROTOCOL_BINARY_CMD_PREPENDQ : Nat := 0x1a

/-- Modelled from the spec: response status codes of the binary protocol. -/
def PROTOCOL_BINARY_RESPONSE_KEY_ENOENT : Nat := 0x01
/-- Modelled from the spec: status code. -/
def PROTOCOL_BINARY_RESPONSE_KEY_EEXISTS : Nat := 0x02
/-- Modelled from the spec: status code. -/
def PROTOCOL_BINARY_RESPONSE_NOT_STORED : Nat := 0x05
/-- Modelled from the spec: status code. -/
def PROTOCOL_BINARY_RESPONSE_ENOMEM : Nat := 0x82

/-- Modelled from the spec: `sizeof(protocol_binary_request_header)`, the 24
bytes magic, opcode, keylen (2), extlen, datatype, reserved (2), bodylen (4),
opaque (4), cas (8). -/
def sizeof_request_header : Nat := 24

/-- One row of `a2b_specs`.  `tokens`, `ntokens`, `noreply_allowed` and
`num_optional` are filled in by `cproxy_init_a2b`; the pointers in `tokens`
are offsets into `line`. -/
structure A2BSpec where
  line : List Char := []
  cmd : Nat := 0
  cmdq : Nat := 0
  size : Nat := 0
  tokens : List token_t := []
  ntokens : Nat := 0
  noreply_allowed : Bool := false
  num_optional : Nat := 0
  broadcast : Bool := false
deriving DecidableEq, Repr

/-- The table `a2b_specs`, without its `NULL` sentinel.  The `size` column
holds the `sizeof` of the request structs of the binary protocol: header
plus 8 bytes of extras for set, add and replace, 20 for incr and decr, 4 for
flush, none for the others. -/
def a2b_specs : List A2BSpec :=
  [ { line := "set <key> <flags> <exptime> <bytes> [noreply]".toList,
      cmd := PROTOCOL_BINARY_CMD_SET, cmdq := PROTOCOL_BINARY_CMD_SETQ,
      size := sizeof_request_header + 8 },
    { line := "add <key> <flags> <exptime> <bytes> [noreply]".toList,
      cmd := PROTOCOL_BINARY_CMD_ADD, cmdq := PROTOCOL_BINARY_CMD_ADDQ,
      size := sizeof_request_header + 8 },
    { line := "replace <key> <flags> <exptime> <bytes> [noreply]".toList,
      cmd := PROTOCOL_BINARY_CMD_REPLACE, cmdq := PROTOCOL_BINARY_CMD_REPLACEQ,
      size := sizeof_request_header + 8 },
    { line := "append <key> <skip_flags> <skip_exptime> <bytes> [noreply]".toList,
      cmd := PROTOCOL_BINARY_CMD_APPEND, cmdq := PROTOCOL_BINARY_CMD_APPENDQ,
      size := sizeof_request_header },
    { line := "prepend <key> <skip_flags> <skip_exptime> <bytes> [noreply]".toList,
      cmd := PROTOCOL_BINARY_CMD_PREPEND, cmdq := PROTOCOL_BINARY_CMD_PREPENDQ,
      size := sizeof_request_header },
    { line := "cas <key> <flags> <exptime> <bytes> <cas> [noreply]".toList,
      cmd := PROTOCOL_BINARY_CMD_SET, cmdq := PROTOCOL_BINARY_CMD_SETQ,
      size := sizeof_request_header + 8 },
    { line := "delete <key> [noreply]".toList,
      cmd := PROTOCOL_BINARY_CMD_DELETE, cmdq := PROTOCOL_BINARY_CMD_DELETEQ,
      size := sizeof_request_header },
    { line := "incr <key> <value> [noreply]".toList,
      cmd := PROTOCOL_BINARY_CMD_INCREMENT, cmdq := PROTOCOL_BINARY_CMD_INCREMENTQ,
      size := sizeof_request_header + 20 },
    { line := "decr <key> <value> [noreply]".toList,
      cmd := PROTOCOL_BINARY_CMD_DECREMENT, cmdq := PROTOCOL_BINARY_CMD_DECREMENTQ,
      size := sizeof_request_header + 20 },
    { line := "flush_all [xpiration] [noreply]".toList,
      cmd := PROTOCOL_BINARY_CMD_FLUSH, cmdq := PROTOCOL_BINARY_CMD_FLUSHQ,
      size := sizeof_request_header + 4, broadcast := true },
    { line := "get <key>*".toList,
      cmd := PROTOCOL_BINARY_CMD_GETK, cmdq := PROTOCOL_BINARY_CMD_GETKQ,
      size := sizeof_request_header },
    { line := "gets <key>*".toList,
      cmd := PROTOCOL_BINARY_CMD_GETK, cmdq := PROTOCOL_BINARY_CMD_GETKQ,
      size := sizeof_request_header },
    { line := "stats [args]*".toList,
      cmd := PROTOCOL_BINARY_CMD_STAT, cmdq := PROTOCOL_BINARY_CMD_NOOP,
      size := sizeof_request_header, broadcast := true } ]

/-- Modelled from the spec: the key under which `skey_hash` and `skey_equal`
(not part of the sources) file a `char *`: the characters up to the first
space or the end of the string. -/
def skey (s : List Char) : List Char :=
  s.takeWhile (fun ch => ch ≠ ' ')

/-- The C string read at the pointer of a token into `text` (`NULL` gives
`none`). -/
def token_t.str (t : token_t) (text : List Char) : Option (List Char) :=
  t.value.map (fun off => text.drop off)

/-- A `GHashTable` keyed by `skey`: `g_hash_table_insert` replaces the value
of an existing key. -/
def skey_insert {α : Type} (m : List (List Char × α)) (k : List Char) (v : α) :
    List (List Char × α) :=
  (k, v) :: m.filter (fun e => e.1 ≠ k)

/-- The `g_hash_table_lookup` of a table keyed by `skey`. -/
def skey_lookup {α : Type} (m : List (List Char × α)) (k : List Char) : Option α :=
  (m.find? (fun e => e.1 = k)).map (fun e => e.2)

/-- The two globals of the translator, `a2b_spec_map` and `a2b_size_max`. -/
structure a2b_globals where
  a2b_spec_map : Option (List (List Char × A2BSpec)) := none
  a2b_size_max : Nat := 0
deriving DecidableEq, Repr

/-- The body of the `while (true)` loop of `cproxy_init_a2b` for one row of
`a2b_specs`: tokenize the line, compute `noreply_allowed` and
`num_optional`, update `a2b_size_max` and insert the row in the map. -/
def cproxy_init_a2b_spec (m : List (List Char × A2BSpec)) (size_max : Nat) (spec : A2BSpec) :
    Except Fault (List (List Char × A2BSpec) × Nat) :=
  match scan_tokens spec.line MAX_TOKENS with
  | .error f => .error f
  | .ok tokens =>
    if ¬ tokens.length > 2 then .error .assert_failed
    else
      let noreply_index := tokens.length - 2
      let noreply_allowed : Bool :=
        match (tokens.getD noreply_index {}).str spec.line with
        | some s => s == "[noreply]".toList
        | none => false
      let num_optional :=
        (tokens.filter (fun t =>
          match t.str spec.line with
          | some s => s.head? == some '['
          | none => false)).length
      let spec1 : A2BSpec :=
        { spec with tokens := tokens, ntokens := tokens.length,
                    noreply_allowed := noreply_allowed, num_optional := num_optional }
      match (tokens.getD CMD_TOKEN {}).str spec.line with
      | none => .error .null_deref
      | some verb =>
        .ok (skey_insert m (skey verb) spec1, if size_max < spec.size then spec.size else size_max)

/-- The loop of `cproxy_init_a2b` over the rows of the table. -/
def cproxy_init_a2b_loop :
    List A2BSpec → List (List Char × A2BSpec) → Nat →
      Except Fault (List (List Char × A2BSpec) × Nat)
  | [], m, size_max => .ok (m, size_max)
  | spec :: rest, m, size_max =>
    match cproxy_init_a2b_spec m size_max spec with
    | .error f => .error f
    | .ok (m1, size_max1) => cproxy_init_a2b_loop rest m1 size_max1

/-- The function `cproxy_init_a2b`.  `g_hash_table_new` is taken to
succeed. -/
def cproxy_init_a2b (g : a2b_globals) : Except Fault a2b_globals :=
  match g.a2b_spec_map with
  | some _ => .ok g
  | none =>
    match cproxy_init_a2b_loop a2b_specs [] g.a2b_size_max with
    | .error f => .error f
    | .ok (m, size_max) => .ok { a2b_spec_map := some m, a2b_size_max := size_max }

/-- Store `v` at offset `off` of a byte buffer as `n` bytes in network byte
order: the stores `x = htons(v)`, `x = htonl(v)` and `x = htonll(v)` of the
source for `n` = 2, 4 and 8 (the value is first truncated to `n` bytes). -/
def put_be : Nat → Nat → Nat → List Nat → List Nat
  | 0, _, _, buf => buf
  | n + 1, off, v, buf => put_be n (off + 1) v (buf.set off (v / 256 ^ n % 256))

/-- Modelled from the spec: the host's `safe_strtoull`, not part of the
sources, applied to the C string `s`: it succeeds when `s` starts with an
unsigned decimal number below 2^64 that is followed by a space or by the end
of the string. -/
def safe_strtoull (s : List Char) : Option Nat :=
  let digits := s.takeWhile Char.isDigit
  let rest := s.dropWhile Char.isDigit
  let v := digits.foldl (fun acc ch => 10 * acc + (ch.toNat - '0'.toNat)) 0
  if digits ≠ [] ∧ (rest = [] ∨ rest.head? = some ' ') ∧ v < 2 ^ 64 then some v else none

/-- The request being built: the header buffer (`a2b_size_max` bytes at the
start of the write buffer of the downstream connection) and the three
out-parameters of `a2b_fill_request`. -/
structure a2b_request where
  header : List Nat := []
  out_key : Option Nat := none
  out_keylen : Nat := 0
  out_extlen : Nat := 0
deriving DecidableEq, Repr

/-- The function `a2b_fill_request_token`.  `command` is the string the
pointers of `cmd_tokens` point into.  Offsets in the header buffer: keylen
at 2, extlen at 4, datatype at 5; in the `incr` request, delta at 24,
initial at 32 and expiration at 40. -/
def a2b_fill_request_token (spec : A2BSpec) (cur_token : Nat) (command : List Char)
    (cmd_tokens : List token_t) (r : a2b_request) : Except Fault (Bool × a2b_request) :=
  if ¬ spec.ntokens > 1 then .error .assert_failed
  else
    match (spec.tokens.getD cur_token {}).str spec.line with
    | none => .error .assert_failed
    | some st =>
      if ¬ cur_token > 0 then .error .assert_failed
      else if ¬ cur_token < cmd_tokens.length then .error .assert_failed
      else if ¬ cur_token < spec.ntokens then .error .assert_failed
      else
        let tok := cmd_tokens.getD cur_token {}
        match st.tail.head? with
        | some 'k' =>
          .ok (true,
            { r with
              out_key := tok.value
              out_keylen := tok.length % 2 ^ 16
              header := put_be 2 2 (tok.length % 2 ^ 16) r.header })
        | some 'v' =>
          match tok.str command with
          | none => .error .null_deref
          | some s =>
            match safe_strtoull s with
            | some delta =>
              .ok (true,
                { r with
                  out_extlen := 20
                  header := put_be 4 40 0xffffffff (put_be 8 32 0 (put_be 8 24 delta
                    ((r.header.set 4 20).set 5 0))) })
            | none => .ok (false, r)
        | some 'x' => .ok (false, r)
        | some 'a' => .ok (false, r)
        | _ => .ok (true, r)

/-- The loop `for (i = 1; i < cmd_ntokens - 1; i++)` of `a2b_fill_request`,
from `i` on; the first argument is the number of iterations left.  The
result is `false` when a token was rejected. -/
def a2b_fill_request_loop (spec : A2BSpec) (command : List Char) (cmd_tokens : List token_t) :
    Nat → Nat → a2b_request → Except Fault (Bool × a2b_request)
  | 0, _, r => .ok (true, r)
  | n + 1, i, r =>
    match a2b_fill_request_token spec i command cmd_tokens r with
    | .error f => .error f
    | .ok (false, r1) => .ok (false, r1)
    | .ok (true, r1) => a2b_fill_request_loop spec command cmd_tokens n (i + 1) r1

/-- The function `a2b_fill_request`: the returned size (0 when no request
was built) and the header and out-parameters.  Magic is the byte at offset 0
of the header, the opcode the byte at offset 1. -/
def a2b_fill_request (g : a2b_globals) (command : List Char) (cmd_tokens : List token_t)
    (noreply : Bool) (r : a2b_request) : Except Fault (Nat × a2b_request) :=
  if ¬ cmd_tokens.length > 1 then .error .assert_failed
  else
    match (cmd_tokens.getD CMD_TOKEN {}).str command with
    | none => .error .assert_failed
    | some verb =>
      if ¬ (cmd_tokens.getD CMD_TOKEN {}).length > 0 then .error .assert_failed
      else
        match g.a2b_spec_map with
        | none => .error .assert_failed
        | some m =>
          match skey_lookup m (skey verb) with
          | none => .ok (0, r)
          | some spec =>
            if cmd_tokens.length ≥ spec.ntokens - spec.num_optional ∧
                cmd_tokens.length ≤ spec.ntokens then
              let r1 := { r with header := r.header.set 0 PROTOCOL_BINARY_REQ }
              let r2 := { r1 with header := r1.header.set 1 (if noreply then spec.cmdq else spec.cmd) }
              match a2b_fill_request_loop spec command cmd_tokens
                  (cmd_tokens.length - 2) 1 r2 with
              | .error f => .error f
              | .ok (false, r3) => .ok (0, r3)
              | .ok (true, r3) => .ok (spec.size, r3)
            else .ok (0, r)

/-! ## The ascii-to-binary translator: forwarding -/

/-- Modelled from the spec: the host's counter `c->msgbytes`, the number of
bytes queued in the current message; `add_iov` adds the length of each
buffer and `add_msghdr` starts from 0 (the start of a further message when
the vector is full is not modelled). -/
def conn.msgbytes (cc : conn) : Int :=
  ((cc.iov.map String.length).sum : Nat)

/-- The bytes of a buffer as a string, one character per byte. -/
def bytes_to_string (bs : List Nat) : String :=
  String.mk (bs.map Char.ofNat)

/-- The C test `strncmp(s, lit, n) == 0` on a list of characters, for a
literal `lit` of `n` characters. -/
def strncmp_chars (s : List Char) (lit : String) : Bool :=
  s.take lit.length == lit.toList

/-- The function `cproxy_server_index`: the hash of the key, a `uint32_t`
cast to `int`, or -1 when the server set is empty. -/
def cproxy_server_index (env : Env) (w : World) (d : Nat) (dd : downstream)
    (key : List Char) : Int :=
  if (dd.downstream_conns.length : Int) ≤ 0 then -1
  else
    let h : Nat := env.memcached_generate_hash w d key % 2 ^ 32
    if h < 2 ^ 31 then (h : Int) else (h : Int) - 2 ^ 32

/-- The function `cproxy_find_downstream_conn`; `key` holds the `key_length`
characters of the key. -/
def cproxy_find_downstream_conn (env : Env) (w : World) (d : Nat) (key : Option (List Char)) :
    Except Fault (Option Nat) :=
  match w.get_d d with
  | none => .error .bad_pointer
  | some dd =>
    match key with
    | none => .error .assert_failed
    | some k =>
      if ¬ k.length > 0 then .error .assert_failed
      else
        let s := cproxy_server_index env w d dd k
        if s ≥ 0 ∧ s < dd.downstream_conns.length then
          .ok ((dd.downstream_conns.getD s.toNat none))
        else .ok none

/-- The function `cproxy_prep_conn_for_write` for a non-`NULL` connection.
The asserts on the host's item and suffix arrays are not modelled.  The
queued vectors are dropped (`msgused = 0; iovused = 0`) and the host's
`add_msghdr` starts the first message. -/
def cproxy_prep_conn_for_write (env : Env) (w : World) (c : Nat) :
    Except Fault (Bool × World) :=
  match w.get_c c with
  | none => .error .bad_pointer
  | some cc =>
    if cc.item ≠ none then .error .assert_failed
    else
      let w1 := w.set_c c { cc with suffixleft := 0, msgused := 0, iov := [] }
      if env.add_msghdr w1 c then
        .ok (true, w1.set_c c { cc with suffixleft := 0, msgused := 1, iov := [] })
      else .ok (false, w1)

/-- The function `cproxy_reset_upstream`. -/
def cproxy_reset_upstream (env : Env) (w : World) (uc : Nat) : Except Fault World :=
  match w.get_c uc with
  | none => .error .bad_pointer
  | some ucc =>
    if ucc.extra = none then .error .assert_failed
    else
      match conn_set_state w uc conn_state.conn_new_cmd with
      | .error f => .error f
      | .ok w1 =>
        if ucc.rbytes ≤ 0 then
          if env.update_event w1 uc then .ok w1
          else cproxy_close_conn env w1.incr_tot_oom uc
        else
          .ok (w1.set_stats
            { w1.ptd.stats with
              tot_reset_upstream_avail := w1.ptd.stats.tot_reset_upstream_avail + 1 })

/-- The function `cproxy_dettach_if_noreply`. -/
def cproxy_dettach_if_noreply (env : Env) (w : World) (d : Nat) (uc : Nat) :
    Except Fault (Bool × World) :=
  match w.get_c uc with
  | none => .error .bad_pointer
  | some ucc =>
    if ucc.noreply then
      let w1 := w.set_c uc { ucc with noreply := false }
      match w1.get_d d with
      | none => .error .bad_pointer
      | some dd =>
        let w2 := w1.set_d d { dd with upstream_conn := none, upstream_suffix := none }
        match cproxy_reset_upstream env w2 uc with
        | .error f => .error f
        | .ok w3 => .ok (true, w3)
    else .ok (false, w)

/-- The function `cproxy_start_downstream_timeout`; the timer itself belongs
to the host. -/
def cproxy_start_downstream_timeout (env : Env) (w : World) (d : Nat) :
    Except Fault (Bool × World) :=
  match w.get_d d with
  | none => .error .bad_pointer
  | some dd =>
    if dd.timeout_tv.tv_sec ≠ 0 then .error .assert_failed
    else if dd.timeout_tv.tv_usec ≠ 0 then .error .assert_failed
    else if dd.behavior.downstream_timeout.tv_sec = 0 ∧
        dd.behavior.downstream_timeout.tv_usec = 0 then .ok (true, w)
    else
      match dd.upstream_conn with
      | none => .error .assert_failed
      | some uc =>
        match w.get_c uc with
        | none => .error .bad_pointer
        | some ucc =>
          if ucc.state ≠ conn_state.conn_pause then .error .assert_failed
          else
            let w1 := w.set_d d { dd with timeout_tv := dd.behavior.downstream_timeout }
            .ok (env.evtimer_add w1, w1)

/-- The part `d->ptd->stats.tot_oom++; cproxy_close_conn(c)` shared by the
error paths of the forwarding functions. -/
def a2b_oom_close (env : Env) (w : World) (c : Nat) : Except Fault World :=
  cproxy_close_conn env w.incr_tot_oom c

/-- The loop `for (i = 0; i < nconns; i++)` at the start of
`cproxy_forward_a2b_multiget_downstream`, over the remaining slots: prepare
each existing socket for a write. -/
def a2b_multiget_prep (env : Env) : List (Option Nat) → World → Except Fault World
  | [], w => .ok w
  | none :: rest, w => a2b_multiget_prep env rest w
  | some c :: rest, w =>
    match cproxy_prep_conn_for_write env w c with
    | .error f => .error f
    | .ok (_, w1) =>
      match w1.get_c c with
      | none => .error .bad_pointer
      | some cc =>
        if cc.state ≠ conn_state.conn_pause then .error .assert_failed
        else a2b_multiget_prep env rest w1

/-- The body `if (key_len > 0) { ... }` of the inner loop of
`cproxy_forward_a2b_multiget_downstream`, for the key `key` of the upstream
`uc_cur`, whose command starts with the verb `verb` (`cmd_len` characters).
The asserts on the protocol and on the item array of the socket are not
modelled. -/
def a2b_multiget_key (env : Env) (d : Nat) (uc_cur : Nat) (uc_num : Nat) (verb : List Char)
    (key : List Char) (w : World) : Except Fault World :=
  match w.get_d d with
  | none => .error .bad_pointer
  | some dd =>
    let (first_request, w1) : Bool × World :=
      match dd.multiget with
      | none => (true, w)
      | some m =>
        if env.calloc_multiget_entry w then
          match skey_lookup m key with
          | none => (true, w.set_d d { dd with multiget := some (skey_insert m key [some uc_cur]) })
          | some chain =>
            (false, w.set_d d
              { dd with multiget := some (skey_insert m key (some uc_cur :: chain)) })
        else (true, w)
    if first_request then
      match cproxy_find_downstream_conn env w1 d (some key) with
      | .error f => .error f
      | .ok none => .ok w1
      | .ok (some c) =>
        match w1.get_c c with
        | none => .error .bad_pointer
        | some cc =>
          if cc.item ≠ none then .error .assert_failed
          else if cc.state ≠ conn_state.conn_pause then .error .assert_failed
          else
            let wv : Except Fault World :=
              if uc_num ≤ 0 ∧ cc.msgused ≤ 1 ∧ cc.msgbytes ≤ 0 then
                (add_iov env w1 c (String.mk verb)).map (fun r => r.2)
              else .ok w1
            match wv with
            | .error f => .error f
            | .ok w2 => (add_iov env w2 c (String.mk (' ' :: key))).map (fun r => r.2)
    else .ok w1

/-- The inner loop `while (space != NULL)` of
`cproxy_forward_a2b_multiget_downstream`.  `rest` is the C string at
`space + 1`; `strchr(key, ' ')` splits it at its first space.  The first
argument bounds the number of iterations. -/
def a2b_multiget_keys (env : Env) (d : Nat) (uc_cur : Nat) (uc_num : Nat) (verb : List Char) :
    Nat → List Char → World → Except Fault World
  | 0, _, _ => .error .out_of_fuel
  | fuel + 1, rest, w =>
    let key := rest.takeWhile (fun ch => ch ≠ ' ')
    let wk : Except Fault World :=
      if key.length > 0 then a2b_multiget_key env d uc_cur uc_num verb key w else .ok w
    match wk with
    | .error f => .error f
    | .ok w1 =>
      match rest.dropWhile (fun ch => ch ≠ ' ') with
      | [] => .ok w1
      | _ :: rest1 => a2b_multiget_keys env d uc_cur uc_num verb fuel rest1 w1

/-- The outer loop `while (uc_cur != NULL)` of
`cproxy_forward_a2b_multiget_downstream`.  The first argument bounds the
number of iterations. -/
def a2b_multiget_upstreams (env : Env) (d : Nat) :
    Nat → Option Nat → Nat → World → Except Fault World
  | _, none, _, w => .ok w
  | 0, some _, _, _ => .error .out_of_fuel
  | fuel + 1, some uc_cur, uc_num, w =>
    match w.get_c uc_cur with
    | none => .error .bad_pointer
    | some ucc =>
      if ucc.cmd ≠ -1 then .error .assert_failed
      else if ucc.item ≠ none then .error .assert_failed
      else if ucc.state ≠ conn_state.conn_pause then .error .assert_failed
      else
        match ucc.cmd_start with
        | none => .error .assert_failed
        | some command =>
          let verb := command.toList.takeWhile (fun ch => ch ≠ ' ')
          match command.toList.dropWhile (fun ch => ch ≠ ' ') with
          | [] => .error .assert_failed
          | _ :: rest =>
            if ¬ verb.length > 0 then .error .assert_failed
            else if ¬ (verb.length = 3 ∨ verb.length = 4) then .error .assert_failed
            else
              match a2b_multiget_keys env d uc_cur uc_num verb (rest.length + 1) rest w with
              | .error f => .error f
              | .ok w1 =>
                match w1.get_c uc_cur with
                | none => .error .bad_pointer
                | some ucc1 =>
                  a2b_multiget_upstreams env d fuel ucc1.next (uc_num + 1) w1

/-- The loop `for (i = 0; i < nconns; i++)` at the end of
`cproxy_forward_a2b_multiget_downstream`, over the remaining slots, with the
count `nwrite`: finish the request on every socket that had something
written. -/
def a2b_multiget_flush (env : Env) (uc : Nat) :
    List (Option Nat) → Nat → World → Except Fault (Nat × World)
  | [], nwrite, w => .ok (nwrite, w)
  | none :: rest, nwrite, w => a2b_multiget_flush env uc rest nwrite w
  | some c :: rest, nwrite, w =>
    match w.get_c c with
    | none => .error .bad_pointer
    | some cc =>
      if cc.msgused > 1 ∨ cc.msgbytes > 0 then
        match add_iov env w c "\r\n" with
        | .error f => .error f
        | .ok (_, w1) =>
          match conn_set_state w1 c conn_state.conn_mwrite with
          | .error f => .error f
          | .ok w2 =>
            match w2.get_c c with
            | none => .error .bad_pointer
            | some cc2 =>
              let w3 := w2.set_c c { cc2 with write_and_go := conn_state.conn_new_cmd }
              if env.update_event w3 c then
                match w3.get_c uc, w3.get_c c with
                | some ucc, some cc3 =>
                  if ucc.noreply then
                    a2b_multiget_flush env uc rest (nwrite + 1)
                      (w3.set_c c { cc3 with write_and_go := conn_state.conn_pause })
                  else a2b_multiget_flush env uc rest (nwrite + 1) w3
                | _, _ => .error .bad_pointer
              else
                match a2b_oom_close env w3 c with
                | .error f => .error f
                | .ok w4 => a2b_multiget_flush env uc rest nwrite w4
      else a2b_multiget_flush env uc rest nwrite w

/-- The end of the multiget and broadcast functions: store `nwrite` in both
use counts, detach a `noreply` upstream or else set the suffix and start the
timer, and return `nwrite > 0`. -/
def a2b_finish (env : Env) (w : World) (d : Nat) (uc : Nat) (nwrite : Nat) (suffix : String) :
    Except Fault (Bool × World) :=
  match w.get_d d with
  | none => .error .bad_pointer
  | some dd =>
    let w1 := w.set_d d { dd with downstream_used_start := nwrite, downstream_used := nwrite }
    match cproxy_dettach_if_noreply env w1 d uc with
    | .error f => .error f
    | .ok (true, w2) => .ok (decide (nwrite > 0), w2)
    | .ok (false, w2) =>
      match w2.get_d d with
      | none => .error .bad_pointer
      | some dd2 =>
        let w3 := w2.set_d d { dd2 with upstream_suffix := some suffix }
        match cproxy_start_downstream_timeout env w3 d with
        | .error f => .error f
        | .ok (_, w4) => .ok (decide (nwrite > 0), w4)

/-- The function `cproxy_forward_a2b_multiget_downstream`.
`g_hash_table_new` is taken to succeed. -/
def cproxy_forward_a2b_multiget_downstream (env : Env) (w : World) (d : Nat) (uc : Nat) :
    Except Fault (Bool × World) :=
  match w.get_d d with
  | none => .error .bad_pointer
  | some dd =>
    if dd.multiget ≠ none then .error .assert_failed
    else
      match w.get_c uc with
      | none => .error .bad_pointer
      | some ucc =>
        if ucc.noreply ≠ false then .error .assert_failed
        else
          match a2b_multiget_prep env dd.downstream_conns w with
          | .error f => .error f
          | .ok w1 =>
            match w1.get_c uc, w1.get_d d with
            | some ucc1, some dd1 =>
              let w2 := if ucc1.next ≠ none then w1.set_d d { dd1 with multiget := some [] }
                else w1
              match a2b_multiget_upstreams env d (w2.conns.length + 1) (some uc) 0 w2 with
              | .error f => .error f
              | .ok w3 =>
                match w3.get_d d with
                | some dd3 =>
                  match a2b_multiget_flush env uc dd3.downstream_conns 0 w3 with
                  | .error f => .error f
                  | .ok (nwrite, w4) => a2b_finish env w4 d uc nwrite "END\r\n"
                | none => .error .bad_pointer
            | _, _ => .error .bad_pointer

/-- The loop of `cproxy_broadcast_a2b_downstream` over the remaining slots,
with the count `nwrite`. -/
def a2b_broadcast_loop (env : Env) (command : String) (uc : Nat) :
    List (Option Nat) → Nat → World → Except Fault (Nat × World)
  | [], nwrite, w => .ok (nwrite, w)
  | none :: rest, nwrite, w => a2b_broadcast_loop env command uc rest nwrite w
  | some c :: rest, nwrite, w =>
    match cproxy_prep_conn_for_write env w c with
    | .error f => .error f
    | .ok (false, w1) => a2b_broadcast_loop env command uc rest nwrite w1
    | .ok (true, w1) =>
      match w1.get_c c with
      | none => .error .bad_pointer
      | some cc =>
        if cc.state ≠ conn_state.conn_pause then .error .assert_failed
        else
          match out_string w1 c command with
          | .error f => .error f
          | .ok w2 =>
            if env.update_event w2 c then
              match w2.get_c uc, w2.get_c c with
              | some ucc, some cc2 =>
                if ucc.noreply then
                  a2b_broadcast_loop env command uc rest (nwrite + 1)
                    (w2.set_c c { cc2 with write_and_go := conn_state.conn_pause })
                else a2b_broadcast_loop env command uc rest (nwrite + 1) w2
              | _, _ => .error .bad_pointer
            else
              match a2b_oom_close env w2 c with
              | .error f => .error f
              | .ok w3 => a2b_broadcast_loop env command uc rest nwrite w3

/-- The function `cproxy_broadcast_a2b_downstream`. -/
def cproxy_broadcast_a2b_downstream (env : Env) (w : World) (d : Nat) (command : String)
    (uc : Nat) (suffix : String) : Except Fault (Bool × World) :=
  match w.get_d d, w.get_c uc with
  | some dd, some ucc =>
    if ucc.next ≠ none then .error .assert_failed
    else if ucc.item ≠ none then .error .assert_failed
    else
      match a2b_broadcast_loop env command uc dd.downstream_conns 0 w with
      | .error f => .error f
      | .ok (nwrite, w1) => a2b_finish env w1 d uc nwrite suffix
  | _, _ => .error .bad_pointer

/-- The construction of the request in `cproxy_forward_a2b_simple_downstream`:
`memset(header, 0, a2b_size_max)`, the call of `a2b_fill_request` and, when
it returns a size above 0, the four asserts and the store of `bodylen`
(offset 8 of the header).  `wbuf` is the write buffer of the socket, `key`
and `key_len` are the pointer and length of token 1.  The result is the size
and the request, whose `header` is the new content of the write buffer. -/
def a2b_build_request (g : a2b_globals) (command : List Char) (tokens : List token_t)
    (key : Option Nat) (key_len : Nat) (noreply : Bool) (wbuf : List Nat) :
    Except Fault (Nat × a2b_request) :=
  let r0 : a2b_request :=
    { header := List.replicate g.a2b_size_max 0 ++ wbuf.drop g.a2b_size_max }
  match a2b_fill_request g command tokens noreply r0 with
  | .error f => .error f
  | .ok (size, r) =>
    if size > 0 then
      if ¬ size ≤ g.a2b_size_max then .error .assert_failed
      else if key ≠ r.out_key then .error .assert_failed
      else if key_len ≠ r.out_keylen then .error .assert_failed
      else if (r.header.drop 8).take 4 ≠ [0, 0, 0, 0] then .error .assert_failed
      else .ok (size, { r with header := put_be 4 8 (r.out_keylen + r.out_extlen) r.header })
    else .ok (size, r)

/-- The part of `cproxy_forward_a2b_simple_downstream` after a request was
built in the write buffer of the socket `c`: queue the header and the key
and start the write. -/
def a2b_send_request (env : Env) (w : World) (d : Nat) (command : List Char) (uc : Nat)
    (c : Nat) (size : Nat) (r : a2b_request) : Except Fault (Bool × World) :=
  match add_iov env w c (bytes_to_string (r.header.take size)) with
  | .error f => .error f
  | .ok (_, w2) =>
    let wk : Except Fault World :=
      match r.out_key with
      | some off =>
        if r.out_keylen > 0 then
          (add_iov env w2 c (String.mk ((command.drop off).take r.out_keylen))).map
            (fun x => x.2)
        else .ok w2
      | none => .ok w2
    match wk with
    | .error f => .error f
    | .ok w3 =>
      match conn_set_state w3 c conn_state.conn_mwrite with
      | .error f => .error f
      | .ok w4 =>
        match w4.get_c c with
        | none => .error .bad_pointer
        | some cc4 =>
          let w5 := w4.set_c c { cc4 with write_and_go := conn_state.conn_new_cmd }
          if env.update_event w5 c then
            match w5.get_d d with
            | none => .error .bad_pointer
            | some dd5 =>
              let w6 := w5.set_d d
                { dd5 with downstream_used_start := 1, downstream_used := 1 }
              match cproxy_dettach_if_noreply env w6 d uc with
              | .error f => .error f
              | .ok (false, w7) =>
                match cproxy_start_downstream_timeout env w7 d with
                | .error f => .error f
                | .ok (_, w8) => .ok (true, w8)
              | .ok (true, w7) =>
                match w7.get_c c with
                | none => .error .bad_pointer
                | some cc7 =>
                  .ok (true, w7.set_c c { cc7 with write_and_go := conn_state.conn_pause })
          else
            match w5.get_d d with
            | none => .error .bad_pointer
            | some dd5 =>
              let w6 :=
                if dd5.upstream_suffix = none then
                  w5.set_d d
                    { dd5 with upstream_suffix := some "SERVER_ERROR a2b event oom\r\n" }
                else w5
              match a2b_oom_close env w6 c with
              | .error f => .error f
              | .ok w7 => .ok (false, w7)

/-- The part of `cproxy_forward_a2b_simple_downstream` after the socket `c`
was found and prepared: build the binary request in the write buffer, queue
it and start the write.  `tokens` are the tokens of `command`, `key` and
`key_len` the pointer and length of token 1. -/
def a2b_forward_request (env : Env) (g : a2b_globals) (w : World) (d : Nat) (command : String)
    (uc : Nat) (tokens : List token_t) (key : Option Nat) (key_len : Nat) (c : Nat) :
    Except Fault (Bool × World) :=
  match w.get_c c, w.get_c uc with
  | some cc, some ucc =>
    if cc.state ≠ conn_state.conn_pause then .error .assert_failed
    else
      match cc.wbuf with
      | none => .error .assert_failed
      | some wbuf =>
        if ¬ wbuf.length ≥ g.a2b_size_max then .error .assert_failed
        else
          match a2b_build_request g command.toList tokens key key_len ucc.noreply wbuf with
          | .error f => .error f
          | .ok (size, r) =>
            let w1 := w.set_c c { cc with wbuf := some r.header }
            if size > 0 then a2b_send_request env w1 d command.toList uc c size r
            else
              match w1.get_d d with
              | none => .error .bad_pointer
              | some dd1 =>
                let w2 :=
                  if dd1.upstream_suffix = none then
                    w1.set_d d
                      { dd1 with upstream_suffix := some "CLIENT_ERROR a2b parse request\r\n" }
                  else w1
                match a2b_oom_close env w2 c with
                | .error f => .error f
                | .ok w3 => .ok (false, w3)
  | _, _ => .error .bad_pointer

/-- The globals after `cproxy_init_a2b` ran on the initial globals. -/
def a2b_ready : a2b_globals :=
  match cproxy_init_a2b {} with
  | .ok g => g
  | .error _ => {}

/-- The function `cproxy_forward_a2b_simple_downstream`. -/
def cproxy_forward_a2b_simple_downstream (env : Env) (g : a2b_globals) (w : World) (d : Nat)
    (command : Option String) (uc : Nat) : Except Fault (Bool × World) :=
  match w.get_d d, command, w.get_c uc with
  | some dd, some command, some ucc =>
    if ucc.item ≠ none then .error .assert_failed
    else if dd.multiget ≠ none then .error .assert_failed
    else if dd.merger ≠ none then .error .assert_failed
    else if strncmp_eq command "get" then cproxy_forward_a2b_multiget_downstream env w d uc
    else if ucc.next ≠ none then .error .assert_failed
    else if strncmp_eq command "flush_all" then
      cproxy_broadcast_a2b_downstream env w d command uc "OK\r\n"
    else if strncmp_eq command "stats" then
      if strncmp_chars (command.toList.drop 5) " reset" then
        cproxy_broadcast_a2b_downstream env w d command uc "RESET\r\n"
      else
        match cproxy_broadcast_a2b_downstream env w d command uc "END\r\n" with
        | .error f => .error f
        | .ok (true, w1) =>
          match w1.get_d d with
          | none => .error .bad_pointer
          | some dd1 => .ok (true, w1.set_d d { dd1 with merger := some [] })
        | .ok (false, w1) => .ok (false, w1)
    else
      match scan_tokens command.toList MAX_TOKENS with
      | .error f => .error f
      | .ok tokens =>
        let key := (tokens.getD KEY_TOKEN {}).value
        let key_len := (tokens.getD KEY_TOKEN {}).length
        if tokens.length ≤ 1 then .error .assert_failed
        else
          match cproxy_find_downstream_conn env w d
              (key.map (fun off => (command.toList.drop off).take key_len)) with
          | .error f => .error f
          | .ok none => .ok (false, w)
          | .ok (some c) =>
            match cproxy_prep_conn_for_write env w c with
            | .error f => .error f
            | .ok (false, w1) => .ok (false, w1)
            | .ok (true, w1) => a2b_forward_request env g w1 d command uc tokens key key_len c
  | none, _, _ => .error .bad_pointer
  | _, none, _ => .error .assert_failed
  | _, _, none => .error .bad_pointer

/-! ## Example requests -/

/-- The tokens of the command `incr key 300 noreply`. -/
def incr_tokens : List token_t :=
  [{ value := some 0, length := 4 }, { value := some 5, length := 3 },
   { value := some 9, length := 3 }, { value := some 13, length := 7 },
   { value := none, length := 0 }]

/-- The request that `a2b_fill_request` builds for `incr key 300 noreply` in
a zeroed buffer of 44 bytes. -/
def incr_request : a2b_request :=
  { header := [0x80, 0x15, 0, 3, 20, 0, 0, 0, 0, 0, 0, 0, 0, 0, 0, 0, 0, 0, 0, 0, 0, 0, 0, 0,
               0, 0, 0, 0, 0, 0, 1, 44, 0, 0, 0, 0, 0, 0, 0, 0, 255, 255, 255, 255]
    out_key := some 5
    out_keylen := 3
    out_extlen := 20 }

/-- The `n` bytes of `v` in network byte order (most significant byte
first), as the wire format of the binary protocol is described. -/
def big_endian (n v : Nat) : List Nat :=
  (List.range n).map (fun i => v / 256 ^ (n - 1 - i) % 256)

/-- The request that `cproxy_forward_a2b_simple_downstream` builds for
`incr key 300 noreply`: `incr_request` with `bodylen` 23 stored. -/
def incr_built : a2b_request :=
  { incr_request with
    header := [0x80, 0x15, 0, 3, 20, 0, 0, 0, 0, 0, 0, 23, 0, 0, 0, 0, 0, 0, 0, 0, 0, 0, 0, 0,
               0, 0, 0, 0, 0, 0, 1, 44, 0, 0, 0, 0, 0, 0, 0, 0, 255, 255, 255, 255] }

/-! ## The ascii-to-binary translator: response side -/

/-- The function `add_conn_suffix`: whether a suffix buffer was obtained, and
the new state.  `realloc` and `cache_alloc` belong to the host; the asserts
on the array pointers are not modelled. -/
def add_conn_suffix (env : Env) (w : World) (c : Nat) : Except Fault (Bool × World) :=
  match w.get_c c with
  | none => .error .bad_pointer
  | some cc =>
    if ¬ cc.suffixsize > 0 then .error .assert_failed
    else
      let cc1 : conn :=
        if cc.suffixleft ≥ cc.suffixsize ∧ env.realloc_suffixlist w c = true then
          { cc with suffixsize := cc.suffixsize * 2 }
        else cc
      if cc1.suffixleft < cc1.suffixsize then
        if env.cache_alloc_suffix w c then
          .ok (true, w.set_c c { cc1 with suffixleft := cc1.suffixleft + 1 })
        else .ok (false, w.set_c c cc1)
      else .ok (false, w.set_c c cc1)

/-- Modelled from the spec: `cproxy_upstream_ascii_item_response`, which is
not part of the sources: the item is queued on the upstream as a `VALUE`
response. -/
def cproxy_upstream_ascii_item_response (w : World) (it : Nat) (uc : Nat) :
    Except Fault World :=
  match w.get_c uc with
  | none => .error .bad_pointer
  | some ucc => .ok (w.set_c uc { ucc with ilist := ucc.ilist ++ [it] })

/-- The loop `while (entry != NULL)` of `a2b_process_downstream_response`
over the chain of multiget entries of a key. -/
def a2b_response_entries (it : Nat) : List (Option Nat) → World → Except Fault World
  | [], w => .ok w
  | none :: rest, w => a2b_response_entries it rest w
  | some uc :: rest, w =>
    match cproxy_upstream_ascii_item_response w it uc with
    | .error f => .error f
    | .ok w1 => a2b_response_entries it rest w1

/-- The loop `while (uc != NULL)` of `a2b_process_downstream_response` over
the attached upstreams.  The first argument bounds the number of
iterations. -/
def a2b_response_upstreams (it : Nat) : Nat → Option Nat → World → Except Fault World
  | _, none, w => .ok w
  | 0, some _, _ => .error .out_of_fuel
  | fuel + 1, some uc, w =>
    match cproxy_upstream_ascii_item_response w it uc with
    | .error f => .error f
    | .ok w1 =>
      match w1.get_c uc with
      | none => .error .bad_pointer
      | some ucc => a2b_response_upstreams it fuel ucc.next w1

/-- The `switch (status)` of the SET, ADD, REPLACE, DELETE, APPEND and
PREPEND case of `a2b_process_downstream_response`: the line given to
`out_string`. -/
def a2b_storage_line (status : Nat) : String :=
  if status = 0 then "STORED"
  else if status = PROTOCOL_BINARY_RESPONSE_KEY_EEXISTS then "EXISTS"
  else if status = PROTOCOL_BINARY_RESPONSE_KEY_ENOENT then "NOT_FOUND"
  else if status = PROTOCOL_BINARY_RESPONSE_NOT_STORED then "NOT_STORED"
  else "SERVER_ERROR a2b error"

/-- The non-zero cases of the `switch (status)` of the INCREMENT and
DECREMENT case of `a2b_process_downstream_response`: the line given to
`out_string`. -/
def a2b_arith_line (status : Nat) : String :=
  if status = PROTOCOL_BINARY_RESPONSE_KEY_EEXISTS then "EXISTS"
  else if status = PROTOCOL_BINARY_RESPONSE_KEY_ENOENT then "NOT_FOUND"
  else if status = PROTOCOL_BINARY_RESPONSE_NOT_STORED then "NOT_STORED"
  else "SERVER_ERROR a2b arith error"

/-- The value of a sequence of bytes read as a number in network byte
order; `swap64` of the host applied to the 8 bytes of a counter. -/
def of_big_endian (bs : List Nat) : Nat :=
  bs.foldl (fun acc b => 256 * acc + b % 256) 0

/-- The field `message.body.value` of the `protocol_binary_response_incr`
that starts at `cmd_start`: the 8 bytes after the 24 bytes of the header;
`none` when the buffer is shorter. -/
def response_incr_value (cmd_start : String) : Option (List Nat) :=
  let bs := ((cmd_start.toList.drop 24).take 8).map (fun ch => ch.toNat % 256)
  if bs.length = 8 then some bs else none

/-- The end of the storage and arithmetic cases of
`a2b_process_downstream_response`: `if (update_event(uc, ...))
conn_set_state(c, conn_pause); else { tot_oom++; cproxy_close_conn(uc); }`. -/
def a2b_response_done (env : Env) (w : World) (c : Nat) (uc : Nat) : Except Fault World :=
  if env.update_event w uc then conn_set_state w c conn_state.conn_pause
  else cproxy_close_conn env w.incr_tot_oom uc

/-- The GET and GETK case of `a2b_process_downstream_response`, after the
state of `c` was set: `it` is the item read, `uc` the head of the attached
list.  The store of the trailing `"\r\n"` in the item and `item_remove`
belong to the host and are not modelled. -/
def a2b_response_get (env : Env) (w : World) (d : Nat) (hdr : response_header)
    (it : Option Nat) (uc : Option Nat) : Except Fault World :=
  if hdr.status ≠ 0 then
    if it ≠ none then .error .assert_failed
    else if hdr.status = PROTOCOL_BINARY_RESPONSE_KEY_ENOENT then .ok w
    else .error .assert_failed
  else
    match it with
    | none => .error .assert_failed
    | some item =>
      if ¬ env.item_nbytes item ≥ 2 then .error .assert_failed
      else if ¬ hdr.keylen > 0 then .error .assert_failed
      else if ¬ hdr.extlen > 0 then .error .assert_failed
      else if hdr.bodylen ≥ hdr.keylen + hdr.extlen then
        match w.get_d d with
        | none => .error .bad_pointer
        | some dd =>
          match dd.multiget with
          | some m => a2b_response_entries item ((skey_lookup m (env.item_key item)).getD []) w
          | none => a2b_response_upstreams item (w.conns.length + 1) uc w
      else .error .assert_failed

/-- The function `a2b_process_downstream_response`.  `c->cmd` holds the
opcode of the response; the asserts on the protocol of `c` are not
modelled. -/
def a2b_process_downstream_response (env : Env) (w : World) (c : Nat) : Except Fault World :=
  match w.get_c c with
  | none => .error .bad_pointer
  | some cc =>
    if ¬ cc.cmd ≥ 0 then .error .assert_failed
    else if cc.next ≠ none then .error .assert_failed
    else
      match cc.cmd_start, cc.extra with
      | none, _ => .error .assert_failed
      | some _, none => .error .assert_failed
      | some cmd_start, some d =>
        match w.get_d d with
        | none => .error .bad_pointer
        | some dd =>
          let hdr := cc.binary_header
          let it := cc.item
          let w0 := w.set_c c { cc with item := none }
          let uc := dd.upstream_conn
          if cc.cmd = PROTOCOL_BINARY_CMD_GET ∨ cc.cmd = PROTOCOL_BINARY_CMD_GETK then
            match conn_set_state w0 c
                (if cc.noreply then conn_state.conn_new_cmd else conn_state.conn_pause) with
            | .error f => .error f
            | .ok w1 => a2b_response_get env w1 d hdr it uc
          else if cc.cmd = PROTOCOL_BINARY_CMD_FLUSH ∨ cc.cmd = PROTOCOL_BINARY_CMD_NOOP then
            conn_set_state w0 c conn_state.conn_pause
          else if cc.cmd = PROTOCOL_BINARY_CMD_SET ∨ cc.cmd = PROTOCOL_BINARY_CMD_ADD ∨
              cc.cmd = PROTOCOL_BINARY_CMD_REPLACE ∨ cc.cmd = PROTOCOL_BINARY_CMD_DELETE ∨
              cc.cmd = PROTOCOL_BINARY_CMD_APPEND ∨ cc.cmd = PROTOCOL_BINARY_CMD_PREPEND then
            if cc.noreply ≠ false then .error .assert_failed
            else
              match uc with
              | none => .ok w0
              | some u =>
                match w0.get_c u with
                | none => .error .bad_pointer
                | some ucc =>
                  if ucc.next ≠ none then .error .assert_failed
                  else
                    match out_string w0 u (a2b_storage_line hdr.status) with
                    | .error f => .error f
                    | .ok w1 => a2b_response_done env w1 c u
          else if cc.cmd = PROTOCOL_BINARY_CMD_INCREMENT ∨
              cc.cmd = PROTOCOL_BINARY_CMD_DECREMENT then
            match uc with
            | none => .ok w0
            | some u =>
              match w0.get_c u with
              | none => .error .bad_pointer
              | some ucc =>
                if ucc.next ≠ none then .error .assert_failed
                else if hdr.status = 0 then
                  match add_conn_suffix env w0 u with
                  | .error f => .error f
                  | .ok (true, w1) =>
                    match response_incr_value cmd_start with
                    | none => .error .bad_pointer
                    | some bs =>
                      match out_string w1 u (toString (of_big_endian bs)) with
                      | .error f => .error f
                      | .ok w2 => a2b_response_done env w2 c u
                  | .ok (false, w1) =>
                    match cproxy_close_conn env w1.incr_tot_oom u with
                    | .error f => .error f
                    | .ok w2 => a2b_response_done env w2 c u
                else
                  match out_string w0 u (a2b_arith_line hdr.status) with
                  | .error f => .error f
                  | .ok w1 => a2b_response_done env w1 c u
          else if cc.cmd = PROTOCOL_BINARY_CMD_STAT then
            if hdr.keylen > 0 then
              if it = none then .error .assert_failed
              else if ¬ hdr.bodylen > hdr.keylen then .error .assert_failed
              else conn_set_state w0 c conn_state.conn_new_cmd
            else
              if it ≠ none then .error .assert_failed
              else if hdr.bodylen ≠ 0 then .error .assert_failed
              else conn_set_state w0 c conn_state.conn_pause
          else .error .assert_failed

/-! ## Example states for the translator -/

/-- A downstream socket in `conn_pause` that belongs to the downstream at
address 0, holding the complete binary response with the given opcode and
status; its read buffer holds the header followed by the 8 bytes of the
counter 258. -/
def response_conn (opcode status : Nat) : conn :=
  { extra := some 0, state := conn_state.conn_pause, cmd := opcode,
    cmd_start := some (bytes_to_string (List.replicate 24 0 ++ [0, 0, 0, 0, 0, 0, 1, 2])),
    binary_header := { magic := PROTOCOL_BINARY_RES, opcode := opcode, status := status,
                       bodylen := 8 } }

/-- A reserved downstream with the upstream 0 attached and the socket 1, one
request in flight. -/
def response_downstream : downstream :=
  { config := some "a:11211", config_ver := 1, downstream_conns := [some 1],
    upstream_conn := some 0, downstream_used := 1, downstream_used_start := 1 }

/-- A state with one reserved downstream (address 0) that has the paused
upstream 0 attached and the socket 1, on which the response with the given
opcode and status has arrived. -/
def response_world (opcode status : Nat) : World :=
  { proxy := created_world.proxy
    ptd := { downstream_max := 2, downstream_reserved := some 0, downstream_num := 1,
             downstream_tot := 1 }
    ds := [some response_downstream]
    conns := [{ waiting_conn none "incr a 1" with suffixsize := 4 },
              response_conn opcode status] }

/-- An environment like `quiet_env` whose server hash sends the key `a` to
host 0 and every other key to host 1. -/
def hash_env : Env :=
  { quiet_env with memcached_generate_hash := fun _ _ key => if key = ['a'] then 0 else 1 }

/-- An idle socket of the downstream at address 0, with a write buffer of 64
bytes. -/
def socket_conn : conn :=
  { extra := some 0, state := conn_state.conn_pause, wbuf := some (List.replicate 64 0) }

/-- A state with one reserved downstream (address 0) that has two sockets,
the connections 2 and 3, and two paused upstreams attached, the connections
0 and 1, holding the commands `c0` and `c1`. -/
def multiget_world (c0 c1 : String) : World :=
  { proxy := created_world.proxy
    ptd := { downstream_max := 2, downstream_reserved := some 0, downstream_num := 1,
             downstream_tot := 1 }
    ds := [some { config := some "a:11211,b:11211", config_ver := 1,
                  downstream_conns := [some 2, some 3], upstream_conn := some 0 }]
    conns := [waiting_conn (some 1) c0, waiting_conn none c1, socket_conn, socket_conn] }

/-- The keys of a one-line `get` command as the spec describes them: the
non-empty pieces between spaces after the verb. -/
def command_keys (command : List Char) : List (List Char) :=
  ((command.dropWhile (fun ch => ch ≠ ' ')).splitOn ' ').filter (fun k => k ≠ [])

/-- Everything queued on the connections of the state, in the order of the
addresses. -/
def World.all_iov (w : World) : List String :=
  (w.conns.map (fun cc => cc.iov)).flatten

/-- The queued buffer of a key: the key with its leading space. -/
def key_entry (key : List Char) : String :=
  String.mk (' ' :: key)

/-! ## Multiget: the state of a request in progress -/

/-- The keys of the command of the upstream `u`: the words after the verb of
`u->cmd_start`. -/
def World.request_keys (w : World) (u : Nat) : List (List Char) :=
  match w.get_c u with
  | some ucc =>
    match ucc.cmd_start with
    | some command => command_keys command.toList
    | none => []
  | none => []

/-- `conn_frame w w1`: every connection of `w` is a connection of `w1` with
the same link, the same command and the same `noreply` flag. -/
def conn_frame (w w1 : World) : Prop :=
  ∀ c cc, w.get_c c = some cc →
    ∃ cc1, w1.get_c c = some cc1 ∧ cc1.next = cc.next ∧ cc1.cmd_start = cc.cmd_start ∧
      cc1.noreply = cc.noreply

/-- `multiget_inv wp d occ w`: in the state `w` the downstream `d` has a
multiget map that records, for every key, exactly the upstreams `u` with
`(u, key)` in `occ`, and since the state `wp` each key was queued at most
once, and only if the map has an entry for it. -/
def multiget_inv (wp : World) (d : Nat) (occ : List (Nat × List Char)) (w : World) : Prop :=
  ∃ dd m, w.get_d d = some dd ∧ dd.multiget = some m ∧
    (∀ key u, some u ∈ (skey_lookup m key).getD [] ↔ (u, key) ∈ occ) ∧
    (∀ key, none ∉ (skey_lookup m key).getD []) ∧
    ∀ key, w.all_iov.count (key_entry key) + (if skey_lookup m key = none then 1 else 0) ≤
      wp.all_iov.count (key_entry key) + 1

/-- The state after `cproxy_forward_a2b_multiget_downstream` ran on the
upstreams `get a b` and `get b c` of `multiget_world`. -/
def multiget_result : World :=
  match cproxy_forward_a2b_multiget_downstream hash_env (multiget_world "get a b" "get b c") 0 0 with
  | .ok (_, w) => w
  | .error _ => multiget_world "" ""

/-! ## The wait queue and the close handlers -/

/-- The statement `if (tail != NULL && *tail == curr) *tail = prev` of
`conn_list_remove`: the new value of `*tail`.  The argument `tail` is `none`
when the pointer `tail` is `NULL` and `some t` when it points to a variable
holding `t`. -/
def conn_list_remove_tail (tail : Option (Option Nat)) (prev : Option Nat) (curr : Nat) :
    Option (Option Nat) :=
  match tail with
  | none => none
  | some t => if t = some curr then some prev else some t

/-- The loop of `conn_list_remove`, with `prev` and `curr` as in the source.
The argument `tail` is `none` when the pointer `tail` is `NULL` and `some t`
when it points to a variable holding `t`.  The first argument bounds the
number of iterations.  The result holds the returned head, the final value of
`*tail`, the final value of `*found` and the new state. -/
def conn_list_remove_loop (head : Option Nat) (tail : Option (Option Nat)) (c : Nat) :
    Nat → World → Option Nat → Option Nat →
      Except Fault (Option Nat × Option (Option Nat) × Bool × World)
  | _, w, _, none => .ok (head, tail, false, w)
  | 0, _, _, some _ => .error .out_of_fuel
  | fuel + 1, w, prev, some curr =>
    match w.get_c curr with
    | none => .error .bad_pointer
    | some cc =>
      if curr = c then
        match prev with
        | some p =>
          if some curr = head then .error .assert_failed
          else
            match w.get_c p with
            | none => .error .bad_pointer
            | some pc =>
              let w1 := w.set_c p { pc with next := cc.next }
              match w1.get_c curr with
              | none => .error .bad_pointer
              | some cc1 =>
                .ok (head, conn_list_remove_tail tail prev curr, true,
                  w1.set_c curr { cc1 with next := none })
        | none =>
          if some curr = head then
            .ok (cc.next, conn_list_remove_tail tail prev curr, true,
              w.set_c curr { cc with next := none })
          else .error .assert_failed
      else conn_list_remove_loop head tail c fuel w (some curr) cc.next

/-- The function `conn_list_remove`. -/
def conn_list_remove (w : World) (head : Option Nat) (tail : Option (Option Nat)) (c : Nat) :
    Except Fault (Option Nat × Option (Option Nat) × Bool × World) :=
  conn_list_remove_loop head tail c w.conns.length w none head

/-- The statement `ptd->waiting_any_downstream_head =
conn_list_remove(ptd->waiting_any_downstream_head,
&ptd->waiting_any_downstream_tail, c, NULL)`. -/
def wait_queue_remove (w : World) (c : Nat) : Except Fault World :=
  match conn_list_remove w w.ptd.waiting_any_downstream_head
      (some w.ptd.waiting_any_downstream_tail) c with
  | .error f => .error f
  | .ok (h, t, _, w1) =>
    .ok (w1.set_ptd { w1.ptd with
      waiting_any_downstream_tail := t.getD w1.ptd.waiting_any_downstream_tail
      waiting_any_downstream_head := h })

/-- The function `cproxy_wait_any_downstream`. -/
def cproxy_wait_any_downstream (w : World) (uc : Nat) : Except Fault World :=
  let tail_ok : Except Fault Unit :=
    match w.ptd.waiting_any_downstream_tail with
    | none => .ok ()
    | some t =>
      match w.get_c t with
      | none => .error .bad_pointer
      | some tc => if tc.next ≠ none then .error .assert_failed else .ok ()
  match tail_ok with
  | .error f => .error f
  | .ok _ =>
    match w.get_c uc with
    | none => .error .bad_pointer
    | some ucc =>
      let w1 := w.set_c uc { ucc with next := none }
      let linked : Except Fault World :=
        match w1.ptd.waiting_any_downstream_tail with
        | none => .ok w1
        | some t =>
          match w1.get_c t with
          | none => .error .bad_pointer
          | some tc => .ok (w1.set_c t { tc with next := some uc })
      match linked with
      | .error f => .error f
      | .ok w2 =>
        let w3 := w2.set_ptd { w2.ptd with waiting_any_downstream_tail := some uc }
        if w3.ptd.waiting_any_downstream_head = none then
          .ok (w3.set_ptd { w3.ptd with waiting_any_downstream_head := some uc })
        else .ok w3

/-- The function `cproxy_start_wait_queue_timeout`; the timer itself belongs
to the host.  The asserts on `uc->thread` are not modelled. -/
def cproxy_start_wait_queue_timeout (env : Env) (w : World) (uc : Nat) :
    Except Fault (Bool × World) :=
  match w.get_c uc with
  | none => .error .bad_pointer
  | some _ =>
    let w1 := w.set_ptd { w.ptd with timeout_tv := w.proxy.behavior.wait_queue_timeout }
    if w1.ptd.timeout_tv.tv_sec ≠ 0 ∨ w1.ptd.timeout_tv.tv_usec ≠ 0 then
      .ok (env.evtimer_add w1, w1)
    else .ok (true, w1)

/-- The function `cproxy_pause_upstream_for_downstream`. -/
def cproxy_pause_upstream_for_downstream (env : Env) (w : World) (upstream : Nat) :
    Except Fault World :=
  match conn_set_state w upstream conn_state.conn_pause with
  | .error f => .error f
  | .ok w1 =>
    match cproxy_wait_any_downstream w1 upstream with
    | .error f => .error f
    | .ok w2 =>
      let started : Except Fault World :=
        if w2.ptd.timeout_tv.tv_sec = 0 ∧ w2.ptd.timeout_tv.tv_usec = 0 then
          (cproxy_start_wait_queue_timeout env w2 upstream).map (fun r => r.2)
        else .ok w2
      match started with
      | .error f => .error f
      | .ok w3 => (cproxy_assign_downstream env w3).map (fun r => r.2)

/-- The function `upstream_retry`, the work item queued by
`cproxy_on_close_downstream_conn`. -/
def upstream_retry (env : Env) (w : World) (uc : Nat) : Except Fault World :=
  cproxy_pause_upstream_for_downstream env w uc

/-- Modelled from the spec: the callback `multiget_remove_upstream` run over
the multiget map by `g_hash_table_foreach`, which is not part of the sources;
it purges the upstream from every entry: an entry that held `c` holds `NULL`
afterwards. -/
def multiget_remove_upstream (m : List (List Char × List (Option Nat))) (c : Nat) :
    List (List Char × List (Option Nat)) :=
  m.map (fun e => (e.1, e.2.map (fun u => if u = some c then none else u)))

/-- The loop `for (int i = 0; i < n; i++)` of `cproxy_on_close_upstream_conn`
over the socket slots of `d`, from the slot `i`, with the number of slots
left: every socket in `conn_mwrite` has its message counters cleared and is
closed. -/
def cproxy_on_close_upstream_conn_sockets (env : Env) (d : Nat) :
    Nat → Nat → World → Except Fault World
  | 0, _, w => .ok w
  | left + 1, i, w =>
    match w.get_d d with
    | none => .error .bad_pointer
    | some dd =>
      match dd.downstream_conns.getD i none with
      | none => cproxy_on_close_upstream_conn_sockets env d left (i + 1) w
      | some s =>
        match w.get_c s with
        | none => .error .bad_pointer
        | some sc =>
          if sc.state = conn_state.conn_mwrite then
            match cproxy_close_conn env (w.set_c s { sc with msgused := 0, iov := [] }) s with
            | .error f => .error f
            | .ok w1 => cproxy_on_close_upstream_conn_sockets env d left (i + 1) w1
          else cproxy_on_close_upstream_conn_sockets env d left (i + 1) w

/-- The body of the loop over the reserved downstreams in
`cproxy_on_close_upstream_conn`, for the downstream `d`. -/
def cproxy_on_close_upstream_conn_body (env : Env) (c : Nat) (d : Nat) (w : World) :
    Except Fault World :=
  match w.get_d d with
  | none => .error .bad_pointer
  | some dd =>
    match conn_list_remove w dd.upstream_conn none c with
    | .error f => .error f
    | .ok (h, _, found, w1) =>
      match w1.get_d d with
      | none => .error .bad_pointer
      | some dd1 =>
        let dd2 : downstream := { dd1 with upstream_conn := h }
        let dd3 : downstream := if h = none then { dd2 with upstream_suffix := none } else dd2
        if found then
          let dd4 : downstream :=
            match dd3.multiget with
            | none => dd3
            | some m => { dd3 with multiget := some (multiget_remove_upstream m c) }
          cproxy_on_close_upstream_conn_sockets env d dd4.downstream_conns.length 0
            (w1.set_d d dd4)
        else .ok (w1.set_d d dd3)

/-- The loop `for (downstream *d = ptd->downstream_reserved; d != NULL; d =
d->next)` of `cproxy_on_close_upstream_conn`.  The first argument bounds the
number of iterations. -/
def cproxy_on_close_upstream_conn_loop (env : Env) (c : Nat) :
    Nat → Option Nat → World → Except Fault World
  | _, none, w => .ok w
  | 0, some _, _ => .error .out_of_fuel
  | fuel + 1, some d, w =>
    match cproxy_on_close_upstream_conn_body env c d w with
    | .error f => .error f
    | .ok w1 =>
      match w1.get_d d with
      | none => .error .bad_pointer
      | some dd1 => cproxy_on_close_upstream_conn_loop env c fuel dd1.next w1

/-- The function `cproxy_on_close_upstream_conn`.  `c->extra` is the
`proxy_td` of the upstream. -/
def cproxy_on_close_upstream_conn (env : Env) (w : World) (c : Nat) : Except Fault World :=
  match w.get_c c with
  | none => .error .bad_pointer
  | some cc =>
    if cc.extra = none then .error .assert_failed
    else
      let w1 := w.set_c c { cc with extra := none }
      let w2 := w1.set_stats { w1.ptd.stats with num_upstream := w1.ptd.stats.num_upstream - 1 }
      if w2.ptd.stats.num_upstream < 0 then .error .assert_failed
      else
        match cproxy_on_close_upstream_conn_loop env c (w2.ds.length + 1)
            w2.ptd.downstream_reserved w2 with
        | .error f => .error f
        | .ok w3 => wait_queue_remove w3 c

/-- The value `wqt_sec` of `wait_queue_timeout`: the `double`
`wqt.tv_sec + (wqt.tv_usec / 1000000.0)` converted to the unsigned 32-bit
`rel_time_t`: truncated towards zero and reduced modulo `2 ^ 32`. -/
def wqt_sec (wqt : timeval) : Nat :=
  ((Int.tdiv (wqt.tv_sec * 1000000 + wqt.tv_usec) 1000000) % 2 ^ 32).toNat

/-- The loop `while (uc_curr != NULL)` of `wait_queue_timeout`; `cutoff` is
the value `current_time - wqt_sec`.  The first argument bounds the number of
iterations. -/
def wait_queue_timeout_loop (env : Env) (cutoff : Nat) :
    Nat → Option Nat → World → Except Fault World
  | _, none, w => .ok w
  | 0, some _, _ => .error .out_of_fuel
  | fuel + 1, some uc, w =>
    match w.get_c uc with
    | none => .error .bad_pointer
    | some ucc =>
      if ucc.cmd_start_time ≤ cutoff then
        match wait_queue_remove w uc with
        | .error f => .error f
        | .ok w1 =>
          match upstream_error env w1 uc with
          | .error f => .error f
          | .ok w2 => wait_queue_timeout_loop env cutoff fuel ucc.next w2
      else wait_queue_timeout_loop env cutoff fuel ucc.next w

/-- The function `wait_queue_timeout`, the timer callback of the wait queue.
The subtraction `current_time - wqt_sec` is made on unsigned 32-bit values. -/
def wait_queue_timeout (env : Env) (w : World) : Except Fault World :=
  if w.ptd.timeout_tv.tv_sec ≠ 0 ∨ w.ptd.timeout_tv.tv_usec ≠ 0 then
    let w1 := w.set_ptd { w.ptd with timeout_tv := { tv_sec := 0, tv_usec := 0 } }
    let cutoff : Nat :=
      (env.current_time % 2 ^ 32 + 2 ^ 32 - wqt_sec w1.proxy.behavior.wait_queue_timeout) %
        2 ^ 32
    match wait_queue_timeout_loop env cutoff (w1.conns.length + 1)
        w1.ptd.waiting_any_downstream_head w1 with
    | .error f => .error f
    | .ok w2 =>
      match w2.ptd.waiting_any_downstream_head with
      | none => .ok w2
      | some h => (cproxy_start_wait_queue_timeout env w2 h).map (fun r => r.2)
  else .ok w

/-- The function `cproxy_release_downstream_conn`; the socket `c` is only
named in the log line. -/
def cproxy_release_downstream_conn (env : Env) (w : World) (d : Nat) (_c : Nat) :
    Except Fault World :=
  match w.get_d d with
  | none => .error .bad_pointer
  | some dd =>
    let w1 := w.set_d d { dd with downstream_used := dd.downstream_used - 1 }
    if dd.downstream_used - 1 ≤ 0 then
      match cproxy_release_downstream env w1 d false with
      | .error f => .error f
      | .ok (_, w2) => (cproxy_assign_downstream env w2).map (fun r => r.2)
    else .ok w1

/-- The first part of `cproxy_on_close_downstream_conn`, up to the call of
`cproxy_release_downstream_conn`: the socket is taken out of its downstream
and the retry is decided.  The result is `none` when `c->extra` is `NULL`
(the function returns at once), and else the downstream `d` and the value of
`uc_retry`.  The asserts on the server set `d->mst` are not modelled. -/
def cproxy_on_close_downstream_conn_decide (w : World) (c : Nat) :
    Except Fault (Option (Nat × Option Nat) × World) :=
  match w.get_c c with
  | none => .error .bad_pointer
  | some cc =>
    if cc.sfd < 0 then .error .assert_failed
    else if cc.state ≠ conn_state.conn_closing then .error .assert_failed
    else
      match cc.extra with
      | none => .ok (none, w)
      | some d =>
        let w1 := w.set_c c { cc with extra := none }
        match w1.get_d d with
        | none => .error .bad_pointer
        | some dd =>
          let w2 := w1.set_d d { dd with
            downstream_conns := dd.downstream_conns.map (fun s => if s = some c then none else s) }
          let w3 := w2.set_stats { w2.ptd.stats with
            tot_downstream_quit_server :=
              w2.ptd.stats.tot_downstream_quit_server + dd.downstream_conns.count (some c) }
          let w4 := w3.set_stats { w3.ptd.stats with
            num_downstream_conn := w3.ptd.stats.num_downstream_conn - 1 }
          if w4.ptd.stats.num_downstream_conn < 0 then .error .assert_failed
          else
            match w4.get_d d with
            | none => .error .bad_pointer
            | some dd4 =>
              match dd4.upstream_conn with
              | none => .ok (some (d, none), w4)
              | some uc =>
                if dd4.downstream_used = 1 then
                  let dd5 : downstream :=
                    if dd4.upstream_suffix = none then
                      { dd4 with upstream_suffix := some "SERVER_ERROR proxy downstream closed\r\n" }
                    else dd4
                  let w5 := w4.set_d d dd5
                  match w5.get_c c with
                  | none => .error .bad_pointer
                  | some cc5 =>
                    if cc5.rcurr ≠ none ∧ cc5.rbytes = 0 ∧
                        dd5.downstream_used_start = dd5.downstream_used ∧
                        dd5.downstream_used_start = 1 then
                      match w5.get_c uc with
                      | none => .error .bad_pointer
                      | some ucc =>
                        if ucc.next = none ∧ ucc.cmd_retries < 1 then
                          let w6 := w5.set_c uc { ucc with cmd_retries := ucc.cmd_retries + 1 }
                          .ok (some (d, some uc), w6.set_d d { dd5 with upstream_suffix := none })
                        else .ok (some (d, none), w5)
                    else .ok (some (d, none), w5)
                else .ok (some (d, none), w4)

/-- The function `cproxy_on_close_downstream_conn`.  The first component of
the result is a ghost value: the upstream handed to `work_send` for
`upstream_retry`, or `NULL`. -/
def cproxy_on_close_downstream_conn (env : Env) (w : World) (c : Nat) :
    Except Fault (Option Nat × World) :=
  match cproxy_on_close_downstream_conn_decide w c with
  | .error f => .error f
  | .ok (none, w1) => .ok (none, w1)
  | .ok (some (d, uc_retry), w1) =>
    match cproxy_release_downstream_conn env w1 d c with
    | .error f => .error f
    | .ok w2 =>
      match uc_retry with
      | none => .ok (none, w2)
      | some uc =>
        .ok (some uc, w2.set_stats { w2.ptd.stats with tot_retry := w2.ptd.stats.tot_retry + 1 })

/-! ## The retry bookkeeping -/

/-- `retry_kept w w1`: the counter `tot_retry` is the same in both states,
and every connection of `w` is a connection of `w1` whose `cmd_retries` is at
most what it was, or at most 1. -/
def retry_kept (w w1 : World) : Prop :=
  w1.ptd.stats.tot_retry = w.ptd.stats.tot_retry ∧
  ∀ u cc, w.get_c u = some cc →
    ∃ cc1, w1.get_c u = some cc1 ∧ (cc1.cmd_retries ≤ cc.cmd_retries ∨ cc1.cmd_retries ≤ 1)

/-- Assumption on the host server and on the forwarding function: they leave
`tot_retry` alone, keep every connection, and do not raise a `cmd_retries`
(unless to a value of at most 1). -/
def Env.retry_frame (env : Env) : Prop :=
  (∀ w c, retry_kept w (env.drive_machine w c)) ∧
  (∀ w d c, retry_kept w (env.protocol_stats_foreach_write w d c)) ∧
  (∀ w d, retry_kept w (env.propagate_downstream w d).2)

/-- A socket that is closing before any reply byte arrived; it belongs to
the downstream at address 0. -/
def closing_socket : conn :=
  { extra := some 0, state := conn_state.conn_closing, rcurr := some 0 }

/-- A reserved downstream with one socket (connection 1), one upstream
attached (connection 0) and one request in flight. -/
def closing_downstream : downstream :=
  { config := some "a:11211", config_ver := 1, downstream_conns := [some 1],
    upstream_conn := some 0, downstream_used := 1, downstream_used_start := 1 }

/-- A state in which the only socket of the reserved downstream 0 is
closing, with the upstream `get a` attached. -/
def closing_world : World :=
  { proxy := created_world.proxy
    ptd := { downstream_max := 2, downstream_reserved := some 0, downstream_num := 1,
             downstream_tot := 1, stats := { num_downstream_conn := 1 } }
    ds := [some closing_downstream]
    conns := [waiting_conn none "get a", closing_socket] }

/-- The state `closing_world` after `cproxy_on_close_downstream_conn` ran on
the socket. -/
def closed_world : World :=
  match cproxy_on_close_downstream_conn quiet_env closing_world 1 with
  | .ok (_, w) => w
  | .error _ => closing_world

/-- One step of the proxy as far as the retry bookkeeping goes: one of the
functions of `cproxy.c` that queue, pair, release and close connections
returning normally, or a step of the host that keeps the bookkeeping. -/
inductive retry_step (env : Env) : World → World → Prop
  | close_downstream {w w1 : World} {r : Option Nat} (c : Nat) :
      cproxy_on_close_downstream_conn env w c = .ok (r, w1) → retry_step env w w1
  | close_upstream {w w1 : World} (c : Nat) :
      cproxy_on_close_upstream_conn env w c = .ok w1 → retry_step env w w1
  | pause {w w1 : World} (uc : Nat) :
      cproxy_pause_upstream_for_downstream env w uc = .ok w1 → retry_step env w w1
  | timeout {w w1 : World} : wait_queue_timeout env w = .ok w1 → retry_step env w w1
  | release {w w1 : World} {b : Bool} (d : Nat) (force : Bool) :
      cproxy_release_downstream env w d force = .ok (b, w1) → retry_step env w w1
  | assign {w w1 : World} {t : List (Option (List Nat))} :
      cproxy_assign_downstream env w = .ok (t, w1) → retry_step env w w1
  | host {w w1 : World} : retry_kept w w1 → retry_step env w w1

/-- States reachable from a given one by steps of `retry_step`. -/
inductive retry_reachable (env : Env) (w0 : World) : World → Prop
  | init : retry_reachable env w0 w0
  | step {w w1 : World} : retry_reachable env w0 w → retry_step env w w1 →
      retry_reachable env w0 w1

/-! ## The upstream lists -/

/-- The head of the upstream list of the downstream at an address; `none`
when the cell is dead. -/
def World.uhead (w : World) (a : Nat) : Option (Option Nat) :=
  (w.get_d a).map (fun dd => dd.upstream_conn)

/-- `lists_wf w q L`: the wait queue is the proper list `q` and its tail
pointer designates the last element of `q`; the upstream list of every live
downstream `a` is the proper list `L a`, and `L a` is empty for a dead cell;
no connection is on two of these lists. -/
structure lists_wf (w : World) (q : List Nat) (L : Nat → List Nat) : Prop where
  queue : IsChain w.cnext w.ptd.waiting_any_downstream_head q
  tail : w.ptd.waiting_any_downstream_tail = q.getLast?
  lists : ∀ a h, w.uhead a = some h → IsChain w.cnext h (L a)
  dead : ∀ a, w.uhead a = none → L a = []
  off_queue : ∀ a x, x ∈ L a → x ∉ q
  apart : ∀ a b, a ≠ b → ∀ x, x ∈ L a → x ∉ L b

/-- The pairing state is well formed: the pool lists are proper and disjoint,
and so are the wait queue and the upstream lists. -/
def pairing_wf (w : World) : Prop :=
  pool_lists w ∧ ∃ q L, lists_wf w q L

/-- Assumption on the forwarding function `propagate_downstream`: it keeps
the pairing state well formed. -/
def Env.propagate_wf (env : Env) : Prop :=
  ∀ w d, pairing_wf w → pairing_wf (env.propagate_downstream w d).2

/-- The upstream lists of all the cells of the downstream heap, in the order
of the addresses, read off the heap; a dead cell has the empty list. -/
def World.attached_lists (w : World) : List (Option (List Nat)) :=
  (List.range w.ds.length).map (fun a =>
    match w.get_d a with
    | none => some []
    | some dd => w.upstream_list dd)

/-- The concatenation of the wait queue and of the upstream lists of all the
downstreams; `none` when one of the lists is not proper. -/
def World.all_upstreams (w : World) : Option (List Nat) :=
  match w.wait_queue with
  | none => none
  | some q =>
    if w.attached_lists.all (fun o => o.isSome) then
      some (q ++ (w.attached_lists.map (fun o => o.getD [])).flatten)
    else none

/-- One step of the pairing engine: one of the five functions that move
upstreams between the lists returning normally.  An upstream is paused only
when it is on no list. -/
inductive pairing_step (env : Env) : World → World → Prop
  | pause {w w1 : World} (uc : Nat) :
      (∀ l, w.all_upstreams = some l → uc ∉ l) →
      cproxy_pause_upstream_for_downstream env w uc = .ok w1 → pairing_step env w w1
  | assign {w w1 : World} {t : List (Option (List Nat))} :
      cproxy_assign_downstream env w = .ok (t, w1) → pairing_step env w w1
  | release {w w1 : World} {b : Bool} (d : Nat) (force : Bool) :
      cproxy_release_downstream env w d force = .ok (b, w1) → pairing_step env w w1
  | close_upstream {w w1 : World} (c : Nat) :
      cproxy_on_close_upstream_conn env w c = .ok w1 → pairing_step env w w1
  | timeout {w w1 : World} : wait_queue_timeout env w = .ok w1 → pairing_step env w w1

/-- States reachable from a given one by steps of the pairing engine. -/
inductive pairing_reachable (env : Env) (w0 : World) : World → Prop
  | init : pairing_reachable env w0 w0
  | step {w w1 : World} : pairing_reachable env w0 w → pairing_step env w w1 →
      pairing_reachable env w0 w1

/-- An upstream that holds a `noreply` storage command and waits for a
downstream. -/
def noreply_conn : conn :=
  { waiting_conn none "delete a noreply" with noreply := true }

/-- The state `closing_world` with the noreply upstream as connection 0. -/
def noreply_world : World :=
  { closing_world with conns := [noreply_conn, closing_socket] }

/-- A reserved downstream with three slots, the sockets 1 and 2 and one
`NULL` slot between them, and the upstream 0 attached. -/
def broadcast_downstream : downstream :=
  { config := some "a:11211,b:11211,c:11211", config_ver := 1,
    downstream_conns := [some 1, none, some 2], upstream_conn := some 0 }

/-- A state with the reserved downstream `broadcast_downstream` at address 0,
its two idle sockets and the paused upstream 0. -/
def broadcast_world : World :=
  { proxy := created_world.proxy
    ptd := { downstream_max := 2, downstream_reserved := some 0, downstream_num := 1,
             downstream_tot := 1 }
    ds := [some broadcast_downstream]
    conns := [waiting_conn none "stats", socket_conn, socket_conn] }

/-! ## The first phase of a binary response -/

/-- The quiet opcodes with their non-quiet forms, as in the `switch` of the
host's `process_bin_noreply`. -/
def quiet_opcodes : List (Nat × Nat) :=
  [(PROTOCOL_BINARY_CMD_SETQ, PROTOCOL_BINARY_CMD_SET),
   (PROTOCOL_BINARY_CMD_ADDQ, PROTOCOL_BINARY_CMD_ADD),
   (PROTOCOL_BINARY_CMD_REPLACEQ, PROTOCOL_BINARY_CMD_REPLACE),
   (PROTOCOL_BINARY_CMD_DELETEQ, PROTOCOL_BINARY_CMD_DELETE),
   (PROTOCOL_BINARY_CMD_INCREMENTQ, PROTOCOL_BINARY_CMD_INCREMENT),
   (PROTOCOL_BINARY_CMD_DECREMENTQ, PROTOCOL_BINARY_CMD_DECREMENT),
   (0x17, PROTOCOL_BINARY_CMD_QUIT),
   (PROTOCOL_BINARY_CMD_FLUSHQ, PROTOCOL_BINARY_CMD_FLUSH),
   (PROTOCOL_BINARY_CMD_APPENDQ, PROTOCOL_BINARY_CMD_APPEND),
   (PROTOCOL_BINARY_CMD_PREPENDQ, PROTOCOL_BINARY_CMD_PREPEND),
   (PROTOCOL_BINARY_CMD_GETQ, PROTOCOL_BINARY_CMD_GET),
   (PROTOCOL_BINARY_CMD_GETKQ, PROTOCOL_BINARY_CMD_GETK)]

/-- Modelled from the spec: the host's `process_bin_noreply`, which is not
part of the sources: it maps a quiet `c->cmd` to the non-quiet form and sets
`c->noreply`, and clears `c->noreply` for every other opcode. -/
def process_bin_noreply (cc : conn) : conn :=
  match quiet_opcodes.find? (fun p => (p.1 : Int) = cc.cmd) with
  | some p => { cc with noreply := true, cmd := p.2 }
  | none => { cc with noreply := false }

/-- A socket of the downstream at address 0 on which the header of a binary
response has arrived and nothing else was done: `status` is still in network
byte order, `keylen` is the key length of the header.  The bytes at `rcurr`
are the header. -/
def header_conn (opcode keylen extlen status bodylen : Nat) : conn :=
  { extra := some 0, state := conn_state.conn_parse_cmd, cmd := opcode, rcurr := some 0,
    rdata := bytes_to_string (List.replicate 24 0), keylen := keylen,
    binary_header := { magic := PROTOCOL_BINARY_RES, opcode := opcode, keylen := keylen,
                       extlen := extlen, status := status, bodylen := bodylen } }

/-- The state `response_world` with the socket 1 replaced by a socket on
which only the header of a response has arrived, and a merger map allocated
as for a `stats` broadcast. -/
def header_world (opcode keylen extlen status bodylen : Nat) : World :=
  { proxy := created_world.proxy
    ptd := { downstream_max := 2, downstream_reserved := some 0, downstream_num := 1,
             downstream_tot := 1 }
    ds := [some { response_downstream with merger := some [] }]
    conns := [waiting_conn none "stats", header_conn opcode keylen extlen status bodylen] }

/-- The state in which the STAT response `curr_items 10` (key length 10, body
length 12) was read completely into the item 7 on the socket 1. -/
def stat_world : World :=
  { header_world PROTOCOL_BINARY_CMD_STAT 10 0 0 12 with
    conns := [waiting_conn none "stats",
              { header_conn PROTOCOL_BINARY_CMD_STAT 10 0 0 12 with
                state := conn_state.conn_nread, item := some 7,
                cmd_start := some (bytes_to_string (List.replicate 24 0)) }] }

/-- The state `paired_world` with its four upstreams counted in
`num_upstream`. -/
def serving_world : World :=
  { paired_world with
    ptd := { paired_world.ptd with
      stats := { paired_world.ptd.stats with num_upstream := 4 } } }

/-- The test of `wait_queue_timeout` on the upstream at an address:
`uc->cmd_start_time <= cutoff`; `false` for an address that is no
connection. -/
def World.timed_out (w : World) (cutoff : Nat) (u : Nat) : Bool :=
  match w.get_c u with
  | some cu => decide (cu.cmd_start_time ≤ cutoff)
  | none => false

/-- The state `waiting_world` with the wait-queue timer armed at 5 seconds;
the upstreams 1 and 3 arrived at time 8, the others at time 0. -/
def timer_world : World :=
  { waiting_world with
    proxy := { waiting_world.proxy with
      behavior := { waiting_world.proxy.behavior with
        wait_queue_timeout := { tv_sec := 5, tv_usec := 0 } } }
    ptd := { waiting_world.ptd with timeout_tv := { tv_sec := 5, tv_usec := 0 } }
    conns := [waiting_conn (some 1) "get a b",
      { waiting_conn (some 2) "get b c" with cmd_start_time := 8 },
      waiting_conn (some 3) "gets d",
      { waiting_conn none "get e" with cmd_start_time := 8 }] }

/-- A host like `quiet_env` whose clock shows 10 seconds. -/
def clock_env : Env :=
  { quiet_env with current_time := 10 }

/-! ## The reserved state of a downstream -/

/-- `cell_frame d w w1`: between the two states every downstream cell but
`d` is unchanged, `d` has the same `next` link, and the pool lists and the
counter `downstream_assigns` of the `proxy_td` are the same. -/
def cell_frame (d : Nat) (w w1 : World) : Prop :=
  (∀ a, a ≠ d → w1.get_d a = w.get_d a) ∧ w1.dnext d = w.dnext d ∧
  w1.ptd.downstream_reserved = w.ptd.downstream_reserved ∧
  w1.ptd.downstream_released = w.ptd.downstream_released ∧
  w1.ptd.downstream_assigns = w.ptd.downstream_assigns

/-- `used_frame w w1`: between the two states the pool lists, the counter
`downstream_assigns` and the `next` links of the downstreams are the same,
every downstream keeps its `downstream_used`, and a downstream without
upstream has none afterwards. -/
def used_frame (w w1 : World) : Prop :=
  w1.ptd.downstream_reserved = w.ptd.downstream_reserved ∧
  w1.ptd.downstream_released = w.ptd.downstream_released ∧
  w1.ptd.downstream_assigns = w.ptd.downstream_assigns ∧
  (∀ a, w1.dnext a = w.dnext a) ∧
  ∀ a dd, w.get_d a = some dd →
    ∃ dd1, w1.get_d a = some dd1 ∧ dd1.downstream_used = dd.downstream_used ∧
      (dd.upstream_conn = none → dd1.upstream_conn = none)

/-- `links_frame S w w1`: between the two states the head and the tail of the
wait queue are the same, and so is the `next` link of every connection that
is not in `S`. -/
def links_frame (S : List Nat) (w w1 : World) : Prop :=
  w1.ptd.waiting_any_downstream_head = w.ptd.waiting_any_downstream_head ∧
  w1.ptd.waiting_any_downstream_tail = w.ptd.waiting_any_downstream_tail ∧
  ∀ c, c ∉ S → w1.cnext c = w.cnext c

/-! ## The wait queue -/

/-- One step of the operations on the wait queue returning normally:
`cproxy_wait_any_downstream` of an upstream that is on no list, the pops of
`cproxy_assign_downstream`, the `conn_list_remove` on the wait queue
(`wait_queue_remove`) and `wait_queue_timeout`. -/
inductive queue_step (env : Env) : World → World → Prop
  | wait {w w1 : World} (uc : Nat) :
      (∀ l, w.all_upstreams = some l → uc ∉ l) →
      cproxy_wait_any_downstream w uc = .ok w1 → queue_step env w w1
  | assign {w w1 : World} {t : List (Option (List Nat))} :
      cproxy_assign_downstream env w = .ok (t, w1) → queue_step env w w1
  | remove {w w1 : World} (c : Nat) :
      wait_queue_remove w c = .ok w1 → queue_step env w w1
  | timeout {w w1 : World} : wait_queue_timeout env w = .ok w1 → queue_step env w w1

/-- States reachable from a given one by steps on the wait queue. -/
inductive queue_reachable (env : Env) (w0 : World) : World → Prop
  | init : queue_reachable env w0 w0
  | step {w w1 : World} : queue_reachable env w0 w → queue_step env w w1 →
      queue_reachable env w0 w1

/-! ## Creation and free accounting -/

/-- One step of the pool for the accounting of created and freed
downstreams: one of the four pool operations returning normally, a change of
the proxy configuration, or a `use_step` that leaves `downstream_tot` and
`tot_downstream_freed` alone (no `cproxy_reset_stats`). -/
inductive account_step (env : Env) : World → World → Prop
  | add {w w1 : World} : cproxy_add_downstream env w = .ok w1 → account_step env w w1
  | reserve {w w1 : World} {r : Option Nat} :
      cproxy_reserve_downstream env w = .ok (r, w1) → account_step env w w1
  | release {w w1 : World} {b : Bool} (d : Nat) (force : Bool) :
      cproxy_release_downstream env w d force = .ok (b, w1) → account_step env w w1
  | free {w w1 : World} (d : Nat) :
      cproxy_free_downstream w d = .ok w1 → account_step env w w1
  | config {w : World} (config : Option String) (config_ver : Nat)
      (behavior : proxy_behavior) :
      account_step env w
        { w with proxy :=
          { w.proxy with config := config, config_ver := config_ver, behavior := behavior } }
  | use {w w1 : World} : use_step w w1 →
      w1.ptd.downstream_tot = w.ptd.downstream_tot →
      w1.ptd.stats.tot_downstream_freed = w.ptd.stats.tot_downstream_freed →
      account_step env w w1

/-- States reachable from a given one by accounting steps. -/
inductive account_reachable (env : Env) (w0 : World) : World → Prop
  | init : account_reachable env w0 w0
  | step {w w1 : World} : account_reachable env w0 w → account_step env w w1 →
      account_reachable env w0 w1

/-- A host like `quiet_env` whose clock shows 3 seconds, less than the 5
seconds of the wait-queue timeout of `timer_world`. -/
def early_env : Env :=
  { quiet_env with current_time := 3 }

/-- The state `timer_world` with a wait-queue timeout of 1.5 seconds and all
four upstreams arrived at time 9. -/
def fraction_world : World :=
  { timer_world with
    proxy := { timer_world.proxy with
      behavior := { timer_world.proxy.behavior with
        wait_queue_timeout := { tv_sec := 1, tv_usec := 500000 } } }
    ptd := { timer_world.ptd with timeout_tv := { tv_sec := 1, tv_usec := 500000 } }
    conns := [{ waiting_conn (some 1) "get a b" with cmd_start_time := 9 },
      { waiting_conn (some 2) "get b c" with cmd_start_time := 9 },
      { waiting_conn (some 3) "gets d" with cmd_start_time := 9 },
      { waiting_conn none "get e" with cmd_start_time := 9 }] }

/-! ## A reference for `scan_tokens` -/

/-- The reference split of the claim on `scan_tokens`, following its words:
the maximal space-free non-empty substrings of the command, in order. -/
def scan_tokens_reference (command : List Char) : List (List Char) :=
  (command.splitOn ' ').filter (fun k => k ≠ [])

/-- The substring of `text` that a token designates: `length` characters
from the pointer `value` on; empty for a `NULL` pointer. -/
def token_t.slice (text : List Char) (t : token_t) : List Char :=
  match t.value with
  | some a => (text.drop a).take t.length
  | none => []

/-- The character `spec->tokens[cur_token].value[1]` on which
`a2b_fill_request_token` dispatches: the second character of the slot
`cur_token` of the row (`NULL` pointer or end of string give `none`). -/
def A2BSpec.tag (spec : A2BSpec) (cur_token : Nat) : Option Char :=
  match (spec.tokens.getD cur_token {}).str spec.line with
  | none => none
  | some st => st.tail.head?

/-- The tokens of `flush_all noreply` as `scan_tokens` returns them. -/
def flush_noreply_tokens : List token_t :=
  [{ value := some 0, length := 9 }, { value := some 10, length := 7 },
   { value := none, length := 0 }]

/-- A forwarding function that cannot forward and retries later: it takes
the upstreams off the downstream, puts each back on the wait queue with
`cproxy_wait_any_downstream`, and returns `false`. -/
def requeue_upstreams (w : World) (d : Nat) : Bool × World :=
  match w.get_d d with
  | none => (false, w)
  | some dd =>
    match w.upstream_list dd with
    | none => (false, w)
    | some us =>
      (false, us.foldl
        (fun acc uc =>
          match cproxy_wait_any_downstream acc uc with
          | .ok w2 => w2
          | .error _ => acc)
        (w.set_d d { dd with upstream_conn := none }))

/-- A host like `quiet_env` whose forwarding function is `requeue_upstreams`. -/
def requeue_env : Env :=
  { quiet_env with propagate_downstream := requeue_upstreams }

/-- A host like `quiet_env` whose forwarding function succeeds and, while it
runs, a further upstream arrives on the wait queue: the connection at
address `d + 2` for the downstream at address `d`, when there is one. -/
def tack_env : Env :=
  { quiet_env with
    propagate_downstream := fun w d =>
      match cproxy_wait_any_downstream w (d + 2) with
      | .ok w1 => (true, w1)
      | .error _ => (true, w) }

/-- The state `one_released_world` with two upstreams on the wait queue,
both simple gets (which `is_compatible_request` accepts as one batch). -/
def squash_world : World :=
  { one_released_world with
    ptd := { one_released_world.ptd with
             waiting_any_downstream_head := some 0, waiting_any_downstream_tail := some 1 }
    conns := [waiting_conn (some 1) "get a", waiting_conn none "get b"] }

/-- The state `squash_world` at the head of the loop of
`cproxy_assign_downstream`, after any number of iterations: the counters
`stats` apart it is `squash_world` with `downstream_assigns` 1. -/
def squash_loop_world (s : proxy_stats) : World :=
  { squash_world with
    ptd := { squash_world.ptd with downstream_assigns := 1, stats := s } }

/-- The state `created_world` with a pool cap of 3, two simple gets on the
wait queue and two more upstreams that are not queued yet. -/
def tack_world : World :=
  { proxy :=
      { name := "moxi", port := 11211, config := some "a:11211", config_ver := 1,
        behavior := { nthreads := 4, downstream_max := 3 } }
    ptd := { downstream_max := 3, waiting_any_downstream_head := some 0,
             waiting_any_downstream_tail := some 1 }
    conns := [waiting_conn (some 1) "get a", waiting_conn none "get b",
      waiting_conn none "get c", waiting_conn none "get d"] }

/-- A downstream socket of the downstream at address 0 on which the hit
response of a quiet `GETKQ` has arrived: `process_bin_noreply` has set
`noreply` and mapped the opcode to `GETK`; the item read is the item 7. -/
def hit_conn : conn :=
  { extra := some 0, state := conn_state.conn_pause, cmd := PROTOCOL_BINARY_CMD_GETK,
    noreply := true, cmd_start := some "", item := some 7,
    binary_header := { magic := PROTOCOL_BINARY_RES, opcode := PROTOCOL_BINARY_CMD_GETKQ,
                       keylen := 1, extlen := 4, bodylen := 10 } }

/-- A state with one reserved downstream (address 0) without multiget map
that has the paused upstreams 0 and 1 attached and the socket 2, on which a
hit response has arrived. -/
def hit_world : World :=
  { proxy := created_world.proxy
    ptd := { downstream_max := 2, downstream_reserved := some 0, downstream_num := 1,
             downstream_tot := 1 }
    ds := [some { config := some "a:11211", config_ver := 1, downstream_conns := [some 2],
                  upstream_conn := some 0, downstream_used := 1,
                  downstream_used_start := 1 }]
    conns := [waiting_conn (some 1) "get a", waiting_conn none "get a", hit_conn] }

/-- The test `c->msgused > 1 || c->msgbytes > 0` of the last loop of
`cproxy_forward_a2b_multiget_downstream` on the connection at address `c`:
something is queued on it. -/
def World.queued (w : World) (c : Nat) : Bool :=
  match w.get_c c with
  | some cc => decide (cc.msgused > 1 ∨ cc.msgbytes > 0)
  | none => false

/-- The number of slots of `downstream_conns` that hold a socket on which
something is queued. -/
def World.nqueued (w : World) (slots : List (Option Nat)) : Nat :=
  slots.countP (fun s =>
    match s with
    | some c => w.queued c
    | none => false)

/-- `queue_frame w w1`: every connection of `w` is a connection of `w1` with
the same state, link, `msgused` and `noreply` flag, whose queue is the one it
had followed by non-empty buffers; and every downstream of `w` is one of `w1`
with the same sockets. -/
def queue_frame (w w1 : World) : Prop :=
  (∀ c cc, w.get_c c = some cc →
    ∃ cc1 added, w1.get_c c = some cc1 ∧ cc1.state = cc.state ∧ cc1.next = cc.next ∧
      cc1.msgused = cc.msgused ∧ cc1.noreply = cc.noreply ∧
      cc1.cmd_start = cc.cmd_start ∧ cc1.cmd = cc.cmd ∧ cc1.item = cc.item ∧
      cc1.iov = cc.iov ++ added ∧ ∀ s, s ∈ added → 0 < s.length) ∧
  ∀ a dd, w.get_d a = some dd →
    ∃ dd1, w1.get_d a = some dd1 ∧ dd1.downstream_conns = dd.downstream_conns

@[simp] theorem get_d_set_d_ne (w : World) (a b : Nat) (v : downstream) (h : a ≠ b) :
    (w.set_d a v).get_d b = w.get_d b := by
  simp [World.get_d, World.set_d, List.getElem?_set_ne h]

theorem get_d_set_d_same (w : World) (a : Nat) (v : downstream) (h : a < w.ds.length) :
    (w.set_d a v).get_d a = some v := by
  simp [World.get_d, World.set_d, List.getElem?_set_self, h]

theorem lt_of_get_d {w : World} {a : Nat} {dd : downstream} (h : w.get_d a = some dd) :
    a < w.ds.length := by
  unfold World.get_d at h
  by_contra hc
  rw [List.getElem?_eq_none (by omega)] at h
  simp at h

theorem get_d_set_d_live (w : World) (a : Nat) (v dd : downstream) (h : w.get_d a = some dd) :
    (w.set_d a v).get_d a = some v :=
  get_d_set_d_same w a v (lt_of_get_d h)

theorem get_d_set_d (w : World) (a b : Nat) (v : downstream) :
    (w.set_d a v).get_d b = if a = b ∧ a < w.ds.length then some v else w.get_d b := by
  by_cases h : a = b
  · subst h
    by_cases h2 : a < w.ds.length
    · simp [h2, get_d_set_d_same]
    · simp [h2, World.get_d, World.set_d]
      rw [List.getElem?_eq_none (by simp; omega), List.getElem?_eq_none (by omega)]
  · simp [h]

@[simp] theorem get_d_free_d_ne (w : World) (a b : Nat) (h : a ≠ b) :
    (w.free_d a).get_d b = w.get_d b := by
  simp [World.get_d, World.free_d, List.getElem?_set_ne h]

@[simp] theorem get_d_free_d_same (w : World) (a : Nat) :
    (w.free_d a).get_d a = none := by
  by_cases h2 : a < w.ds.length
  · simp [World.get_d, World.free_d, List.getElem?_set_self, h2]
  · unfold World.get_d World.free_d
    rw [List.getElem?_eq_none (by simp; omega)]; rfl

@[simp] theorem get_d_set_c (w : World) (a b : Nat) (v : conn) :
    (w.set_c a v).get_d b = w.get_d b := rfl

@[simp] theorem get_d_set_ptd (w : World) (t : proxy_td) (b : Nat) :
    (w.set_ptd t).get_d b = w.get_d b := rfl

@[simp] theorem get_d_set_stats (w : World) (t : proxy_stats) (b : Nat) :
    (w.set_stats t).get_d b = w.get_d b := rfl

@[simp] theorem ptd_set_d (w : World) (a : Nat) (v : downstream) : (w.set_d a v).ptd = w.ptd := rfl
@[simp] theorem ptd_free_d (w : World) (a : Nat) : (w.free_d a).ptd = w.ptd := rfl
@[simp] theorem ptd_set_c (w : World) (a : Nat) (v : conn) : (w.set_c a v).ptd = w.ptd := rfl
@[simp] theorem ptd_set_ptd (w : World) (t : proxy_td) : (w.set_ptd t).ptd = t := rfl
@[simp] theorem ptd_set_stats (w : World) (t : proxy_stats) :
    (w.set_stats t).ptd = { w.ptd with stats := t } := rfl
@[simp] theorem proxy_set_d (w : World) (a : Nat) (v : downstream) :
    (w.set_d a v).proxy = w.proxy := rfl
@[simp] theorem proxy_free_d (w : World) (a : Nat) : (w.free_d a).proxy = w.proxy := rfl
@[simp] theorem proxy_set_c (w : World) (a : Nat) (v : conn) : (w.set_c a v).proxy = w.proxy := rfl
@[simp] theorem proxy_set_ptd (w : World) (t : proxy_td) : (w.set_ptd t).proxy = w.proxy := rfl
@[simp] theorem proxy_set_stats (w : World) (t : proxy_stats) :
    (w.set_stats t).proxy = w.proxy := rfl
@[simp] theorem conns_set_d (w : World) (a : Nat) (v : downstream) :
    (w.set_d a v).conns = w.conns := rfl
@[simp] theorem conns_free_d (w : World) (a : Nat) : (w.free_d a).conns = w.conns := rfl
@[simp] theorem conns_set_ptd (w : World) (t : proxy_td) : (w.set_ptd t).conns = w.conns := rfl
@[simp] theorem conns_set_stats (w : World) (t : proxy_stats) :
    (w.set_stats t).conns = w.conns := rfl
@[simp] theorem ds_set_c (w : World) (a : Nat) (v : conn) : (w.set_c a v).ds = w.ds := rfl
@[simp] theorem ds_set_ptd (w : World) (t : proxy_td) : (w.set_ptd t).ds = w.ds := rfl
@[simp] theorem ds_set_stats (w : World) (t : proxy_stats) : (w.set_stats t).ds = w.ds := rfl
@[simp] theorem ds_length_set_d (w : World) (a : Nat) (v : downstream) :
    (w.set_d a v).ds.length = w.ds.length := by simp [World.set_d]
@[simp] theorem ds_length_free_d (w : World) (a : Nat) :
    (w.free_d a).ds.length = w.ds.length := by simp [World.free_d]
@[simp] theorem conns_length_set_c (w : World) (a : Nat) (v : conn) :
    (w.set_c a v).conns.length = w.conns.length := by simp [World.set_c]

@[simp] theorem get_c_set_c_ne (w : World) (a b : Nat) (v : conn) (h : a ≠ b) :
    (w.set_c a v).get_c b = w.get_c b := by
  simp [World.get_c, World.set_c, List.getElem?_set_ne h]

theorem lt_of_get_c {w : World} {a : Nat} {cc : conn} (h : w.get_c a = some cc) :
    a < w.conns.length := by
  unfold World.get_c at h
  by_contra hc
  rw [List.getElem?_eq_none (by omega)] at h
  simp at h

theorem get_c_set_c_same (w : World) (a : Nat) (v : conn) (h : a < w.conns.length) :
    (w.set_c a v).get_c a = some v := by
  simp [World.get_c, World.set_c, List.getElem?_set_self, h]

@[simp] theorem get_c_set_d (w : World) (a b : Nat) (v : downstream) :
    (w.set_d a v).get_c b = w.get_c b := rfl
@[simp] theorem get_c_free_d (w : World) (a b : Nat) : (w.free_d a).get_c b = w.get_c b := rfl
@[simp] theorem get_c_set_ptd (w : World) (t : proxy_td) (b : Nat) :
    (w.set_ptd t).get_c b = w.get_c b := rfl
@[simp] theorem get_c_set_stats (w : World) (t : proxy_stats) (b : Nat) :
    (w.set_stats t).get_c b = w.get_c b := rfl

/-! ## Lists threaded through a heap -/

theorem IsChain.congr {nxt nxt1 : Nat → Option (Option Nat)} {h : Option Nat} {xs : List Nat}
    (hc : IsChain nxt h xs) (he : ∀ a ∈ xs, nxt1 a = nxt a) : IsChain nxt1 h xs := by
  induction hc with
  | nil => exact IsChain.nil
  | cons hn _ ih =>
    refine IsChain.cons ?_ (ih fun a ha => he a (List.mem_cons_of_mem _ ha))
    rw [he _ (List.mem_cons_self _ _)]; exact hn

theorem IsChain.functional {nxt : Nat → Option (Option Nat)} {h : Option Nat} {xs ys : List Nat}
    (h1 : IsChain nxt h xs) (h2 : IsChain nxt h ys) : xs = ys := by
  induction h1 generalizing ys with
  | nil => cases h2; rfl
  | cons hn _ ih =>
    cases h2 with
    | cons hn2 hr2 =>
      rw [hn] at hn2
      cases hn2
      rw [ih hr2]

theorem IsChain.live {nxt : Nat → Option (Option Nat)} {h : Option Nat} {xs : List Nat}
    (hc : IsChain nxt h xs) {a : Nat} (ha : a ∈ xs) : ∃ p, nxt a = some p := by
  induction hc with
  | nil => cases ha
  | cons hn _ ih =>
    rcases List.mem_cons.1 ha with rfl | hm
    · exact ⟨_, hn⟩
    · exact ih hm

theorem IsChain.suffix {nxt : Nat → Option (Option Nat)} {h : Option Nat} {pre post : List Nat}
    {a : Nat} (hc : IsChain nxt h (pre ++ a :: post)) : IsChain nxt (some a) (a :: post) := by
  induction pre generalizing h with
  | nil => cases hc with | cons hn hr => exact IsChain.cons hn hr
  | cons b pre ih => cases hc with | cons hn hr => exact ih hr

theorem IsChain.nodup {nxt : Nat → Option (Option Nat)} {h : Option Nat} {xs : List Nat}
    (hc : IsChain nxt h xs) : xs.Nodup := by
  induction hc with
  | nil => exact List.nodup_nil
  | @cons a p xs hn hr ih =>
    refine List.nodup_cons.2 ⟨?_, ih⟩
    intro hm
    obtain ⟨pre, post, rfl⟩ := List.append_of_mem hm
    have h1 : IsChain nxt (some a) (a :: post) := hr.suffix
    have h2 : IsChain nxt (some a) (a :: (pre ++ a :: post)) := IsChain.cons hn hr
    have h3 := congrArg List.length (h1.functional h2)
    simp at h3
    omega

theorem IsChain.head_eq {nxt : Nat → Option (Option Nat)} {h : Option Nat} {a : Nat}
    {xs : List Nat} (hc : IsChain nxt h (a :: xs)) : h = some a := by
  cases hc; rfl

theorem IsChain.of_nil {nxt : Nat → Option (Option Nat)} {h : Option Nat}
    (hc : IsChain nxt h []) : h = none := by
  cases hc; rfl

theorem IsChain.of_none {nxt : Nat → Option (Option Nat)} {xs : List Nat}
    (hc : IsChain nxt none xs) : xs = [] := by
  cases hc; rfl

theorem IsChain.tail {nxt : Nat → Option (Option Nat)} {h : Option Nat} {a : Nat}
    {xs : List Nat} (hc : IsChain nxt h (a :: xs)) :
    ∃ p, nxt a = some p ∧ IsChain nxt p xs := by
  cases hc with | cons hn hr => exact ⟨_, hn, hr⟩

theorem walk_of_chain {nxt : Nat → Option (Option Nat)} {h : Option Nat} {xs : List Nat}
    (hc : IsChain nxt h xs) : ∀ n, xs.length ≤ n → walk nxt n h = some xs := by
  induction hc with
  | nil => intro n _; cases n <;> rfl
  | cons hn _ ih =>
    intro n hl
    cases n with
    | zero => simp at hl
    | succ n =>
      simp only [walk, hn]
      rw [ih n (by simpa using hl)]
      rfl

theorem chain_of_walk {nxt : Nat → Option (Option Nat)} :
    ∀ (n : Nat) (h : Option Nat) (xs : List Nat), walk nxt n h = some xs → IsChain nxt h xs := by
  intro n
  induction n with
  | zero =>
    intro h xs hw
    cases h with
    | none => simp [walk] at hw; subst hw; exact IsChain.nil
    | some a => simp [walk] at hw
  | succ n ih =>
    intro h xs hw
    cases h with
    | none => simp [walk] at hw; subst hw; exact IsChain.nil
    | some a =>
      simp only [walk] at hw
      cases hn : nxt a with
      | none => simp [hn] at hw
      | some p =>
        simp only [hn] at hw
        cases hr : walk nxt n p with
        | none => simp [hr] at hw
        | some ys =>
          simp [hr] at hw
          subst hw
          exact IsChain.cons hn (ih p ys hr)

theorem nodup_length_le {xs : List Nat} {N : Nat} (hn : xs.Nodup) (hb : ∀ a ∈ xs, a < N) :
    xs.length ≤ N := by
  have h1 : xs.toFinset ⊆ Finset.range N := by
    intro a ha
    exact Finset.mem_range.2 (hb a (List.mem_toFinset.1 ha))
  have h2 := Finset.card_le_card h1
  rw [List.toFinset_card_of_nodup hn, Finset.card_range] at h2
  exact h2

theorem dnext_lt {w : World} {a : Nat} {p : Option Nat} (h : w.dnext a = some p) :
    a < w.ds.length := by
  unfold World.dnext at h
  cases hg : w.get_d a with
  | none => simp [hg] at h
  | some dd => exact lt_of_get_d hg

theorem cnext_lt {w : World} {a : Nat} {p : Option Nat} (h : w.cnext a = some p) :
    a < w.conns.length := by
  unfold World.cnext at h
  cases hg : w.get_c a with
  | none => simp [hg] at h
  | some dd => exact lt_of_get_c hg

theorem dchain_length_le {w : World} {h : Option Nat} {xs : List Nat}
    (hc : IsChain w.dnext h xs) : xs.length ≤ w.ds.length :=
  nodup_length_le hc.nodup fun _ ha => by
    obtain ⟨p, hp⟩ := hc.live ha
    exact dnext_lt hp

theorem cchain_length_le {w : World} {h : Option Nat} {xs : List Nat}
    (hc : IsChain w.cnext h xs) : xs.length ≤ w.conns.length :=
  nodup_length_le hc.nodup fun _ ha => by
    obtain ⟨p, hp⟩ := hc.live ha
    exact cnext_lt hp

theorem reserved_list_iff {w : World} {rs : List Nat} :
    w.reserved_list = some rs ↔ IsChain w.dnext w.ptd.downstream_reserved rs :=
  ⟨chain_of_walk _ _ _, fun h => walk_of_chain h _ (dchain_length_le h)⟩

theorem released_list_iff {w : World} {ls : List Nat} :
    w.released_list = some ls ↔ IsChain w.dnext w.ptd.downstream_released ls :=
  ⟨chain_of_walk _ _ _, fun h => walk_of_chain h _ (dchain_length_le h)⟩

theorem upstream_list_iff {w : World} {dd : downstream} {us : List Nat} :
    w.upstream_list dd = some us ↔ IsChain w.cnext dd.upstream_conn us :=
  ⟨chain_of_walk _ _ _, fun h => walk_of_chain h _ (cchain_length_le h)⟩

theorem wait_queue_iff {w : World} {q : List Nat} :
    w.wait_queue = some q ↔ IsChain w.cnext w.ptd.waiting_any_downstream_head q :=
  ⟨chain_of_walk _ _ _, fun h => walk_of_chain h _ (cchain_length_le h)⟩

theorem dnext_eq {w : World} {a : Nat} {dd : downstream} (h : w.get_d a = some dd) :
    w.dnext a = some dd.next := by
  simp [World.dnext, h]

theorem cnext_eq {w : World} {a : Nat} {cc : conn} (h : w.get_c a = some cc) :
    w.cnext a = some cc.next := by
  simp [World.cnext, h]

/-! ## `downstream_list_remove` -/

theorem dnext_set_d_ne (w : World) (q a : Nat) (v : downstream) (h : q ≠ a) :
    (w.set_d q v).dnext a = w.dnext a := by
  simp [World.dnext, h]

theorem get_d_of_dnext {w : World} {a : Nat} {p : Option Nat} (h : w.dnext a = some p) :
    ∃ dd, w.get_d a = some dd ∧ dd.next = p := by
  unfold World.dnext at h
  cases hg : w.get_d a with
  | none => simp [hg] at h
  | some dd => simp [hg] at h; exact ⟨dd, rfl, h⟩

theorem dlr_loop_some (head : Option Nat) (d : Nat) (w : World) :
    ∀ (ys : List Nat) (fuel p : Nat) (curr : Option Nat) (pd : downstream),
      IsChain w.dnext curr ys → ys.length ≤ fuel → w.get_d p = some pd → pd.next = curr →
      p ∉ ys → p ≠ d → (∀ h, head = some h → h ∉ ys) →
      ∃ w1, downstream_list_remove_loop head d fuel w (some p) curr = .ok (head, w1) ∧
        IsChain w1.dnext (some p) (p :: ys.erase d) ∧ (d ∉ ys → w1 = w) ∧
        relinked w w1 (p :: ys) d := by
  intro ys
  induction ys with
  | nil =>
    intro fuel p curr pd hc _ hp hpn _ _ _
    have := hc.of_nil
    subst this
    refine ⟨w, ?_, ?_, fun _ => rfl, Or.inl rfl⟩
    · cases fuel <;> rfl
    · exact IsChain.cons (by rw [dnext_eq hp, hpn]) IsChain.nil
  | cons c rest ih =>
    intro fuel p curr pd hc hf hp hpn hpy hpd hh
    have hcurr := hc.head_eq
    subst hcurr
    obtain ⟨pp, hcn, hrest⟩ := hc.tail
    obtain ⟨cd, hcd, hcdn⟩ := get_d_of_dnext hcn
    have hnd := hc.nodup
    cases fuel with
    | zero => simp at hf
    | succ fuel =>
      simp only [downstream_list_remove_loop, hcd]
      by_cases hcdq : c = d
      · subst hcdq
        have hne : ¬ (some c = head) := by
          intro he
          exact hh c he.symm (List.mem_cons_self _ _)
        simp only [if_true, hne, if_false, hp]
        refine ⟨_, rfl, ?_, ?_, Or.inr ⟨p, pd, cd.next, List.mem_cons_self _ _, hpd, hp, rfl⟩⟩
        · simp only [List.erase_cons_head]
          refine @IsChain.cons _ p cd.next rest ?_ ?_
          · rw [dnext_eq (get_d_set_d_live w p _ pd hp)]
          · rw [hcdn]
            refine hrest.congr fun a ha => dnext_set_d_ne _ _ _ _ ?_
            rintro rfl
            exact hpy (List.mem_cons_of_mem _ ha)
        · intro hn
          exact absurd (List.mem_cons_self _ _) hn
      · simp only [hcdq, if_false]
        have hcr : c ∉ rest := (List.nodup_cons.1 hnd).1
        obtain ⟨w1, hrun, hch, hsame, hrel⟩ :=
          ih fuel c cd.next cd (hcdn ▸ hrest) (by simpa using hf) hcd rfl hcr hcdq
            (fun h he hm => hh h he (List.mem_cons_of_mem _ hm))
        refine ⟨w1, hrun, ?_, ?_, ?_⟩
        · have he : (c :: rest).erase d = c :: rest.erase d := by
            rw [List.erase_cons_tail]
            simpa using hcdq
          rw [he]
          refine IsChain.cons ?_ hch
          rcases hrel with rfl | ⟨q, qd, n, hq, _, _, rfl⟩
          · rw [dnext_eq hp, hpn]
          · rw [dnext_set_d_ne _ _ _ _ (by rintro rfl; exact hpy hq), dnext_eq hp, hpn]
        · intro hn
          exact hsame fun hm => hn (List.mem_cons_of_mem _ hm)
        · rcases hrel with rfl | ⟨q, qd, n, hq, hqd, hqg, rfl⟩
          · exact Or.inl rfl
          · exact Or.inr ⟨q, qd, n, List.mem_cons_of_mem _ hq, hqd, hqg, rfl⟩

theorem dlr_loop_spec (w : World) (head : Option Nat) (d fuel : Nat) (xs : List Nat)
    (hc : IsChain w.dnext head xs) (hf : xs.length ≤ fuel) :
    ∃ head1 w1, downstream_list_remove_loop head d fuel w none head = .ok (head1, w1) ∧
      IsChain w1.dnext head1 (xs.erase d) ∧ (d ∉ xs → w1 = w ∧ head1 = head) ∧
      relinked w w1 xs d := by
  cases hc with
  | nil =>
    refine ⟨none, w, ?_, IsChain.nil, fun _ => ⟨rfl, rfl⟩, Or.inl rfl⟩
    cases fuel <;> rfl
  | @cons c pp rest hcn hrest =>
    obtain ⟨cd, hcd, hcdn⟩ := get_d_of_dnext hcn
    have hnd := (IsChain.cons hcn hrest).nodup
    cases fuel with
    | zero => simp at hf
    | succ fuel =>
      simp only [downstream_list_remove_loop, hcd]
      by_cases hcdq : c = d
      · subst hcdq
        simp only [if_true]
        refine ⟨cd.next, w, rfl, ?_, ?_, Or.inl rfl⟩
        · simp only [List.erase_cons_head]
          rw [hcdn]; exact hrest
        · intro hn
          exact absurd (List.mem_cons_self _ _) hn
      · simp only [hcdq, if_false]
        have hcr : c ∉ rest := (List.nodup_cons.1 hnd).1
        obtain ⟨w1, hrun, hch, hsame, hrel⟩ :=
          dlr_loop_some (some c) d w rest fuel c cd.next cd (hcdn ▸ hrest) (by simpa using hf)
            hcd rfl hcr hcdq (fun h he => by cases he; exact hcr)
        refine ⟨some c, w1, hrun, ?_, ?_, hrel⟩
        · have he : (c :: rest).erase d = c :: rest.erase d := by
            rw [List.erase_cons_tail]
            simpa using hcdq
          rw [he]; exact hch
        · intro hn
          exact ⟨hsame fun hm => hn (List.mem_cons_of_mem _ hm), rfl⟩

theorem downstream_list_remove_spec (w : World) (head : Option Nat) (d : Nat) (xs : List Nat)
    (hc : IsChain w.dnext head xs) :
    ∃ head1 w1, downstream_list_remove w head d = .ok (head1, w1) ∧
      IsChain w1.dnext head1 (xs.erase d) ∧ (d ∉ xs → w1 = w ∧ head1 = head) ∧
      relinked w w1 xs d :=
  dlr_loop_spec w head d w.ds.length xs hc (dchain_length_le hc)

/-! ### Consequences of `relinked` -/

theorem relinked.ptd {w w1 : World} {xs : List Nat} {d : Nat} (h : relinked w w1 xs d) :
    w1.ptd = w.ptd := by
  rcases h with rfl | ⟨q, qd, n, _, _, _, rfl⟩ <;> rfl

theorem relinked.proxy {w w1 : World} {xs : List Nat} {d : Nat} (h : relinked w w1 xs d) :
    w1.proxy = w.proxy := by
  rcases h with rfl | ⟨q, qd, n, _, _, _, rfl⟩ <;> rfl

theorem relinked.conns {w w1 : World} {xs : List Nat} {d : Nat} (h : relinked w w1 xs d) :
    w1.conns = w.conns := by
  rcases h with rfl | ⟨q, qd, n, _, _, _, rfl⟩ <;> rfl

theorem relinked.ds_length {w w1 : World} {xs : List Nat} {d : Nat} (h : relinked w w1 xs d) :
    w1.ds.length = w.ds.length := by
  rcases h with rfl | ⟨q, qd, n, _, _, _, rfl⟩
  · rfl
  · simp

theorem relinked.get_d_off {w w1 : World} {xs : List Nat} {d : Nat} (h : relinked w w1 xs d)
    {a : Nat} (ha : a ∉ xs ∨ a = d) : w1.get_d a = w.get_d a := by
  rcases h with rfl | ⟨q, qd, n, hq, hqd, _, rfl⟩
  · rfl
  · refine get_d_set_d_ne _ _ _ _ ?_
    rintro rfl
    rcases ha with ha | ha
    · exact ha hq
    · exact hqd ha

theorem relinked.payload {w w1 : World} {xs : List Nat} {d : Nat} (h : relinked w w1 xs d)
    (a : Nat) : (w1.get_d a).map downstream.payload = (w.get_d a).map downstream.payload := by
  rcases h with rfl | ⟨q, qd, n, hq, hqd, hg, rfl⟩
  · rfl
  · by_cases hqa : q = a
    · subst hqa
      rw [get_d_set_d_live w q _ qd hg, hg]
      rfl
    · rw [get_d_set_d_ne _ _ _ _ hqa]

theorem relinked.chain_off {w w1 : World} {xs : List Nat} {d : Nat} (h : relinked w w1 xs d)
    {head : Option Nat} {ys : List Nat} (hc : IsChain w.dnext head ys)
    (hd : ∀ a, a ∈ ys → a ∉ xs ∨ a = d) : IsChain w1.dnext head ys :=
  hc.congr fun a ha => by
    unfold World.dnext
    rw [h.get_d_off (hd a ha)]

theorem payload_live {w w1 : World} {a : Nat}
    (h : (w1.get_d a).map downstream.payload = (w.get_d a).map downstream.payload) :
    w1.get_d a = none ↔ w.get_d a = none := by
  cases h1 : w1.get_d a <;> cases h2 : w.get_d a <;> simp [h1, h2] at h ⊢

/-! ## The loop delinking upstreams in `cproxy_release_downstream` -/

theorem same_links.refl_links (w : World) : same_links w w :=
  ⟨rfl, rfl, rfl, fun _ => rfl, w.ptd.stats.tot_oom, rfl⟩

theorem same_links.trans_links {w w1 w2 : World} (h1 : same_links w w1) (h2 : same_links w1 w2) :
    same_links w w2 := by
  obtain ⟨a1, a2, a3, a4, n1, a5⟩ := h1
  obtain ⟨b1, b2, b3, b4, n2, b5⟩ := h2
  refine ⟨b1.trans a1, b2.trans a2, b3.trans a3, fun c => (b4 c).trans (a4 c), n2, ?_⟩
  rw [b5, a5]

theorem same_links.get_d {w w1 : World} (h : same_links w w1) (a : Nat) :
    w1.get_d a = w.get_d a := by
  unfold World.get_d
  rw [h.2.1]

theorem same_links.get_c_some {w w1 : World} (h : same_links w w1) {c : Nat} {cc : conn}
    (hc : w.get_c c = some cc) : ∃ cc1, w1.get_c c = some cc1 ∧ cc1.next = cc.next := by
  have h4 := h.2.2.2.1 c
  rw [cnext_eq hc] at h4
  unfold World.cnext at h4
  cases hg : w1.get_c c with
  | none => simp [hg] at h4
  | some cc1 => simp [hg] at h4; exact ⟨cc1, rfl, h4⟩

theorem same_links.get_c_none {w w1 : World} (h : same_links w w1) {c : Nat}
    (hc : w.get_c c = none) : w1.get_c c = none := by
  have h4 := h.2.2.2.1 c
  unfold World.cnext at h4
  rw [hc] at h4
  cases hg : w1.get_c c with
  | none => rfl
  | some cc1 => simp [hg] at h4

theorem same_links.of_same_pool {w w1 : World} (h : same_pool w w1) : same_links w w1 :=
  ⟨h.1, h.2.2.1, h.2.2.2.1, h.2.2.2.2, w.ptd.stats.tot_oom, by rw [h.2.1]⟩

theorem same_links.incr_tot_oom (w : World) : same_links w w.incr_tot_oom :=
  ⟨rfl, rfl, rfl, fun _ => rfl, w.ptd.stats.tot_oom + 1, rfl⟩

theorem cnext_set_c_same_next (w : World) (c : Nat) (cc v : conn) (hc : w.get_c c = some cc)
    (hv : v.next = cc.next) (a : Nat) : (w.set_c c v).cnext a = w.cnext a := by
  unfold World.cnext
  by_cases h : c = a
  · subst h
    rw [get_c_set_c_same w c v (lt_of_get_c hc), hc]
    simp [hv]
  · rw [get_c_set_c_ne _ _ _ _ h]

theorem same_links.set_c (w : World) (c : Nat) (cc v : conn) (hc : w.get_c c = some cc)
    (hv : v.next = cc.next) : same_links w (w.set_c c v) :=
  ⟨rfl, rfl, by simp, cnext_set_c_same_next w c cc v hc hv, w.ptd.stats.tot_oom, rfl⟩

theorem conn_set_state_spec (w : World) (c : Nat) (s : conn_state) :
    (w.get_c c = none → conn_set_state w c s = .error .bad_pointer) ∧
    (∀ cc, w.get_c c = some cc →
      conn_set_state w c s = .ok (w.set_c c { cc with state := s }) ∧
      same_links w (w.set_c c { cc with state := s })) := by
  constructor
  · intro h; simp [conn_set_state, h]
  · intro cc h
    exact ⟨by simp [conn_set_state, h], same_links.set_c w c cc _ h rfl⟩

theorem cproxy_close_conn_spec (env : Env) (hf : env.frame) (w : World) (c : Nat) :
    (w.get_c c = none → cproxy_close_conn env w c = .error .bad_pointer) ∧
    (∀ cc, w.get_c c = some cc →
      ∃ w1, cproxy_close_conn env w c = .ok w1 ∧ same_links w w1) := by
  constructor
  · intro h
    simp [cproxy_close_conn, (conn_set_state_spec w c _).1 h, bind, Except.bind]
  · intro cc h
    obtain ⟨h1, h2⟩ := (conn_set_state_spec w c conn_state.conn_closing).2 cc h
    refine ⟨_, by simp only [cproxy_close_conn, h1, bind, Except.bind]; rfl, ?_⟩
    exact h2.trans_links (same_links.of_same_pool (hf.1 _ _))

theorem add_iov_spec (env : Env) (w : World) (c : Nat) (buf : String) :
    (w.get_c c = none → add_iov env w c buf = .error .bad_pointer) ∧
    (∀ cc, w.get_c c = some cc →
      ∃ b w1, add_iov env w c buf = .ok (b, w1) ∧ same_links w w1) := by
  constructor
  · intro h; simp [add_iov, h]
  · intro cc h
    by_cases hb : env.add_iov w c buf = true
    · exact ⟨true, w.set_c c { cc with iov := cc.iov ++ [buf] }, by simp [add_iov, h, hb],
        same_links.set_c w c cc _ h rfl⟩
    · exact ⟨false, w, by simp [add_iov, h, hb], same_links.refl_links w⟩

theorem merger_spec (env : Env) (hf : env.frame) (d : Nat) (w : World) (dd : downstream)
    (uc : Nat) :
    (w.get_c uc = none →
      (dd.merger = none ∧ cproxy_release_downstream_merger env d w dd uc = .ok w) ∨
      cproxy_release_downstream_merger env d w dd uc = .error .bad_pointer) ∧
    (∀ cc, w.get_c uc = some cc →
      ∃ w1, cproxy_release_downstream_merger env d w dd uc = .ok w1 ∧ same_links w w1) := by
  unfold cproxy_release_downstream_merger
  by_cases hm : dd.merger = none
  · simp only [hm, ne_eq, not_true_eq_false, if_false]
    exact ⟨fun _ => Or.inl (by simp), fun _ _ => ⟨w, rfl, same_links.refl_links w⟩⟩
  · simp only [ne_eq, hm, not_false_eq_true, if_true]
    have hsl : same_links w (env.protocol_stats_foreach_write w d uc) :=
      same_links.of_same_pool (hf.2 _ _ _)
    constructor
    · intro hn
      right
      have hn1 := hsl.get_c_none hn
      by_cases hu : env.update_event (env.protocol_stats_foreach_write w d uc) uc = true
      · simp only [hu, if_true]
        exact (conn_set_state_spec _ _ _).1 hn1
      · simp only [hu]
        exact (cproxy_close_conn_spec env hf _ _).1
          ((same_links.incr_tot_oom _).get_c_none hn1)
    · intro cc hc
      obtain ⟨cc1, hc1, _⟩ := hsl.get_c_some hc
      by_cases hu : env.update_event (env.protocol_stats_foreach_write w d uc) uc = true
      · simp only [hu, if_true]
        obtain ⟨h1, h2⟩ := (conn_set_state_spec _ uc conn_state.conn_mwrite).2 cc1 hc1
        exact ⟨_, h1, hsl.trans_links h2⟩
      · simp only [hu]
        obtain ⟨cc2, hc2, _⟩ := (same_links.incr_tot_oom _).get_c_some hc1
        obtain ⟨w1, h1, h2⟩ := (cproxy_close_conn_spec env hf _ uc).2 cc2 hc2
        exact ⟨w1, h1, hsl.trans_links ((same_links.incr_tot_oom _).trans_links h2)⟩

theorem suffix_spec (env : Env) (hf : env.frame) (d : Nat) (w : World) (dd : downstream)
    (uc : Nat) (hd : w.get_d d = some dd) (hu : dd.upstream_conn = some uc) :
    (w.get_c uc = none →
      (dd.upstream_suffix = none ∧ cproxy_release_downstream_suffix env d w = .ok w) ∨
      cproxy_release_downstream_suffix env d w = .error .bad_pointer) ∧
    (∀ cc, w.get_c uc = some cc →
      ∃ w1, cproxy_release_downstream_suffix env d w = .ok w1 ∧ same_links w w1) := by
  unfold cproxy_release_downstream_suffix
  simp only [hd]
  cases hs : dd.upstream_suffix with
  | none =>
    exact ⟨fun _ => Or.inl ⟨rfl, rfl⟩, fun _ _ => ⟨w, rfl, same_links.refl_links w⟩⟩
  | some suffix =>
    simp only [hu]
    constructor
    · intro hn
      right
      rw [(add_iov_spec env w uc suffix).1 hn]
    · intro cc hc
      obtain ⟨b, wb, hb, hsl⟩ := (add_iov_spec env w uc suffix).2 cc hc
      rw [hb]
      obtain ⟨cc1, hc1, _⟩ := hsl.get_c_some hc
      obtain ⟨cc2, hc2, _⟩ := (same_links.incr_tot_oom _).get_c_some hc1
      cases b with
      | true =>
        simp only
        by_cases hue : env.update_event wb uc = true
        · simp only [hue, if_true]
          obtain ⟨h1, h2⟩ := (conn_set_state_spec _ uc conn_state.conn_mwrite).2 cc1 hc1
          exact ⟨_, h1, hsl.trans_links h2⟩
        · simp only [hue]
          obtain ⟨w1, h1, h2⟩ := (cproxy_close_conn_spec env hf _ uc).2 cc2 hc2
          exact ⟨w1, h1, hsl.trans_links ((same_links.incr_tot_oom _).trans_links h2)⟩
      | false =>
        simp only
        obtain ⟨w1, h1, h2⟩ := (cproxy_close_conn_spec env hf _ uc).2 cc2 hc2
        exact ⟨w1, h1, hsl.trans_links ((same_links.incr_tot_oom _).trans_links h2)⟩

theorem pop_spec (d : Nat) (w : World) (dd : downstream) (uc : Nat)
    (hd : w.get_d d = some dd) (hu : dd.upstream_conn = some uc) :
    (w.get_c uc = none → cproxy_release_downstream_pop d w = .error .bad_pointer) ∧
    (∀ cc, w.get_c uc = some cc → cproxy_release_downstream_pop d w =
      .ok ((w.set_d d { dd with upstream_conn := cc.next }).set_c uc { cc with next := none })) := by
  unfold cproxy_release_downstream_pop
  simp only [hd, hu]
  exact ⟨fun h => by simp [h], fun cc h => by simp [h]⟩

theorem delink_body_spec (env : Env) (hf : env.frame) (d : Nat) (w : World) (dd : downstream)
    (uc : Nat) (hd : w.get_d d = some dd) (hu : dd.upstream_conn = some uc) :
    (w.get_c uc = none → ∃ f, cproxy_release_downstream_delink_body env d w dd uc = .error f) ∧
    (∀ cc, w.get_c uc = some cc → ∃ wm cc1, same_links w wm ∧ wm.get_c uc = some cc1 ∧
      cc1.next = cc.next ∧ cproxy_release_downstream_delink_body env d w dd uc =
        .ok ((wm.set_d d { dd with upstream_conn := cc.next }).set_c uc
          { cc1 with next := none })) := by
  unfold cproxy_release_downstream_delink_body
  constructor
  · intro hn
    rcases (merger_spec env hf d w dd uc).1 hn with ⟨_, h1⟩ | h1
    · rw [h1]
      rcases (suffix_spec env hf d w dd uc hd hu).1 hn with ⟨_, h2⟩ | h2
      · simp only [h2]
        exact ⟨_, (pop_spec d w dd uc hd hu).1 hn⟩
      · simp only [h2]; exact ⟨_, rfl⟩
    · rw [h1]; exact ⟨_, rfl⟩
  · intro cc hc
    obtain ⟨w1, h1, s1⟩ := (merger_spec env hf d w dd uc).2 cc hc
    rw [h1]
    obtain ⟨cc1, hc1, hn1⟩ := s1.get_c_some hc
    have hd1 : w1.get_d d = some dd := by rw [s1.get_d]; exact hd
    obtain ⟨w2, h2, s2⟩ := (suffix_spec env hf d w1 dd uc hd1 hu).2 cc1 hc1
    simp only [h2]
    obtain ⟨cc2, hc2, hn2⟩ := s2.get_c_some hc1
    have hd2 : w2.get_d d = some dd := by rw [s2.get_d]; exact hd1
    refine ⟨w2, cc2, s1.trans_links s2, hc2, hn2.trans hn1, ?_⟩
    rw [(pop_spec d w2 dd uc hd2 hu).2 cc2 hc2, hn2, hn1]

theorem delinked.refl_delinked {d : Nat} {w : World} {dd : downstream} (hd : w.get_d d = some dd) :
    delinked d w w :=
  ⟨rfl, rfl, rfl, fun _ _ => rfl, ⟨dd, dd.upstream_conn, hd, hd⟩, w.ptd.stats.tot_oom, rfl⟩

theorem delinked.trans_delinked {d : Nat} {w w1 w2 : World} (h1 : delinked d w w1)
    (h2 : delinked d w1 w2) : delinked d w w2 := by
  obtain ⟨a1, a2, a3, a4, ⟨dd, u, a5, a6⟩, n1, a7⟩ := h1
  obtain ⟨b1, b2, b3, b4, ⟨dd1, u1, b5, b6⟩, n2, b7⟩ := h2
  refine ⟨b1.trans a1, b2.trans a2, b3.trans a3, fun a ha => (b4 a ha).trans (a4 a ha),
    ⟨dd, u1, a5, ?_⟩, n2, ?_⟩
  · rw [b6]
    rw [a6] at b5
    cases b5
    rfl
  · rw [b7, a7]

theorem delinked_of_body {d : Nat} {w wm : World} {dd : downstream} {uc : Nat} {cc1 : conn}
    {u : Option Nat} (hd : w.get_d d = some dd) (hs : same_links w wm) :
    delinked d w ((wm.set_d d { dd with upstream_conn := u }).set_c uc cc1) := by
  obtain ⟨a1, a2, a3, _, n, a5⟩ := hs
  have hdm : wm.get_d d = some dd := by unfold World.get_d; rw [a2]; exact hd
  refine ⟨a1, ?_, ?_, ?_, ⟨dd, u, hd, ?_⟩, n, a5⟩
  · simp [a2]
  · simp [a3]
  · intro a ha
    rw [get_d_set_c, get_d_set_d_ne _ _ _ _ (Ne.symm ha)]
    unfold World.get_d; rw [a2]
  · rw [get_d_set_c, get_d_set_d_live wm d _ dd hdm]

theorem delink_partial (env : Env) (hf : env.frame) (d : Nat) :
    ∀ (fuel : Nat) (w w1 : World),
      cproxy_release_downstream_delink env d fuel w = .ok w1 →
      delinked d w w1 ∧ ∃ dd1, w1.get_d d = some dd1 ∧ dd1.upstream_conn = none := by
  intro fuel
  induction fuel with
  | zero =>
    intro w w1 h
    unfold cproxy_release_downstream_delink at h
    cases hd : w.get_d d with
    | none => simp [hd] at h
    | some dd =>
      simp only [hd] at h
      cases hu : dd.upstream_conn with
      | none =>
        simp only [hu] at h
        cases h
        exact ⟨delinked.refl_delinked hd, dd, hd, hu⟩
      | some uc => simp [hu] at h
  | succ fuel ih =>
    intro w w1 h
    unfold cproxy_release_downstream_delink at h
    cases hd : w.get_d d with
    | none => simp [hd] at h
    | some dd =>
      simp only [hd] at h
      cases hu : dd.upstream_conn with
      | none =>
        simp only [hu] at h
        cases h
        exact ⟨delinked.refl_delinked hd, dd, hd, hu⟩
      | some uc =>
        simp only [hu] at h
        cases hc : w.get_c uc with
        | none =>
          obtain ⟨f, hb⟩ := (delink_body_spec env hf d w dd uc hd hu).1 hc
          simp [hb] at h
        | some cc =>
          obtain ⟨wm, cc1, hs, _, _, hb⟩ := (delink_body_spec env hf d w dd uc hd hu).2 cc hc
          rw [hb] at h
          simp only at h
          obtain ⟨h1, h2⟩ := ih _ _ h
          exact ⟨(delinked_of_body hd hs).trans_delinked h1, h2⟩

theorem delink_total (env : Env) (hf : env.frame) (d : Nat) :
    ∀ (us : List Nat) (fuel : Nat) (w : World) (dd : downstream),
      w.get_d d = some dd → IsChain w.cnext dd.upstream_conn us → us.length ≤ fuel →
      ∃ w1, cproxy_release_downstream_delink env d fuel w = .ok w1 := by
  intro us
  induction us with
  | nil =>
    intro fuel w dd hd hc _
    have hu := hc.of_nil
    refine ⟨w, ?_⟩
    unfold cproxy_release_downstream_delink
    simp [hd, hu]
  | cons uc us ih =>
    intro fuel w dd hd hc hl
    have hu := hc.head_eq
    obtain ⟨p, hp, hrest⟩ := hc.tail
    have hnd := hc.nodup
    cases fuel with
    | zero => simp at hl
    | succ fuel =>
      unfold cproxy_release_downstream_delink
      simp only [hd, hu]
      unfold World.cnext at hp
      cases hcc : w.get_c uc with
      | none => simp [hcc] at hp
      | some cc =>
        simp [hcc] at hp
        obtain ⟨wm, cc1, hs, hc1, hn1, hb⟩ := (delink_body_spec env hf d w dd uc hd hu).2 cc hcc
        rw [hb]
        simp only
        have hdm : wm.get_d d = some dd := by rw [hs.get_d]; exact hd
        refine ih fuel _ { dd with upstream_conn := cc.next } ?_ ?_ (by simpa using hl)
        · rw [get_d_set_c, get_d_set_d_live wm d _ dd hdm]
        · simp only
          rw [hp]
          refine hrest.congr fun a ha => ?_
          have hne : uc ≠ a := by
            rintro rfl
            exact (List.nodup_cons.1 hnd).1 ha
          unfold World.cnext
          rw [get_c_set_c_ne _ _ _ _ hne, get_c_set_d]
          exact hs.2.2.2.1 a

/-! ## `cproxy_check_downstream_config` and the double list removal -/

theorem set_d_self (w : World) (d : Nat) (dd : downstream) (hd : w.get_d d = some dd) :
    w.set_d d dd = w := by
  have hlt := lt_of_get_d hd
  unfold World.set_d
  have : w.ds.set d (some dd) = w.ds := by
    apply List.ext_getElem?
    intro i
    by_cases h : d = i
    · subst h
      rw [List.getElem?_set_self hlt]
      unfold World.get_d at hd
      rw [List.getElem?_eq_getElem hlt] at hd ⊢
      simp at hd
      rw [hd]
    · rw [List.getElem?_set_ne h]
  rw [this]

theorem check_spec (w : World) (d : Nat) (dd : downstream) (hd : w.get_d d = some dd) :
    ∃ dd1, cproxy_check_downstream_config w d =
        .ok (decide (config_valid w.proxy dd), w.set_d d dd1) ∧
      (dd1 = dd ∨ (config_valid w.proxy dd ∧ dd.config_ver ≠ w.proxy.config_ver ∧ dd1 =
        { dd with config_ver := w.proxy.config_ver, behavior := w.proxy.behavior })) ∧
      (config_valid w.proxy dd → dd1.config_ver = w.proxy.config_ver) := by
  unfold cproxy_check_downstream_config
  simp only [hd]
  by_cases h1 : dd.config_ver = w.proxy.config_ver
  · refine ⟨dd, ?_, Or.inl rfl, fun _ => h1⟩
    simp [h1, config_valid, set_d_self w d dd hd]
  · by_cases h2 : dd.config ≠ none ∧ w.proxy.config ≠ none ∧ dd.config = w.proxy.config
    · refine ⟨{ dd with config_ver := w.proxy.config_ver, behavior := w.proxy.behavior }, ?_,
        Or.inr ⟨Or.inr h2, h1, rfl⟩, fun _ => rfl⟩
      have hv : config_valid w.proxy dd := Or.inr h2
      rw [if_neg h1, if_pos h2]
      simp [hv]
    · refine ⟨dd, ?_, Or.inl rfl, fun hv => ?_⟩
      · have hv : ¬ config_valid w.proxy dd := by
          rintro (h | h)
          · exact h1 h
          · exact h2 h
        rw [if_neg h1, if_neg h2]
        simp [hv, set_d_self w d dd hd]
      · rcases hv with h | h
        · exact absurd h h1
        · exact absurd h h2

theorem downstream_list_remove_head (w : World) (d : Nat) (dd : downstream)
    (hd : w.get_d d = some dd) :
    downstream_list_remove w (some d) d = .ok (dd.next, w) := by
  unfold downstream_list_remove
  have hlt := lt_of_get_d hd
  obtain ⟨n, hn⟩ : ∃ n, w.ds.length = n + 1 := ⟨w.ds.length - 1, by omega⟩
  rw [hn]
  simp [downstream_list_remove_loop, hd]

theorem remove_both (w : World) (d : Nat) (rs ls : List Nat)
    (hr : IsChain w.dnext w.ptd.downstream_reserved rs)
    (hl : IsChain w.dnext w.ptd.downstream_released ls)
    (hdis : ∀ a, a ∈ rs → a ∉ ls) :
    ∃ r wa l wb, downstream_list_remove w w.ptd.downstream_reserved d = .ok (r, wa) ∧
      downstream_list_remove (wa.set_ptd { wa.ptd with downstream_reserved := r })
        (wa.set_ptd { wa.ptd with downstream_reserved := r }).ptd.downstream_released d =
        .ok (l, wb) ∧
      wb.ptd = { w.ptd with downstream_reserved := r } ∧ wb.proxy = w.proxy ∧
      wb.conns = w.conns ∧ wb.ds.length = w.ds.length ∧
      IsChain wb.dnext r (rs.erase d) ∧ IsChain wb.dnext l (ls.erase d) ∧
      wb.get_d d = w.get_d d ∧
      (∀ a, (wb.get_d a).map downstream.payload = (w.get_d a).map downstream.payload) ∧
      (∀ a, a ∉ rs → a ∉ ls → wb.get_d a = w.get_d a) ∧
      (d ∉ rs → wa = w ∧ r = w.ptd.downstream_reserved) := by
  obtain ⟨r, wa, h1, hc1, hs1, hrel1⟩ :=
    downstream_list_remove_spec w w.ptd.downstream_reserved d rs hr
  have hl1 : IsChain (wa.set_ptd { wa.ptd with downstream_reserved := r }).dnext
      (wa.set_ptd { wa.ptd with downstream_reserved := r }).ptd.downstream_released ls := by
    have := hrel1.chain_off hl (fun a ha => by
      by_cases h : a ∈ rs
      · exact absurd ha (hdis a h)
      · exact Or.inl h)
    have hp : (wa.set_ptd { wa.ptd with downstream_reserved := r }).ptd.downstream_released =
        w.ptd.downstream_released := by
      simp [hrel1.ptd]
    rw [hp]
    exact this
  obtain ⟨l, wb, h2, hc2, _, hrel2⟩ :=
    downstream_list_remove_spec _ _ d ls hl1
  refine ⟨r, wa, l, wb, h1, h2, ?_, ?_, ?_, ?_, ?_, hc2, ?_, ?_, ?_, ?_⟩
  · rw [hrel2.ptd]; simp [hrel1.ptd]
  · rw [hrel2.proxy]; simp [hrel1.proxy]
  · rw [hrel2.conns]; simp [hrel1.conns]
  · rw [hrel2.ds_length]; simp [hrel1.ds_length]
  · refine hrel2.chain_off hc1 (fun a ha => ?_)
    have : a ∈ rs := List.mem_of_mem_erase ha
    exact Or.inl (hdis a this)
  · rw [hrel2.get_d_off (Or.inr rfl), get_d_set_ptd, hrel1.get_d_off (Or.inr rfl)]
  · intro a
    rw [hrel2.payload a, get_d_set_ptd, hrel1.payload a]
  · intro a ha1 ha2
    rw [hrel2.get_d_off (Or.inl ha2), get_d_set_ptd, hrel1.get_d_off (Or.inl ha1)]
  · intro hn
    exact hs1 hn

/-! ## `cproxy_free_downstream` -/

theorem same_pool.refl_pool (w : World) : same_pool w w := ⟨rfl, rfl, rfl, rfl, fun _ => rfl⟩

theorem same_pool.trans_pool {w w1 w2 : World} (h1 : same_pool w w1) (h2 : same_pool w1 w2) :
    same_pool w w2 :=
  ⟨h2.1.trans h1.1, h2.2.1.trans h1.2.1, h2.2.2.1.trans h1.2.2.1,
    h2.2.2.2.1.trans h1.2.2.2.1, fun c => (h2.2.2.2.2 c).trans (h1.2.2.2.2 c)⟩

theorem free_extras_partial :
    ∀ (slots : List (Option Nat)) (w w1 : World),
      cproxy_free_downstream_extras slots w = .ok w1 → same_pool w w1 := by
  intro slots
  induction slots with
  | nil => intro w w1 h; cases h; exact same_pool.refl_pool w
  | cons s rest ih =>
    intro w w1 h
    cases s with
    | none => simp [cproxy_free_downstream_extras] at h
    | some c =>
      simp only [cproxy_free_downstream_extras] at h
      cases hc : w.get_c c with
      | none => simp [hc] at h
      | some cc =>
        simp only [hc] at h
        refine same_pool.trans_pool ?_ (ih _ _ h)
        exact ⟨rfl, rfl, rfl, by simp, cnext_set_c_same_next w c cc _ hc rfl⟩

theorem free_extras_total :
    ∀ (slots : List (Option Nat)) (w : World),
      (∀ s ∈ slots, ∃ c, s = some c ∧ c < w.conns.length) →
      ∃ w1, cproxy_free_downstream_extras slots w = .ok w1 := by
  intro slots
  induction slots with
  | nil => intro w _; exact ⟨w, rfl⟩
  | cons s rest ih =>
    intro w h
    obtain ⟨c, rfl, hc⟩ := h s (List.mem_cons_self _ _)
    have hg : ∃ cc, w.get_c c = some cc := by
      unfold World.get_c
      exact ⟨_, List.getElem?_eq_getElem hc⟩
    obtain ⟨cc, hcc⟩ := hg
    simp only [cproxy_free_downstream_extras, hcc]
    refine ih _ fun s hs => ?_
    obtain ⟨c1, h1, h2⟩ := h s (List.mem_cons_of_mem _ hs)
    exact ⟨c1, h1, by simpa using h2⟩

theorem free_extras_null (w : World) (pre rest : List (Option Nat))
    (hpre : ∀ s ∈ pre, ∃ c, s = some c ∧ c < w.conns.length) :
    cproxy_free_downstream_extras (pre ++ none :: rest) w = .error .null_deref := by
  induction pre generalizing w with
  | nil => rfl
  | cons s pre ih =>
    obtain ⟨c, rfl, hc⟩ := hpre s (List.mem_cons_self _ _)
    have hg : ∃ cc, w.get_c c = some cc := by
      unfold World.get_c
      exact ⟨_, List.getElem?_eq_getElem hc⟩
    obtain ⟨cc, hcc⟩ := hg
    simp only [List.cons_append, cproxy_free_downstream_extras, hcc]
    refine ih _ fun s hs => ?_
    obtain ⟨c1, h1, h2⟩ := hpre s (List.mem_cons_of_mem _ hs)
    exact ⟨c1, h1, by simpa using h2⟩

theorem free_eq (w : World) (d : Nat) (dd : downstream) (rs ls : List Nat)
    (hr : IsChain w.dnext w.ptd.downstream_reserved rs)
    (hl : IsChain w.dnext w.ptd.downstream_released ls)
    (hdis : ∀ a, a ∈ rs → a ∉ ls) (hd : w.get_d d = some dd) :
    ∃ (wm : World) (r l : Option Nat),
      wm.ptd = { w.ptd with
        downstream_reserved := r
        downstream_released := l
        downstream_num := w.ptd.downstream_num - 1
        stats := { w.ptd.stats with
          tot_downstream_freed := w.ptd.stats.tot_downstream_freed + 1 } } ∧
      wm.proxy = w.proxy ∧ wm.conns = w.conns ∧ wm.ds.length = w.ds.length ∧
      IsChain wm.dnext r (rs.erase d) ∧ IsChain wm.dnext l (ls.erase d) ∧
      wm.get_d d = some dd ∧
      (∀ a, (wm.get_d a).map downstream.payload = (w.get_d a).map downstream.payload) ∧
      (∀ a, a ∉ rs → a ∉ ls → wm.get_d a = w.get_d a) ∧
      (¬ (dd.free_ready ∧ 1 ≤ w.ptd.downstream_num) →
        cproxy_free_downstream w d = .error .assert_failed) ∧
      (dd.free_ready → 1 ≤ w.ptd.downstream_num →
        cproxy_free_downstream w d =
          match cproxy_free_downstream_extras dd.downstream_conns wm with
          | .error f => .error f
          | .ok w7 => .ok (w7.free_d d)) := by
  obtain ⟨r, wa, l, wb, h1, h2, hptd, hproxy, hconns, hlen, hcr, hcl, hgd, hpay, hoff, _⟩ :=
    remove_both (w.set_stats
      { w.ptd.stats with tot_downstream_freed := w.ptd.stats.tot_downstream_freed + 1 })
      d rs ls hr hl hdis
  refine ⟨(wb.set_ptd { wb.ptd with downstream_released := l }).set_ptd
      { (wb.set_ptd { wb.ptd with downstream_released := l }).ptd with
        downstream_num := (wb.set_ptd { wb.ptd with downstream_released := l }).ptd.downstream_num - 1 },
    r, l, ?_, hproxy, hconns, hlen, hcr, hcl, ?_, hpay, hoff, ?_, ?_⟩
  · simp [hptd]
  · rw [get_d_set_ptd, get_d_set_ptd, hgd]; exact hd
  · intro hn
    unfold cproxy_free_downstream
    simp only [hd]
    by_cases a1 : dd.upstream_conn = none
    swap
    · simp [a1]
    by_cases a2 : dd.multiget = none
    swap
    · simp [a1, a2]
    by_cases a3 : dd.merger = none
    swap
    · simp [a1, a2, a3]
    by_cases a4 : dd.timeout_tv.tv_sec = 0
    swap
    · simp [a1, a2, a3, a4]
    by_cases a5 : dd.timeout_tv.tv_usec = 0
    swap
    · simp [a1, a2, a3, a4, a5]
    have hnum : ¬ 1 ≤ w.ptd.downstream_num := fun h => hn ⟨⟨a1, a2, a3, a4, a5⟩, h⟩
    simp only [a1, a2, a3, a4, a5, ne_eq, not_true_eq_false, if_false, bind, Except.bind, h1, h2]
    have : (wb.ptd.downstream_num - 1 < 0) := by
      rw [hptd]; simp; omega
    simp [this]
  · intro ⟨a1, a2, a3, a4, a5⟩ hnum
    unfold cproxy_free_downstream
    simp only [hd, a1, a2, a3, a4, a5, ne_eq, not_true_eq_false, if_false, bind, Except.bind,
      h1, h2]
    have : ¬ (wb.ptd.downstream_num - 1 < 0) := by
      rw [hptd]; simp; omega
    simp only [ptd_set_ptd, this, if_false, get_d_set_ptd, hgd]
    have hd1 : (w.set_stats
      { w.ptd.stats with tot_downstream_freed := w.ptd.stats.tot_downstream_freed + 1 }).get_d d
        = some dd := hd
    simp only [hd1]
    cases cproxy_free_downstream_extras dd.downstream_conns _ <;> rfl

theorem free_partial (w : World) (d : Nat) (rs ls : List Nat)
    (hr : IsChain w.dnext w.ptd.downstream_reserved rs)
    (hl : IsChain w.dnext w.ptd.downstream_released ls)
    (hdis : ∀ a, a ∈ rs → a ∉ ls) (w1 : World)
    (h : cproxy_free_downstream w d = .ok w1) :
    (∃ dd, w.get_d d = some dd ∧ dd.free_ready ∧ 1 ≤ w.ptd.downstream_num) ∧
      freed w d rs ls w1 := by
  cases hd : w.get_d d with
  | none => simp [cproxy_free_downstream, hd] at h
  | some dd =>
    obtain ⟨wm, r, l, hptd, hproxy, hconns, hlen, hcr, hcl, hgd, hpay, hoff, hfail, hok⟩ :=
      free_eq w d dd rs ls hr hl hdis hd
    by_cases ha : dd.free_ready ∧ 1 ≤ w.ptd.downstream_num
    · refine ⟨⟨dd, rfl, ha.1, ha.2⟩, ?_⟩
      rw [hok ha.1 ha.2] at h
      cases he : cproxy_free_downstream_extras dd.downstream_conns wm with
      | error f => simp [he] at h
      | ok w7 =>
        simp only [he] at h
        cases h
        obtain ⟨s1, s2, s3, s4, s5⟩ := free_extras_partial _ _ _ he
        have hg7 : ∀ a, w7.get_d a = wm.get_d a := fun a => by
          unfold World.get_d; rw [s3]
        have hn7 : (w7.free_d d).dnext = fun a => if d = a then none else wm.dnext a := by
          funext a
          unfold World.dnext
          by_cases hda : d = a
          · subst hda; simp
          · simp [hda, hg7]
        have hch : ∀ (hd0 : Option Nat) (xs : List Nat), IsChain wm.dnext hd0 (xs.erase d) →
            xs.Nodup → IsChain (w7.free_d d).dnext hd0 (xs.erase d) := by
          intro hd0 xs hc hnd
          refine hc.congr fun a ha => ?_
          rw [hn7]
          have : d ≠ a := by
            rintro rfl
            exact (List.Nodup.mem_erase_iff hnd).1 ha |>.1 rfl
          simp [this]
        refine ⟨⟨r, l, ?_⟩, ?_, ?_, ?_, ?_, ?_, ?_, ?_, ?_, ?_⟩
        · rw [ptd_free_d, s2, hptd]
        · rw [proxy_free_d, s1, hproxy]
        · rw [ds_length_free_d, s3, hlen]
        · rw [conns_free_d, s4, hconns]
        · intro c
          have : (w7.free_d d).cnext c = w7.cnext c := rfl
          rw [this, s5]
          unfold World.cnext World.get_c
          rw [hconns]
        · have : (w7.free_d d).ptd.downstream_reserved = r := by
            rw [ptd_free_d, s2, hptd]
          rw [this]
          exact hch _ _ hcr hr.nodup
        · have : (w7.free_d d).ptd.downstream_released = l := by
            rw [ptd_free_d, s2, hptd]
          rw [this]
          exact hch _ _ hcl hl.nodup
        · simp
        · intro a ha
          rw [get_d_free_d_ne _ _ _ (Ne.symm ha), hg7, hpay]
        · intro a h1 h2 ha
          rw [get_d_free_d_ne _ _ _ (Ne.symm ha), hg7, hoff a h1 h2]
    · rw [hfail ha] at h
      cases h

theorem free_total (w : World) (d : Nat) (dd : downstream) (rs ls : List Nat)
    (hr : IsChain w.dnext w.ptd.downstream_reserved rs)
    (hl : IsChain w.dnext w.ptd.downstream_released ls)
    (hdis : ∀ a, a ∈ rs → a ∉ ls) (hd : w.get_d d = some dd)
    (hready : dd.free_ready) (hnum : 1 ≤ w.ptd.downstream_num)
    (hslots : w.slots_connected dd) :
    ∃ w1, cproxy_free_downstream w d = .ok w1 := by
  obtain ⟨wm, r, l, _, _, hconns, _, _, _, _, _, _, _, hok⟩ :=
    free_eq w d dd rs ls hr hl hdis hd
  rw [hok hready hnum]
  obtain ⟨w7, h7⟩ := free_extras_total dd.downstream_conns wm (by
    intro s hs
    obtain ⟨c, h1, h2⟩ := hslots s hs
    exact ⟨c, h1, by rw [hconns]; exact h2⟩)
  rw [h7]
  exact ⟨_, rfl⟩

theorem free_ready_of_scratch_clear {dd : downstream} (h : dd.scratch_clear) : dd.free_ready :=
  ⟨h.1, h.2.2.2.2.1, h.2.2.2.2.2.1, h.2.2.2.2.2.2.1, h.2.2.2.2.2.2.2⟩

/-! ## `cproxy_release_downstream` -/

theorem chain_of_get_d_eq {w w1 : World} {h : Option Nat} {xs : List Nat}
    (hc : IsChain w.dnext h xs) (he : ∀ a, a ∈ xs → w1.dnext a = w.dnext a) :
    IsChain w1.dnext h xs := hc.congr he

theorem release_after_delink (env : Env) (w : World) (d : Nat) (dd : downstream)
    (rs ls : List Nat) (force : Bool)
    (hr : IsChain w.dnext w.ptd.downstream_reserved rs)
    (hl : IsChain w.dnext w.ptd.downstream_released ls)
    (hdis : ∀ a, a ∈ rs → a ∉ ls) (hd : w.get_d d = some dd) (w1 : World)
    (hdl : cproxy_release_downstream_delink env d
      ((w.set_stats { w.ptd.stats with
        tot_downstream_released := w.ptd.stats.tot_downstream_released + 1 }).conns.length + 1)
      (w.set_stats { w.ptd.stats with
        tot_downstream_released := w.ptd.stats.tot_downstream_released + 1 }) = .ok w1)
    (hrel : delinked d (w.set_stats { w.ptd.stats with
        tot_downstream_released := w.ptd.stats.tot_downstream_released + 1 }) w1) :
    (∀ b w2, cproxy_release_downstream env w d force = .ok (b, w2) →
      b = (decide (config_valid w.proxy dd) || force) ∧
      (b = true → repooled w d dd rs ls w2) ∧ (b = false → dropped w d dd rs ls w2)) ∧
    ((config_valid w.proxy dd ∨ force = true ∨
        (w.slots_connected dd ∧ 1 ≤ w.ptd.downstream_num)) →
      ∃ b w2, cproxy_release_downstream env w d force = .ok (b, w2)) := by
  have hw1 : dd.upstream_conn = none → w1 = w.set_stats { w.ptd.stats with
      tot_downstream_released := w.ptd.stats.tot_downstream_released + 1 } := by
    intro hu
    have : cproxy_release_downstream_delink env d
        ((w.set_stats { w.ptd.stats with
          tot_downstream_released := w.ptd.stats.tot_downstream_released + 1 }).conns.length + 1)
        (w.set_stats { w.ptd.stats with
          tot_downstream_released := w.ptd.stats.tot_downstream_released + 1 }) =
        .ok (w.set_stats { w.ptd.stats with
          tot_downstream_released := w.ptd.stats.tot_downstream_released + 1 }) := by
      unfold cproxy_release_downstream_delink
      simp only [get_d_set_stats, hd, hu]
    rw [this] at hdl
    cases hdl
    rfl
  obtain ⟨e1, e2, e3, e4, ⟨dd0, u, e5, e6⟩, n, e7⟩ := hrel
  have hdd0 : dd0 = dd := by
    have : some dd0 = some dd := e5.symm.trans hd
    cases this; rfl
  subst hdd0
  have hconns3 : dd0.upstream_conn = none → w1.conns = w.conns := by
    intro hu
    rw [hw1 hu]
    rfl
  -- the cell written back after clearing the scratch fields
  obtain ⟨c2, hc2⟩ : ∃ c2 : downstream, c2 =
      { ({ dd0 with upstream_conn := u } : downstream) with
        timeout_tv := { tv_sec := 0, tv_usec := 0 }
        upstream_conn := none
        upstream_suffix := none
        downstream_used := 0
        downstream_used_start := 0
        multiget := none
        merger := none } := ⟨_, rfl⟩
  have hlt1 : d < w1.ds.length := lt_of_get_d e6
  have hg2 : (w1.set_d d c2).get_d d = some c2 := get_d_set_d_same _ _ _ hlt1
  obtain ⟨dd3, hck, hdd3, hver⟩ := check_spec (w1.set_d d c2) d c2 hg2
  have hvalid : config_valid (w1.set_d d c2).proxy c2 ↔ config_valid w.proxy dd0 := by
    rw [proxy_set_d, e1, hc2]
    rfl
  have hclear : dd3.scratch_clear := by
    rcases hdd3 with rfl | ⟨_, _, rfl⟩ <;> rw [hc2] <;>
      exact ⟨rfl, rfl, rfl, rfl, rfl, rfl, rfl, rfl⟩
  have hnext3 : dd3.next = dd0.next := by
    rcases hdd3 with rfl | ⟨_, _, rfl⟩ <;> rw [hc2]
  have hcfg3 : dd3.config = dd0.config := by
    rcases hdd3 with rfl | ⟨_, _, rfl⟩ <;> rw [hc2]
  have hslots3 : dd3.downstream_conns = dd0.downstream_conns := by
    rcases hdd3 with rfl | ⟨_, _, rfl⟩ <;> rw [hc2]
  have hver3 : ¬ config_valid w.proxy dd0 → dd3.config_ver = dd0.config_ver := by
    intro hnv
    rcases hdd3 with rfl | ⟨hv, _, _⟩
    · rw [hc2]
    · exact absurd (hvalid.1 hv) hnv
  obtain ⟨w3, hw3⟩ : ∃ w3, w3 = (w1.set_d d c2).set_d d dd3 := ⟨_, rfl⟩
  have hg3 : w3.get_d d = some dd3 := by
    rw [hw3]; exact get_d_set_d_same _ _ _ (by simpa using hlt1)
  have hoff3 : ∀ a, a ≠ d → w3.get_d a = w.get_d a := by
    intro a ha
    rw [hw3, get_d_set_d_ne _ _ _ _ (Ne.symm ha), get_d_set_d_ne _ _ _ _ (Ne.symm ha), e4 a ha]
    rfl
  have hdn3 : ∀ a, w3.dnext a = w.dnext a := by
    intro a
    unfold World.dnext
    by_cases ha : a = d
    · subst ha; rw [hg3, hd]; simp [hnext3]
    · rw [hoff3 a ha]
  have hptd3 : w3.ptd = { w.ptd with stats := { w.ptd.stats with
      tot_downstream_released := w.ptd.stats.tot_downstream_released + 1, tot_oom := n } } := by
    rw [hw3, ptd_set_d, ptd_set_d, e7]; rfl
  have hproxy3 : w3.proxy = w.proxy := by rw [hw3, proxy_set_d, proxy_set_d, e1]; rfl
  have hlen3 : w3.ds.length = w.ds.length := by
    rw [hw3, ds_length_set_d, ds_length_set_d, e2]; rfl
  have hcl3 : w3.conns.length = w.conns.length := by
    rw [hw3, conns_set_d, conns_set_d, e3]; rfl
  have hr3 : IsChain w3.dnext w3.ptd.downstream_reserved rs := by
    rw [hptd3]; exact hr.congr fun a _ => hdn3 a
  have hl3 : IsChain w3.dnext w3.ptd.downstream_released ls := by
    rw [hptd3]; exact hl.congr fun a _ => hdn3 a
  have hpay3 : ∀ a, a ≠ d →
      (w3.get_d a).map downstream.payload = (w.get_d a).map downstream.payload := by
    intro a ha; rw [hoff3 a ha]
  -- the common head of the computation
  have hhead : cproxy_release_downstream env w d force =
      (if (decide (config_valid w.proxy dd0) || force) = true then
        (do
          let (r, w4) ← downstream_list_remove w3 w3.ptd.downstream_reserved d
          let w5 := w4.set_ptd { w4.ptd with downstream_reserved := r }
          let (l, w6) ← downstream_list_remove w5 w5.ptd.downstream_released d
          let w7 := w6.set_ptd { w6.ptd with downstream_released := l }
          match w7.get_d d with
          | none => .error .bad_pointer
          | some dd7 =>
            let w8 := w7.set_d d { dd7 with next := w7.ptd.downstream_released }
            .ok (true, w8.set_ptd { w8.ptd with downstream_released := some d }))
      else
        (do
          let w4 ← cproxy_free_downstream w3 d
          .ok (false, w4))) := by
    unfold cproxy_release_downstream
    simp only [hd, bind, Except.bind, hdl, e6]
    rw [← hc2, hck, ← hw3]
    simp only [decide_eq_decide.2 hvalid]
    try rfl
  by_cases hbr : (decide (config_valid w.proxy dd0) || force) = true
  · -- back to the released list
    rw [if_pos hbr] at hhead
    obtain ⟨r, wa, l, wb, h1, h2, hptdb, hproxyb, hconnsb, hlenb, hcr, hcl, hgd, hpay, hoff, _⟩ :=
      remove_both w3 d rs ls hr3 hl3 hdis
    have hgb : wb.get_d d = some dd3 := by rw [hgd, hg3]
    have hres : cproxy_release_downstream env w d force = .ok (true,
        ((wb.set_ptd { wb.ptd with downstream_released := l }).set_d d
          { dd3 with next := l }).set_ptd
          { wb.ptd with downstream_released := some d }) := by
      rw [hhead]
      simp only [bind, Except.bind, h1, h2, get_d_set_ptd, hgb]
      rfl
    have hrep : repooled w d dd0 rs ls
        (((wb.set_ptd { wb.ptd with downstream_released := l }).set_d d
          { dd3 with next := l }).set_ptd { wb.ptd with downstream_released := some d }) := by
      have hltb : d < wb.ds.length := lt_of_get_d hgb
      have hgf : ∀ a, (((wb.set_ptd { wb.ptd with downstream_released := l }).set_d d
          { dd3 with next := l }).set_ptd { wb.ptd with downstream_released := some d }).get_d a
          = if d = a then some { dd3 with next := l } else wb.get_d a := by
        intro a
        rw [get_d_set_ptd]
        by_cases hda : d = a
        · subst hda
          simp only [if_true]
          exact get_d_set_d_same _ _ _ (by simpa using hltb)
        · rw [get_d_set_d_ne _ _ _ _ hda, get_d_set_ptd]; simp [hda]
      have hnd_r : d ∉ rs.erase d := fun hm =>
        ((List.Nodup.mem_erase_iff hr.nodup).1 hm).1 rfl
      have hnd_l : d ∉ ls.erase d := fun hm =>
        ((List.Nodup.mem_erase_iff hl.nodup).1 hm).1 rfl
      have hdnf : ∀ a, a ≠ d → (((wb.set_ptd { wb.ptd with downstream_released := l }).set_d d
          { dd3 with next := l }).set_ptd { wb.ptd with downstream_released := some d }).dnext a
          = wb.dnext a := by
        intro a ha
        unfold World.dnext
        rw [hgf a]; simp [Ne.symm ha]
      refine ⟨⟨r, n, ?_⟩, ?_, ?_, ?_, ?_, ?_, ?_, ?_, ?_, ?_⟩
      · simp [hptdb, hptd3]
      · simp [hproxyb, hproxy3]
      · simp [hlenb, hlen3]
      · simp [hconnsb, hcl3]
      · have : (((wb.set_ptd { wb.ptd with downstream_released := l }).set_d d
          { dd3 with next := l }).set_ptd
            { wb.ptd with downstream_released := some d }).ptd.downstream_reserved = r := by
          simp [hptdb]
        rw [this]
        exact hcr.congr fun a ha => hdnf a (by rintro rfl; exact hnd_r ha)
      · refine IsChain.cons ?_ (hcl.congr fun a ha => hdnf a (by rintro rfl; exact hnd_l ha))
        unfold World.dnext
        rw [hgf d]; simp
      · refine ⟨{ dd3 with next := l }, ?_, hclear, hcfg3, hslots3, ?_, hver3⟩
        · rw [hgf d]; simp
        · intro hv
          exact (hver (hvalid.2 hv)).trans (by rw [proxy_set_d, e1]; rfl)
      · intro a ha
        rw [hgf a, if_neg (Ne.symm ha), hpay a, hpay3 a ha]
      · intro a h1 h2 ha
        rw [hgf a, if_neg (Ne.symm ha), hoff a h1 h2, hoff3 a ha]
      · intro hu
        simp [hconnsb, hw3, hconns3 hu]
    constructor
    · intro b w2 hb
      rw [hres] at hb
      cases hb
      exact ⟨hbr.symm, fun _ => hrep, fun h => by cases h⟩
    · intro _
      exact ⟨_, _, hres⟩
  · -- stale and not forced: freed
    rw [if_neg hbr] at hhead
    have hbf : (decide (config_valid w.proxy dd0) || force) = false := by
      simpa using hbr
    constructor
    · intro b w2 hb
      rw [hhead] at hb
      cases hfr : cproxy_free_downstream w3 d with
      | error f => simp [hfr, bind, Except.bind] at hb
      | ok w4 =>
        simp only [hfr, bind, Except.bind, Except.ok.injEq, Prod.mk.injEq] at hb
        obtain ⟨hb1, hb2⟩ := hb
        subst hb1
        subst hb2
        obtain ⟨_, hfd⟩ := free_partial w3 d rs ls hr3 hl3 hdis w4 hfr
        refine ⟨hbf.symm, fun h => (by cases h), fun _ => ?_⟩
        obtain ⟨r, l, hp⟩ := hfd.ptd
        refine ⟨⟨r, l, n, ?_⟩, ?_, ?_, ?_, hfd.reserved, hfd.released, hfd.dead, ?_, ?_, ?_⟩
        · rw [hp, hptd3]
        · rw [hfd.proxy, hproxy3]
        · rw [hfd.ds_length, hlen3]
        · rw [hfd.conns_length, hcl3]
        · intro a ha
          rw [hfd.payload a ha, hpay3 a ha]
        · intro a h1 h2 ha
          rw [hfd.off a h1 h2 ha, hoff3 a ha]
        · intro hu c
          rw [hfd.cnext c]
          unfold World.cnext World.get_c
          rw [hw3, conns_set_d, conns_set_d, hconns3 hu]
    · intro hor
      have hnv : ¬ config_valid w.proxy dd0 := by
        intro hv; simp [hv] at hbf
      have hnf : force ≠ true := by
        intro hv; simp [hv] at hbf
      rcases hor with h | h | ⟨hs, hnum⟩
      · exact absurd h hnv
      · exact absurd h hnf
      · obtain ⟨w4, hfr⟩ := free_total w3 d dd3 rs ls hr3 hl3 hdis hg3 (free_ready_of_scratch_clear hclear)
          (by rw [hptd3]; exact hnum)
          (by
            intro s hs1
            rw [hslots3] at hs1
            obtain ⟨c, hc1, hc2⟩ := hs s hs1
            exact ⟨c, hc1, by rw [hcl3]; exact hc2⟩)
        refine ⟨false, w4, ?_⟩
        rw [hhead, hfr]
        rfl

theorem release_spec (env : Env) (hf : env.frame) (w : World) (d : Nat) (dd : downstream)
    (rs ls : List Nat) (force : Bool)
    (hr : IsChain w.dnext w.ptd.downstream_reserved rs)
    (hl : IsChain w.dnext w.ptd.downstream_released ls)
    (hdis : ∀ a, a ∈ rs → a ∉ ls) (hd : w.get_d d = some dd) :
    (∀ b w2, cproxy_release_downstream env w d force = .ok (b, w2) →
      b = (decide (config_valid w.proxy dd) || force) ∧
      (b = true → repooled w d dd rs ls w2) ∧ (b = false → dropped w d dd rs ls w2)) ∧
    (∀ us, IsChain w.cnext dd.upstream_conn us →
      (config_valid w.proxy dd ∨ force = true ∨
        (w.slots_connected dd ∧ 1 ≤ w.ptd.downstream_num)) →
      ∃ b w2, cproxy_release_downstream env w d force = .ok (b, w2)) := by
  cases hdl : cproxy_release_downstream_delink env d
      ((w.set_stats { w.ptd.stats with
        tot_downstream_released := w.ptd.stats.tot_downstream_released + 1 }).conns.length + 1)
      (w.set_stats { w.ptd.stats with
        tot_downstream_released := w.ptd.stats.tot_downstream_released + 1 }) with
  | error f =>
    have hres : cproxy_release_downstream env w d force = .error f := by
      unfold cproxy_release_downstream
      simp only [hd, bind, Except.bind, hdl]
    constructor
    · intro b w2 hb
      rw [hres] at hb
      cases hb
    · intro us hus _
      obtain ⟨w1, h1⟩ := delink_total env hf d us
        ((w.set_stats { w.ptd.stats with
          tot_downstream_released := w.ptd.stats.tot_downstream_released + 1 }).conns.length + 1)
        (w.set_stats { w.ptd.stats with
          tot_downstream_released := w.ptd.stats.tot_downstream_released + 1 }) dd hd hus
        (by
          have := cchain_length_le hus
          simp only [conns_set_stats]
          omega)
      rw [h1] at hdl
      cases hdl
  | ok w1 =>
    obtain ⟨hrel, _⟩ := delink_partial env hf d _ _ _ hdl
    obtain ⟨p1, p2⟩ := release_after_delink env w d dd rs ls force hr hl hdis hd w1 hdl hrel
    exact ⟨p1, fun _ _ h => p2 h⟩

/-! ## `cproxy_add_downstream` -/

theorem get_d_append (w : World) (v : downstream) (a : Nat) :
    ({ w with ds := w.ds ++ [some v] } : World).get_d a =
      if a = w.ds.length then some v else w.get_d a := by
  unfold World.get_d
  simp only
  by_cases h : a = w.ds.length
  · subst h; simp
  · simp only [h, if_false]
    by_cases h2 : a < w.ds.length
    · rw [List.getElem?_append_left h2]
    · rw [List.getElem?_eq_none (by simp; omega), List.getElem?_eq_none (by omega)]

theorem create_spec (env : Env) (w : World) (config : String) (config_ver : Nat)
    (behavior : proxy_behavior) :
    cproxy_create_downstream env w config config_ver behavior = (none, w) ∨
    ∃ n, cproxy_create_downstream env w config config_ver behavior =
      (some w.ds.length, { w with ds := w.ds ++ [some
        { config := some config, config_ver := config_ver, behavior := behavior,
          downstream_conns := List.replicate n none }] }) := by
  unfold cproxy_create_downstream
  by_cases h1 : env.calloc_downstream w = true
  swap
  · left; simp [h1]
  by_cases h2 : env.memcached_create w = true
  swap
  · left; simp [h1, h2]
  cases h3 : env.memcached_servers_parse config with
  | none => left; simp [h1, h2, h3]
  | some n =>
    by_cases h4 : env.calloc_conns w n = true
    · right; exact ⟨n, by simp [h1, h2, h3, h4]⟩
    · left; simp [h1, h2, h3, h4]

theorem IsChain.head {nxt : Nat → Option (Option Nat)} {h : Option Nat} {xs : List Nat}
    (hc : IsChain nxt h xs) : h = xs.head? := by
  cases hc <;> rfl

theorem add_spec (env : Env) (hf : env.frame) (w : World) (rs ls : List Nat)
    (hr : IsChain w.dnext w.ptd.downstream_reserved rs)
    (hl : IsChain w.dnext w.ptd.downstream_released ls)
    (hdis : ∀ a, a ∈ rs → a ∉ ls) :
    ∃ w1, cproxy_add_downstream env w = .ok w1 ∧
      ((¬ w.ptd.downstream_num < w.ptd.downstream_max ∧
          w1 = w.set_stats { w.ptd.stats with
            tot_downstream_max_reached := w.ptd.stats.tot_downstream_max_reached + 1 }) ∨
        (w.ptd.downstream_num < w.ptd.downstream_max ∧ w.proxy.config = none ∧ w1 = w) ∨
        (w.ptd.downstream_num < w.ptd.downstream_max ∧
          (∃ config, w.proxy.config = some config ∧
            (cproxy_create_downstream env w config w.proxy.config_ver w.proxy.behavior).1 =
              none) ∧
          w1 = w.set_stats { w.ptd.stats with
            tot_downstream_create_failed := w.ptd.stats.tot_downstream_create_failed + 1 }) ∨
        ((∃ config, w.proxy.config = some config ∧
            (cproxy_create_downstream env w config w.proxy.config_ver w.proxy.behavior).1 ≠
              none) ∧
          added w rs ls w1)) := by
  unfold cproxy_add_downstream
  by_cases hroom : w.ptd.downstream_num < w.ptd.downstream_max
  swap
  · rw [if_neg hroom]
    exact ⟨_, rfl, Or.inl ⟨hroom, rfl⟩⟩
  rw [if_pos hroom]
  cases hcfg : w.proxy.config with
  | none => exact ⟨w, rfl, Or.inr (Or.inl ⟨hroom, rfl, rfl⟩)⟩
  | some config =>
    simp only
    rcases create_spec env w config w.proxy.config_ver w.proxy.behavior with hc | ⟨n, hc⟩
    · rw [hc]
      exact ⟨_, rfl, Or.inr (Or.inr (Or.inl ⟨hroom, ⟨config, rfl, by rw [hc]⟩, rfl⟩))⟩
    · rw [hc]
      simp only
      -- the state in which the new downstream is released
      obtain ⟨dnew, hdnew⟩ : ∃ dnew : downstream, dnew =
        { config := some config, config_ver := w.proxy.config_ver,
          behavior := w.proxy.behavior, downstream_conns := List.replicate n none } := ⟨_, rfl⟩
      obtain ⟨w2, hw2⟩ : ∃ w2 : World, w2 =
        ({ w with ds := w.ds ++ [some dnew] } : World).set_ptd
          { w.ptd with
            downstream_tot := w.ptd.downstream_tot + 1
            downstream_num := w.ptd.downstream_num + 1 } := ⟨_, rfl⟩
      have hg2 : ∀ a, w2.get_d a = if a = w.ds.length then some dnew else w.get_d a := by
        intro a
        rw [hw2, get_d_set_ptd, get_d_append]
      have hlt : ∀ {h : Option Nat} {xs : List Nat}, IsChain w.dnext h xs →
          w.ds.length ∉ xs := by
        intro h xs hc hm
        obtain ⟨p, hp⟩ := hc.live hm
        exact absurd (dnext_lt hp) (lt_irrefl _)
      have hdn2 : ∀ {h : Option Nat} {xs : List Nat}, IsChain w.dnext h xs →
          IsChain w2.dnext h xs := by
        intro h xs hc
        refine hc.congr fun a ha => ?_
        unfold World.dnext
        rw [hg2 a, if_neg (by rintro rfl; exact hlt hc ha)]
      have hr2 : IsChain w2.dnext w2.ptd.downstream_reserved rs := by
        have hpr : w2.ptd.downstream_reserved = w.ptd.downstream_reserved := by rw [hw2]; rfl
        rw [hpr]; exact hdn2 hr
      have hl2 : IsChain w2.dnext w2.ptd.downstream_released ls := by
        have hpr : w2.ptd.downstream_released = w.ptd.downstream_released := by rw [hw2]; rfl
        rw [hpr]; exact hdn2 hl
      have hd2 : w2.get_d w.ds.length = some dnew := by rw [hg2]; simp
      obtain ⟨p1, p2⟩ := release_spec env hf w2 w.ds.length dnew rs ls true hr2 hl2 hdis hd2
      obtain ⟨b, w3, hrel⟩ := p2 [] (by rw [hdnew]; exact IsChain.nil) (Or.inr (Or.inl rfl))
      obtain ⟨hb, hrep, _⟩ := p1 b w3 hrel
      have hbt : b = true := by rw [hb]; simp
      have hrep := hrep hbt
      refine ⟨w3, ?_, Or.inr (Or.inr (Or.inr ⟨⟨config, rfl, by rw [hc]; simp⟩, ?_⟩))⟩
      · rw [← hdnew, ← hw2, hrel]
        rfl
      · have hnone : dnew.upstream_conn = none := by rw [hdnew]
        have hw1d : w.get_d w.ds.length = none := by
          unfold World.get_d
          rw [List.getElem?_eq_none (le_refl _)]; rfl
        obtain ⟨r, n1, hp⟩ := hrep.ptd
        have e1 : r = w.ptd.downstream_reserved := by
          have hrs := hrep.reserved
          rw [hp] at hrs
          simp only at hrs
          have := hrs.head
          rw [List.erase_of_not_mem (hlt hr)] at this
          rw [this, hr.head]
        obtain ⟨dd1, hc1, hc2, hc3, hc4, hc5, _⟩ := hrep.cell
        have hv : config_valid w2.proxy dnew := by
          left; rw [hw2, hdnew]; rfl
        refine ⟨hroom, ⟨n1, ?_⟩, ?_, ?_, ?_, ?_, ?_, ⟨dd1, n, hc1, hc2, ?_, ?_, ?_, ?_⟩, ?_, ?_⟩
        · rw [hp, e1, hw2]; rfl
        · rw [hrep.proxy, hw2]; rfl
        · rw [hrep.ds_length, hw2]; simp
        · rw [hrep.conns hnone, hw2]; rfl
        · have := hrep.reserved
          rwa [List.erase_of_not_mem (hlt hr)] at this
        · have := hrep.released
          rwa [List.erase_of_not_mem (hlt hl)] at this
        · rw [hc3, hdnew, hcfg]
        · rw [hc3, hdnew]; simp
        · rw [hc5 hv, hw2]; rfl
        · rw [hc4, hdnew]
        · intro a ha
          rw [hrep.payload a ha, hg2 a, if_neg ha]
        · intro a h1 h2 ha
          rw [hrep.off a h1 h2 ha, hg2 a, if_neg ha]

/-! ## `cproxy_reserve_downstream` -/

theorem scratch_clear_eq {dd : downstream} (h : dd.scratch_clear) :
    ({ dd with
      upstream_conn := none
      upstream_suffix := none
      downstream_used := 0
      downstream_used_start := 0
      multiget := none
      merger := none
      timeout_tv := { tv_sec := 0, tv_usec := 0 } } : downstream) = dd := by
  obtain ⟨h1, h2, h3, h4, h5, h6, h7, h8⟩ := h
  cases dd with
  | mk c v b n s u sf du ds mg mr tv =>
    cases tv with
    | mk sec usec =>
      simp only at h1 h2 h3 h4 h5 h6 h7 h8
      subst h1 h2 h3 h4 h5 h6 h7 h8
      rfl

theorem reserve_body_nonempty (env : Env) (w : World) (rs rest : List Nat) (d : Nat)
    (dd : downstream)
    (hr : IsChain w.dnext w.ptd.downstream_reserved rs)
    (hl : IsChain w.dnext w.ptd.downstream_released (d :: rest))
    (hdis : ∀ a, a ∈ rs → a ∉ d :: rest) (hd : w.get_d d = some dd) :
    (∀ o w1, cproxy_reserve_downstream_body env w = .ok (o, w1) →
      (o = some (some d) ∧ reserved_some w rs (d :: rest) d w1 [] rest false) ∨
      (o = none ∧ reserved_skip w rs d rest w1)) ∧
    (dd.scratch_clear →
      (config_valid w.proxy dd ∨ (w.slots_connected dd ∧ 1 ≤ w.ptd.downstream_num)) →
      ∃ o w1, cproxy_reserve_downstream_body env w = .ok (o, w1)) := by
  have hhead : w.ptd.downstream_released = some d := hl.head_eq
  obtain ⟨p, hp, hrest⟩ := hl.tail
  have hpn : p = dd.next := by
    rw [dnext_eq hd] at hp
    cases hp; rfl
  subst hpn
  have hdrs : d ∉ rs := fun hm => hdis d hm (List.mem_cons_self _ _)
  have hdrest : d ∉ rest := (List.nodup_cons.1 hl.nodup).1
  by_cases hclear : dd.scratch_clear
  swap
  · -- one of the entry assertions fails
    have hres : cproxy_reserve_downstream_body env w = .error .assert_failed := by
      unfold cproxy_reserve_downstream_body
      simp only [hhead, pure, Except.pure, bind, Except.bind, hd]
      unfold downstream.scratch_clear at hclear
      by_cases a1 : dd.upstream_conn = none
      swap
      · simp [a1]
      by_cases a2 : dd.upstream_suffix = none
      swap
      · simp [a1, a2]
      by_cases a3 : dd.downstream_used = 0
      swap
      · simp [a1, a2, a3]
      by_cases a4 : dd.downstream_used_start = 0
      swap
      · simp [a1, a2, a3, a4]
      by_cases a5 : dd.multiget = none
      swap
      · simp [a1, a2, a3, a4, a5]
      by_cases a6 : dd.merger = none
      swap
      · simp [a1, a2, a3, a4, a5, a6]
      by_cases a7 : dd.timeout_tv.tv_sec = 0
      swap
      · simp [a1, a2, a3, a4, a5, a6, a7]
      by_cases a8 : dd.timeout_tv.tv_usec = 0
      swap
      · simp [a1, a2, a3, a4, a5, a6, a7, a8]
      exact absurd ⟨a1, a2, a3, a4, a5, a6, a7, a8⟩ hclear
    constructor
    · intro o w1 h
      rw [hres] at h
      cases h
    · intro h
      exact absurd h hclear
  -- the state after the pop
  obtain ⟨w2, hw2⟩ : ∃ w2 : World, w2 =
    w.set_ptd { w.ptd with downstream_released := dd.next } := ⟨_, rfl⟩
  have hg2 : w2.get_d d = some dd := by rw [hw2]; exact hd
  obtain ⟨dd3, hck, hdd3, hver⟩ := check_spec w2 d dd hg2
  have hproxy2 : w2.proxy = w.proxy := by rw [hw2]; rfl
  have hclear3 : dd3.scratch_clear := by
    rcases hdd3 with rfl | ⟨_, _, rfl⟩
    · exact hclear
    · exact hclear
  have hnext3 : dd3.next = dd.next := by
    rcases hdd3 with rfl | ⟨_, _, rfl⟩ <;> rfl
  have hcfg3 : dd3.config = dd.config := by
    rcases hdd3 with rfl | ⟨_, _, rfl⟩ <;> rfl
  have hslots3 : dd3.downstream_conns = dd.downstream_conns := by
    rcases hdd3 with rfl | ⟨_, _, rfl⟩ <;> rfl
  obtain ⟨w4, hw4⟩ : ∃ w4 : World, w4 = w2.set_d d dd3 := ⟨_, rfl⟩
  have hlt : d < w.ds.length := lt_of_get_d hd
  have hg4 : ∀ a, w4.get_d a = if d = a then some dd3 else w.get_d a := by
    intro a
    rw [hw4]
    by_cases hda : d = a
    · subst hda
      rw [if_pos rfl]
      exact get_d_set_d_same _ _ _ (by rw [hw2]; exact hlt)
    · rw [get_d_set_d_ne _ _ _ _ hda, if_neg hda, hw2]; rfl
  have hdn4 : ∀ a, w4.dnext a = w.dnext a := by
    intro a
    unfold World.dnext
    rw [hg4 a]
    by_cases hda : d = a
    · subst hda; simp [hd, hnext3]
    · simp [hda]
  have hptd4 : w4.ptd = { w.ptd with downstream_released := dd.next } := by
    rw [hw4, ptd_set_d, hw2]; rfl
  have hr4 : IsChain w4.dnext w4.ptd.downstream_reserved rs := by
    rw [hptd4]; exact hr.congr fun a _ => hdn4 a
  have hl4 : IsChain w4.dnext w4.ptd.downstream_released rest := by
    rw [hptd4]; exact hrest.congr fun a _ => hdn4 a
  have hdis4 : ∀ a, a ∈ rs → a ∉ rest := fun a ha hm => hdis a ha (List.mem_cons_of_mem _ hm)
  have hhd : cproxy_reserve_downstream_body env w =
      (match (decide (config_valid w.proxy dd)) with
      | true => (do
          let (r, w5) ← downstream_list_remove w4 w4.ptd.downstream_reserved d
          let w6 := w5.set_ptd { w5.ptd with downstream_reserved := r }
          let (l, w7) ← downstream_list_remove w6 w6.ptd.downstream_released d
          let w8 := w7.set_ptd { w7.ptd with downstream_released := l }
          match w8.get_d d with
          | none => .error .bad_pointer
          | some dd8 =>
            let w9 := w8.set_d d { dd8 with next := w8.ptd.downstream_reserved }
            let w10 := w9.set_ptd { w9.ptd with downstream_reserved := some d }
            .ok (some (some d), w10.set_stats
              { w10.ptd.stats with
                tot_downstream_reserved := w10.ptd.stats.tot_downstream_reserved + 1 }))
      | false => (do
          let w5 ← cproxy_free_downstream w4 d
          .ok (none, w5))) := by
    unfold cproxy_reserve_downstream_body
    simp only [hhead, pure, Except.pure, bind, Except.bind, hd]
    obtain ⟨a1, a2, a3, a4, a5, a6, a7, a8⟩ := hclear
    simp only [a1, a2, a3, a4, a5, a6, a7, a8, ne_eq, not_true_eq_false, if_false]
    have hcell := scratch_clear_eq ⟨a1, a2, a3, a4, a5, a6, a7, a8⟩
    simp only [a1, a2, a3, a4, a5, a6] at hcell
    rw [hcell, ← hw2, set_d_self w2 d dd hg2, hck, ← hw4, hproxy2]
    cases decide (config_valid w.proxy dd) <;> rfl
  by_cases hv : config_valid w.proxy dd
  · -- valid: moved to the reserved list
    simp only [hv, decide_True] at hhd
    obtain ⟨r, wa, l, wb, h1, h2, hptdb, hproxyb, hconnsb, hlenb, hcr, hcl, hgd, hpay, hoff, _⟩ :=
      remove_both w4 d rs rest hr4 hl4 hdis4
    rw [List.erase_of_not_mem hdrs] at hcr
    rw [List.erase_of_not_mem hdrest] at hcl
    have hgb : wb.get_d d = some dd3 := by rw [hgd, hg4]; simp
    obtain ⟨wf, hwf⟩ : ∃ wf : World, wf =
      (((wb.set_ptd { wb.ptd with downstream_released := l }).set_d d
          { dd3 with next := r }).set_ptd
          { wb.ptd with downstream_released := l, downstream_reserved := some d }).set_stats
        { wb.ptd.stats with
          tot_downstream_reserved := wb.ptd.stats.tot_downstream_reserved + 1 } := ⟨_, rfl⟩
    have hres : cproxy_reserve_downstream_body env w = .ok (some (some d), wf) := by
      rw [hhd]
      simp only [bind, Except.bind, h1, h2, get_d_set_ptd, hgb]
      rw [hwf]
      simp only [ptd_set_ptd, ptd_set_d, hptdb]
      try rfl
    have hltb : d < wb.ds.length := lt_of_get_d hgb
    have hgf : ∀ a, wf.get_d a = if d = a then some { dd3 with next := r } else wb.get_d a := by
      intro a
      rw [hwf, get_d_set_stats, get_d_set_ptd]
      by_cases hda : d = a
      · subst hda
        simp only [if_true]
        exact get_d_set_d_same _ _ _ (by simpa using hltb)
      · rw [get_d_set_d_ne _ _ _ _ hda, get_d_set_ptd]; simp [hda]
    have hdnf : ∀ a, a ≠ d → wf.dnext a = wb.dnext a := by
      intro a ha
      unfold World.dnext
      rw [hgf a]; simp [Ne.symm ha]
    have hsome : reserved_some w rs (d :: rest) d wf [] rest false := by
      refine ⟨Or.inl ⟨rfl, rfl⟩, fun a ha => absurd ha (List.not_mem_nil a),
        fun a ha => absurd ha (List.not_mem_nil a), ?_, ?_,
        ⟨{ dd3 with next := r }, ?_, hclear3, ?_, fun h => (by cases h),
          fun _ => ⟨dd, hd, hv, hcfg3, hslots3⟩⟩, ?_, ⟨some d, l, wf.ptd.stats, ?_, ?_, ?_⟩,
        fun h => (by cases h), ?_, ?_, ?_, ?_⟩
      · have : wf.ptd.downstream_reserved = some d := by rw [hwf]; rfl
        rw [this]
        refine IsChain.cons ?_ (hcr.congr fun a ha => hdnf a (by rintro rfl; exact hdrs ha))
        unfold World.dnext
        rw [hgf d]; simp
      · have : wf.ptd.downstream_released = l := by rw [hwf]; rfl
        rw [this]
        exact hcl.congr fun a ha => hdnf a (by rintro rfl; exact hdrest ha)
      · rw [hgf d]; simp
      · exact (hver (by rw [hproxy2]; exact hv)).trans (by rw [hproxy2])
      · rw [hwf]; simp [hproxyb, hw4, hw2]
      · rw [hwf]
        simp only [ptd_set_stats, ptd_set_ptd, hptdb, hptd4]
        simp
      · rw [hwf]; simp [hptdb, hptd4]
      · rw [hwf]; simp [hptdb, hptd4]
      · rw [hwf]; simp [hlenb, hw4, hw2]
      · rw [hwf]; simp [hconnsb, hw4, hw2]
      · intro c
        unfold World.cnext World.get_c
        rw [hwf]; simp [hconnsb, hw4, hw2]
      · intro a _ ha
        rw [hgf a, if_neg (Ne.symm ha), hpay a, hg4 a, if_neg (Ne.symm ha)]
    constructor
    · intro o w1 h
      rw [hres] at h
      simp only [Except.ok.injEq, Prod.mk.injEq] at h
      obtain ⟨h1, h2⟩ := h
      subst h1 h2
      exact Or.inl ⟨rfl, hsome⟩
    · intro _ _
      exact ⟨_, _, hres⟩
  · -- stale: freed
    simp only [hv, decide_False] at hhd
    constructor
    · intro o w1 h
      rw [hhd] at h
      cases hfr : cproxy_free_downstream w4 d with
      | error f => simp [hfr, bind, Except.bind] at h
      | ok w5 =>
        simp only [hfr, bind, Except.bind, Except.ok.injEq, Prod.mk.injEq] at h
        obtain ⟨h1, h2⟩ := h
        subst h1 h2
        obtain ⟨_, hfd⟩ := free_partial w4 d rs rest hr4 hl4 hdis4 w5 hfr
        refine Or.inr ⟨rfl, ⟨dd, hd, hv⟩, hfd.dead, ?_, ?_, ?_, ?_, ?_, ?_, ?_, ?_⟩
        · have := hfd.reserved
          rwa [List.erase_of_not_mem hdrs] at this
        · have := hfd.released
          rwa [List.erase_of_not_mem hdrest] at this
        · rw [hfd.proxy, hw4, proxy_set_d, hproxy2]
        · obtain ⟨r, l, hp⟩ := hfd.ptd
          exact ⟨r, l, by rw [hp, hptd4]⟩
        · rw [hfd.ds_length, hw4, ds_length_set_d, hw2]; rfl
        · rw [hfd.conns_length, hw4, hw2]; rfl
        · intro c
          rw [hfd.cnext c, hw4, hw2]; rfl
        · intro a ha
          rw [hfd.payload a ha, hg4 a, if_neg (Ne.symm ha)]
    · intro _ hor
      rcases hor with h | ⟨hs, hnum⟩
      · exact absurd h hv
      · obtain ⟨w5, hfr⟩ := free_total w4 d dd3 rs rest hr4 hl4 hdis4 (by rw [hg4]; simp)
          (free_ready_of_scratch_clear hclear3) (by rw [hptd4]; exact hnum)
          (by
            intro s hs1
            rw [hslots3] at hs1
            obtain ⟨c, hc1, hc2⟩ := hs s hs1
            exact ⟨c, hc1, by rw [hw4, hw2]; exact hc2⟩)
        refine ⟨none, w5, ?_⟩
        rw [hhd, hfr]
        rfl

theorem payload_some {w w1 : World} {a : Nat} {dd1 : downstream}
    (h : (w1.get_d a).map downstream.payload = (w.get_d a).map downstream.payload)
    (h1 : w1.get_d a = some dd1) :
    ∃ dd, w.get_d a = some dd ∧ dd.config = dd1.config ∧ dd.config_ver = dd1.config_ver ∧
      dd.downstream_conns = dd1.downstream_conns ∧
      (dd.scratch_clear ↔ dd1.scratch_clear) := by
  rw [h1] at h
  cases h2 : w.get_d a with
  | none => simp [h2] at h
  | some dd =>
    simp only [h2, Option.map_some', Option.some.injEq] at h
    refine ⟨dd, rfl, ?_, ?_, ?_, ?_⟩
    · have := congrArg downstream.config h; exact this.symm
    · have := congrArg downstream.config_ver h; exact this.symm
    · have := congrArg downstream.downstream_conns h; exact this.symm
    · have e1 := congrArg downstream.upstream_conn h
      have e2 := congrArg downstream.upstream_suffix h
      have e3 := congrArg downstream.downstream_used h
      have e4 := congrArg downstream.downstream_used_start h
      have e5 := congrArg downstream.multiget h
      have e6 := congrArg downstream.merger h
      have e7 := congrArg downstream.timeout_tv h
      simp only [downstream.payload] at e1 e2 e3 e4 e5 e6 e7
      unfold downstream.scratch_clear
      rw [e1, e2, e3, e4, e5, e6, e7]

theorem config_valid_congr {p : proxy} {dd dd1 : downstream} (h1 : dd.config = dd1.config)
    (h2 : dd.config_ver = dd1.config_ver) : config_valid p dd ↔ config_valid p dd1 := by
  unfold config_valid
  rw [h1, h2]

theorem reserve_body_empty (env : Env) (hf : env.frame) (w : World) (rs : List Nat)
    (hr : IsChain w.dnext w.ptd.downstream_reserved rs)
    (hl : IsChain w.dnext w.ptd.downstream_released []) :
    (∀ o w2, cproxy_reserve_downstream_body env w = .ok (o, w2) →
      (o = some none ∧ reserved_none w rs [] w2) ∨
      (o = some (some w.ds.length) ∧ reserved_some w rs [] w.ds.length w2 [] [] true)) ∧
    (∃ o w2, cproxy_reserve_downstream_body env w = .ok (o, w2)) := by
  have hhead : w.ptd.downstream_released = none := hl.of_nil
  obtain ⟨w1, hadd, hcases⟩ := add_spec env hf w rs [] hr hl (fun a _ hm => by cases hm)
  have hbody : cproxy_reserve_downstream_body env w =
      (match w1.ptd.downstream_released with
      | none => .ok (some none, w1)
      | some _ => cproxy_reserve_downstream_body env w1) := by
    cases hrel1 : w1.ptd.downstream_released with
    | none =>
      unfold cproxy_reserve_downstream_body
      simp only [hhead, if_true, hadd, bind, Except.bind, hrel1]
    | some d =>
      simp only
      conv_lhs => unfold cproxy_reserve_downstream_body
      conv_rhs => unfold cproxy_reserve_downstream_body
      simp only [hhead, if_true, hadd, bind, Except.bind, hrel1, pure, Except.pure]
      rfl
  have hfail : w1.ptd.downstream_released = none → w1.proxy = w.proxy →
      w1.ds = w.ds → w1.conns = w.conns →
      (∃ st, w1.ptd = { w.ptd with stats := st } ∧
        st.tot_downstream_reserved = w.ptd.stats.tot_downstream_reserved ∧
        st.tot_downstream_freed = w.ptd.stats.tot_downstream_freed) →
      (∀ o w2, cproxy_reserve_downstream_body env w = .ok (o, w2) →
        (o = some none ∧ reserved_none w rs [] w2) ∨
        (o = some (some w.ds.length) ∧ reserved_some w rs [] w.ds.length w2 [] [] true)) ∧
      (∃ o w2, cproxy_reserve_downstream_body env w = .ok (o, w2)) := by
    intro h1 h2 h3 h4 ⟨st, h5, h6, h7⟩
    rw [h1] at hbody
    simp only at hbody
    have hgd : ∀ a, w1.get_d a = w.get_d a := fun a => by unfold World.get_d; rw [h3]
    refine ⟨fun o w2 h => Or.inl ?_, ⟨_, _, hbody⟩⟩
    rw [hbody] at h
    simp only [Except.ok.injEq, Prod.mk.injEq] at h
    obtain ⟨e1, e2⟩ := h
    subst e1 e2
    refine ⟨rfl, fun a ha => absurd ha (List.not_mem_nil a),
      fun a ha => absurd ha (List.not_mem_nil a), ?_, h1, h2,
      ⟨w.ptd.downstream_reserved, st, ?_, h6, by simpa using h7⟩, by rw [h3], by rw [h4], ?_, ?_⟩
    · rw [h5]
      exact hr.congr fun a _ => by unfold World.dnext; rw [hgd]
    · rw [h5]
      simp [hhead]
    · intro c
      unfold World.cnext World.get_c
      rw [h4]
    · intro a _
      rw [hgd]
  rcases hcases with ⟨_, rfl⟩ | ⟨_, _, rfl⟩ | ⟨_, _, rfl⟩ | ⟨_, hadded⟩
  · exact hfail hhead rfl rfl rfl ⟨_, rfl, rfl, rfl⟩
  · exact hfail hhead rfl rfl rfl ⟨_, rfl, rfl, rfl⟩
  · exact hfail hhead rfl rfl rfl ⟨_, rfl, rfl, rfl⟩
  · -- a downstream was created
    obtain ⟨n0, hp⟩ := hadded.ptd
    have hrel1 : w1.ptd.downstream_released = some w.ds.length := by rw [hp]
    rw [hrel1] at hbody
    simp only at hbody
    obtain ⟨dd1, ns, hc1, hc2, hc3, hc4, hc5, hc6⟩ := hadded.cell
    have hv1 : config_valid w1.proxy dd1 := Or.inl (by rw [hc5, hadded.proxy])
    obtain ⟨p1, p2⟩ := reserve_body_nonempty env w1 rs [] w.ds.length dd1 hadded.reserved
      hadded.released (by
        intro a ha hm
        rcases List.mem_cons.1 hm with rfl | hm
        · obtain ⟨p, hp⟩ := hr.live ha
          exact absurd (dnext_lt hp) (lt_irrefl _)
        · cases hm) hc1
    obtain ⟨o, w2, hres⟩ := p2 hc2 (Or.inl hv1)
    refine ⟨fun o w2 h => Or.inr ?_, ⟨o, w2, by rw [hbody]; exact hres⟩⟩
    rw [hbody] at h
    rcases p1 o w2 h with ⟨ho, hs⟩ | ⟨_, hs⟩
    swap
    · obtain ⟨dd, hd, hnv⟩ := hs.invalid
      rw [hc1] at hd
      cases hd
      exact absurd hv1 hnv
    obtain ⟨dd2, hd2, hcl2, hver2, _, hold2⟩ := hs.cell
    obtain ⟨dd1b, hd1b, _, hcfg2, _⟩ := hold2 rfl
    rw [hc1] at hd1b
    cases hd1b
    obtain ⟨r, l, st, hp2, hst1, hst2⟩ := hs.ptd
    refine ⟨ho, Or.inr ⟨rfl, rfl, rfl, rfl⟩, fun a ha => absurd ha (List.not_mem_nil a),
      fun a ha => absurd ha (List.not_mem_nil a), hs.reserved, hs.released,
      ⟨dd2, hd2, hcl2, by rw [hver2, hadded.proxy], fun _ => ⟨by rw [hcfg2, hc3], by
        rw [hcfg2]; exact hc4⟩, fun h => (by cases h)⟩, by rw [hs.proxy, hadded.proxy],
      ⟨r, l, st, ?_, ?_, ?_⟩, fun _ => by simpa using hadded.room, ?_, ?_, ?_, ?_⟩
    · rw [hp2, hp]; simp
    · rw [hst1, hp]
    · rw [hst2, hp]; try simp
    · rw [hs.ds_length, hadded.ds_length]; simp
    · rw [hs.conns_length, hadded.conns]
    · intro c
      rw [hs.cnext c]
      unfold World.cnext World.get_c
      rw [hadded.conns]
    · intro a _ ha
      rw [hs.payload a (List.not_mem_nil a) ha, hadded.payload a ha]

theorem reserved_skip.not_valid_back {w w1 : World} {rs rest : List Nat} {d : Nat}
    (hs : reserved_skip w rs d rest w1) {a : Nat} {dd1 : downstream}
    (h1 : w1.get_d a = some dd1) :
    a ≠ d ∧ ∃ dd, w.get_d a = some dd ∧ dd.config = dd1.config ∧
      dd.config_ver = dd1.config_ver ∧ dd.downstream_conns = dd1.downstream_conns ∧
      (dd.scratch_clear ↔ dd1.scratch_clear) := by
  have hne : a ≠ d := by
    rintro rfl
    rw [hs.dead] at h1
    cases h1
  exact ⟨hne, payload_some (hs.payload a hne) h1⟩

theorem reserved_some.after_skip_some {w w1 w2 : World} {rs rest stale rest1 : List Nat}
    {d d1 : Nat} {fresh : Bool} (hs : reserved_skip w rs d rest w1)
    (h : reserved_some w1 rs rest d1 w2 stale rest1 fresh) :
    reserved_some w rs (d :: rest) d1 w2 (d :: stale) rest1 fresh := by
  obtain ⟨ddk, hdk, hnk⟩ := hs.invalid
  have hdlt : d < w.ds.length := lt_of_get_d hdk
  have hd_stale : d ∉ stale := by
    intro hm
    obtain ⟨dd, hd, _⟩ := h.stale_invalid d hm
    rw [hs.dead] at hd
    cases hd
  obtain ⟨dd2, hd2, hcl2, hver2, hfr2, hold2⟩ := h.cell
  have hd_d1 : d ≠ d1 := by
    rintro rfl
    cases hfresh : fresh with
    | true =>
      rcases h.split with ⟨e, _⟩ | ⟨_, _, _, e⟩
      · rw [hfresh] at e; cases e
      · rw [hs.ds_length] at e
        omega
    | false =>
      obtain ⟨dd, hd, _⟩ := hold2 hfresh
      rw [hs.dead] at hd
      cases hd
  obtain ⟨r1, l1, hp1⟩ := hs.ptd
  obtain ⟨r, l, st, hp2, hst1, hst2⟩ := h.ptd
  refine ⟨?_, ?_, ?_, h.reserved, h.released, ⟨dd2, hd2, hcl2, by rw [hver2, hs.proxy],
    fun hf => by rw [← hs.proxy]; exact hfr2 hf, ?_⟩, by rw [h.proxy, hs.proxy],
    ⟨r, l, st, ?_, ?_, ?_⟩, ?_, by rw [h.ds_length, hs.ds_length],
    by rw [h.conns_length, hs.conns_length], fun c => by rw [h.cnext c, hs.cnext c], ?_⟩
  · rcases h.split with ⟨e1, e2⟩ | ⟨e1, e2, e3, e4⟩
    · exact Or.inl ⟨e1, by rw [e2]; rfl⟩
    · exact Or.inr ⟨e1, by rw [e2], e3, by rw [e4, hs.ds_length]⟩
  · intro a ha
    rcases List.mem_cons.1 ha with rfl | ha
    · exact ⟨ddk, hdk, hnk⟩
    · obtain ⟨dd1, hd1, hn1⟩ := h.stale_invalid a ha
      obtain ⟨_, dd, hd, e1, e2, _⟩ := hs.not_valid_back hd1
      refine ⟨dd, hd, fun hv => hn1 ?_⟩
      rw [hs.proxy]
      exact (config_valid_congr e1 e2).1 hv
  · intro a ha
    rcases List.mem_cons.1 ha with rfl | ha
    · have := h.payload a hd_stale hd_d1
      rw [hs.dead] at this
      cases hh : w2.get_d a with
      | none => rfl
      | some x => simp [hh] at this
    · exact h.stale_dead a ha
  · intro hf
    obtain ⟨dd1, hd1, hv1, e1, e2⟩ := hold2 hf
    obtain ⟨_, dd, hd, c1, c2, c3, _⟩ := hs.not_valid_back hd1
    refine ⟨dd, hd, ?_, by rw [e1, c1], by rw [e2, c3]⟩
    rw [hs.proxy] at hv1
    exact (config_valid_congr c1 c2).2 hv1
  · rw [hp2, hp1]
    simp only [List.length_cons, Nat.cast_add, Nat.cast_one]
    congr 1
    omega
  · rw [hst1, hp1]
  · rw [hst2, hp1]
    simp only [List.length_cons]
    omega
  · intro hf
    have := h.room hf
    rw [hp1] at this
    simp only [List.length_cons, Nat.cast_add, Nat.cast_one] at this ⊢
    omega
  · intro a ha ha1
    have h1 : a ≠ d := fun e => ha (e ▸ List.mem_cons_self _ _)
    have h2 : a ∉ stale := fun hm => ha (List.mem_cons_of_mem _ hm)
    rw [h.payload a h2 ha1, hs.payload a h1]

theorem reserved_none.after_skip_none {w w1 w2 : World} {rs rest : List Nat} {d : Nat}
    (hs : reserved_skip w rs d rest w1) (h : reserved_none w1 rs rest w2) :
    reserved_none w rs (d :: rest) w2 := by
  obtain ⟨ddk, hdk, hnk⟩ := hs.invalid
  have hd_rest : d ∉ rest := by
    intro hm
    obtain ⟨dd, hd, _⟩ := h.stale_invalid d hm
    rw [hs.dead] at hd
    cases hd
  obtain ⟨r1, l1, hp1⟩ := hs.ptd
  obtain ⟨r, st, hp2, hst1, hst2⟩ := h.ptd
  refine ⟨?_, ?_, h.reserved, h.released, by rw [h.proxy, hs.proxy], ⟨r, st, ?_, ?_, ?_⟩,
    by rw [h.ds_length, hs.ds_length], by rw [h.conns_length, hs.conns_length],
    fun c => by rw [h.cnext c, hs.cnext c], ?_⟩
  · intro a ha
    rcases List.mem_cons.1 ha with rfl | ha
    · exact ⟨ddk, hdk, hnk⟩
    · obtain ⟨dd1, hd1, hn1⟩ := h.stale_invalid a ha
      obtain ⟨_, dd, hd, e1, e2, _⟩ := hs.not_valid_back hd1
      refine ⟨dd, hd, fun hv => hn1 ?_⟩
      rw [hs.proxy]
      exact (config_valid_congr e1 e2).1 hv
  · intro a ha
    rcases List.mem_cons.1 ha with rfl | ha
    · have := h.payload a hd_rest
      rw [hs.dead] at this
      cases hh : w2.get_d a with
      | none => rfl
      | some x => simp [hh] at this
    · exact h.stale_dead a ha
  · rw [hp2, hp1]
    simp only [List.length_cons, Nat.cast_add, Nat.cast_one]
    congr 1
    omega
  · rw [hst1, hp1]
  · rw [hst2, hp1]
    simp only [List.length_cons]
    omega
  · intro a ha
    have h1 : a ≠ d := fun e => ha (e ▸ List.mem_cons_self _ _)
    have h2 : a ∉ rest := fun hm => ha (List.mem_cons_of_mem _ hm)
    rw [h.payload a h2, hs.payload a h1]

theorem reserve_loop_spec (env : Env) (hf : env.frame) :
    ∀ (ls : List Nat) (w : World) (rs : List Nat) (fuel : Nat),
      IsChain w.dnext w.ptd.downstream_reserved rs →
      IsChain w.dnext w.ptd.downstream_released ls →
      (∀ a, a ∈ rs → a ∉ ls) → ls.length + 1 ≤ fuel →
      (∀ r w1, cproxy_reserve_downstream_loop env fuel w = .ok (r, w1) →
        (∃ d stale rest fresh, r = some d ∧ reserved_some w rs ls d w1 stale rest fresh) ∨
        (r = none ∧ reserved_none w rs ls w1)) ∧
      ((∀ a, a ∈ ls → ∃ dd, w.get_d a = some dd ∧ dd.scratch_clear ∧
          (config_valid w.proxy dd ∨ w.slots_connected dd)) →
        (ls.length : Int) ≤ w.ptd.downstream_num →
        ∃ r w1, cproxy_reserve_downstream_loop env fuel w = .ok (r, w1)) := by
  intro ls
  induction ls with
  | nil =>
    intro w rs fuel hr hl _ hfuel
    obtain ⟨fuel, rfl⟩ : ∃ f, fuel = f + 1 := ⟨fuel - 1, by omega⟩
    obtain ⟨p1, o, w2, hres⟩ := reserve_body_empty env hf w rs hr hl
    have ho : ∃ r, o = some r := by
      rcases p1 o w2 hres with ⟨h, _⟩ | ⟨h, _⟩ <;> exact ⟨_, h⟩
    obtain ⟨r, rfl⟩ := ho
    have hloop : cproxy_reserve_downstream_loop env (fuel + 1) w = .ok (r, w2) := by
      simp only [cproxy_reserve_downstream_loop, hres]
    refine ⟨fun r1 w1 h => ?_, fun _ _ => ⟨_, _, hloop⟩⟩
    rw [hloop] at h
    simp only [Except.ok.injEq, Prod.mk.injEq] at h
    obtain ⟨e1, e2⟩ := h
    subst e1 e2
    rcases p1 _ _ hres with ⟨h, hn⟩ | ⟨h, hs⟩
    · simp only [Option.some.injEq] at h
      exact Or.inr ⟨h, hn⟩
    · simp only [Option.some.injEq] at h
      exact Or.inl ⟨_, [], [], true, h, hs⟩
  | cons d rest ih =>
    intro w rs fuel hr hl hdis hfuel
    obtain ⟨fuel, rfl⟩ : ∃ f, fuel = f + 1 := ⟨fuel - 1, by omega⟩
    obtain ⟨pd, hpd⟩ := hl.live (List.mem_cons_self _ _)
    obtain ⟨dd, hd, _⟩ := get_d_of_dnext hpd
    obtain ⟨p1, p2⟩ := reserve_body_nonempty env w rs rest d dd hr hl hdis hd
    constructor
    · intro r w1 h
      simp only [cproxy_reserve_downstream_loop] at h
      cases hb : cproxy_reserve_downstream_body env w with
      | error f => simp [hb] at h
      | ok ow =>
        obtain ⟨o, wm⟩ := ow
        rcases p1 o wm hb with ⟨ho, hs⟩ | ⟨ho, hs⟩
        · subst ho
          simp only [hb, Except.ok.injEq, Prod.mk.injEq] at h
          obtain ⟨e1, e2⟩ := h
          subst e1 e2
          exact Or.inl ⟨d, [], rest, false, rfl, hs⟩
        · subst ho
          simp only [hb] at h
          obtain ⟨q1, _⟩ := ih wm rs fuel hs.reserved hs.released
            (fun a ha hm => hdis a ha (List.mem_cons_of_mem _ hm))
            (by simp only [List.length_cons] at hfuel; omega)
          rcases q1 r w1 h with ⟨d1, stale, rest1, fresh, hr1, hsome⟩ | ⟨hr1, hnone⟩
          · exact Or.inl ⟨d1, d :: stale, rest1, fresh, hr1, hsome.after_skip_some hs⟩
          · exact Or.inr ⟨hr1, hnone.after_skip_none hs⟩
    · intro hall hnum
      obtain ⟨dd0, hd0, hcl0, hor0⟩ := hall d (List.mem_cons_self _ _)
      rw [hd] at hd0
      cases hd0
      have hnum1 : 1 ≤ w.ptd.downstream_num := by
        simp only [List.length_cons, Nat.cast_add, Nat.cast_one] at hnum
        omega
      obtain ⟨o, wm, hb⟩ := p2 hcl0 (hor0.imp id fun h => ⟨h, hnum1⟩)
      rcases p1 o wm hb with ⟨ho, hs⟩ | ⟨ho, hs⟩
      · subst ho
        exact ⟨some d, wm, by simp only [cproxy_reserve_downstream_loop, hb]⟩
      · subst ho
        obtain ⟨_, q2⟩ := ih wm rs fuel hs.reserved hs.released
          (fun a ha hm => hdis a ha (List.mem_cons_of_mem _ hm))
          (by simp only [List.length_cons] at hfuel; omega)
        obtain ⟨r, w1, hl1⟩ := q2 (by
            intro a ha
            have hne : a ≠ d := by
              rintro rfl
              exact (List.nodup_cons.1 hl.nodup).1 ha
            obtain ⟨dda, hda, hcla, hora⟩ := hall a (List.mem_cons_of_mem _ ha)
            have hpay := hs.payload a hne
            rw [hda] at hpay
            cases hg : wm.get_d a with
            | none => simp [hg] at hpay
            | some dd1 =>
              obtain ⟨dd', hd', e1, e2, e3, e4⟩ := payload_some (hs.payload a hne) hg
              rw [hda] at hd'
              cases hd'
              refine ⟨dd1, rfl, e4.1 hcla, ?_⟩
              rcases hora with hv | hsl
              · left
                rw [hs.proxy]
                exact (config_valid_congr e1 e2).1 hv
              · right
                intro s hs1
                rw [← e3] at hs1
                obtain ⟨c, hc1, hc2⟩ := hsl s hs1
                exact ⟨c, hc1, by rw [hs.conns_length]; exact hc2⟩)
          (by
            obtain ⟨r1, l1, hp1⟩ := hs.ptd
            rw [hp1]
            simp only [List.length_cons, Nat.cast_add, Nat.cast_one] at hnum ⊢
            omega)
        exact ⟨r, w1, by simp only [cproxy_reserve_downstream_loop, hb]; exact hl1⟩

theorem reserve_spec (env : Env) (hf : env.frame) (w : World) (rs ls : List Nat)
    (hr : IsChain w.dnext w.ptd.downstream_reserved rs)
    (hl : IsChain w.dnext w.ptd.downstream_released ls)
    (hdis : ∀ a, a ∈ rs → a ∉ ls) :
    (∀ r w1, cproxy_reserve_downstream env w = .ok (r, w1) →
      (∃ d stale rest fresh, r = some d ∧ reserved_some w rs ls d w1 stale rest fresh) ∨
      (r = none ∧ reserved_none w rs ls w1)) ∧
    ((∀ a, a ∈ ls → ∃ dd, w.get_d a = some dd ∧ dd.scratch_clear ∧
        (config_valid w.proxy dd ∨ w.slots_connected dd)) →
      (ls.length : Int) ≤ w.ptd.downstream_num →
      ∃ r w1, cproxy_reserve_downstream env w = .ok (r, w1)) :=
  reserve_loop_spec env hf ls w rs (w.ds.length + 1) hr hl hdis
    (by have := dchain_length_le hl; omega)

/-! ## The pool invariant along pool steps -/

theorem live_of_payload {w w1 : World} {a : Nat}
    (h : (w1.get_d a).map downstream.payload = (w.get_d a).map downstream.payload)
    (h1 : w1.get_d a ≠ none) : w.get_d a ≠ none := by
  intro h2
  exact h1 ((payload_live h).2 h2)

theorem release_live (env : Env) (w : World) (d : Nat) (force : Bool) (b : Bool) (w1 : World)
    (h : cproxy_release_downstream env w d force = .ok (b, w1)) :
    ∃ dd, w.get_d d = some dd := by
  cases hd : w.get_d d with
  | none => simp [cproxy_release_downstream, hd] at h
  | some dd => exact ⟨dd, rfl⟩

theorem length_erase_mem {xs : List Nat} {d : Nat} (h : d ∈ xs) :
    (xs.erase d).length + 1 = xs.length := by
  rw [List.length_erase_of_mem h]
  have : 0 < xs.length := List.length_pos_of_mem h
  omega

theorem pool_step_inv (env : Env) (hf : env.frame) (w w1 : World) (rs ls : List Nat)
    (hwf : pool_wf w rs ls) (hnum : w.ptd.downstream_num = (rs.length + ls.length : Nat))
    (hstep : pool_step env w w1) :
    ∃ rs1 ls1, pool_wf w1 rs1 ls1 ∧
      w1.ptd.downstream_num = (rs1.length + ls1.length : Nat) ∧
      w1.ptd.downstream_max = w.ptd.downstream_max ∧
      (w.ptd.downstream_num ≤ w.ptd.downstream_max →
        w1.ptd.downstream_num ≤ w1.ptd.downstream_max) := by
  obtain ⟨hr, hl, hdis, hlive⟩ := hwf
  cases hstep with
  | add hadd =>
    obtain ⟨w2, h2, hcases⟩ := add_spec env hf w rs ls hr hl hdis
    rw [hadd] at h2
    cases h2
    rcases hcases with ⟨_, rfl⟩ | ⟨_, _, rfl⟩ | ⟨_, _, rfl⟩ | ⟨_, ha⟩
    · exact ⟨rs, ls, ⟨hr, hl, hdis, hlive⟩, hnum, rfl, id⟩
    · exact ⟨rs, ls, ⟨hr, hl, hdis, hlive⟩, hnum, rfl, id⟩
    · exact ⟨rs, ls, ⟨hr, hl, hdis, hlive⟩, hnum, rfl, id⟩
    · obtain ⟨n, hp⟩ := ha.ptd
      have hnew : ∀ {h : Option Nat} {xs : List Nat}, IsChain w.dnext h xs →
          w.ds.length ∉ xs := by
        intro h xs hc hm
        obtain ⟨p, hp⟩ := hc.live hm
        exact absurd (dnext_lt hp) (lt_irrefl _)
      refine ⟨rs, w.ds.length :: ls, ⟨ha.reserved, ha.released, ?_, ?_⟩, ?_, ?_, ?_⟩
      · intro a ha1 hm
        rcases List.mem_cons.1 hm with rfl | hm
        · exact hnew hr ha1
        · exact hdis a ha1 hm
      · intro a hal
        by_cases hla : a = w.ds.length
        · right; rw [hla]; exact List.mem_cons_self _ _
        · rcases hlive a (live_of_payload (ha.payload a hla) hal) with h | h
          · exact Or.inl h
          · exact Or.inr (List.mem_cons_of_mem _ h)
      · rw [hp]
        simp only [List.length_cons]
        rw [hnum]
        push_cast
        omega
      · rw [hp]
      · intro _
        rw [hp]
        have := ha.room
        simp only
        omega
  | reserve hres =>
    obtain ⟨p1, _⟩ := reserve_spec env hf w rs ls hr hl hdis
    rcases p1 _ _ hres with ⟨d, stale, rest, fresh, _, hs⟩ | ⟨_, hn⟩
    · obtain ⟨r, l, st, hp, _, _⟩ := hs.ptd
      have hnd := hl.nodup
      refine ⟨d :: rs, rest, ⟨hs.reserved, hs.released, ?_, ?_⟩, ?_, by rw [hp], ?_⟩
      · intro a ha hm
        rcases hs.split with ⟨_, e⟩ | ⟨_, _, e, _⟩
        · rw [e] at hnd
          rcases List.mem_cons.1 ha with rfl | ha
          · have := (List.nodup_append.1 hnd).2.1
            exact (List.nodup_cons.1 this).1 hm
          · refine hdis a ha ?_
            rw [e]
            exact List.mem_append_right _ (List.mem_cons_of_mem _ hm)
        · rw [e] at hm
          cases hm
      · intro a hal
        by_cases had : a = d
        · left; rw [had]; exact List.mem_cons_self _ _
        · have hst : a ∉ stale := fun hm => hal (hs.stale_dead a hm)
          rcases hlive a (live_of_payload (hs.payload a hst had) hal) with h | h
          · exact Or.inl (List.mem_cons_of_mem _ h)
          · rcases hs.split with ⟨_, e⟩ | ⟨_, e, _, _⟩
            · rw [e] at h
              rcases List.mem_append.1 h with h | h
              · exact absurd h hst
              · rcases List.mem_cons.1 h with h | h
                · exact absurd h had
                · exact Or.inr h
            · rw [e] at h
              exact absurd h hst
      · rw [hp]
        simp only [List.length_cons]
        rw [hnum]
        rcases hs.split with ⟨e1, e⟩ | ⟨e1, e, e2, _⟩
        · rw [e1, e]
          simp only [List.length_append, List.length_cons]
          push_cast
          simp
          try omega
        · rw [e1, e, e2]
          simp only [List.length_nil, if_true]
          push_cast
          omega
      · intro hle
        rw [hp]
        simp only
        cases hfresh : fresh with
        | true =>
          have := hs.room hfresh
          simp
          omega
        | false =>
          simp
          omega
    · obtain ⟨r, st, hp, _, _⟩ := hn.ptd
      refine ⟨rs, [], ⟨hn.reserved, (by rw [hn.released]; exact IsChain.nil),
        fun a _ hm => (by cases hm), ?_⟩, ?_, (by rw [hp]), ?_⟩
      · intro a hal
        have hst : a ∉ ls := fun hm => hal (hn.stale_dead a hm)
        rcases hlive a (live_of_payload (hn.payload a hst) hal) with h | h
        · exact Or.inl h
        · exact absurd h hst
      · rw [hp]
        simp only [List.length_nil]
        rw [hnum]
        push_cast
        omega
      · intro hle
        rw [hp]
        simp only
        rw [hnum] at hle ⊢
        push_cast at hle ⊢
        omega
  | release d force hrel =>
    rename_i b
    obtain ⟨dd, hd⟩ := release_live env w d force b w1 hrel
    obtain ⟨p1, _⟩ := release_spec env hf w d dd rs ls force hr hl hdis hd
    obtain ⟨_, ht, hfl⟩ := p1 b w1 hrel
    have hmem := hlive d (by rw [hd]; simp)
    have hndr := hr.nodup
    have hndl := hl.nodup
    have hcount : (rs.erase d).length + (ls.erase d).length + 1 = rs.length + ls.length := by
      rcases hmem with h | h
      · rw [List.erase_of_not_mem (hdis d h)]
        have := length_erase_mem h
        omega
      · have hnr : d ∉ rs := fun hm => hdis d hm h
        rw [List.erase_of_not_mem hnr]
        have := length_erase_mem h
        omega
    have hdis1 : ∀ a, a ∈ rs.erase d → a ∉ ls.erase d := fun a ha hm =>
      hdis a (List.mem_of_mem_erase ha) (List.mem_of_mem_erase hm)
    have hback : ∀ a, a ≠ d → (a ∈ rs ∨ a ∈ ls) → (a ∈ rs.erase d ∨ a ∈ ls.erase d) := by
      intro a ha h
      rcases h with h | h
      · exact Or.inl ((List.mem_erase_of_ne ha).2 h)
      · exact Or.inr ((List.mem_erase_of_ne ha).2 h)
    cases b with
    | true =>
      have hrp := ht rfl
      obtain ⟨r, n, hp⟩ := hrp.ptd
      refine ⟨rs.erase d, d :: ls.erase d, ⟨hrp.reserved, hrp.released, ?_, ?_⟩, ?_,
        by rw [hp], ?_⟩
      · intro a ha hm
        rcases List.mem_cons.1 hm with rfl | hm
        · exact ((List.Nodup.mem_erase_iff hndr).1 ha).1 rfl
        · exact hdis1 a ha hm
      · intro a hal
        by_cases had : a = d
        · right; rw [had]; exact List.mem_cons_self _ _
        · rcases hback a had (hlive a (live_of_payload (hrp.payload a had) hal)) with h | h
          · exact Or.inl h
          · exact Or.inr (List.mem_cons_of_mem _ h)
      · rw [hp]
        simp only [List.length_cons]
        rw [hnum]
        push_cast
        have : ((rs.erase d).length : Int) + (ls.erase d).length + 1 = rs.length + ls.length := by
          exact_mod_cast hcount
        omega
      · intro hle
        rw [hp]
        exact hle
    | false =>
      have hdp := hfl rfl
      obtain ⟨r, l, n, hp⟩ := hdp.ptd
      refine ⟨rs.erase d, ls.erase d, ⟨hdp.reserved, hdp.released, hdis1, ?_⟩, ?_,
        by rw [hp], ?_⟩
      · intro a hal
        have had : a ≠ d := by
          rintro rfl
          exact hal hdp.dead
        exact hback a had (hlive a (live_of_payload (hdp.payload a had) hal))
      · rw [hp]
        simp only
        rw [hnum]
        push_cast
        have : ((rs.erase d).length : Int) + (ls.erase d).length + 1 = rs.length + ls.length := by
          exact_mod_cast hcount
        omega
      · intro hle
        rw [hp]
        simp only
        omega
  | free d hfree =>
    obtain ⟨⟨dd, hd, _, _⟩, hfd⟩ := free_partial w d rs ls hr hl hdis w1 hfree
    have hmem := hlive d (by rw [hd]; simp)
    have hcount : (rs.erase d).length + (ls.erase d).length + 1 = rs.length + ls.length := by
      rcases hmem with h | h
      · rw [List.erase_of_not_mem (hdis d h)]
        have := length_erase_mem h
        omega
      · have hnr : d ∉ rs := fun hm => hdis d hm h
        rw [List.erase_of_not_mem hnr]
        have := length_erase_mem h
        omega
    obtain ⟨r, l, hp⟩ := hfd.ptd
    refine ⟨rs.erase d, ls.erase d, ⟨hfd.reserved, hfd.released, ?_, ?_⟩, ?_, by rw [hp], ?_⟩
    · exact fun a ha hm => hdis a (List.mem_of_mem_erase ha) (List.mem_of_mem_erase hm)
    · intro a hal
      have had : a ≠ d := by
        rintro rfl
        exact hal hfd.dead
      rcases hlive a (live_of_payload (hfd.payload a had) hal) with h | h
      · exact Or.inl ((List.mem_erase_of_ne had).2 h)
      · exact Or.inr ((List.mem_erase_of_ne had).2 h)
    · rw [hp]
      simp only
      rw [hnum]
      push_cast
      have : ((rs.erase d).length : Int) + (ls.erase d).length + 1 = rs.length + ls.length := by
        exact_mod_cast hcount
      omega
    · intro hle
      rw [hp]
      simp only
      omega
  | config c v b =>
    exact ⟨rs, ls, ⟨hr, hl, hdis, hlive⟩, hnum, rfl, id⟩
  | use hu =>
    obtain ⟨_, u2, u3, u4, u5, _, u7⟩ := hu
    refine ⟨rs, ls, ⟨?_, ?_, hdis, ?_⟩, by rw [u4, hnum], u5, fun h => by rw [u4, u5]; exact h⟩
    · rw [u2]; exact hr.congr fun a _ => u7 a
    · rw [u3]; exact hl.congr fun a _ => u7 a
    · intro a hal
      refine hlive a ?_
      have := u7 a
      unfold World.dnext at this
      intro hn
      rw [hn] at this
      cases hh : w1.get_d a with
      | none => exact hal hh
      | some x => simp [hh] at this

theorem pool_reachable_inv (env : Env) (hf : env.frame) (w0 w : World) (rs0 ls0 : List Nat)
    (hwf : pool_wf w0 rs0 ls0)
    (hnum : w0.ptd.downstream_num = (rs0.length + ls0.length : Nat))
    (hreach : pool_reachable env w0 w) :
    ∃ rs ls, pool_wf w rs ls ∧ w.ptd.downstream_num = (rs.length + ls.length : Nat) ∧
      w.ptd.downstream_max = w0.ptd.downstream_max ∧
      (w0.ptd.downstream_num ≤ w0.ptd.downstream_max →
        w.ptd.downstream_num ≤ w.ptd.downstream_max) := by
  induction hreach with
  | init => exact ⟨rs0, ls0, hwf, hnum, rfl, id⟩
  | step _ hs ih =>
    obtain ⟨rs, ls, h1, h2, h3, h4⟩ := ih
    obtain ⟨rs1, ls1, g1, g2, g3, g4⟩ := pool_step_inv env hf _ _ rs ls h1 h2 hs
    exact ⟨rs1, ls1, g1, g2, g3.trans h3, fun h => g4 (h4 h)⟩

theorem cproxy_create_pool (name : String) (port : Int) (config : Option String)
    (config_ver : Nat) (behavior : proxy_behavior) (w0 : World)
    (hc : cproxy_create name port config config_ver behavior = .ok w0) :
    pool_wf w0 [] [] ∧ w0.ptd.downstream_num = 0 ∧
      w0.ptd.downstream_max = behavior.downstream_max := by
  unfold cproxy_create at hc
  by_cases h1 : port ≤ 0
  · simp [h1] at hc
  · by_cases h2 : config.isNone = true
    · simp [h1, h2] at hc
    · rw [if_neg h1, if_neg h2] at hc
      simp only [Except.ok.injEq] at hc
      subst hc
      refine ⟨⟨IsChain.nil, IsChain.nil, fun a ha => (by cases ha), ?_⟩, rfl, rfl⟩
      intro a ha
      exact absurd rfl ha

/-! ## Facts about the example states -/

theorem quiet_env_frame : quiet_env.frame :=
  ⟨fun w _ => same_pool.refl_pool w, fun w _ _ => same_pool.refl_pool w⟩

theorem created_world_eq :
    cproxy_create "moxi" 11211 (some "a:11211") 1 { nthreads := 4, downstream_max := 2 } =
      .ok created_world := by
  decide

theorem add_created_world :
    cproxy_add_downstream quiet_env created_world = .ok one_released_world := by
  decide

theorem reserve_one_released_world :
    cproxy_reserve_downstream quiet_env one_released_world = .ok (some 0, one_reserved_world) := by
  decide

theorem reach_one_released : pool_reachable quiet_env created_world one_released_world :=
  pool_reachable.step pool_reachable.init (pool_step.add add_created_world)

theorem reach_one_reserved : pool_reachable quiet_env created_world one_reserved_world :=
  pool_reachable.step reach_one_released (pool_step.reserve reserve_one_released_world)

/-! ## The claims -/

/-- C1 (as amended).  In every state reachable from the state built by
`cproxy_create` through `cproxy_add_downstream`, `cproxy_reserve_downstream`,
`cproxy_release_downstream` and `cproxy_free_downstream` (and through
changes of the proxy configuration and uses of the downstreams in between),
the reserved and the released lists are proper lists, `downstream_num` is
the sum of their lengths, and `downstream_num <= downstream_max` provided
the configured cap `behavior.downstream_max` is not negative. -/
theorem pool_size_invariant (env : Env) (hf : env.frame) (name : String) (port : Int)
    (config : Option String) (config_ver : Nat) (behavior : proxy_behavior) (w0 w : World)
    (hc : cproxy_create name port config config_ver behavior = .ok w0)
    (hreach : pool_reachable env w0 w) :
    ∃ rs ls, w.reserved_list = some rs ∧ w.released_list = some ls ∧
      w.ptd.downstream_num = (rs.length + ls.length : Nat) ∧
      (0 ≤ behavior.downstream_max → w.ptd.downstream_num ≤ w.ptd.downstream_max) := by
  obtain ⟨hwf, hn0, hmax⟩ := cproxy_create_pool name port config config_ver behavior w0 hc
  obtain ⟨rs, ls, h1, h2, _, h4⟩ :=
    pool_reachable_inv env hf w0 w [] [] hwf (by rw [hn0]; rfl) hreach
  refine ⟨rs, ls, reserved_list_iff.2 h1.reserved, released_list_iff.2 h1.released, h2, ?_⟩
  intro h
  exact h4 (by rw [hn0, hmax]; exact h)

/-- Witness for C1: the state reached by one `cproxy_add_downstream` and one
`cproxy_reserve_downstream` after `cproxy_create` with a cap of 2. -/
theorem pool_size_invariant_witness :
    quiet_env.frame ∧
    cproxy_create "moxi" 11211 (some "a:11211") 1 { nthreads := 4, downstream_max := 2 } =
      .ok created_world ∧
    pool_reachable quiet_env created_world one_reserved_world ∧
    ∃ rs ls, one_reserved_world.reserved_list = some rs ∧
      one_reserved_world.released_list = some ls ∧
      one_reserved_world.ptd.downstream_num = (rs.length + ls.length : Nat) ∧
      ((0 : Int) ≤ 2 → one_reserved_world.ptd.downstream_num ≤
        one_reserved_world.ptd.downstream_max) :=
  ⟨quiet_env_frame, created_world_eq, reach_one_reserved,
    pool_size_invariant quiet_env quiet_env_frame "moxi" 11211 (some "a:11211") 1
      { nthreads := 4, downstream_max := 2 } created_world one_reserved_world
      created_world_eq reach_one_reserved⟩

/-- Counterexample to C1 as stated: `cproxy_create` with
`behavior.downstream_max = -1` builds a state, reachable in zero steps, in
which `downstream_num = 0` exceeds `downstream_max = -1`. -/
theorem pool_size_negative_cap :
    cproxy_create "moxi" 11211 (some "a:11211") 1 { nthreads := 4, downstream_max := -1 } =
      .ok negative_cap_world ∧
    pool_reachable quiet_env negative_cap_world negative_cap_world ∧
    ¬ (negative_cap_world.ptd.downstream_num ≤ negative_cap_world.ptd.downstream_max) :=
  ⟨by decide, pool_reachable.init, by decide⟩

/-- C2.  In every state reachable from the state built by `cproxy_create`
through the pool operations, every downstream that has not been freed occurs
exactly once in the reserved and released lists taken together (the
concatenation has no duplicates, so it is on one list and not on both), and
an address whose downstream has been freed occurs on neither list. -/
theorem list_membership_invariant (env : Env) (hf : env.frame) (name : String) (port : Int)
    (config : Option String) (config_ver : Nat) (behavior : proxy_behavior) (w0 w : World)
    (hc : cproxy_create name port config config_ver behavior = .ok w0)
    (hreach : pool_reachable env w0 w) :
    ∃ rs ls, w.reserved_list = some rs ∧ w.released_list = some ls ∧
      (rs ++ ls).Nodup ∧
      (∀ a, w.get_d a ≠ none → (rs ++ ls).count a = 1) ∧
      (∀ a, w.get_d a = none → a ∉ rs ∧ a ∉ ls) := by
  obtain ⟨hwf, hn0, _⟩ := cproxy_create_pool name port config config_ver behavior w0 hc
  obtain ⟨rs, ls, h1, _, _, _⟩ :=
    pool_reachable_inv env hf w0 w [] [] hwf (by rw [hn0]; rfl) hreach
  have hnd : (rs ++ ls).Nodup :=
    List.nodup_append.2 ⟨h1.reserved.nodup, h1.released.nodup, fun a ha hm => h1.disjoint a ha hm⟩
  refine ⟨rs, ls, reserved_list_iff.2 h1.reserved, released_list_iff.2 h1.released, hnd, ?_, ?_⟩
  · intro a ha
    refine List.count_eq_one_of_mem hnd ?_
    exact List.mem_append.2 (h1.live a ha)
  · intro a ha
    constructor
    · intro hm
      obtain ⟨p, hp⟩ := h1.reserved.live hm
      obtain ⟨dd, hd, _⟩ := get_d_of_dnext hp
      rw [ha] at hd
      cases hd
    · intro hm
      obtain ⟨p, hp⟩ := h1.released.live hm
      obtain ⟨dd, hd, _⟩ := get_d_of_dnext hp
      rw [ha] at hd
      cases hd

/-- Witness for C2: the state reached by one `cproxy_add_downstream` after
`cproxy_create`. -/
theorem list_membership_invariant_witness :
    quiet_env.frame ∧
    cproxy_create "moxi" 11211 (some "a:11211") 1 { nthreads := 4, downstream_max := 2 } =
      .ok created_world ∧
    pool_reachable quiet_env created_world one_released_world ∧
    ∃ rs ls, one_released_world.reserved_list = some rs ∧
      one_released_world.released_list = some ls ∧
      (rs ++ ls).Nodup ∧
      (∀ a, one_released_world.get_d a ≠ none → (rs ++ ls).count a = 1) ∧
      (∀ a, one_released_world.get_d a = none → a ∉ rs ∧ a ∉ ls) :=
  ⟨quiet_env_frame, created_world_eq, reach_one_released,
    list_membership_invariant quiet_env quiet_env_frame "moxi" 11211 (some "a:11211") 1
      { nthreads := 4, downstream_max := 2 } created_world one_released_world
      created_world_eq reach_one_released⟩

/-- C4.  `cproxy_check_downstream_config(d)` returns `true` if and only if
`d.config_ver` equals the proxy's `config_ver`, or both config strings are
non-`NULL` and equal.  When it returns `true` through the comparison of the
strings (the versions differ), the only change to the state is that
`d.config_ver` and `d.behavior` take the proxy's values; in every other case
the state is unchanged. -/
theorem check_downstream_config_spec (w : World) (d : Nat) (dd : downstream)
    (hd : w.get_d d = some dd) :
    ∃ b w1, cproxy_check_downstream_config w d = .ok (b, w1) ∧
      (b = true ↔ (dd.config_ver = w.proxy.config_ver ∨
        (dd.config ≠ none ∧ w.proxy.config ≠ none ∧ dd.config = w.proxy.config))) ∧
      (dd.config_ver ≠ w.proxy.config_ver → b = true →
        w1 = w.set_d d
          { dd with config_ver := w.proxy.config_ver, behavior := w.proxy.behavior }) ∧
      ((dd.config_ver = w.proxy.config_ver ∨ b = false) → w1 = w) := by
  obtain ⟨dd3, hck, hdd3, _⟩ := check_spec w d dd hd
  refine ⟨_, _, hck, ?_, ?_, ?_⟩
  · simp [config_valid]
  · intro hne hb
    rcases hdd3 with rfl | ⟨_, _, rfl⟩
    · exfalso
      simp only [decide_eq_true_eq] at hb
      rcases hb with h | h
      · exact hne h
      · -- the strings are equal, so the cell was rewritten
        unfold cproxy_check_downstream_config at hck
        simp only [hd, if_neg hne, if_pos h, Except.ok.injEq, Prod.mk.injEq] at hck
        have h2 := congrArg (fun x => x.get_d d) hck.2
        simp only [get_d_set_d_live w d _ dd3 hd, Option.some.injEq] at h2
        have h3 := congrArg downstream.config_ver h2
        simp only at h3
        exact hne h3.symm
    · rfl
  · intro hor
    rcases hdd3 with rfl | ⟨hv, hne, rfl⟩
    · exact set_d_self w d dd3 hd
    · rcases hor with h | h
      · exact absurd h hne
      · simp only [decide_eq_false_iff_not] at h
        exact absurd hv h

/-- Witness for C4: the released downstream of the example state. -/
theorem check_downstream_config_spec_witness :
    one_released_world.get_d 0 = some
      { config := some "a:11211", config_ver := 1,
        behavior := { nthreads := 4, downstream_max := 2 }, downstream_conns := [none] } ∧
    ∃ b w1, cproxy_check_downstream_config one_released_world 0 = .ok (b, w1) ∧
      (b = true ↔ ((1 : Nat) = one_released_world.proxy.config_ver ∨
        ((some "a:11211" : Option String) ≠ none ∧ one_released_world.proxy.config ≠ none ∧
          some "a:11211" = one_released_world.proxy.config))) ∧
      ((1 : Nat) ≠ one_released_world.proxy.config_ver → b = true →
        w1 = one_released_world.set_d 0
          { config := some "a:11211", config_ver := one_released_world.proxy.config_ver,
            behavior := one_released_world.proxy.behavior, downstream_conns := [none] }) ∧
      (((1 : Nat) = one_released_world.proxy.config_ver ∨ b = false) →
        w1 = one_released_world) :=
  ⟨by decide, check_downstream_config_spec one_released_world 0
    { config := some "a:11211", config_ver := 1,
      behavior := { nthreads := 4, downstream_max := 2 }, downstream_conns := [none] }
    (by decide)⟩

theorem check_passes_of_ver (w : World) (d : Nat) (dd : downstream)
    (hd : w.get_d d = some dd) (hv : dd.config_ver = w.proxy.config_ver) :
    cproxy_check_downstream_config w d = .ok (true, w) := by
  unfold cproxy_check_downstream_config
  simp [hd, hv]

/-- C5.  From a state whose lists are proper and disjoint: when
`cproxy_reserve_downstream` returns a downstream `d`, the released list was
`stale ++ d :: rest` (or `d` is new and the released list was `stale`), every
downstream of `stale` failed the config check and has been freed, `d` passes
the config check, is the head of the reserved list, is not on the released
list `rest`, has its scratch fields cleared, and `tot_downstream_reserved`
has grown by exactly 1; when it returns `NULL` the released list is empty
and the reserved list is unchanged.  The call returns whenever the released
downstreams satisfy the entry assertions and the stale ones have all their
socket slots connected. -/
theorem reserve_downstream_spec (env : Env) (hf : env.frame) (w : World) (rs ls : List Nat)
    (hr : w.reserved_list = some rs) (hl : w.released_list = some ls)
    (hdis : ∀ a, a ∈ rs → a ∉ ls) :
    (∀ r w1, cproxy_reserve_downstream env w = .ok (r, w1) →
      (∀ d, r = some d → ∃ stale rest dd1,
        (ls = stale ++ d :: rest ∨ (ls = stale ∧ rest = [] ∧ w.get_d d = none)) ∧
        (∀ a, a ∈ stale →
          (∃ dd, w.get_d a = some dd ∧ ¬ config_valid w.proxy dd) ∧ w1.get_d a = none) ∧
        (∀ dd, w.get_d d = some dd → config_valid w.proxy dd) ∧
        w1.get_d d = some dd1 ∧ dd1.config_ver = w1.proxy.config_ver ∧
        cproxy_check_downstream_config w1 d = .ok (true, w1) ∧
        dd1.scratch_clear ∧
        w1.ptd.downstream_reserved = some d ∧ w1.reserved_list = some (d :: rs) ∧
        w1.released_list = some rest ∧ d ∉ rest ∧
        w1.ptd.stats.tot_downstream_reserved = w.ptd.stats.tot_downstream_reserved + 1) ∧
      (r = none → w1.released_list = some [] ∧ w1.reserved_list = some rs ∧
        (∀ a, a ∈ ls → w1.get_d a = none) ∧
        w1.ptd.stats.tot_downstream_reserved = w.ptd.stats.tot_downstream_reserved)) ∧
    ((∀ a, a ∈ ls → ∃ dd, w.get_d a = some dd ∧ dd.scratch_clear ∧
        (config_valid w.proxy dd ∨ w.slots_connected dd)) →
      (ls.length : Int) ≤ w.ptd.downstream_num →
      ∃ r w1, cproxy_reserve_downstream env w = .ok (r, w1)) := by
  have hr1 := reserved_list_iff.1 hr
  have hl1 := released_list_iff.1 hl
  obtain ⟨p1, p2⟩ := reserve_spec env hf w rs ls hr1 hl1 hdis
  refine ⟨fun r w1 h => ⟨?_, ?_⟩, p2⟩
  · intro d hrd
    rcases p1 r w1 h with ⟨d1, stale, rest, fresh, hr2, hs⟩ | ⟨hr2, _⟩
    swap
    · rw [hr2] at hrd; cases hrd
    rw [hr2] at hrd
    cases hrd
    obtain ⟨dd1, hc1, hc2, hc3, hc4, hc5⟩ := hs.cell
    obtain ⟨r0, l0, st, hp, hst, _⟩ := hs.ptd
    have hver : dd1.config_ver = w1.proxy.config_ver := by rw [hc3, hs.proxy]
    refine ⟨stale, rest, dd1, ?_, fun a ha => ⟨hs.stale_invalid a ha, hs.stale_dead a ha⟩, ?_,
      hc1, hver, check_passes_of_ver w1 d dd1 hc1 hver, hc2, hs.reserved.head_eq,
      reserved_list_iff.2 hs.reserved, released_list_iff.2 hs.released, ?_, ?_⟩
    · rcases hs.split with ⟨_, e⟩ | ⟨_, e1, e2, e3⟩
      · exact Or.inl e
      · refine Or.inr ⟨e1, e2, ?_⟩
        rw [e3]
        unfold World.get_d
        rw [List.getElem?_eq_none (le_refl _)]; rfl
    · intro dd hdd
      cases hfresh : fresh with
      | false =>
        obtain ⟨dd0, h0, hv0, _⟩ := hc5 hfresh
        rw [hdd] at h0
        cases h0
        exact hv0
      | true =>
        rcases hs.split with ⟨e, _⟩ | ⟨_, _, _, e3⟩
        · rw [hfresh] at e; cases e
        · have := lt_of_get_d hdd
          omega
    · rcases hs.split with ⟨_, e⟩ | ⟨_, _, e2, _⟩
      · have hnd := hl1.nodup
        rw [e] at hnd
        exact (List.nodup_cons.1 (List.nodup_append.1 hnd).2.1).1
      · rw [e2]; exact List.not_mem_nil _
    · rw [hp]; exact hst
  · intro hrn
    rcases p1 r w1 h with ⟨d1, stale, rest, fresh, hr2, _⟩ | ⟨_, hn⟩
    · rw [hr2] at hrn; cases hrn
    obtain ⟨r0, st, hp, hst, _⟩ := hn.ptd
    refine ⟨released_list_iff.2 (by rw [hn.released]; exact IsChain.nil),
      reserved_list_iff.2 hn.reserved, hn.stale_dead, ?_⟩
    rw [hp]; exact hst

/-- Witness for C5: reserving from the example state with one released
downstream. -/
theorem reserve_downstream_spec_witness :
    quiet_env.frame ∧ one_released_world.reserved_list = some [] ∧
    one_released_world.released_list = some [0] ∧
    (∀ a, a ∈ ([] : List Nat) → a ∉ [0]) ∧
    cproxy_reserve_downstream quiet_env one_released_world = .ok (some 0, one_reserved_world) ∧
    ∃ stale rest dd1,
      ([0] = stale ++ 0 :: rest ∨ ([0] = stale ∧ rest = [] ∧ one_released_world.get_d 0 = none)) ∧
      (∀ a, a ∈ stale →
        (∃ dd, one_released_world.get_d a = some dd ∧
          ¬ config_valid one_released_world.proxy dd) ∧ one_reserved_world.get_d a = none) ∧
      (∀ dd, one_released_world.get_d 0 = some dd → config_valid one_released_world.proxy dd) ∧
      one_reserved_world.get_d 0 = some dd1 ∧
      dd1.config_ver = one_reserved_world.proxy.config_ver ∧
      cproxy_check_downstream_config one_reserved_world 0 = .ok (true, one_reserved_world) ∧
      dd1.scratch_clear ∧
      one_reserved_world.ptd.downstream_reserved = some 0 ∧
      one_reserved_world.reserved_list = some [0] ∧
      one_reserved_world.released_list = some rest ∧ 0 ∉ rest ∧
      one_reserved_world.ptd.stats.tot_downstream_reserved =
        one_released_world.ptd.stats.tot_downstream_reserved + 1 :=
  ⟨quiet_env_frame, by decide, by decide, fun _ h => (by cases h), reserve_one_released_world,
    ((reserve_downstream_spec quiet_env quiet_env_frame one_released_world [] [0]
      (by decide) (by decide) (fun _ h => (by cases h))).1 (some 0) one_reserved_world
      reserve_one_released_world).1 0 rfl⟩

/-- C6 (failing input).  In `stale_reserved_world` the downstream at address
0 is reserved, its config is stale and its only socket slot is `NULL`;
`cproxy_release_downstream(d, false)` does not return `false`: the loop of
`cproxy_free_downstream` that clears `downstream_conns[i]->extra`
dereferences the `NULL` slot. -/
theorem release_stale_null_slot_faults :
    stale_reserved_world.reserved_list = some [0] ∧
    stale_reserved_world.get_d 0 = some
      { config := some "a:11211", config_ver := 1,
        behavior := { nthreads := 4, downstream_max := 2 }, downstream_conns := [none] } ∧
    cproxy_release_downstream quiet_env stale_reserved_world 0 false =
      .error Fault.null_deref := by
  decide

theorem set_ptd_self (w : World) : w.set_ptd w.ptd = w := by
  cases w; rfl

theorem release_scratch_eq {dd : downstream} (h : dd.scratch_clear) :
    ({ dd with
      timeout_tv := { tv_sec := 0, tv_usec := 0 }
      upstream_conn := none
      upstream_suffix := none
      downstream_used := 0
      downstream_used_start := 0
      multiget := none
      merger := none } : downstream) = dd :=
  scratch_clear_eq h

theorem release_idle_twice (env : Env) (w1 : World) (d : Nat) (dd1 : downstream)
    (rs1 ls1 : List Nat)
    (hr : IsChain w1.dnext w1.ptd.downstream_reserved rs1)
    (hl : IsChain w1.dnext w1.ptd.downstream_released (d :: ls1))
    (hdr : d ∉ rs1) (hd : w1.get_d d = some dd1) (hclear : dd1.scratch_clear)
    (hver : config_valid w1.proxy dd1 → dd1.config_ver = w1.proxy.config_ver) :
    cproxy_release_downstream env w1 d true = .ok (true, w1.set_stats
      { w1.ptd.stats with
        tot_downstream_released := w1.ptd.stats.tot_downstream_released + 1 }) := by
  obtain ⟨w0, hw0⟩ : ∃ w0 : World, w0 = w1.set_stats
      { w1.ptd.stats with
        tot_downstream_released := w1.ptd.stats.tot_downstream_released + 1 } := ⟨_, rfl⟩
  have hd0 : w0.get_d d = some dd1 := by rw [hw0]; exact hd
  have hdl : cproxy_release_downstream_delink env d (w0.conns.length + 1) w0 = .ok w0 := by
    unfold cproxy_release_downstream_delink
    simp only [hd0, hclear.1]
  obtain ⟨dd3, hck, hdd3, _⟩ := check_spec w0 d dd1 hd0
  have hdd3e : dd3 = dd1 := by
    rcases hdd3 with h | ⟨hv, hne, _⟩
    · exact h
    · exact absurd (hver (by rw [hw0] at hv; exact hv)) (by rw [hw0] at hne; exact hne)
  subst hdd3e
  rw [set_d_self w0 d dd3 hd0] at hck
  have hr0 : IsChain w0.dnext w0.ptd.downstream_reserved rs1 := by rw [hw0]; exact hr
  obtain ⟨r, wa, h1, _, hsame, _⟩ :=
    downstream_list_remove_spec w0 w0.ptd.downstream_reserved d rs1 hr0
  obtain ⟨e1, e2⟩ := hsame hdr
  rw [e1] at h1
  have hhead : w0.ptd.downstream_released = some d := by rw [hw0]; exact hl.head_eq
  have h5 : w0.set_ptd { w0.ptd with downstream_reserved := r } = w0 := by
    rw [e2]
    exact set_ptd_self w0
  have h2 : downstream_list_remove w0 w0.ptd.downstream_released d = .ok (dd3.next, w0) := by
    rw [hhead]
    exact downstream_list_remove_head w0 d dd3 hd0
  have hfin : ((w0.set_ptd { w0.ptd with downstream_released := dd3.next }).set_d d
      { dd3 with next := dd3.next }).set_ptd
        { w0.ptd with downstream_released := some d } = w0 := by
    have hcell : ({ dd3 with next := dd3.next } : downstream) = dd3 := by cases dd3; rfl
    rw [hcell]
    have hp : ({ w0.ptd with downstream_released := some d } : proxy_td) = w0.ptd := by
      rw [← hhead]
    rw [hp]
    have hs := set_d_self (w0.set_ptd { w0.ptd with downstream_released := dd3.next }) d dd3
      (by rw [get_d_set_ptd]; exact hd0)
    rw [hs]
    cases w0; rfl
  unfold cproxy_release_downstream
  simp only [hd, bind, Except.bind]
  rw [← hw0, hdl]
  simp only [hd0, release_scratch_eq hclear, set_d_self w0 d dd3 hd0, hck, Bool.or_true,
    if_true, h1, h5, h2, get_d_set_ptd, ptd_set_ptd]
  exact congrArg (fun x => Except.ok (true, x)) hfin

/-- C7 (as amended).  For a downstream `d` with no attached upstream, in a
state whose lists are proper and disjoint, `cproxy_release_downstream(d,
true)` returns `true`, and calling it a second time returns `true` and
leaves the state exactly as the first call left it, except for the counter
`tot_downstream_released`, which counts both calls. -/
theorem release_twice_same_but_counter (env : Env) (hf : env.frame) (w : World) (d : Nat)
    (dd : downstream) (rs ls : List Nat)
    (hr : w.reserved_list = some rs) (hl : w.released_list = some ls)
    (hdis : ∀ a, a ∈ rs → a ∉ ls) (hd : w.get_d d = some dd)
    (hu : dd.upstream_conn = none) :
    ∃ w1, cproxy_release_downstream env w d true = .ok (true, w1) ∧
      cproxy_release_downstream env w1 d true = .ok (true, w1.set_stats
        { w1.ptd.stats with
          tot_downstream_released := w1.ptd.stats.tot_downstream_released + 1 }) := by
  have hr1 := reserved_list_iff.1 hr
  have hl1 := released_list_iff.1 hl
  obtain ⟨p1, p2⟩ := release_spec env hf w d dd rs ls true hr1 hl1 hdis hd
  obtain ⟨b, w1, h⟩ := p2 [] (by rw [hu]; exact IsChain.nil) (Or.inr (Or.inl rfl))
  obtain ⟨hb, ht, _⟩ := p1 b w1 h
  simp only [Bool.or_true] at hb
  subst hb
  have hrp := ht rfl
  obtain ⟨dd1, hc1, hc2, hc3, _, hc5, hc6⟩ := hrp.cell
  refine ⟨w1, h, release_idle_twice env w1 d dd1 (rs.erase d) (ls.erase d) hrp.reserved
    hrp.released (fun hm => ((List.Nodup.mem_erase_iff hr1.nodup).1 hm).1 rfl) hc1 hc2 ?_⟩
  intro hv
  rw [hrp.proxy] at hv ⊢
  by_cases hv0 : config_valid w.proxy dd
  · exact hc5 hv0
  · exact absurd ((config_valid_congr hc3 (hc6 hv0)).1 hv) hv0

/-- Witness for C7: the reserved downstream of the example state, which has
no attached upstream. -/
theorem release_twice_same_but_counter_witness :
    quiet_env.frame ∧ one_reserved_world.reserved_list = some [0] ∧
    one_reserved_world.released_list = some [] ∧
    (∀ a, a ∈ [0] → a ∉ ([] : List Nat)) ∧
    one_reserved_world.get_d 0 = some
      { config := some "a:11211", config_ver := 1,
        behavior := { nthreads := 4, downstream_max := 2 }, downstream_conns := [none] } ∧
    ∃ w1, cproxy_release_downstream quiet_env one_reserved_world 0 true = .ok (true, w1) ∧
      cproxy_release_downstream quiet_env w1 0 true = .ok (true, w1.set_stats
        { w1.ptd.stats with
          tot_downstream_released := w1.ptd.stats.tot_downstream_released + 1 }) :=
  ⟨quiet_env_frame, by decide, by decide, fun _ _ h => (by cases h), by decide,
    release_twice_same_but_counter quiet_env quiet_env_frame one_reserved_world 0
      { config := some "a:11211", config_ver := 1,
        behavior := { nthreads := 4, downstream_max := 2 }, downstream_conns := [none] }
      [0] [] (by decide) (by decide) (fun _ _ h => (by cases h)) (by decide) rfl⟩

/-- Counterexample to C7 as stated: for the reserved downstream of the
example state, which has no attached upstream, the state after two calls of
`cproxy_release_downstream(d, true)` differs from the state after one call:
`tot_downstream_released` is 3 instead of 2. -/
theorem release_twice_counts_twice :
    (one_reserved_world.get_d 0).map (fun dd => dd.upstream_conn) = some none ∧
    (cproxy_release_downstream quiet_env one_reserved_world 0 true).map
      (fun r => r.2.ptd.stats.tot_downstream_released) = .ok 2 ∧
    ((cproxy_release_downstream quiet_env one_reserved_world 0 true).bind
      (fun r => cproxy_release_downstream quiet_env r.2 0 true)).map
      (fun r => r.2.ptd.stats.tot_downstream_released) = .ok 3 ∧
    (cproxy_release_downstream quiet_env one_reserved_world 0 true).bind
      (fun r => cproxy_release_downstream quiet_env r.2 0 true) ≠
      cproxy_release_downstream quiet_env one_reserved_world 0 true := by
  decide

/-- C8.  If every pooled (released) downstream has a `config_ver` below the
proxy's and a config string different from the proxy's, then whenever
`cproxy_reserve_downstream` returns a downstream, that downstream's
`config_ver` equals the proxy's `config_ver` and its config string equals
the proxy's config.  The call returns whenever the pooled downstreams
satisfy the entry assertions and have all their socket slots connected. -/
theorem reserve_after_config_change (env : Env) (hf : env.frame) (w : World)
    (rs ls : List Nat) (hr : w.reserved_list = some rs) (hl : w.released_list = some ls)
    (hdis : ∀ a, a ∈ rs → a ∉ ls)
    (hstale : ∀ a, a ∈ ls → ∀ dd, w.get_d a = some dd →
      dd.config_ver < w.proxy.config_ver ∧ dd.config ≠ w.proxy.config) :
    (∀ d w1, cproxy_reserve_downstream env w = .ok (some d, w1) →
      w1.proxy = w.proxy ∧
      ∃ dd1, w1.get_d d = some dd1 ∧ dd1.config_ver = w1.proxy.config_ver ∧
        dd1.config = w1.proxy.config) ∧
    ((∀ a, a ∈ ls → ∃ dd, w.get_d a = some dd ∧ dd.scratch_clear ∧ w.slots_connected dd) →
      (ls.length : Int) ≤ w.ptd.downstream_num →
      ∃ r w1, cproxy_reserve_downstream env w = .ok (r, w1)) := by
  have hr1 := reserved_list_iff.1 hr
  have hl1 := released_list_iff.1 hl
  obtain ⟨p1, p2⟩ := reserve_spec env hf w rs ls hr1 hl1 hdis
  constructor
  · intro d w1 h
    rcases p1 _ _ h with ⟨d1, stale, rest, fresh, hr2, hs⟩ | ⟨hr2, _⟩
    swap
    · cases hr2
    cases hr2
    obtain ⟨dd1, hc1, _, hc3, hc4, hc5⟩ := hs.cell
    refine ⟨hs.proxy, dd1, hc1, by rw [hc3, hs.proxy], ?_⟩
    cases hfresh : fresh with
    | true => rw [(hc4 hfresh).1, hs.proxy]
    | false =>
      exfalso
      obtain ⟨dd0, h0, hv0, _⟩ := hc5 hfresh
      have hmem : d ∈ ls := by
        rcases hs.split with ⟨_, e⟩ | ⟨e, _⟩
        · rw [e]; exact List.mem_append_right _ (List.mem_cons_self _ _)
        · rw [hfresh] at e; cases e
      obtain ⟨hlt, hne⟩ := hstale d hmem dd0 h0
      rcases hv0 with hv | ⟨_, _, hv⟩
      · omega
      · exact hne hv
  · intro hall hnum
    exact p2 (fun a ha => by
      obtain ⟨dd, h1, h2, h3⟩ := hall a ha
      exact ⟨dd, h1, h2, Or.inr h3⟩) hnum

/-- Witness for C8: a pool holding one connected downstream of version 1
while the proxy has moved to version 2 and another server list; the reserve
frees it and returns a new downstream at address 1. -/
theorem reserve_after_config_change_witness :
    quiet_env.frame ∧ stale_pooled_world.reserved_list = some [] ∧
    stale_pooled_world.released_list = some [0] ∧
    (cproxy_reserve_downstream quiet_env stale_pooled_world).map (fun r => r.1) =
      .ok (some 1) ∧
    ∃ r w1, cproxy_reserve_downstream quiet_env stale_pooled_world = .ok (r, w1) :=
  ⟨quiet_env_frame, by decide, by decide, by decide,
    (reserve_after_config_change quiet_env quiet_env_frame stale_pooled_world [] [0]
      (by decide) (by decide) (fun _ h => (by cases h))
      (by
        intro a ha dd h
        simp only [List.mem_singleton] at ha
        subst ha
        have h0 : stale_pooled_world.get_d 0 = some
            { config := some "a:11211", config_ver := 1,
              behavior := { nthreads := 4, downstream_max := 2 },
              downstream_conns := [some 0] } := by decide
        rw [h0] at h
        cases h
        decide)).2
      (by
        intro a ha
        simp only [List.mem_singleton] at ha
        subst ha
        refine ⟨({ config := some "a:11211", config_ver := 1,
                   behavior := { nthreads := 4, downstream_max := 2 },
                   downstream_conns := [some 0] } : downstream), (by decide), (by decide), ?_⟩
        intro s hs
        simp only [List.mem_singleton] at hs
        subst hs
        exact ⟨0, rfl, by decide⟩)
      (by decide)⟩

/-- C9.  From a state whose lists are proper and disjoint,
`cproxy_add_downstream` returns, and: if `downstream_num >= downstream_max`
the only change is `tot_downstream_max_reached + 1`; if there is room and
the proxy's config is `NULL` the state is unchanged; if there is room and
`cproxy_create_downstream` fails the only change is
`tot_downstream_create_failed + 1`; and if the creation succeeds
`downstream_num` and `downstream_tot` each grow by 1 and the new downstream
is the head of the released list, in front of the old released list. -/
theorem add_downstream_cases (env : Env) (hf : env.frame) (w : World) (rs ls : List Nat)
    (hr : w.reserved_list = some rs) (hl : w.released_list = some ls)
    (hdis : ∀ a, a ∈ rs → a ∉ ls) :
    ∃ w1, cproxy_add_downstream env w = .ok w1 ∧
      (w.ptd.downstream_max ≤ w.ptd.downstream_num →
        w1 = w.set_stats { w.ptd.stats with
          tot_downstream_max_reached := w.ptd.stats.tot_downstream_max_reached + 1 }) ∧
      (w.ptd.downstream_num < w.ptd.downstream_max → w.proxy.config = none → w1 = w) ∧
      (w.ptd.downstream_num < w.ptd.downstream_max → ∀ config, w.proxy.config = some config →
        (cproxy_create_downstream env w config w.proxy.config_ver w.proxy.behavior).1 = none →
        w1 = w.set_stats { w.ptd.stats with
          tot_downstream_create_failed := w.ptd.stats.tot_downstream_create_failed + 1 }) ∧
      (w.ptd.downstream_num < w.ptd.downstream_max → ∀ config, w.proxy.config = some config →
        ∀ d, (cproxy_create_downstream env w config w.proxy.config_ver w.proxy.behavior).1 =
          some d →
        w1.ptd.downstream_num = w.ptd.downstream_num + 1 ∧
        w1.ptd.downstream_tot = w.ptd.downstream_tot + 1 ∧
        w1.ptd.downstream_released = some d ∧
        w1.released_list = some (d :: ls) ∧ w1.reserved_list = some rs ∧
        w.get_d d = none ∧ w1.get_d d ≠ none) := by
  have hr1 := reserved_list_iff.1 hr
  have hl1 := released_list_iff.1 hl
  obtain ⟨w1, hadd, hcases⟩ := add_spec env hf w rs ls hr1 hl1 hdis
  refine ⟨w1, hadd, ?_, ?_, ?_, ?_⟩
  · intro hfull
    rcases hcases with ⟨_, h⟩ | ⟨h, _⟩ | ⟨h, _⟩ | ⟨_, h⟩
    · exact h
    · omega
    · omega
    · have := h.room; omega
  · intro hroom hnull
    rcases hcases with ⟨h, _⟩ | ⟨_, _, h⟩ | ⟨_, ⟨c, hc, _⟩, _⟩ | ⟨⟨c, hc, _⟩, _⟩
    · exact absurd hroom h
    · exact h
    · rw [hnull] at hc; cases hc
    · rw [hnull] at hc; cases hc
  · intro hroom config hcfg hfail
    rcases hcases with ⟨h, _⟩ | ⟨_, h, _⟩ | ⟨_, _, h⟩ | ⟨⟨c, hc, hne⟩, _⟩
    · exact absurd hroom h
    · rw [hcfg] at h; cases h
    · exact h
    · rw [hcfg] at hc
      cases hc
      exact absurd hfail hne
  · intro hroom config hcfg d hok
    rcases hcases with ⟨h, _⟩ | ⟨_, h, _⟩ | ⟨_, ⟨c, hc, hnone⟩, _⟩ | ⟨_, h⟩
    · exact absurd hroom h
    · rw [hcfg] at h; cases h
    · rw [hcfg] at hc
      cases hc
      rw [hnone] at hok
      cases hok
    · have hdlen : d = w.ds.length := by
        rcases create_spec env w config w.proxy.config_ver w.proxy.behavior with hc | ⟨n, hc⟩
        · rw [hc] at hok; cases hok
        · rw [hc] at hok
          simp only [Option.some.injEq] at hok
          exact hok.symm
      subst hdlen
      obtain ⟨n, hp⟩ := h.ptd
      obtain ⟨dd1, _, hc1, _⟩ := h.cell
      refine ⟨by rw [hp], by rw [hp], by rw [hp], released_list_iff.2 h.released,
        reserved_list_iff.2 h.reserved, ?_, by rw [hc1]; simp⟩
      unfold World.get_d
      rw [List.getElem?_eq_none (le_refl _)]; rfl

/-- Witness for C9: the first `cproxy_add_downstream` after `cproxy_create`. -/
theorem add_downstream_cases_witness :
    quiet_env.frame ∧ created_world.reserved_list = some [] ∧
    created_world.released_list = some [] ∧
    cproxy_add_downstream quiet_env created_world = .ok one_released_world ∧
    ∃ w1, cproxy_add_downstream quiet_env created_world = .ok w1 ∧
      (created_world.ptd.downstream_num < created_world.ptd.downstream_max →
        ∀ config, created_world.proxy.config = some config →
        ∀ d, (cproxy_create_downstream quiet_env created_world config
          created_world.proxy.config_ver created_world.proxy.behavior).1 = some d →
        w1.ptd.downstream_num = created_world.ptd.downstream_num + 1 ∧
        w1.ptd.downstream_tot = created_world.ptd.downstream_tot + 1 ∧
        w1.ptd.downstream_released = some d ∧
        w1.released_list = some (d :: []) ∧ w1.reserved_list = some [] ∧
        created_world.get_d d = none ∧ w1.get_d d ≠ none) :=
  ⟨quiet_env_frame, by decide, by decide, add_created_world,
    (add_downstream_cases quiet_env quiet_env_frame created_world [] []
      (by decide) (by decide) (fun _ h => (by cases h))).imp
      fun _ h => ⟨h.1, h.2.2.2.2⟩⟩

/-! ## `cproxy_assign_downstream` -/

theorem pool_lists_congr {w w1 : World} (h : pool_lists w)
    (h1 : w1.ptd.downstream_reserved = w.ptd.downstream_reserved)
    (h2 : w1.ptd.downstream_released = w.ptd.downstream_released)
    (h3 : ∀ a, w1.dnext a = w.dnext a) : pool_lists w1 := by
  obtain ⟨rs, ls, hr, hl, hdis⟩ := h
  exact ⟨rs, ls, by rw [h1]; exact hr.congr fun a _ => h3 a,
    by rw [h2]; exact hl.congr fun a _ => h3 a, hdis⟩

theorem get_c_of_cnext {w : World} {a : Nat} {p : Option Nat} (h : w.cnext a = some p) :
    ∃ cc, w.get_c a = some cc ∧ cc.next = p := by
  unfold World.cnext at h
  cases hg : w.get_c a with
  | none => simp [hg] at h
  | some cc => simp [hg] at h; exact ⟨cc, rfl, h⟩

theorem cnext_set_c (w : World) (c a : Nat) (v cc : conn) (hc : w.get_c c = some cc) :
    (w.set_c c v).cnext a = if c = a then some v.next else w.cnext a := by
  unfold World.cnext
  by_cases h : c = a
  · subst h
    rw [get_c_set_c_same w c v (lt_of_get_c hc)]
    simp
  · rw [get_c_set_c_ne _ _ _ _ h]
    simp [h]

theorem IsChain.snoc {nxt nxt1 : Nat → Option (Option Nat)} {l h : Nat} :
    ∀ {start : Option Nat} {xs : List Nat}, IsChain nxt start (xs ++ [l]) →
      (∀ a, a ∈ xs → nxt1 a = nxt a) → nxt1 l = some (some h) → nxt1 h = some none →
      IsChain nxt1 start (xs ++ [l] ++ [h]) := by
  intro start xs
  induction xs generalizing start with
  | nil =>
    intro hc _ hl hh
    have := hc.head_eq
    subst this
    exact IsChain.cons hl (IsChain.cons hh IsChain.nil)
  | cons x xs ih =>
    intro hc hoff hl hh
    have := hc.head_eq
    subst this
    obtain ⟨p, hp, hrest⟩ := hc.tail
    refine IsChain.cons ?_ (ih hrest (fun a ha => hoff a (List.mem_cons_of_mem _ ha)) hl hh)
    rw [hoff x (List.mem_cons_self _ _)]
    exact hp

theorem is_compatible_true {w : World} {e : Nat} {c : Option Nat}
    (h : is_compatible_request w e c = .ok true) : ∃ cand, c = some cand := by
  cases c with
  | some cand => exact ⟨cand, rfl⟩
  | none =>
    exfalso
    unfold is_compatible_request at h
    cases he : w.get_c e with
    | none => simp [he] at h
    | some ex =>
      simp only [he] at h
      by_cases hs : ex.state ≠ conn_state.conn_pause
      · simp [hs] at h
      · simp [hs] at h

theorem wait_queue_advance_spec (w : World) (h : Nat) (hc : conn)
    (hh : w.ptd.waiting_any_downstream_head = some h) (hg : w.get_c h = some hc) :
    ∃ w1, wait_queue_advance w = .ok w1 ∧ w1.proxy = w.proxy ∧ w1.ds = w.ds ∧
      w1.conns = w.conns ∧ w1.ptd.waiting_any_downstream_head = hc.next ∧
      w1.ptd.downstream_reserved = w.ptd.downstream_reserved ∧
      w1.ptd.downstream_released = w.ptd.downstream_released := by
  unfold wait_queue_advance
  simp only [hh, hg]
  by_cases hn : hc.next = none
  · simp only [ptd_set_ptd, hn, if_true]
    exact ⟨_, rfl, rfl, rfl, rfl, rfl, rfl, rfl⟩
  · simp only [ptd_set_ptd, hn, if_false]
    exact ⟨_, rfl, rfl, rfl, rfl, rfl, rfl, rfl⟩

theorem squash_spec :
    ∀ (fuel : Nat) (w : World) (uc_last : Nat) (start : Option Nat) (pre q : List Nat)
      (w1 : World),
      IsChain w.cnext start (pre ++ [uc_last]) →
      IsChain w.cnext w.ptd.waiting_any_downstream_head q →
      (∀ a, a ∈ pre ++ [uc_last] → a ∉ q) →
      cproxy_assign_downstream_squash fuel w uc_last = .ok w1 →
      ∃ moved q1, q = moved ++ q1 ∧ IsChain w1.cnext start (pre ++ [uc_last] ++ moved) ∧
        IsChain w1.cnext w1.ptd.waiting_any_downstream_head q1 ∧
        (∀ a, a ∈ pre ++ [uc_last] ++ moved → a ∉ q1) ∧
        w1.proxy = w.proxy ∧ w1.ds = w.ds ∧ w1.conns.length = w.conns.length ∧
        w1.ptd.downstream_reserved = w.ptd.downstream_reserved ∧
        w1.ptd.downstream_released = w.ptd.downstream_released := by
  intro fuel
  induction fuel with
  | zero =>
    intro w uc_last start pre q w1 hb hq hdis h
    rw [cproxy_assign_downstream_squash] at h
    cases hcomp : is_compatible_request w uc_last w.ptd.waiting_any_downstream_head with
    | error f => simp [hcomp] at h
    | ok b =>
      cases b with
      | true => simp [hcomp] at h
      | false =>
        simp only [hcomp, Except.ok.injEq] at h
        subst h
        exact ⟨[], q, rfl, by simpa using hb, hq, by simpa using hdis, rfl, rfl, rfl, rfl, rfl⟩
  | succ fuel ih =>
    intro w uc_last start pre q w1 hb hq hdis h
    rw [cproxy_assign_downstream_squash] at h
    cases hcomp : is_compatible_request w uc_last w.ptd.waiting_any_downstream_head with
    | error f => simp [hcomp] at h
    | ok b =>
      cases b with
      | false =>
        simp only [hcomp, Except.ok.injEq] at h
        subst h
        exact ⟨[], q, rfl, by simpa using hb, hq, by simpa using hdis, rfl, rfl, rfl, rfl, rfl⟩
      | true =>
        simp only [hcomp] at h
        obtain ⟨hd0, hhead⟩ := is_compatible_true hcomp
        rw [hhead] at hq
        obtain ⟨q', rfl⟩ : ∃ q', q = hd0 :: q' := by
          cases hq with
          | cons _ hr => exact ⟨_, rfl⟩
        obtain ⟨p, hp, hrest⟩ := hq.tail
        obtain ⟨hc, hgc, hcn⟩ := get_c_of_cnext hp
        have hnd := hq.nodup
        have hlast_mem : uc_last ∈ pre ++ [uc_last] := by simp
        have hne : uc_last ≠ hd0 := by
          rintro rfl
          exact hdis _ hlast_mem (List.mem_cons_self _ _)
        obtain ⟨pl, hpl⟩ := hb.live hlast_mem
        obtain ⟨lc, hgl, _⟩ := get_c_of_cnext hpl
        simp only [hgl, hhead] at h
        -- the state after `uc_last->next = head`
        obtain ⟨wa, hwa⟩ : ∃ wa : World, wa = w.set_c uc_last { lc with next := some hd0 } :=
          ⟨_, rfl⟩
        rw [← hwa] at h
        have hga : wa.get_c hd0 = some hc := by
          rw [hwa, get_c_set_c_ne _ _ _ _ hne]; exact hgc
        have hha : wa.ptd.waiting_any_downstream_head = some hd0 := by rw [hwa]; exact hhead
        obtain ⟨wb, hadv, b1, b2, b3, b4, b5, b6⟩ := wait_queue_advance_spec wa hd0 hc hha hga
        simp only [hadv] at h
        have hgbl : wb.get_c uc_last = some { lc with next := some hd0 } := by
          unfold World.get_c
          rw [b3, hwa]
          exact get_c_set_c_same w uc_last _ (lt_of_get_c hgl)
        have hgbh : wb.get_c hd0 = some hc := by
          unfold World.get_c
          rw [b3]
          exact hga
        simp only [hgbl, hgbh] at h
        obtain ⟨wc, hwc⟩ : ∃ wc : World, wc =
            (wb.set_c hd0 { hc with next := none }).set_stats
              { (wb.set_c hd0 { hc with next := none }).ptd.stats with
                tot_assign_upstream :=
                  (wb.set_c hd0 { hc with next := none }).ptd.stats.tot_assign_upstream + 1 } :=
          ⟨_, rfl⟩
        rw [← hwc] at h
        -- links of the new state
        have hcn_c : ∀ a, wc.cnext a =
            if hd0 = a then some none else if uc_last = a then some (some hd0)
            else w.cnext a := by
          intro a
          have e1 : wc.cnext a = (wb.set_c hd0 { hc with next := none }).cnext a := by
            rw [hwc]; rfl
          rw [e1, cnext_set_c wb hd0 a _ hc hgbh]
          by_cases h1 : hd0 = a
          · simp [h1]
          · simp only [h1, if_false]
            have e2 : wb.cnext a = wa.cnext a := by
              unfold World.cnext World.get_c; rw [b3]
            rw [e2, hwa, cnext_set_c w uc_last a _ lc hgl]
        have hb1 : IsChain wc.cnext start (pre ++ [uc_last] ++ [hd0]) := by
          refine hb.snoc (fun a ha => ?_) ?_ ?_
          · rw [hcn_c a]
            have h1 : hd0 ≠ a := by
              rintro rfl
              exact hdis _ (List.mem_append_left _ ha) (List.mem_cons_self _ _)
            have h2 : uc_last ≠ a := by
              rintro rfl
              have := hb.nodup
              rw [List.nodup_append] at this
              exact this.2.2 ha (List.mem_singleton_self _)
            simp [h1, h2]
          · rw [hcn_c]; simp [Ne.symm hne]
          · rw [hcn_c]; simp
        have hq1 : IsChain wc.cnext wc.ptd.waiting_any_downstream_head q' := by
          have e : wc.ptd.waiting_any_downstream_head = hc.next := by
            rw [hwc]; exact b4
          rw [e, hcn]
          refine hrest.congr fun a ha => ?_
          rw [hcn_c a]
          have h1 : hd0 ≠ a := by
            rintro rfl
            exact (List.nodup_cons.1 hnd).1 ha
          have h2 : uc_last ≠ a := by
            rintro rfl
            exact hdis _ hlast_mem (List.mem_cons_of_mem _ ha)
          simp [h1, h2]
        have hdis1 : ∀ a, a ∈ (pre ++ [uc_last]) ++ [hd0] → a ∉ q' := by
          intro a ha hm
          rcases List.mem_append.1 ha with ha | ha
          · exact hdis a ha (List.mem_cons_of_mem _ hm)
          · rw [List.mem_singleton] at ha
            subst ha
            exact (List.nodup_cons.1 hnd).1 hm
        obtain ⟨moved, q1, e1, e2, e3, e4, e5, e6, e7, e8, e9⟩ :=
          ih wc hd0 start (pre ++ [uc_last]) q' w1 hb1 hq1 hdis1 h
        refine ⟨hd0 :: moved, q1, by rw [e1]; rfl, by simpa using e2, e3, by simpa using e4,
          ?_, ?_, ?_, ?_, ?_⟩
        · rw [e5, hwc]; simp [b1, hwa]
        · rw [e6, hwc]; simp [b2, hwa]
        · rw [e7, hwc]; simp [b3, hwa]
        · rw [e8, hwc]; simp [b5, hwa]
        · rw [e9, hwc]; simp [b6, hwa]

theorem dnext_set_d_same_next (w : World) (d : Nat) (dd v : downstream)
    (hd : w.get_d d = some dd) (hv : v.next = dd.next) (a : Nat) :
    (w.set_d d v).dnext a = w.dnext a := by
  unfold World.dnext
  by_cases h : d = a
  · subst h
    rw [get_d_set_d_live w d v dd hd, hd]
    simp [hv]
  · rw [get_d_set_d_ne _ _ _ _ h]

theorem get_d_of_ds_eq {w w1 : World} (h : w1.ds = w.ds) (a : Nat) :
    w1.get_d a = w.get_d a := by
  unfold World.get_d
  rw [h]

theorem pair_spec (w1 : World) (d : Nat) (q : List Nat) (w6 : World)
    (hpool : pool_lists w1)
    (hq : IsChain w1.cnext w1.ptd.waiting_any_downstream_head q)
    (h : cproxy_assign_downstream_pair w1 d = .ok w6) :
    ∃ batch q1 dd6, batch ≠ [] ∧ q = batch ++ q1 ∧ w6.get_d d = some dd6 ∧
      IsChain w6.cnext dd6.upstream_conn batch ∧
      IsChain w6.cnext w6.ptd.waiting_any_downstream_head q1 ∧
      (∀ a, a ∈ batch → a ∉ q1) ∧ pool_lists w6 := by
  unfold cproxy_assign_downstream_pair at h
  cases hd : w1.get_d d with
  | none => simp [hd] at h
  | some dd =>
    simp only [hd] at h
    by_cases a1 : dd.upstream_conn ≠ none
    · simp [a1] at h
    by_cases a2 : dd.downstream_used ≠ 0
    · simp [a1, a2] at h
    by_cases a3 : dd.downstream_used_start ≠ 0
    · simp [a1, a2, a3] at h
    by_cases a4 : dd.multiget ≠ none
    · simp [a1, a2, a3, a4] at h
    by_cases a5 : dd.merger ≠ none
    · simp [a1, a2, a3, a4, a5] at h
    by_cases a6 : dd.timeout_tv.tv_sec ≠ 0
    · simp [a1, a2, a3, a4, a5, a6] at h
    by_cases a7 : dd.timeout_tv.tv_usec ≠ 0
    · simp [a1, a2, a3, a4, a5, a6, a7] at h
    simp only [a1, a2, a3, a4, a5, a6, a7, if_false] at h
    cases hhead : w1.ptd.waiting_any_downstream_head with
    | none =>
      exfalso
      simp only [hhead] at h
      simp [wait_queue_advance, hhead] at h
    | some hd0 =>
      rw [hhead] at hq h
      obtain ⟨q', rfl⟩ : ∃ q', q = hd0 :: q' := by
        cases hq with
        | cons _ hr => exact ⟨_, rfl⟩
      obtain ⟨p, hp, hrest⟩ := hq.tail
      obtain ⟨hc, hgc, hcn⟩ := get_c_of_cnext hp
      have hnd := hq.nodup
      obtain ⟨w2, hw2⟩ : ∃ w2 : World, w2 =
          w1.set_d d { dd with upstream_conn := some hd0 } := ⟨_, rfl⟩
      rw [← hw2] at h
      have hh2 : w2.ptd.waiting_any_downstream_head = some hd0 := by rw [hw2]; exact hhead
      have hg2 : w2.get_c hd0 = some hc := by rw [hw2]; exact hgc
      obtain ⟨w3, hadv, b1, b2, b3, b4, b5, b6⟩ := wait_queue_advance_spec w2 hd0 hc hh2 hg2
      simp only [hadv] at h
      have hg3d : w3.get_d d = some { dd with upstream_conn := some hd0 } := by
        rw [get_d_of_ds_eq b2, hw2]
        exact get_d_set_d_live w1 d _ dd hd
      have hg3c : w3.get_c hd0 = some hc := by
        unfold World.get_c; rw [b3]; exact hg2
      simp only [hg3d, hg3c] at h
      obtain ⟨w5, hw5⟩ : ∃ w5 : World, w5 =
          (w3.set_c hd0 { hc with next := none }).set_stats
            { (w3.set_c hd0 { hc with next := none }).ptd.stats with
              tot_assign_downstream :=
                (w3.set_c hd0 { hc with next := none }).ptd.stats.tot_assign_downstream + 1
              tot_assign_upstream :=
                (w3.set_c hd0 { hc with next := none }).ptd.stats.tot_assign_upstream + 1 } :=
        ⟨_, rfl⟩
      rw [← hw5] at h
      have hcn5 : ∀ a, w5.cnext a = if hd0 = a then some none else w1.cnext a := by
        intro a
        have e1 : w5.cnext a = (w3.set_c hd0 { hc with next := none }).cnext a := by
          rw [hw5]; rfl
        rw [e1, cnext_set_c w3 hd0 a _ hc hg3c]
        by_cases h1 : hd0 = a
        · simp [h1]
        · simp only [h1, if_false]
          unfold World.cnext World.get_c
          rw [b3, hw2]
          rfl
      have hb5 : IsChain w5.cnext (some hd0) ([] ++ [hd0]) := by
        refine IsChain.cons ?_ IsChain.nil
        rw [hcn5]; simp
      have hq5 : IsChain w5.cnext w5.ptd.waiting_any_downstream_head q' := by
        have e : w5.ptd.waiting_any_downstream_head = hc.next := by rw [hw5]; exact b4
        rw [e, hcn]
        refine hrest.congr fun a ha => ?_
        rw [hcn5]
        have : hd0 ≠ a := by
          rintro rfl
          exact (List.nodup_cons.1 hnd).1 ha
        simp [this]
      have hdis5 : ∀ a, a ∈ ([] : List Nat) ++ [hd0] → a ∉ q' := by
        intro a ha hm
        simp only [List.nil_append, List.mem_singleton] at ha
        subst ha
        exact (List.nodup_cons.1 hnd).1 hm
      obtain ⟨moved, q1, e1, e2, e3, e4, e5, e6, e7, e8, e9⟩ :=
        squash_spec w5.conns.length w5 hd0 (some hd0) [] q' w6 hb5 hq5 hdis5 h
      have hds6 : w6.ds = w2.ds := by
        rw [e6, hw5]
        simp [b2]
      refine ⟨hd0 :: moved, q1, { dd with upstream_conn := some hd0 }, by simp, by rw [e1]; rfl,
        ?_, by simpa using e2, e3, by simpa using e4, ?_⟩
      · rw [get_d_of_ds_eq hds6, hw2]
        exact get_d_set_d_live w1 d _ dd hd
      · refine pool_lists_congr hpool ?_ ?_ ?_
        · rw [e8, hw5]; simp [b5, hw2]
        · rw [e9, hw5]; simp [b6, hw2]
        · intro a
          have : w6.dnext a = w2.dnext a := by
            unfold World.dnext
            rw [get_d_of_ds_eq hds6]
          rw [this, hw2]
          exact dnext_set_d_same_next w1 d dd { dd with upstream_conn := some hd0 } hd rfl a

theorem out_string_spec (w : World) (c : Nat) (line : String) (w1 : World)
    (h : out_string w c line = .ok w1) : same_links w w1 := by
  unfold out_string at h
  cases hc : w.get_c c with
  | none => simp [hc] at h
  | some cc =>
    simp only [hc, Except.ok.injEq] at h
    subst h
    exact same_links.set_c w c cc _ hc rfl

theorem upstream_error_spec (env : Env) (hf : env.frame) (w : World) (uc : Nat) (w1 : World)
    (h : upstream_error env w uc = .ok w1) : same_links w w1 := by
  unfold upstream_error at h
  cases hc : w.get_c uc with
  | none => simp [hc] at h
  | some cc =>
    simp only [hc] at h
    by_cases a1 : cc.state ≠ conn_state.conn_pause
    · simp [a1] at h
    by_cases a2 : cc.extra = none
    · simp [a1, a2] at h
    simp only [a1, a2, if_false] at h
    split at h
    · simp at h
    · rename_i wo ho
      have hs := out_string_spec w uc _ wo ho
      by_cases hu : env.update_event wo uc = true
      · simp only [hu, if_true, Except.ok.injEq] at h
        subst h
        exact hs
      · simp only [hu] at h
        obtain ⟨cc1, hc1, _⟩ := hs.get_c_some hc
        obtain ⟨cc2, hc2, _⟩ := (same_links.incr_tot_oom wo).get_c_some hc1
        obtain ⟨w2, h2, hs2⟩ := (cproxy_close_conn_spec env hf _ uc).2 cc2 hc2
        simp only [Bool.false_eq_true, if_false] at h
        rw [h2] at h
        cases h
        exact hs.trans_links ((same_links.incr_tot_oom wo).trans_links hs2)

theorem errors_spec (env : Env) (hf : env.frame) (d : Nat) :
    ∀ (us : List Nat) (fuel : Nat) (w : World) (dd : downstream) (w1 : World),
      w.get_d d = some dd → IsChain w.cnext dd.upstream_conn us →
      cproxy_assign_downstream_errors env d fuel w = .ok w1 →
      (∀ c, c ∉ us → w1.cnext c = w.cnext c) ∧ w1.conns.length = w.conns.length ∧
      w1.proxy = w.proxy ∧ w1.ds.length = w.ds.length ∧
      w1.ptd.downstream_reserved = w.ptd.downstream_reserved ∧
      w1.ptd.downstream_released = w.ptd.downstream_released ∧
      w1.ptd.waiting_any_downstream_head = w.ptd.waiting_any_downstream_head ∧
      (∀ a, w1.dnext a = w.dnext a) ∧
      ∃ dd1, w1.get_d d = some dd1 ∧ dd1.upstream_conn = none := by
  intro us
  induction us with
  | nil =>
    intro fuel w dd w1 hd hc h
    have hu := hc.of_nil
    unfold cproxy_assign_downstream_errors at h
    simp only [hd, hu, Except.ok.injEq] at h
    subst h
    exact ⟨fun _ _ => rfl, rfl, rfl, rfl, rfl, rfl, rfl, fun _ => rfl, dd, hd, hu⟩
  | cons uc us ih =>
    intro fuel w dd w1 hd hc h
    have hu := hc.head_eq
    obtain ⟨p, hp, hrest⟩ := hc.tail
    obtain ⟨cc, hcc, hcn⟩ := get_c_of_cnext hp
    have hnd := hc.nodup
    unfold cproxy_assign_downstream_errors at h
    simp only [hd, hu] at h
    cases fuel with
    | zero => simp at h
    | succ fuel =>
      simp only at h
      cases hue : upstream_error env w uc with
      | error f => simp [hue] at h
      | ok wa =>
        simp only [hue] at h
        have hs := upstream_error_spec env hf w uc wa hue
        obtain ⟨s1, s2, s3, s4, n, s5⟩ := hs
        have hda : wa.get_d d = some dd := by rw [get_d_of_ds_eq s2]; exact hd
        obtain ⟨cc1, hc1, hn1⟩ := same_links.get_c_some ⟨s1, s2, s3, s4, n, s5⟩ hcc
        rw [(pop_spec d wa dd uc hda hu).2 cc1 hc1] at h
        simp only at h
        obtain ⟨wb, hwb⟩ : ∃ wb : World, wb =
            (wa.set_d d { dd with upstream_conn := cc1.next }).set_c uc
              { cc1 with next := none } := ⟨_, rfl⟩
        rw [← hwb] at h
        have hdb : wb.get_d d = some { dd with upstream_conn := cc1.next } := by
          rw [hwb, get_d_set_c]
          exact get_d_set_d_live wa d _ dd hda
        have hcnb : ∀ a, wb.cnext a = if uc = a then some none else w.cnext a := by
          intro a
          rw [hwb, cnext_set_c _ uc a _ cc1 (by rw [get_c_set_d]; exact hc1)]
          by_cases h1 : uc = a
          · simp [h1]
          · simp only [h1, if_false]
            have : (wa.set_d d { dd with upstream_conn := cc1.next }).cnext a = wa.cnext a := rfl
            rw [this, s4]
        have hchb : IsChain wb.cnext ({ dd with upstream_conn := cc1.next } :
            downstream).upstream_conn us := by
          simp only
          rw [hn1, hcn]
          refine hrest.congr fun a ha => ?_
          rw [hcnb]
          have : uc ≠ a := by
            rintro rfl
            exact (List.nodup_cons.1 hnd).1 ha
          simp [this]
        obtain ⟨r1, r2, r3, r4, r5, r6, r7, r8, r9⟩ := ih fuel wb _ w1 hdb hchb h
        refine ⟨?_, ?_, ?_, ?_, ?_, ?_, ?_, ?_, r9⟩
        · intro c hcm
          have h1 : uc ≠ c := fun e => hcm (e ▸ List.mem_cons_self _ _)
          have h2 : c ∉ us := fun hm => hcm (List.mem_cons_of_mem _ hm)
          rw [r1 c h2, hcnb]; simp [h1]
        · rw [r2, hwb]; simp [s3]
        · rw [r3, hwb]; simp [s1]
        · rw [r4, hwb]; simp [s2]
        · rw [r5, hwb]; simp [s5]
        · rw [r6, hwb]; simp [s5]
        · rw [r7, hwb]; simp [s5]
        · intro a
          rw [r8 a, hwb]
          have : ((wa.set_d d { dd with upstream_conn := cc1.next }).set_c uc
              { cc1 with next := none }).dnext a =
              (wa.set_d d { dd with upstream_conn := cc1.next }).dnext a := rfl
          rw [this, dnext_set_d_same_next wa d dd { dd with upstream_conn := cc1.next } hda rfl a]
          unfold World.dnext
          rw [get_d_of_ds_eq s2]

theorem pool_lists_reserved_some {w w1 : World} {rs ls : List Nat} {d : Nat}
    {stale rest : List Nat} {fresh : Bool}
    (hl : IsChain w.dnext w.ptd.downstream_released ls) (hdis : ∀ a, a ∈ rs → a ∉ ls)
    (hs : reserved_some w rs ls d w1 stale rest fresh) : pool_lists w1 := by
  refine ⟨d :: rs, rest, hs.reserved, hs.released, ?_⟩
  intro a ha hm
  rcases hs.split with ⟨_, e⟩ | ⟨_, _, e, _⟩
  · have hnd := hl.nodup
    rw [e] at hnd
    have hnd2 := (List.nodup_append.1 hnd).2.1
    rcases List.mem_cons.1 ha with rfl | ha
    · exact (List.nodup_cons.1 hnd2).1 hm
    · refine hdis a ha ?_
      rw [e]
      exact List.mem_append_right _ (List.mem_cons_of_mem _ hm)
  · rw [e] at hm
    exact List.not_mem_nil _ hm

theorem cnext_of_conns_eq {w w1 : World} (h : w1.conns = w.conns) (c : Nat) :
    w1.cnext c = w.cnext c := by
  unfold World.cnext World.get_c
  rw [h]

theorem fail_spec (env : Env) (hf : env.frame) (d : Nat) (w7 : World) (dd7 : downstream)
    (us q1 : List Nat) (w9 : World) (hpool : pool_lists w7) (hd : w7.get_d d = some dd7)
    (hus : IsChain w7.cnext dd7.upstream_conn us)
    (hq : IsChain w7.cnext w7.ptd.waiting_any_downstream_head q1)
    (hdis : ∀ a, a ∈ us → a ∉ q1)
    (h : cproxy_assign_downstream_fail env d w7 = .ok w9) :
    pool_lists w9 ∧ IsChain w9.cnext w9.ptd.waiting_any_downstream_head q1 := by
  unfold cproxy_assign_downstream_fail at h
  cases he : cproxy_assign_downstream_errors env d (w7.conns.length + 1) w7 with
  | error f => simp [he] at h
  | ok w8 =>
    simp only [he] at h
    obtain ⟨r1, r2, r3, r4, r5, r6, r7, r8, dd8, hd8, hu8⟩ :=
      errors_spec env hf d us _ w7 dd7 w8 hd hus he
    have hq8 : IsChain w8.cnext w8.ptd.waiting_any_downstream_head q1 := by
      rw [r7]
      exact hq.congr fun a ha => r1 a fun hm => hdis a hm ha
    obtain ⟨rs, ls, hr, hl, hrl⟩ := pool_lists_congr hpool r5 r6 r8
    cases hrel : cproxy_release_downstream env w8 d false with
    | error f => simp [hrel] at h
    | ok r =>
      obtain ⟨b, wz⟩ := r
      simp only [hrel, Except.ok.injEq] at h
      subst h
      obtain ⟨_, hrp, hdr⟩ := (release_spec env hf w8 d dd8 rs ls false hr hl hrl hd8).1 b wz hrel
      cases b with
      | true =>
        have rp := hrp rfl
        obtain ⟨r, n, hptd⟩ := rp.ptd
        refine ⟨⟨rs.erase d, d :: ls.erase d, rp.reserved, rp.released, ?_⟩, ?_⟩
        · intro a ha hm
          rcases List.mem_cons.1 hm with rfl | hm
          · exact ((List.Nodup.mem_erase_iff hr.nodup).1 ha).1 rfl
          · exact hrl a (List.mem_of_mem_erase ha) (List.mem_of_mem_erase hm)
        · have e : wz.ptd.waiting_any_downstream_head = w8.ptd.waiting_any_downstream_head := by
            rw [hptd]
          rw [e]
          exact hq8.congr fun a _ => cnext_of_conns_eq (rp.conns hu8) a
      | false =>
        have dp := hdr rfl
        obtain ⟨r, l, n, hptd⟩ := dp.ptd
        refine ⟨⟨rs.erase d, ls.erase d, dp.reserved, dp.released, ?_⟩, ?_⟩
        · intro a ha hm
          exact hrl a (List.mem_of_mem_erase ha) (List.mem_of_mem_erase hm)
        · have e : wz.ptd.waiting_any_downstream_head = w8.ptd.waiting_any_downstream_head := by
            rw [hptd]
          rw [e]
          exact hq8.congr fun a _ => dp.cnext hu8 a

theorem assign_loop_done (env : Env) (w : World) (q : List Nat)
    (trace : List (Option (List Nat))) (w1 : World)
    (hq : IsChain w.cnext w.ptd.waiting_any_downstream_head q)
    (h : (Except.ok ([], w) : Except Fault (List (Option (List Nat)) × World)) =
      .ok (trace, w1)) :
    ∃ (batches : List (List Nat)) (q1 arrivals : List Nat), trace = batches.map some ∧ (∀ b, b ∈ batches → b ≠ []) ∧
      q ++ arrivals = batches.flatten ++ q1 ∧
      IsChain w1.cnext w1.ptd.waiting_any_downstream_head q1 ∧
      (env.propagate_quiet → arrivals = []) := by
  simp only [Except.ok.injEq, Prod.mk.injEq] at h
  obtain ⟨h1, h2⟩ := h
  subst h1 h2
  exact ⟨[], q, [], rfl, fun _ hb => absurd hb (List.not_mem_nil _), by simp, hq, fun _ => rfl⟩

theorem assign_loop_spec (env : Env) (hf : env.frame) (hp : env.propagate_frame) (da : Nat)
    (tail : Option Nat) :
    ∀ (fuel : Nat) (stop : Bool) (w : World) (q : List Nat)
      (trace : List (Option (List Nat))) (w1 : World),
      pool_lists w → IsChain w.cnext w.ptd.waiting_any_downstream_head q →
      cproxy_assign_downstream_loop env da tail fuel stop w = .ok (trace, w1) →
      ∃ (batches : List (List Nat)) (q1 arrivals : List Nat), trace = batches.map some ∧ (∀ b, b ∈ batches → b ≠ []) ∧
        q ++ arrivals = batches.flatten ++ q1 ∧
        IsChain w1.cnext w1.ptd.waiting_any_downstream_head q1 ∧
        (env.propagate_quiet → arrivals = []) := by
  intro fuel
  induction fuel with
  | zero =>
    intro stop w q trace w1 _ hq h
    rw [cproxy_assign_downstream_loop] at h
    cases hh : w.ptd.waiting_any_downstream_head with
    | none =>
      simp only [hh] at h
      exact assign_loop_done env w q trace w1 hq h
    | some hd0 =>
      simp only [hh] at h
      cases stop with
      | true => exact assign_loop_done env w q trace w1 hq h
      | false => simp at h
  | succ fuel ih =>
    intro stop w q trace w1 hpool hq h
    rw [cproxy_assign_downstream_loop] at h
    cases hh : w.ptd.waiting_any_downstream_head with
    | none =>
      simp only [hh] at h
      exact assign_loop_done env w q trace w1 hq h
    | some hd0 =>
      simp only [hh] at h
      cases stop with
      | true => exact assign_loop_done env w q trace w1 hq h
      | false =>
        simp only [Bool.false_eq_true, if_false] at h
        obtain ⟨rs, ls, hr, hl, hrl⟩ := hpool
        cases hres : cproxy_reserve_downstream env w with
        | error f => simp [hres] at h
        | ok r =>
          obtain ⟨rd, wa⟩ := r
          have hsp := (reserve_spec env hf w rs ls hr hl hrl).1 rd wa hres
          rcases hsp with ⟨d, stale, rest, fresh, hrd, hs⟩ | ⟨hrd, hn⟩
          swap
          · subst hrd
            simp only [hres] at h
            refine assign_loop_done env wa q trace w1 ?_ h
            obtain ⟨r0, st, hptd, _⟩ := hn.ptd
            have e : wa.ptd.waiting_any_downstream_head = w.ptd.waiting_any_downstream_head := by
              rw [hptd]
            rw [e]
            exact hq.congr fun a _ => hn.cnext a
          subst hrd
          simp only [hres] at h
          have hpa : pool_lists wa := pool_lists_reserved_some hl hrl hs
          have hqa : IsChain wa.cnext wa.ptd.waiting_any_downstream_head q := by
            obtain ⟨r0, l0, st, hptd, _⟩ := hs.ptd
            have e : wa.ptd.waiting_any_downstream_head = w.ptd.waiting_any_downstream_head := by
              rw [hptd]
            rw [e]
            exact hq.congr fun a _ => hs.cnext a
          cases hpair : cproxy_assign_downstream_pair wa d with
          | error f => simp [hpair] at h
          | ok w6 =>
            simp only [hpair] at h
            obtain ⟨batch, q1, dd6, hbne, hsplit, hd6, hb6, hq6, hdis6, hp6⟩ :=
              pair_spec wa d q w6 hpa hqa hpair
            have hul : w6.upstream_list_at d = some batch := by
              unfold World.upstream_list_at
              rw [hd6]
              exact upstream_list_iff.2 hb6
            rw [hul] at h
            obtain ⟨f1, f2, f3, f4⟩ := hp w6 d
            obtain ⟨arrived, dd7, us7, g1, g2, g3, g4⟩ := f4 q1 dd6 batch hq6 hd6 hb6 hdis6
            rcases hpd : env.propagate_downstream w6 d with ⟨b, w7⟩
            rw [hpd] at f1 f2 f3 g1 g2 g3 h
            simp only at f1 f2 f3 g1 g2 g3 h
            have hp7 : pool_lists w7 := pool_lists_congr hp6 f1 f2 f3
            have hquiet : env.propagate_quiet → arrived = [] := by
              intro hqt
              obtain ⟨t1, t2⟩ := hqt w6 d
              rw [hpd] at t1 t2
              simp only at t1 t2
              have hc : IsChain w7.cnext w7.ptd.waiting_any_downstream_head q1 := by
                rw [t1]
                exact hq6.congr fun a _ => t2 a
              have := hc.functional g1
              simpa using this.symm
            have hfin : ∀ stop1 wn rest wz, IsChain wn.cnext wn.ptd.waiting_any_downstream_head
                (q1 ++ arrived) → pool_lists wn →
                cproxy_assign_downstream_loop env da tail fuel stop1 wn = .ok (rest, wz) →
                ∃ (batches : List (List Nat)) (q2 arrivals : List Nat), some batch :: rest = batches.map some ∧
                  (∀ b, b ∈ batches → b ≠ []) ∧ q ++ arrivals = batches.flatten ++ q2 ∧
                  IsChain wz.cnext wz.ptd.waiting_any_downstream_head q2 ∧
                  (env.propagate_quiet → arrivals = []) := by
              intro stop1 wn rest wz hqn hpn hl2
              obtain ⟨bs, q2, ar, i1, i2, i3, i4, i5⟩ := ih _ wn _ rest wz hpn hqn hl2
              refine ⟨batch :: bs, q2, arrived ++ ar, by rw [i1]; rfl, ?_, ?_, i4, ?_⟩
              · intro b hb
                rcases List.mem_cons.1 hb with rfl | hb
                · exact hbne
                · exact i2 b hb
              · rw [hsplit, List.flatten_cons, List.append_assoc, List.append_assoc, ← i3,
                  List.append_assoc]
              · intro hqt
                rw [hquiet hqt, i5 hqt]
                rfl
            cases b with
            | true =>
              simp only at h
              split at h
              · simp at h
              · rename_i rest2 wz hl2
                simp only [Except.ok.injEq, Prod.mk.injEq] at h
                obtain ⟨h1, h2⟩ := h
                subst h1 h2
                exact hfin _ w7 rest2 wz g1 hp7 hl2
            | false =>
              simp only at h
              by_cases hda : da ≠ w7.ptd.downstream_assigns
              · rw [if_pos hda] at h
                simp only [Except.ok.injEq, Prod.mk.injEq] at h
                obtain ⟨h1, h2⟩ := h
                subst h1 h2
                refine ⟨[batch], q1 ++ arrived, arrived, rfl, ?_, ?_, g1, hquiet⟩
                · intro b hb
                  rw [List.mem_singleton.1 hb]
                  exact hbne
                · rw [hsplit]; simp
              · rw [if_neg hda] at h
                cases hfl : cproxy_assign_downstream_fail env d w7 with
                | error f => simp [hfl] at h
                | ok w9 =>
                  simp only [hfl] at h
                  obtain ⟨hp9, hq9⟩ := fail_spec env hf d w7 dd7 us7 (q1 ++ arrived) w9 hp7 g2
                    g3 g1 g4 hfl
                  split at h
                  · simp at h
                  · rename_i rest2 wz hl2
                    simp only [Except.ok.injEq, Prod.mk.injEq] at h
                    obtain ⟨h1, h2⟩ := h
                    subst h1 h2
                    exact hfin _ w9 rest2 wz hq9 hp9 hl2

theorem quiet_env_propagate_frame : quiet_env.propagate_frame := by
  intro w d
  refine ⟨rfl, rfl, fun _ => rfl, ?_⟩
  intro q dd us hq hd hus hdis
  exact ⟨[], dd, us, by simpa using hq, hd, hus, by simpa using hdis⟩

theorem quiet_env_propagate_quiet : quiet_env.propagate_quiet :=
  fun _ _ => ⟨rfl, fun _ => rfl⟩

set_option maxRecDepth 100000 in
theorem assign_waiting_world :
    cproxy_assign_downstream quiet_env waiting_world =
      .ok ([some [0, 1], some [2]], paired_world) := by
  decide


/-- C10.  FIFO pairing.  From a state whose pool lists are proper and
disjoint and whose wait queue is the proper list `q`, under the frame
assumptions on the host functions: when `cproxy_assign_downstream` returns,
every upstream list handed to `propagate_downstream` was a proper non-empty
list, and the concatenation of these lists, in the order of the
reservations, followed by the wait queue `q1` left at the end, is the wait
queue at entry `q` followed by the upstreams that `propagate_downstream` put
back on the queue during the call.  When `propagate_downstream` puts nothing
on the queue, `q` is exactly the concatenation of the batches followed by
`q1`: the upstreams taken are the first ones of the queue, in arrival order
across and within the batches, and those left keep their order. -/
theorem assign_downstream_fifo (env : Env) (hf : env.frame) (hp : env.propagate_frame)
    (w : World) (rs ls q : List Nat) (trace : List (Option (List Nat))) (w1 : World)
    (hr : w.reserved_list = some rs) (hl : w.released_list = some ls)
    (hdis : ∀ a, a ∈ rs → a ∉ ls) (hq : w.wait_queue = some q)
    (h : cproxy_assign_downstream env w = .ok (trace, w1)) :
    ∃ (batches : List (List Nat)) (q1 arrivals : List Nat),
      trace = batches.map some ∧ (∀ b, b ∈ batches → b ≠ []) ∧
      q ++ arrivals = batches.flatten ++ q1 ∧ w1.wait_queue = some q1 ∧
      (env.propagate_quiet → arrivals = []) := by
  have hpool : pool_lists w := ⟨rs, ls, reserved_list_iff.1 hr, released_list_iff.1 hl, hdis⟩
  have hq1 := wait_queue_iff.1 hq
  unfold cproxy_assign_downstream at h
  have hpool1 : pool_lists
      (w.set_ptd { w.ptd with downstream_assigns := w.ptd.downstream_assigns + 1 }) :=
    pool_lists_congr hpool rfl rfl fun _ => rfl
  obtain ⟨batches, q1, arrivals, h1, h2, h3, h4, h5⟩ :=
    assign_loop_spec env hf hp _ _ _ _ _ q trace w1 hpool1 hq1 h
  exact ⟨batches, q1, arrivals, h1, h2, h3, wait_queue_iff.2 h4, h5⟩

/-- Witness for C10: the example wait queue of four upstreams and a pool cap
of 2. -/
theorem assign_downstream_fifo_witness :
    quiet_env.frame ∧ quiet_env.propagate_frame ∧
    waiting_world.reserved_list = some [] ∧ waiting_world.released_list = some [] ∧
    (∀ a, a ∈ ([] : List Nat) → a ∉ ([] : List Nat)) ∧
    waiting_world.wait_queue = some [0, 1, 2, 3] ∧
    cproxy_assign_downstream quiet_env waiting_world =
      .ok ([some [0, 1], some [2]], paired_world) ∧
    ∃ (batches : List (List Nat)) (q1 arrivals : List Nat),
      [some [0, 1], some [2]] = batches.map some ∧ (∀ b, b ∈ batches → b ≠ []) ∧
      [0, 1, 2, 3] ++ arrivals = batches.flatten ++ q1 ∧ paired_world.wait_queue = some q1 ∧
      (quiet_env.propagate_quiet → arrivals = []) :=
  ⟨quiet_env_frame, quiet_env_propagate_frame, by decide, by decide, fun _ h => (by cases h),
    by decide, assign_waiting_world,
    assign_downstream_fifo quiet_env quiet_env_frame quiet_env_propagate_frame waiting_world
      [] [] [0, 1, 2, 3] _ paired_world (by decide) (by decide) (fun _ h => (by cases h))
      (by decide) assign_waiting_world⟩

theorem strncmp_eq_gets (rest : String) : strncmp_eq ("gets" ++ rest) "get " = false := by
  unfold strncmp_eq
  have h : ("gets" ++ rest).toList = 'g' :: 'e' :: 't' :: 's' :: rest.toList := by
    rw [String.toList, String.data_append]
    rfl
  rw [h]
  have h4 : "get ".length = 4 := by decide
  rw [h4]
  simp only [List.take_succ_cons, List.take_zero]
  decide

/-- C11.  Whenever `is_compatible_request(existing, candidate)` returns, it
returns `true` if and only if `candidate` is not `NULL`, both connections
hold a one-line command (`cmd == -1`) whose text starts with the four
characters `"get "`, neither has `noreply` set and neither has
`cmd_retries > 0`; in particular it returns `false` for a `NULL` candidate,
and a command starting with `"gets"` does not start with `"get "`.  The call
returns whenever both connections are in `conn_pause`, have a command text
and hold no item (its entry assertions). -/
theorem is_compatible_request_spec (w : World) (existing : Nat) (candidate : Option Nat) :
    (∀ b, is_compatible_request w existing candidate = .ok b →
      (b = true ↔ ∃ cand ex ca es cs, candidate = some cand ∧
        w.get_c existing = some ex ∧ w.get_c cand = some ca ∧
        ex.cmd = -1 ∧ ca.cmd = -1 ∧
        ex.cmd_start = some es ∧ strncmp_eq es "get " = true ∧
        ca.cmd_start = some cs ∧ strncmp_eq cs "get " = true ∧
        ex.noreply = false ∧ ca.noreply = false ∧
        ¬ 0 < ex.cmd_retries ∧ ¬ 0 < ca.cmd_retries)) ∧
    (∀ b, is_compatible_request w existing none = .ok b → b = false) ∧
    (∀ rest, strncmp_eq ("gets" ++ rest) "get " = false) ∧
    (∀ ex, w.get_c existing = some ex → ex.state = conn_state.conn_pause →
      ex.cmd_start ≠ none → ex.item = none →
      (is_compatible_request w existing none = .ok false) ∧
      ∀ cand ca, w.get_c cand = some ca → ca.state = conn_state.conn_pause →
        ca.cmd_start ≠ none → ca.item = none →
        ∃ b, is_compatible_request w existing (some cand) = .ok b) := by
  refine ⟨?_, ?_, strncmp_eq_gets, ?_⟩
  · intro b h
    unfold is_compatible_request at h
    cases hex : w.get_c existing with
    | none => simp [hex] at h
    | some ex =>
      simp only [hex] at h
      by_cases hs : ex.state ≠ conn_state.conn_pause
      · simp [hs] at h
      rw [if_neg hs] at h
      cases candidate with
      | none =>
        simp only [Except.ok.injEq] at h
        subst h
        simp
      | some cand =>
        simp only at h
        cases hca : w.get_c cand with
        | none => simp [hca] at h
        | some ca =>
          simp only [hca] at h
          by_cases hs2 : ca.state ≠ conn_state.conn_pause
          · simp [hs2] at h
          rw [if_neg hs2] at h
          by_cases hc : ex.cmd = -1 ∧ ca.cmd = -1 ∧ ex.cmd_retries ≤ 0 ∧ ca.cmd_retries ≤ 0 ∧
              ex.noreply = false ∧ ca.noreply = false
          · rw [if_pos hc] at h
            obtain ⟨c1, c2, c3, c4, c5, c6⟩ := hc
            cases hes : ex.cmd_start with
            | none => simp [hes] at h
            | some es =>
              simp only [hes] at h
              by_cases g1 : strncmp_eq es "get " = true
              · rw [if_pos g1] at h
                cases hcs : ca.cmd_start with
                | none => simp [hcs] at h
                | some cs =>
                  simp only [hcs] at h
                  by_cases g2 : strncmp_eq cs "get " = true
                  · rw [if_pos g2] at h
                    by_cases i1 : ex.item ≠ none
                    · simp [i1] at h
                    rw [if_neg i1] at h
                    by_cases i2 : ca.item ≠ none
                    · simp [i2] at h
                    rw [if_neg i2] at h
                    simp only [Except.ok.injEq] at h
                    subst h
                    simp only [true_iff]
                    exact ⟨cand, ex, ca, es, cs, rfl, rfl, hca, c1, c2, hes, g1, hcs, g2, c5, c6,
                      not_lt.2 c3, not_lt.2 c4⟩
                  · rw [if_neg g2] at h
                    simp only [Except.ok.injEq] at h
                    subst h
                    simp only [false_iff, Bool.false_eq_true]
                    rintro ⟨cand1, ex1, ca1, es1, cs1, e1, e2, e3, _, _, _, _, e4, e5, _⟩
                    cases e1
                    rw [hca] at e3
                    cases e3
                    rw [hcs] at e4
                    cases e4
                    exact g2 e5
              · rw [if_neg g1] at h
                simp only [Except.ok.injEq] at h
                subst h
                simp only [false_iff, Bool.false_eq_true]
                rintro ⟨cand1, ex1, ca1, es1, cs1, e1, e2, e3, _, _, e4, e5, _⟩
                cases e2
                rw [hes] at e4
                cases e4
                exact g1 e5
          · rw [if_neg hc] at h
            simp only [Except.ok.injEq] at h
            subst h
            simp only [false_iff, Bool.false_eq_true]
            rintro ⟨cand1, ex1, ca1, es1, cs1, e1, e2, e3, c1, c2, _, _, _, _, c5, c6, c3, c4⟩
            cases e1
            cases e2
            rw [hca] at e3
            cases e3
            exact hc ⟨c1, c2, not_lt.1 c3, not_lt.1 c4, c5, c6⟩
  · intro b h
    unfold is_compatible_request at h
    cases hex : w.get_c existing with
    | none => simp [hex] at h
    | some ex =>
      simp only [hex] at h
      by_cases hs : ex.state ≠ conn_state.conn_pause
      · simp [hs] at h
      rw [if_neg hs] at h
      simp only [Except.ok.injEq] at h
      exact h.symm
  · intro ex hex hs hes hi
    constructor
    · unfold is_compatible_request
      simp [hex, hs]
    · intro cand ca hca hs2 hcs hi2
      unfold is_compatible_request
      simp only [hex, hca, hs, hs2, ne_eq, not_true_eq_false, if_false, hi, hi2]
      obtain ⟨es, hes1⟩ := Option.ne_none_iff_exists'.1 hes
      obtain ⟨cs, hcs1⟩ := Option.ne_none_iff_exists'.1 hcs
      simp only [hes1, hcs1]
      split_ifs <;> exact ⟨_, rfl⟩

/-- Witness for C11 on the example wait queue: the two simple gets are
compatible, the `gets` is not. -/
theorem is_compatible_request_spec_witness :
    is_compatible_request waiting_world 0 (some 1) = .ok true ∧
    is_compatible_request waiting_world 1 (some 2) = .ok false ∧
    is_compatible_request waiting_world 0 none = .ok false ∧
    (true = true ↔ ∃ cand ex ca es cs, some 1 = some cand ∧
        waiting_world.get_c 0 = some ex ∧ waiting_world.get_c cand = some ca ∧
        ex.cmd = -1 ∧ ca.cmd = -1 ∧
        ex.cmd_start = some es ∧ strncmp_eq es "get " = true ∧
        ca.cmd_start = some cs ∧ strncmp_eq cs "get " = true ∧
        ex.noreply = false ∧ ca.noreply = false ∧
        ¬ 0 < ex.cmd_retries ∧ ¬ 0 < ca.cmd_retries) :=
  ⟨by decide, by decide, by decide,
    (is_compatible_request_spec waiting_world 0 (some 1)).1 true (by decide)⟩

theorem put_be_getElem_lt : ∀ (n off v : Nat) (buf : List Nat) (i : Nat), i < off →
    (put_be n off v buf)[i]? = buf[i]? := by
  intro n
  induction n with
  | zero => intro off v buf i _; rfl
  | succ n ih =>
    intro off v buf i hi
    rw [put_be, ih (off + 1) v _ i (by omega), List.getElem?_set_ne (by omega)]

theorem put_be_length : ∀ (n off v : Nat) (buf : List Nat),
    (put_be n off v buf).length = buf.length := by
  intro n
  induction n with
  | zero => intro off v buf; rfl
  | succ n ih => intro off v buf; rw [put_be, ih, List.length_set]

theorem skey_lookup_mem {α : Type} {m : List (List Char × α)} {k : List Char} {v : α}
    (h : skey_lookup m k = some v) : (k, v) ∈ m := by
  unfold skey_lookup at h
  cases hf : m.find? (fun e => decide (e.1 = k)) with
  | none => simp [hf] at h
  | some e =>
    simp only [hf, Option.map_some', Option.some.injEq] at h
    have h1 := List.find?_some hf
    have h2 := List.mem_of_find?_eq_some hf
    simp only [decide_eq_true_eq] at h1
    obtain ⟨e1, e2⟩ := e
    simp only at h h1
    subst h h1
    exact h2

theorem fill_token_keeps (spec : A2BSpec) (cur : Nat) (command : List Char)
    (toks : List token_t) (r r1 : a2b_request) (b : Bool)
    (h : a2b_fill_request_token spec cur command toks r = .ok (b, r1)) :
    r1.header[0]? = r.header[0]? ∧ r1.header[1]? = r.header[1]? := by
  unfold a2b_fill_request_token at h
  split at h
  · cases h
  split at h
  · cases h
  split at h
  · cases h
  split at h
  · cases h
  split at h
  · cases h
  simp only at h
  split at h
  · simp only [Except.ok.injEq, Prod.mk.injEq] at h
    obtain ⟨_, h⟩ := h
    subst h
    exact ⟨put_be_getElem_lt _ _ _ _ _ (by omega), put_be_getElem_lt _ _ _ _ _ (by omega)⟩
  · split at h
    · cases h
    · split at h
      · simp only [Except.ok.injEq, Prod.mk.injEq] at h
        obtain ⟨_, h⟩ := h
        subst h
        simp only
        constructor
        · rw [put_be_getElem_lt _ _ _ _ _ (by omega), put_be_getElem_lt _ _ _ _ _ (by omega),
            put_be_getElem_lt _ _ _ _ _ (by omega), List.getElem?_set_ne (by omega),
            List.getElem?_set_ne (by omega)]
        · rw [put_be_getElem_lt _ _ _ _ _ (by omega), put_be_getElem_lt _ _ _ _ _ (by omega),
            put_be_getElem_lt _ _ _ _ _ (by omega), List.getElem?_set_ne (by omega),
            List.getElem?_set_ne (by omega)]
      · simp only [Except.ok.injEq, Prod.mk.injEq] at h
        obtain ⟨_, h⟩ := h
        subst h
        exact ⟨rfl, rfl⟩
  · simp only [Except.ok.injEq, Prod.mk.injEq] at h
    obtain ⟨_, h⟩ := h
    subst h
    exact ⟨rfl, rfl⟩
  · simp only [Except.ok.injEq, Prod.mk.injEq] at h
    obtain ⟨_, h⟩ := h
    subst h
    exact ⟨rfl, rfl⟩
  · simp only [Except.ok.injEq, Prod.mk.injEq] at h
    obtain ⟨_, h⟩ := h
    subst h
    exact ⟨rfl, rfl⟩

theorem fill_loop_keeps (spec : A2BSpec) (command : List Char) (toks : List token_t) :
    ∀ (n i : Nat) (r r1 : a2b_request) (b : Bool),
      a2b_fill_request_loop spec command toks n i r = .ok (b, r1) →
      r1.header[0]? = r.header[0]? ∧ r1.header[1]? = r.header[1]? := by
  intro n
  induction n with
  | zero =>
    intro i r r1 b h
    rw [a2b_fill_request_loop] at h
    simp only [Except.ok.injEq, Prod.mk.injEq] at h
    obtain ⟨_, h⟩ := h
    subst h
    exact ⟨rfl, rfl⟩
  | succ n ih =>
    intro i r r1 b h
    rw [a2b_fill_request_loop] at h
    cases ht : a2b_fill_request_token spec i command toks r with
    | error f => simp [ht] at h
    | ok x =>
      obtain ⟨bt, rt⟩ := x
      have hk := fill_token_keeps spec i command toks r rt bt ht
      cases bt with
      | false =>
        simp only [ht, Except.ok.injEq, Prod.mk.injEq] at h
        obtain ⟨_, h⟩ := h
        subst h
        exact hk
      | true =>
        simp only [ht] at h
        obtain ⟨k1, k2⟩ := ih (i + 1) rt r1 b h
        exact ⟨k1.trans hk.1, k2.trans hk.2⟩

theorem cproxy_init_a2b_ready : cproxy_init_a2b {} = .ok a2b_ready := by
  decide

theorem a2b_ready_rows :
    ∀ e ∈ a2b_ready.a2b_spec_map.getD [],
      (String.mk e.1, e.2.cmd, e.2.cmdq) ∈
        [("set", PROTOCOL_BINARY_CMD_SET, PROTOCOL_BINARY_CMD_SETQ),
         ("add", PROTOCOL_BINARY_CMD_ADD, PROTOCOL_BINARY_CMD_ADDQ),
         ("replace", PROTOCOL_BINARY_CMD_REPLACE, PROTOCOL_BINARY_CMD_REPLACEQ),
         ("append", PROTOCOL_BINARY_CMD_APPEND, PROTOCOL_BINARY_CMD_APPENDQ),
         ("prepend", PROTOCOL_BINARY_CMD_PREPEND, PROTOCOL_BINARY_CMD_PREPENDQ),
         ("cas", PROTOCOL_BINARY_CMD_SET, PROTOCOL_BINARY_CMD_SETQ),
         ("delete", PROTOCOL_BINARY_CMD_DELETE, PROTOCOL_BINARY_CMD_DELETEQ),
         ("incr", PROTOCOL_BINARY_CMD_INCREMENT, PROTOCOL_BINARY_CMD_INCREMENTQ),
         ("decr", PROTOCOL_BINARY_CMD_DECREMENT, PROTOCOL_BINARY_CMD_DECREMENTQ),
         ("flush_all", PROTOCOL_BINARY_CMD_FLUSH, PROTOCOL_BINARY_CMD_FLUSHQ),
         ("get", PROTOCOL_BINARY_CMD_GETK, PROTOCOL_BINARY_CMD_GETKQ),
         ("gets", PROTOCOL_BINARY_CMD_GETK, PROTOCOL_BINARY_CMD_GETKQ),
         ("stats", PROTOCOL_BINARY_CMD_STAT, PROTOCOL_BINARY_CMD_NOOP)] := by
  decide

/-- C19.  Opcode selection.  With the spec map built by `cproxy_init_a2b`,
whenever `a2b_fill_request` accepts a token list (returns a size above 0),
the verb of the command is one of the thirteen verbs of the table, the byte
at offset 0 of the header (magic) is 0x80, and the byte at offset 1 (opcode)
is the quiet opcode of the verb's row if `noreply` is true and its non-quiet
opcode otherwise: set and cas give SET/SETQ; add, replace, append, prepend,
delete, incr and decr their own pairs; get and gets both GETK/GETKQ
(flush_all gives FLUSH/FLUSHQ and stats STAT/NOOP). -/
theorem a2b_fill_request_opcode (g : a2b_globals) (hg : cproxy_init_a2b {} = .ok g)
    (command : List Char) (cmd_tokens : List token_t) (noreply : Bool)
    (r r1 : a2b_request) (size : Nat) (hlen : 2 ≤ r.header.length)
    (h : a2b_fill_request g command cmd_tokens noreply r = .ok (size, r1))
    (hs : 0 < size) :
    ∃ v verb cmd cmdq, (cmd_tokens.getD CMD_TOKEN {}).str command = some v ∧
      skey v = String.toList verb ∧
      (verb, cmd, cmdq) ∈
        [("set", PROTOCOL_BINARY_CMD_SET, PROTOCOL_BINARY_CMD_SETQ),
         ("add", PROTOCOL_BINARY_CMD_ADD, PROTOCOL_BINARY_CMD_ADDQ),
         ("replace", PROTOCOL_BINARY_CMD_REPLACE, PROTOCOL_BINARY_CMD_REPLACEQ),
         ("append", PROTOCOL_BINARY_CMD_APPEND, PROTOCOL_BINARY_CMD_APPENDQ),
         ("prepend", PROTOCOL_BINARY_CMD_PREPEND, PROTOCOL_BINARY_CMD_PREPENDQ),
         ("cas", PROTOCOL_BINARY_CMD_SET, PROTOCOL_BINARY_CMD_SETQ),
         ("delete", PROTOCOL_BINARY_CMD_DELETE, PROTOCOL_BINARY_CMD_DELETEQ),
         ("incr", PROTOCOL_BINARY_CMD_INCREMENT, PROTOCOL_BINARY_CMD_INCREMENTQ),
         ("decr", PROTOCOL_BINARY_CMD_DECREMENT, PROTOCOL_BINARY_CMD_DECREMENTQ),
         ("flush_all", PROTOCOL_BINARY_CMD_FLUSH, PROTOCOL_BINARY_CMD_FLUSHQ),
         ("get", PROTOCOL_BINARY_CMD_GETK, PROTOCOL_BINARY_CMD_GETKQ),
         ("gets", PROTOCOL_BINARY_CMD_GETK, PROTOCOL_BINARY_CMD_GETKQ),
         ("stats", PROTOCOL_BINARY_CMD_STAT, PROTOCOL_BINARY_CMD_NOOP)] ∧
      r1.header[0]? = some PROTOCOL_BINARY_REQ ∧
      r1.header[1]? = some (if noreply then cmdq else cmd) := by
  rw [cproxy_init_a2b_ready] at hg
  cases hg
  unfold a2b_fill_request at h
  split at h
  · cases h
  split at h
  · cases h
  rename_i v hv
  split at h
  · cases h
  split at h
  · cases h
  rename_i m hm
  split at h
  · simp only [Except.ok.injEq, Prod.mk.injEq] at h
    omega
  rename_i spec hspec
  have hmem := skey_lookup_mem hspec
  have hrow := a2b_ready_rows (skey v, spec) (by rw [hm]; exact hmem)
  simp only at hrow
  split at h
  swap
  · simp only [Except.ok.injEq, Prod.mk.injEq] at h
    omega
  simp only at h
  split at h
  · cases h
  · simp only [Except.ok.injEq, Prod.mk.injEq] at h
    omega
  rename_i r3 hloop
  simp only [Except.ok.injEq, Prod.mk.injEq] at h
  obtain ⟨_, h⟩ := h
  subst h
  obtain ⟨k0, k1⟩ := fill_loop_keeps spec command cmd_tokens _ _ _ _ _ hloop
  refine ⟨v, String.mk (skey v), spec.cmd, spec.cmdq, hv, rfl, hrow, ?_, ?_⟩
  · rw [k0]
    simp only
    rw [List.getElem?_set_ne (by omega), List.getElem?_set_self (by omega)]
  · rw [k1]
    simp only
    rw [List.getElem?_set_self (by rw [List.length_set]; omega)]

theorem scan_incr_tokens : scan_tokens "incr key 300 noreply".toList MAX_TOKENS = .ok incr_tokens := by
  decide

theorem fill_incr_request :
    a2b_fill_request a2b_ready "incr key 300 noreply".toList incr_tokens true
      { header := List.replicate 44 0 } = .ok (44, incr_request) := by
  decide

/-- Witness for C19: `incr key 300 noreply` is accepted and gets the quiet
opcode INCREMENTQ. -/
theorem a2b_fill_request_opcode_witness :
    cproxy_init_a2b {} = .ok a2b_ready ∧
    2 ≤ (List.replicate 44 0).length ∧
    a2b_fill_request a2b_ready "incr key 300 noreply".toList incr_tokens true
      { header := List.replicate 44 0 } = .ok (44, incr_request) ∧
    0 < 44 ∧
    ∃ v verb cmd cmdq,
      (incr_tokens.getD CMD_TOKEN {}).str "incr key 300 noreply".toList = some v ∧
      skey v = String.toList verb ∧
      (verb, cmd, cmdq) ∈
        [("set", PROTOCOL_BINARY_CMD_SET, PROTOCOL_BINARY_CMD_SETQ),
         ("add", PROTOCOL_BINARY_CMD_ADD, PROTOCOL_BINARY_CMD_ADDQ),
         ("replace", PROTOCOL_BINARY_CMD_REPLACE, PROTOCOL_BINARY_CMD_REPLACEQ),
         ("append", PROTOCOL_BINARY_CMD_APPEND, PROTOCOL_BINARY_CMD_APPENDQ),
         ("prepend", PROTOCOL_BINARY_CMD_PREPEND, PROTOCOL_BINARY_CMD_PREPENDQ),
         ("cas", PROTOCOL_BINARY_CMD_SET, PROTOCOL_BINARY_CMD_SETQ),
         ("delete", PROTOCOL_BINARY_CMD_DELETE, PROTOCOL_BINARY_CMD_DELETEQ),
         ("incr", PROTOCOL_BINARY_CMD_INCREMENT, PROTOCOL_BINARY_CMD_INCREMENTQ),
         ("decr", PROTOCOL_BINARY_CMD_DECREMENT, PROTOCOL_BINARY_CMD_DECREMENTQ),
         ("flush_all", PROTOCOL_BINARY_CMD_FLUSH, PROTOCOL_BINARY_CMD_FLUSHQ),
         ("get", PROTOCOL_BINARY_CMD_GETK, PROTOCOL_BINARY_CMD_GETKQ),
         ("gets", PROTOCOL_BINARY_CMD_GETK, PROTOCOL_BINARY_CMD_GETKQ),
         ("stats", PROTOCOL_BINARY_CMD_STAT, PROTOCOL_BINARY_CMD_NOOP)] ∧
      incr_request.header[0]? = some PROTOCOL_BINARY_REQ ∧
      incr_request.header[1]? = some (if true = true then cmdq else cmd) :=
  ⟨cproxy_init_a2b_ready, by decide, fill_incr_request, by decide,
    a2b_fill_request_opcode a2b_ready cproxy_init_a2b_ready "incr key 300 noreply".toList
      incr_tokens true { header := List.replicate 44 0 } incr_request 44 (by decide)
      fill_incr_request (by decide)⟩

theorem fill_token_key (spec : A2BSpec) (i : Nat) (command : List Char) (toks : List token_t)
    (r : a2b_request) (st : List Char)
    (h1 : spec.ntokens > 1) (hst : (spec.tokens.getD i {}).str spec.line = some st)
    (hk : st.tail.head? = some 'k') (h2 : i > 0) (h3 : i < toks.length)
    (h4 : i < spec.ntokens) :
    a2b_fill_request_token spec i command toks r = .ok (true,
      { r with
        out_key := (toks.getD i {}).value
        out_keylen := (toks.getD i {}).length % 2 ^ 16
        header := put_be 2 2 ((toks.getD i {}).length % 2 ^ 16) r.header }) := by
  unfold a2b_fill_request_token
  simp only [h1, not_true_eq_false, if_false, hst, h2, h3, h4, hk]

theorem fill_token_other (spec : A2BSpec) (i : Nat) (command : List Char) (toks : List token_t)
    (r : a2b_request) (st : List Char)
    (h1 : spec.ntokens > 1) (hst : (spec.tokens.getD i {}).str spec.line = some st)
    (hk : st.tail.head? = some 'n') (h2 : i > 0) (h3 : i < toks.length)
    (h4 : i < spec.ntokens) :
    a2b_fill_request_token spec i command toks r = .ok (true, r) := by
  unfold a2b_fill_request_token
  simp only [h1, not_true_eq_false, if_false, hst, h2, h3, h4, hk]
  try rfl

theorem fill_token_value (spec : A2BSpec) (i : Nat) (command : List Char) (toks : List token_t)
    (r : a2b_request) (st : List Char)
    (h1 : spec.ntokens > 1) (hst : (spec.tokens.getD i {}).str spec.line = some st)
    (hk : st.tail.head? = some 'v') (h2 : i > 0) (h3 : i < toks.length)
    (h4 : i < spec.ntokens) :
    a2b_fill_request_token spec i command toks r =
      match (toks.getD i {}).str command with
      | none => .error .null_deref
      | some s =>
        match safe_strtoull s with
        | some delta =>
          .ok (true,
            { r with
              out_extlen := 20
              header := put_be 4 40 0xffffffff (put_be 8 32 0 (put_be 8 24 delta
                ((r.header.set 4 20).set 5 0))) })
        | none => .ok (false, r) := by
  unfold a2b_fill_request_token
  simp only [h1, not_true_eq_false, if_false, hst, h2, h3, h4, hk]
  try rfl


theorem a2b_ready_map : ∃ m, a2b_ready.a2b_spec_map = some m ∧ a2b_ready.a2b_size_max = 44 ∧
    (skey_lookup m "delete".toList).map (fun s => (s.ntokens, s.num_optional, s.size, s.cmd,
      s.cmdq, ((s.tokens.getD 1 {}).str s.line).map (fun st => st.tail.head?),
      ((s.tokens.getD 2 {}).str s.line).map (fun st => st.tail.head?))) =
      some (4, 1, 24, PROTOCOL_BINARY_CMD_DELETE, PROTOCOL_BINARY_CMD_DELETEQ,
        some (some 'k'), some (some 'n')) ∧
    (skey_lookup m "incr".toList).map (fun s => (s.ntokens, s.num_optional, s.size, s.cmd,
      s.cmdq, ((s.tokens.getD 1 {}).str s.line).map (fun st => st.tail.head?),
      ((s.tokens.getD 2 {}).str s.line).map (fun st => st.tail.head?),
      ((s.tokens.getD 3 {}).str s.line).map (fun st => st.tail.head?))) =
      some (5, 1, 44, PROTOCOL_BINARY_CMD_INCREMENT, PROTOCOL_BINARY_CMD_INCREMENTQ,
        some (some 'k'), some (some 'v'), some (some 'n')) ∧
    (skey_lookup m "decr".toList).map (fun s => (s.ntokens, s.num_optional, s.size, s.cmd,
      s.cmdq, ((s.tokens.getD 1 {}).str s.line).map (fun st => st.tail.head?),
      ((s.tokens.getD 2 {}).str s.line).map (fun st => st.tail.head?),
      ((s.tokens.getD 3 {}).str s.line).map (fun st => st.tail.head?))) =
      some (5, 1, 44, PROTOCOL_BINARY_CMD_DECREMENT, PROTOCOL_BINARY_CMD_DECREMENTQ,
        some (some 'k'), some (some 'v'), some (some 'n')) := by
  exact ⟨a2b_ready.a2b_spec_map.getD [], by decide, by decide, rfl, rfl, rfl⟩

theorem header_delete (t : List Nat) (op klen : Nat) :
    (put_be 4 8 (klen + 0) (put_be 2 2 klen
      (((List.replicate 44 0 ++ t).set 0 PROTOCOL_BINARY_REQ).set 1 op))).take 44 =
    [PROTOCOL_BINARY_REQ, op] ++ big_endian 2 klen ++ [0, 0, 0, 0] ++
      big_endian 4 (klen + 0) ++ List.replicate 12 0 ++ List.replicate 20 0 := by
  have h44 : List.replicate 44 (0 : Nat) = [0, 0, 0, 0, 0, 0, 0, 0, 0, 0, 0, 0, 0, 0, 0, 0, 0, 0,
      0, 0, 0, 0, 0, 0, 0, 0, 0, 0, 0, 0, 0, 0, 0, 0, 0, 0, 0, 0, 0, 0, 0, 0, 0, 0] := rfl
  rw [h44]
  simp [put_be, big_endian, List.range, List.range.loop, List.replicate]

theorem header_incr (t : List Nat) (op klen delta : Nat) :
    (put_be 4 8 (klen + 20) (put_be 4 40 0xffffffff (put_be 8 32 0 (put_be 8 24 delta
      (((put_be 2 2 klen
        (((List.replicate 44 0 ++ t).set 0 PROTOCOL_BINARY_REQ).set 1 op)).set 4 20).set 5
          0))))).take 44 =
    [PROTOCOL_BINARY_REQ, op] ++ big_endian 2 klen ++ [20, 0, 0, 0] ++
      big_endian 4 (klen + 20) ++ List.replicate 12 0 ++
      (big_endian 8 delta ++ big_endian 8 0 ++ big_endian 4 0xffffffff) := by
  have h44 : List.replicate 44 (0 : Nat) = [0, 0, 0, 0, 0, 0, 0, 0, 0, 0, 0, 0, 0, 0, 0, 0, 0, 0,
      0, 0, 0, 0, 0, 0, 0, 0, 0, 0, 0, 0, 0, 0, 0, 0, 0, 0, 0, 0, 0, 0, 0, 0, 0, 0] := rfl
  rw [h44]
  simp [put_be, big_endian, List.range, List.range.loop, List.replicate]

theorem fill_request_unfold (m : List (List Char × A2BSpec)) (g : a2b_globals)
    (hm : g.a2b_spec_map = some m) (command : List Char) (toks : List token_t)
    (noreply : Bool) (r0 r : a2b_request) (v : List Char) (spec : A2BSpec) (size : Nat)
    (hv : (toks.getD CMD_TOKEN {}).str command = some v)
    (hl : skey_lookup m (skey v) = some spec)
    (h : a2b_fill_request g command toks noreply r0 = .ok (size, r)) (hs : 0 < size) :
    toks.length ≥ spec.ntokens - spec.num_optional ∧ toks.length ≤ spec.ntokens ∧
    size = spec.size ∧
    a2b_fill_request_loop spec command toks (toks.length - 2) 1
      { r0 with
        header := List.set (r0.header.set 0 PROTOCOL_BINARY_REQ) 1
                    (if noreply then spec.cmdq else spec.cmd) } = .ok (true, r) := by
  unfold a2b_fill_request at h
  split at h
  · cases h
  simp only [hv] at h
  split at h
  · cases h
  simp only [hm, hl] at h
  split at h
  swap
  · simp only [Except.ok.injEq, Prod.mk.injEq] at h
    omega
  rename_i hrange
  try simp only at h
  split at h
  · cases h
  · simp only [Except.ok.injEq, Prod.mk.injEq] at h
    omega
  rename_i r3 hloop
  simp only [Except.ok.injEq, Prod.mk.injEq] at h
  obtain ⟨h1, h2⟩ := h
  subst h2
  exact ⟨hrange.1, hrange.2, h1.symm, hloop⟩

theorem fill_delete (command : List Char) (toks : List token_t) (noreply : Bool)
    (r0 r : a2b_request) (v : List Char) (size : Nat)
    (hv : (toks.getD CMD_TOKEN {}).str command = some v)
    (hverb : skey v = "delete".toList)
    (h : a2b_fill_request a2b_ready command toks noreply r0 = .ok (size, r))
    (hs : 0 < size) :
    size = 24 ∧ r =
      { r0 with
        out_key := (toks.getD 1 {}).value
        out_keylen := (toks.getD 1 {}).length % 2 ^ 16
        header := put_be 2 2 ((toks.getD 1 {}).length % 2 ^ 16)
          ((r0.header.set 0 PROTOCOL_BINARY_REQ).set 1
            (if noreply then PROTOCOL_BINARY_CMD_DELETEQ else PROTOCOL_BINARY_CMD_DELETE)) } := by
  obtain ⟨m, hm, _, hd, _, _⟩ := a2b_ready_map
  cases hl : skey_lookup m "delete".toList with
  | none => rw [hl] at hd; cases hd
  | some spec =>
    rw [hl] at hd
    simp only [Option.map_some', Option.some.injEq, Prod.mk.injEq] at hd
    obtain ⟨e1, e2, e3, e4, e5, e6, e7⟩ := hd
    rw [← hverb] at hl
    obtain ⟨g1, g2, g3, g4⟩ := fill_request_unfold m a2b_ready hm command toks noreply r0 r v
      spec size hv hl h hs
    rw [e1, e2] at g1
    rw [e1] at g2
    rw [e4, e5] at g4
    obtain ⟨st1, hst1, hk1⟩ := Option.map_eq_some'.1 e6
    obtain ⟨st2, hst2, hk2⟩ := Option.map_eq_some'.1 e7
    refine ⟨by rw [g3, e3], ?_⟩
    have hlen : toks.length = 3 ∨ toks.length = 4 := by omega
    rcases hlen with hlen | hlen
    · rw [hlen] at g4
      simp only [Nat.reduceSub] at g4
      rw [a2b_fill_request_loop, fill_token_key spec 1 command toks _ st1 (by omega) hst1 hk1
        (by omega) (by omega) (by omega)] at g4
      simp only [a2b_fill_request_loop, Except.ok.injEq, Prod.mk.injEq, true_and] at g4
      exact g4.symm
    · rw [hlen] at g4
      simp only [Nat.reduceSub] at g4
      rw [a2b_fill_request_loop, fill_token_key spec 1 command toks _ st1 (by omega) hst1 hk1
        (by omega) (by omega) (by omega)] at g4
      simp only at g4
      rw [a2b_fill_request_loop, fill_token_other spec 2 command toks _ st2 (by omega) hst2 hk2
        (by omega) (by omega) (by omega)] at g4
      simp only [a2b_fill_request_loop, Except.ok.injEq, Prod.mk.injEq, true_and] at g4
      exact g4.symm

theorem fill_arith (command : List Char) (toks : List token_t) (noreply : Bool)
    (r0 r : a2b_request) (v : List Char) (size : Nat) (cmd cmdq : Nat)
    (hv : (toks.getD CMD_TOKEN {}).str command = some v)
    (hverb : (skey v = "incr".toList ∧ cmd = PROTOCOL_BINARY_CMD_INCREMENT ∧
        cmdq = PROTOCOL_BINARY_CMD_INCREMENTQ) ∨
      (skey v = "decr".toList ∧ cmd = PROTOCOL_BINARY_CMD_DECREMENT ∧
        cmdq = PROTOCOL_BINARY_CMD_DECREMENTQ))
    (h : a2b_fill_request a2b_ready command toks noreply r0 = .ok (size, r))
    (hs : 0 < size) :
    size = 44 ∧ ∃ s delta, (toks.getD 2 {}).str command = some s ∧
      safe_strtoull s = some delta ∧ r =
      { r0 with
        out_key := (toks.getD 1 {}).value
        out_keylen := (toks.getD 1 {}).length % 2 ^ 16
        out_extlen := 20
        header := put_be 4 40 0xffffffff (put_be 8 32 0 (put_be 8 24 delta
          (((put_be 2 2 ((toks.getD 1 {}).length % 2 ^ 16)
            ((r0.header.set 0 PROTOCOL_BINARY_REQ).set 1
              (if noreply then cmdq else cmd))).set 4 20).set 5 0))) } := by
  obtain ⟨m, hm, _, _, hi, hd⟩ := a2b_ready_map
  have key : ∃ spec, skey_lookup m (skey v) = some spec ∧ spec.ntokens = 5 ∧
      spec.num_optional = 1 ∧ spec.size = 44 ∧ spec.cmd = cmd ∧ spec.cmdq = cmdq ∧
      Option.map (fun st => st.tail.head?) ((spec.tokens.getD 1 {}).str spec.line) =
        some (some 'k') ∧
      Option.map (fun st => st.tail.head?) ((spec.tokens.getD 2 {}).str spec.line) =
        some (some 'v') ∧
      Option.map (fun st => st.tail.head?) ((spec.tokens.getD 3 {}).str spec.line) =
        some (some 'n') := by
    rcases hverb with ⟨hk, c1, c2⟩ | ⟨hk, c1, c2⟩
    · rw [hk]
      cases hl : skey_lookup m "incr".toList with
      | none => rw [hl] at hi; cases hi
      | some spec =>
        rw [hl] at hi
        simp only [Option.map_some', Option.some.injEq, Prod.mk.injEq] at hi
        obtain ⟨e1, e2, e3, e4, e5, e6, e7, e8⟩ := hi
        exact ⟨spec, rfl, e1, e2, e3, by rw [e4, c1], by rw [e5, c2], e6, e7, e8⟩
    · rw [hk]
      cases hl : skey_lookup m "decr".toList with
      | none => rw [hl] at hd; cases hd
      | some spec =>
        rw [hl] at hd
        simp only [Option.map_some', Option.some.injEq, Prod.mk.injEq] at hd
        obtain ⟨e1, e2, e3, e4, e5, e6, e7, e8⟩ := hd
        exact ⟨spec, rfl, e1, e2, e3, by rw [e4, c1], by rw [e5, c2], e6, e7, e8⟩
  obtain ⟨spec, hl, e1, e2, e3, e4, e5, e6, e7, e8⟩ := key
  obtain ⟨g1, g2, g3, g4⟩ := fill_request_unfold m a2b_ready hm command toks noreply r0 r v
    spec size hv hl h hs
  rw [e1, e2] at g1
  rw [e1] at g2
  rw [e4, e5] at g4
  obtain ⟨st1, hst1, hk1⟩ := Option.map_eq_some'.1 e6
  obtain ⟨st2, hst2, hk2⟩ := Option.map_eq_some'.1 e7
  obtain ⟨st3, hst3, hk3⟩ := Option.map_eq_some'.1 e8
  refine ⟨by rw [g3, e3], ?_⟩
  have hlen : toks.length = 4 ∨ toks.length = 5 := by omega
  have step2 : ∀ n rr, toks.length ≥ 4 →
      a2b_fill_request_loop spec command toks (n + 2) 1 rr = .ok (true, r) →
      ∃ s delta, (toks.getD 2 {}).str command = some s ∧ safe_strtoull s = some delta ∧
        a2b_fill_request_loop spec command toks n 3
          { rr with
            out_key := (toks.getD 1 {}).value
            out_keylen := (toks.getD 1 {}).length % 2 ^ 16
            out_extlen := 20
            header := put_be 4 40 0xffffffff (put_be 8 32 0 (put_be 8 24 delta
              (((put_be 2 2 ((toks.getD 1 {}).length % 2 ^ 16) rr.header).set 4 20).set 5
                0))) } = .ok (true, r) := by
    intro n rr hge hloop
    rw [a2b_fill_request_loop, fill_token_key spec 1 command toks _ st1 (by omega) hst1 hk1
      (by omega) (by omega) (by omega)] at hloop
    simp only at hloop
    rw [a2b_fill_request_loop, fill_token_value spec 2 command toks _ st2 (by omega) hst2 hk2
      (by omega) (by omega) (by omega)] at hloop
    cases hs2 : (toks.getD 2 {}).str command with
    | none =>
      rw [hs2] at hloop
      simp at hloop
    | some s =>
      rw [hs2] at hloop
      simp only at hloop
      cases hd2 : safe_strtoull s with
      | none =>
        rw [hd2] at hloop
        simp at hloop
      | some delta =>
        rw [hd2] at hloop
        simp only at hloop
        exact ⟨s, delta, rfl, hd2, hloop⟩
  rcases hlen with hlen | hlen
  · rw [hlen] at g4
    obtain ⟨s, delta, q1, q2, q3⟩ := step2 0 _ (by omega) g4
    refine ⟨s, delta, q1, q2, ?_⟩
    simp only [a2b_fill_request_loop, Except.ok.injEq, Prod.mk.injEq, true_and] at q3
    exact q3.symm
  · rw [hlen] at g4
    obtain ⟨s, delta, q1, q2, q3⟩ := step2 1 _ (by omega) g4
    refine ⟨s, delta, q1, q2, ?_⟩
    rw [a2b_fill_request_loop, fill_token_other spec 3 command toks _ st3 (by omega) hst3 hk3
      (by omega) (by omega) (by omega)] at q3
    simp only [a2b_fill_request_loop, Except.ok.injEq, Prod.mk.injEq, true_and] at q3
    exact q3.symm

/-- C20.  Binary request lengths.  With the spec map built by
`cproxy_init_a2b`, when the request construction of
`cproxy_forward_a2b_simple_downstream` succeeds for a command whose verb is
delete, incr or decr: the key token is shorter than 2^16 and `keylen`
(offset 2) is its length in big-endian; `extlen` (offset 4) is 0 for delete
and 20 for incr and decr; `bodylen` (offset 8) is the big-endian encoding of
keylen + extlen; the size queued is 24 + extlen; for incr and decr the
extras carry the parsed decimal argument as big-endian 64-bit delta, initial
0 and expiration 0xffffffff; apart from magic and opcode (C19) every other
byte of the 44-byte header buffer is zero. -/
theorem a2b_build_request_lengths (g : a2b_globals) (hg : cproxy_init_a2b {} = .ok g)
    (command : List Char) (tokens : List token_t) (noreply : Bool) (wbuf : List Nat)
    (v : List Char) (cmd cmdq extlen : Nat) (size : Nat) (r : a2b_request)
    (hv : (tokens.getD CMD_TOKEN {}).str command = some v)
    (hverb : (skey v = "delete".toList ∧ cmd = PROTOCOL_BINARY_CMD_DELETE ∧
        cmdq = PROTOCOL_BINARY_CMD_DELETEQ ∧ extlen = 0) ∨
      (skey v = "incr".toList ∧ cmd = PROTOCOL_BINARY_CMD_INCREMENT ∧
        cmdq = PROTOCOL_BINARY_CMD_INCREMENTQ ∧ extlen = 20) ∨
      (skey v = "decr".toList ∧ cmd = PROTOCOL_BINARY_CMD_DECREMENT ∧
        cmdq = PROTOCOL_BINARY_CMD_DECREMENTQ ∧ extlen = 20))
    (h : a2b_build_request g command tokens (tokens.getD KEY_TOKEN {}).value
      (tokens.getD KEY_TOKEN {}).length noreply wbuf = .ok (size, r))
    (hs : 0 < size) :
    (tokens.getD KEY_TOKEN {}).length < 2 ^ 16 ∧
    r.out_keylen = (tokens.getD KEY_TOKEN {}).length ∧ r.out_extlen = extlen ∧
    size = sizeof_request_header + extlen ∧
    ∃ extras,
      (extlen = 0 → extras = List.replicate 20 0) ∧
      (extlen = 20 → ∃ s delta, (tokens.getD 2 {}).str command = some s ∧
        safe_strtoull s = some delta ∧
        extras = big_endian 8 delta ++ big_endian 8 0 ++ big_endian 4 0xffffffff) ∧
      r.header.take 44 =
        [PROTOCOL_BINARY_REQ, if noreply then cmdq else cmd] ++
          big_endian 2 (tokens.getD KEY_TOKEN {}).length ++ [extlen, 0, 0, 0] ++
          big_endian 4 ((tokens.getD KEY_TOKEN {}).length + extlen) ++ List.replicate 12 0 ++
          extras := by
  rw [cproxy_init_a2b_ready] at hg
  cases hg
  unfold a2b_build_request at h
  have h44 : a2b_ready.a2b_size_max = 44 := by decide
  rw [h44] at h
  simp only at h
  cases hf : a2b_fill_request a2b_ready command tokens noreply
      { header := List.replicate 44 0 ++ List.drop 44 wbuf } with
  | error f => rw [hf] at h; cases h
  | ok x =>
    obtain ⟨size1, r1⟩ := x
    rw [hf] at h
    simp only at h
    by_cases hs1 : size1 > 0
    swap
    · rw [if_neg hs1] at h
      simp only [Except.ok.injEq, Prod.mk.injEq] at h
      omega
    rw [if_pos hs1] at h
    split at h
    · cases h
    split at h
    · cases h
    rename_i hkey
    split at h
    · cases h
    rename_i hklen
    split at h
    · cases h
    simp only [Except.ok.injEq, Prod.mk.injEq] at h
    obtain ⟨h1, h2⟩ := h
    subst h1 h2
    simp only [ne_eq, Decidable.not_not] at hkey hklen
    have hK : KEY_TOKEN = 1 := rfl
    rw [hK] at hkey hklen ⊢
    rcases hverb with ⟨hk, c1, c2, c3⟩ | hverb
    · obtain ⟨e1, e2⟩ := fill_delete command tokens noreply _ r1 v size1 hv hk hf hs1
      subst e2 c1 c2 c3
      simp only at hklen ⊢
      have hlt : (tokens.getD 1 {}).length < 2 ^ 16 := by
        rw [hklen]; exact Nat.mod_lt _ (by norm_num)
      rw [Nat.mod_eq_of_lt hlt]
      refine ⟨hlt, rfl, trivial, e1, List.replicate 20 0,
        fun _ => rfl, fun hc => by omega, ?_⟩
      exact header_delete _ _ _
    · have hv2 : (skey v = "incr".toList ∧ cmd = PROTOCOL_BINARY_CMD_INCREMENT ∧
            cmdq = PROTOCOL_BINARY_CMD_INCREMENTQ) ∨
          (skey v = "decr".toList ∧ cmd = PROTOCOL_BINARY_CMD_DECREMENT ∧
            cmdq = PROTOCOL_BINARY_CMD_DECREMENTQ) := by
        rcases hverb with ⟨a, b, c, _⟩ | ⟨a, b, c, _⟩
        · exact Or.inl ⟨a, b, c⟩
        · exact Or.inr ⟨a, b, c⟩
      have hext : extlen = 20 := by
        rcases hverb with ⟨_, _, _, c⟩ | ⟨_, _, _, c⟩ <;> exact c
      obtain ⟨e1, s, delta, q1, q2, e2⟩ :=
        fill_arith command tokens noreply _ r1 v size1 cmd cmdq hv hv2 hf hs1
      subst e2 hext
      simp only at hklen ⊢
      have hlt : (tokens.getD 1 {}).length < 2 ^ 16 := by
        rw [hklen]; exact Nat.mod_lt _ (by norm_num)
      rw [Nat.mod_eq_of_lt hlt]
      refine ⟨hlt, rfl, trivial, e1, _, fun hc => by omega,
        fun _ => ⟨s, delta, q1, q2, rfl⟩, ?_⟩
      exact header_incr _ _ _ _

theorem build_incr_request :
    a2b_build_request a2b_ready "incr key 300 noreply".toList incr_tokens
      (incr_tokens.getD KEY_TOKEN {}).value (incr_tokens.getD KEY_TOKEN {}).length true
      (List.replicate 44 7) = .ok (44, incr_built) := by
  decide

/-- Witness for C20: the request built for `incr key 300 noreply`. -/
theorem a2b_build_request_lengths_witness :
    cproxy_init_a2b {} = .ok a2b_ready ∧
    (incr_tokens.getD CMD_TOKEN {}).str "incr key 300 noreply".toList =
      some "incr key 300 noreply".toList ∧
    a2b_build_request a2b_ready "incr key 300 noreply".toList incr_tokens
      (incr_tokens.getD KEY_TOKEN {}).value (incr_tokens.getD KEY_TOKEN {}).length true
      (List.replicate 44 7) = .ok (44, incr_built) ∧
    (incr_tokens.getD KEY_TOKEN {}).length < 2 ^ 16 ∧
    incr_built.out_keylen = (incr_tokens.getD KEY_TOKEN {}).length ∧
    incr_built.out_extlen = 20 ∧
    44 = sizeof_request_header + 20 ∧
    ∃ extras,
      (20 = 0 → extras = List.replicate 20 0) ∧
      (20 = 20 → ∃ s delta,
        (incr_tokens.getD 2 {}).str "incr key 300 noreply".toList = some s ∧
        safe_strtoull s = some delta ∧
        extras = big_endian 8 delta ++ big_endian 8 0 ++ big_endian 4 0xffffffff) ∧
      incr_built.header.take 44 =
        [PROTOCOL_BINARY_REQ,
          if true = true then PROTOCOL_BINARY_CMD_INCREMENTQ
          else PROTOCOL_BINARY_CMD_INCREMENT] ++
          big_endian 2 (incr_tokens.getD KEY_TOKEN {}).length ++ [20, 0, 0, 0] ++
          big_endian 4 ((incr_tokens.getD KEY_TOKEN {}).length + 20) ++ List.replicate 12 0 ++
          extras :=
  ⟨cproxy_init_a2b_ready, by decide, build_incr_request,
    a2b_build_request_lengths a2b_ready cproxy_init_a2b_ready "incr key 300 noreply".toList
      incr_tokens true (List.replicate 44 7) "incr key 300 noreply".toList
      PROTOCOL_BINARY_CMD_INCREMENT PROTOCOL_BINARY_CMD_INCREMENTQ 20 44 incr_built (by decide)
      (Or.inr (Or.inl ⟨by decide, rfl, rfl, rfl⟩)) build_incr_request (by decide)⟩

theorem get_c_set_c (w : World) (a b : Nat) (v : conn) :
    (w.set_c a v).get_c b = if a = b ∧ a < w.conns.length then some v else w.get_c b := by
  unfold World.get_c World.set_c
  simp only
  by_cases h : a = b
  · subst h
    by_cases h2 : a < w.conns.length
    · simp [h2]
    · simp [h2]
      have : w.conns.length ≤ a := by omega
      rw [List.getElem?_eq_none_iff.2 this]
      simp; omega
  · simp [h, List.getElem?_set_ne h]

theorem out_of_out_string (w : World) (u : Nat) (line : String) (w1 : World)
    (h : out_string w u line = .ok w1) :
    (w1.get_c u).map (fun x => x.out) = (w.get_c u).map (fun x => x.out ++ [line]) ∧
    (∀ b, b ≠ u → w1.get_c b = w.get_c b) := by
  unfold out_string at h
  cases hu : w.get_c u with
  | none => simp [hu] at h
  | some ucc =>
    simp only [hu, Except.ok.injEq] at h
    subst h
    have hlt := lt_of_get_c hu
    constructor
    · rw [get_c_set_c]
      simp [hlt]
    · intro b hb
      rw [get_c_set_c]
      simp [Ne.symm hb]

theorem out_of_conn_set_state (w : World) (c : Nat) (s : conn_state) (w1 : World) (u : Nat)
    (h : conn_set_state w c s = .ok w1) :
    (w1.get_c u).map (fun x => x.out) = (w.get_c u).map (fun x => x.out) := by
  unfold conn_set_state at h
  cases hc : w.get_c c with
  | none => simp [hc] at h
  | some cc =>
    simp only [hc, Except.ok.injEq] at h
    subst h
    rw [get_c_set_c]
    by_cases e : c = u ∧ c < w.conns.length
    · rw [if_pos e, ← e.1, hc]
      rfl
    · rw [if_neg e]

/-- C17.  Storage-reply mapping.  For a complete SET, ADD, REPLACE, DELETE,
APPEND or PREPEND response on the socket `c` of a downstream with the
upstream `u` attached: whenever `a2b_process_downstream_response` returns,
exactly one line was given to `out_string` for `u`, namely `"STORED"` for
status 0, `"EXISTS"` for KEY_EEXISTS, `"NOT_FOUND"` for KEY_ENOENT,
`"NOT_STORED"` for NOT_STORED and `"SERVER_ERROR a2b error"` for every other
status (ENOMEM included); the output of `u` is its former output followed by
that line, and stays so when the write event is registered.  The call
returns whenever its entry assertions hold. -/
theorem a2b_storage_reply (env : Env) (w : World) (c d u : Nat) (cc : conn) (dd : downstream)
    (hc : w.get_c c = some cc)
    (hcmd : cc.cmd = PROTOCOL_BINARY_CMD_SET ∨ cc.cmd = PROTOCOL_BINARY_CMD_ADD ∨
      cc.cmd = PROTOCOL_BINARY_CMD_REPLACE ∨ cc.cmd = PROTOCOL_BINARY_CMD_DELETE ∨
      cc.cmd = PROTOCOL_BINARY_CMD_APPEND ∨ cc.cmd = PROTOCOL_BINARY_CMD_PREPEND)
    (hext : cc.extra = some d) (hd : w.get_d d = some dd) (hu : dd.upstream_conn = some u) :
    (a2b_storage_line 0 = "STORED" ∧
      a2b_storage_line PROTOCOL_BINARY_RESPONSE_KEY_EEXISTS = "EXISTS" ∧
      a2b_storage_line PROTOCOL_BINARY_RESPONSE_KEY_ENOENT = "NOT_FOUND" ∧
      a2b_storage_line PROTOCOL_BINARY_RESPONSE_NOT_STORED = "NOT_STORED" ∧
      a2b_storage_line PROTOCOL_BINARY_RESPONSE_ENOMEM = "SERVER_ERROR a2b error" ∧
      ∀ s, s ≠ 0 → s ≠ PROTOCOL_BINARY_RESPONSE_KEY_EEXISTS →
        s ≠ PROTOCOL_BINARY_RESPONSE_KEY_ENOENT → s ≠ PROTOCOL_BINARY_RESPONSE_NOT_STORED →
        a2b_storage_line s = "SERVER_ERROR a2b error") ∧
    (∀ w1, a2b_process_downstream_response env w c = .ok w1 →
      ∃ w0, out_string (w.set_c c { cc with item := none }) u
          (a2b_storage_line cc.binary_header.status) = .ok w0 ∧
        (w0.get_c u).map (fun x => x.out) =
          (w.get_c u).map (fun x => x.out ++ [a2b_storage_line cc.binary_header.status]) ∧
        a2b_response_done env w0 c u = .ok w1 ∧
        (env.update_event w0 u = true →
          (w1.get_c u).map (fun x => x.out) = (w0.get_c u).map (fun x => x.out))) ∧
    (cc.cmd_start ≠ none → cc.next = none → cc.noreply = false →
      (∀ ucc, w.get_c u = some ucc → ucc.next = none) → u < w.conns.length →
      ∃ w1, a2b_process_downstream_response env w c = .ok w1) := by
  have hG : ¬ (cc.cmd = PROTOCOL_BINARY_CMD_GET ∨ cc.cmd = PROTOCOL_BINARY_CMD_GETK) := by
    rcases hcmd with h | h | h | h | h | h <;> rw [h] <;> decide
  have hF : ¬ (cc.cmd = PROTOCOL_BINARY_CMD_FLUSH ∨ cc.cmd = PROTOCOL_BINARY_CMD_NOOP) := by
    rcases hcmd with h | h | h | h | h | h <;> rw [h] <;> decide
  have hge : cc.cmd ≥ 0 := by
    rcases hcmd with h | h | h | h | h | h <;> rw [h] <;> decide
  have hclt := lt_of_get_c hc
  have hout : ∀ ucc, w.get_c u = some ucc →
      ∃ ucc0, (w.set_c c { cc with item := none }).get_c u = some ucc0 ∧
        ucc0.next = ucc.next ∧ ucc0.out = ucc.out := by
    intro ucc hucc
    rw [get_c_set_c]
    by_cases e : c = u ∧ c < w.conns.length
    · rw [if_pos e]
      rw [← e.1, hc] at hucc
      cases hucc
      exact ⟨_, rfl, rfl, rfl⟩
    · rw [if_neg e]
      exact ⟨ucc, hucc, rfl, rfl⟩
  refine ⟨⟨by decide, by decide, by decide, by decide, by decide, ?_⟩, ?_, ?_⟩
  · intro s h0 h1 h2 h3
    unfold a2b_storage_line
    simp [h0, h1, h2, h3]
  · intro w1 h
    unfold a2b_process_downstream_response at h
    simp only [hc, hge, not_true_eq_false, if_false] at h
    obtain ⟨wz, hwz⟩ : ∃ wz, wz = w.set_c c { cc with item := none } := ⟨_, rfl⟩
    rw [← hwz] at h ⊢
    by_cases hn : cc.next ≠ none
    · rw [if_pos hn] at h; cases h
    rw [if_neg hn] at h
    cases hcs : cc.cmd_start with
    | none => simp [hcs] at h
    | some cmd_start =>
      simp only [hcs, hext, hd, hu, if_neg hG, if_neg hF, if_pos hcmd] at h
      by_cases hnr : cc.noreply ≠ false
      · rw [if_pos hnr] at h; cases h
      rw [if_neg hnr] at h
      cases hucc0 : wz.get_c u with
      | none =>
        rw [hucc0] at h
        cases h
      | some ucc0 =>
        rw [hucc0] at h
        simp only at h
        by_cases hun : ucc0.next ≠ none
        · rw [if_pos hun] at h; cases h
        rw [if_neg hun] at h
        cases ho : out_string wz u (a2b_storage_line cc.binary_header.status) with
        | error f =>
          rw [ho] at h
          cases h
        | ok w0 =>
          rw [ho] at h
          simp only at h
          refine ⟨w0, rfl, ?_, h, ?_⟩
          · rw [(out_of_out_string _ _ _ _ ho).1, hwz]
            rw [get_c_set_c]
            by_cases e : c = u ∧ c < w.conns.length
            · rw [if_pos e, ← e.1, hc]
              rfl
            · rw [if_neg e]
          · intro hev
            unfold a2b_response_done at h
            rw [if_pos hev] at h
            exact out_of_conn_set_state _ _ _ _ _ h
  · intro hcs hnext hnr hun hult
    obtain ⟨cmd_start, hcs1⟩ := Option.ne_none_iff_exists'.1 hcs
    obtain ⟨ucc, hucc⟩ : ∃ ucc, w.get_c u = some ucc := by
      unfold World.get_c
      exact ⟨_, List.getElem?_eq_getElem hult⟩
    obtain ⟨ucc0, hucc0, hn0, _⟩ := hout ucc hucc
    have hn1 : ¬ ucc0.next ≠ none := by rw [hn0, hun ucc hucc]; simp
    obtain ⟨wz, hwz⟩ : ∃ wz, wz = w.set_c c { cc with item := none } := ⟨_, rfl⟩
    rw [← hwz] at hucc0
    have hzl : wz.conns.length = w.conns.length := by rw [hwz]; simp [World.set_c]
    unfold a2b_process_downstream_response
    simp only [hc, hge, not_true_eq_false, if_false]
    rw [← hwz]
    simp only [hnext, ne_eq, hcs1, hext, hd, hu, if_neg hG, if_neg hF, if_pos hcmd, hnr,
      hucc0, if_neg hn1, not_true_eq_false, if_false]
    unfold out_string
    simp only [hucc0]
    unfold a2b_response_done
    split
    · unfold conn_set_state
      have : ∃ x, (wz.set_c u
          { ucc0 with out := ucc0.out ++ [a2b_storage_line cc.binary_header.status] }).get_c c
            = some x := by
        unfold World.get_c World.set_c
        simp only [List.length_set, List.getElem?_eq_getElem, hclt, hzl]
        exact ⟨_, rfl⟩
      obtain ⟨x, hx⟩ := this
      rw [hx]
      exact ⟨_, rfl⟩
    · unfold cproxy_close_conn conn_set_state
      have : ∃ x, ((wz.set_c u
          { ucc0 with out := ucc0.out ++ [a2b_storage_line cc.binary_header.status]
            }).incr_tot_oom).get_c u = some x := by
        unfold World.get_c World.set_c World.incr_tot_oom World.set_stats
        simp only [List.length_set, List.getElem?_eq_getElem, hult, hzl]
        exact ⟨_, rfl⟩
      obtain ⟨x, hx⟩ := this
      simp only [hx, bind, Except.bind]
      exact ⟨_, rfl⟩

/-- Witness for C17: a SET response with status ENOMEM. -/
theorem a2b_storage_reply_witness :
    (response_world 1 0x82).get_c 1 = some (response_conn 1 0x82) ∧
    (response_world 1 0x82).get_d 0 = some response_downstream ∧
    a2b_storage_line (response_conn 1 0x82).binary_header.status = "SERVER_ERROR a2b error" ∧
    ∃ w1, a2b_process_downstream_response quiet_env (response_world 1 0x82) 1 = .ok w1 ∧
      ∃ w0, out_string ((response_world 1 0x82).set_c 1 { response_conn 1 0x82 with item := none })
          0 (a2b_storage_line (response_conn 1 0x82).binary_header.status) = .ok w0 ∧
        (w0.get_c 0).map (fun x => x.out) =
          ((response_world 1 0x82).get_c 0).map (fun x => x.out ++
            [a2b_storage_line (response_conn 1 0x82).binary_header.status]) ∧
        a2b_response_done quiet_env w0 1 0 = .ok w1 ∧
        (quiet_env.update_event w0 0 = true →
          (w1.get_c 0).map (fun x => x.out) = (w0.get_c 0).map (fun x => x.out)) :=
  ⟨by decide, by decide, by decide,
    (a2b_process_downstream_response quiet_env (response_world 1 0x82) 1).toOption.getD
      (response_world 1 0x82), by decide,
    (a2b_storage_reply quiet_env (response_world 1 0x82) 1 0 0 (response_conn 1 0x82)
      response_downstream (by decide) (Or.inl (by decide)) (by decide) (by decide)
      (by decide)).2.1 _ (by decide)⟩

theorem out_of_add_conn_suffix (env : Env) (w : World) (u : Nat) (b : Bool) (w1 : World) (x : Nat)
    (h : add_conn_suffix env w u = .ok (b, w1)) :
    (w1.get_c x).map (fun y => y.out) = (w.get_c x).map (fun y => y.out) := by
  unfold add_conn_suffix at h
  cases hu : w.get_c u with
  | none => simp [hu] at h
  | some ucc =>
    simp only [hu] at h
    have key : ∀ v : conn, v.out = ucc.out →
        ((w.set_c u v).get_c x).map (fun y => y.out) = (w.get_c x).map (fun y => y.out) := by
      intro v hv
      rw [get_c_set_c]
      by_cases e : u = x ∧ u < w.conns.length
      · rw [if_pos e, ← e.1, hu]
        simp [hv]
      · rw [if_neg e]
    by_cases h0 : ¬ ucc.suffixsize > 0
    · rw [if_pos h0] at h; cases h
    rw [if_neg h0] at h
    obtain ⟨cc1, hcc1, hout⟩ : ∃ cc1 : conn, cc1 =
        (if ucc.suffixleft ≥ ucc.suffixsize ∧ env.realloc_suffixlist w u = true then
          { ucc with suffixsize := ucc.suffixsize * 2 } else ucc) ∧ cc1.out = ucc.out := by
      refine ⟨_, rfl, ?_⟩
      split <;> rfl
    simp only [← hcc1] at h
    split at h
    · split at h
      · simp only [Except.ok.injEq, Prod.mk.injEq] at h
        obtain ⟨_, h⟩ := h
        subst h
        exact key _ hout
      · simp only [Except.ok.injEq, Prod.mk.injEq] at h
        obtain ⟨_, h⟩ := h
        subst h
        exact key _ hout
    · simp only [Except.ok.injEq, Prod.mk.injEq] at h
      obtain ⟨_, h⟩ := h
      subst h
      exact key _ hout

theorem of_big_endian_big_endian (v : Nat) (hv : v < 2 ^ 64) :
    of_big_endian (big_endian 8 v) = v := by
  simp only [big_endian, of_big_endian, List.range, List.range.loop, List.map, List.foldl]
  norm_num
  omega

/-- C18 (counterexample).  For the status ENOMEM the line written for an
INCREMENT response is `"SERVER_ERROR a2b arith error"`, while the SET-family
mapping writes `"SERVER_ERROR a2b error"` for that status. -/
theorem a2b_arith_line_differs :
    (a2b_process_downstream_response quiet_env
      (response_world PROTOCOL_BINARY_CMD_INCREMENT PROTOCOL_BINARY_RESPONSE_ENOMEM) 1).map
        (fun w => (w.get_c 0).map (fun x => x.out)) =
      .ok (some ["SERVER_ERROR a2b arith error"]) ∧
    (a2b_process_downstream_response quiet_env
      (response_world PROTOCOL_BINARY_CMD_SET PROTOCOL_BINARY_RESPONSE_ENOMEM) 1).map
        (fun w => (w.get_c 0).map (fun x => x.out)) =
      .ok (some ["SERVER_ERROR a2b error"]) ∧
    a2b_arith_line PROTOCOL_BINARY_RESPONSE_ENOMEM ≠
      a2b_storage_line PROTOCOL_BINARY_RESPONSE_ENOMEM := by
  decide

/-- C18 (amended).  Arithmetic-reply mapping.  For a complete INCREMENT or
DECREMENT response on the socket `c` of a downstream with the upstream `u`
attached, whenever `a2b_process_downstream_response` returns: for a non-zero
status exactly one line is written, which for KEY_EEXISTS, KEY_ENOENT and
NOT_STORED is the line of the SET-family mapping and for every other status
is `"SERVER_ERROR a2b arith error"` (the SET family writes
`"SERVER_ERROR a2b error"`); for status 0, when `add_conn_suffix` hands out
a buffer, the line written is the decimal representation of the 8 bytes
after the header read as a big-endian number. -/
theorem a2b_arith_reply (env : Env) (w : World) (c d u : Nat) (cc : conn) (dd : downstream)
    (hc : w.get_c c = some cc)
    (hcmd : cc.cmd = PROTOCOL_BINARY_CMD_INCREMENT ∨ cc.cmd = PROTOCOL_BINARY_CMD_DECREMENT)
    (hext : cc.extra = some d) (hd : w.get_d d = some dd) (hu : dd.upstream_conn = some u) :
    (a2b_arith_line PROTOCOL_BINARY_RESPONSE_KEY_EEXISTS =
        a2b_storage_line PROTOCOL_BINARY_RESPONSE_KEY_EEXISTS ∧
      a2b_arith_line PROTOCOL_BINARY_RESPONSE_KEY_ENOENT =
        a2b_storage_line PROTOCOL_BINARY_RESPONSE_KEY_ENOENT ∧
      a2b_arith_line PROTOCOL_BINARY_RESPONSE_NOT_STORED =
        a2b_storage_line PROTOCOL_BINARY_RESPONSE_NOT_STORED ∧
      ∀ s, s ≠ 0 → s ≠ PROTOCOL_BINARY_RESPONSE_KEY_EEXISTS →
        s ≠ PROTOCOL_BINARY_RESPONSE_KEY_ENOENT → s ≠ PROTOCOL_BINARY_RESPONSE_NOT_STORED →
        a2b_arith_line s = "SERVER_ERROR a2b arith error" ∧
        a2b_storage_line s = "SERVER_ERROR a2b error") ∧
    (∀ v, v < 2 ^ 64 → of_big_endian (big_endian 8 v) = v) ∧
    (∀ w1, a2b_process_downstream_response env w c = .ok w1 → cc.binary_header.status ≠ 0 →
      ∃ w0, out_string (w.set_c c { cc with item := none }) u
          (a2b_arith_line cc.binary_header.status) = .ok w0 ∧
        (w0.get_c u).map (fun x => x.out) =
          (w.get_c u).map (fun x => x.out ++ [a2b_arith_line cc.binary_header.status]) ∧
        a2b_response_done env w0 c u = .ok w1) ∧
    (∀ w1, a2b_process_downstream_response env w c = .ok w1 → cc.binary_header.status = 0 →
      ∀ wa, add_conn_suffix env (w.set_c c { cc with item := none }) u = .ok (true, wa) →
      ∃ cmd_start bs w0, cc.cmd_start = some cmd_start ∧
        response_incr_value cmd_start = some bs ∧
        out_string wa u (toString (of_big_endian bs)) = .ok w0 ∧
        (w0.get_c u).map (fun x => x.out) =
          (w.get_c u).map (fun x => x.out ++ [toString (of_big_endian bs)]) ∧
        a2b_response_done env w0 c u = .ok w1) := by
  have hG : ¬ (cc.cmd = PROTOCOL_BINARY_CMD_GET ∨ cc.cmd = PROTOCOL_BINARY_CMD_GETK) := by
    rcases hcmd with h | h <;> rw [h] <;> decide
  have hF : ¬ (cc.cmd = PROTOCOL_BINARY_CMD_FLUSH ∨ cc.cmd = PROTOCOL_BINARY_CMD_NOOP) := by
    rcases hcmd with h | h <;> rw [h] <;> decide
  have hS : ¬ (cc.cmd = PROTOCOL_BINARY_CMD_SET ∨ cc.cmd = PROTOCOL_BINARY_CMD_ADD ∨
      cc.cmd = PROTOCOL_BINARY_CMD_REPLACE ∨ cc.cmd = PROTOCOL_BINARY_CMD_DELETE ∨
      cc.cmd = PROTOCOL_BINARY_CMD_APPEND ∨ cc.cmd = PROTOCOL_BINARY_CMD_PREPEND) := by
    rcases hcmd with h | h <;> rw [h] <;> decide
  have hge : cc.cmd ≥ 0 := by
    rcases hcmd with h | h <;> rw [h] <;> decide
  have hwz : ∀ x, ((w.set_c c { cc with item := none }).get_c x).map (fun y => y.out) =
      (w.get_c x).map (fun y => y.out) := by
    intro x
    rw [get_c_set_c]
    by_cases e : c = x ∧ c < w.conns.length
    · rw [if_pos e, ← e.1, hc]
      rfl
    · rw [if_neg e]
  have hmap : ∀ (o : Option conn) (l : String),
      (o.map (fun x => x.out)).map (fun x => x ++ [l]) = o.map (fun x => x.out ++ [l]) := by
    intro o l
    cases o <;> rfl
  have hstart : ∀ w1, a2b_process_downstream_response env w c = .ok w1 →
      ∃ cmd_start, cc.cmd_start = some cmd_start ∧
        ((cc.binary_header.status = 0 ∧
          (match add_conn_suffix env (w.set_c c { cc with item := none }) u with
            | .error f => .error f
            | .ok (true, w1) =>
              match response_incr_value cmd_start with
              | none => .error .bad_pointer
              | some bs =>
                match out_string w1 u (toString (of_big_endian bs)) with
                | .error f => .error f
                | .ok w2 => a2b_response_done env w2 c u
            | .ok (false, w1) =>
              match cproxy_close_conn env w1.incr_tot_oom u with
              | .error f => .error f
              | .ok w2 => a2b_response_done env w2 c u : Except Fault World) = .ok w1) ∨
         (cc.binary_header.status ≠ 0 ∧
          (match out_string (w.set_c c { cc with item := none }) u
              (a2b_arith_line cc.binary_header.status) with
            | .error f => .error f
            | .ok w1 => a2b_response_done env w1 c u : Except Fault World) = .ok w1)) := by
    intro w1 h
    unfold a2b_process_downstream_response at h
    simp only [hc, hge, not_true_eq_false, if_false] at h
    obtain ⟨wz, hwzd⟩ : ∃ wz, wz = w.set_c c { cc with item := none } := ⟨_, rfl⟩
    rw [← hwzd] at h ⊢
    by_cases hn : cc.next ≠ none
    · rw [if_pos hn] at h; cases h
    rw [if_neg hn] at h
    cases hcs : cc.cmd_start with
    | none => simp [hcs] at h
    | some cmd_start =>
      simp only [hcs, hext, hd, hu, if_neg hG, if_neg hF, if_neg hS, if_pos hcmd] at h
      cases hucc0 : wz.get_c u with
      | none =>
        rw [hucc0] at h
        cases h
      | some ucc0 =>
        rw [hucc0] at h
        simp only at h
        by_cases hun : ucc0.next ≠ none
        · rw [if_pos hun] at h; cases h
        rw [if_neg hun] at h
        by_cases hst : cc.binary_header.status = 0
        · rw [if_pos hst] at h
          exact ⟨cmd_start, rfl, Or.inl ⟨hst, h⟩⟩
        · rw [if_neg hst] at h
          exact ⟨cmd_start, rfl, Or.inr ⟨hst, h⟩⟩
  refine ⟨⟨by decide, by decide, by decide, ?_⟩, of_big_endian_big_endian, ?_, ?_⟩
  · intro s h0 h1 h2 h3
    unfold a2b_arith_line a2b_storage_line
    simp [h0, h1, h2, h3]
  · intro w1 h hst
    obtain ⟨cmd_start, _, h1 | h1⟩ := hstart w1 h
    · exact absurd h1.1 hst
    obtain ⟨_, h1⟩ := h1
    cases ho : out_string (w.set_c c { cc with item := none }) u
        (a2b_arith_line cc.binary_header.status) with
    | error f =>
      rw [ho] at h1
      cases h1
    | ok w0 =>
      rw [ho] at h1
      simp only at h1
      refine ⟨w0, rfl, ?_, h1⟩
      rw [(out_of_out_string _ _ _ _ ho).1, ← hmap, hwz, hmap]
  · intro w1 h hst wa hwa
    obtain ⟨cmd_start, hcs, h1 | h1⟩ := hstart w1 h
    swap
    · exact absurd hst h1.1
    obtain ⟨_, h1⟩ := h1
    rw [hwa] at h1
    simp only at h1
    cases hv : response_incr_value cmd_start with
    | none =>
      rw [hv] at h1
      cases h1
    | some bs =>
      rw [hv] at h1
      simp only at h1
      cases ho : out_string wa u (toString (of_big_endian bs)) with
      | error f =>
        rw [ho] at h1
        cases h1
      | ok w0 =>
        rw [ho] at h1
        simp only at h1
        refine ⟨cmd_start, bs, w0, hcs, hv, ho, ?_, h1⟩
        rw [(out_of_out_string _ _ _ _ ho).1, ← hmap,
          out_of_add_conn_suffix env _ u true wa u hwa, hwz, hmap]

/-- Witness for C18: an INCREMENT response with status 0 and the counter
258. -/
theorem a2b_arith_reply_witness :
    (response_world 5 0).get_c 1 = some (response_conn 5 0) ∧
    (response_world 5 0).get_d 0 = some response_downstream ∧
    (a2b_process_downstream_response quiet_env (response_world 5 0) 1).map
      (fun w => (w.get_c 0).map (fun x => x.out)) = .ok (some ["258"]) ∧
    ∀ v, v < 2 ^ 64 → of_big_endian (big_endian 8 v) = v :=
  ⟨by decide, by decide, by decide,
    (a2b_arith_reply quiet_env (response_world 5 0) 1 0 0 (response_conn 5 0)
      response_downstream (by decide) (Or.inl (by decide)) (by decide) (by decide)
      (by decide)).2.1⟩

/-- C16 (failing input).  Two upstreams `get a` and `get b` are attached and
the server hash sends `a` to the first socket and `b` to the second.
`cproxy_forward_a2b_multiget_downstream` queues `get`, ` a`, `\r\n` on the
first socket but only ` b`, `\r\n` on the second: the verb is missing on the
socket whose first key comes from the second upstream. -/
theorem multiget_second_upstream_no_verb :
    cproxy_find_downstream_conn hash_env (multiget_world "get a" "get b") 0 (some ['b']) =
      .ok (some 3) ∧
    (cproxy_forward_a2b_multiget_downstream hash_env (multiget_world "get a" "get b") 0 0).map
      (fun r => (r.1, (r.2.get_c 2).map (fun c => c.iov), (r.2.get_c 3).map (fun c => c.iov))) =
      .ok (true, some ["get", " a", "\r\n"], some [" b", "\r\n"]) := by
  decide

theorem skey_lookup_insert_self {α : Type} (m : List (List Char × α)) (k : List Char) (v : α) :
    skey_lookup (skey_insert m k v) k = some v := by
  simp [skey_lookup, skey_insert]

theorem skey_lookup_insert_ne {α : Type} (m : List (List Char × α)) (k k1 : List Char) (v : α)
    (h : k1 ≠ k) : skey_lookup (skey_insert m k v) k1 = skey_lookup m k1 := by
  unfold skey_lookup skey_insert
  rw [List.find?_cons_of_neg]
  · congr 1
    induction m with
    | nil => rfl
    | cons e m ih =>
      by_cases he : e.1 = k
      · have h1 : ¬ (e.1 = k1) := fun hh => h (hh ▸ he)
        simp only [List.filter_cons, he, ne_eq, not_true_eq_false, decide_False,
          Bool.false_eq_true, if_false]
        rw [List.find?_cons_of_neg _ (by simpa using h1)]
        exact ih
      · simp only [List.filter_cons, he, ne_eq, not_false_eq_true, decide_True, if_true]
        by_cases h2 : e.1 = k1
        · rw [List.find?_cons_of_pos _ (by simpa using h2),
            List.find?_cons_of_pos _ (by simpa using h2)]
        · rw [List.find?_cons_of_neg _ (by simpa using h2),
            List.find?_cons_of_neg _ (by simpa using h2)]
          exact ih
  · simpa using Ne.symm h

theorem all_iov_set_c (w : World) (c : Nat) (cc v : conn) (s : String)
    (hc : w.get_c c = some cc) :
    (w.set_c c v).all_iov.count s + cc.iov.count s = w.all_iov.count s + v.iov.count s := by
  have hlt := lt_of_get_c hc
  have hcc : w.conns[c] = cc := by
    unfold World.get_c at hc
    rw [List.getElem?_eq_getElem hlt] at hc
    exact Option.some.inj hc
  have h1 : w.conns = w.conns.take c ++ cc :: w.conns.drop (c + 1) := by
    rw [← hcc, ← List.drop_eq_getElem_cons hlt, List.take_append_drop]
  have h2 : (w.set_c c v).conns = w.conns.take c ++ v :: w.conns.drop (c + 1) := by
    unfold World.set_c
    simp only
    rw [List.set_eq_take_append_cons_drop, if_pos hlt]
  unfold World.all_iov
  rw [h2]
  conv_rhs => rw [h1]
  simp only [List.map_append, List.map_cons, List.flatten_append, List.flatten_cons,
    List.count_append]
  omega

theorem split_keys_step (rest : List Char) :
    (rest.splitOn ' ').filter (fun k => k ≠ []) =
      (if rest.takeWhile (fun ch => ch ≠ ' ') ≠ [] then [rest.takeWhile (fun ch => ch ≠ ' ')]
        else []) ++
      (match rest.dropWhile (fun ch => ch ≠ ' ') with
        | [] => []
        | _ :: rest1 => (rest1.splitOn ' ').filter (fun k => k ≠ [])) := by
  have key : ∀ l : List Char, l.splitOn ' ' =
      l.takeWhile (fun ch => ch ≠ ' ') ::
        (match l.dropWhile (fun ch => ch ≠ ' ') with
          | [] => []
          | _ :: l1 => l1.splitOn ' ') := by
    intro l
    induction l with
    | nil => rfl
    | cons x xs ih =>
      unfold List.splitOn at ih ⊢
      rw [List.splitOnP_cons]
      by_cases hx : x = ' '
      · subst hx
        simp
      · have hb : (x == ' ') = false := by simpa using hx
        simp only [hb, Bool.false_eq_true, if_false]
        rw [ih]
        simp [List.takeWhile_cons, List.dropWhile_cons, hx]
  rw [key rest]
  simp only [List.filter_cons]
  by_cases h : rest.takeWhile (fun ch => ch ≠ ' ') = []
  · simp only [h, ne_eq, not_true_eq_false, decide_False, Bool.false_eq_true, if_false,
      List.nil_append]
    split <;> simp
  · simp only [h, ne_eq, not_false_eq_true, decide_True, if_true, List.singleton_append]
    split <;> simp

theorem conn_frame.refl (w : World) : conn_frame w w :=
  fun _ cc h => ⟨cc, h, rfl, rfl, rfl⟩

theorem conn_frame.trans {w w1 w2 : World} (h1 : conn_frame w w1) (h2 : conn_frame w1 w2) :
    conn_frame w w2 := by
  intro c cc hc
  obtain ⟨cc1, hc1, a1, a2, a3⟩ := h1 c cc hc
  obtain ⟨cc2, hc2, b1, b2, b3⟩ := h2 c cc1 hc1
  exact ⟨cc2, hc2, b1.trans a1, b2.trans a2, b3.trans a3⟩

theorem conn_frame_of_conns_eq {w w1 : World} (h : w1.conns = w.conns) : conn_frame w w1 := by
  intro c cc hc
  refine ⟨cc, ?_, rfl, rfl, rfl⟩
  unfold World.get_c at hc ⊢
  rw [h]; exact hc

theorem conn_frame_set_c (w : World) (c : Nat) (cc v : conn) (hc : w.get_c c = some cc)
    (h1 : v.next = cc.next) (h2 : v.cmd_start = cc.cmd_start) (h3 : v.noreply = cc.noreply) :
    conn_frame w (w.set_c c v) := by
  intro a ca ha
  rw [get_c_set_c]
  by_cases hac : c = a
  · subst hac
    rw [hc] at ha
    cases ha
    rw [if_pos ⟨rfl, lt_of_get_c hc⟩]
    exact ⟨v, rfl, h1, h2, h3⟩
  · rw [if_neg (fun hh => hac hh.1)]
    exact ⟨ca, ha, rfl, rfl, rfl⟩

theorem conn_frame.chain {w w1 : World} (hf : conn_frame w w1) {h : Option Nat} {xs : List Nat}
    (hc : IsChain w.cnext h xs) : IsChain w1.cnext h xs := by
  refine hc.congr ?_
  intro a ha
  obtain ⟨p, hp⟩ := hc.live ha
  unfold World.cnext at hp ⊢
  cases hg : w.get_c a with
  | none => rw [hg] at hp; cases hp
  | some cc =>
    obtain ⟨cc1, hc1, a1, _, _⟩ := hf a cc hg
    rw [hc1]
    simp [a1]

theorem conn_frame.request_keys {w w1 : World} (hf : conn_frame w w1) {u : Nat} {cc : conn}
    (hc : w.get_c u = some cc) : w1.request_keys u = w.request_keys u := by
  obtain ⟨cc1, hc1, _, a2, _⟩ := hf u cc hc
  unfold World.request_keys
  rw [hc1, hc]
  simp only [a2]

theorem all_iov_of_conns_eq {w w1 : World} (h : w1.conns = w.conns) :
    w1.all_iov = w.all_iov := by
  unfold World.all_iov
  rw [h]

theorem add_iov_frame (env : Env) (w : World) (c : Nat) (s : String) (b : Bool) (w1 : World)
    (h : add_iov env w c s = .ok (b, w1)) :
    conn_frame w w1 ∧ w1.ds = w.ds ∧
      ∀ t, w1.all_iov.count t ≤ w.all_iov.count t + (if t = s then 1 else 0) := by
  unfold add_iov at h
  cases hc : w.get_c c with
  | none => rw [hc] at h; cases h
  | some cc =>
    rw [hc] at h
    simp only at h
    split at h
    · cases h
      refine ⟨conn_frame_set_c w c cc _ hc rfl rfl rfl, rfl, ?_⟩
      intro t
      have h1 := all_iov_set_c w c cc { cc with iov := cc.iov ++ [s] } t hc
      simp only [List.count_append, List.count_singleton] at h1
      by_cases hts : t = s
      · subst hts
        simp only [beq_self_eq_true, if_true] at h1 ⊢
        omega
      · have : (s == t) = false := by simpa using fun hh => hts hh.symm
        simp only [this, Bool.false_eq_true, if_false, hts] at h1 ⊢
        omega
    · cases h
      exact ⟨conn_frame.refl w, rfl, fun t => by omega⟩

theorem key_entry_ne_verb (verb key : List Char) (hv : ' ' ∉ verb) :
    key_entry key ≠ String.mk verb := by
  intro h
  unfold key_entry at h
  have h1 : ' ' :: key = verb := by
    have := congrArg String.data h
    exact this
  exact hv (h1 ▸ List.mem_cons_self _ _)

theorem key_entry_inj (k key : List Char) (h : key_entry k = key_entry key) : k = key := by
  unfold key_entry at h
  have := congrArg String.data h
  simp only [List.cons.injEq, true_and] at this
  exact this

theorem multiget_key_raw (env : Env) (hcal : ∀ w, env.calloc_multiget_entry w = true)
    (d uc_cur uc_num : Nat) (verb key : List Char) (hv : ' ' ∉ verb)
    (w w1 : World) (dd : downstream) (m : List (List Char × List (Option Nat)))
    (hd : w.get_d d = some dd) (hm : dd.multiget = some m)
    (h : a2b_multiget_key env d uc_cur uc_num verb key w = .ok w1) :
    conn_frame w w1 ∧
    w1.get_d d = some { dd with
      multiget := some (skey_insert m key (some uc_cur :: (skey_lookup m key).getD [])) } ∧
    ∀ k, w1.all_iov.count (key_entry k) ≤
      w.all_iov.count (key_entry k) + (if k = key ∧ skey_lookup m key = none then 1 else 0) := by
  unfold a2b_multiget_key at h
  rw [hd] at h
  simp only [hm, hcal, if_true] at h
  cases hl : skey_lookup m key with
  | some chain =>
    rw [hl] at h
    simp only [Bool.false_eq_true, if_false] at h
    cases h
    refine ⟨conn_frame_of_conns_eq rfl, ?_, ?_⟩
    · rw [get_d_set_d_live w d _ dd hd]; rfl
    · intro k
      have e : ∀ v, (w.set_d d v).all_iov = w.all_iov := fun _ => rfl
      rw [e]
      omega
  | none =>
    rw [hl] at h
    simp only [if_true] at h
    obtain ⟨wz, hwz⟩ : ∃ wz, wz = w.set_d d { dd with multiget := some (skey_insert m key [some uc_cur]) } := ⟨_, rfl⟩
    rw [← hwz] at h
    have hzc : wz.conns = w.conns := by rw [hwz]; rfl
    have hzd : wz.get_d d = some { dd with
        multiget := some (skey_insert m key (some uc_cur :: (none : Option (List (Option Nat))).getD [])) } := by
      rw [hwz, get_d_set_d_live w d _ dd hd]; rfl
    have hz0 : ∀ k, wz.all_iov.count (key_entry k) ≤
        w.all_iov.count (key_entry k) + (if k = key ∧ True then 1 else 0) := by
      intro k
      rw [all_iov_of_conns_eq hzc]; omega
    split at h
    · cases h
    · cases h
      exact ⟨conn_frame_of_conns_eq hzc, hzd, by simpa using hz0⟩
    · rename_i c hfind
      split at h
      · cases h
      · rename_i cc hcc
        split at h
        · cases h
        split at h
        · cases h
        split at h
        · cases h
        · rename_i w2 hw2
          cases hadd : add_iov env w2 c (String.mk (' ' :: key)) with
          | error f => rw [hadd] at h; cases h
          | ok r =>
            rw [hadd] at h
            obtain ⟨b, w3⟩ := r
            cases h
            obtain ⟨f3, d3, c3⟩ := add_iov_frame env w2 c _ b w3 hadd
            have h2 : conn_frame wz w2 ∧ w2.ds = wz.ds ∧
                ∀ k, w2.all_iov.count (key_entry k) ≤ wz.all_iov.count (key_entry k) := by
              split at hw2
              · cases hav : add_iov env wz c (String.mk verb) with
                | error f => rw [hav] at hw2; cases hw2
                | ok r2 =>
                  rw [hav] at hw2
                  obtain ⟨b2, w4⟩ := r2
                  cases hw2
                  obtain ⟨f4, d4, c4⟩ := add_iov_frame env wz c _ b2 w4 hav
                  refine ⟨f4, d4, fun k => ?_⟩
                  have := c4 (key_entry k)
                  rw [if_neg (key_entry_ne_verb verb k hv)] at this
                  exact this
              · cases hw2
                exact ⟨conn_frame.refl _, rfl, fun k => le_refl _⟩
            obtain ⟨f2, d2, c2⟩ := h2
            refine ⟨(conn_frame_of_conns_eq hzc).trans (f2.trans f3), ?_, ?_⟩
            · rw [get_d_of_ds_eq (d3.trans d2)]
              exact hzd
            · intro k
              have e1 := c3 (key_entry k)
              have e2 := c2 k
              have e3 := hz0 k
              by_cases hk : k = key
              · subst hk
                simp only [true_and, if_true] at e1 e3 ⊢
                rw [all_iov_of_conns_eq hzc] at e2
                unfold key_entry at e1 e2 e3 ⊢
                simp only [if_true] at e1
                omega
              · have hne : key_entry k ≠ String.mk (' ' :: key) := fun hh => hk (key_entry_inj k key hh)
                rw [if_neg hne] at e1
                rw [all_iov_of_conns_eq hzc] at e2
                simp only [hk, false_and, if_false]
                omega

theorem multiget_key_inv (env : Env) (hcal : ∀ w, env.calloc_multiget_entry w = true)
    (wp : World) (d uc_cur uc_num : Nat) (verb key : List Char) (hv : ' ' ∉ verb)
    (occ : List (Nat × List Char)) (w w1 : World) (hi : multiget_inv wp d occ w)
    (h : a2b_multiget_key env d uc_cur uc_num verb key w = .ok w1) :
    conn_frame w w1 ∧ multiget_inv wp d (occ ++ [(uc_cur, key)]) w1 := by
  obtain ⟨dd, m, hd, hm, hmap, hnone, hcnt⟩ := hi
  obtain ⟨f, hd1, hc⟩ := multiget_key_raw env hcal d uc_cur uc_num verb key hv w w1 dd m hd hm h
  refine ⟨f, _, _, hd1, rfl, ?_, ?_, ?_⟩
  · intro k u
    by_cases hk : k = key
    · subst hk
      rw [skey_lookup_insert_self]
      simp only [Option.getD_some, List.mem_cons, Option.some.injEq, hmap, List.mem_append,
        List.mem_singleton, Prod.mk.injEq, and_true]
      tauto
    · rw [skey_lookup_insert_ne _ _ _ _ hk]
      simp only [hmap, List.mem_append, List.mem_singleton, Prod.mk.injEq, hk, and_false,
        or_false]
  · intro k
    by_cases hk : k = key
    · subst hk
      rw [skey_lookup_insert_self]
      simp only [Option.getD_some, List.mem_cons, not_or]
      exact ⟨by simp, hnone k⟩
    · rw [skey_lookup_insert_ne _ _ _ _ hk]
      exact hnone k
  · intro k
    have e1 := hc k
    have e2 := hcnt k
    by_cases hk : k = key
    · subst hk
      rw [skey_lookup_insert_self]
      simp only [true_and] at e1
      simp only [reduceCtorEq, if_false]
      by_cases hl : skey_lookup m k = none
      · rw [if_pos hl] at e1 e2
        omega
      · rw [if_neg hl] at e1 e2
        omega
    · rw [skey_lookup_insert_ne _ _ _ _ hk]
      simp only [hk, false_and, if_false] at e1
      omega

theorem multiget_keys_inv (env : Env) (hcal : ∀ w, env.calloc_multiget_entry w = true)
    (wp : World) (d uc_cur uc_num : Nat) (verb : List Char) (hv : ' ' ∉ verb) :
    ∀ (fuel : Nat) (rest : List Char) (occ : List (Nat × List Char)) (w w1 : World),
      multiget_inv wp d occ w →
      a2b_multiget_keys env d uc_cur uc_num verb fuel rest w = .ok w1 →
      conn_frame w w1 ∧
        multiget_inv wp d
          (occ ++ ((rest.splitOn ' ').filter (fun k => k ≠ [])).map (fun k => (uc_cur, k))) w1 := by
  intro fuel
  induction fuel with
  | zero => intro rest occ w w1 _ h; cases h
  | succ fuel ih =>
    intro rest occ w w1 hi h
    unfold a2b_multiget_keys at h
    simp only at h
    rw [split_keys_step rest]
    obtain ⟨key, hkey⟩ : ∃ key, key = rest.takeWhile (fun ch => ch ≠ ' ') := ⟨_, rfl⟩
    rw [← hkey] at h ⊢
    have hstep : ∀ w2, (if key.length > 0 then a2b_multiget_key env d uc_cur uc_num verb key w
          else .ok w) = .ok w2 →
        conn_frame w w2 ∧
          multiget_inv wp d (occ ++ (if key ≠ [] then [key] else []).map (fun k => (uc_cur, k))) w2 := by
      intro w2 h2
      by_cases hk : key = []
      · subst hk
        simp only [List.length_nil, gt_iff_lt, lt_self_iff_false, if_false] at h2
        cases h2
        simpa using ⟨conn_frame.refl w, hi⟩
      · have hpos : key.length > 0 := List.length_pos.2 hk
        rw [if_pos hpos] at h2
        simpa [hk] using multiget_key_inv env hcal wp d uc_cur uc_num verb key hv occ w w2 hi h2
    split at h
    · cases h
    · rename_i w2 hw2
      obtain ⟨f2, i2⟩ := hstep w2 hw2
      split at h
      · cases h
        refine ⟨f2, ?_⟩
        simpa using i2
      · rename_i x rest1 hdrop
        obtain ⟨f3, i3⟩ := ih rest1 _ w2 w1 i2 h
        refine ⟨f2.trans f3, ?_⟩
        simpa [List.map_append, List.append_assoc] using i3

theorem command_keys_of_drop (command : List Char) (x : Char) (rest : List Char)
    (h : command.dropWhile (fun ch => ch ≠ ' ') = x :: rest) :
    command_keys command = (rest.splitOn ' ').filter (fun k => k ≠ []) := by
  have hx : x = ' ' := by
    have := List.head_dropWhile_not (fun ch => decide (ch ≠ ' ')) command
      (by rw [h]; exact List.cons_ne_nil _ _)
    simp only [h, List.head_cons] at this
    simpa using this
  subst hx
  unfold command_keys
  rw [h]
  unfold List.splitOn
  rw [List.splitOnP_cons]
  simp

theorem multiget_upstreams_inv (env : Env) (hcal : ∀ w, env.calloc_multiget_entry w = true)
    (w0 wp : World) (d : Nat) :
    ∀ (fuel : Nat) (cur : Option Nat) (n : Nat) (us : List Nat) (occ : List (Nat × List Char))
      (w w1 : World),
      conn_frame w0 w → IsChain w0.cnext cur us → multiget_inv wp d occ w →
      a2b_multiget_upstreams env d fuel cur n w = .ok w1 →
      conn_frame w0 w1 ∧
        multiget_inv wp d
          (occ ++ (us.map (fun u => (w0.request_keys u).map (fun k => (u, k)))).flatten) w1 := by
  intro fuel
  induction fuel with
  | zero =>
    intro cur n us occ w w1 hf hch hi h
    cases cur with
    | none =>
      cases hch
      unfold a2b_multiget_upstreams at h
      cases h
      simpa using ⟨hf, hi⟩
    | some a => unfold a2b_multiget_upstreams at h; cases h
  | succ fuel ih =>
    intro cur n us occ w w1 hf hch hi h
    cases cur with
    | none =>
      cases hch
      unfold a2b_multiget_upstreams at h
      cases h
      simpa using ⟨hf, hi⟩
    | some uc_cur =>
      cases hch with
      | @cons _ p us1 hn hrest =>
        unfold a2b_multiget_upstreams at h
        unfold World.cnext at hn
        cases h0 : w0.get_c uc_cur with
        | none => rw [h0] at hn; cases hn
        | some cc0 =>
          rw [h0] at hn
          simp only [Option.map_some', Option.some.injEq] at hn
          obtain ⟨ucc, hucc, e1, e2, _⟩ := hf uc_cur cc0 h0
          rw [hucc] at h
          simp only at h
          split at h
          · cases h
          split at h
          · cases h
          split at h
          · cases h
          split at h
          · cases h
          · rename_i command hcmd
            split at h
            · cases h
            · rename_i x rest hdrop
              split at h
              · cases h
              split at h
              · cases h
              split at h
              · cases h
              · rename_i w2 hw2
                have hv : ' ' ∉ command.toList.takeWhile (fun ch => ch ≠ ' ') := by
                  intro hm
                  have := List.mem_takeWhile_imp hm
                  simp at this
                obtain ⟨f2, i2⟩ := multiget_keys_inv env hcal wp d uc_cur n _ hv _ rest occ w w2 hi hw2
                have hf2 : conn_frame w0 w2 := hf.trans f2
                obtain ⟨ucc1, hucc1, g1, _, _⟩ := hf2 uc_cur cc0 h0
                rw [hucc1] at h
                simp only at h
                rw [g1, hn] at h
                obtain ⟨f3, i3⟩ := ih p (n + 1) us1 _ w2 w1 hf2 hrest i2 h
                refine ⟨f3, ?_⟩
                have hk : w0.request_keys uc_cur =
                    (rest.splitOn ' ').filter (fun k => k ≠ []) := by
                  unfold World.request_keys
                  rw [h0]
                  simp only
                  rw [← e2, hcmd]
                  exact command_keys_of_drop _ x rest hdrop
                simpa [hk, List.append_assoc] using i3

theorem prep_conn_frame (env : Env) (w : World) (c : Nat) (b : Bool) (w1 : World)
    (h : cproxy_prep_conn_for_write env w c = .ok (b, w1)) :
    conn_frame w w1 ∧ w1.ds = w.ds := by
  unfold cproxy_prep_conn_for_write at h
  cases hc : w.get_c c with
  | none => rw [hc] at h; cases h
  | some cc =>
    rw [hc] at h
    simp only at h
    split at h
    · cases h
    · have f1 : conn_frame w (w.set_c c { cc with suffixleft := 0, msgused := 0, iov := [] }) :=
        conn_frame_set_c w c cc _ hc rfl rfl rfl
      split at h
      · cases h
        refine ⟨?_, rfl⟩
        obtain ⟨cz, hcz, z1, z2, z3⟩ := f1 c cc hc
        exact f1.trans (conn_frame_set_c _ c cz _ hcz z1.symm z2.symm z3.symm)
      · cases h
        exact ⟨f1, rfl⟩

theorem multiget_prep_frame (env : Env) :
    ∀ (slots : List (Option Nat)) (w w1 : World), a2b_multiget_prep env slots w = .ok w1 →
      conn_frame w w1 ∧ w1.ds = w.ds := by
  intro slots
  induction slots with
  | nil => intro w w1 h; cases h; exact ⟨conn_frame.refl w, rfl⟩
  | cons s slots ih =>
    intro w w1 h
    cases s with
    | none => exact ih w w1 h
    | some c =>
      unfold a2b_multiget_prep at h
      split at h
      · cases h
      · rename_i b w2 hp
        obtain ⟨f2, d2⟩ := prep_conn_frame env w c b w2 hp
        split at h
        · cases h
        · split at h
          · cases h
          · obtain ⟨f3, d3⟩ := ih w2 w1 h
            exact ⟨f2.trans f3, d3.trans d2⟩

theorem set_c_same_iov (w : World) (c : Nat) (cc v : conn) (hc : w.get_c c = some cc)
    (h1 : v.next = cc.next) (h2 : v.cmd_start = cc.cmd_start) (h3 : v.noreply = cc.noreply)
    (h4 : v.iov = cc.iov) :
    conn_frame w (w.set_c c v) ∧ (w.set_c c v).ds = w.ds ∧
      ∀ t, (w.set_c c v).all_iov.count t = w.all_iov.count t := by
  refine ⟨conn_frame_set_c w c cc v hc h1 h2 h3, rfl, fun t => ?_⟩
  have := all_iov_set_c w c cc v t hc
  rw [h4] at this
  omega

theorem key_entry_ne_crlf (key : List Char) : key_entry key ≠ "\r\n" := by
  intro h
  have := congrArg String.data h
  unfold key_entry at this
  simp only [List.cons.injEq] at this
  exact absurd this.1 (by decide)

theorem multiget_flush_frame (env : Env) (hev : ∀ w c, env.update_event w c = true) (uc : Nat) :
    ∀ (slots : List (Option Nat)) (n : Nat) (w : World) (r : Nat × World),
      a2b_multiget_flush env uc slots n w = .ok r →
      conn_frame w r.2 ∧ r.2.ds = w.ds ∧
        ∀ key, r.2.all_iov.count (key_entry key) ≤ w.all_iov.count (key_entry key) := by
  intro slots
  induction slots with
  | nil => intro n w r h; cases h; exact ⟨conn_frame.refl w, rfl, fun _ => le_refl _⟩
  | cons s slots ih =>
    intro n w r h
    cases s with
    | none => exact ih n w r h
    | some c =>
      unfold a2b_multiget_flush at h
      split at h
      · cases h
      · rename_i cc hcc
        split at h
        · split at h
          · cases h
          · rename_i b w1 hadd
            obtain ⟨f1, d1, c1⟩ := add_iov_frame env w c _ b w1 hadd
            unfold conn_set_state at h
            cases hc1 : w1.get_c c with
            | none => rw [hc1] at h; cases h
            | some cc1 =>
              rw [hc1] at h
              simp only at h
              obtain ⟨f2, d2, c2⟩ := set_c_same_iov w1 c cc1
                { cc1 with state := conn_state.conn_mwrite } hc1 rfl rfl rfl rfl
              obtain ⟨w2, hw2⟩ : ∃ w2, w2 = w1.set_c c { cc1 with state := conn_state.conn_mwrite } :=
                ⟨_, rfl⟩
              rw [← hw2] at h f2 d2 c2
              cases hc2 : w2.get_c c with
              | none => rw [hc2] at h; cases h
              | some cc2 =>
                rw [hc2] at h
                simp only [hev, if_true] at h
                obtain ⟨f3, d3, c3⟩ := set_c_same_iov w2 c cc2
                  { cc2 with write_and_go := conn_state.conn_new_cmd } hc2 rfl rfl rfl rfl
                obtain ⟨w3, hw3⟩ :
                    ∃ w3, w3 = w2.set_c c { cc2 with write_and_go := conn_state.conn_new_cmd } :=
                  ⟨_, rfl⟩
                rw [← hw3] at h f3 d3 c3
                have base : conn_frame w w3 ∧ w3.ds = w.ds ∧
                    ∀ key, w3.all_iov.count (key_entry key) ≤ w.all_iov.count (key_entry key) := by
                  refine ⟨f1.trans (f2.trans f3), d3.trans (d2.trans d1), fun key => ?_⟩
                  have e1 := c1 (key_entry key)
                  rw [if_neg (key_entry_ne_crlf key)] at e1
                  rw [c3, c2]
                  exact e1
                obtain ⟨b1, b2, b3⟩ := base
                split at h
                · rename_i ucc cc3 hu hc3
                  split at h
                  · obtain ⟨f4, d4, c4⟩ := set_c_same_iov w3 c cc3
                      { cc3 with write_and_go := conn_state.conn_pause } hc3 rfl rfl rfl rfl
                    obtain ⟨f5, d5, c5⟩ := ih _ _ r h
                    refine ⟨b1.trans (f4.trans f5), d5.trans (d4.trans b2), fun key => ?_⟩
                    have := c5 key
                    rw [c4] at this
                    exact le_trans this (b3 key)
                  · obtain ⟨f5, d5, c5⟩ := ih _ _ r h
                    exact ⟨b1.trans f5, d5.trans b2, fun key => le_trans (c5 key) (b3 key)⟩
                · cases h
        · exact ih n w r h

theorem a2b_finish_frame (env : Env) (w : World) (d uc n : Nat) (suffix : String) (b : Bool)
    (w1 : World) (ucc : conn) (dd : downstream) (hu : w.get_c uc = some ucc)
    (hn : ucc.noreply = false) (hd : w.get_d d = some dd)
    (h : a2b_finish env w d uc n suffix = .ok (b, w1)) :
    w1.conns = w.conns ∧ ∃ dd1, w1.get_d d = some dd1 ∧ dd1.multiget = dd.multiget := by
  unfold a2b_finish at h
  rw [hd] at h
  simp only at h
  unfold cproxy_dettach_if_noreply at h
  rw [get_c_set_d, hu] at h
  simp only [hn, Bool.false_eq_true, if_false] at h
  rw [get_d_set_d_live w d _ dd hd] at h
  simp only at h
  unfold cproxy_start_downstream_timeout at h
  obtain ⟨wz, hwz⟩ : ∃ wz, wz = w.set_d d { dd with downstream_used_start := n, downstream_used := n } :=
    ⟨_, rfl⟩
  rw [← hwz] at h
  have hzc : wz.conns = w.conns := by rw [hwz]; rfl
  have hzd : wz.get_d d = some { dd with downstream_used_start := n, downstream_used := n } := by
    rw [hwz]; exact get_d_set_d_live w d _ dd hd
  obtain ⟨wy, hwy⟩ : ∃ wy, wy = wz.set_d d
      { dd with downstream_used_start := n, downstream_used := n, upstream_suffix := some suffix } :=
    ⟨_, rfl⟩
  rw [← hwy] at h
  have hyc : wy.conns = w.conns := by rw [hwy]; exact hzc
  have hyd : wy.get_d d = some
      { dd with downstream_used_start := n, downstream_used := n, upstream_suffix := some suffix } := by
    rw [hwy]; exact get_d_set_d_live wz d _ _ hzd
  rw [hyd] at h
  simp only at h
  split at h
  · cases h
  · rename_i x b2 w9 heq
    cases h
    split at heq
    · cases heq
    split at heq
    · cases heq
    split at heq
    · cases heq
      exact ⟨hyc, _, hyd, rfl⟩
    · split at heq
      · cases heq
      · split at heq
        · cases heq
        · split at heq
          · cases heq
          · cases heq
            exact ⟨hyc, _, get_d_set_d_live wy d _ _ hyd, rfl⟩

theorem response_entries_spec (it : Nat) :
    ∀ (chain : List (Option Nat)) (w w1 : World), a2b_response_entries it chain w = .ok w1 →
      ∀ u ucc, w.get_c u = some ucc →
        ∃ ucc1, w1.get_c u = some ucc1 ∧
          ucc1.ilist = ucc.ilist ++ List.replicate (chain.count (some u)) it := by
  intro chain
  induction chain with
  | nil => intro w w1 h u ucc hu; cases h; exact ⟨ucc, hu, by simp⟩
  | cons e chain ih =>
    intro w w1 h u ucc hu
    cases e with
    | none =>
      unfold a2b_response_entries at h
      obtain ⟨ucc1, h1, h2⟩ := ih w w1 h u ucc hu
      exact ⟨ucc1, h1, by simpa using h2⟩
    | some x =>
      unfold a2b_response_entries cproxy_upstream_ascii_item_response at h
      cases hx : w.get_c x with
      | none => rw [hx] at h; cases h
      | some xc =>
        rw [hx] at h
        simp only at h
        by_cases hxu : x = u
        · subst hxu
          rw [hx] at hu
          cases hu
          obtain ⟨ucc1, h1, h2⟩ := ih _ w1 h x _ (get_c_set_c_same w x _ (lt_of_get_c hx))
          refine ⟨ucc1, h1, ?_⟩
          rw [h2]
          simp [List.replicate_succ]
        · have hu2 : (w.set_c x { xc with ilist := xc.ilist ++ [it] }).get_c u = some ucc := by
            rw [get_c_set_c, if_neg (fun hh => hxu hh.1)]; exact hu
          obtain ⟨ucc1, h1, h2⟩ := ih _ w1 h u ucc hu2
          refine ⟨ucc1, h1, ?_⟩
          rw [h2, List.count_cons_of_ne (by simpa using fun hh => hxu hh.symm)]

/-- C15. Multiget de-duplication.  Let `cproxy_forward_a2b_multiget_downstream`
return on a downstream `d` whose attached upstreams are the list `us` of two or
more connections, in an environment where the allocation of a multiget entry
and `update_event` succeed.  Then, counted from the state `wp` in which the
sockets were prepared for the write, each key is queued (with its leading
space) at most once over all the I/O vectors; the multiget map of `d` holds
under every key exactly the upstreams of `us` whose command contains the key,
and no empty entry; and the dispatch loop of the response handler, run on the
chain stored under a key, hands the item to exactly those upstreams. -/
theorem multiget_dedup (env : Env) (hcal : ∀ w, env.calloc_multiget_entry w = true)
    (hev : ∀ w c, env.update_event w c = true) (w : World) (d uc : Nat) (us : List Nat)
    (b : Bool) (w1 : World) (hus : IsChain w.cnext (some uc) us) (h2 : 2 ≤ us.length)
    (h : cproxy_forward_a2b_multiget_downstream env w d uc = .ok (b, w1)) :
    ∃ dd wp dd1 m, w.get_d d = some dd ∧
      a2b_multiget_prep env dd.downstream_conns w = .ok wp ∧
      w1.get_d d = some dd1 ∧ dd1.multiget = some m ∧
      (∀ key, w1.all_iov.count (key_entry key) ≤ wp.all_iov.count (key_entry key) + 1) ∧
      (∀ key u, some u ∈ (skey_lookup m key).getD [] ↔ u ∈ us ∧ key ∈ w.request_keys u) ∧
      (∀ key, none ∉ (skey_lookup m key).getD []) ∧
      ∀ key it w2 w3, a2b_response_entries it ((skey_lookup m key).getD []) w2 = .ok w3 →
        ∀ u ucc, w2.get_c u = some ucc →
          ∃ ucc3, w3.get_c u = some ucc3 ∧
            (it ∈ ucc3.ilist ↔ it ∈ ucc.ilist ∨ (u ∈ us ∧ key ∈ w.request_keys u)) := by
  unfold cproxy_forward_a2b_multiget_downstream at h
  cases hd : w.get_d d with
  | none => rw [hd] at h; cases h
  | some dd =>
    rw [hd] at h
    simp only at h
    split at h
    · cases h
    cases hu : w.get_c uc with
    | none => rw [hu] at h; cases h
    | some ucc =>
      rw [hu] at h
      simp only at h
      split at h
      · cases h
      rename_i hnr
      have hnr1 : ucc.noreply = false := by simpa using hnr
      cases hp : a2b_multiget_prep env dd.downstream_conns w with
      | error f => rw [hp] at h; cases h
      | ok wp =>
        rw [hp] at h
        simp only at h
        obtain ⟨fp, dp⟩ := multiget_prep_frame env _ w wp hp
        obtain ⟨ucc1, hu1, n1, _, _⟩ := fp uc ucc hu
        have hdp : wp.get_d d = some dd := by rw [get_d_of_ds_eq dp]; exact hd
        rw [hu1, hdp] at h
        simp only at h
        -- the first upstream has a successor
        obtain ⟨u2, hnext⟩ : ∃ u2, ucc.next = some u2 := by
          cases hus with
          | @cons _ p xs hn hr =>
            cases hr with
            | nil => simp at h2
            | @cons a2 _ _ _ _ =>
              unfold World.cnext at hn
              rw [hu] at hn
              simp only [Option.map_some', Option.some.injEq] at hn
              exact ⟨a2, hn⟩
        have hne : ucc1.next ≠ none := by rw [n1, hnext]; simp
        rw [if_pos hne] at h
        obtain ⟨w2, hw2⟩ : ∃ w2, w2 = wp.set_d d { dd with multiget := some [] } := ⟨_, rfl⟩
        rw [← hw2] at h
        have hc2 : w2.conns = wp.conns := by rw [hw2]; rfl
        have f2 : conn_frame w w2 := fp.trans (conn_frame_of_conns_eq hc2)
        have i2 : multiget_inv wp d [] w2 := by
          refine ⟨{ dd with multiget := some [] }, [], ?_, rfl, ?_, ?_, ?_⟩
          · rw [hw2]; exact get_d_set_d_live wp d _ dd hdp
          · intro key u; simp [skey_lookup]
          · intro key; simp [skey_lookup]
          · intro key
            rw [all_iov_of_conns_eq hc2]
            simp [skey_lookup]
        split at h
        · cases h
        · rename_i w3 hw3
          obtain ⟨f3, i3⟩ := multiget_upstreams_inv env hcal w wp d _ (some uc) 0 us [] w2 w3 f2 hus i2 hw3
          obtain ⟨dd3, m, hd3, hm3, hmap, hnone, hcnt⟩ := i3
          rw [hd3] at h
          simp only at h
          split at h
          · cases h
          · rename_i nwrite w4 hfl
            obtain ⟨f4, d4, c4⟩ := multiget_flush_frame env hev uc _ 0 w3 (nwrite, w4) hfl
            obtain ⟨ucc4, hu4, _, _, r4⟩ := (f3.trans f4) uc ucc hu
            have hd4 : w4.get_d d = some dd3 := by rw [get_d_of_ds_eq d4]; exact hd3
            obtain ⟨hcf, dd1, hd1, hm1⟩ :=
              a2b_finish_frame env w4 d uc nwrite _ b w1 ucc4 dd3 hu4 (r4.trans hnr1) hd4 h
            have hmem : ∀ key u, some u ∈ (skey_lookup m key).getD [] ↔
                u ∈ us ∧ key ∈ w.request_keys u := by
              intro key u
              rw [hmap]
              simp only [List.nil_append, List.mem_flatten, List.mem_map]
              constructor
              · rintro ⟨l, ⟨a, ha, rfl⟩, hl⟩
                simp only [List.mem_map, Prod.mk.injEq] at hl
                obtain ⟨k, hk, rfl, rfl⟩ := hl
                exact ⟨ha, hk⟩
              · rintro ⟨ha, hk⟩
                exact ⟨_, ⟨u, ha, rfl⟩, List.mem_map.2 ⟨key, hk, rfl⟩⟩
            refine ⟨dd, wp, dd1, m, rfl, hp, hd1, hm1.trans hm3, ?_, hmem, hnone, ?_⟩
            · intro key
              rw [all_iov_of_conns_eq hcf]
              have e1 := c4 key
              have e2 := hcnt key
              simp only at e1
              omega
            · intro key it wa wb hr u uca hua
              obtain ⟨ucb, hub, hil⟩ := response_entries_spec it _ wa wb hr u uca hua
              refine ⟨ucb, hub, ?_⟩
              rw [hil, List.mem_append, ← hmem key u, List.mem_replicate]
              constructor
              · rintro (h1 | ⟨h1, _⟩)
                · exact Or.inl h1
                · exact Or.inr (List.count_pos_iff.1 (Nat.pos_of_ne_zero h1))
              · rintro (h1 | h1)
                · exact Or.inl h1
                · exact Or.inr ⟨Nat.pos_iff_ne_zero.1 (List.count_pos_iff.2 h1), rfl⟩

theorem multiget_dedup_witness :
    ∃ dd wp dd1 m, (multiget_world "get a b" "get b c").get_d 0 = some dd ∧
      a2b_multiget_prep hash_env dd.downstream_conns (multiget_world "get a b" "get b c") =
        .ok wp ∧
      multiget_result.get_d 0 = some dd1 ∧ dd1.multiget = some m ∧
      (∀ key, multiget_result.all_iov.count (key_entry key) ≤
        wp.all_iov.count (key_entry key) + 1) ∧
      (∀ key u, some u ∈ (skey_lookup m key).getD [] ↔
        u ∈ [0, 1] ∧ key ∈ (multiget_world "get a b" "get b c").request_keys u) ∧
      (∀ key, none ∉ (skey_lookup m key).getD []) ∧
      ∀ key it w2 w3, a2b_response_entries it ((skey_lookup m key).getD []) w2 = .ok w3 →
        ∀ u ucc, w2.get_c u = some ucc →
          ∃ ucc3, w3.get_c u = some ucc3 ∧
            (it ∈ ucc3.ilist ↔ it ∈ ucc.ilist ∨
              (u ∈ [0, 1] ∧ key ∈ (multiget_world "get a b" "get b c").request_keys u)) :=
  multiget_dedup hash_env (fun _ => rfl) (fun _ _ => rfl) (multiget_world "get a b" "get b c")
    0 0 [0, 1] true multiget_result
    (IsChain.cons (p := some 1) (by decide) (IsChain.cons (p := none) (by decide) IsChain.nil))
    (by decide) (by decide)

theorem retry_kept.refl_kept (w : World) : retry_kept w w :=
  ⟨rfl, fun _ cc h => ⟨cc, h, Or.inl (le_refl _)⟩⟩

theorem retry_kept.trans_kept {w w1 w2 : World} (h1 : retry_kept w w1) (h2 : retry_kept w1 w2) :
    retry_kept w w2 := by
  refine ⟨h2.1.trans h1.1, fun u cc hu => ?_⟩
  obtain ⟨cc1, hc1, a⟩ := h1.2 u cc hu
  obtain ⟨cc2, hc2, b⟩ := h2.2 u cc1 hc1
  refine ⟨cc2, hc2, ?_⟩
  rcases a with a | a <;> rcases b with b | b
  · exact Or.inl (le_trans b a)
  · exact Or.inr b
  · exact Or.inr (le_trans b a)
  · exact Or.inr b

theorem retry_kept.of_conns {w w1 : World} (hc : w1.conns = w.conns)
    (ht : w1.ptd.stats.tot_retry = w.ptd.stats.tot_retry) : retry_kept w w1 := by
  refine ⟨ht, fun u cc hu => ⟨cc, ?_, Or.inl (le_refl _)⟩⟩
  unfold World.get_c at hu ⊢
  rw [hc]; exact hu

theorem retry_kept.set_c_kept (w : World) (c : Nat) (cc v : conn) (hc : w.get_c c = some cc)
    (hv : v.cmd_retries = cc.cmd_retries ∨ v.cmd_retries ≤ 1) : retry_kept w (w.set_c c v) := by
  refine ⟨rfl, fun a ca ha => ?_⟩
  rw [get_c_set_c]
  by_cases hac : c = a
  · subst hac
    rw [hc] at ha
    cases ha
    rw [if_pos ⟨rfl, lt_of_get_c hc⟩]
    refine ⟨v, rfl, ?_⟩
    rcases hv with hv | hv
    · exact Or.inl (le_of_eq hv)
    · exact Or.inr hv
  · rw [if_neg (fun hh => hac hh.1)]
    exact ⟨ca, ha, Or.inl (le_refl _)⟩

theorem rk_conn_set_state (w : World) (c : Nat) (s : conn_state) (w1 : World)
    (h : conn_set_state w c s = .ok w1) : retry_kept w w1 := by
  unfold conn_set_state at h
  split at h
  · cases h
  · rename_i cc hc
    cases h
    exact retry_kept.set_c_kept w c cc _ hc (Or.inl rfl)

theorem rk_add_iov (env : Env) (w : World) (c : Nat) (s : String) (r : Bool × World)
    (h : add_iov env w c s = .ok r) : retry_kept w r.2 := by
  unfold add_iov at h
  split at h
  · cases h
  · rename_i cc hc
    split at h
    · cases h
      exact retry_kept.set_c_kept w c cc _ hc (Or.inl rfl)
    · cases h
      exact retry_kept.refl_kept w

theorem rk_out_string (w : World) (c : Nat) (s : String) (w1 : World)
    (h : out_string w c s = .ok w1) : retry_kept w w1 := by
  unfold out_string at h
  split at h
  · cases h
  · rename_i cc hc
    cases h
    exact retry_kept.set_c_kept w c cc _ hc (Or.inl rfl)

theorem rk_close_conn (env : Env) (hr : env.retry_frame) (w : World) (c : Nat) (w1 : World)
    (h : cproxy_close_conn env w c = .ok w1) : retry_kept w w1 := by
  unfold cproxy_close_conn at h
  simp only [bind, Except.bind] at h
  split at h
  · cases h
  · rename_i w2 h2
    cases h
    exact (rk_conn_set_state w c _ w2 h2).trans_kept (hr.1 _ _)

theorem rk_incr_tot_oom (w : World) : retry_kept w w.incr_tot_oom :=
  retry_kept.of_conns rfl rfl

theorem rk_upstream_error (env : Env) (hr : env.retry_frame) (w : World) (uc : Nat) (w1 : World)
    (h : upstream_error env w uc = .ok w1) : retry_kept w w1 := by
  unfold upstream_error at h
  cases hc : w.get_c uc with
  | none => simp [hc] at h
  | some cc =>
    simp only [hc] at h
    by_cases a1 : cc.state ≠ conn_state.conn_pause
    · simp [a1] at h
    by_cases a2 : cc.extra = none
    · simp [a1, a2] at h
    simp only [a1, a2, if_false] at h
    split at h
    · simp at h
    · rename_i wo ho
      have k1 := rk_out_string w uc _ wo ho
      split at h
      · cases h
        exact k1
      · exact k1.trans_kept ((rk_incr_tot_oom wo).trans_kept (rk_close_conn env hr _ uc w1 h))

theorem rk_merger (env : Env) (hr : env.retry_frame) (d : Nat) (w : World) (dd : downstream)
    (uc : Nat) (w1 : World) (h : cproxy_release_downstream_merger env d w dd uc = .ok w1) :
    retry_kept w w1 := by
  unfold cproxy_release_downstream_merger at h
  split at h
  · have k0 := hr.2.1 w d uc
    simp only at h
    split at h
    · exact k0.trans_kept (rk_conn_set_state _ uc _ w1 h)
    · exact k0.trans_kept ((rk_incr_tot_oom _).trans_kept (rk_close_conn env hr _ uc w1 h))
  · cases h
    exact retry_kept.refl_kept w

theorem rk_suffix (env : Env) (hr : env.retry_frame) (d : Nat) (w w1 : World)
    (h : cproxy_release_downstream_suffix env d w = .ok w1) : retry_kept w w1 := by
  unfold cproxy_release_downstream_suffix at h
  split at h
  · cases h
  · split at h
    · cases h
      exact retry_kept.refl_kept w
    · split at h
      · cases h
      · rename_i uc hu
        split at h
        · cases h
        · rename_i wb hb
          have k1 := rk_add_iov env w uc _ _ hb
          split at h
          · exact k1.trans_kept (rk_conn_set_state _ uc _ w1 h)
          · exact k1.trans_kept ((rk_incr_tot_oom _).trans_kept (rk_close_conn env hr _ uc w1 h))
        · rename_i wb hb
          have k1 := rk_add_iov env w uc _ _ hb
          exact k1.trans_kept ((rk_incr_tot_oom _).trans_kept (rk_close_conn env hr _ uc w1 h))

theorem rk_pop (d : Nat) (w w1 : World) (h : cproxy_release_downstream_pop d w = .ok w1) :
    retry_kept w w1 := by
  unfold cproxy_release_downstream_pop at h
  split at h
  · cases h
  · rename_i dd hd
    split at h
    · cases h
    · rename_i curr hcurr
      split at h
      · cases h
      · rename_i cc hc
        cases h
        exact (show retry_kept w (w.set_d d { dd with upstream_conn := cc.next }) from
          retry_kept.of_conns rfl rfl).trans_kept (retry_kept.set_c_kept _ curr cc _ (by rw [get_c_set_d]; exact hc) (Or.inl rfl))

theorem rk_delink_body (env : Env) (hr : env.retry_frame) (d : Nat) (w : World) (dd : downstream)
    (uc : Nat) (w1 : World) (h : cproxy_release_downstream_delink_body env d w dd uc = .ok w1) :
    retry_kept w w1 := by
  unfold cproxy_release_downstream_delink_body at h
  split at h
  · cases h
  · rename_i wa ha
    split at h
    · cases h
    · rename_i wb hb
      exact (rk_merger env hr d w dd uc wa ha).trans_kept
        ((rk_suffix env hr d wa wb hb).trans_kept (rk_pop d wb w1 h))

theorem rk_delink (env : Env) (hr : env.retry_frame) (d : Nat) :
    ∀ (fuel : Nat) (w w1 : World), cproxy_release_downstream_delink env d fuel w = .ok w1 →
      retry_kept w w1 := by
  intro fuel
  induction fuel with
  | zero =>
    intro w w1 h
    unfold cproxy_release_downstream_delink at h
    split at h
    · cases h
    · split at h
      · cases h; exact retry_kept.refl_kept w
      · cases h
  | succ fuel ih =>
    intro w w1 h
    unfold cproxy_release_downstream_delink at h
    split at h
    · cases h
    · rename_i dd hd
      split at h
      · cases h; exact retry_kept.refl_kept w
      · rename_i uc hu
        simp only at h
        split at h
        · cases h
        · rename_i wa ha
          exact (rk_delink_body env hr d w dd uc wa ha).trans_kept (ih wa w1 h)

theorem rk_check (w : World) (d : Nat) (r : Bool × World)
    (h : cproxy_check_downstream_config w d = .ok r) : retry_kept w r.2 := by
  unfold cproxy_check_downstream_config at h
  split at h
  · cases h
  · split at h
    · cases h; exact retry_kept.refl_kept w
    · split at h
      · cases h; exact retry_kept.of_conns rfl rfl
      · cases h; exact retry_kept.refl_kept w

theorem rk_list_remove_loop (head : Option Nat) (d : Nat) :
    ∀ (fuel : Nat) (w : World) (prev curr : Option Nat) (r : Option Nat × World),
      downstream_list_remove_loop head d fuel w prev curr = .ok r → retry_kept w r.2 := by
  intro fuel
  induction fuel with
  | zero =>
    intro w prev curr r h
    cases curr with
    | none => unfold downstream_list_remove_loop at h; cases h; exact retry_kept.refl_kept w
    | some c => unfold downstream_list_remove_loop at h; cases h
  | succ fuel ih =>
    intro w prev curr r h
    cases curr with
    | none => unfold downstream_list_remove_loop at h; cases h; exact retry_kept.refl_kept w
    | some c =>
      unfold downstream_list_remove_loop at h
      split at h
      · cases h
      · split at h
        · split at h
          · split at h
            · cases h
            · split at h
              · cases h
              · cases h; exact retry_kept.of_conns rfl rfl
          · split at h
            · cases h; exact retry_kept.refl_kept w
            · cases h
        · exact ih _ _ _ _ h

theorem rk_list_remove (w : World) (head : Option Nat) (d : Nat) (r : Option Nat × World)
    (h : downstream_list_remove w head d = .ok r) : retry_kept w r.2 :=
  rk_list_remove_loop head d _ w none head r h

theorem rk_free_extras :
    ∀ (slots : List (Option Nat)) (w w1 : World),
      cproxy_free_downstream_extras slots w = .ok w1 → retry_kept w w1 := by
  intro slots
  induction slots with
  | nil => intro w w1 h; cases h; exact retry_kept.refl_kept w
  | cons s slots ih =>
    intro w w1 h
    cases s with
    | none => cases h
    | some c =>
      unfold cproxy_free_downstream_extras at h
      split at h
      · cases h
      · rename_i cc hc
        exact (retry_kept.set_c_kept w c cc { cc with extra := none } hc (Or.inl rfl)).trans_kept
          (ih _ _ h)

theorem rk_set_ptd (w : World) (t : proxy_td) (ht : t.stats.tot_retry = w.ptd.stats.tot_retry) :
    retry_kept w (w.set_ptd t) :=
  retry_kept.of_conns rfl ht

theorem rk_set_d (w : World) (d : Nat) (v : downstream) : retry_kept w (w.set_d d v) :=
  retry_kept.of_conns rfl rfl

theorem rk_free_d (w : World) (d : Nat) : retry_kept w (w.free_d d) :=
  retry_kept.of_conns rfl rfl

theorem rk_free (w : World) (d : Nat) (w1 : World) (h : cproxy_free_downstream w d = .ok w1) :
    retry_kept w w1 := by
  unfold cproxy_free_downstream at h
  split at h
  · cases h
  · split at h
    · cases h
    split at h
    · cases h
    split at h
    · cases h
    split at h
    · cases h
    split at h
    · cases h
    simp only [bind, Except.bind] at h
    split at h
    · cases h
    · rename_i r2 h2
      have k2 := rk_list_remove _ _ d r2 h2
      split at h
      · cases h
      · rename_i r4 h4
        have k4 := rk_list_remove _ _ d r4 h4
        split at h
        · cases h
        · split at h
          · cases h
          · split at h
            · cases h
            · rename_i w7 h7
              cases h
              have k7 := rk_free_extras _ _ w7 h7
              refine (retry_kept.of_conns (w := w) rfl rfl).trans_kept (k2.trans_kept ?_)
              refine (rk_set_ptd _ _ rfl).trans_kept (k4.trans_kept ?_)
              refine (rk_set_ptd _ _ rfl).trans_kept ((rk_set_ptd _ _ rfl).trans_kept ?_)
              exact k7.trans_kept (rk_free_d _ _)

theorem rk_release (env : Env) (hr : env.retry_frame) (w : World) (d : Nat) (force : Bool)
    (r : Bool × World) (h : cproxy_release_downstream env w d force = .ok r) :
    retry_kept w r.2 := by
  unfold cproxy_release_downstream at h
  split at h
  · cases h
  · simp only [bind, Except.bind] at h
    split at h
    · cases h
    · rename_i w1 h1
      have k1 := rk_delink env hr d _ _ w1 h1
      have k0 : retry_kept w w1 := (retry_kept.of_conns (w := w) rfl rfl).trans_kept k1
      split at h
      · cases h
      · rename_i dd1 hd1
        split at h
        · cases h
        · rename_i r3 h3
          have k3 := rk_check _ d r3 h3
          have k03 : retry_kept w r3.2 := k0.trans_kept ((rk_set_d _ _ _).trans_kept k3)
          split at h
          · split at h
            · cases h
            · rename_i r4 h4
              have k4 := rk_list_remove _ _ d r4 h4
              split at h
              · cases h
              · rename_i r6 h6
                have k6 := rk_list_remove _ _ d r6 h6
                split at h
                · cases h
                · cases h
                  refine k03.trans_kept (k4.trans_kept ((rk_set_ptd _ _ rfl).trans_kept
                    (k6.trans_kept ?_)))
                  exact (rk_set_ptd _ _ rfl).trans_kept ((rk_set_d _ _ _).trans_kept
                    (rk_set_ptd _ _ rfl))
          · split at h
            · cases h
            · rename_i w4 h4
              cases h
              exact k03.trans_kept (rk_free _ d w4 h4)

theorem rk_create (env : Env) (w : World) (config : String) (ver : Nat) (b : proxy_behavior) :
    retry_kept w (cproxy_create_downstream env w config ver b).2 := by
  unfold cproxy_create_downstream
  split
  · split
    · split
      · split
        · exact retry_kept.of_conns rfl rfl
        · exact retry_kept.refl_kept w
      · exact retry_kept.refl_kept w
    · exact retry_kept.refl_kept w
  · exact retry_kept.refl_kept w

theorem rk_add (env : Env) (hr : env.retry_frame) (w w1 : World)
    (h : cproxy_add_downstream env w = .ok w1) : retry_kept w w1 := by
  unfold cproxy_add_downstream at h
  split at h
  · split at h
    · rename_i config hcfg
      have kc := rk_create env w config w.proxy.config_ver w.proxy.behavior
      split at h
      · rename_i d wc hc
        rw [hc] at kc
        simp only [bind, Except.bind] at h
        split at h
        · cases h
        · rename_i r3 h3
          cases h
          have k3 := rk_release env hr _ d true r3 h3
          exact kc.trans_kept ((rk_set_ptd _ _ rfl).trans_kept k3)
      · rename_i wc hc
        rw [hc] at kc
        cases h
        exact kc.trans_kept (retry_kept.of_conns rfl rfl)
    · cases h; exact retry_kept.refl_kept w
  · cases h
    exact retry_kept.of_conns rfl rfl

theorem rk_reserve_body (env : Env) (hr : env.retry_frame) (w : World)
    (r : Option (Option Nat) × World) (h : cproxy_reserve_downstream_body env w = .ok r) :
    retry_kept w r.2 := by
  unfold cproxy_reserve_downstream_body at h
  have key : ∃ w1, retry_kept w w1 ∧
      (match w1.ptd.downstream_released with
      | none => (Except.ok (some none, w1) : Except Fault (Option (Option Nat) × World))
      | some d =>
        match w1.get_d d with
        | none => .error .bad_pointer
        | some dd =>
          let w2 := w1.set_ptd { w1.ptd with downstream_released := dd.next }
          if dd.upstream_conn ≠ none then .error .assert_failed
          else if dd.upstream_suffix ≠ none then .error .assert_failed
          else if dd.downstream_used ≠ 0 then .error .assert_failed
          else if dd.downstream_used_start ≠ 0 then .error .assert_failed
          else if dd.multiget ≠ none then .error .assert_failed
          else if dd.merger ≠ none then .error .assert_failed
          else if dd.timeout_tv.tv_sec ≠ 0 then .error .assert_failed
          else if dd.timeout_tv.tv_usec ≠ 0 then .error .assert_failed
          else
            let w3 := w2.set_d d
              { dd with
                upstream_conn := none
                upstream_suffix := none
                downstream_used := 0
                downstream_used_start := 0
                multiget := none
                merger := none
                timeout_tv := { tv_sec := 0, tv_usec := 0 } }
            match cproxy_check_downstream_config w3 d with
            | .error f => .error f
            | .ok (true, w4) => do
              let (r, w5) ← downstream_list_remove w4 w4.ptd.downstream_reserved d
              let w6 := w5.set_ptd { w5.ptd with downstream_reserved := r }
              let (l, w7) ← downstream_list_remove w6 w6.ptd.downstream_released d
              let w8 := w7.set_ptd { w7.ptd with downstream_released := l }
              match w8.get_d d with
              | none => .error .bad_pointer
              | some dd8 =>
                let w9 := w8.set_d d { dd8 with next := w8.ptd.downstream_reserved }
                let w10 := w9.set_ptd { w9.ptd with downstream_reserved := some d }
                .ok (some (some d), w10.set_stats
                  { w10.ptd.stats with
                    tot_downstream_reserved := w10.ptd.stats.tot_downstream_reserved + 1 })
            | .ok (false, w4) => do
              let w5 ← cproxy_free_downstream w4 d
              .ok (none, w5)) = .ok r := by
    by_cases hrel : w.ptd.downstream_released = none
    · rw [if_pos hrel] at h
      cases ha : cproxy_add_downstream env w with
      | error f => rw [ha] at h; cases h
      | ok w1 =>
        rw [ha] at h
        exact ⟨w1, rk_add env hr w w1 ha, h⟩
    · rw [if_neg hrel] at h
      exact ⟨w, retry_kept.refl_kept w, h⟩
  obtain ⟨w1, k1, h⟩ := key
  · split at h
    · cases h; exact k1
    · rename_i d hd
      split at h
      · cases h
      · rename_i dd hdd
        simp only at h
        split at h
        · cases h
        split at h
        · cases h
        split at h
        · cases h
        split at h
        · cases h
        split at h
        · cases h
        split at h
        · cases h
        split at h
        · cases h
        split at h
        · cases h
        split at h
        · cases h
        · rename_i w4 h4
          have k4 := rk_check _ d _ h4
          simp only at k4
          simp only [bind, Except.bind] at h
          split at h
          · cases h
          · rename_i r5 h5
            have k5 := rk_list_remove _ _ d r5 h5
            split at h
            · cases h
            · rename_i r7 h7
              have k7 := rk_list_remove _ _ d r7 h7
              split at h
              · cases h
              · cases h
                have k2 : retry_kept w1 w4 := (retry_kept.of_conns rfl rfl).trans_kept k4
                refine k1.trans_kept (k2.trans_kept (k5.trans_kept ?_))
                refine (retry_kept.of_conns rfl rfl).trans_kept (k7.trans_kept ?_)
                exact retry_kept.of_conns rfl rfl
        · rename_i w4 h4
          have k4 := rk_check _ d _ h4
          simp only at k4
          simp only [bind, Except.bind] at h
          split at h
          · cases h
          · rename_i w5 h5
            cases h
            have k2 : retry_kept w1 w4 := (retry_kept.of_conns rfl rfl).trans_kept k4
            exact k1.trans_kept (k2.trans_kept (rk_free _ d w5 h5))

theorem rk_reserve_loop (env : Env) (hr : env.retry_frame) :
    ∀ (fuel : Nat) (w : World) (r : Option Nat × World),
      cproxy_reserve_downstream_loop env fuel w = .ok r → retry_kept w r.2 := by
  intro fuel
  induction fuel with
  | zero => intro w r h; cases h
  | succ fuel ih =>
    intro w r h
    unfold cproxy_reserve_downstream_loop at h
    split at h
    · cases h
    · rename_i x w1 hb
      cases h
      exact rk_reserve_body env hr w _ hb
    · rename_i w1 hb
      exact (rk_reserve_body env hr w _ hb).trans_kept (ih w1 r h)

theorem rk_reserve (env : Env) (hr : env.retry_frame) (w : World) (r : Option Nat × World)
    (h : cproxy_reserve_downstream env w = .ok r) : retry_kept w r.2 :=
  rk_reserve_loop env hr _ w r h

theorem rk_advance (w w1 : World) (h : wait_queue_advance w = .ok w1) : retry_kept w w1 := by
  unfold wait_queue_advance at h
  split at h
  · cases h
  · split at h
    · cases h
    · simp only at h
      split at h
      · cases h; exact retry_kept.of_conns rfl rfl
      · cases h; exact retry_kept.of_conns rfl rfl

theorem rk_squash :
    ∀ (fuel : Nat) (w : World) (uc_last : Nat) (w1 : World),
      cproxy_assign_downstream_squash fuel w uc_last = .ok w1 → retry_kept w w1 := by
  intro fuel
  induction fuel with
  | zero =>
    intro w uc_last w1 h
    unfold cproxy_assign_downstream_squash at h
    split at h
    · cases h
    · cases h; exact retry_kept.refl_kept w
    · cases h
  | succ fuel ih =>
    intro w uc_last w1 h
    unfold cproxy_assign_downstream_squash at h
    split at h
    · cases h
    · cases h; exact retry_kept.refl_kept w
    · split at h
      · cases h
      · rename_i lc hlc
        simp only at h
        split at h
        · cases h
        · rename_i w2 h2
          have k2 := rk_advance _ w2 h2
          split at h
          · cases h
          · split at h
            · cases h
            · rename_i nxt hnxt
              split at h
              · cases h
              · rename_i nc hnc
                have k4 := ih _ _ _ h
                have k1 : retry_kept w (w.set_c uc_last { lc with next := w.ptd.waiting_any_downstream_head }) :=
                  retry_kept.set_c_kept w uc_last lc _ hlc (Or.inl rfl)
                have k3 : retry_kept w2 (w2.set_c nxt { nc with next := none }) :=
                  retry_kept.set_c_kept w2 nxt nc _ hnc (Or.inl rfl)
                exact k1.trans_kept (k2.trans_kept (k3.trans_kept
                  ((retry_kept.of_conns rfl rfl).trans_kept k4)))

theorem rk_pair (w : World) (d : Nat) (w1 : World)
    (h : cproxy_assign_downstream_pair w d = .ok w1) : retry_kept w w1 := by
  unfold cproxy_assign_downstream_pair at h
  split at h
  · cases h
  · rename_i dd hd
    split at h
    · cases h
    split at h
    · cases h
    split at h
    · cases h
    split at h
    · cases h
    split at h
    · cases h
    split at h
    · cases h
    split at h
    · cases h
    simp only at h
    split at h
    · cases h
    · rename_i w3 h3
      have k3 := rk_advance _ w3 h3
      split at h
      · cases h
      · split at h
        · cases h
        · rename_i uc huc
          split at h
          · cases h
          · rename_i ucc hucc
            have k5 := rk_squash _ _ _ _ h
            have k4 : retry_kept w3 (w3.set_c uc { ucc with next := none }) :=
              retry_kept.set_c_kept w3 uc ucc _ hucc (Or.inl rfl)
            exact (retry_kept.of_conns rfl rfl).trans_kept (k3.trans_kept (k4.trans_kept
              ((retry_kept.of_conns rfl rfl).trans_kept k5)))

theorem rk_errors (env : Env) (hr : env.retry_frame) (d : Nat) :
    ∀ (fuel : Nat) (w w1 : World), cproxy_assign_downstream_errors env d fuel w = .ok w1 →
      retry_kept w w1 := by
  intro fuel
  induction fuel with
  | zero =>
    intro w w1 h
    unfold cproxy_assign_downstream_errors at h
    split at h
    · cases h
    · split at h
      · cases h; exact retry_kept.refl_kept w
      · cases h
  | succ fuel ih =>
    intro w w1 h
    unfold cproxy_assign_downstream_errors at h
    split at h
    · cases h
    · split at h
      · cases h; exact retry_kept.refl_kept w
      · rename_i uc hu
        simp only at h
        split at h
        · cases h
        · rename_i wa ha
          split at h
          · cases h
          · rename_i wb hb
            exact (rk_upstream_error env hr w uc wa ha).trans_kept
              ((rk_pop d wa wb hb).trans_kept (ih wb w1 h))

theorem rk_fail (env : Env) (hr : env.retry_frame) (d : Nat) (w w1 : World)
    (h : cproxy_assign_downstream_fail env d w = .ok w1) : retry_kept w w1 := by
  unfold cproxy_assign_downstream_fail at h
  split at h
  · cases h
  · rename_i w8 h8
    split at h
    · cases h
    · rename_i b w9 h9
      cases h
      exact (rk_errors env hr d _ w w8 h8).trans_kept (rk_release env hr w8 d false _ h9)

theorem rk_assign_loop (env : Env) (hr : env.retry_frame) (da : Nat) (tail : Option Nat) :
    ∀ (fuel : Nat) (stop : Bool) (w : World) (r : List (Option (List Nat)) × World),
      cproxy_assign_downstream_loop env da tail fuel stop w = .ok r → retry_kept w r.2 := by
  intro fuel
  induction fuel with
  | zero =>
    intro stop w r h
    rw [cproxy_assign_downstream_loop] at h
    split at h
    · cases h; exact retry_kept.refl_kept w
    · split at h
      · cases h; exact retry_kept.refl_kept w
      · cases h
  | succ fuel ih =>
    intro stop w r h
    rw [cproxy_assign_downstream_loop] at h
    split at h
    · cases h; exact retry_kept.refl_kept w
    · rename_i hd0 hh
      split at h
      · cases h; exact retry_kept.refl_kept w
      · split at h
        · cases h
        · rename_i w1 hres
          cases h
          exact rk_reserve env hr w _ hres
        · rename_i d w1 hres
          have k1 := rk_reserve env hr w _ hres
          simp only at k1
          split at h
          · cases h
          · rename_i w6 hpair
            have k6 := rk_pair w1 d w6 hpair
            have kp := hr.2.2 w6 d
            split at h
            · rename_i w7 hp
              rw [hp] at kp
              split at h
              · cases h
              · rename_i rest w8 hl
                cases h
                exact k1.trans_kept (k6.trans_kept (kp.trans_kept (ih _ w7 (rest, w8) hl)))
            · rename_i w7 hp
              rw [hp] at kp
              split at h
              · cases h
                exact k1.trans_kept (k6.trans_kept kp)
              · split at h
                · cases h
                · rename_i w9 hf
                  have k9 := rk_fail env hr d w7 w9 hf
                  split at h
                  · cases h
                  · rename_i rest w10 hl
                    cases h
                    exact k1.trans_kept (k6.trans_kept (kp.trans_kept
                      (k9.trans_kept (ih _ w9 (rest, w10) hl))))

theorem rk_assign (env : Env) (hr : env.retry_frame) (w : World)
    (r : List (Option (List Nat)) × World) (h : cproxy_assign_downstream env w = .ok r) :
    retry_kept w r.2 := by
  unfold cproxy_assign_downstream at h
  simp only at h
  have k := rk_assign_loop env hr _ _ _ _ _ r h
  exact (retry_kept.of_conns rfl rfl).trans_kept k

theorem rk_release_downstream_conn (env : Env) (hr : env.retry_frame) (w : World) (d c : Nat)
    (w1 : World) (h : cproxy_release_downstream_conn env w d c = .ok w1) : retry_kept w w1 := by
  unfold cproxy_release_downstream_conn at h
  split at h
  · cases h
  · rename_i dd hd
    simp only at h
    split at h
    · split at h
      · cases h
      · rename_i b w2 h2
        have k2 := rk_release env hr _ d false _ h2
        cases ha : cproxy_assign_downstream env w2 with
        | error f => rw [ha] at h; cases h
        | ok r =>
          rw [ha] at h
          cases h
          exact (retry_kept.of_conns rfl rfl).trans_kept (k2.trans_kept (rk_assign env hr w2 r ha))
    · cases h
      exact retry_kept.of_conns rfl rfl

theorem get_c_set_c_fields (w : World) (c u : Nat) (cc v cu : conn) (hc : w.get_c c = some cc)
    (hu : (w.set_c c v).get_c u = some cu) (hn : v.next = cc.next)
    (hr : v.cmd_retries = cc.cmd_retries) :
    ∃ cu0, w.get_c u = some cu0 ∧ cu.next = cu0.next ∧ cu.cmd_retries = cu0.cmd_retries := by
  rw [get_c_set_c] at hu
  by_cases hcu : c = u
  · subst hcu
    rw [if_pos ⟨rfl, lt_of_get_c hc⟩] at hu
    cases hu
    exact ⟨cc, hc, hn, hr⟩
  · rw [if_neg (fun hh => hcu hh.1)] at hu
    exact ⟨cu, hu, rfl, rfl⟩

theorem close_decide_spec (w : World) (c d : Nat) (cc : conn) (dd : downstream)
    (o : Option (Nat × Option Nat)) (w1 : World)
    (hc : w.get_c c = some cc) (hx : cc.extra = some d) (hd : w.get_d d = some dd)
    (h : cproxy_on_close_downstream_conn_decide w c = .ok (o, w1)) :
    ∃ r dd1, o = some (d, r) ∧ w1.get_d d = some dd1 ∧
      w1.ptd.stats.tot_retry = w.ptd.stats.tot_retry ∧
      ((∃ uc ucc, r = some uc ∧ dd.upstream_conn = some uc ∧ w.get_c uc = some ucc ∧
          dd.downstream_used = 1 ∧ dd.downstream_used_start = 1 ∧ cc.rcurr ≠ none ∧
          cc.rbytes = 0 ∧ ucc.next = none ∧ ucc.cmd_retries < 1 ∧
          dd1.upstream_suffix = none ∧
          (∃ ucc1, w1.get_c uc = some ucc1 ∧ ucc1.cmd_retries = ucc.cmd_retries + 1) ∧
          ∀ u cu, u ≠ uc → w.get_c u = some cu →
            ∃ cu1, w1.get_c u = some cu1 ∧ cu1.cmd_retries = cu.cmd_retries) ∨
       (r = none ∧
          (¬ ∃ uc ucc, dd.upstream_conn = some uc ∧ w.get_c uc = some ucc ∧
            dd.downstream_used = 1 ∧ dd.downstream_used_start = 1 ∧ cc.rcurr ≠ none ∧
            cc.rbytes = 0 ∧ ucc.next = none ∧ ucc.cmd_retries < 1) ∧
          (dd.upstream_conn ≠ none → dd.downstream_used = 1 →
            dd1.upstream_suffix =
              some (dd.upstream_suffix.getD "SERVER_ERROR proxy downstream closed\r\n")) ∧
          ∀ u cu, w.get_c u = some cu →
            ∃ cu1, w1.get_c u = some cu1 ∧ cu1.cmd_retries = cu.cmd_retries)) := by
  unfold cproxy_on_close_downstream_conn_decide at h
  rw [hc] at h
  simp only at h
  split at h
  · cases h
  split at h
  · cases h
  rw [hx] at h
  simp only at h
  obtain ⟨wa, hwa⟩ : ∃ wa, wa = w.set_c c { cc with extra := none } := ⟨_, rfl⟩
  rw [← hwa] at h
  have hlt := lt_of_get_c hc
  have hda : wa.get_d d = some dd := by rw [hwa]; exact hd
  have hca : wa.get_c c = some { cc with extra := none } := by
    rw [hwa]; exact get_c_set_c_same w c _ hlt
  have hfa : ∀ u cu, w.get_c u = some cu →
      ∃ cu1, wa.get_c u = some cu1 ∧ cu1.cmd_retries = cu.cmd_retries ∧ cu1.next = cu.next := by
    intro u cu hu
    rw [hwa, get_c_set_c]
    by_cases hcu : c = u
    · subst hcu
      rw [hc] at hu
      cases hu
      rw [if_pos ⟨rfl, hlt⟩]
      exact ⟨_, rfl, rfl, rfl⟩
    · rw [if_neg (fun hh => hcu hh.1)]
      exact ⟨cu, hu, rfl, rfl⟩
  have hba : ∀ u cu1, wa.get_c u = some cu1 →
      ∃ cu, w.get_c u = some cu ∧ cu1.next = cu.next ∧ cu1.cmd_retries = cu.cmd_retries := by
    intro u cu1 hu
    rw [hwa] at hu
    exact get_c_set_c_fields w c u cc _ cu1 hc hu rfl rfl
  have hta : wa.ptd = w.ptd := by rw [hwa]; rfl
  rw [hda] at h
  simp only at h
  obtain ⟨dd4, hdd4⟩ : ∃ dd4 : downstream, dd4 = { dd with
      downstream_conns := dd.downstream_conns.map (fun s => if s = some c then none else s) } :=
    ⟨_, rfl⟩
  rw [← hdd4] at h
  obtain ⟨wb, hwb⟩ : ∃ wb : World, wb = ((wa.set_d d dd4).set_stats
      { (wa.set_d d dd4).ptd.stats with
        tot_downstream_quit_server :=
          (wa.set_d d dd4).ptd.stats.tot_downstream_quit_server +
            dd.downstream_conns.count (some c) }).set_stats
      { ((wa.set_d d dd4).set_stats
          { (wa.set_d d dd4).ptd.stats with
            tot_downstream_quit_server :=
              (wa.set_d d dd4).ptd.stats.tot_downstream_quit_server +
                dd.downstream_conns.count (some c) }).ptd.stats with
        num_downstream_conn := ((wa.set_d d dd4).set_stats
          { (wa.set_d d dd4).ptd.stats with
            tot_downstream_quit_server :=
              (wa.set_d d dd4).ptd.stats.tot_downstream_quit_server +
                dd.downstream_conns.count (some c) }).ptd.stats.num_downstream_conn - 1 } :=
    ⟨_, rfl⟩
  rw [← hwb] at h
  have hcb : wb.conns = wa.conns := by rw [hwb]; rfl
  have hgb : ∀ u, wb.get_c u = wa.get_c u := by
    intro u; unfold World.get_c; rw [hcb]
  have hdb : wb.get_d d = some dd4 := by
    rw [hwb]
    exact get_d_set_d_live wa d dd4 dd hda
  have htb : wb.ptd.stats.tot_retry = w.ptd.stats.tot_retry := by
    rw [hwb, ← hta]; rfl
  split at h
  · cases h
  rw [hdb] at h
  simp only at h
  have hup : dd4.upstream_conn = dd.upstream_conn := by rw [hdd4]
  have hus : dd4.downstream_used = dd.downstream_used := by rw [hdd4]
  have hust : dd4.downstream_used_start = dd.downstream_used_start := by rw [hdd4]
  have hsf : dd4.upstream_suffix = dd.upstream_suffix := by rw [hdd4]
  have keep_b : ∀ u cu, w.get_c u = some cu →
      ∃ cu1, wb.get_c u = some cu1 ∧ cu1.cmd_retries = cu.cmd_retries := by
    intro u cu hu
    obtain ⟨cu1, h1, h2, _⟩ := hfa u cu hu
    exact ⟨cu1, by rw [hgb]; exact h1, h2⟩
  split at h
  · -- no upstream attached
    rename_i hnone
    cases h
    refine ⟨none, dd4, rfl, hdb, htb, Or.inr ⟨rfl, ?_, ?_, keep_b⟩⟩
    · rintro ⟨uc, ucc, h1, _⟩
      rw [← hup, hnone] at h1
      cases h1
    · intro h1
      rw [← hup, hnone] at h1
      exact absurd rfl h1
  · rename_i uc huc
    split at h
    swap
    · -- downstream_used is not 1
      rename_i hne
      cases h
      refine ⟨none, dd4, rfl, hdb, htb, Or.inr ⟨rfl, ?_, ?_, keep_b⟩⟩
      · rintro ⟨_, _, _, _, h1, _⟩
        exact hne (hus.trans h1)
      · intro _ h1
        exact absurd (hus.trans h1) hne
    · rename_i hone
      obtain ⟨dd5, hdd5⟩ : ∃ dd5 : downstream, dd5 =
          (if dd4.upstream_suffix = none then
            { dd4 with upstream_suffix := some "SERVER_ERROR proxy downstream closed\r\n" }
          else dd4) := ⟨_, rfl⟩
      rw [← hdd5] at h
      have h5up : dd5.upstream_conn = dd.upstream_conn := by
        rw [hdd5]; split <;> simp [hup]
      have h5us : dd5.downstream_used = dd.downstream_used := by
        rw [hdd5]; split <;> simp [hus]
      have h5ust : dd5.downstream_used_start = dd.downstream_used_start := by
        rw [hdd5]; split <;> simp [hust]
      have h5sf : dd5.upstream_suffix =
          some (dd.upstream_suffix.getD "SERVER_ERROR proxy downstream closed\r\n") := by
        rw [hdd5]
        split
        · rename_i hs
          rw [hsf] at hs
          simp [hs]
        · rename_i hs
          rw [hsf] at hs
          cases hv : dd.upstream_suffix with
          | none => exact absurd hv hs
          | some s => simp [hsf, hv]
      obtain ⟨wc, hwc⟩ : ∃ wc, wc = wb.set_d d dd5 := ⟨_, rfl⟩
      rw [← hwc] at h
      have hgc : ∀ u, wc.get_c u = wa.get_c u := by
        intro u; rw [hwc, get_c_set_d]; exact hgb u
      have hdc : wc.get_d d = some dd5 := by
        rw [hwc]; exact get_d_set_d_live wb d dd5 dd4 hdb
      have htc : wc.ptd.stats.tot_retry = w.ptd.stats.tot_retry := by
        rw [hwc]; exact htb
      have keep_c : ∀ u cu, w.get_c u = some cu →
          ∃ cu1, wc.get_c u = some cu1 ∧ cu1.cmd_retries = cu.cmd_retries := by
        intro u cu hu
        obtain ⟨cu1, h1, h2, _⟩ := hfa u cu hu
        exact ⟨cu1, by rw [hgc]; exact h1, h2⟩
      rw [hgc c, hca] at h
      simp only at h
      have hone1 : dd.downstream_used = 1 := hus.symm.trans hone
      have hucd : dd.upstream_conn = some uc := hup.symm.trans huc
      split at h
      swap
      · -- the socket condition fails
        rename_i hcond
        cases h
        refine ⟨none, dd5, rfl, hdc, htc, Or.inr ⟨rfl, ?_, fun _ _ => h5sf, keep_c⟩⟩
        rintro ⟨_, _, _, _, h1, h2, h3, h4, _⟩
        exact hcond ⟨h3, h4, by rw [h5ust, h5us, h1, h2], by rw [h5ust, h2]⟩
      · rename_i hcond
        split at h
        · cases h
        · rename_i ucc5 hucc5
          rw [hgc] at hucc5
          obtain ⟨ucc, hucc, hn5, hr5⟩ := hba uc ucc5 hucc5
          split at h
          swap
          · rename_i hcond2
            cases h
            refine ⟨none, dd5, rfl, hdc, htc, Or.inr ⟨rfl, ?_, fun _ _ => h5sf, keep_c⟩⟩
            rintro ⟨uc1, ucc1, h0, h0c, _, _, _, _, h5, h6⟩
            rw [hucd] at h0
            cases h0
            rw [hucc] at h0c
            cases h0c
            exact hcond2 ⟨hn5.trans h5, by rw [hr5]; exact h6⟩
          · rename_i hcond2
            cases h
            have hltc : uc < wc.conns.length := by
              have : wc.get_c uc = some ucc5 := by rw [hgc]; exact hucc5
              exact lt_of_get_c this
            have hdf : ((wc.set_c uc { ucc5 with cmd_retries := ucc5.cmd_retries + 1 }).set_d d
                { dd5 with upstream_suffix := none }).get_d d =
                some { dd5 with upstream_suffix := none } := by
              apply get_d_set_d_same
              exact lt_of_get_d hdc
            refine ⟨some uc, _, rfl, hdf, htc, Or.inl ⟨uc, ucc, rfl, hucd, hucc, hone1, ?_,
              hcond.1, hcond.2.1, hn5.symm.trans hcond2.1, by rw [← hr5]; exact hcond2.2, rfl,
              ⟨{ ucc5 with cmd_retries := ucc5.cmd_retries + 1 }, ?_,
                by show ucc5.cmd_retries + 1 = ucc.cmd_retries + 1; rw [hr5]⟩, ?_⟩⟩
            · rw [← h5ust]; exact hcond.2.2.2
            · rw [get_c_set_d]
              exact get_c_set_c_same wc uc _ hltc
            · intro u cu hne hu
              obtain ⟨cu1, h1, h2⟩ := keep_c u cu hu
              refine ⟨cu1, ?_, h2⟩
              rw [get_c_set_d, get_c_set_c, if_neg (fun hh => hne hh.1.symm)]
              exact h1

theorem rk_conn_list_remove_loop (head : Option Nat) (tail : Option (Option Nat)) (c : Nat) :
    ∀ (fuel : Nat) (w : World) (prev curr : Option Nat)
      (r : Option Nat × Option (Option Nat) × Bool × World),
      conn_list_remove_loop head tail c fuel w prev curr = .ok r → retry_kept w r.2.2.2 := by
  intro fuel
  induction fuel with
  | zero =>
    intro w prev curr r h
    cases curr with
    | none => unfold conn_list_remove_loop at h; cases h; exact retry_kept.refl_kept w
    | some x => unfold conn_list_remove_loop at h; cases h
  | succ fuel ih =>
    intro w prev curr r h
    cases curr with
    | none => unfold conn_list_remove_loop at h; cases h; exact retry_kept.refl_kept w
    | some x =>
      unfold conn_list_remove_loop at h
      split at h
      · cases h
      · rename_i cc hcc
        split at h
        · split at h
          · rename_i p
            split at h
            · cases h
            · split at h
              · cases h
              · rename_i pc hpc
                simp only at h
                split at h
                · cases h
                · rename_i cc1 hcc1
                  cases h
                  exact (retry_kept.set_c_kept w p pc { pc with next := cc.next } hpc
                    (Or.inl rfl)).trans_kept
                    (retry_kept.set_c_kept _ x cc1 { cc1 with next := none } hcc1 (Or.inl rfl))
          · split at h
            · cases h
              exact retry_kept.set_c_kept w x cc { cc with next := none } hcc (Or.inl rfl)
            · cases h
        · exact ih _ _ _ _ h

theorem rk_conn_list_remove (w : World) (head : Option Nat) (tail : Option (Option Nat))
    (c : Nat) (r : Option Nat × Option (Option Nat) × Bool × World)
    (h : conn_list_remove w head tail c = .ok r) : retry_kept w r.2.2.2 :=
  rk_conn_list_remove_loop head tail c _ w none head r h

theorem rk_wait_queue_remove (w : World) (c : Nat) (w1 : World)
    (h : wait_queue_remove w c = .ok w1) : retry_kept w w1 := by
  unfold wait_queue_remove at h
  split at h
  · cases h
  · rename_i hd t f wa ha
    cases h
    have k := rk_conn_list_remove w _ _ c _ ha
    exact k.trans_kept (retry_kept.of_conns rfl rfl)

theorem rk_wait_any (w : World) (uc : Nat) (w1 : World)
    (h : cproxy_wait_any_downstream w uc = .ok w1) : retry_kept w w1 := by
  unfold cproxy_wait_any_downstream at h
  simp only at h
  split at h
  · cases h
  · split at h
    · cases h
    · rename_i ucc hucc
      have k1 : retry_kept w (w.set_c uc { ucc with next := none }) :=
        retry_kept.set_c_kept w uc ucc _ hucc (Or.inl rfl)
      split at h
      · cases h
      · rename_i w2 h2
        have k2 : retry_kept (w.set_c uc { ucc with next := none }) w2 := by
          split at h2
          · cases h2; exact retry_kept.refl_kept _
          · rename_i t ht
            split at h2
            · cases h2
            · rename_i tc htc
              cases h2
              exact retry_kept.set_c_kept _ t tc { tc with next := some uc } htc (Or.inl rfl)
        split at h
        · cases h
          exact k1.trans_kept (k2.trans_kept (retry_kept.of_conns rfl rfl))
        · cases h
          exact k1.trans_kept (k2.trans_kept (retry_kept.of_conns rfl rfl))

theorem rk_start_wait_queue_timeout (env : Env) (w : World) (uc : Nat) (r : Bool × World)
    (h : cproxy_start_wait_queue_timeout env w uc = .ok r) : retry_kept w r.2 := by
  unfold cproxy_start_wait_queue_timeout at h
  split at h
  · cases h
  · simp only at h
    split at h
    · cases h; exact retry_kept.of_conns rfl rfl
    · cases h; exact retry_kept.of_conns rfl rfl

theorem rk_pause (env : Env) (hr : env.retry_frame) (w : World) (uc : Nat) (w1 : World)
    (h : cproxy_pause_upstream_for_downstream env w uc = .ok w1) : retry_kept w w1 := by
  unfold cproxy_pause_upstream_for_downstream at h
  split at h
  · cases h
  · rename_i wa ha
    have ka := rk_conn_set_state w uc _ wa ha
    split at h
    · cases h
    · rename_i wb hb
      have kb := rk_wait_any wa uc wb hb
      simp only at h
      split at h
      · cases h
      · rename_i wc hc
        have kc : retry_kept wb wc := by
          split at hc
          · cases hs : cproxy_start_wait_queue_timeout env wb uc with
            | error f => rw [hs] at hc; cases hc
            | ok r =>
              rw [hs] at hc
              cases hc
              exact rk_start_wait_queue_timeout env wb uc r hs
          · cases hc; exact retry_kept.refl_kept _
        cases hs : cproxy_assign_downstream env wc with
        | error f => rw [hs] at h; cases h
        | ok r =>
          rw [hs] at h
          cases h
          exact ka.trans_kept (kb.trans_kept (kc.trans_kept (rk_assign env hr wc r hs)))

theorem rk_close_upstream_sockets (env : Env) (hr : env.retry_frame) (d : Nat) :
    ∀ (left i : Nat) (w w1 : World),
      cproxy_on_close_upstream_conn_sockets env d left i w = .ok w1 → retry_kept w w1 := by
  intro left
  induction left with
  | zero => intro i w w1 h; cases h; exact retry_kept.refl_kept w
  | succ left ih =>
    intro i w w1 h
    unfold cproxy_on_close_upstream_conn_sockets at h
    split at h
    · cases h
    · split at h
      · exact ih _ _ _ h
      · rename_i s hs
        split at h
        · cases h
        · rename_i sc hsc
          split at h
          · split at h
            · cases h
            · rename_i wa ha
              have k1 : retry_kept w (w.set_c s { sc with msgused := 0, iov := [] }) :=
                retry_kept.set_c_kept w s sc _ hsc (Or.inl rfl)
              exact k1.trans_kept ((rk_close_conn env hr _ s wa ha).trans_kept (ih _ _ _ h))
          · exact ih _ _ _ h

theorem rk_close_upstream_body (env : Env) (hr : env.retry_frame) (c d : Nat) (w w1 : World)
    (h : cproxy_on_close_upstream_conn_body env c d w = .ok w1) : retry_kept w w1 := by
  unfold cproxy_on_close_upstream_conn_body at h
  split at h
  · cases h
  · split at h
    · cases h
    · rename_i hd t found wa ha
      have ka := rk_conn_list_remove w _ _ c _ ha
      simp only at ka
      split at h
      · cases h
      · simp only at h
        split at h
        · exact ka.trans_kept ((rk_set_d wa d _).trans_kept
            (rk_close_upstream_sockets env hr d _ _ _ w1 h))
        · cases h
          exact ka.trans_kept (rk_set_d wa d _)

theorem rk_close_upstream_loop (env : Env) (hr : env.retry_frame) (c : Nat) :
    ∀ (fuel : Nat) (cur : Option Nat) (w w1 : World),
      cproxy_on_close_upstream_conn_loop env c fuel cur w = .ok w1 → retry_kept w w1 := by
  intro fuel
  induction fuel with
  | zero =>
    intro cur w w1 h
    cases cur with
    | none => unfold cproxy_on_close_upstream_conn_loop at h; cases h; exact retry_kept.refl_kept w
    | some d => unfold cproxy_on_close_upstream_conn_loop at h; cases h
  | succ fuel ih =>
    intro cur w w1 h
    cases cur with
    | none => unfold cproxy_on_close_upstream_conn_loop at h; cases h; exact retry_kept.refl_kept w
    | some d =>
      unfold cproxy_on_close_upstream_conn_loop at h
      split at h
      · cases h
      · rename_i wa ha
        split at h
        · cases h
        · exact (rk_close_upstream_body env hr c d w wa ha).trans_kept (ih _ _ _ h)

theorem rk_close_upstream (env : Env) (hr : env.retry_frame) (w : World) (c : Nat) (w1 : World)
    (h : cproxy_on_close_upstream_conn env w c = .ok w1) : retry_kept w w1 := by
  unfold cproxy_on_close_upstream_conn at h
  split at h
  · cases h
  · rename_i cc hcc
    split at h
    · cases h
    simp only at h
    split at h
    · cases h
    split at h
    · cases h
    · rename_i w3 h3
      have k1 : retry_kept w (w.set_c c { cc with extra := none }) :=
        retry_kept.set_c_kept w c cc _ hcc (Or.inl rfl)
      have k3 := rk_close_upstream_loop env hr c _ _ _ w3 h3
      exact k1.trans_kept ((retry_kept.of_conns rfl rfl).trans_kept
        (k3.trans_kept (rk_wait_queue_remove w3 c w1 h)))

theorem rk_timeout_loop (env : Env) (hr : env.retry_frame) (cutoff : Nat) :
    ∀ (fuel : Nat) (cur : Option Nat) (w w1 : World),
      wait_queue_timeout_loop env cutoff fuel cur w = .ok w1 → retry_kept w w1 := by
  intro fuel
  induction fuel with
  | zero =>
    intro cur w w1 h
    cases cur with
    | none => unfold wait_queue_timeout_loop at h; cases h; exact retry_kept.refl_kept w
    | some d => unfold wait_queue_timeout_loop at h; cases h
  | succ fuel ih =>
    intro cur w w1 h
    cases cur with
    | none => unfold wait_queue_timeout_loop at h; cases h; exact retry_kept.refl_kept w
    | some uc =>
      unfold wait_queue_timeout_loop at h
      split at h
      · cases h
      · split at h
        · split at h
          · cases h
          · rename_i wa ha
            split at h
            · cases h
            · rename_i wb hb
              exact (rk_wait_queue_remove w uc wa ha).trans_kept
                ((rk_upstream_error env hr wa uc wb hb).trans_kept (ih _ _ _ h))
        · exact ih _ _ _ h

theorem rk_timeout (env : Env) (hr : env.retry_frame) (w w1 : World)
    (h : wait_queue_timeout env w = .ok w1) : retry_kept w w1 := by
  unfold wait_queue_timeout at h
  split at h
  · simp only at h
    split at h
    · cases h
    · rename_i w2 h2
      have k2 := rk_timeout_loop env hr _ _ _ _ w2 h2
      have k02 : retry_kept w w2 := (retry_kept.of_conns rfl rfl).trans_kept k2
      split at h
      · cases h; exact k02
      · rename_i hd hh
        cases hs : cproxy_start_wait_queue_timeout env w2 hd with
        | error f => rw [hs] at h; cases h
        | ok r =>
          rw [hs] at h
          cases h
          exact k02.trans_kept (rk_start_wait_queue_timeout env w2 hd r hs)
  · cases h
    exact retry_kept.refl_kept w

theorem quiet_env_retry_frame : quiet_env.retry_frame :=
  ⟨fun w _ => retry_kept.refl_kept w, fun w _ _ => retry_kept.refl_kept w,
    fun w _ => retry_kept.refl_kept w⟩

theorem close_closing_world :
    cproxy_on_close_downstream_conn quiet_env closing_world 1 = .ok (some 0, closed_world) := by
  decide

theorem close_unfold (env : Env) (w : World) (c : Nat) (r : Option Nat) (w2 : World)
    (h : cproxy_on_close_downstream_conn env w c = .ok (r, w2)) :
    ∃ o w1, cproxy_on_close_downstream_conn_decide w c = .ok (o, w1) ∧
      ((o = none ∧ r = none ∧ w2 = w1) ∨
       ∃ d wr, o = some (d, r) ∧ cproxy_release_downstream_conn env w1 d c = .ok wr ∧
        ((r = none ∧ w2 = wr) ∨
         (r ≠ none ∧ w2 = wr.set_stats { wr.ptd.stats with
            tot_retry := wr.ptd.stats.tot_retry + 1 }))) := by
  unfold cproxy_on_close_downstream_conn at h
  split at h
  · cases h
  · rename_i w1 hdec
    simp only [Except.ok.injEq, Prod.mk.injEq] at h
    obtain ⟨h1, h2⟩ := h
    subst h1 h2
    exact ⟨none, _, hdec, Or.inl ⟨rfl, rfl, rfl⟩⟩
  · rename_i d uc_retry w1 hdec
    split at h
    · cases h
    · rename_i wr hrel
      split at h
      · simp only [Except.ok.injEq, Prod.mk.injEq] at h
        obtain ⟨h1, h2⟩ := h
        subst h1 h2
        exact ⟨_, w1, hdec, Or.inr ⟨d, _, rfl, hrel, Or.inl ⟨rfl, rfl⟩⟩⟩
      · rename_i uc
        simp only [Except.ok.injEq, Prod.mk.injEq] at h
        obtain ⟨h1, h2⟩ := h
        subst h1 h2
        exact ⟨_, w1, hdec, Or.inr ⟨d, wr, rfl, hrel, Or.inr ⟨by simp, rfl⟩⟩⟩

/-- C14.  One-shot retry decision.  Let `cproxy_on_close_downstream_conn`
return on the socket `c` of the downstream `d`, in a state where every
`cmd_retries` is a count (not negative), under the frame assumption on the
host functions.  Then a retry is handed to the work queue if and only if `d`
has an upstream attached, `downstream_used` and `downstream_used_start` are
both 1, the socket has a read buffer and no reply byte, the upstream is alone
(`next` is `NULL`) and its `cmd_retries` is 0.  In that case, at the call of
`cproxy_release_downstream_conn`, the `cmd_retries` of the upstream is 1 and
`upstream_suffix` is `NULL`, and at the end `tot_retry` is one more than at
entry.  Without a retry `tot_retry` is unchanged and, when an upstream is
attached and `downstream_used` is 1, a `NULL` suffix has become
`"SERVER_ERROR proxy downstream closed\r\n"` and any other suffix is kept. -/
theorem close_downstream_retry_decision (env : Env) (hr : env.retry_frame) (w : World)
    (c d : Nat) (cc : conn) (dd : downstream) (r : Option Nat) (w2 : World)
    (hc : w.get_c c = some cc) (hx : cc.extra = some d) (hd : w.get_d d = some dd)
    (hnn : ∀ u cu, w.get_c u = some cu → 0 ≤ cu.cmd_retries)
    (h : cproxy_on_close_downstream_conn env w c = .ok (r, w2)) :
    ∃ w1 dd1, cproxy_on_close_downstream_conn_decide w c = .ok (some (d, r), w1) ∧
      w1.get_d d = some dd1 ∧
      (r ≠ none ↔ ∃ uc ucc, dd.upstream_conn = some uc ∧ w.get_c uc = some ucc ∧
        dd.downstream_used = 1 ∧ dd.downstream_used_start = 1 ∧ cc.rcurr ≠ none ∧
        cc.rbytes = 0 ∧ ucc.next = none ∧ ucc.cmd_retries = 0) ∧
      (∀ uc, r = some uc → dd.upstream_conn = some uc ∧
        (∃ ucc1, w1.get_c uc = some ucc1 ∧ ucc1.cmd_retries = 1) ∧
        dd1.upstream_suffix = none ∧
        w2.ptd.stats.tot_retry = w.ptd.stats.tot_retry + 1) ∧
      (r = none →
        (dd.upstream_conn ≠ none → dd.downstream_used = 1 →
          dd1.upstream_suffix =
            some (dd.upstream_suffix.getD "SERVER_ERROR proxy downstream closed\r\n")) ∧
        w2.ptd.stats.tot_retry = w.ptd.stats.tot_retry) := by
  obtain ⟨o, w1, hdec, hrest⟩ := close_unfold env w c r w2 h
  obtain ⟨r0, dd1, ho, hd1, ht1, hcase⟩ := close_decide_spec w c d cc dd o w1 hc hx hd hdec
  subst ho
  rcases hrest with ⟨h1, _, _⟩ | ⟨d1, wr, h1, hrel, hfin⟩
  · cases h1
  simp only [Option.some.injEq, Prod.mk.injEq] at h1
  obtain ⟨_, hrr⟩ := h1
  subst hrr
  have krel := rk_release_downstream_conn env hr w1 d1 c wr hrel
  have htr : wr.ptd.stats.tot_retry = w.ptd.stats.tot_retry := krel.1.trans ht1
  refine ⟨w1, dd1, hdec, hd1, ?_, ?_, ?_⟩
  · constructor
    · intro hne
      rcases hcase with ⟨uc, ucc, _, a2, a3, a4, a5, a6, a7, a8, a9, _⟩ | ⟨hn, _⟩
      · exact ⟨uc, ucc, a2, a3, a4, a5, a6, a7, a8, by have := hnn uc ucc a3; omega⟩
      · exact absurd hn hne
    · rintro ⟨uc, ucc, a2, a3, a4, a5, a6, a7, a8, a9⟩
      rcases hcase with ⟨uc1, _, a1, _⟩ | ⟨_, hnot, _⟩
      · rw [a1]; simp
      · exact absurd ⟨uc, ucc, a2, a3, a4, a5, a6, a7, a8, by omega⟩ hnot
  · intro uc hruc
    rcases hcase with ⟨uc1, ucc, a1, a2, a3, _, _, _, _, _, a9, a10, ⟨ucc1, b1, b2⟩, _⟩ | ⟨hn, _⟩
    · rw [hruc] at a1
      cases a1
      refine ⟨a2, ⟨ucc1, b1, by have := hnn uc ucc a3; omega⟩, a10, ?_⟩
      rcases hfin with ⟨hn, _⟩ | ⟨_, hw2⟩
      · rw [hruc] at hn; cases hn
      · rw [hw2]
        show wr.ptd.stats.tot_retry + 1 = _
        rw [htr]
    · rw [hruc] at hn; cases hn
  · intro hrn
    rcases hcase with ⟨uc1, _, a1, _⟩ | ⟨_, _, hsf, _⟩
    · rw [hrn] at a1; cases a1
    · refine ⟨hsf, ?_⟩
      rcases hfin with ⟨_, hw2⟩ | ⟨hne, _⟩
      · rw [hw2]; exact htr
      · exact absurd hrn hne

theorem close_downstream_retry_decision_witness :
    ∃ w1 dd1, cproxy_on_close_downstream_conn_decide closing_world 1 = .ok (some (0, some 0), w1) ∧
      w1.get_d 0 = some dd1 ∧
      (some 0 ≠ none ↔ ∃ uc ucc, closing_downstream.upstream_conn = some uc ∧
        closing_world.get_c uc = some ucc ∧ closing_downstream.downstream_used = 1 ∧
        closing_downstream.downstream_used_start = 1 ∧ closing_socket.rcurr ≠ none ∧
        closing_socket.rbytes = 0 ∧ ucc.next = none ∧ ucc.cmd_retries = 0) ∧
      (∀ uc, some 0 = some uc → closing_downstream.upstream_conn = some uc ∧
        (∃ ucc1, w1.get_c uc = some ucc1 ∧ ucc1.cmd_retries = 1) ∧
        dd1.upstream_suffix = none ∧
        closed_world.ptd.stats.tot_retry = closing_world.ptd.stats.tot_retry + 1) ∧
      (some 0 = none →
        (closing_downstream.upstream_conn ≠ none → closing_downstream.downstream_used = 1 →
          dd1.upstream_suffix =
            some (closing_downstream.upstream_suffix.getD
              "SERVER_ERROR proxy downstream closed\r\n")) ∧
        closed_world.ptd.stats.tot_retry = closing_world.ptd.stats.tot_retry) :=
  close_downstream_retry_decision quiet_env quiet_env_retry_frame closing_world 1 0
    closing_socket closing_downstream (some 0) closed_world (by decide) (by decide) (by decide)
    (by
      intro u cu hu
      have h0 : u < 2 := lt_of_get_c hu
      interval_cases u
      · cases hu; decide
      · cases hu; decide)
    close_closing_world

theorem close_decide_frame (w : World) (c : Nat) (o : Option (Nat × Option Nat)) (w1 : World)
    (h : cproxy_on_close_downstream_conn_decide w c = .ok (o, w1)) :
    ∀ u cu, w.get_c u = some cu →
      ∃ cu1, w1.get_c u = some cu1 ∧
        (cu1.cmd_retries = cu.cmd_retries ∨
          (o.bind (fun p => p.2) = some u ∧ cu.cmd_retries < 1 ∧
            cu1.cmd_retries = cu.cmd_retries + 1)) := by
  cases hc : w.get_c c with
  | none =>
    unfold cproxy_on_close_downstream_conn_decide at h
    rw [hc] at h
    cases h
  | some cc =>
    cases hx : cc.extra with
    | none =>
      unfold cproxy_on_close_downstream_conn_decide at h
      rw [hc] at h
      simp only at h
      split at h
      · cases h
      split at h
      · cases h
      rw [hx] at h
      cases h
      intro u cu hu
      exact ⟨cu, hu, Or.inl rfl⟩
    | some d =>
      cases hd : w.get_d d with
      | none =>
        unfold cproxy_on_close_downstream_conn_decide at h
        rw [hc] at h
        simp only at h
        split at h
        · cases h
        split at h
        · cases h
        rw [hx] at h
        simp only [get_d_set_c, hd] at h
        cases h
      | some dd =>
        obtain ⟨r, dd1, ho, _, _, hcase⟩ := close_decide_spec w c d cc dd o w1 hc hx hd h
        subst ho
        intro u cu hu
        rcases hcase with ⟨uc, ucc, a1, _, a3, _, _, _, _, _, a9, _, ⟨ucc1, b1, b2⟩, a11⟩ |
          ⟨_, _, _, a4⟩
        · by_cases huu : u = uc
          · subst huu
            rw [a3] at hu
            cases hu
            exact ⟨ucc1, b1, Or.inr ⟨by simp [a1], a9, b2⟩⟩
          · obtain ⟨cu1, c1, c2⟩ := a11 u cu huu hu
            exact ⟨cu1, c1, Or.inl c2⟩
        · obtain ⟨cu1, c1, c2⟩ := a4 u cu hu
          exact ⟨cu1, c1, Or.inl c2⟩

theorem close_cap (env : Env) (hr : env.retry_frame) (w : World) (c : Nat) (r : Option Nat)
    (w2 : World) (h : cproxy_on_close_downstream_conn env w c = .ok (r, w2)) :
    ∀ u cu, w.get_c u = some cu →
      ∃ cu2, w2.get_c u = some cu2 ∧ (cu.cmd_retries ≤ 1 → cu2.cmd_retries ≤ 1) := by
  obtain ⟨o, w1, hdec, hrest⟩ := close_unfold env w c r w2 h
  intro u cu hu
  obtain ⟨cu1, h1, hk1⟩ := close_decide_frame w c o w1 hdec u cu hu
  have hcap1 : cu.cmd_retries ≤ 1 → cu1.cmd_retries ≤ 1 := by
    intro hle
    rcases hk1 with e | ⟨_, e1, e2⟩ <;> omega
  rcases hrest with ⟨_, _, hw⟩ | ⟨d, wr, _, hrel, hfin⟩
  · rw [hw]
    exact ⟨cu1, h1, hcap1⟩
  · obtain ⟨cur, h2, hk2⟩ := (rk_release_downstream_conn env hr w1 d c wr hrel).2 u cu1 h1
    have hcap2 : cu.cmd_retries ≤ 1 → cur.cmd_retries ≤ 1 := by
      intro hle
      have := hcap1 hle
      rcases hk2 with e | e <;> omega
    rcases hfin with ⟨_, hw⟩ | ⟨_, hw⟩
    · rw [hw]; exact ⟨cur, h2, hcap2⟩
    · rw [hw]; exact ⟨cur, h2, hcap2⟩

theorem cap_of_kept {w w1 : World} (hk : retry_kept w w1) :
    ∀ u cu, w.get_c u = some cu →
      ∃ cu2, w1.get_c u = some cu2 ∧ (cu.cmd_retries ≤ 1 → cu2.cmd_retries ≤ 1) := by
  intro u cu hu
  obtain ⟨cu1, h1, hk1⟩ := hk.2 u cu hu
  exact ⟨cu1, h1, fun hle => by rcases hk1 with e | e <;> omega⟩

theorem retry_step_cap (env : Env) (hr : env.retry_frame) (w w1 : World)
    (hs : retry_step env w w1) :
    ∀ u cu, w.get_c u = some cu →
      ∃ cu2, w1.get_c u = some cu2 ∧ (cu.cmd_retries ≤ 1 → cu2.cmd_retries ≤ 1) := by
  cases hs with
  | close_downstream c h => exact close_cap env hr w c _ w1 h
  | close_upstream c h => exact cap_of_kept (rk_close_upstream env hr w c w1 h)
  | pause uc h => exact cap_of_kept (rk_pause env hr w uc w1 h)
  | timeout h => exact cap_of_kept (rk_timeout env hr w w1 h)
  | release d force h => exact cap_of_kept (rk_release env hr w d force _ h)
  | assign h => exact cap_of_kept (rk_assign env hr w _ h)
  | host h => exact cap_of_kept h

theorem retry_reachable_cap (env : Env) (hr : env.retry_frame) (w0 wn : World)
    (hreach : retry_reachable env w0 wn) :
    ∀ u cu, w0.get_c u = some cu → cu.cmd_retries ≤ 1 →
      ∃ cun, wn.get_c u = some cun ∧ cun.cmd_retries ≤ 1 := by
  induction hreach with
  | init => intro u cu hu hle; exact ⟨cu, hu, hle⟩
  | step _ hs ih =>
    intro u cu hu hle
    obtain ⟨cu1, h1, hle1⟩ := ih u cu hu hle
    obtain ⟨cu2, h2, hk⟩ := retry_step_cap env hr _ _ hs u cu1 h1
    exact ⟨cu2, h2, hk hle1⟩

/-- C13.  Retry cap.  Under the frame assumption on the host functions, when
`cproxy_on_close_downstream_conn` returns, every connection whose
`cmd_retries` was at most 1 still has a `cmd_retries` of at most 1; the first
part of the function, the only code that writes the field, leaves every
`cmd_retries` as it was, except that of the upstream it hands to the work
queue for a retry, which was below 1 and is raised by one; and along every
sequence of steps of the pairing engine and of the host (`retry_reachable`),
a connection that starts with a `cmd_retries` of at most 1 keeps it at most
1. -/
theorem close_downstream_retry_cap (env : Env) (hr : env.retry_frame) (w : World) (c : Nat)
    (r : Option Nat) (w2 : World)
    (h : cproxy_on_close_downstream_conn env w c = .ok (r, w2)) :
    (∀ u cu, w.get_c u = some cu →
      ∃ cu2, w2.get_c u = some cu2 ∧ (cu.cmd_retries ≤ 1 → cu2.cmd_retries ≤ 1)) ∧
    (∃ o w1, cproxy_on_close_downstream_conn_decide w c = .ok (o, w1) ∧
      ∀ u cu, w.get_c u = some cu →
        ∃ cu1, w1.get_c u = some cu1 ∧
          (cu1.cmd_retries = cu.cmd_retries ∨
            (r = some u ∧ cu.cmd_retries < 1 ∧ cu1.cmd_retries = cu.cmd_retries + 1))) ∧
    ∀ w0 wn, retry_reachable env w0 wn →
      ∀ u cu, w0.get_c u = some cu → cu.cmd_retries ≤ 1 →
        ∃ cun, wn.get_c u = some cun ∧ cun.cmd_retries ≤ 1 := by
  refine ⟨close_cap env hr w c r w2 h, ?_, fun w0 wn hreach => retry_reachable_cap env hr w0 wn hreach⟩
  obtain ⟨o, w1, hdec, hrest⟩ := close_unfold env w c r w2 h
  refine ⟨o, w1, hdec, fun u cu hu => ?_⟩
  obtain ⟨cu1, h1, hk1⟩ := close_decide_frame w c o w1 hdec u cu hu
  refine ⟨cu1, h1, ?_⟩
  rcases hk1 with e | ⟨e0, e1, e2⟩
  · exact Or.inl e
  · refine Or.inr ⟨?_, e1, e2⟩
    rcases hrest with ⟨ho, _, _⟩ | ⟨d, wr, ho, _, _⟩
    · rw [ho] at e0; cases e0
    · rw [ho] at e0
      exact e0

theorem close_downstream_retry_cap_witness :
    quiet_env.retry_frame ∧
    cproxy_on_close_downstream_conn quiet_env closing_world 1 = .ok (some 0, closed_world) ∧
    (∀ u cu, closing_world.get_c u = some cu →
      ∃ cu2, closed_world.get_c u = some cu2 ∧ (cu.cmd_retries ≤ 1 → cu2.cmd_retries ≤ 1)) ∧
    (∃ o w1, cproxy_on_close_downstream_conn_decide closing_world 1 = .ok (o, w1) ∧
      ∀ u cu, closing_world.get_c u = some cu →
        ∃ cu1, w1.get_c u = some cu1 ∧
          (cu1.cmd_retries = cu.cmd_retries ∨
            (some 0 = some u ∧ cu.cmd_retries < 1 ∧ cu1.cmd_retries = cu.cmd_retries + 1))) ∧
    ∀ w0 wn, retry_reachable quiet_env w0 wn →
      ∀ u cu, w0.get_c u = some cu → cu.cmd_retries ≤ 1 →
        ∃ cun, wn.get_c u = some cun ∧ cun.cmd_retries ≤ 1 :=
  ⟨quiet_env_retry_frame, close_closing_world,
    close_downstream_retry_cap quiet_env quiet_env_retry_frame closing_world 1 (some 0)
      closed_world close_closing_world⟩

theorem uhead_eq {w : World} {a : Nat} {dd : downstream} (h : w.get_d a = some dd) :
    w.uhead a = some dd.upstream_conn := by
  simp [World.uhead, h]

theorem uhead_some {w : World} {a : Nat} {h : Option Nat} (hu : w.uhead a = some h) :
    ∃ dd, w.get_d a = some dd ∧ dd.upstream_conn = h := by
  unfold World.uhead at hu
  cases hd : w.get_d a with
  | none => rw [hd] at hu; cases hu
  | some dd =>
    rw [hd] at hu
    simp only [Option.map_some', Option.some.injEq] at hu
    exact ⟨dd, rfl, hu⟩

theorem uhead_none {w : World} {a : Nat} : w.uhead a = none ↔ w.get_d a = none := by
  unfold World.uhead
  cases w.get_d a <;> simp

theorem uhead_of_payload {w w1 : World} {a : Nat}
    (h : (w1.get_d a).map downstream.payload = (w.get_d a).map downstream.payload) :
    w1.uhead a = w.uhead a := by
  unfold World.uhead
  cases h1 : w1.get_d a with
  | none =>
    cases h0 : w.get_d a with
    | none => rfl
    | some dd => rw [h1, h0] at h; cases h
  | some dd1 =>
    cases h0 : w.get_d a with
    | none => rw [h1, h0] at h; cases h
    | some dd =>
      rw [h1, h0] at h
      simp only [Option.map_some', Option.some.injEq] at h ⊢
      have := congrArg downstream.upstream_conn h
      exact this

theorem lists_wf.transfer {w w1 : World} {q : List Nat} {L : Nat → List Nat}
    (h : lists_wf w q L)
    (hh : w1.ptd.waiting_any_downstream_head = w.ptd.waiting_any_downstream_head)
    (ht : w1.ptd.waiting_any_downstream_tail = w.ptd.waiting_any_downstream_tail)
    (hq : ∀ c, c ∈ q → w1.cnext c = w.cnext c)
    (hu : ∀ a h1, w1.uhead a = some h1 →
      h1 = none ∨ (w.uhead a = some h1 ∧ ∀ c, c ∈ L a → w1.cnext c = w.cnext c)) :
    lists_wf w1 q (fun a => match w1.uhead a with
      | some (some _) => L a
      | _ => []) := by
  refine ⟨?_, ?_, ?_, ?_, ?_, ?_⟩
  · rw [hh]; exact h.queue.congr hq
  · rw [ht]; exact h.tail
  · intro a h1 ha
    simp only [ha]
    cases h1 with
    | none => exact IsChain.nil
    | some x =>
      rcases hu a _ ha with hn | ⟨h0, hc⟩
      · cases hn
      · exact (h.lists a _ h0).congr hc
  · intro a ha
    simp only [ha]
  · intro a x hx
    refine h.off_queue a x ?_
    split at hx
    · exact hx
    · cases hx
  · intro a b hab x hx
    have hxa : x ∈ L a := by
      split at hx
      · exact hx
      · cases hx
    intro hxb
    have hxb2 : x ∈ L b := by
      split at hxb
      · exact hxb
      · cases hxb
    exact h.apart a b hab x hxa hxb2

theorem lists_wf.nodup_list {w : World} {q : List Nat} {L : Nat → List Nat}
    (h : lists_wf w q L) (a : Nat) : (L a).Nodup := by
  cases hu : w.uhead a with
  | none => rw [h.dead a hu]; exact List.nodup_nil
  | some h1 => exact (h.lists a h1 hu).nodup

theorem lists_wf.all_upstreams {w : World} {q : List Nat} {L : Nat → List Nat}
    (h : lists_wf w q L) :
    w.all_upstreams = some (q ++ ((List.range w.ds.length).map L).flatten) ∧
      (q ++ ((List.range w.ds.length).map L).flatten).Nodup := by
  have hal : w.attached_lists = (List.range w.ds.length).map (fun a => some (L a)) := by
    unfold World.attached_lists
    apply List.map_congr_left
    intro a _
    cases hd : w.get_d a with
    | none =>
      simp only
      rw [h.dead a (uhead_none.2 hd)]
    | some dd =>
      simp only
      exact upstream_list_iff.2 (h.lists a _ (uhead_eq hd))
  constructor
  · unfold World.all_upstreams
    rw [wait_queue_iff.2 h.queue]
    simp only [hal]
    rw [if_pos (by simp)]
    simp [Function.comp_def]
  · rw [List.nodup_append]
    refine ⟨h.queue.nodup, ?_, ?_⟩
    · rw [List.nodup_flatten]
      constructor
      · intro l hl
        rw [List.mem_map] at hl
        obtain ⟨a, _, rfl⟩ := hl
        exact h.nodup_list a
      · rw [List.pairwise_map]
        refine List.Pairwise.imp_of_mem ?_ (List.nodup_range _)
        intro a b _ _ hab
        intro x hxa hxb
        exact h.apart a b hab x hxa hxb
    · intro x hxq hxf
      rw [List.mem_flatten] at hxf
      obtain ⟨l, hl, hxl⟩ := hxf
      rw [List.mem_map] at hl
      obtain ⟨a, _, rfl⟩ := hl
      exact h.off_queue a x hxl hxq

theorem lists_wf.not_listed {w : World} {q : List Nat} {L : Nat → List Nat}
    (h : lists_wf w q L) {uc : Nat} (hn : ∀ l, w.all_upstreams = some l → uc ∉ l) :
    uc ∉ q ∧ ∀ a, uc ∉ L a := by
  have hm := hn _ h.all_upstreams.1
  rw [List.mem_append, not_or] at hm
  refine ⟨hm.1, fun a ha => ?_⟩
  by_cases hlt : a < w.ds.length
  · apply hm.2
    rw [List.mem_flatten]
    exact ⟨L a, List.mem_map.2 ⟨a, List.mem_range.2 hlt, rfl⟩, ha⟩
  · have hd : w.get_d a = none := by
      unfold World.get_d
      rw [List.getElem?_eq_none (by omega)]
      rfl
    rw [h.dead a (uhead_none.2 hd)] at ha
    cases ha

/-- C29 (failing input).  The downstream at address 0 of `one_released_world`
is the one `cproxy_add_downstream` creates from `created_world`: it was never
connected, so its only socket slot is `NULL`.  It satisfies the entry
assertions of `cproxy_free_downstream`, and the call faults in the loop
`d->downstream_conns[i]->extra = NULL`, which dereferences the `NULL` slot. -/
theorem free_downstream_null_slot_faults :
    cproxy_add_downstream quiet_env created_world = .ok one_released_world ∧
    (one_released_world.get_d 0).map (fun dd => (decide dd.free_ready, dd.downstream_conns)) =
      some (true, [none]) ∧
    cproxy_free_downstream one_released_world 0 = .error .null_deref := by
  decide

/-- C25.  The error line of `upstream_error`.  For an upstream `uc` in
`conn_pause` with a `proxy_td`, `upstream_error` queues exactly one line on
`uc` and changes nothing else before the call of `update_event`: the line is
`END` exactly when `cmd` is -1 and `cmd_start` is a string whose first three
characters are `get`, and `SERVER_ERROR proxy write to downstream` in every
other case, in particular for every command with an item (`cmd` is not -1).
When `update_event` succeeds the function returns this state; when it fails
the function counts an out-of-memory and closes `uc`. -/
theorem upstream_error_line (env : Env) (w : World) (uc : Nat) (cc : conn)
    (hc : w.get_c uc = some cc) (hs : cc.state = conn_state.conn_pause)
    (hx : cc.extra ≠ none) :
    ∃ line, (line = "END" ↔
        (cc.cmd = -1 ∧ ∃ s, cc.cmd_start = some s ∧ s.toList.take 3 = ['g', 'e', 't'])) ∧
      (line ≠ "END" → line = "SERVER_ERROR proxy write to downstream") ∧
      (cc.cmd ≠ -1 → line = "SERVER_ERROR proxy write to downstream") ∧
      (env.update_event (w.set_c uc { cc with out := cc.out ++ [line] }) uc = true →
        upstream_error env w uc = .ok (w.set_c uc { cc with out := cc.out ++ [line] })) ∧
      (env.update_event (w.set_c uc { cc with out := cc.out ++ [line] }) uc = false →
        upstream_error env w uc =
          cproxy_close_conn env (w.set_c uc { cc with out := cc.out ++ [line] }).incr_tot_oom
            uc) := by
  have hs1 : ¬ cc.state ≠ conn_state.conn_pause := fun h => h hs
  have hserver : ∀ (hno : ¬ (cc.cmd = -1 ∧ ∃ s, cc.cmd_start = some s ∧
      s.toList.take 3 = ['g', 'e', 't'])),
      (∀ wo, wo = w.set_c uc
          { cc with out := cc.out ++ ["SERVER_ERROR proxy write to downstream"] } →
        upstream_error env w uc =
          if env.update_event wo uc = true then .ok wo
          else cproxy_close_conn env wo.incr_tot_oom uc) := by
    intro hno wo hwo
    unfold upstream_error
    simp only [hc, hs1, hx, if_false]
    cases hcs : cc.cmd_start with
    | none =>
      simp only [Bool.false_eq_true, and_false, if_false, out_string, hc]
      rw [hwo]
    | some s =>
      by_cases hg : strncmp_eq s "get" = true
      · have h1 : ¬ cc.cmd = -1 := by
          intro h1
          apply hno
          refine ⟨h1, s, hcs, ?_⟩
          unfold strncmp_eq at hg
          simpa using hg
        simp only [h1, false_and, if_false, out_string, hc]
        rw [hwo]
      · simp only [hg, Bool.false_eq_true, and_false, if_false, out_string, hc]
        rw [hwo]
  have hend : ∀ (hyes : cc.cmd = -1 ∧ ∃ s, cc.cmd_start = some s ∧
      s.toList.take 3 = ['g', 'e', 't']),
      (∀ wo, wo = w.set_c uc { cc with out := cc.out ++ ["END"] } →
        upstream_error env w uc =
          if env.update_event wo uc = true then .ok wo
          else cproxy_close_conn env wo.incr_tot_oom uc) := by
    intro hyes wo hwo
    obtain ⟨h1, s, hcs, h3⟩ := hyes
    have hg : strncmp_eq s "get" = true := by
      unfold strncmp_eq
      simpa using h3
    unfold upstream_error
    simp only [hc, hs1, hx, if_false, hcs, hg, h1, and_self, if_true]
    simp only [out_string, hc]
    rw [hwo]
  by_cases hget : cc.cmd = -1 ∧ ∃ s, cc.cmd_start = some s ∧ s.toList.take 3 = ['g', 'e', 't']
  · refine ⟨"END", ⟨fun _ => hget, fun _ => rfl⟩, fun h => absurd rfl h,
      fun h => absurd hget.1 h, ?_, ?_⟩
    · intro hev
      rw [hend hget _ rfl, if_pos hev]
    · intro hev
      rw [hend hget _ rfl, if_neg (by rw [hev]; simp)]
  · refine ⟨"SERVER_ERROR proxy write to downstream",
      ⟨fun h => absurd h (by decide), fun h => absurd h hget⟩, fun _ => rfl, fun _ => rfl, ?_, ?_⟩
    · intro hev
      rw [hserver hget _ rfl, if_pos hev]
    · intro hev
      rw [hserver hget _ rfl, if_neg (by rw [hev]; simp)]

theorem upstream_error_line_witness :
    ∃ line, (line = "END" ↔
        ((waiting_conn none "get a").cmd = -1 ∧
          ∃ s, (waiting_conn none "get a").cmd_start = some s ∧
            s.toList.take 3 = ['g', 'e', 't'])) ∧
      (line ≠ "END" → line = "SERVER_ERROR proxy write to downstream") ∧
      ((waiting_conn none "get a").cmd ≠ -1 →
        line = "SERVER_ERROR proxy write to downstream") ∧
      (quiet_env.update_event
          (closing_world.set_c 0
            { waiting_conn none "get a" with
              out := (waiting_conn none "get a").out ++ [line] }) 0 = true →
        upstream_error quiet_env closing_world 0 =
          .ok (closing_world.set_c 0
            { waiting_conn none "get a" with
              out := (waiting_conn none "get a").out ++ [line] })) ∧
      (quiet_env.update_event
          (closing_world.set_c 0
            { waiting_conn none "get a" with
              out := (waiting_conn none "get a").out ++ [line] }) 0 = false →
        upstream_error quiet_env closing_world 0 =
          cproxy_close_conn quiet_env
            (closing_world.set_c 0
              { waiting_conn none "get a" with
                out := (waiting_conn none "get a").out ++ [line] }).incr_tot_oom 0) :=
  upstream_error_line quiet_env closing_world 0 (waiting_conn none "get a") (by decide)
    (by decide) (by decide)

theorem close_conn_ds (env : Env) (hf : env.frame) (w : World) (c : Nat) (w1 : World)
    (h : cproxy_close_conn env w c = .ok w1) : w1.ds = w.ds := by
  cases hc : w.get_c c with
  | none =>
    rw [(cproxy_close_conn_spec env hf w c).1 hc] at h
    cases h
  | some cc =>
    obtain ⟨w2, h2, hs⟩ := (cproxy_close_conn_spec env hf w c).2 cc hc
    rw [h2] at h
    cases h
    exact hs.2.1

theorem conn_set_state_ds (w : World) (c : Nat) (s : conn_state) (w1 : World)
    (h : conn_set_state w c s = .ok w1) : w1.ds = w.ds := by
  unfold conn_set_state at h
  split at h
  · cases h
  · cases h; rfl

theorem reset_upstream_ds (env : Env) (hf : env.frame) (w : World) (uc : Nat) (w1 : World)
    (h : cproxy_reset_upstream env w uc = .ok w1) : w1.ds = w.ds := by
  unfold cproxy_reset_upstream at h
  split at h
  · cases h
  · split at h
    · cases h
    · split at h
      · cases h
      · rename_i wa ha
        have ka := conn_set_state_ds w uc _ wa ha
        split at h
        · split at h
          · cases h; exact ka
          · exact (close_conn_ds env hf _ uc w1 h).trans ka
        · cases h; exact ka

theorem conn_frame_conn_set_state (w : World) (c : Nat) (s : conn_state) (w1 : World)
    (h : conn_set_state w c s = .ok w1) : conn_frame w w1 := by
  unfold conn_set_state at h
  split at h
  · cases h
  · rename_i cc hc
    cases h
    exact conn_frame_set_c w c cc _ hc rfl rfl rfl

/-- C21.  The noreply detach.  For a live downstream `d` and a connection
`uc`: `cproxy_dettach_if_noreply` returns the value of `uc->noreply`; when
the flag is clear it returns `false` and the state is unchanged; when the
flag is set and it returns, under the frame assumption on the host
functions, the cell of `d` is the old one with `upstream_conn` and
`upstream_suffix` `NULL` (so `downstream_used` and the timer are as they
were), and when moreover `update_event` succeeds it does return, with
`noreply` cleared and `uc` in `conn_new_cmd`, every other downstream and
connection unchanged.  At the call site in
`cproxy_forward_a2b_simple_downstream`: when the request of a noreply command
was sent (`a2b_send_request` returns `true`), the downstream has no upstream,
no suffix, `downstream_used` 1 and the timer it had at entry. -/
theorem dettach_if_noreply_spec (env : Env) (hf : env.frame) (w : World) (d uc : Nat)
    (ucc : conn) (dd : downstream) (hu : w.get_c uc = some ucc) (hd : w.get_d d = some dd) :
    (∀ b w1, cproxy_dettach_if_noreply env w d uc = .ok (b, w1) → b = ucc.noreply) ∧
    (ucc.noreply = false → cproxy_dettach_if_noreply env w d uc = .ok (false, w)) ∧
    (∀ w1, cproxy_dettach_if_noreply env w d uc = .ok (true, w1) →
      w1.get_d d = some { dd with upstream_conn := none, upstream_suffix := none }) ∧
    (ucc.noreply = true → ucc.extra ≠ none → (∀ w2 c, env.update_event w2 c = true) →
      ∃ w1, cproxy_dettach_if_noreply env w d uc = .ok (true, w1) ∧
        w1.get_c uc = some { ucc with noreply := false, state := conn_state.conn_new_cmd } ∧
        (∀ a, a ≠ d → w1.get_d a = w.get_d a) ∧ (∀ c, c ≠ uc → w1.get_c c = w.get_c c)) ∧
    (∀ command c size r w1, ucc.noreply = true →
      a2b_send_request env w d command uc c size r = .ok (true, w1) →
      ∃ dd1, w1.get_d d = some dd1 ∧ dd1.upstream_conn = none ∧ dd1.upstream_suffix = none ∧
        dd1.downstream_used = 1 ∧ dd1.timeout_tv = dd.timeout_tv) := by
  have hlt := lt_of_get_c hu
  have key : ∀ (wx : World) (ux : conn) (dx : downstream), wx.get_c uc = some ux →
      wx.get_d d = some dx → ∀ b w1, cproxy_dettach_if_noreply env wx d uc = .ok (b, w1) →
      b = ux.noreply ∧
        (b = true → w1.get_d d = some { dx with upstream_conn := none, upstream_suffix := none }) := by
    intro wx ux dx hux hdx b w1 h
    unfold cproxy_dettach_if_noreply at h
    rw [hux] at h
    simp only at h
    split at h
    · rename_i hnr
      rw [get_d_set_c, hdx] at h
      simp only at h
      split at h
      · cases h
      · rename_i w3 h3
        simp only [Except.ok.injEq, Prod.mk.injEq] at h
        obtain ⟨hb, hw⟩ := h
        subst hb hw
        refine ⟨hnr.symm, fun _ => ?_⟩
        have := reset_upstream_ds env hf _ uc w3 h3
        rw [get_d_of_ds_eq this]
        exact get_d_set_d_live _ d _ dx (by rw [get_d_set_c]; exact hdx)
    · rename_i hnr
      cases h
      refine ⟨by simpa using hnr, fun hb => by cases hb⟩
  refine ⟨fun b w1 h => (key w ucc dd hu hd b w1 h).1, ?_, fun w1 h => (key w ucc dd hu hd true w1 h).2 rfl,
    ?_, ?_⟩
  · intro hn
    unfold cproxy_dettach_if_noreply
    rw [hu]
    simp only [hn, Bool.false_eq_true, if_false]
  · intro hn hx hev
    obtain ⟨wa, hwa⟩ : ∃ wa, wa = (w.set_c uc { ucc with noreply := false }).set_d d
        { dd with upstream_conn := none, upstream_suffix := none } := ⟨_, rfl⟩
    have hca : wa.get_c uc = some { ucc with noreply := false } := by
      rw [hwa, get_c_set_d]; exact get_c_set_c_same w uc _ hlt
    have hlta : uc < wa.conns.length := lt_of_get_c hca
    obtain ⟨wb, hwb⟩ : ∃ wb, wb = wa.set_c uc
        { ucc with noreply := false, state := conn_state.conn_new_cmd } := ⟨_, rfl⟩
    have hreset : ∃ w1, cproxy_reset_upstream env wa uc = .ok w1 ∧ w1.conns = wb.conns ∧
        w1.ds = wb.ds := by
      unfold cproxy_reset_upstream
      rw [hca]
      simp only [hx, if_false, conn_set_state, hca]
      by_cases hrb : ucc.rbytes ≤ 0
      · simp only [hrb, if_true, hev]
        exact ⟨_, rfl, by rw [hwb], by rw [hwb]⟩
      · simp only [hrb, if_false]
        exact ⟨_, rfl, by rw [hwb]; rfl, by rw [hwb]; rfl⟩
    obtain ⟨w1, hr1, hc1, hd1⟩ := hreset
    refine ⟨w1, ?_, ?_, ?_, ?_⟩
    · unfold cproxy_dettach_if_noreply
      rw [hu]
      simp only [hn, if_true, get_d_set_c, hd]
      rw [← hwa, hr1]
    · unfold World.get_c
      rw [hc1, hwb]
      exact get_c_set_c_same wa uc _ hlta
    · intro a ha
      rw [get_d_of_ds_eq hd1, hwb, get_d_set_c, hwa, get_d_set_d_ne _ _ _ _ (Ne.symm ha),
        get_d_set_c]
    · intro c hc
      unfold World.get_c
      rw [hc1, hwb]
      have e1 := get_c_set_c wa uc c { ucc with noreply := false, state := conn_state.conn_new_cmd }
      unfold World.get_c at e1
      rw [e1, if_neg (fun hh => hc hh.1.symm), hwa]
      have e2 := get_c_set_c w uc c { ucc with noreply := false }
      unfold World.get_c at e2
      show (w.set_c uc { ucc with noreply := false }).conns[c]? = _
      rw [e2, if_neg (fun hh => hc hh.1.symm)]
  · intro command c size r w1 hn h
    unfold a2b_send_request at h
    split at h
    · cases h
    · rename_i b2 w2 h2
      obtain ⟨f2, d2, _⟩ := add_iov_frame env w c _ b2 w2 h2
      simp only at h
      split at h
      · cases h
      · rename_i w3 h3
        have k3 : conn_frame w2 w3 ∧ w3.ds = w2.ds := by
          split at h3
          · split at h3
            · cases ha : add_iov env w2 c (String.mk (List.take r.out_keylen (List.drop _ command))) with
              | error f => rw [ha] at h3; cases h3
              | ok x =>
                rw [ha] at h3
                cases h3
                obtain ⟨f, dq, _⟩ := add_iov_frame env w2 c _ x.1 x.2 ha
                exact ⟨f, dq⟩
            · cases h3; exact ⟨conn_frame.refl _, rfl⟩
          · cases h3; exact ⟨conn_frame.refl _, rfl⟩
        split at h
        · cases h
        · rename_i w4 h4
          have f4 := conn_frame_conn_set_state w3 c _ w4 h4
          have d4 := conn_set_state_ds w3 c _ w4 h4
          split at h
          · cases h
          · rename_i cc4 hcc4
            have f5 : conn_frame w4 (w4.set_c c { cc4 with write_and_go := conn_state.conn_new_cmd }) :=
              conn_frame_set_c w4 c cc4 _ hcc4 rfl rfl rfl
            obtain ⟨w5, hw5⟩ : ∃ w5, w5 = w4.set_c c
                { cc4 with write_and_go := conn_state.conn_new_cmd } := ⟨_, rfl⟩
            rw [← hw5] at h f5
            have hds5 : w5.ds = w.ds := by
              rw [hw5]
              exact (d4.trans (k3.2.trans d2))
            have hd5 : w5.get_d d = some dd := by rw [get_d_of_ds_eq hds5]; exact hd
            obtain ⟨u5, hu5, _, _, hn5⟩ :=
              (f2.trans (k3.1.trans (f4.trans f5))) uc ucc hu
            split at h
            · rw [hd5] at h
              simp only at h
              obtain ⟨w6, hw6⟩ : ∃ w6, w6 = w5.set_d d
                  { dd with downstream_used_start := 1, downstream_used := 1 } := ⟨_, rfl⟩
              rw [← hw6] at h
              have hu6 : w6.get_c uc = some u5 := by rw [hw6, get_c_set_d]; exact hu5
              have hd6 : w6.get_d d = some
                  { dd with downstream_used_start := 1, downstream_used := 1 } := by
                rw [hw6]; exact get_d_set_d_live w5 d _ dd hd5
              split at h
              · cases h
              · rename_i w7 h7
                have := (key w6 u5 _ hu6 hd6 false w7 h7).1
                rw [hn5, hn] at this
                cases this
              · rename_i w7 h7
                have hd7 := (key w6 u5 _ hu6 hd6 true w7 h7).2 rfl
                split at h
                · cases h
                · cases h
                  exact ⟨_, (get_d_set_c w7 c d _).trans hd7, rfl, rfl, rfl, rfl⟩
            · rw [hd5] at h
              simp only at h
              split at h
              · cases h
              · cases h

theorem dettach_if_noreply_spec_witness :
    quiet_env.frame ∧ noreply_world.get_c 0 = some noreply_conn ∧
    noreply_world.get_d 0 = some closing_downstream ∧
    ∃ w1, cproxy_dettach_if_noreply quiet_env noreply_world 0 0 = .ok (true, w1) ∧
      w1.get_c 0 =
        some { noreply_conn with noreply := false, state := conn_state.conn_new_cmd } ∧
      w1.get_d 0 =
        some { closing_downstream with upstream_conn := none, upstream_suffix := none } :=
  have h := dettach_if_noreply_spec quiet_env quiet_env_frame noreply_world 0 0 noreply_conn
    closing_downstream (by decide) (by decide)
  ⟨quiet_env_frame, by decide, by decide,
    (h.2.2.2.1 (by decide) (by decide) (fun _ _ => rfl)).elim fun w1 h1 =>
      ⟨w1, h1.1, h1.2.1, h.2.2.1 w1 h1.1⟩⟩

theorem drop_cons_info {α : Type} {l : List α} {e : Nat} {a : α} {r : List α}
    (h : l.drop e = a :: r) : l[e]? = some a ∧ l.drop (e + 1) = r ∧ e < l.length := by
  have h1 : l[e]? = some a := by
    have := List.getElem?_drop (L := l) (i := e) (j := 0)
    rw [h] at this
    simpa using this.symm
  have h2 : l.drop (e + 1) = r := by
    have : l.drop (e + 1) = (l.drop e).drop 1 := by rw [List.drop_drop, Nat.add_comm]
    rw [this, h]
    rfl
  refine ⟨h1, h2, ?_⟩
  by_contra hn
  rw [List.drop_of_length_le (Nat.le_of_not_lt hn)] at h
  cases h

theorem scan_tokens_store (command : List Char) (s e : Nat) (toks : List token_t)
    (hse : s ≤ e) (hns : ∀ i, s ≤ i → i < e → command[i]? ≠ some ' ')
    (htok : ∀ t ∈ toks, ∃ a, t.value = some a ∧ 0 < t.length ∧ a + t.length < s ∧
      ∀ i, a ≤ i → i < a + t.length → command[i]? ≠ some ' ')
    (hcov : ∀ i, i < s → command[i]? ≠ some ' ' →
      ∃ t ∈ toks, ∃ a, t.value = some a ∧ a ≤ i ∧ i < a + t.length) :
    (if s ≠ e then toks ++ [({ value := some s, length := e - s } : token_t)] else toks).length ≤
      toks.length + 1 ∧
    (∀ t ∈ (if s ≠ e then toks ++ [({ value := some s, length := e - s } : token_t)] else toks),
      ∃ a, t.value = some a ∧ 0 < t.length ∧ a + t.length ≤ e ∧
        ∀ i, a ≤ i → i < a + t.length → command[i]? ≠ some ' ') ∧
    (∀ i, i < e → command[i]? ≠ some ' ' →
      ∃ t ∈ (if s ≠ e then toks ++ [({ value := some s, length := e - s } : token_t)] else toks),
        ∃ a, t.value = some a ∧ a ≤ i ∧ i < a + t.length) := by
  by_cases h : s = e
  · subst h
    simp only [ne_eq, not_true_eq_false, if_false]
    refine ⟨Nat.le_succ _, ?_, hcov⟩
    intro t ht
    obtain ⟨a, h1, h2, h3, h4⟩ := htok t ht
    exact ⟨a, h1, h2, Nat.le_of_lt h3, h4⟩
  · simp only [ne_eq, h, not_false_eq_true, if_true]
    refine ⟨by simp, ?_, ?_⟩
    · intro t ht
      rcases List.mem_append.mp ht with ht | ht
      · obtain ⟨a, h1, h2, h3, h4⟩ := htok t ht
        exact ⟨a, h1, h2, by omega, h4⟩
      · rw [List.mem_singleton] at ht
        subst ht
        refine ⟨s, rfl, by show 0 < e - s; omega, by show s + (e - s) ≤ e; omega, ?_⟩
        intro i h1 h2
        exact hns i h1 (by have : i < s + (e - s) := h2; omega)
    · intro i hi hn
      by_cases his : i < s
      · obtain ⟨t, ht, hh⟩ := hcov i his hn
        exact ⟨t, List.mem_append.mpr (Or.inl ht), hh⟩
      · exact ⟨_, List.mem_append.mpr (Or.inr (List.mem_singleton.mpr rfl)), s, rfl,
          Nat.le_of_not_lt his, by show i < s + (e - s); omega⟩

theorem scan_tokens_loop_spec (command : List Char) (max_tokens : Nat) :
    ∀ (rest : List Char) (s e : Nat) (toks : List token_t),
      command.drop e = rest → s ≤ e → e ≤ command.length →
      (∀ i, s ≤ i → i < e → command[i]? ≠ some ' ') →
      (toks.length < max_tokens - 1 ∨ (toks.length = max_tokens - 1 ∧ s = e)) →
      (∀ t ∈ toks, ∃ a, t.value = some a ∧ 0 < t.length ∧ a + t.length < s ∧
        ∀ i, a ≤ i → i < a + t.length → command[i]? ≠ some ' ') →
      (∀ i, i < s → command[i]? ≠ some ' ' →
        ∃ t ∈ toks, ∃ a, t.value = some a ∧ a ≤ i ∧ i < a + t.length) →
      ∀ r term, scan_tokens_loop max_tokens rest s e toks = (r, term) →
        r.length ≤ max_tokens - 1 ∧
        (∀ t ∈ r, ∃ a, t.value = some a ∧ 0 < t.length ∧ a + t.length ≤ command.length ∧
          ∀ i, a ≤ i → i < a + t.length → command[i]? ≠ some ' ') ∧
        (term = none → ∀ i, i < command.length → command[i]? ≠ some ' ' →
          ∃ t ∈ r, ∃ a, t.value = some a ∧ a ≤ i ∧ i < a + t.length) ∧
        (∀ e1, term = some e1 → e1 < command.length ∧ r.length = max_tokens - 1 ∧
          (∀ t ∈ r, ∃ a, t.value = some a ∧ a + t.length < e1) ∧
          ∀ i, i < e1 → command[i]? ≠ some ' ' →
            ∃ t ∈ r, ∃ a, t.value = some a ∧ a ≤ i ∧ i < a + t.length) := by
  intro rest
  induction rest with
  | nil =>
    intro s e toks hd hse hel hns hlen htok hcov r term h
    have hle : command.length ≤ e := List.drop_eq_nil_iff.mp hd
    have hee : e = command.length := Nat.le_antisymm hel hle
    obtain ⟨k1, k2, k3⟩ := scan_tokens_store command s e toks hse hns htok hcov
    unfold scan_tokens_loop at h
    split at h
    · rename_i hl
      simp only [Prod.mk.injEq] at h
      obtain ⟨h1, h2⟩ := h
      subst h1 h2
      refine ⟨by omega, ?_, ?_, fun e1 he => by cases he⟩
      · intro t ht
        obtain ⟨a, q1, q2, q3, q4⟩ := k2 t ht
        exact ⟨a, q1, q2, by omega, q4⟩
      · intro _ i hi hn
        exact k3 i (by omega) hn
    · rename_i hl
      simp only [Prod.mk.injEq] at h
      obtain ⟨h1, h2⟩ := h
      subst h1 h2
      have hs : s = e := by omega
      refine ⟨by omega, ?_, ?_, fun e1 he => by cases he⟩
      · intro t ht
        obtain ⟨a, q1, q2, q3, q4⟩ := htok t ht
        exact ⟨a, q1, q2, by omega, q4⟩
      · intro _ i hi hn
        exact hcov i (by omega) hn
  | cons ch rest ih =>
    intro s e toks hd hse hel hns hlen htok hcov r term h
    obtain ⟨hch, hdrop, helt⟩ := drop_cons_info hd
    obtain ⟨k1, k2, k3⟩ := scan_tokens_store command s e toks hse hns htok hcov
    unfold scan_tokens_loop at h
    split at h
    · rename_i hl
      split at h
      · rename_i hsp
        subst hsp
        refine ih (e + 1) (e + 1) _ hdrop (Nat.le_refl _) helt (fun i h1 h2 => by omega) ?_ ?_ ?_
          r term h
        · omega
        · intro t ht
          obtain ⟨a, q1, q2, q3, q4⟩ := k2 t ht
          exact ⟨a, q1, q2, by omega, q4⟩
        · intro i hi hn
          by_cases hie : i = e
          · subst hie
            exact absurd hch hn
          · exact k3 i (by omega) hn
      · rename_i hsp
        refine ih s (e + 1) toks hdrop (by omega) helt ?_ (Or.inl hl) htok hcov r term h
        intro i h1 h2
        by_cases hie : i = e
        · subst hie
          rw [hch]
          intro hh
          exact hsp (Option.some.inj hh)
        · exact hns i h1 (by omega)
    · rename_i hl
      simp only [Prod.mk.injEq] at h
      obtain ⟨h1, h2⟩ := h
      subst h1 h2
      have hs : s = e := by omega
      refine ⟨by omega, ?_, fun hh => (by cases hh), ?_⟩
      · intro t ht
        obtain ⟨a, q1, q2, q3, q4⟩ := htok t ht
        exact ⟨a, q1, q2, by omega, q4⟩
      · intro e1 he
        cases he
        refine ⟨helt, by omega, ?_, ?_⟩
        · intro t ht
          obtain ⟨a, q1, q2, q3, q4⟩ := htok t ht
          exact ⟨a, q1, by omega⟩
        · intro i hi hn
          exact hcov i (by omega) hn

/-- C27.  The function `scan_tokens` with `max_tokens > 1` returns: the
count `n` of entries written satisfies `1 ≤ n ≤ max_tokens`; the last entry is
the terminal token, of length 0; its value is `NULL` only when the whole
string was scanned, that is when every character that is not a space lies in
one of the tokens, and otherwise it points at a character `e` of the command,
`n = max_tokens`, every token ends before `e` and every character before `e`
that is not a space lies in one of the tokens; every entry before the terminal
one has a length `> 0` and is a slice of the command without a space.  The
command is only read. -/
theorem scan_tokens_spec (command : List Char) (max_tokens : Nat) (hm : 1 < max_tokens) :
    ∃ r toks term, scan_tokens command max_tokens = .ok r ∧
      1 ≤ r.length ∧ r.length ≤ max_tokens ∧
      r = toks ++ [{ value := term, length := 0 }] ∧
      (∀ t ∈ toks, ∃ a, t.value = some a ∧ 0 < t.length ∧ a + t.length ≤ command.length ∧
        ∀ i, a ≤ i → i < a + t.length → command[i]? ≠ some ' ') ∧
      (term = none → ∀ i, i < command.length → command[i]? ≠ some ' ' →
        ∃ t ∈ toks, ∃ a, t.value = some a ∧ a ≤ i ∧ i < a + t.length) ∧
      (∀ e, term = some e → e < command.length ∧ r.length = max_tokens ∧
        (∀ t ∈ toks, ∃ a, t.value = some a ∧ a + t.length < e) ∧
        ∀ i, i < e → command[i]? ≠ some ' ' →
          ∃ t ∈ toks, ∃ a, t.value = some a ∧ a ≤ i ∧ i < a + t.length) := by
  cases hl : scan_tokens_loop max_tokens command 0 0 [] with
  | mk toks term =>
    obtain ⟨k1, k2, k3, k4⟩ := scan_tokens_loop_spec command max_tokens command 0 0 [] rfl
      (Nat.le_refl _) (Nat.zero_le _) (fun i h1 h2 => by omega) (Or.inl (by simp; omega))
      (fun t ht => by cases ht) (fun i hi => by omega) toks term hl
    refine ⟨toks ++ [{ value := term, length := 0 }], toks, term, ?_, by simp, by simp; omega,
      rfl, k2, k3, ?_⟩
    · unfold scan_tokens
      rw [if_neg (by omega), hl]
    · intro e he
      obtain ⟨q1, q2, q3, q4⟩ := k4 e he
      exact ⟨q1, by simp; omega, q3, q4⟩

theorem scan_tokens_spec_witness :
    (1 < MAX_TOKENS) ∧
    ∃ r toks term, scan_tokens "get a b".toList MAX_TOKENS = .ok r ∧
      1 ≤ r.length ∧ r.length ≤ MAX_TOKENS ∧
      r = toks ++ [{ value := term, length := 0 }] ∧
      (∀ t ∈ toks, ∃ a, t.value = some a ∧ 0 < t.length ∧
        a + t.length ≤ "get a b".toList.length ∧
        ∀ i, a ≤ i → i < a + t.length → "get a b".toList[i]? ≠ some ' ') ∧
      (term = none → ∀ i, i < "get a b".toList.length → "get a b".toList[i]? ≠ some ' ' →
        ∃ t ∈ toks, ∃ a, t.value = some a ∧ a ≤ i ∧ i < a + t.length) ∧
      (∀ e, term = some e → e < "get a b".toList.length ∧ r.length = MAX_TOKENS ∧
        (∀ t ∈ toks, ∃ a, t.value = some a ∧ a + t.length < e) ∧
        ∀ i, i < e → "get a b".toList[i]? ≠ some ' ' →
          ∃ t ∈ toks, ∃ a, t.value = some a ∧ a ≤ i ∧ i < a + t.length) :=
  ⟨by decide, scan_tokens_spec "get a b".toList MAX_TOKENS (by decide)⟩

theorem broadcast_loop_spec (env : Env) (hmsg : ∀ w c, env.add_msghdr w c = true)
    (hev : ∀ w c, env.update_event w c = true) (command : String) (uc : Nat) :
    ∀ (slots : List (Option Nat)) (nwrite : Nat) (w : World),
      (∀ c, some c ∈ slots → c ≠ uc ∧
        ∃ cc, w.get_c c = some cc ∧ cc.item = none ∧ cc.state = conn_state.conn_pause) →
      (slots.filterMap id).Nodup →
      (∃ ucc, w.get_c uc = some ucc ∧ ucc.noreply = false) →
      ∃ w1, a2b_broadcast_loop env command uc slots nwrite w =
          .ok (nwrite + (slots.filterMap id).length, w1) ∧
        w1.ds = w.ds ∧ w1.ptd = w.ptd ∧
        (∀ a, some a ∉ slots → w1.get_c a = w.get_c a) ∧
        (∀ a cc, some a ∈ slots → w.get_c a = some cc →
          w1.get_c a = some { cc with suffixleft := 0, msgused := 1, iov := [],
                                      out := cc.out ++ [command] }) := by
  intro slots
  induction slots with
  | nil =>
    intro nwrite w _ _ _
    exact ⟨w, rfl, rfl, rfl, fun _ _ => rfl, fun a cc h => by cases h⟩
  | cons x rest ih =>
    intro nwrite w hs hnd hu
    cases x with
    | none =>
      obtain ⟨w1, h1, h2, h3, h4, h5⟩ := ih nwrite w
        (fun c hc => hs c (List.mem_cons_of_mem _ hc)) (by simpa using hnd) hu
      refine ⟨w1, ?_, h2, h3, ?_, ?_⟩
      · rw [a2b_broadcast_loop, h1]
        simp
      · intro a ha
        exact h4 a (fun hh => ha (List.mem_cons_of_mem _ hh))
      · intro a cc ha hc
        rcases List.mem_cons.mp ha with ha | ha
        · cases ha
        · exact h5 a cc ha hc
    | some c =>
      obtain ⟨hcu, cc, hc, hit, hst⟩ := hs c (List.mem_cons_self _ _)
      obtain ⟨ucc, hucc, hnr⟩ := hu
      have hlt := lt_of_get_c hc
      have hnd2 : c ∉ rest.filterMap id ∧ (rest.filterMap id).Nodup := by
        simpa using hnd
      have hcr : some c ∉ rest := by
        intro hh
        exact hnd2.1 (List.mem_filterMap.mpr ⟨some c, hh, rfl⟩)
      obtain ⟨wA, hwA⟩ : ∃ wA, wA =
          (w.set_c c { cc with suffixleft := 0, msgused := 0, iov := [] }).set_c c
            { cc with suffixleft := 0, msgused := 1, iov := [] } := ⟨_, rfl⟩
      have hprep : cproxy_prep_conn_for_write env w c = .ok (true, wA) := by
        unfold cproxy_prep_conn_for_write
        rw [hc]
        simp only [hmsg, if_true]
        rw [if_neg (not_not.mpr hit), hwA]
      have hAc : wA.get_c c = some { cc with suffixleft := 0, msgused := 1, iov := [] } := by
        rw [hwA]
        exact get_c_set_c_same _ c _ (by simpa [World.set_c] using hlt)
      have hAo : ∀ a, a ≠ c → wA.get_c a = w.get_c a := by
        intro a ha
        rw [hwA, get_c_set_c_ne _ _ _ _ (Ne.symm ha), get_c_set_c_ne _ _ _ _ (Ne.symm ha)]
      obtain ⟨wB, hwB⟩ : ∃ wB, wB = wA.set_c c
          { cc with suffixleft := 0, msgused := 1, iov := [], out := cc.out ++ [command] } :=
        ⟨_, rfl⟩
      have hout : out_string wA c command = .ok wB := by
        unfold out_string
        rw [hAc, hwB]
      have hBc : wB.get_c c = some
          { cc with suffixleft := 0, msgused := 1, iov := [], out := cc.out ++ [command] } := by
        rw [hwB]
        exact get_c_set_c_same _ c _ (lt_of_get_c hAc)
      have hBo : ∀ a, a ≠ c → wB.get_c a = w.get_c a := by
        intro a ha
        rw [hwB, get_c_set_c_ne _ _ _ _ (Ne.symm ha)]
        exact hAo a ha
      have hBu : wB.get_c uc = some ucc := by rw [hBo uc (Ne.symm hcu)]; exact hucc
      obtain ⟨w1, h1, h2, h3, h4, h5⟩ := ih (nwrite + 1) wB
        (fun a ha => by
          obtain ⟨q1, cca, q2, q3, q4⟩ := hs a (List.mem_cons_of_mem _ ha)
          have hac : a ≠ c := fun hh => hcr (hh ▸ ha)
          exact ⟨q1, cca, by rw [hBo a hac]; exact q2, q3, q4⟩)
        hnd2.2 ⟨ucc, hBu, hnr⟩
      refine ⟨w1, ?_, ?_, ?_, ?_, ?_⟩
      · rw [a2b_broadcast_loop, hprep]
        simp only [hAc, hst, ne_eq, not_true_eq_false, if_false, hout, hev, if_true, hBu, hBc, hnr,
          Bool.false_eq_true]
        rw [h1]
        simp only [List.filterMap_cons, id_eq, List.length_cons]
        congr 2
        omega
      · rw [h2, hwB, hwA]; rfl
      · rw [h3, hwB, hwA]; rfl
      · intro a ha
        have hac : a ≠ c := fun hh => ha (hh ▸ List.mem_cons_self _ _)
        rw [h4 a (fun hh => ha (List.mem_cons_of_mem _ hh)), hBo a hac]
      · intro a cca ha hca
        rcases List.mem_cons.mp ha with ha | ha
        · cases ha
          rw [hc] at hca
          cases hca
          rw [h4 c hcr]
          exact hBc
        · have hac : a ≠ c := fun hh => hcr (hh ▸ ha)
          exact h5 a cca ha (by rw [hBo a hac]; exact hca)

theorem a2b_finish_reply (env : Env) (w : World) (d uc : Nat) (n : Nat) (sfx : String)
    (dd : downstream) (ucc : conn) (hd : w.get_d d = some dd) (hu : w.get_c uc = some ucc)
    (hnr : ucc.noreply = false) (hpause : ucc.state = conn_state.conn_pause)
    (hup : dd.upstream_conn = some uc) (htv : dd.timeout_tv = {}) :
    ∃ w1, a2b_finish env w d uc n sfx = .ok (decide (n > 0), w1) ∧ w1.conns = w.conns ∧
      w1.get_d d = some
        { dd with downstream_used_start := n, downstream_used := n,
                  upstream_suffix := some sfx,
                  timeout_tv :=
                    if dd.behavior.downstream_timeout.tv_sec = 0 ∧
                        dd.behavior.downstream_timeout.tv_usec = 0 then dd.timeout_tv
                    else dd.behavior.downstream_timeout } := by
  obtain ⟨wA, hwA⟩ : ∃ wA, wA = w.set_d d
      { dd with downstream_used_start := n, downstream_used := n } := ⟨_, rfl⟩
  have hAd : wA.get_d d = some { dd with downstream_used_start := n, downstream_used := n } := by
    rw [hwA]; exact get_d_set_d_live w d _ dd hd
  have hAu : wA.get_c uc = some ucc := by rw [hwA, get_c_set_d]; exact hu
  have hdet : cproxy_dettach_if_noreply env wA d uc = .ok (false, wA) := by
    unfold cproxy_dettach_if_noreply
    rw [hAu]
    simp only [hnr, Bool.false_eq_true, if_false]
  obtain ⟨wB, hwB⟩ : ∃ wB, wB = wA.set_d d
      { dd with downstream_used_start := n, downstream_used := n,
                upstream_suffix := some sfx } := ⟨_, rfl⟩
  have hBd : wB.get_d d = some
      { dd with downstream_used_start := n, downstream_used := n,
                upstream_suffix := some sfx } := by
    rw [hwB]; exact get_d_set_d_live wA d _ _ hAd
  have hBu : wB.get_c uc = some ucc := by rw [hwB, get_c_set_d]; exact hAu
  have htv1 : dd.timeout_tv.tv_sec = 0 := by rw [htv]
  have htv2 : dd.timeout_tv.tv_usec = 0 := by rw [htv]
  have hstart : ∃ b w1, cproxy_start_downstream_timeout env wB d = .ok (b, w1) ∧
      w1.conns = w.conns ∧ w1.get_d d = some
        { dd with downstream_used_start := n, downstream_used := n,
                  upstream_suffix := some sfx,
                  timeout_tv :=
                    if dd.behavior.downstream_timeout.tv_sec = 0 ∧
                        dd.behavior.downstream_timeout.tv_usec = 0 then dd.timeout_tv
                    else dd.behavior.downstream_timeout } := by
    unfold cproxy_start_downstream_timeout
    rw [hBd]
    simp only [htv1, htv2, ne_eq, not_true_eq_false, if_false]
    by_cases hz : dd.behavior.downstream_timeout.tv_sec = 0 ∧
        dd.behavior.downstream_timeout.tv_usec = 0
    · rw [if_pos hz, if_pos hz]
      refine ⟨true, wB, rfl, by rw [hwB, hwA]; rfl, ?_⟩
      rw [hBd]
    · rw [if_neg hz, if_neg hz]
      simp only [hup, hBu, hpause, ne_eq, not_true_eq_false, if_false]
      refine ⟨_, _, rfl, by rw [hwB, hwA]; rfl, ?_⟩
      exact get_d_set_d_live wB d _ _ hBd
  obtain ⟨b, w1, hs1, hs2, hs3⟩ := hstart
  refine ⟨w1, ?_, hs2, hs3⟩
  unfold a2b_finish
  rw [hd]
  simp only
  rw [← hwA, hdet]
  simp only [hAd]
  rw [← hwB, hs1]

theorem strncmp_get_of_broadcast (command : String)
    (hcmd : strncmp_eq command "flush_all" = true ∨ strncmp_eq command "stats" = true) :
    strncmp_eq command "get" = false := by
  unfold strncmp_eq at *
  have key : ∀ (lit : String) (n : Nat), 3 ≤ n → lit.length = n →
      (command.toList.take lit.length == lit.toList) = true →
      command.toList.take 3 = lit.toList.take 3 := by
    intro lit n hn hl h
    have h1 : command.toList.take lit.length = lit.toList := by simpa using h
    have h2 := congrArg (List.take 3) h1
    rw [List.take_take, hl, Nat.min_eq_left hn] at h2
    exact h2
  have hl : "get".length = 3 := by decide
  rw [hl]
  rcases hcmd with h | h
  · rw [key "flush_all" 9 (by decide) (by decide) h]
    decide
  · rw [key "stats" 5 (by decide) (by decide) h]
    decide


theorem broadcast_a2b_spec (env : Env) (w : World) (d uc : Nat) (command sfx : String)
    (dd : downstream) (ucc : conn)
    (hmsg : ∀ w c, env.add_msghdr w c = true) (hev : ∀ w c, env.update_event w c = true)
    (hd : w.get_d d = some dd) (hu : w.get_c uc = some ucc)
    (hitem : ucc.item = none) (hnext : ucc.next = none) (hnr : ucc.noreply = false)
    (hpause : ucc.state = conn_state.conn_pause)
    (hup : dd.upstream_conn = some uc) (htv : dd.timeout_tv = {})
    (hslots : ∀ c, some c ∈ dd.downstream_conns → c ≠ uc ∧
      ∃ cc, w.get_c c = some cc ∧ cc.item = none ∧ cc.state = conn_state.conn_pause)
    (hnd : (dd.downstream_conns.filterMap id).Nodup) :
    ∃ w1, cproxy_broadcast_a2b_downstream env w d command uc sfx =
        .ok (decide ((dd.downstream_conns.filterMap id).length > 0), w1) ∧
      w1.get_d d = some
        { dd with downstream_used_start := (dd.downstream_conns.filterMap id).length,
                  downstream_used := (dd.downstream_conns.filterMap id).length,
                  upstream_suffix := some sfx,
                  timeout_tv :=
                    if dd.behavior.downstream_timeout.tv_sec = 0 ∧
                        dd.behavior.downstream_timeout.tv_usec = 0 then dd.timeout_tv
                    else dd.behavior.downstream_timeout } ∧
      (∀ a, some a ∉ dd.downstream_conns → w1.get_c a = w.get_c a) ∧
      (∀ a cc, some a ∈ dd.downstream_conns → w.get_c a = some cc →
        w1.get_c a = some { cc with suffixleft := 0, msgused := 1, iov := [],
                                    out := cc.out ++ [command] }) := by
  obtain ⟨wL, hL, hLd, _, hLo, hLc⟩ := broadcast_loop_spec env hmsg hev command uc
    dd.downstream_conns 0 w hslots hnd ⟨ucc, hu, hnr⟩
  have hnot : some uc ∉ dd.downstream_conns := fun hh => (hslots uc hh).1 rfl
  have hLu : wL.get_c uc = some ucc := by rw [hLo uc hnot]; exact hu
  have hLdd : wL.get_d d = some dd := by rw [get_d_of_ds_eq hLd]; exact hd
  obtain ⟨w1, hf, hfc, hfd⟩ := a2b_finish_reply env wL d uc
    (dd.downstream_conns.filterMap id).length sfx dd ucc hLdd hLu hnr hpause hup htv
  have hget : ∀ a, w1.get_c a = wL.get_c a := by
    intro a
    unfold World.get_c
    rw [hfc]
  refine ⟨w1, ?_, ?_, ?_, ?_⟩
  · unfold cproxy_broadcast_a2b_downstream
    rw [hd, hu]
    simp only [hnext, hitem, ne_eq, not_true_eq_false, if_false, hL, Nat.zero_add]
    exact hf
  · simpa using hfd
  · intro a ha
    rw [hget, hLo a ha]
  · intro a cc ha hc
    rw [hget]
    exact hLc a cc ha hc

/-- C22.  The broadcast of `cproxy_forward_a2b_simple_downstream`.  For a
command that starts with `flush_all` or with `stats`, from an upstream `uc`
without `noreply` that is paused and attached to the downstream `d`, whose
non-`NULL` slots are distinct idle sockets, and when `add_msghdr` and
`update_event` succeed: the function returns `n > 0`, where `n` is the number
of non-`NULL` slots; every socket has the command queued once; both use
counts of `d` are `n`; the suffix is `OK` for `flush_all`, `RESET` for a
command that starts with `stats reset`, and `END` for the other `stats`; and
`d->merger` is allocated exactly for the other `stats` when `n > 0`. -/
theorem broadcast_spec (env : Env) (g : a2b_globals) (w : World) (d uc : Nat)
    (command : String) (dd : downstream) (ucc : conn)
    (hmsg : ∀ w c, env.add_msghdr w c = true) (hev : ∀ w c, env.update_event w c = true)
    (hd : w.get_d d = some dd) (hu : w.get_c uc = some ucc)
    (hitem : ucc.item = none) (hnext : ucc.next = none) (hnr : ucc.noreply = false)
    (hpause : ucc.state = conn_state.conn_pause)
    (hup : dd.upstream_conn = some uc) (hmg : dd.multiget = none) (hmer : dd.merger = none)
    (htv : dd.timeout_tv = {})
    (hslots : ∀ c, some c ∈ dd.downstream_conns → c ≠ uc ∧
      ∃ cc, w.get_c c = some cc ∧ cc.item = none ∧ cc.state = conn_state.conn_pause)
    (hnd : (dd.downstream_conns.filterMap id).Nodup)
    (hcmd : strncmp_eq command "flush_all" = true ∨ strncmp_eq command "stats" = true) :
    ∃ w1, cproxy_forward_a2b_simple_downstream env g w d (some command) uc =
        .ok (decide ((dd.downstream_conns.filterMap id).length > 0), w1) ∧
      w1.get_d d = some
        { dd with downstream_used_start := (dd.downstream_conns.filterMap id).length,
                  downstream_used := (dd.downstream_conns.filterMap id).length,
                  upstream_suffix := some
                    (if strncmp_eq command "flush_all" = true then "OK\r\n"
                     else if strncmp_chars (command.toList.drop 5) " reset" = true then
                       "RESET\r\n"
                     else "END\r\n"),
                  merger :=
                    if strncmp_eq command "flush_all" = true ∨
                        strncmp_chars (command.toList.drop 5) " reset" = true ∨
                        (dd.downstream_conns.filterMap id).length = 0 then none
                    else some [],
                  timeout_tv :=
                    if dd.behavior.downstream_timeout.tv_sec = 0 ∧
                        dd.behavior.downstream_timeout.tv_usec = 0 then dd.timeout_tv
                    else dd.behavior.downstream_timeout } ∧
      (∀ a, some a ∉ dd.downstream_conns → w1.get_c a = w.get_c a) ∧
      (∀ a cc, some a ∈ dd.downstream_conns → w.get_c a = some cc →
        w1.get_c a = some { cc with suffixleft := 0, msgused := 1, iov := [],
                                    out := cc.out ++ [command] }) := by
  have hget := strncmp_get_of_broadcast command hcmd
  have hb := fun sfx => broadcast_a2b_spec env w d uc command sfx dd ucc hmsg hev hd hu hitem
    hnext hnr hpause hup htv hslots hnd
  unfold cproxy_forward_a2b_simple_downstream
  rw [hd, hu]
  simp only [hitem, hmg, hmer, hget, hnext, ne_eq, not_true_eq_false, if_false,
    Bool.false_eq_true]
  by_cases hfl : strncmp_eq command "flush_all" = true
  · obtain ⟨w1, h1, h2, h3, h4⟩ := hb "OK\r\n"
    refine ⟨w1, by rw [if_pos hfl]; exact h1, ?_, h3, h4⟩
    rw [h2]
    simp only [hfl, if_true, true_or, hmer, hmg]
  · have hst : strncmp_eq command "stats" = true := hcmd.resolve_left hfl
    rw [if_neg hfl, if_pos hst]
    by_cases hrs : strncmp_chars (command.toList.drop 5) " reset" = true
    · obtain ⟨w1, h1, h2, h3, h4⟩ := hb "RESET\r\n"
      refine ⟨w1, by rw [if_pos hrs]; exact h1, ?_, h3, h4⟩
      rw [h2]
      simp only [hfl, hrs, if_true, true_or, or_true, hmer, hmg, Bool.false_eq_true, if_false]
    · obtain ⟨w1, h1, h2, h3, h4⟩ := hb "END\r\n"
      rw [if_neg hrs, h1]
      by_cases hn : (dd.downstream_conns.filterMap id).length > 0
      · simp only [hn, decide_True, h2]
        refine ⟨_, rfl, ?_, fun a ha => by rw [get_c_set_d]; exact h3 a ha,
          fun a cc ha hc => by rw [get_c_set_d]; exact h4 a cc ha hc⟩
        rw [get_d_set_d_live w1 d _ _ h2]
        have hn0 : ¬ (dd.downstream_conns.filterMap id).length = 0 := by omega
        simp only [hfl, hrs, hn0, or_self, if_false, Bool.false_eq_true, hmg]
      · simp only [hn, decide_False]
        refine ⟨w1, rfl, ?_, h3, h4⟩
        rw [h2]
        have hn0 : (dd.downstream_conns.filterMap id).length = 0 := by omega
        simp only [hfl, hrs, hn0, or_true, if_true, hmer, hmg, Bool.false_eq_true, if_false]

theorem broadcast_spec_witness :
    ∃ w1, cproxy_forward_a2b_simple_downstream quiet_env a2b_ready broadcast_world 0
        (some "stats") 0 = .ok (true, w1) ∧
      (w1.get_d 0).map (fun x =>
          (x.downstream_used, x.downstream_used_start, x.upstream_suffix, x.merger)) =
        some (2, 2, some "END\r\n", some []) ∧
      w1.get_c 1 = some { socket_conn with msgused := 1, out := ["stats"] } ∧
      w1.get_c 2 = some { socket_conn with msgused := 1, out := ["stats"] } :=
  (broadcast_spec quiet_env a2b_ready broadcast_world 0 0 "stats" broadcast_downstream
      (waiting_conn none "stats") (fun _ _ => rfl) (fun _ _ => rfl) (by decide) (by decide)
      (by decide) (by decide) (by decide) (by decide) (by decide) (by decide) (by decide)
      (by decide)
      (fun c hc => by
        have hc2 : c = 1 ∨ c = 2 := by simpa [broadcast_downstream] using hc
        rcases hc2 with h | h
        · subst h; exact ⟨by decide, socket_conn, by decide, by decide, by decide⟩
        · subst h; exact ⟨by decide, socket_conn, by decide, by decide, by decide⟩)
      (by decide) (Or.inr (by decide))).elim
    fun w1 h => ⟨w1, h.1, by rw [h.2.1]; rfl,
      h.2.2.2 1 socket_conn (by decide) (by decide),
      h.2.2.2 2 socket_conn (by decide) (by decide)⟩

/-- C24.  A complete STAT response on the socket `c` of the downstream `d`:
whenever `a2b_process_downstream_response` returns, it has changed nothing
but `c->item` and the state of `c`, which is `conn_new_cmd` (the socket keeps
reading) when `keylen > 0` and `conn_pause` for the terminator.  In
particular the merger map of `d` is what it was: the response is not folded
into it, and nothing is written to the upstream. -/
theorem stat_response_keeps_merger (env : Env) (w : World) (c d : Nat) (cc : conn)
    (dd : downstream) (hc : w.get_c c = some cc) (hcmd : cc.cmd = PROTOCOL_BINARY_CMD_STAT)
    (hx : cc.extra = some d) (hd : w.get_d d = some dd) (w1 : World)
    (h : a2b_process_downstream_response env w c = .ok w1) :
    w1.get_d d = some dd ∧ w1.ds = w.ds ∧ w1.ptd = w.ptd ∧
    (∀ a, a ≠ c → w1.get_c a = w.get_c a) ∧
    w1.get_c c = some
      { cc with item := none,
                state := if cc.binary_header.keylen > 0 then conn_state.conn_new_cmd
                         else conn_state.conn_pause } := by
  have hlt := lt_of_get_c hc
  have hlt2 : c < (w.set_c c { cc with item := none }).conns.length := by
    simpa [World.set_c] using hlt
  have e1 : ¬ (cc.cmd = PROTOCOL_BINARY_CMD_GET ∨ cc.cmd = PROTOCOL_BINARY_CMD_GETK) := by
    rw [hcmd]; decide
  have e2 : ¬ (cc.cmd = PROTOCOL_BINARY_CMD_FLUSH ∨ cc.cmd = PROTOCOL_BINARY_CMD_NOOP) := by
    rw [hcmd]; decide
  have e3 : ¬ (cc.cmd = PROTOCOL_BINARY_CMD_SET ∨ cc.cmd = PROTOCOL_BINARY_CMD_ADD ∨
      cc.cmd = PROTOCOL_BINARY_CMD_REPLACE ∨ cc.cmd = PROTOCOL_BINARY_CMD_DELETE ∨
      cc.cmd = PROTOCOL_BINARY_CMD_APPEND ∨ cc.cmd = PROTOCOL_BINARY_CMD_PREPEND) := by
    rw [hcmd]; decide
  have e4 : ¬ (cc.cmd = PROTOCOL_BINARY_CMD_INCREMENT ∨
      cc.cmd = PROTOCOL_BINARY_CMD_DECREMENT) := by
    rw [hcmd]; decide
  have key : ∀ s, conn_set_state (w.set_c c { cc with item := none }) c s = .ok w1 →
      w1.ds = w.ds ∧ w1.ptd = w.ptd ∧ (∀ a, a ≠ c → w1.get_c a = w.get_c a) ∧
      w1.get_c c = some { cc with item := none, state := s } := by
    intro s hs
    unfold conn_set_state at hs
    rw [get_c_set_c_same w c _ hlt] at hs
    cases hs
    refine ⟨rfl, rfl, ?_, get_c_set_c_same _ c _ hlt2⟩
    intro a ha
    rw [get_c_set_c_ne _ _ _ _ (Ne.symm ha), get_c_set_c_ne _ _ _ _ (Ne.symm ha)]
  have main : w1.ds = w.ds ∧ w1.ptd = w.ptd ∧ (∀ a, a ≠ c → w1.get_c a = w.get_c a) ∧
      w1.get_c c = some
        { cc with item := none,
                  state := if cc.binary_header.keylen > 0 then conn_state.conn_new_cmd
                           else conn_state.conn_pause } := by
    unfold a2b_process_downstream_response at h
    rw [hc] at h
    simp only at h
    split at h
    · cases h
    · split at h
      · cases h
      · split at h
        · cases h
        · cases h
        · rename_i cs d2 hcs hx2
          rw [hx] at hx2
          cases hx2
          rw [hd] at h
          simp only at h
          by_cases hk : cc.binary_header.keylen > 0
          · rw [if_pos hk] at h
            rw [if_pos hk]
            split at h
            · cases h
            · split at h
              · cases h
              · exact key _ h
          · rw [if_neg hk] at h
            rw [if_neg hk]
            split at h
            · cases h
            · split at h
              · cases h
              · exact key _ h
  exact ⟨by rw [get_d_of_ds_eq main.1]; exact hd, main⟩

theorem stat_response_keeps_merger_witness :
    stat_world.get_d 0 = some { response_downstream with merger := some [] } ∧
    ∃ w1, a2b_process_downstream_response quiet_env stat_world 1 = .ok w1 ∧
      w1.get_d 0 = some { response_downstream with merger := some [] } ∧
      w1.get_c 0 = stat_world.get_c 0 ∧
      (w1.get_c 1).map (fun x => x.state) = some conn_state.conn_new_cmd :=
  ⟨by decide,
    match h : a2b_process_downstream_response quiet_env stat_world 1 with
    | .ok w1 =>
      have k := stat_response_keeps_merger quiet_env stat_world 1 0
        { header_conn PROTOCOL_BINARY_CMD_STAT 10 0 0 12 with
          state := conn_state.conn_nread, item := some 7,
          cmd_start := some (bytes_to_string (List.replicate 24 0)) }
        { response_downstream with merger := some [] } (by decide) (by decide) (by decide)
        (by decide) w1 h
      ⟨w1, rfl, k.1, k.2.2.2.1 0 (by decide), by rw [k.2.2.2.2]; rfl⟩
    | .error f => by
      have h2 : a2b_process_downstream_response quiet_env stat_world 1 ≠ .error f := by
        cases f <;> decide
      exact absurd h h2⟩

/-! ## `conn_list_remove` -/

theorem IsChain.splice {nxt nxt1 : Nat → Option (Option Nat)} {c : Nat} {post : List Nat} :
    ∀ {pre : List Nat} {head : Option Nat}, IsChain nxt head (pre ++ c :: post) →
      (∀ a, a ∈ pre ++ post → pre.getLast? ≠ some a → nxt1 a = nxt a) →
      (∀ l, pre.getLast? = some l → nxt1 l = nxt c) →
      IsChain nxt1 (pre ++ post).head? (pre ++ post) := by
  intro pre
  induction pre with
  | nil =>
    intro head hc hoff _
    obtain ⟨p0, hp0, hrest⟩ := (show IsChain nxt head (c :: post) from hc).tail
    have hh := hrest.head
    rw [List.nil_append, ← hh]
    exact hrest.congr fun a ha => hoff a ha (by simp)
  | cons x pre ih =>
    intro head hc hoff hl
    have hnd := hc.nodup
    obtain ⟨p0, hp0, hrest⟩ := (show IsChain nxt head (x :: (pre ++ c :: post)) from hc).tail
    cases pre with
    | nil =>
      obtain ⟨p1, hp1, hpost⟩ := (show IsChain nxt p0 (c :: post) from hrest).tail
      refine IsChain.cons (p := p1) ?_ ?_
      · rw [hl x rfl]; exact hp1
      · refine hpost.congr fun a ha => hoff a (by simp [ha]) ?_
        intro he
        have hax : x = a := by simpa using he
        subst hax
        have : x ∉ c :: post := by
          have := (List.nodup_cons.1 hnd).1
          simpa using this
        exact this (List.mem_cons_of_mem _ ha)
    | cons y pre =>
      have hxn : x ∉ (y :: pre) ++ c :: post := (List.nodup_cons.1 hnd).1
      refine IsChain.cons (p := some y) ?_ ?_
      · rw [hoff x (by simp) ?_]
        · rw [hp0, hrest.head_eq]
        · rw [List.getLast?_cons_cons]
          intro he
          exact hxn (List.mem_append_left _ (List.mem_of_getLast?_eq_some he))
      · have := ih hrest
          (fun a ha hne => hoff a (List.mem_cons_of_mem _ ha)
            (by rw [List.getLast?_cons_cons]; exact hne))
          (fun l hle => hl l (by rw [List.getLast?_cons_cons]; exact hle))
        simpa using this

theorem clr_loop_none (head : Option Nat) (tail : Option (Option Nat)) (c : Nat) (w : World) :
    ∀ (rest : List Nat) (fuel : Nat) (prev curr : Option Nat),
      IsChain w.cnext curr rest → c ∉ rest → rest.length ≤ fuel →
      conn_list_remove_loop head tail c fuel w prev curr = .ok (head, tail, false, w) := by
  intro rest
  induction rest with
  | nil =>
    intro fuel prev curr hc _ _
    have := hc.of_nil
    subst this
    cases fuel <;> rfl
  | cons x rest ih =>
    intro fuel prev curr hc hn hf
    have := hc.head_eq
    subst this
    obtain ⟨p, hp, hrest⟩ := hc.tail
    obtain ⟨xc, hxc, hxn⟩ := get_c_of_cnext hp
    cases fuel with
    | zero => simp at hf
    | succ fuel =>
      have hxne : ¬ x = c := fun h => hn (h ▸ List.mem_cons_self _ _)
      simp only [conn_list_remove_loop, hxc, hxne, if_false]
      exact ih fuel (some x) xc.next (hxn ▸ hrest)
        (fun h => hn (List.mem_cons_of_mem _ h)) (by simpa using hf)

theorem clr_loop_found (head : Option Nat) (tail : Option (Option Nat)) (c : Nat) (w : World)
    (post : List Nat) :
    ∀ (p pre : List Nat) (fuel : Nat) (prev curr : Option Nat),
      IsChain w.cnext head (pre ++ p ++ c :: post) →
      IsChain w.cnext curr (p ++ c :: post) →
      prev = pre.getLast? → p.length + 1 ≤ fuel →
      ∃ w1, conn_list_remove_loop head tail c fuel w prev curr =
          .ok ((pre ++ p ++ post).head?, conn_list_remove_tail tail (pre ++ p).getLast? c,
            true, w1) ∧
        IsChain w1.cnext (pre ++ p ++ post).head? (pre ++ p ++ post) ∧
        w1.proxy = w.proxy ∧ w1.ptd = w.ptd ∧ w1.ds = w.ds ∧
        w1.conns.length = w.conns.length ∧
        (∀ a, a ∉ pre ++ p ++ c :: post → w1.get_c a = w.get_c a) ∧
        (∀ a cc, w.get_c a = some cc → ∃ n, w1.get_c a = some { cc with next := n }) ∧
        w1.cnext c = some none := by
  intro p
  induction p with
  | nil =>
    intro pre fuel prev curr hall hcur hprev hf
    simp only [List.append_nil] at hall ⊢
    have hce := hcur.head_eq
    subst hce
    obtain ⟨p0, hp0, hpost⟩ := (show IsChain w.cnext (some c) (c :: post) from hcur).tail
    obtain ⟨cc, hcc, hcn⟩ := get_c_of_cnext hp0
    have hnd := hall.nodup
    have hcpre : c ∉ pre := by
      intro hm
      have := List.nodup_append.1 hnd
      exact this.2.2 hm (List.mem_cons_self _ _)
    have hcpost : c ∉ post := by
      have := (List.nodup_append.1 hnd).2.1
      exact (List.nodup_cons.1 this).1
    have hltc := lt_of_get_c hcc
    cases fuel with
    | zero => simp at hf
    | succ fuel =>
      cases hpl : pre.getLast? with
      | none =>
        have hpe : pre = [] := List.getLast?_eq_none_iff.1 hpl
        subst hpe
        have hhead : head = some c := hall.head_eq
        rw [hprev, hpl]
        simp only [conn_list_remove_loop, hcc, if_true, hhead, List.nil_append]
        have hch : IsChain (w.set_c c { cc with next := none }).cnext post.head? post := by
          have := @IsChain.splice w.cnext (w.set_c c { cc with next := none }).cnext c post
            [] (some c) hcur
            (fun a ha _ => by
              rw [cnext_set_c w c a _ cc hcc, if_neg]
              rintro rfl
              exact hcpost (by simpa using ha))
            (fun l hl => by simp at hl)
          simpa using this
        refine ⟨_, ?_, hch, rfl, rfl, rfl, by simp [World.set_c], ?_, ?_, ?_⟩
        · rw [hcn, hpost.head]
        · intro a ha
          rw [get_c_set_c_ne]
          rintro rfl
          exact ha (by simp)
        · intro a ca hca
          by_cases hac : c = a
          · subst hac
            rw [hcc] at hca
            cases hca
            exact ⟨none, get_c_set_c_same w c _ hltc⟩
          · exact ⟨ca.next, by rw [get_c_set_c_ne _ _ _ _ hac]; exact hca⟩
        · rw [cnext_set_c w c c _ cc hcc, if_pos rfl]
      | some l =>
        have hlm : l ∈ pre := List.mem_of_getLast?_eq_some hpl
        have hlc : l ≠ c := fun h => hcpre (h ▸ hlm)
        obtain ⟨pl, hpln⟩ := hall.live (show l ∈ pre ++ c :: post from
          List.mem_append_left _ hlm)
        obtain ⟨lc, hlcg, _⟩ := get_c_of_cnext hpln
        have hhead : ¬ some c = head := by
          intro he
          have h1 := hall.head
          rw [← he] at h1
          cases pre with
          | nil => cases hlm
          | cons x pre =>
            have hx : c = x := by simpa using h1
            exact hcpre (hx ▸ List.mem_cons_self _ _)
        rw [hprev, hpl]
        obtain ⟨wA, hwA⟩ : ∃ wA, wA = w.set_c l { lc with next := cc.next } := ⟨_, rfl⟩
        have hAc : wA.get_c c = some cc := by
          rw [hwA, get_c_set_c_ne _ _ _ _ hlc]; exact hcc
        have hAl : wA.get_c l = some { lc with next := cc.next } := by
          rw [hwA]; exact get_c_set_c_same w l _ (lt_of_get_c hlcg)
        obtain ⟨wB, hwB⟩ : ∃ wB, wB = wA.set_c c { cc with next := none } := ⟨_, rfl⟩
        have hBn : ∀ a, wB.cnext a =
            if c = a then some none else if l = a then some cc.next else w.cnext a := by
          intro a
          rw [hwB, cnext_set_c wA c a _ cc hAc, hwA, cnext_set_c w l a _ lc hlcg]
        have hrun : conn_list_remove_loop head tail c (fuel + 1) w (some l) (some c) =
            .ok (head, conn_list_remove_tail tail (some l) c, true, wB) := by
          simp only [conn_list_remove_loop, hcc, if_true, hhead, if_false, hlcg]
          rw [← hwA]
          simp only [hAc]
          rw [hwB]
        have hch : IsChain wB.cnext (pre ++ post).head? (pre ++ post) := by
          refine IsChain.splice hall ?_ ?_
          · intro a ha hne
            have hac : ¬ c = a := by
              rintro rfl
              rcases List.mem_append.1 ha with h | h
              · exact hcpre h
              · exact hcpost h
            have hla : ¬ l = a := by
              rintro rfl
              exact hne hpl
            rw [hBn, if_neg hac, if_neg hla]
          · intro l2 hl2
            rw [hpl] at hl2
            cases hl2
            rw [hBn, if_neg (fun h => hlc h.symm), if_pos rfl, hp0, hcn]
        have hhd : head = (pre ++ post).head? := by
          rw [hall.head]
          cases pre with
          | nil => cases hlm
          | cons x pre => rfl
        refine ⟨wB, by rw [hrun, hhd], hch, by rw [hwB, hwA]; rfl, by rw [hwB, hwA]; rfl,
          by rw [hwB, hwA]; rfl, by rw [hwB, hwA]; simp [World.set_c], ?_, ?_, ?_⟩
        · intro a ha
          have hac : c ≠ a := by rintro rfl; exact ha (by simp)
          have hla : l ≠ a := by
            rintro rfl
            exact ha (List.mem_append_left _ hlm)
          rw [hwB, get_c_set_c_ne _ _ _ _ hac, hwA, get_c_set_c_ne _ _ _ _ hla]
        · intro a ca hca
          by_cases hac : c = a
          · subst hac
            rw [hcc] at hca
            cases hca
            exact ⟨none, by rw [hwB]; exact get_c_set_c_same wA c _ (lt_of_get_c hAc)⟩
          · by_cases hla : l = a
            · subst hla
              rw [hlcg] at hca
              cases hca
              exact ⟨cc.next, by rw [hwB, get_c_set_c_ne _ _ _ _ hac]; exact hAl⟩
            · exact ⟨ca.next, by
                rw [hwB, get_c_set_c_ne _ _ _ _ hac, hwA, get_c_set_c_ne _ _ _ _ hla]
                exact hca⟩
        · rw [hBn, if_pos rfl]
  | cons x p ih =>
    intro pre fuel prev curr hall hcur hprev hf
    have hce := hcur.head_eq
    subst hce
    obtain ⟨p0, hp0, hrest⟩ := (show IsChain w.cnext (some x) (x :: (p ++ c :: post)) from
      hcur).tail
    obtain ⟨xc, hxc, hxn⟩ := get_c_of_cnext hp0
    have hxne : ¬ x = c := by
      rintro rfl
      have := (List.nodup_cons.1 hcur.nodup).1
      exact this (by simp)
    cases fuel with
    | zero => simp at hf
    | succ fuel =>
      have e1 : pre ++ [x] ++ p = pre ++ x :: p := by simp
      obtain ⟨w1, hrun, hrest1⟩ := ih (pre ++ [x]) fuel (some x) xc.next
        (by rw [e1]; exact hall) (hxn ▸ hrest) (by simp) (by simpa using hf)
      rw [e1] at hrun hrest1
      refine ⟨w1, ?_, hrest1⟩
      simp only [conn_list_remove_loop, hxc, hxne, if_false]
      exact hrun

theorem conn_list_remove_spec (w : World) (head : Option Nat) (tail : Option (Option Nat))
    (c : Nat) (xs : List Nat) (hch : IsChain w.cnext head xs) :
    ∃ h1 t1 w1, conn_list_remove w head tail c = .ok (h1, t1, decide (c ∈ xs), w1) ∧
      IsChain w1.cnext h1 (xs.erase c) ∧
      (c ∉ xs → w1 = w ∧ h1 = head ∧ t1 = tail) ∧
      (tail = none → t1 = none) ∧
      (tail = some xs.getLast? → t1 = some (xs.erase c).getLast?) ∧
      w1.proxy = w.proxy ∧ w1.ptd = w.ptd ∧ w1.ds = w.ds ∧
      w1.conns.length = w.conns.length ∧
      (∀ a, a ∉ xs → w1.get_c a = w.get_c a) ∧
      (∀ a cc, w.get_c a = some cc → ∃ n, w1.get_c a = some { cc with next := n }) ∧
      (c ∈ xs → w1.cnext c = some none) := by
  have hlen := cchain_length_le hch
  by_cases hm : c ∈ xs
  · obtain ⟨pre, post, hxs, hpre⟩ := List.eq_append_cons_of_mem hm
    subst hxs
    have hnd := hch.nodup
    have hcpost : c ∉ post := by
      have := (List.nodup_append.1 hnd).2.1
      exact (List.nodup_cons.1 this).1
    have her : (pre ++ c :: post).erase c = pre ++ post := by
      rw [List.erase_append_right _ hpre, List.erase_cons_head]
    obtain ⟨w1, hrun, hc1, h2, h3, h4, h5, h6, h7, h8⟩ :=
      clr_loop_found head tail c w post pre [] w.conns.length none head
        (by simpa using hch) (by simpa using hch) rfl (by
          have : (pre ++ c :: post).length ≤ w.conns.length := hlen
          simp at this
          simp
          omega)
    simp only [List.nil_append] at hrun hc1 h6
    refine ⟨(pre ++ post).head?, conn_list_remove_tail tail pre.getLast? c, w1, ?_, ?_,
      fun h => absurd hm h, ?_, ?_, h2, h3, h4, h5, h6, h7, fun _ => h8⟩
    · unfold conn_list_remove
      rw [hrun]
      simp [hm]
    · rw [her]; exact hc1
    · intro ht
      rw [ht]
      rfl
    · intro ht
      rw [ht, her]
      unfold conn_list_remove_tail
      simp only
      cases post with
      | nil =>
        have hl : (pre ++ [c]).getLast? = some c := by simp
        rw [if_pos hl, List.append_nil]
      | cons y post =>
        have hne : ¬ (pre ++ c :: y :: post).getLast? = some c := by
          intro he
          have h1 : (pre ++ c :: y :: post).getLast? = (y :: post).getLast? := by
            rw [List.getLast?_append_of_ne_nil _ (by simp), List.getLast?_cons_cons]
          rw [h1] at he
          exact hcpost (List.mem_of_getLast?_eq_some he)
        rw [if_neg hne]
        congr 1
        rw [List.getLast?_append_of_ne_nil _ (by simp), List.getLast?_cons_cons,
          List.getLast?_append_of_ne_nil _ (by simp)]
  · have hrun := clr_loop_none head tail c w xs w.conns.length none head hch hm hlen
    refine ⟨head, tail, w, ?_, ?_, fun _ => ⟨rfl, rfl, rfl⟩, fun h => h, ?_, rfl, rfl, rfl, rfl,
      fun _ _ => rfl, fun a cc h => ⟨cc.next, h⟩, fun h => absurd h hm⟩
    · unfold conn_list_remove
      rw [hrun]
      simp [hm]
    · rw [List.erase_of_not_mem hm]; exact hch
    · intro ht
      rw [ht, List.erase_of_not_mem hm]

theorem wait_queue_remove_spec (w : World) (c : Nat) (q : List Nat)
    (hq : IsChain w.cnext w.ptd.waiting_any_downstream_head q)
    (ht : w.ptd.waiting_any_downstream_tail = q.getLast?) :
    ∃ w1, wait_queue_remove w c = .ok w1 ∧
      IsChain w1.cnext w1.ptd.waiting_any_downstream_head (q.erase c) ∧
      w1.ptd.waiting_any_downstream_tail = (q.erase c).getLast? ∧
      w1.ptd = { w.ptd with
        waiting_any_downstream_tail := (q.erase c).getLast?
        waiting_any_downstream_head := (q.erase c).head? } ∧
      w1.proxy = w.proxy ∧ w1.ds = w.ds ∧ w1.conns.length = w.conns.length ∧
      (c ∉ q → w1.conns = w.conns) ∧
      (∀ a, a ∉ q → w1.get_c a = w.get_c a) ∧
      (∀ a cc, w.get_c a = some cc → ∃ n, w1.get_c a = some { cc with next := n }) ∧
      (c ∈ q → w1.cnext c = some none) := by
  obtain ⟨h1, t1, w1, hrun, hc1, hno, _, htl, h2, h3, h4, h5, h6, h7, h8⟩ :=
    conn_list_remove_spec w w.ptd.waiting_any_downstream_head
      (some w.ptd.waiting_any_downstream_tail) c q hq
  have ht1 := htl (by rw [ht])
  subst ht1
  have hh1 : h1 = (q.erase c).head? := hc1.head
  refine ⟨w1.set_ptd { w1.ptd with
      waiting_any_downstream_tail := (q.erase c).getLast?
      waiting_any_downstream_head := h1 }, ?_, ?_, rfl, ?_, h2, h4, h5, ?_, h6, h7, h8⟩
  · unfold wait_queue_remove
    rw [hrun]
    rfl
  · exact hc1
  · show ({ w1.ptd with
      waiting_any_downstream_tail := (q.erase c).getLast?
      waiting_any_downstream_head := h1 } : proxy_td) = _
    rw [h3, hh1]
  · intro hn
    rw [(hno hn).1]
    rfl

theorem attached_list_at {w : World} {ls : List (List Nat)}
    (hl : w.attached_lists = ls.map some) (a : Nat) (ha : a < w.ds.length) :
    (∀ dd, w.get_d a = some dd → w.upstream_list dd = some (ls.getD a [])) ∧
    (w.get_d a = none → ls.getD a [] = []) := by
  have hlen : ls.length = w.ds.length := by
    have := congrArg List.length hl
    simpa [World.attached_lists] using this.symm
  have h1 := congrArg (fun l => l[a]?) hl
  simp only [World.attached_lists, List.getElem?_map, List.getElem?_range ha,
    Option.map_some'] at h1
  have h2 : ls[a]? = some (ls.getD a []) := by
    rw [List.getD_eq_getElem?_getD, List.getElem?_eq_getElem (by omega)]
    rfl
  rw [h2] at h1
  simp only [Option.map_some', Option.some.injEq] at h1
  constructor
  · intro dd hd
    rw [hd] at h1
    exact h1
  · intro hd
    rw [hd] at h1
    simp only [Option.some.injEq] at h1
    exact h1.symm

theorem lists_wf.of_walks {w : World} {q : List Nat} {ls : List (List Nat)}
    (hq : w.wait_queue = some q) (ht : w.ptd.waiting_any_downstream_tail = q.getLast?)
    (hl : w.attached_lists = ls.map some) (hnd : (q ++ ls.flatten).Nodup) :
    lists_wf w q (fun a => ls.getD a []) := by
  have hlen : ls.length = w.ds.length := by
    have := congrArg List.length hl
    simpa [World.attached_lists] using this.symm
  have hmem : ∀ a x, x ∈ ls.getD a [] → a < ls.length ∧ x ∈ ls.flatten := by
    intro a x hx
    rw [List.getD_eq_getElem?_getD] at hx
    cases hg : ls[a]? with
    | none => rw [hg] at hx; cases hx
    | some l =>
      rw [hg] at hx
      have hlt : a < ls.length := by
        by_contra hn
        rw [List.getElem?_eq_none (by omega)] at hg
        cases hg
      exact ⟨hlt, List.mem_flatten.2 ⟨l, List.mem_iff_getElem?.2 ⟨a, hg⟩, hx⟩⟩
  obtain ⟨hn1, hn2, hn3⟩ := List.nodup_append.1 hnd
  refine ⟨wait_queue_iff.1 hq, ht, ?_, ?_, ?_, ?_⟩
  · intro a h hua
    obtain ⟨dd, hd, hh⟩ := uhead_some hua
    subst hh
    exact upstream_list_iff.1 ((attached_list_at hl a (lt_of_get_d hd)).1 dd hd)
  · intro a hua
    have hd := uhead_none.1 hua
    by_cases ha : a < w.ds.length
    · exact (attached_list_at hl a ha).2 hd
    · show ls.getD a [] = []
      rw [List.getD_eq_getElem?_getD, List.getElem?_eq_none (by omega)]
      rfl
  · intro a x hx hxq
    exact hn3 hxq (hmem a x hx).2
  · intro a b hab x hxa hxb
    have hpw := (List.nodup_flatten.1 hn2).2
    have ha := (hmem a x hxa).1
    have hb := (hmem b x hxb).1
    have ea : ls.getD a [] = ls[a] := by
      rw [List.getD_eq_getElem?_getD, List.getElem?_eq_getElem ha]; rfl
    have eb : ls.getD b [] = ls[b] := by
      rw [List.getD_eq_getElem?_getD, List.getElem?_eq_getElem hb]; rfl
    rw [ea] at hxa
    rw [eb] at hxb
    rcases Nat.lt_or_gt_of_ne hab with h | h
    · exact (List.pairwise_iff_getElem.1 hpw a b ha hb h) hxa hxb
    · exact (List.pairwise_iff_getElem.1 hpw b a hb ha h) hxb hxa

/-! ## The close of an upstream -/

theorem lists_wf.congr_wf {w w1 : World} {q : List Nat} {L : Nat → List Nat}
    (h : lists_wf w q L)
    (hh : w1.ptd.waiting_any_downstream_head = w.ptd.waiting_any_downstream_head)
    (ht : w1.ptd.waiting_any_downstream_tail = w.ptd.waiting_any_downstream_tail)
    (hu : ∀ a, w1.uhead a = w.uhead a)
    (hq : ∀ x, x ∈ q → w1.cnext x = w.cnext x)
    (hl : ∀ a x, x ∈ L a → w1.cnext x = w.cnext x) : lists_wf w1 q L where
  queue := by rw [hh]; exact h.queue.congr hq
  tail := by rw [ht]; exact h.tail
  lists := fun a hd hua => (h.lists a hd (by rw [← hu]; exact hua)).congr (hl a)
  dead := fun a hua => h.dead a (by rw [← hu]; exact hua)
  off_queue := h.off_queue
  apart := h.apart

theorem lists_wf.of_same_links {w w1 : World} {q : List Nat} {L : Nat → List Nat}
    (h : lists_wf w q L) (hs : same_links w w1) : lists_wf w1 q L := by
  obtain ⟨_, h2, _, h4, n, h5⟩ := hs
  refine h.congr_wf (by rw [h5]) (by rw [h5]) (fun a => ?_) (fun x _ => h4 x)
    (fun _ x _ => h4 x)
  unfold World.uhead World.get_d
  rw [h2]

theorem cnext_of_get_c_eq {w w1 : World} {x : Nat} (h : w1.get_c x = w.get_c x) :
    w1.cnext x = w.cnext x := by
  unfold World.cnext
  rw [h]

theorem lists_wf.erase_list {w wA : World} {q : List Nat} {L : Nat → List Nat}
    (hwf : lists_wf w q L) (c d : Nat) (dd DD : downstream) (hd : w.get_d d = some dd)
    (hDD : DD.upstream_conn = ((L d).erase c).head?)
    (hch : IsChain wA.cnext ((L d).erase c).head? ((L d).erase c))
    (hptd : wA.ptd = w.ptd) (hds : wA.ds = w.ds)
    (hget : ∀ a, a ∉ L d → wA.get_c a = w.get_c a) :
    lists_wf (wA.set_d d DD) q (Function.update L d ((L d).erase c)) := by
  have hcn : ∀ x, x ∉ L d → (wA.set_d d DD).cnext x = w.cnext x := by
    intro x hx
    rw [cnext_of_conns_eq (show (wA.set_d d DD).conns = wA.conns from rfl)]
    exact cnext_of_get_c_eq (hget x hx)
  have hAd : wA.get_d d = some dd := by rw [get_d_of_ds_eq hds]; exact hd
  have hud : (wA.set_d d DD).uhead d = some ((L d).erase c).head? := by
    rw [uhead_eq (get_d_set_d_live wA d DD dd hAd), hDD]
  have huo : ∀ a, a ≠ d → (wA.set_d d DD).uhead a = w.uhead a := by
    intro a ha
    unfold World.uhead
    rw [get_d_set_d_ne _ _ _ _ (Ne.symm ha), get_d_of_ds_eq hds]
  refine ⟨?_, ?_, ?_, ?_, ?_, ?_⟩
  · show IsChain _ wA.ptd.waiting_any_downstream_head q
    rw [hptd]
    exact hwf.queue.congr fun x hx => hcn x fun hm => hwf.off_queue d x hm hx
  · show wA.ptd.waiting_any_downstream_tail = _
    rw [hptd]; exact hwf.tail
  · intro a h hua
    by_cases had : a = d
    · subst had
      rw [hud] at hua
      cases hua
      rw [Function.update_same]
      exact hch.congr fun x _ => cnext_of_conns_eq rfl x
    · rw [Function.update_noteq had]
      rw [huo a had] at hua
      exact (hwf.lists a h hua).congr fun x hx => hcn x (hwf.apart a d had x hx)
  · intro a hua
    by_cases had : a = d
    · subst had
      rw [hud] at hua
      cases hua
    · rw [Function.update_noteq had]
      rw [huo a had] at hua
      exact hwf.dead a hua
  · intro a x hx
    by_cases had : a = d
    · subst had
      rw [Function.update_same] at hx
      exact hwf.off_queue a x (List.mem_of_mem_erase hx)
    · rw [Function.update_noteq had] at hx
      exact hwf.off_queue a x hx
  · intro a b hab x hx
    have hxa : x ∈ L a := by
      by_cases had : a = d
      · subst had
        rw [Function.update_same] at hx
        exact List.mem_of_mem_erase hx
      · rw [Function.update_noteq had] at hx
        exact hx
    have hxb : x ∉ L b := hwf.apart a b hab x hxa
    by_cases hbd : b = d
    · subst hbd
      rw [Function.update_same]
      exact fun hm => hxb (List.mem_of_mem_erase hm)
    · rw [Function.update_noteq hbd]
      exact hxb

theorem IsChain.drop_left {nxt : Nat → Option (Option Nat)} {post : List Nat} :
    ∀ {pre : List Nat} {h : Option Nat}, IsChain nxt h (pre ++ post) →
      IsChain nxt post.head? post := by
  intro pre
  induction pre with
  | nil =>
    intro h hc
    have := (show IsChain nxt h post from hc).head
    rw [← this]
    exact hc
  | cons x pre ih =>
    intro h hc
    obtain ⟨p, _, hr⟩ := (show IsChain nxt h (x :: (pre ++ post)) from hc).tail
    exact ih hr

theorem upstream_error_ok (env : Env) (hev : ∀ w c, env.update_event w c = true) (w : World)
    (uc : Nat) (cc : conn) (hc : w.get_c uc = some cc)
    (hs : cc.state = conn_state.conn_pause) (hx : cc.extra ≠ none) :
    ∃ line, (line = "END" ∨ line = "SERVER_ERROR proxy write to downstream") ∧
      upstream_error env w uc = .ok (w.set_c uc { cc with out := cc.out ++ [line] }) := by
  have hs1 : ¬ cc.state ≠ conn_state.conn_pause := fun h => h hs
  unfold upstream_error
  simp only [hc, hs1, hx, if_false, out_string, hev, if_true]
  refine ⟨_, ?_, rfl⟩
  split
  · exact Or.inl rfl
  · exact Or.inr rfl

theorem timed_out_of_frame {w w1 : World} (cutoff : Nat)
    (h : ∀ a cc, w.get_c a = some cc →
      ∃ n o, w1.get_c a = some { cc with next := n, out := o })
    (hl : w1.conns.length = w.conns.length) (a : Nat) :
    w1.timed_out cutoff a = w.timed_out cutoff a := by
  unfold World.timed_out
  cases hc : w.get_c a with
  | none =>
    have : w1.get_c a = none := by
      unfold World.get_c at hc ⊢
      rw [List.getElem?_eq_none_iff] at hc ⊢
      omega
    rw [this]
  | some cc =>
    obtain ⟨n, o, h1⟩ := h a cc hc
    rw [h1]

theorem timeout_loop_spec (env : Env) (hev : ∀ w c, env.update_event w c = true)
    (cutoff : Nat) :
    ∀ (rest kept : List Nat) (fuel : Nat) (cur : Option Nat) (w : World),
      IsChain w.cnext w.ptd.waiting_any_downstream_head (kept ++ rest) →
      w.ptd.waiting_any_downstream_tail = (kept ++ rest).getLast? →
      IsChain w.cnext cur rest → rest.length ≤ fuel →
      (∀ u ∈ rest, ∀ cu, w.get_c u = some cu →
        cu.state = conn_state.conn_pause ∧ cu.extra ≠ none) →
      ∃ w1, wait_queue_timeout_loop env cutoff fuel cur w = .ok w1 ∧
        IsChain w1.cnext w1.ptd.waiting_any_downstream_head
          (kept ++ rest.filter (fun u => !w.timed_out cutoff u)) ∧
        w1.ptd.waiting_any_downstream_tail =
          (kept ++ rest.filter (fun u => !w.timed_out cutoff u)).getLast? ∧
        (∃ h t, w1.ptd = { w.ptd with
          waiting_any_downstream_tail := t, waiting_any_downstream_head := h }) ∧
        w1.proxy = w.proxy ∧ w1.ds = w.ds ∧ w1.conns.length = w.conns.length ∧
        (∀ a, a ∉ kept ++ rest → w1.get_c a = w.get_c a) ∧
        (∀ a cc, w.get_c a = some cc →
          ∃ n o, w1.get_c a = some { cc with next := n, out := o }) ∧
        (∀ a cc, w.get_c a = some cc → ¬ (a ∈ rest ∧ w.timed_out cutoff a = true) →
          ∃ n, w1.get_c a = some { cc with next := n }) ∧
        (∀ u ∈ rest, w.timed_out cutoff u = true → ∀ cu, w.get_c u = some cu →
          ∃ line, (line = "END" ∨ line = "SERVER_ERROR proxy write to downstream") ∧
            w1.get_c u = some { cu with next := none, out := cu.out ++ [line] }) := by
  intro rest
  induction rest with
  | nil =>
    intro kept fuel cur w hq ht hcur _ _
    have := hcur.of_nil
    subst this
    refine ⟨w, by cases fuel <;> rfl, by simpa using hq, by simpa using ht,
      ⟨_, _, rfl⟩, rfl, rfl, rfl, fun _ _ => rfl, fun a cc h => ⟨cc.next, cc.out, h⟩,
      fun a cc h _ => ⟨cc.next, h⟩, fun u hu => (by cases hu)⟩
  | cons u rest ih =>
    intro kept fuel cur w hq ht hcur hfuel hst
    have hce := hcur.head_eq
    subst hce
    obtain ⟨p, hp, hrest⟩ := hcur.tail
    obtain ⟨cu, hcu, hcun⟩ := get_c_of_cnext hp
    have hnd := hq.nodup
    have hukept : u ∉ kept := fun hm =>
      (List.nodup_append.1 hnd).2.2 hm (List.mem_cons_self _ _)
    have hurest : u ∉ rest :=
      (List.nodup_cons.1 (List.nodup_append.1 hnd).2.1).1
    cases fuel with
    | zero => simp at hfuel
    | succ fuel =>
      by_cases hold : cu.cmd_start_time ≤ cutoff
      · have hto : w.timed_out cutoff u = true := by
          unfold World.timed_out
          rw [hcu]
          simpa using hold
        obtain ⟨wA, hrA, hqA, htA, hptA, hpxA, hdsA, hclA, _, hgA, hfA, hnA⟩ :=
          wait_queue_remove_spec w u (kept ++ u :: rest) hq ht
        have her : (kept ++ u :: rest).erase u = kept ++ rest := by
          rw [List.erase_append_right _ hukept, List.erase_cons_head]
        rw [her] at hqA htA
        obtain ⟨n0, hAu⟩ := hfA u cu hcu
        have hn0 : n0 = none := by
          have := hnA (List.mem_append_right _ (List.mem_cons_self _ _))
          rw [cnext_eq hAu] at this
          simpa using this
        subst hn0
        obtain ⟨line, hline, hrB⟩ := upstream_error_ok env hev wA u _ hAu (hst u
          (List.mem_cons_self _ _) cu hcu).1 (hst u (List.mem_cons_self _ _) cu hcu).2
        obtain ⟨wB, hwB⟩ : ∃ wB, wB = wA.set_c u
            { cu with next := none, out := cu.out ++ [line] } := ⟨_, rfl⟩
        have hrB2 : upstream_error env wA u = .ok wB := by rw [hrB, hwB]
        have hBn : ∀ x, wB.cnext x = wA.cnext x := by
          intro x
          rw [hwB]
          exact cnext_set_c_same_next wA u { cu with next := none }
            { cu with next := none, out := cu.out ++ [line] } hAu rfl x
        have hBu : wB.get_c u = some { cu with next := none, out := cu.out ++ [line] } := by
          rw [hwB]; exact get_c_set_c_same wA u _ (lt_of_get_c hAu)
        have hBo : ∀ a, a ≠ u → wB.get_c a = wA.get_c a := by
          intro a ha
          rw [hwB, get_c_set_c_ne _ _ _ _ (Ne.symm ha)]
        have hqB : IsChain wB.cnext wB.ptd.waiting_any_downstream_head (kept ++ rest) := by
          rw [hwB]
          exact hqA.congr fun x _ => by rw [← hwB]; exact hBn x
        have hcurB : IsChain wB.cnext cu.next rest := by
          have h1 := @IsChain.drop_left wB.cnext rest kept _ hqB
          have h2 := (hcun ▸ hrest).head
          rw [h2]
          exact h1
        have hfB : ∀ a cc, w.get_c a = some cc →
            ∃ n o, wB.get_c a = some { cc with next := n, out := o } := by
          intro a cc hca
          by_cases hau : a = u
          · subst hau
            rw [hcu] at hca
            cases hca
            exact ⟨none, cu.out ++ [line], hBu⟩
          · obtain ⟨n, hn⟩ := hfA a cc hca
            exact ⟨n, cc.out, by rw [hBo a hau]; exact hn⟩
        have hclB : wB.conns.length = w.conns.length := by
          rw [hwB]
          simpa [World.set_c] using hclA
        have htoB : ∀ a, wB.timed_out cutoff a = w.timed_out cutoff a :=
          timed_out_of_frame cutoff hfB hclB
        obtain ⟨w1, hr1, hq1, ht1, ⟨h1, t1, hpt1⟩, hpx1, hds1, hcl1, hg1, hf1, hk1, ho1⟩ :=
          ih kept fuel cu.next wB hqB (by rw [hwB]; exact htA) hcurB (by simpa using hfuel)
            (fun x hx cx hcx => by
              have hxu : x ≠ u := fun h => hurest (h ▸ hx)
              obtain ⟨px, hpx⟩ := hrest.live hx
              obtain ⟨cx0, hcx0, _⟩ := get_c_of_cnext hpx
              obtain ⟨n, hn⟩ := hfA x cx0 hcx0
              rw [hBo x hxu, hn] at hcx
              cases hcx
              exact hst x (List.mem_cons_of_mem _ hx) cx0 hcx0)
        have hfilt : (u :: rest).filter (fun x => !w.timed_out cutoff x) =
            rest.filter (fun x => !wB.timed_out cutoff x) := by
          rw [List.filter_cons_of_neg (by simp [hto])]
          exact List.filter_congr fun x _ => by rw [htoB]
        rw [hfilt]
        refine ⟨w1, ?_, hq1, ht1, ⟨h1, t1, ?_⟩, ?_, ?_, ?_, ?_, ?_, ?_, ?_⟩
        · simp only [wait_queue_timeout_loop, hcu, hold, if_true, hrA, hrB2]
          exact hr1
        · rw [hpt1, hwB]
          show ({ wA.ptd with waiting_any_downstream_tail := t1,
                              waiting_any_downstream_head := h1 } : proxy_td) = _
          rw [hptA]
        · rw [hpx1, hwB]; exact hpxA
        · rw [hds1, hwB]; exact hdsA
        · rw [hcl1]; exact hclB
        · intro a ha
          have hau : a ≠ u := fun h => ha (h ▸ List.mem_append_right _ (List.mem_cons_self _ _))
          rw [hg1 a (fun hm => ha (by
            rcases List.mem_append.1 hm with h | h
            · exact List.mem_append_left _ h
            · exact List.mem_append_right _ (List.mem_cons_of_mem _ h))), hBo a hau,
            hgA a ha]
        · intro a cc hca
          obtain ⟨n, o, hn⟩ := hfB a cc hca
          obtain ⟨n2, o2, hn2⟩ := hf1 a _ hn
          exact ⟨n2, o2, hn2⟩
        · intro a cc hca hne
          have hau : a ≠ u := by
            rintro rfl
            exact hne ⟨List.mem_cons_self _ _, hto⟩
          obtain ⟨n, hn⟩ := hfA a cc hca
          have hBa : wB.get_c a = some { cc with next := n } := by rw [hBo a hau]; exact hn
          obtain ⟨n2, hn2⟩ := hk1 a _ hBa (fun h => hne
            ⟨List.mem_cons_of_mem _ h.1, by rw [← htoB]; exact h.2⟩)
          exact ⟨n2, hn2⟩
        · intro x hx hxo cx hcx
          rcases List.mem_cons.1 hx with rfl | hxr
          · rw [hcu] at hcx
            cases hcx
            refine ⟨line, hline, ?_⟩
            rw [hg1 x (fun hm => by
              rcases List.mem_append.1 hm with h | h
              · exact hukept h
              · exact hurest h)]
            exact hBu
          · have hxu : x ≠ u := fun h => hurest (h ▸ hxr)
            obtain ⟨n, hn⟩ := hfA x cx hcx
            have hBx : wB.get_c x = some { cx with next := n } := by rw [hBo x hxu]; exact hn
            obtain ⟨l2, hl2⟩ := ho1 x hxr (by rw [htoB]; exact hxo) _ hBx
            exact ⟨l2, hl2⟩
      · have hto : w.timed_out cutoff u = false := by
          unfold World.timed_out
          rw [hcu]
          simpa using hold
        have e1 : kept ++ [u] ++ rest = kept ++ u :: rest := by simp
        obtain ⟨w1, hr1, hq1, ht1, hpt1, hpx1, hds1, hcl1, hg1, hf1, hk1, ho1⟩ :=
          ih (kept ++ [u]) fuel cu.next w (by rw [e1]; exact hq) (by rw [e1]; exact ht)
            (hcun ▸ hrest) (by simpa using hfuel)
            (fun x hx cx hcx => hst x (List.mem_cons_of_mem _ hx) cx hcx)
        have hfilt : kept ++ (u :: rest).filter (fun x => !w.timed_out cutoff x) =
            kept ++ [u] ++ rest.filter (fun x => !w.timed_out cutoff x) := by
          rw [List.filter_cons_of_pos (by simp [hto])]
          simp
        rw [hfilt]
        refine ⟨w1, ?_, hq1, ht1, hpt1, hpx1, hds1, hcl1, ?_, hf1, ?_, ?_⟩
        · simp only [wait_queue_timeout_loop, hcu, hold, if_false]
          exact hr1
        · intro a ha
          exact hg1 a (by rw [e1]; exact ha)
        · intro a cc hca hne
          exact hk1 a cc hca (fun h => hne ⟨List.mem_cons_of_mem _ h.1, h.2⟩)
        · intro x hx hxo cx hcx
          rcases List.mem_cons.1 hx with rfl | hxr
          · rw [hto] at hxo
            cases hxo
          · exact ho1 x hxr hxo cx hcx

/-- C26.  The timer callback `wait_queue_timeout`, in a state whose wait
queue is the proper list `q` with a consistent tail pointer and paused
upstreams, when `update_event` succeeds.  With the timer not armed the call
returns the state unchanged.  With the timer armed and `cutoff` the value
`current_time - wqt_sec` computed by the code (the plain difference when
`wqt_sec <= current_time`): the call returns; the queue is `q` without the
upstreams whose `cmd_start_time <= cutoff`, in the same order, with head and
tail consistent; each of those upstreams is off the queue (`next` is `NULL`)
and has got exactly one more line, `END` or the server error; every other
connection has its contents unchanged but for `next`; the timer value is
cleared and set again to `behavior.wait_queue_timeout` exactly when the queue
is not empty. -/
theorem wait_queue_timeout_spec (env : Env) (hev : ∀ w c, env.update_event w c = true)
    (w : World) (q : List Nat)
    (hq : IsChain w.cnext w.ptd.waiting_any_downstream_head q)
    (ht : w.ptd.waiting_any_downstream_tail = q.getLast?)
    (hst : ∀ u ∈ q, ∀ cu, w.get_c u = some cu →
      cu.state = conn_state.conn_pause ∧ cu.extra ≠ none) :
    (w.ptd.timeout_tv.tv_sec = 0 ∧ w.ptd.timeout_tv.tv_usec = 0 →
      wait_queue_timeout env w = .ok w) ∧
    ((w.ptd.timeout_tv.tv_sec ≠ 0 ∨ w.ptd.timeout_tv.tv_usec ≠ 0) →
      ∃ cutoff w1,
        cutoff = (env.current_time % 2 ^ 32 + 2 ^ 32 -
          wqt_sec w.proxy.behavior.wait_queue_timeout) % 2 ^ 32 ∧
        (wqt_sec w.proxy.behavior.wait_queue_timeout ≤ env.current_time →
          env.current_time < 2 ^ 32 →
          cutoff = env.current_time - wqt_sec w.proxy.behavior.wait_queue_timeout) ∧
        wait_queue_timeout env w = .ok w1 ∧
        IsChain w1.cnext w1.ptd.waiting_any_downstream_head
          (q.filter (fun u => !w.timed_out cutoff u)) ∧
        w1.ptd.waiting_any_downstream_tail =
          (q.filter (fun u => !w.timed_out cutoff u)).getLast? ∧
        w1.ptd.timeout_tv =
          (if q.filter (fun u => !w.timed_out cutoff u) = [] then { tv_sec := 0, tv_usec := 0 }
           else w.proxy.behavior.wait_queue_timeout) ∧
        w1.proxy = w.proxy ∧ w1.ds = w.ds ∧
        (∀ u ∈ q, w.timed_out cutoff u = true → ∀ cu, w.get_c u = some cu →
          ∃ line, (line = "END" ∨ line = "SERVER_ERROR proxy write to downstream") ∧
            w1.get_c u = some { cu with next := none, out := cu.out ++ [line] }) ∧
        (∀ a cc, w.get_c a = some cc → ¬ (a ∈ q ∧ w.timed_out cutoff a = true) →
          ∃ n, w1.get_c a = some { cc with next := n }) ∧
        (∀ a, a ∉ q → w1.get_c a = w.get_c a)) := by
  constructor
  · intro hz
    unfold wait_queue_timeout
    rw [if_neg (by rw [hz.1, hz.2]; simp)]
  · intro harm
    obtain ⟨cutoff, hcut⟩ : ∃ cutoff, cutoff = (env.current_time % 2 ^ 32 + 2 ^ 32 -
        wqt_sec w.proxy.behavior.wait_queue_timeout) % 2 ^ 32 := ⟨_, rfl⟩
    obtain ⟨wA, hwA⟩ : ∃ wA, wA = w.set_ptd
        { w.ptd with timeout_tv := { tv_sec := 0, tv_usec := 0 } } := ⟨_, rfl⟩
    have hAc : ∀ a, wA.get_c a = w.get_c a := by intro a; rw [hwA]; rfl
    have hAn : ∀ a, wA.cnext a = w.cnext a := fun a => cnext_of_conns_eq (by rw [hwA]; rfl) a
    have hAto : ∀ a, wA.timed_out cutoff a = w.timed_out cutoff a := by
      intro a
      unfold World.timed_out
      rw [hAc]
    obtain ⟨wB, hrB, hqB, htB, ⟨h1, t1, hptB⟩, hpxB, hdsB, hclB, hgB, _, hkB, hoB⟩ :=
      timeout_loop_spec env hev cutoff q [] (wA.conns.length + 1)
        wA.ptd.waiting_any_downstream_head wA
        (by rw [hwA]; exact hq.congr fun a _ => by rw [← hwA]; exact hAn a)
        (by rw [hwA]; exact ht)
        (by rw [hwA]; exact hq.congr fun a _ => by rw [← hwA]; exact hAn a)
        (by
          have := cchain_length_le hq
          rw [hwA]
          exact Nat.le_succ_of_le this)
        (fun u hu cu hcu => hst u hu cu (by rw [← hAc]; exact hcu))
    simp only [List.nil_append] at hqB htB hgB
    have hfilt : q.filter (fun u => !wA.timed_out cutoff u) =
        q.filter (fun u => !w.timed_out cutoff u) :=
      List.filter_congr fun x _ => by rw [hAto]
    rw [hfilt] at hqB htB
    have hBtv : wB.ptd.timeout_tv = { tv_sec := 0, tv_usec := 0 } := by rw [hptB, hwA]; rfl
    have hfacts : ∀ w1 : World, w1.conns = wB.conns → w1.ds = wB.ds → w1.proxy = wB.proxy →
        w1.proxy = w.proxy ∧ w1.ds = w.ds ∧
        (∀ u ∈ q, w.timed_out cutoff u = true → ∀ cu, w.get_c u = some cu →
          ∃ line, (line = "END" ∨ line = "SERVER_ERROR proxy write to downstream") ∧
            w1.get_c u = some { cu with next := none, out := cu.out ++ [line] }) ∧
        (∀ a cc, w.get_c a = some cc → ¬ (a ∈ q ∧ w.timed_out cutoff a = true) →
          ∃ n, w1.get_c a = some { cc with next := n }) ∧
        (∀ a, a ∉ q → w1.get_c a = w.get_c a) := by
      intro w1 e1 e2 e3
      have hg : ∀ a, w1.get_c a = wB.get_c a := by
        intro a
        unfold World.get_c
        rw [e1]
      refine ⟨by rw [e3, hpxB, hwA]; rfl, by rw [e2, hdsB, hwA]; rfl, ?_, ?_, ?_⟩
      · intro u hu hto cu hcu
        obtain ⟨line, hl, hh⟩ := hoB u hu (by rw [hAto]; exact hto) cu (by rw [hAc]; exact hcu)
        exact ⟨line, hl, by rw [hg]; exact hh⟩
      · intro a cc hca hne
        obtain ⟨n, hn⟩ := hkB a cc (by rw [hAc]; exact hca)
          (fun h => hne ⟨h.1, by rw [← hAto]; exact h.2⟩)
        exact ⟨n, by rw [hg]; exact hn⟩
      · intro a ha
        rw [hg, hgB a ha, hAc]
    have hunf1 : wB.ptd.waiting_any_downstream_head = none →
        wait_queue_timeout env w = .ok wB := by
      intro hh
      unfold wait_queue_timeout
      rw [if_pos harm]
      simp only
      rw [← hwA]
      have e : wA.proxy = w.proxy := by rw [hwA]; rfl
      rw [e, ← hcut, hrB]
      simp only [hh]
    have hunf2 : ∀ h, wB.ptd.waiting_any_downstream_head = some h →
        wait_queue_timeout env w =
          (cproxy_start_wait_queue_timeout env wB h).map (fun r => r.2) := by
      intro h hh
      unfold wait_queue_timeout
      rw [if_pos harm]
      simp only
      rw [← hwA]
      have e : wA.proxy = w.proxy := by rw [hwA]; rfl
      rw [e, ← hcut, hrB]
      simp only [hh]
    refine ⟨cutoff, ?_⟩
    cases hF : q.filter (fun u => !w.timed_out cutoff u) with
    | nil =>
      rw [hF] at hqB htB
      have hh := hqB.of_nil
      refine ⟨wB, hcut, ?_, ?_, by rw [hh]; exact IsChain.nil, htB, ?_, hfacts wB rfl rfl rfl⟩
      · intro h1 h2
        rw [hcut]
        have e : (2 : Nat) ^ 32 = 4294967296 := by norm_num
        rw [e] at h2 ⊢
        omega
      · exact hunf1 hh
      · rw [hBtv]
        simp
    | cons x xs =>
      rw [hF] at hqB htB
      have hh := hqB.head_eq
      obtain ⟨px, hpx⟩ := hqB.live (List.mem_cons_self x xs)
      obtain ⟨cx, hcx, _⟩ := get_c_of_cnext hpx
      obtain ⟨wC, hwC⟩ : ∃ wC, wC = wB.set_ptd
          { wB.ptd with timeout_tv := wB.proxy.behavior.wait_queue_timeout } := ⟨_, rfl⟩
      have hstart : (cproxy_start_wait_queue_timeout env wB x).map (fun r => r.2) = .ok wC := by
        unfold cproxy_start_wait_queue_timeout
        rw [hcx]
        simp only
        rw [← hwC]
        split <;> rfl
      refine ⟨wC, hcut, ?_, ?_, ?_, ?_, ?_, hfacts wC (by rw [hwC]; rfl) (by rw [hwC]; rfl)
        (by rw [hwC]; rfl)⟩
      · intro h1 h2
        rw [hcut]
        have e : (2 : Nat) ^ 32 = 4294967296 := by norm_num
        rw [e] at h2 ⊢
        omega
      · rw [hunf2 x hh]
        exact hstart
      · rw [hwC]
        exact hqB.congr fun a _ => rfl
      · rw [hwC]
        exact htB
      · rw [hwC]
        show wB.proxy.behavior.wait_queue_timeout = _
        rw [hpxB, hwA]
        simp

theorem wait_queue_timeout_spec_witness :
    timer_world.wait_queue = some [0, 1, 2, 3] ∧
    ∃ w1, wait_queue_timeout clock_env timer_world = .ok w1 ∧
      w1.wait_queue = some [1, 3] ∧ w1.ptd.waiting_any_downstream_tail = some 3 ∧
      w1.ptd.timeout_tv = { tv_sec := 5, tv_usec := 0 } ∧
      (w1.get_c 0).map (fun x => (x.next, x.out.length)) = some (none, 1) := by
  have hst : ∀ u ∈ [0, 1, 2, 3], ∀ cu, timer_world.get_c u = some cu →
      cu.state = conn_state.conn_pause ∧ cu.extra ≠ none := by
    intro u hu cu hcu
    have hu4 : u = 0 ∨ u = 1 ∨ u = 2 ∨ u = 3 := by simpa using hu
    rcases hu4 with h | h | h | h <;> subst h <;>
      · have e := hcu
        simp only [timer_world, World.get_c] at e
        cases e
        exact ⟨rfl, by decide⟩
  obtain ⟨cutoff, w1, hcut, _, hrun, hq1, ht1, htv, _, _, hold, _, _⟩ :=
    (wait_queue_timeout_spec clock_env (fun _ _ => rfl) timer_world [0, 1, 2, 3]
      (wait_queue_iff.1 (by decide)) (by decide) hst).2 (Or.inl (by decide))
  have hc5 : cutoff = 5 := by rw [hcut]; decide
  subst hc5
  have hf : [0, 1, 2, 3].filter (fun u => !timer_world.timed_out 5 u) = [1, 3] := by decide
  rw [hf] at hq1 ht1 htv
  refine ⟨by decide, w1, hrun, wait_queue_iff.2 hq1, ht1, ?_, ?_⟩
  · rw [htv]
    decide
  · obtain ⟨line, _, hh⟩ := hold 0 (by decide) (by decide) _ rfl
    rw [hh]
    rfl

/-! ## The reserved-state invariant -/

theorem cell_frame.refl_cell (d : Nat) (w : World) : cell_frame d w w :=
  ⟨fun _ _ => rfl, rfl, rfl, rfl, rfl⟩

theorem cell_frame.trans_cell {d : Nat} {w w1 w2 : World} (h1 : cell_frame d w w1)
    (h2 : cell_frame d w1 w2) : cell_frame d w w2 :=
  ⟨fun a ha => (h2.1 a ha).trans (h1.1 a ha), h2.2.1.trans h1.2.1, h2.2.2.1.trans h1.2.2.1,
    h2.2.2.2.1.trans h1.2.2.2.1, h2.2.2.2.2.trans h1.2.2.2.2⟩

theorem cell_frame.of_ds_eq {w w1 : World} (d : Nat) (hds : w1.ds = w.ds)
    (h1 : w1.ptd.downstream_reserved = w.ptd.downstream_reserved)
    (h2 : w1.ptd.downstream_released = w.ptd.downstream_released)
    (h3 : w1.ptd.downstream_assigns = w.ptd.downstream_assigns) : cell_frame d w w1 :=
  ⟨fun a _ => get_d_of_ds_eq hds a, by unfold World.dnext; rw [get_d_of_ds_eq hds], h1, h2,
    h3⟩

theorem cell_frame.of_links {w w1 : World} (d : Nat) (h : same_links w w1) :
    cell_frame d w w1 := by
  obtain ⟨_, h2, _, _, n, h5⟩ := h
  exact cell_frame.of_ds_eq d h2 (by rw [h5]) (by rw [h5]) (by rw [h5])

theorem cell_frame.of_delinked {d : Nat} {w w1 : World} (h : delinked d w w1) :
    cell_frame d w w1 := by
  obtain ⟨_, _, _, h4, ⟨dd, u, h5, h6⟩, n, h7⟩ := h
  refine ⟨h4, ?_, by rw [h7], by rw [h7], by rw [h7]⟩
  rw [dnext_eq h6, dnext_eq h5]

theorem cell_frame.set_cell (w : World) (d : Nat) (dd v : downstream)
    (hd : w.get_d d = some dd) (hv : v.next = dd.next) : cell_frame d w (w.set_d d v) := by
  refine ⟨fun a ha => get_d_set_d_ne _ _ _ _ (Ne.symm ha), ?_, rfl, rfl, rfl⟩
  rw [dnext_eq (get_d_set_d_live w d v dd hd), dnext_eq hd, hv]

theorem cell_frame.dnext_all {d : Nat} {w w1 : World} (h : cell_frame d w w1) (a : Nat) :
    w1.dnext a = w.dnext a := by
  by_cases had : a = d
  · subst had; exact h.2.1
  · unfold World.dnext
    rw [h.1 a had]

theorem cf_advance (d : Nat) (w w1 : World) (h : wait_queue_advance w = .ok w1) :
    cell_frame d w w1 := by
  unfold wait_queue_advance at h
  split at h
  · cases h
  · split at h
    · cases h
    · simp only at h
      split at h
      · cases h; exact cell_frame.of_ds_eq d rfl rfl rfl rfl
      · cases h; exact cell_frame.of_ds_eq d rfl rfl rfl rfl

theorem cf_squash (d : Nat) :
    ∀ (fuel : Nat) (w : World) (uc_last : Nat) (w1 : World),
      cproxy_assign_downstream_squash fuel w uc_last = .ok w1 → cell_frame d w w1 := by
  intro fuel
  induction fuel with
  | zero =>
    intro w uc_last w1 h
    unfold cproxy_assign_downstream_squash at h
    split at h
    · cases h
    · cases h; exact cell_frame.refl_cell d w
    · cases h
  | succ fuel ih =>
    intro w uc_last w1 h
    unfold cproxy_assign_downstream_squash at h
    split at h
    · cases h
    · cases h; exact cell_frame.refl_cell d w
    · split at h
      · cases h
      · rename_i lc hlc
        simp only at h
        split at h
        · cases h
        · rename_i w2 h2
          have k2 := cf_advance d _ w2 h2
          split at h
          · cases h
          · split at h
            · cases h
            · rename_i nxt hnxt
              split at h
              · cases h
              · rename_i nc hnc
                have k4 := ih _ _ _ h
                have k1 : cell_frame d w
                    (w.set_c uc_last { lc with next := w.ptd.waiting_any_downstream_head }) :=
                  cell_frame.of_ds_eq d rfl rfl rfl rfl
                have k3 : cell_frame d w2
                    ((w2.set_c nxt { nc with next := none }).set_stats
                      { (w2.set_c nxt { nc with next := none }).ptd.stats with
                        tot_assign_upstream :=
                          (w2.set_c nxt { nc with next := none }).ptd.stats.tot_assign_upstream +
                            1 }) :=
                  cell_frame.of_ds_eq d rfl rfl rfl rfl
                exact k1.trans_cell (k2.trans_cell (k3.trans_cell k4))

theorem cf_pair (w : World) (d : Nat) (w1 : World)
    (h : cproxy_assign_downstream_pair w d = .ok w1) : cell_frame d w w1 := by
  unfold cproxy_assign_downstream_pair at h
  split at h
  · cases h
  · rename_i dd hd
    split at h
    · cases h
    split at h
    · cases h
    split at h
    · cases h
    split at h
    · cases h
    split at h
    · cases h
    split at h
    · cases h
    split at h
    · cases h
    simp only at h
    split at h
    · cases h
    · rename_i w3 h3
      have k2 : cell_frame d w
          (w.set_d d { dd with upstream_conn := w.ptd.waiting_any_downstream_head }) :=
        cell_frame.set_cell w d dd _ hd rfl
      have k3 := cf_advance d _ w3 h3
      split at h
      · cases h
      · split at h
        · cases h
        · rename_i uc huc
          split at h
          · cases h
          · rename_i ucc hucc
            have k5 := cf_squash d _ _ _ _ h
            have k4 : cell_frame d w3
                ((w3.set_c uc { ucc with next := none }).set_stats
                  { (w3.set_c uc { ucc with next := none }).ptd.stats with
                    tot_assign_downstream :=
                      (w3.set_c uc { ucc with next := none }).ptd.stats.tot_assign_downstream + 1
                    tot_assign_upstream :=
                      (w3.set_c uc { ucc with next := none }).ptd.stats.tot_assign_upstream +
                        1 }) :=
              cell_frame.of_ds_eq d rfl rfl rfl rfl
            exact k2.trans_cell (k3.trans_cell (k4.trans_cell k5))

theorem cf_errors (env : Env) (hf : env.frame) (d : Nat) :
    ∀ (fuel : Nat) (w w1 : World), cproxy_assign_downstream_errors env d fuel w = .ok w1 →
      cell_frame d w w1 := by
  intro fuel
  induction fuel with
  | zero =>
    intro w w1 h
    unfold cproxy_assign_downstream_errors at h
    split at h
    · cases h
    · split at h
      · cases h; exact cell_frame.refl_cell d w
      · cases h
  | succ fuel ih =>
    intro w w1 h
    unfold cproxy_assign_downstream_errors at h
    split at h
    · cases h
    · rename_i dd hd
      split at h
      · cases h; exact cell_frame.refl_cell d w
      · rename_i uc hu
        simp only at h
        split at h
        · cases h
        · rename_i wa ha
          have ka := upstream_error_spec env hf w uc wa ha
          have hda : wa.get_d d = some dd := by rw [ka.get_d]; exact hd
          split at h
          · cases h
          · rename_i wb hb
            have kb : cell_frame d wa wb := by
              cases hc : wa.get_c uc with
              | none =>
                rw [(pop_spec d wa dd uc hda hu).1 hc] at hb
                cases hb
              | some cc =>
                rw [(pop_spec d wa dd uc hda hu).2 cc hc] at hb
                cases hb
                exact (cell_frame.set_cell wa d dd { dd with upstream_conn := cc.next } hda
                  rfl).trans_cell
                  (cell_frame.of_ds_eq (w := wa.set_d d { dd with upstream_conn := cc.next }) d
                    rfl rfl rfl rfl)
            exact (cell_frame.of_links d ka).trans_cell (kb.trans_cell (ih wb w1 h))

theorem used_frame.refl_used (w : World) : used_frame w w :=
  ⟨rfl, rfl, rfl, fun _ => rfl, fun _ dd h => ⟨dd, h, rfl, id⟩⟩

theorem used_frame.trans_used {w w1 w2 : World} (h1 : used_frame w w1) (h2 : used_frame w1 w2) :
    used_frame w w2 := by
  obtain ⟨a1, a2, a3, a4, a5⟩ := h1
  obtain ⟨b1, b2, b3, b4, b5⟩ := h2
  refine ⟨b1.trans a1, b2.trans a2, b3.trans a3, fun a => (b4 a).trans (a4 a), ?_⟩
  intro a dd hd
  obtain ⟨dd1, hd1, e1, e2⟩ := a5 a dd hd
  obtain ⟨dd2, hd2, f1, f2⟩ := b5 a dd1 hd1
  exact ⟨dd2, hd2, f1.trans e1, fun hn => f2 (e2 hn)⟩

theorem used_frame.of_heap {w w1 : World} (hds : w1.ds = w.ds)
    (h1 : w1.ptd.downstream_reserved = w.ptd.downstream_reserved)
    (h2 : w1.ptd.downstream_released = w.ptd.downstream_released)
    (h3 : w1.ptd.downstream_assigns = w.ptd.downstream_assigns) : used_frame w w1 := by
  refine ⟨h1, h2, h3, ?_, ?_⟩
  · intro a
    unfold World.dnext
    rw [get_d_of_ds_eq hds]
  · intro a dd hd
    exact ⟨dd, (get_d_of_ds_eq hds a).trans hd, rfl, id⟩

theorem used_frame.of_linked {w w1 : World} (h : same_links w w1) : used_frame w w1 := by
  obtain ⟨_, hds, _, _, n, hp⟩ := h
  exact used_frame.of_heap hds (by rw [hp]) (by rw [hp]) (by rw [hp])

theorem clr_loop_ds (head : Option Nat) (tail : Option (Option Nat)) (c : Nat) :
    ∀ (fuel : Nat) (w : World) (prev curr : Option Nat)
      (r : Option Nat × Option (Option Nat) × Bool × World),
      conn_list_remove_loop head tail c fuel w prev curr = .ok r →
      r.2.2.2.ds = w.ds ∧ r.2.2.2.ptd = w.ptd := by
  intro fuel
  induction fuel with
  | zero =>
    intro w prev curr r h
    cases curr with
    | none => unfold conn_list_remove_loop at h; cases h; exact ⟨rfl, rfl⟩
    | some x => unfold conn_list_remove_loop at h; cases h
  | succ fuel ih =>
    intro w prev curr r h
    cases curr with
    | none => unfold conn_list_remove_loop at h; cases h; exact ⟨rfl, rfl⟩
    | some x =>
      unfold conn_list_remove_loop at h
      split at h
      · cases h
      · split at h
        · split at h
          · split at h
            · cases h
            · split at h
              · cases h
              · simp only at h
                split at h
                · cases h
                · cases h; exact ⟨rfl, rfl⟩
          · split at h
            · cases h; exact ⟨rfl, rfl⟩
            · cases h
        · exact ih _ _ _ _ h

theorem clr_of_none (w : World) (tail : Option (Option Nat)) (c : Nat) :
    conn_list_remove w none tail c = .ok (none, tail, false, w) := by
  unfold conn_list_remove
  cases w.conns.length <;> rfl

theorem uf_sockets (env : Env) (hf : env.frame) (d : Nat) :
    ∀ (left i : Nat) (w w1 : World),
      cproxy_on_close_upstream_conn_sockets env d left i w = .ok w1 → used_frame w w1 := by
  intro left
  induction left with
  | zero => intro i w w1 h; cases h; exact used_frame.refl_used w
  | succ left ih =>
    intro i w w1 h
    unfold cproxy_on_close_upstream_conn_sockets at h
    split at h
    · cases h
    · split at h
      · exact ih _ _ _ h
      · rename_i s hs
        split at h
        · cases h
        · rename_i sc hsc
          split at h
          · split at h
            · cases h
            · rename_i wa ha
              have k1 : used_frame w (w.set_c s { sc with msgused := 0, iov := [] }) :=
                used_frame.of_heap rfl rfl rfl rfl
              have k2 : used_frame (w.set_c s { sc with msgused := 0, iov := [] }) wa := by
                cases hg : (w.set_c s { sc with msgused := 0, iov := [] }).get_c s with
                | none =>
                  rw [(cproxy_close_conn_spec env hf _ s).1 hg] at ha
                  cases ha
                | some cc =>
                  obtain ⟨w2, h2, hs2⟩ := (cproxy_close_conn_spec env hf _ s).2 cc hg
                  rw [h2] at ha
                  cases ha
                  exact used_frame.of_linked hs2
              exact k1.trans_used (k2.trans_used (ih _ _ _ h))
          · exact ih _ _ _ h

theorem used_frame.set_used (w : World) (d : Nat) (dd v : downstream)
    (hd : w.get_d d = some dd) (hn : v.next = dd.next)
    (hu : v.downstream_used = dd.downstream_used)
    (hc : dd.upstream_conn = none → v.upstream_conn = none) : used_frame w (w.set_d d v) := by
  refine ⟨rfl, rfl, rfl, ?_, ?_⟩
  · intro a
    by_cases had : a = d
    · subst had
      rw [dnext_eq (get_d_set_d_live w a v dd hd), dnext_eq hd, hn]
    · unfold World.dnext
      rw [get_d_set_d_ne _ _ _ _ (Ne.symm had)]
  · intro a da ha
    by_cases had : a = d
    · subst had
      rw [hd] at ha
      cases ha
      exact ⟨v, get_d_set_d_live w a v _ hd, hu, hc⟩
    · exact ⟨da, (get_d_set_d_ne _ _ _ _ (Ne.symm had)).trans ha, rfl, id⟩

theorem uf_close_upstream_body (env : Env) (hf : env.frame) (c d : Nat) (w w1 : World)
    (h : cproxy_on_close_upstream_conn_body env c d w = .ok w1) : used_frame w w1 := by
  unfold cproxy_on_close_upstream_conn_body at h
  split at h
  · cases h
  · rename_i dd hd
    split at h
    · cases h
    · rename_i hh t found wa ha
      obtain ⟨kds, kptd⟩ := clr_loop_ds _ _ c _ w none _ _ ha
      simp only at kds kptd
      have ka : used_frame w wa :=
        used_frame.of_heap kds (by rw [kptd]) (by rw [kptd]) (by rw [kptd])
      have hnone : dd.upstream_conn = none → hh = none := by
        intro hn
        rw [hn, clr_of_none] at ha
        cases ha
        rfl
      have hda : wa.get_d d = some dd := (get_d_of_ds_eq kds d).trans hd
      split at h
      · cases h
      · rename_i dd1 hd1
        rw [hda] at hd1
        cases hd1
        simp only at h
        split at h
        · refine ka.trans_used (used_frame.trans_used ?_ (uf_sockets env hf d _ _ _ w1 h))
          refine used_frame.set_used wa d dd _ hda ?_ ?_ ?_
          · split <;> split <;> rfl
          · split <;> split <;> rfl
          · intro hn
            have := hnone hn
            subst this
            split <;> rfl
        · cases h
          refine ka.trans_used (used_frame.set_used wa d dd _ hda ?_ ?_ ?_)
          · split <;> rfl
          · split <;> rfl
          · intro hn
            have := hnone hn
            subst this
            rfl

theorem uf_close_upstream_loop (env : Env) (hf : env.frame) (c : Nat) :
    ∀ (fuel : Nat) (cur : Option Nat) (w w1 : World),
      cproxy_on_close_upstream_conn_loop env c fuel cur w = .ok w1 → used_frame w w1 := by
  intro fuel
  induction fuel with
  | zero =>
    intro cur w w1 h
    cases cur with
    | none => unfold cproxy_on_close_upstream_conn_loop at h; cases h; exact used_frame.refl_used w
    | some d => unfold cproxy_on_close_upstream_conn_loop at h; cases h
  | succ fuel ih =>
    intro cur w w1 h
    cases cur with
    | none => unfold cproxy_on_close_upstream_conn_loop at h; cases h; exact used_frame.refl_used w
    | some d =>
      unfold cproxy_on_close_upstream_conn_loop at h
      split at h
      · cases h
      · rename_i wa ha
        split at h
        · cases h
        · exact (uf_close_upstream_body env hf c d w wa ha).trans_used (ih _ _ _ h)

theorem uf_wait_queue_remove (w : World) (c : Nat) (w1 : World)
    (h : wait_queue_remove w c = .ok w1) : used_frame w w1 := by
  unfold wait_queue_remove at h
  split at h
  · cases h
  · rename_i hd t f wa ha
    cases h
    obtain ⟨kds, kptd⟩ := clr_loop_ds _ _ c _ w none _ _ ha
    simp only at kds kptd
    exact used_frame.of_heap kds (by simp only [ptd_set_ptd, kptd])
      (by simp only [ptd_set_ptd, kptd]) (by simp only [ptd_set_ptd, kptd])

theorem uf_close_upstream (env : Env) (hf : env.frame) (w : World) (c : Nat) (w1 : World)
    (h : cproxy_on_close_upstream_conn env w c = .ok w1) : used_frame w w1 := by
  unfold cproxy_on_close_upstream_conn at h
  split at h
  · cases h
  · rename_i cc hcc
    split at h
    · cases h
    simp only at h
    split at h
    · cases h
    split at h
    · cases h
    · rename_i w3 h3
      have k0 : used_frame w ((w.set_c c { cc with extra := none }).set_stats
          { (w.set_c c { cc with extra := none }).ptd.stats with
            num_upstream := (w.set_c c { cc with extra := none }).ptd.stats.num_upstream - 1 }) :=
        used_frame.of_heap rfl rfl rfl rfl
      exact k0.trans_used ((uf_close_upstream_loop env hf c _ _ _ w3 h3).trans_used
        (uf_wait_queue_remove w3 c w1 h))

theorem uf_wait_any (w : World) (uc : Nat) (w1 : World)
    (h : cproxy_wait_any_downstream w uc = .ok w1) : used_frame w w1 := by
  unfold cproxy_wait_any_downstream at h
  simp only at h
  split at h
  · cases h
  · split at h
    · cases h
    · split at h
      · cases h
      · rename_i w2 h2
        have k2 : w2.ds = w.ds ∧ w2.ptd = w.ptd := by
          split at h2
          · cases h2; exact ⟨rfl, rfl⟩
          · split at h2
            · cases h2
            · cases h2; exact ⟨rfl, rfl⟩
        split at h
        · cases h
          exact used_frame.of_heap k2.1 (by simp only [ptd_set_ptd, k2.2])
            (by simp only [ptd_set_ptd, k2.2]) (by simp only [ptd_set_ptd, k2.2])
        · cases h
          exact used_frame.of_heap k2.1 (by simp only [ptd_set_ptd, k2.2])
            (by simp only [ptd_set_ptd, k2.2]) (by simp only [ptd_set_ptd, k2.2])

theorem used_frame.pool_kept {w w1 : World} (h : used_frame w w1) (hp : pool_lists w) :
    pool_lists w1 :=
  pool_lists_congr hp h.1 h.2.1 h.2.2.2.1

theorem uhead_of_ds_eq {w w1 : World} (h : w1.ds = w.ds) (a : Nat) : w1.uhead a = w.uhead a := by
  unfold World.uhead
  rw [get_d_of_ds_eq h]

theorem lists_wf.remove_queue {w : World} {q : List Nat} {L : Nat → List Nat}
    (hwf : lists_wf w q L) (c : Nat) (w1 : World) (h : wait_queue_remove w c = .ok w1) :
    lists_wf w1 (q.erase c) L := by
  obtain ⟨w2, hrun, hc, ht, _, _, hds, _, _, hget, _, _⟩ :=
    wait_queue_remove_spec w c q hwf.queue hwf.tail
  rw [hrun] at h
  cases h
  refine ⟨hc, ht, ?_, ?_, ?_, hwf.apart⟩
  · intro a h1 ha
    rw [uhead_of_ds_eq hds] at ha
    exact (hwf.lists a h1 ha).congr fun x hx =>
      cnext_of_get_c_eq (hget x (hwf.off_queue a x hx))
  · intro a ha
    rw [uhead_of_ds_eq hds] at ha
    exact hwf.dead a ha
  · intro a x hx hm
    exact hwf.off_queue a x hx (List.mem_of_mem_erase hm)

theorem lists_wf.of_ptd {w : World} {q : List Nat} {L : Nat → List Nat}
    (hwf : lists_wf w q L) (t : proxy_td)
    (hh : t.waiting_any_downstream_head = w.ptd.waiting_any_downstream_head)
    (ht : t.waiting_any_downstream_tail = w.ptd.waiting_any_downstream_tail) :
    lists_wf (w.set_ptd t) q L :=
  hwf.congr_wf hh ht (fun _ => rfl) (fun _ _ => rfl) (fun _ _ _ => rfl)

theorem wf_timeout_loop (env : Env) (hf : env.frame) (cutoff : Nat) (L : Nat → List Nat) :
    ∀ (fuel : Nat) (cur : Option Nat) (w w1 : World) (q : List Nat), lists_wf w q L →
      wait_queue_timeout_loop env cutoff fuel cur w = .ok w1 →
      (∃ q1, lists_wf w1 q1 L) ∧ used_frame w w1 := by
  intro fuel
  induction fuel with
  | zero =>
    intro cur w w1 q hwf h
    cases cur with
    | none =>
      unfold wait_queue_timeout_loop at h; cases h
      exact ⟨⟨q, hwf⟩, used_frame.refl_used w⟩
    | some u => unfold wait_queue_timeout_loop at h; cases h
  | succ fuel ih =>
    intro cur w w1 q hwf h
    cases cur with
    | none =>
      unfold wait_queue_timeout_loop at h; cases h
      exact ⟨⟨q, hwf⟩, used_frame.refl_used w⟩
    | some u =>
      unfold wait_queue_timeout_loop at h
      split at h
      · cases h
      · split at h
        · split at h
          · cases h
          · rename_i wa ha
            split at h
            · cases h
            · rename_i wb hb
              have ka := hwf.remove_queue u wa ha
              have sb := upstream_error_spec env hf wa u wb hb
              obtain ⟨hq1, hu1⟩ := ih _ wb w1 _ (ka.of_same_links sb) h
              exact ⟨hq1, (uf_wait_queue_remove w u wa ha).trans_used
                ((used_frame.of_linked sb).trans_used hu1)⟩
        · exact ih _ w w1 q hwf h

theorem start_timeout_eq (env : Env) (w : World) (uc : Nat) (r : Bool × World)
    (h : cproxy_start_wait_queue_timeout env w uc = .ok r) :
    r.2 = w.set_ptd { w.ptd with timeout_tv := w.proxy.behavior.wait_queue_timeout } := by
  unfold cproxy_start_wait_queue_timeout at h
  split at h
  · cases h
  · simp only at h
    split at h
    · cases h; rfl
    · cases h; rfl

theorem wf_timeout (env : Env) (hf : env.frame) (w w1 : World) (hwf : pairing_wf w)
    (h : wait_queue_timeout env w = .ok w1) : pairing_wf w1 := by
  obtain ⟨hp, q, L, hl⟩ := hwf
  unfold wait_queue_timeout at h
  split at h
  · simp only at h
    split at h
    · cases h
    · rename_i w2 h2
      have k0 : lists_wf (w.set_ptd { w.ptd with timeout_tv := { tv_sec := 0, tv_usec := 0 } })
          q L := hl.of_ptd _ rfl rfl
      have u0 : used_frame w
          (w.set_ptd { w.ptd with timeout_tv := { tv_sec := 0, tv_usec := 0 } }) :=
        used_frame.of_heap rfl rfl rfl rfl
      obtain ⟨⟨q1, hl2⟩, u2⟩ := wf_timeout_loop env hf _ L _ _ _ w2 q k0 h2
      have hp2 := (u0.trans_used u2).pool_kept hp
      split at h
      · cases h
        exact ⟨hp2, q1, L, hl2⟩
      · rename_i hd hh
        cases hs : cproxy_start_wait_queue_timeout env w2 hd with
        | error f => rw [hs] at h; cases h
        | ok r =>
          rw [hs] at h
          cases h
          have e := start_timeout_eq env w2 hd r hs
          show pairing_wf r.2
          refine ⟨?_, q1, L, ?_⟩
          · rw [e]
            exact (show used_frame w2 _ from used_frame.of_heap rfl rfl rfl rfl).pool_kept hp2
          · rw [e]
            exact hl2.of_ptd _ rfl rfl
  · cases h
    exact ⟨hp, q, L, hl⟩

theorem sockets_links (env : Env) (hf : env.frame) (d : Nat) :
    ∀ (left i : Nat) (w w1 : World),
      cproxy_on_close_upstream_conn_sockets env d left i w = .ok w1 → same_links w w1 := by
  intro left
  induction left with
  | zero => intro i w w1 h; cases h; exact same_links.refl_links w
  | succ left ih =>
    intro i w w1 h
    unfold cproxy_on_close_upstream_conn_sockets at h
    split at h
    · cases h
    · split at h
      · exact ih _ _ _ h
      · rename_i s hs
        split at h
        · cases h
        · rename_i sc hsc
          split at h
          · split at h
            · cases h
            · rename_i wa ha
              have k1 : same_links w (w.set_c s { sc with msgused := 0, iov := [] }) :=
                same_links.set_c w s sc _ hsc rfl
              have k2 : same_links (w.set_c s { sc with msgused := 0, iov := [] }) wa := by
                cases hg : (w.set_c s { sc with msgused := 0, iov := [] }).get_c s with
                | none =>
                  rw [(cproxy_close_conn_spec env hf _ s).1 hg] at ha
                  cases ha
                | some cc =>
                  obtain ⟨w2, h2, hs2⟩ := (cproxy_close_conn_spec env hf _ s).2 cc hg
                  rw [h2] at ha
                  cases ha
                  exact hs2
              exact k1.trans_links (k2.trans_links (ih _ _ _ h))
          · exact ih _ _ _ h

theorem wf_close_upstream_body (env : Env) (hf : env.frame) (c d : Nat) (w w1 : World)
    (q : List Nat) (L : Nat → List Nat) (hwf : lists_wf w q L)
    (h : cproxy_on_close_upstream_conn_body env c d w = .ok w1) :
    lists_wf w1 q (Function.update L d ((L d).erase c)) := by
  unfold cproxy_on_close_upstream_conn_body at h
  split at h
  · cases h
  · rename_i dd hd
    have hch := hwf.lists d _ (uhead_eq hd)
    obtain ⟨h1, t1, wa, hrun, hc1, _, _, _, _, hptd, hds, _, hget, _, _⟩ :=
      conn_list_remove_spec w dd.upstream_conn none c (L d) hch
    rw [hrun] at h
    simp only at h
    have hda : wa.get_d d = some dd := (get_d_of_ds_eq hds d).trans hd
    rw [hda] at h
    simp only at h
    have hh1 : h1 = ((L d).erase c).head? := hc1.head
    rw [hh1] at hc1
    split at h
    · refine (lists_wf.erase_list hwf c d dd _ hd ?_ hc1 hptd hds hget).of_same_links
        (sockets_links env hf d _ _ _ w1 h)
      rw [hh1]
      split <;> split <;> rfl
    · cases h
      refine lists_wf.erase_list hwf c d dd _ hd ?_ hc1 hptd hds hget
      rw [hh1]
      split <;> rfl

theorem wf_close_upstream_loop (env : Env) (hf : env.frame) (c : Nat) :
    ∀ (fuel : Nat) (cur : Option Nat) (w w1 : World) (q : List Nat) (L : Nat → List Nat),
      lists_wf w q L → cproxy_on_close_upstream_conn_loop env c fuel cur w = .ok w1 →
      ∃ L1, lists_wf w1 q L1 := by
  intro fuel
  induction fuel with
  | zero =>
    intro cur w w1 q L hwf h
    cases cur with
    | none => unfold cproxy_on_close_upstream_conn_loop at h; cases h; exact ⟨L, hwf⟩
    | some d => unfold cproxy_on_close_upstream_conn_loop at h; cases h
  | succ fuel ih =>
    intro cur w w1 q L hwf h
    cases cur with
    | none => unfold cproxy_on_close_upstream_conn_loop at h; cases h; exact ⟨L, hwf⟩
    | some d =>
      unfold cproxy_on_close_upstream_conn_loop at h
      split at h
      · cases h
      · rename_i wa ha
        split at h
        · cases h
        · exact ih _ _ _ q _ (wf_close_upstream_body env hf c d w wa q L hwf ha) h

theorem wf_close_upstream (env : Env) (hf : env.frame) (w : World) (c : Nat) (w1 : World)
    (hwf : pairing_wf w) (h : cproxy_on_close_upstream_conn env w c = .ok w1) :
    pairing_wf w1 := by
  refine ⟨(uf_close_upstream env hf w c w1 h).pool_kept hwf.1, ?_⟩
  obtain ⟨_, q, L, hl⟩ := hwf
  unfold cproxy_on_close_upstream_conn at h
  split at h
  · cases h
  · rename_i cc hcc
    split at h
    · cases h
    simp only at h
    split at h
    · cases h
    split at h
    · cases h
    · rename_i w3 h3
      have k0 : lists_wf ((w.set_c c { cc with extra := none }).set_stats
          { (w.set_c c { cc with extra := none }).ptd.stats with
            num_upstream := (w.set_c c { cc with extra := none }).ptd.stats.num_upstream - 1 })
          q L := by
        refine hl.congr_wf rfl rfl (fun _ => rfl) ?_ ?_
        · intro x _
          exact cnext_set_c_same_next w c cc { cc with extra := none } hcc rfl x
        · intro _ x _
          exact cnext_set_c_same_next w c cc { cc with extra := none } hcc rfl x
      obtain ⟨L1, hl3⟩ := wf_close_upstream_loop env hf c _ _ _ w3 q L k0 h3
      exact ⟨q.erase c, L1, hl3.remove_queue c w1 h⟩

theorem links_frame.refl_frame (S : List Nat) (w : World) : links_frame S w w :=
  ⟨rfl, rfl, fun _ _ => rfl⟩

theorem links_frame.trans_frame {S : List Nat} {w w1 w2 : World} (h1 : links_frame S w w1)
    (h2 : links_frame S w1 w2) : links_frame S w w2 :=
  ⟨h2.1.trans h1.1, h2.2.1.trans h1.2.1, fun c hc => (h2.2.2 c hc).trans (h1.2.2 c hc)⟩

theorem links_frame.mono {S T : List Nat} {w w1 : World} (h : links_frame S w w1)
    (hst : ∀ c, c ∈ S → c ∈ T) : links_frame T w w1 :=
  ⟨h.1, h.2.1, fun c hc => h.2.2 c fun hm => hc (hst c hm)⟩

theorem links_frame.of_same_conns {w w1 : World} (S : List Nat) (hc : w1.conns = w.conns)
    (hh : w1.ptd.waiting_any_downstream_head = w.ptd.waiting_any_downstream_head)
    (ht : w1.ptd.waiting_any_downstream_tail = w.ptd.waiting_any_downstream_tail) :
    links_frame S w w1 :=
  ⟨hh, ht, fun c _ => cnext_of_conns_eq hc c⟩

theorem links_frame.of_linkage {w w1 : World} (S : List Nat) (h : same_links w w1) :
    links_frame S w w1 := by
  obtain ⟨_, _, _, h4, n, h5⟩ := h
  exact ⟨by rw [h5], by rw [h5], fun c _ => h4 c⟩

theorem lf_check (w : World) (d : Nat) (r : Bool × World)
    (h : cproxy_check_downstream_config w d = .ok r) : links_frame [] w r.2 := by
  unfold cproxy_check_downstream_config at h
  split at h
  · cases h
  · split at h
    · cases h; exact links_frame.refl_frame _ w
    · split at h
      · cases h; exact links_frame.of_same_conns _ rfl rfl rfl
      · cases h; exact links_frame.refl_frame _ w

theorem lf_list_remove_loop (head : Option Nat) (d : Nat) :
    ∀ (fuel : Nat) (w : World) (prev curr : Option Nat) (r : Option Nat × World),
      downstream_list_remove_loop head d fuel w prev curr = .ok r →
      r.2.conns = w.conns ∧ r.2.ptd = w.ptd := by
  intro fuel
  induction fuel with
  | zero =>
    intro w prev curr r h
    cases curr with
    | none => unfold downstream_list_remove_loop at h; cases h; exact ⟨rfl, rfl⟩
    | some c => unfold downstream_list_remove_loop at h; cases h
  | succ fuel ih =>
    intro w prev curr r h
    cases curr with
    | none => unfold downstream_list_remove_loop at h; cases h; exact ⟨rfl, rfl⟩
    | some c =>
      unfold downstream_list_remove_loop at h
      split at h
      · cases h
      · split at h
        · split at h
          · split at h
            · cases h
            · split at h
              · cases h
              · cases h; exact ⟨rfl, rfl⟩
          · split at h
            · cases h; exact ⟨rfl, rfl⟩
            · cases h
        · exact ih _ _ _ _ h

theorem lf_list_remove (w : World) (head : Option Nat) (d : Nat) (r : Option Nat × World)
    (h : downstream_list_remove w head d = .ok r) : links_frame [] w r.2 := by
  obtain ⟨h1, h2⟩ := lf_list_remove_loop head d _ w none head r h
  exact links_frame.of_same_conns _ h1 (by rw [h2]) (by rw [h2])

theorem lf_free_extras :
    ∀ (slots : List (Option Nat)) (w w1 : World),
      cproxy_free_downstream_extras slots w = .ok w1 → links_frame [] w w1 := by
  intro slots
  induction slots with
  | nil => intro w w1 h; cases h; exact links_frame.refl_frame _ w
  | cons s slots ih =>
    intro w w1 h
    cases s with
    | none => cases h
    | some c =>
      unfold cproxy_free_downstream_extras at h
      split at h
      · cases h
      · rename_i cc hc
        exact (links_frame.of_linkage [] (same_links.set_c w c cc { cc with extra := none } hc
          rfl)).trans_frame (ih _ _ h)

theorem lf_free (w : World) (d : Nat) (w1 : World) (h : cproxy_free_downstream w d = .ok w1) :
    links_frame [] w w1 := by
  unfold cproxy_free_downstream at h
  split at h
  · cases h
  · split at h
    · cases h
    split at h
    · cases h
    split at h
    · cases h
    split at h
    · cases h
    split at h
    · cases h
    simp only [bind, Except.bind] at h
    split at h
    · cases h
    · rename_i r2 h2
      have k2 := lf_list_remove _ _ d r2 h2
      split at h
      · cases h
      · rename_i r4 h4
        have k4 := lf_list_remove _ _ d r4 h4
        split at h
        · cases h
        · split at h
          · cases h
          · split at h
            · cases h
            · rename_i w7 h7
              cases h
              have k7 := lf_free_extras _ _ w7 h7
              refine (links_frame.of_same_conns (w := w) [] rfl rfl rfl).trans_frame
                (k2.trans_frame ?_)
              refine (links_frame.of_same_conns [] rfl rfl rfl).trans_frame (k4.trans_frame ?_)
              refine (links_frame.of_same_conns [] rfl rfl rfl).trans_frame
                ((links_frame.of_same_conns [] rfl rfl rfl).trans_frame ?_)
              exact k7.trans_frame (links_frame.of_same_conns [] rfl rfl rfl)

theorem lf_delink (env : Env) (hf : env.frame) (d : Nat) :
    ∀ (us : List Nat) (fuel : Nat) (w : World) (dd : downstream) (w1 : World),
      w.get_d d = some dd → IsChain w.cnext dd.upstream_conn us →
      cproxy_release_downstream_delink env d fuel w = .ok w1 → links_frame us w w1 := by
  intro us
  induction us with
  | nil =>
    intro fuel w dd w1 hd hc h
    have hu := hc.of_nil
    unfold cproxy_release_downstream_delink at h
    simp only [hd, hu] at h
    cases h
    exact links_frame.refl_frame _ w
  | cons uc us ih =>
    intro fuel w dd w1 hd hc h
    have hu := hc.head_eq
    obtain ⟨p, hp, hrest⟩ := hc.tail
    obtain ⟨cc, hcc, hcn⟩ := get_c_of_cnext hp
    have hnd := hc.nodup
    unfold cproxy_release_downstream_delink at h
    simp only [hd, hu] at h
    cases fuel with
    | zero => simp at h
    | succ fuel =>
      simp only at h
      obtain ⟨wm, cc1, hs, hc1, hn1, hb⟩ := (delink_body_spec env hf d w dd uc hd hu).2 cc hcc
      rw [hb] at h
      simp only at h
      obtain ⟨s1, s2, s3, s4, n, s5⟩ := hs
      have hdm : wm.get_d d = some dd := by rw [get_d_of_ds_eq s2]; exact hd
      obtain ⟨wb, hwb⟩ : ∃ wb : World, wb =
          (wm.set_d d { dd with upstream_conn := cc.next }).set_c uc
            { cc1 with next := none } := ⟨_, rfl⟩
      rw [← hwb] at h
      have hdb : wb.get_d d = some { dd with upstream_conn := cc.next } := by
        rw [hwb, get_d_set_c]
        exact get_d_set_d_live wm d _ dd hdm
      have hcnb : ∀ a, wb.cnext a = if uc = a then some none else w.cnext a := by
        intro a
        rw [hwb, cnext_set_c _ uc a _ cc1 (by rw [get_c_set_d]; exact hc1)]
        by_cases h1 : uc = a
        · simp [h1]
        · simp only [h1, if_false]
          have : (wm.set_d d { dd with upstream_conn := cc.next }).cnext a = wm.cnext a := rfl
          rw [this, s4]
      have hchb : IsChain wb.cnext ({ dd with upstream_conn := cc.next } :
          downstream).upstream_conn us := by
        simp only
        rw [hcn]
        refine hrest.congr fun a ha => ?_
        rw [hcnb]
        have : uc ≠ a := by
          rintro rfl
          exact (List.nodup_cons.1 hnd).1 ha
        simp [this]
      obtain ⟨r1, r2, r3⟩ := ih fuel wb _ w1 hdb hchb h
      refine ⟨?_, ?_, ?_⟩
      · rw [r1, hwb]; simp [s5]
      · rw [r2, hwb]; simp [s5]
      · intro c hcm
        have h1 : uc ≠ c := fun e => hcm (e ▸ List.mem_cons_self _ _)
        have h2 : c ∉ us := fun hm => hcm (List.mem_cons_of_mem _ hm)
        rw [r3 c h2, hcnb]; simp [h1]

theorem lf_release (env : Env) (hf : env.frame) (w : World) (d : Nat) (force : Bool)
    (dd : downstream) (us : List Nat) (hd : w.get_d d = some dd)
    (hus : IsChain w.cnext dd.upstream_conn us)
    (r : Bool × World) (h : cproxy_release_downstream env w d force = .ok r) :
    links_frame us w r.2 := by
  unfold cproxy_release_downstream at h
  split at h
  · cases h
  · simp only [bind, Except.bind] at h
    split at h
    · cases h
    · rename_i w1 h1
      have k1 : links_frame us (w.set_stats { w.ptd.stats with
          tot_downstream_released := w.ptd.stats.tot_downstream_released + 1 }) w1 :=
        lf_delink env hf d us _ _ dd w1 hd hus h1
      have k0 : links_frame us w w1 :=
        (links_frame.of_same_conns (w := w) us rfl rfl rfl).trans_frame k1
      have up : ∀ {wa wb : World}, links_frame [] wa wb → links_frame us wa wb :=
        fun k => k.mono (fun _ hm => (by cases hm))
      split at h
      · cases h
      · rename_i dd1 hd1
        split at h
        · cases h
        · rename_i r3 h3
          have k3 := lf_check _ d r3 h3
          have k03 : links_frame us w r3.2 :=
            k0.trans_frame ((links_frame.of_same_conns us rfl rfl rfl).trans_frame (up k3))
          split at h
          · split at h
            · cases h
            · rename_i r4 h4
              have k4 := lf_list_remove _ _ d r4 h4
              split at h
              · cases h
              · rename_i r6 h6
                have k6 := lf_list_remove _ _ d r6 h6
                split at h
                · cases h
                · cases h
                  refine k03.trans_frame ((up k4).trans_frame
                    ((links_frame.of_same_conns us rfl rfl rfl).trans_frame ((up k6).trans_frame ?_)))
                  exact (links_frame.of_same_conns us rfl rfl rfl).trans_frame
                    ((links_frame.of_same_conns us rfl rfl rfl).trans_frame
                      (links_frame.of_same_conns us rfl rfl rfl))
          · split at h
            · cases h
            · rename_i w4 h4
              cases h
              exact k03.trans_frame (up (lf_free _ d w4 h4))

theorem wf_release (env : Env) (hf : env.frame) (w : World) (d : Nat) (force b : Bool)
    (w1 : World) (hwf : pairing_wf w)
    (h : cproxy_release_downstream env w d force = .ok (b, w1)) : pairing_wf w1 := by
  obtain ⟨⟨rs, ls, hr, hl, hdis⟩, q, L, hls⟩ := hwf
  obtain ⟨dd, hd⟩ := release_live env w d force b w1 h
  obtain ⟨p1, _⟩ := release_spec env hf w d dd rs ls force hr hl hdis hd
  obtain ⟨_, ht, hfl⟩ := p1 b w1 h
  have hus := hls.lists d _ (uhead_eq hd)
  have kf : links_frame (L d) w w1 := lf_release env hf w d force dd (L d) hd hus (b, w1) h
  have hdis1 : ∀ a, a ∈ rs.erase d → a ∉ ls.erase d := fun a ha hm =>
    hdis a (List.mem_of_mem_erase ha) (List.mem_of_mem_erase hm)
  have key : ∀ (hcell : ∀ h1, w1.uhead d = some h1 → h1 = none)
      (hpay : ∀ a, a ≠ d →
        (w1.get_d a).map downstream.payload = (w.get_d a).map downstream.payload),
      ∃ q1 L1, lists_wf w1 q1 L1 := by
    intro hcell hpay
    refine ⟨q, _, hls.transfer kf.1 kf.2.1 (fun c hc => kf.2.2 c fun hm =>
      hls.off_queue d c hm hc) ?_⟩
    intro a h1 ha
    by_cases had : a = d
    · subst had
      exact Or.inl (hcell h1 ha)
    · right
      refine ⟨by rw [← uhead_of_payload (hpay a had)]; exact ha, fun c hc => ?_⟩
      exact kf.2.2 c fun hm => hls.apart a d had c hc hm
  cases b with
  | true =>
    have hrp := ht rfl
    refine ⟨⟨rs.erase d, d :: ls.erase d, hrp.reserved, hrp.released, ?_⟩, ?_⟩
    · intro a ha hm
      rcases List.mem_cons.1 hm with rfl | hm
      · exact ((List.Nodup.mem_erase_iff hr.nodup).1 ha).1 rfl
      · exact hdis1 a ha hm
    · refine key ?_ hrp.payload
      intro h1 hu
      obtain ⟨dd1, hd1, hs1, _⟩ := hrp.cell
      rw [uhead_eq hd1] at hu
      cases hu
      exact hs1.1
  | false =>
    have hdp := hfl rfl
    refine ⟨⟨rs.erase d, ls.erase d, hdp.reserved, hdp.released, hdis1⟩, ?_⟩
    refine key ?_ hdp.payload
    intro h1 hu
    rw [uhead_none.2 hdp.dead] at hu
    cases hu

theorem wf_reserve (env : Env) (hf : env.frame) (w : World) (hwf : pairing_wf w)
    (r : Option Nat) (w1 : World) (h : cproxy_reserve_downstream env w = .ok (r, w1)) :
    pairing_wf w1 := by
  obtain ⟨⟨rs, ls, hr, hl, hdis⟩, q, L, hls⟩ := hwf
  obtain ⟨p1, _⟩ := reserve_spec env hf w rs ls hr hl hdis
  rcases p1 _ _ h with ⟨d, stale, rest, fresh, hrd, hs⟩ | ⟨hrn, hn⟩
  · obtain ⟨r1, l, st, hp, _, _⟩ := hs.ptd
    refine ⟨pool_lists_reserved_some hl hdis hs, q, _,
      hls.transfer (by rw [hp]) (by rw [hp]) (fun c _ => hs.cnext c) ?_⟩
    intro a h1 ha
    by_cases had : a = d
    · subst had
      left
      obtain ⟨dd1, hd1, hs1, _⟩ := hs.cell
      rw [uhead_eq hd1] at ha
      cases ha
      exact hs1.1
    · have hst : a ∉ stale := by
        intro hm
        rw [uhead_none.2 (hs.stale_dead a hm)] at ha
        cases ha
      right
      exact ⟨by rw [← uhead_of_payload (hs.payload a hst had)]; exact ha,
        fun c _ => hs.cnext c⟩
  · obtain ⟨r1, st, hp, _, _⟩ := hn.ptd
    refine ⟨⟨rs, [], hn.reserved, (by rw [hn.released]; exact IsChain.nil),
      fun a _ hm => (by cases hm)⟩, q, _,
      hls.transfer (by rw [hp]) (by rw [hp]) (fun c _ => hn.cnext c) ?_⟩
    intro a h1 ha
    have hst : a ∉ ls := by
      intro hm
      rw [uhead_none.2 (hn.stale_dead a hm)] at ha
      cases ha
    right
    exact ⟨by rw [← uhead_of_payload (hn.payload a hst)]; exact ha, fun c _ => hn.cnext c⟩

theorem errors_tail (env : Env) (hf : env.frame) (d : Nat) :
    ∀ (fuel : Nat) (w w1 : World), cproxy_assign_downstream_errors env d fuel w = .ok w1 →
      w1.ptd.waiting_any_downstream_tail = w.ptd.waiting_any_downstream_tail := by
  intro fuel
  induction fuel with
  | zero =>
    intro w w1 h
    unfold cproxy_assign_downstream_errors at h
    split at h
    · cases h
    · split at h
      · cases h; rfl
      · cases h
  | succ fuel ih =>
    intro w w1 h
    unfold cproxy_assign_downstream_errors at h
    split at h
    · cases h
    · split at h
      · cases h; rfl
      · simp only at h
        split at h
        · cases h
        · rename_i wa ha
          obtain ⟨_, _, _, _, n, s5⟩ := upstream_error_spec env hf w _ wa ha
          split at h
          · cases h
          · rename_i wb hb
            have e : wb.ptd = wa.ptd := by
              unfold cproxy_release_downstream_pop at hb
              split at hb
              · cases hb
              · split at hb
                · cases hb
                · split at hb
                  · cases hb
                  · cases hb; rfl
            rw [ih wb w1 h, e, s5]

theorem cell_frame.pool_chains {d : Nat} {w w1 : World} (h : cell_frame d w w1)
    (hp : pool_lists w) : pool_lists w1 :=
  pool_lists_congr hp h.2.2.1 h.2.2.2.1 h.dnext_all

theorem wf_errors (env : Env) (hf : env.frame) (d : Nat) (w w1 : World) (fuel : Nat)
    (hwf : pairing_wf w) (h : cproxy_assign_downstream_errors env d fuel w = .ok w1) :
    pairing_wf w1 := by
  have kc := cf_errors env hf d fuel w w1 h
  refine ⟨kc.pool_chains hwf.1, ?_⟩
  obtain ⟨_, q, L, hls⟩ := hwf
  cases hd : w.get_d d with
  | none =>
    unfold cproxy_assign_downstream_errors at h
    rw [hd] at h
    cases h
  | some dd =>
    have hus := hls.lists d _ (uhead_eq hd)
    obtain ⟨r1, _, _, _, _, _, r7, _, dd1, hd1, hu1⟩ :=
      errors_spec env hf d (L d) fuel w dd w1 hd hus h
    refine ⟨q, _, hls.transfer r7 (errors_tail env hf d fuel w w1 h)
      (fun c hc => r1 c fun hm => hls.off_queue d c hm hc) ?_⟩
    intro a h1 ha
    by_cases had : a = d
    · subst had
      rw [uhead_eq hd1] at ha
      cases ha
      exact Or.inl hu1
    · right
      refine ⟨?_, fun c hc => r1 c fun hm => hls.apart a d had c hc hm⟩
      unfold World.uhead at ha ⊢
      rw [← kc.1 a had]
      exact ha

theorem wf_fail (env : Env) (hf : env.frame) (d : Nat) (w w1 : World) (hwf : pairing_wf w)
    (h : cproxy_assign_downstream_fail env d w = .ok w1) : pairing_wf w1 := by
  unfold cproxy_assign_downstream_fail at h
  split at h
  · cases h
  · rename_i w8 h8
    split at h
    · cases h
    · rename_i b w9 h9
      cases h
      exact wf_release env hf w8 d false b _ (wf_errors env hf d w w8 _ hwf h8) h9

theorem advance_queue (w : World) (h : Nat) (hc : conn) (q' : List Nat)
    (hh : w.ptd.waiting_any_downstream_head = some h) (hg : w.get_c h = some hc)
    (hq : IsChain w.cnext (some h) (h :: q'))
    (ht : w.ptd.waiting_any_downstream_tail = (h :: q').getLast?) :
    ∃ w1, wait_queue_advance w = .ok w1 ∧ w1.ds = w.ds ∧ w1.conns = w.conns ∧
      w1.ptd.waiting_any_downstream_head = hc.next ∧
      w1.ptd.waiting_any_downstream_tail = q'.getLast? := by
  obtain ⟨p, hp, hrest⟩ := hq.tail
  rw [cnext_eq hg] at hp
  cases hp
  unfold wait_queue_advance
  simp only [hh, hg]
  by_cases hn : hc.next = none
  · simp only [ptd_set_ptd, hn, if_true]
    rw [hn] at hrest
    have := hrest.of_none
    subst this
    exact ⟨_, rfl, rfl, rfl, rfl, rfl⟩
  · simp only [ptd_set_ptd, hn, if_false]
    refine ⟨_, rfl, rfl, rfl, rfl, ?_⟩
    show w.ptd.waiting_any_downstream_tail = q'.getLast?
    rw [ht]
    cases hq' : q' with
    | nil =>
      rw [hq'] at hrest
      exact absurd hrest.of_nil hn
    | cons x xs => rfl

theorem squash_tail :
    ∀ (fuel : Nat) (w : World) (uc_last : Nat) (q : List Nat) (w1 : World),
      IsChain w.cnext w.ptd.waiting_any_downstream_head q →
      w.ptd.waiting_any_downstream_tail = q.getLast? → uc_last ∉ q →
      cproxy_assign_downstream_squash fuel w uc_last = .ok w1 →
      ∃ q1, IsChain w1.cnext w1.ptd.waiting_any_downstream_head q1 ∧
        w1.ptd.waiting_any_downstream_tail = q1.getLast? ∧
        ∀ c, c ≠ uc_last → c ∉ q → w1.cnext c = w.cnext c := by
  intro fuel
  induction fuel with
  | zero =>
    intro w uc_last q w1 hq ht hdis h
    rw [cproxy_assign_downstream_squash] at h
    cases hcomp : is_compatible_request w uc_last w.ptd.waiting_any_downstream_head with
    | error f => simp [hcomp] at h
    | ok b =>
      cases b with
      | true => simp [hcomp] at h
      | false =>
        simp only [hcomp, Except.ok.injEq] at h
        subst h
        exact ⟨q, hq, ht, fun _ _ _ => rfl⟩
  | succ fuel ih =>
    intro w uc_last q w1 hq ht hdis h
    rw [cproxy_assign_downstream_squash] at h
    cases hcomp : is_compatible_request w uc_last w.ptd.waiting_any_downstream_head with
    | error f => simp [hcomp] at h
    | ok b =>
      cases b with
      | false =>
        simp only [hcomp, Except.ok.injEq] at h
        subst h
        exact ⟨q, hq, ht, fun _ _ _ => rfl⟩
      | true =>
        simp only [hcomp] at h
        obtain ⟨hd0, hhead⟩ := is_compatible_true hcomp
        rw [hhead] at hq
        obtain ⟨q', rfl⟩ : ∃ q', q = hd0 :: q' := by
          cases hq with
          | cons _ hr => exact ⟨_, rfl⟩
        obtain ⟨p, hp, hrest⟩ := hq.tail
        obtain ⟨hc, hgc, hcn⟩ := get_c_of_cnext hp
        have hnd := hq.nodup
        have hne : uc_last ≠ hd0 := by
          rintro rfl
          exact hdis (List.mem_cons_self _ _)
        cases hgl : w.get_c uc_last with
        | none => simp [hgl] at h
        | some lc =>
          simp only [hgl, hhead] at h
          obtain ⟨wa, hwa⟩ : ∃ wa : World, wa = w.set_c uc_last { lc with next := some hd0 } :=
            ⟨_, rfl⟩
          rw [← hwa] at h
          have hga : wa.get_c hd0 = some hc := by
            rw [hwa, get_c_set_c_ne _ _ _ _ hne]; exact hgc
          have hha : wa.ptd.waiting_any_downstream_head = some hd0 := by rw [hwa]; exact hhead
          have hcna : ∀ a, wa.cnext a = if uc_last = a then some (some hd0) else w.cnext a := by
            intro a
            rw [hwa, cnext_set_c w uc_last a _ lc hgl]
          have hqa : IsChain wa.cnext (some hd0) (hd0 :: q') := by
            refine hq.congr fun a ha => ?_
            rw [hcna]
            have : uc_last ≠ a := by
              rintro rfl
              exact hdis ha
            simp [this]
          obtain ⟨wb, hadv, b2, b3, b4, b5⟩ := advance_queue wa hd0 hc q' hha hga hqa
            (by rw [hwa]; exact ht)
          simp only [hadv] at h
          have hgbl : wb.get_c uc_last = some { lc with next := some hd0 } := by
            unfold World.get_c
            rw [b3, hwa]
            exact get_c_set_c_same w uc_last _ (lt_of_get_c hgl)
          have hgbh : wb.get_c hd0 = some hc := by
            unfold World.get_c
            rw [b3]
            exact hga
          simp only [hgbl, hgbh] at h
          obtain ⟨wc, hwc⟩ : ∃ wc : World, wc =
              (wb.set_c hd0 { hc with next := none }).set_stats
                { (wb.set_c hd0 { hc with next := none }).ptd.stats with
                  tot_assign_upstream :=
                    (wb.set_c hd0 { hc with next := none }).ptd.stats.tot_assign_upstream + 1 } :=
            ⟨_, rfl⟩
          rw [← hwc] at h
          have hcn_c : ∀ a, wc.cnext a =
              if hd0 = a then some none else if uc_last = a then some (some hd0)
              else w.cnext a := by
            intro a
            have e1 : wc.cnext a = (wb.set_c hd0 { hc with next := none }).cnext a := by
              rw [hwc]; rfl
            rw [e1, cnext_set_c wb hd0 a _ hc hgbh]
            by_cases h1 : hd0 = a
            · simp [h1]
            · simp only [h1, if_false]
              have e2 : wb.cnext a = wa.cnext a := by
                unfold World.cnext World.get_c; rw [b3]
              rw [e2, hcna]
          have hq1 : IsChain wc.cnext wc.ptd.waiting_any_downstream_head q' := by
            have e : wc.ptd.waiting_any_downstream_head = hc.next := by
              rw [hwc]; exact b4
            rw [e, hcn]
            refine hrest.congr fun a ha => ?_
            rw [hcn_c a]
            have h1 : hd0 ≠ a := by
              rintro rfl
              exact (List.nodup_cons.1 hnd).1 ha
            have h2 : uc_last ≠ a := by
              rintro rfl
              exact hdis (List.mem_cons_of_mem _ ha)
            simp [h1, h2]
          have ht1 : wc.ptd.waiting_any_downstream_tail = q'.getLast? := by
            rw [hwc]; exact b5
          obtain ⟨q1, e1, e2, e3⟩ := ih wc hd0 q' w1 hq1 ht1 (List.nodup_cons.1 hnd).1 h
          refine ⟨q1, e1, e2, ?_⟩
          intro c hc1 hc2
          have h1 : hd0 ≠ c := fun e => hc2 (e ▸ List.mem_cons_self _ _)
          have h2 : c ∉ q' := fun hm => hc2 (List.mem_cons_of_mem _ hm)
          rw [e3 c (Ne.symm h1) h2, hcn_c]
          simp [h1, Ne.symm hc1]

theorem pair_tail (w1 : World) (d : Nat) (q : List Nat) (w6 : World)
    (hq : IsChain w1.cnext w1.ptd.waiting_any_downstream_head q)
    (ht : w1.ptd.waiting_any_downstream_tail = q.getLast?)
    (h : cproxy_assign_downstream_pair w1 d = .ok w6) :
    ∃ q1, IsChain w6.cnext w6.ptd.waiting_any_downstream_head q1 ∧
      w6.ptd.waiting_any_downstream_tail = q1.getLast? ∧
      ∀ c, c ∉ q → w6.cnext c = w1.cnext c := by
  unfold cproxy_assign_downstream_pair at h
  cases hd : w1.get_d d with
  | none => simp [hd] at h
  | some dd =>
    simp only [hd] at h
    by_cases a1 : dd.upstream_conn ≠ none
    · simp [a1] at h
    by_cases a2 : dd.downstream_used ≠ 0
    · simp [a1, a2] at h
    by_cases a3 : dd.downstream_used_start ≠ 0
    · simp [a1, a2, a3] at h
    by_cases a4 : dd.multiget ≠ none
    · simp [a1, a2, a3, a4] at h
    by_cases a5 : dd.merger ≠ none
    · simp [a1, a2, a3, a4, a5] at h
    by_cases a6 : dd.timeout_tv.tv_sec ≠ 0
    · simp [a1, a2, a3, a4, a5, a6] at h
    by_cases a7 : dd.timeout_tv.tv_usec ≠ 0
    · simp [a1, a2, a3, a4, a5, a6, a7] at h
    simp only [a1, a2, a3, a4, a5, a6, a7, if_false] at h
    cases hhead : w1.ptd.waiting_any_downstream_head with
    | none =>
      exfalso
      simp only [hhead] at h
      simp [wait_queue_advance, hhead] at h
    | some hd0 =>
      rw [hhead] at hq h
      obtain ⟨q', rfl⟩ : ∃ q', q = hd0 :: q' := by
        cases hq with
        | cons _ hr => exact ⟨_, rfl⟩
      obtain ⟨p, hp, hrest⟩ := hq.tail
      obtain ⟨hc, hgc, hcn⟩ := get_c_of_cnext hp
      have hnd := hq.nodup
      obtain ⟨w2, hw2⟩ : ∃ w2 : World, w2 =
          w1.set_d d { dd with upstream_conn := some hd0 } := ⟨_, rfl⟩
      rw [← hw2] at h
      have hh2 : w2.ptd.waiting_any_downstream_head = some hd0 := by rw [hw2]; exact hhead
      have hg2 : w2.get_c hd0 = some hc := by rw [hw2]; exact hgc
      have hq2 : IsChain w2.cnext (some hd0) (hd0 :: q') := by
        rw [hw2]; exact hq
      obtain ⟨w3, hadv, b2, b3, b4, b5⟩ := advance_queue w2 hd0 hc q' hh2 hg2 hq2
        (by rw [hw2]; exact ht)
      simp only [hadv] at h
      have hg3d : w3.get_d d = some { dd with upstream_conn := some hd0 } := by
        rw [get_d_of_ds_eq b2, hw2]
        exact get_d_set_d_live w1 d _ dd hd
      have hg3c : w3.get_c hd0 = some hc := by
        unfold World.get_c; rw [b3]; exact hg2
      simp only [hg3d, hg3c] at h
      obtain ⟨w5, hw5⟩ : ∃ w5 : World, w5 =
          (w3.set_c hd0 { hc with next := none }).set_stats
            { (w3.set_c hd0 { hc with next := none }).ptd.stats with
              tot_assign_downstream :=
                (w3.set_c hd0 { hc with next := none }).ptd.stats.tot_assign_downstream + 1
              tot_assign_upstream :=
                (w3.set_c hd0 { hc with next := none }).ptd.stats.tot_assign_upstream + 1 } :=
        ⟨_, rfl⟩
      rw [← hw5] at h
      have hcn5 : ∀ a, w5.cnext a = if hd0 = a then some none else w1.cnext a := by
        intro a
        have e1 : w5.cnext a = (w3.set_c hd0 { hc with next := none }).cnext a := by
          rw [hw5]; rfl
        rw [e1, cnext_set_c w3 hd0 a _ hc hg3c]
        by_cases h1 : hd0 = a
        · simp [h1]
        · simp only [h1, if_false]
          unfold World.cnext World.get_c
          rw [b3, hw2]
          rfl
      have hq5 : IsChain w5.cnext w5.ptd.waiting_any_downstream_head q' := by
        have e : w5.ptd.waiting_any_downstream_head = hc.next := by rw [hw5]; exact b4
        rw [e, hcn]
        refine hrest.congr fun a ha => ?_
        rw [hcn5]
        have : hd0 ≠ a := by
          rintro rfl
          exact (List.nodup_cons.1 hnd).1 ha
        simp [this]
      have ht5 : w5.ptd.waiting_any_downstream_tail = q'.getLast? := by
        rw [hw5]; exact b5
      obtain ⟨q1, e1, e2, e3⟩ :=
        squash_tail w5.conns.length w5 hd0 q' w6 hq5 ht5 (List.nodup_cons.1 hnd).1 h
      refine ⟨q1, e1, e2, ?_⟩
      intro c hcq
      have h1 : hd0 ≠ c := fun e => hcq (e ▸ List.mem_cons_self _ _)
      have h2 : c ∉ q' := fun hm => hcq (List.mem_cons_of_mem _ hm)
      rw [e3 c (Ne.symm h1) h2, hcn5]
      simp [h1]

theorem wf_pair (w : World) (d : Nat) (w6 : World) (hwf : pairing_wf w)
    (h : cproxy_assign_downstream_pair w d = .ok w6) : pairing_wf w6 := by
  have kc := cf_pair w d w6 h
  refine ⟨kc.pool_chains hwf.1, ?_⟩
  obtain ⟨hpool, q, L, hls⟩ := hwf
  obtain ⟨batch, q1, dd6, _, hqe, hd6, hchb, hq1, hdisj, _⟩ :=
    pair_spec w d q w6 hpool hls.queue h
  obtain ⟨q1', f1, f2, f3⟩ := pair_tail w d q w6 hls.queue hls.tail h
  have := f1.functional hq1
  subst this
  have hsub : ∀ x, x ∈ batch → x ∈ q := fun x hx => by
    rw [hqe]; exact List.mem_append_left _ hx
  have hsub1 : ∀ x, x ∈ q1' → x ∈ q := fun x hx => by
    rw [hqe]; exact List.mem_append_right _ hx
  have hu : ∀ a, a ≠ d → w6.uhead a = w.uhead a := by
    intro a had
    unfold World.uhead
    rw [kc.1 a had]
  refine ⟨q1', Function.update L d batch, hq1, f2, ?_, ?_, ?_, ?_⟩
  · intro a h1 ha
    by_cases had : a = d
    · subst had
      rw [Function.update_same]
      rw [uhead_eq hd6] at ha
      cases ha
      exact hchb
    · rw [Function.update_noteq had]
      rw [hu a had] at ha
      exact (hls.lists a h1 ha).congr fun x hx => f3 x (hls.off_queue a x hx)
  · intro a ha
    by_cases had : a = d
    · subst had
      rw [uhead_eq hd6] at ha
      cases ha
    · rw [Function.update_noteq had]
      rw [hu a had] at ha
      exact hls.dead a ha
  · intro a x hx
    by_cases had : a = d
    · subst had
      rw [Function.update_same] at hx
      exact hdisj x hx
    · rw [Function.update_noteq had] at hx
      exact fun hm => hls.off_queue a x hx (hsub1 x hm)
  · intro a b hab x hx hxb
    by_cases had : a = d
    · subst had
      rw [Function.update_same] at hx
      rw [Function.update_noteq (Ne.symm hab)] at hxb
      exact hls.off_queue b x hxb (hsub x hx)
    · rw [Function.update_noteq had] at hx
      by_cases hbd : b = d
      · subst hbd
        rw [Function.update_same] at hxb
        exact hls.off_queue a x hx (hsub x hxb)
      · rw [Function.update_noteq hbd] at hxb
        exact hls.apart a b hab x hx hxb

theorem wf_wait_any (w : World) (uc : Nat) (w1 : World) (q : List Nat) (L : Nat → List Nat)
    (hls : lists_wf w q L) (hq : uc ∉ q) (hl : ∀ a, uc ∉ L a)
    (h : cproxy_wait_any_downstream w uc = .ok w1) : lists_wf w1 (q ++ [uc]) L := by
  unfold cproxy_wait_any_downstream at h
  simp only at h
  have hlast : (q ++ [uc]).getLast? = some uc := by simp
  rcases List.eq_nil_or_concat q with rfl | ⟨pre, t, hqe⟩
  · have ht : w.ptd.waiting_any_downstream_tail = none := hls.tail
    have hh : w.ptd.waiting_any_downstream_head = none := hls.queue.of_nil
    simp only [ht] at h
    cases hg : w.get_c uc with
    | none => simp [hg] at h
    | some ucc =>
      simp only [hg, ptd_set_c, ht, ptd_set_ptd, hh, if_true, Except.ok.injEq] at h
      subst h
      have hcn : ∀ a, ((w.set_c uc { ucc with next := none }).set_ptd
          { (w.set_c uc { ucc with next := none }).ptd with
            waiting_any_downstream_tail := some uc }).cnext a =
          if uc = a then some none else w.cnext a := fun a =>
        cnext_set_c w uc a _ ucc hg
      refine ⟨?_, hlast.symm, ?_, hls.dead, ?_, hls.apart⟩
      · exact IsChain.cons (by
          show (w.set_c uc { ucc with next := none }).cnext uc = some none
          rw [cnext_set_c w uc uc _ ucc hg]; simp) IsChain.nil
      · intro a h1 ha
        refine (hls.lists a h1 ha).congr fun x hx => ?_
        have hne : uc ≠ x := fun e => hl a (e ▸ hx)
        show (w.set_c uc { ucc with next := none }).cnext x = w.cnext x
        rw [cnext_set_c w uc x _ ucc hg]
        simp [hne]
      · intro a x hx hm
        simp only [List.nil_append, List.mem_singleton] at hm
        exact hl a (hm ▸ hx)
  · rw [List.concat_eq_append] at hqe
    subst hqe
    have ht : w.ptd.waiting_any_downstream_tail = some t := by
      rw [hls.tail]; simp
    have htq : t ∈ pre ++ [t] := by simp
    have hne : uc ≠ t := fun e => hq (e ▸ htq)
    obtain ⟨pt, hpt⟩ := hls.queue.live htq
    obtain ⟨tc, hgt, _⟩ := get_c_of_cnext hpt
    simp only [ht, hgt] at h
    by_cases hn : tc.next ≠ none
    · simp [hn] at h
    simp only [hn, if_false] at h
    cases hg : w.get_c uc with
    | none => simp [hg] at h
    | some ucc =>
      have hgt1 : (w.set_c uc { ucc with next := none }).get_c t = some tc := by
        rw [get_c_set_c_ne _ _ _ _ hne]; exact hgt
      have hhne : w.ptd.waiting_any_downstream_head ≠ none := by
        intro e
        have hc := hls.queue
        rw [e] at hc
        have := hc.of_none
        simp at this
      simp only [hg, ptd_set_c, ht, hgt1, ptd_set_ptd, hhne, if_false, Except.ok.injEq] at h
      subst h
      have hcn : ∀ a, ((w.set_c uc { ucc with next := none }).set_c t
          { tc with next := some uc }).cnext a =
          if t = a then some (some uc) else if uc = a then some none else w.cnext a := by
        intro a
        rw [cnext_set_c _ t a _ tc hgt1, cnext_set_c w uc a _ ucc hg]
      refine ⟨?_, hlast.symm, ?_, hls.dead, ?_, hls.apart⟩
      · refine hls.queue.snoc (fun a ha => ?_) ?_ ?_
        · have h1 : t ≠ a := by
            rintro rfl
            have := hls.queue.nodup
            rw [List.nodup_append] at this
            exact this.2.2 ha (List.mem_singleton_self _)
          have h2 : uc ≠ a := fun e => hq (e ▸ List.mem_append_left _ ha)
          show ((w.set_c uc { ucc with next := none }).set_c t
            { tc with next := some uc }).cnext a = w.cnext a
          rw [hcn]; simp [h1, h2]
        · show ((w.set_c uc { ucc with next := none }).set_c t
            { tc with next := some uc }).cnext t = some (some uc)
          rw [hcn]; simp
        · show ((w.set_c uc { ucc with next := none }).set_c t
            { tc with next := some uc }).cnext uc = some none
          rw [hcn]; simp [Ne.symm hne]
      · intro a h1 ha
        refine (hls.lists a h1 ha).congr fun x hx => ?_
        have h1 : uc ≠ x := fun e => hl a (e ▸ hx)
        have h2 : t ≠ x := fun e => hls.off_queue a x hx (e ▸ htq)
        show ((w.set_c uc { ucc with next := none }).set_c t
          { tc with next := some uc }).cnext x = w.cnext x
        rw [hcn]; simp [h1, h2]
      · intro a x hx hm
        rcases List.mem_append.1 hm with hm | hm
        · exact hls.off_queue a x hx hm
        · rw [List.mem_singleton] at hm
          exact hl a (hm ▸ hx)

theorem wf_assign_loop (env : Env) (hf : env.frame) (hp : env.propagate_wf) (da : Nat)
    (tail : Option Nat) :
    ∀ (fuel : Nat) (stop : Bool) (w : World) (r : List (Option (List Nat)) × World),
      pairing_wf w → cproxy_assign_downstream_loop env da tail fuel stop w = .ok r →
      pairing_wf r.2 := by
  intro fuel
  induction fuel with
  | zero =>
    intro stop w r hwf h
    rw [cproxy_assign_downstream_loop] at h
    split at h
    · cases h; exact hwf
    · split at h
      · cases h; exact hwf
      · cases h
  | succ fuel ih =>
    intro stop w r hwf h
    rw [cproxy_assign_downstream_loop] at h
    split at h
    · cases h; exact hwf
    · rename_i hd0 hh
      split at h
      · cases h; exact hwf
      · split at h
        · cases h
        · rename_i w1 hres
          cases h
          exact wf_reserve env hf w hwf _ _ hres
        · rename_i d w1 hres
          have k1 := wf_reserve env hf w hwf _ _ hres
          split at h
          · cases h
          · rename_i w6 hpair
            have k6 := wf_pair w1 d w6 k1 hpair
            have kp := hp w6 d k6
            split at h
            · rename_i w7 hpd
              rw [hpd] at kp
              split at h
              · cases h
              · rename_i rest w8 hl
                cases h
                exact ih _ w7 (rest, w8) kp hl
            · rename_i w7 hpd
              rw [hpd] at kp
              split at h
              · cases h
                exact kp
              · split at h
                · cases h
                · rename_i w9 hfl
                  have k9 := wf_fail env hf d w7 w9 kp hfl
                  split at h
                  · cases h
                  · rename_i rest w10 hl
                    cases h
                    exact ih _ w9 (rest, w10) k9 hl

theorem pairing_wf.of_ptd_eq {w : World} (hwf : pairing_wf w) (t : proxy_td)
    (h1 : t.downstream_reserved = w.ptd.downstream_reserved)
    (h2 : t.downstream_released = w.ptd.downstream_released)
    (hh : t.waiting_any_downstream_head = w.ptd.waiting_any_downstream_head)
    (ht : t.waiting_any_downstream_tail = w.ptd.waiting_any_downstream_tail) :
    pairing_wf (w.set_ptd t) := by
  obtain ⟨hp, q, L, hls⟩ := hwf
  exact ⟨pool_lists_congr hp h1 h2 (fun _ => rfl), q, L, hls.of_ptd t hh ht⟩

theorem wf_assign (env : Env) (hf : env.frame) (hp : env.propagate_wf) (w : World)
    (hwf : pairing_wf w) (r : List (Option (List Nat)) × World)
    (h : cproxy_assign_downstream env w = .ok r) : pairing_wf r.2 := by
  unfold cproxy_assign_downstream at h
  simp only at h
  have k : pairing_wf (w.set_ptd
      { w.ptd with downstream_assigns := w.ptd.downstream_assigns + 1 }) :=
    hwf.of_ptd_eq _ rfl rfl rfl rfl
  exact wf_assign_loop env hf hp _ _ _ _ _ r k h

theorem wf_pause (env : Env) (hf : env.frame) (hp : env.propagate_wf) (w : World) (uc : Nat)
    (w1 : World) (hwf : pairing_wf w) (hn : ∀ l, w.all_upstreams = some l → uc ∉ l)
    (h : cproxy_pause_upstream_for_downstream env w uc = .ok w1) : pairing_wf w1 := by
  obtain ⟨hpl, q, L, hls⟩ := hwf
  obtain ⟨hq, hl⟩ := hls.not_listed hn
  unfold cproxy_pause_upstream_for_downstream at h
  split at h
  · cases h
  · rename_i wa ha
    have sa : same_links w wa := by
      cases hg : w.get_c uc with
      | none =>
        rw [(conn_set_state_spec w uc _).1 hg] at ha
        cases ha
      | some cc =>
        obtain ⟨e, s⟩ := (conn_set_state_spec w uc conn_state.conn_pause).2 cc hg
        rw [e] at ha
        cases ha
        exact s
    have ka := hls.of_same_links sa
    split at h
    · cases h
    · rename_i wb hb
      have kb := wf_wait_any wa uc wb q L ka hq hl hb
      have ub := (used_frame.of_linked sa).trans_used (uf_wait_any wa uc wb hb)
      simp only at h
      split at h
      · cases h
      · rename_i wc hc
        have kc : pairing_wf wc := by
          split at hc
          · cases hs : cproxy_start_wait_queue_timeout env wb uc with
            | error f => rw [hs] at hc; cases hc
            | ok r =>
              rw [hs] at hc
              cases hc
              have e := start_timeout_eq env wb uc r hs
              show pairing_wf r.2
              rw [e]
              exact pairing_wf.of_ptd_eq ⟨ub.pool_kept hpl, _, L, kb⟩ _ rfl rfl rfl rfl
          · cases hc
            exact ⟨ub.pool_kept hpl, _, L, kb⟩
        cases hs : cproxy_assign_downstream env wc with
        | error f => rw [hs] at h; cases h
        | ok r =>
          rw [hs] at h
          cases h
          exact wf_assign env hf hp wc kc r hs

theorem pairing_step_inv (env : Env) (hf : env.frame) (hp : env.propagate_wf) (w w1 : World)
    (hwf : pairing_wf w) (hstep : pairing_step env w w1) : pairing_wf w1 := by
  cases hstep with
  | pause uc hn h => exact wf_pause env hf hp w uc w1 hwf hn h
  | assign h => exact wf_assign env hf hp w hwf _ h
  | release d force h => exact wf_release env hf w d force _ w1 hwf h
  | close_upstream c h => exact wf_close_upstream env hf w c w1 hwf h
  | timeout h => exact wf_timeout env hf w w1 hwf h

theorem pairing_reachable_inv (env : Env) (hf : env.frame) (hp : env.propagate_wf)
    (w0 w : World) (hwf : pairing_wf w0) (hreach : pairing_reachable env w0 w) :
    pairing_wf w := by
  induction hreach with
  | init => exact hwf
  | step _ hstep ih => exact pairing_step_inv env hf hp _ _ ih hstep

theorem quiet_env_propagate_wf : quiet_env.propagate_wf :=
  fun _ _ h => h

theorem waiting_world_wf : pairing_wf waiting_world :=
  ⟨⟨[], [], IsChain.nil, IsChain.nil, fun _ h => (by cases h)⟩, [0, 1, 2, 3], _,
    @lists_wf.of_walks waiting_world [0, 1, 2, 3] [] (by decide) (by decide) (by decide)
      (by decide)⟩

/-- C12.  Upstream-uniqueness invariant.  Start from a state in which the
pool lists are proper and disjoint and the wait queue and the upstream lists
of the downstreams are proper lists with no connection on two of them.
Assume the host functions only change connections and the forwarding
function keeps the pairing state well formed.  Then in every state reached
by `cproxy_pause_upstream_for_downstream` (of an upstream that is on no
list), `cproxy_assign_downstream`, `cproxy_release_downstream`,
`cproxy_on_close_upstream_conn` and `wait_queue_timeout` returning normally,
the wait queue and all the upstream lists are proper lists, and no upstream
occurs twice in their concatenation. -/
theorem upstream_uniqueness (env : Env) (hf : env.frame) (hp : env.propagate_wf)
    (w0 w : World) (hwf : pairing_wf w0) (hreach : pairing_reachable env w0 w) :
    ∃ l, w.all_upstreams = some l ∧ l.Nodup ∧ ∀ c, l.count c ≤ 1 := by
  obtain ⟨_, q, L, hls⟩ := pairing_reachable_inv env hf hp w0 w hwf hreach
  obtain ⟨h1, h2⟩ := hls.all_upstreams
  exact ⟨_, h1, h2, fun c => List.nodup_iff_count_le_one.1 h2 c⟩

/-- Witness for C12: the state reached from `waiting_world` by one
`cproxy_assign_downstream`, with two upstreams on the first downstream, one
on the second and one left on the wait queue. -/
theorem upstream_uniqueness_witness :
    quiet_env.frame ∧ quiet_env.propagate_wf ∧ pairing_wf waiting_world ∧
    pairing_reachable quiet_env waiting_world paired_world ∧
    paired_world.all_upstreams = some [3, 0, 1, 2] ∧
    ∃ l, paired_world.all_upstreams = some l ∧ l.Nodup ∧ ∀ c, l.count c ≤ 1 :=
  ⟨quiet_env_frame, quiet_env_propagate_wf, waiting_world_wf,
    pairing_reachable.step pairing_reachable.init (pairing_step.assign assign_waiting_world),
    by decide,
    upstream_uniqueness quiet_env quiet_env_frame quiet_env_propagate_wf waiting_world
      paired_world waiting_world_wf
      (pairing_reachable.step pairing_reachable.init
        (pairing_step.assign assign_waiting_world))⟩

theorem split_unique {c : Nat} :
    ∀ {pre pre1 post post1 : List Nat}, c ∉ pre → c ∉ pre1 →
      pre ++ c :: post = pre1 ++ c :: post1 → pre1 = pre ∧ post1 = post := by
  intro pre
  induction pre with
  | nil =>
    intro pre1 post post1 _ h1 he
    cases pre1 with
    | nil =>
      simp only [List.nil_append, List.cons.injEq, true_and] at he
      exact ⟨rfl, he.symm⟩
    | cons b pre1 =>
      simp only [List.nil_append, List.cons_append, List.cons.injEq] at he
      exact absurd (he.1 ▸ List.mem_cons_self _ _) h1
  | cons a pre ih =>
    intro pre1 post post1 h0 h1 he
    cases pre1 with
    | nil =>
      simp only [List.nil_append, List.cons_append, List.cons.injEq] at he
      exact absurd (he.1 ▸ List.mem_cons_self _ _) h0
    | cons b pre1 =>
      simp only [List.cons_append, List.cons.injEq] at he
      obtain ⟨e1, e2⟩ := ih (fun h => h0 (List.mem_cons_of_mem _ h))
        (fun h => h1 (List.mem_cons_of_mem _ h)) he.2
      exact ⟨by rw [e1, he.1], e2⟩

/-- C35.  The function `conn_list_remove(head, tail, c, found)` on a proper
list `xs` starting at `head` returns, and `*found` is true exactly when `c`
occurs in `xs`.  If `c` occurs, say `xs = pre ++ c :: post`: the returned
head starts the proper list `pre ++ post` (the other elements, in their
original order), `c->next` is `NULL`, and `*tail`, when the pointer is given,
becomes the last element of `pre` (the predecessor of `c`, `NULL` when `c` is
the first element, so also when it is the only one) if it was `c`, and is
unchanged otherwise; no connection outside the list is changed and every
connection keeps its contents but `next`.  If `c` does not occur, the state,
the head and `*tail` are unchanged. -/
theorem conn_list_remove_contract (w : World) (head : Option Nat)
    (tail : Option (Option Nat)) (c : Nat) (xs : List Nat)
    (hch : IsChain w.cnext head xs) :
    ∃ h1 t1 w1, conn_list_remove w head tail c = .ok (h1, t1, decide (c ∈ xs), w1) ∧
      IsChain w1.cnext h1 (xs.erase c) ∧
      xs.erase c = xs.filter (fun x => x != c) ∧
      (c ∉ xs → w1 = w ∧ h1 = head ∧ t1 = tail) ∧
      (tail = none → t1 = none) ∧
      (∀ pre post, xs = pre ++ c :: post →
        w1.cnext c = some none ∧ xs.erase c = pre ++ post ∧
        ∀ t, tail = some t → t1 = some (if t = some c then pre.getLast? else t)) ∧
      (xs = [c] → tail = some (some c) → h1 = none ∧ t1 = some none) ∧
      (∀ a, a ∉ xs → w1.get_c a = w.get_c a) ∧
      (∀ a cc, w.get_c a = some cc → ∃ n, w1.get_c a = some { cc with next := n }) := by
  have hlen := cchain_length_le hch
  have hnd := hch.nodup
  have hfil : xs.erase c = xs.filter (fun x => x != c) := List.Nodup.erase_eq_filter hnd c
  by_cases hm : c ∈ xs
  · obtain ⟨pre, post, hxs, hpre⟩ := List.eq_append_cons_of_mem hm
    subst hxs
    have hcpost : c ∉ post := by
      have := (List.nodup_append.1 hnd).2.1
      exact (List.nodup_cons.1 this).1
    have her : (pre ++ c :: post).erase c = pre ++ post := by
      rw [List.erase_append_right _ hpre, List.erase_cons_head]
    obtain ⟨w1, hrun, hc1, _, _, _, _, h6, h7, h8⟩ :=
      clr_loop_found head tail c w post pre [] w.conns.length none head
        (by simpa using hch) (by simpa using hch) rfl (by
          have : (pre ++ c :: post).length ≤ w.conns.length := hlen
          simp at this
          simp
          omega)
    simp only [List.nil_append] at hrun hc1 h6
    have huniq : ∀ pre1 post1, pre ++ c :: post = pre1 ++ c :: post1 →
        pre1 = pre ∧ post1 = post := by
      intro pre1 post1 he
      have hc1pre : c ∉ pre1 := by
        intro hmem
        rw [he] at hnd
        exact (List.nodup_append.1 hnd).2.2 hmem (List.mem_cons_self _ _)
      exact split_unique hpre hc1pre he
    refine ⟨(pre ++ post).head?, conn_list_remove_tail tail pre.getLast? c, w1, ?_, ?_, hfil,
      fun h => absurd hm h, ?_, ?_, ?_, h6, h7⟩
    · unfold conn_list_remove
      rw [hrun]
      simp [hm]
    · rw [her]; exact hc1
    · intro ht
      rw [ht]
      rfl
    · intro pre1 post1 he
      obtain ⟨e1, e2⟩ := huniq pre1 post1 he
      subst e1 e2
      refine ⟨h8, her, ?_⟩
      intro t ht
      rw [ht]
      unfold conn_list_remove_tail
      simp only
      split <;> rfl
    · intro he ht
      obtain ⟨e1, e2⟩ := huniq [] [] (by simpa using he)
      subst e1 e2
      rw [ht]
      refine ⟨rfl, ?_⟩
      unfold conn_list_remove_tail
      simp
  · have hrun := clr_loop_none head tail c w xs w.conns.length none head hch hm hlen
    refine ⟨head, tail, w, ?_, ?_, hfil, fun _ => ⟨rfl, rfl, rfl⟩, fun h => h, ?_, ?_,
      fun _ _ => rfl, fun a cc h => ⟨cc.next, h⟩⟩
    · unfold conn_list_remove
      rw [hrun]
      simp [hm]
    · rw [List.erase_of_not_mem hm]; exact hch
    · intro pre post he
      exact absurd (by rw [he]; simp) hm
    · intro he
      exact absurd (by rw [he]; simp) hm

/-- Witness for C35: the last of the four upstreams of `waiting_world` is
taken off the wait queue; the tail becomes its predecessor. -/
theorem conn_list_remove_contract_witness :
    IsChain waiting_world.cnext (some 0) [0, 1, 2, 3] ∧
    ∃ h1 t1 w1, conn_list_remove waiting_world (some 0) (some (some 3)) 3 =
        .ok (h1, t1, decide (3 ∈ [0, 1, 2, 3]), w1) ∧
      IsChain w1.cnext h1 [0, 1, 2] ∧ t1 = some (some 2) ∧ w1.cnext 3 = some none := by
  have hch : IsChain waiting_world.cnext (some 0) [0, 1, 2, 3] :=
    wait_queue_iff.1 (by decide)
  obtain ⟨h1, t1, w1, hrun, hc, _, _, _, hsp, _, _, _⟩ :=
    conn_list_remove_contract waiting_world (some 0) (some (some 3)) 3 [0, 1, 2, 3] hch
  obtain ⟨k1, _, k3⟩ := hsp [0, 1, 2] [] rfl
  exact ⟨hch, h1, t1, w1, hrun, hc, k3 (some 3) rfl, k1⟩

theorem chain_last_next {nxt : Nat → Option (Option Nat)} :
    ∀ {xs : List Nat} {h : Option Nat} {t : Nat}, IsChain nxt h xs → xs.getLast? = some t →
      nxt t = some none := by
  intro xs
  induction xs with
  | nil => intro h t _ hl; cases hl
  | cons a xs ih =>
    intro h t hc hl
    obtain ⟨p, hp, hrest⟩ := hc.tail
    cases xs with
    | nil =>
      simp only [List.getLast?_singleton, Option.some.injEq] at hl
      subst hl
      rw [hp, hrest.of_nil]
    | cons b xs =>
      rw [List.getLast?_cons_cons] at hl
      exact ih hrest hl

theorem wait_any_total (w : World) (uc : Nat) (ucc : conn) (q : List Nat)
    (hq : IsChain w.cnext w.ptd.waiting_any_downstream_head q)
    (ht : w.ptd.waiting_any_downstream_tail = q.getLast?) (hu : w.get_c uc = some ucc) :
    ∃ w1, cproxy_wait_any_downstream w uc = .ok w1 := by
  unfold cproxy_wait_any_downstream
  simp only
  cases htl : w.ptd.waiting_any_downstream_tail with
  | none =>
    simp only [hu, ptd_set_c, htl, ptd_set_ptd]
    split <;> exact ⟨_, rfl⟩
  | some t =>
    have hl : q.getLast? = some t := by rw [← ht, htl]
    have hn := chain_last_next hq hl
    obtain ⟨tc, hgt, hnx⟩ := get_c_of_cnext hn
    simp only [hgt, hnx, ne_eq, not_true_eq_false, if_false, hu, ptd_set_c, htl]
    have hlive : ∃ tc1, (w.set_c uc { ucc with next := none }).get_c t = some tc1 := by
      rw [get_c_set_c]
      split
      · exact ⟨_, rfl⟩
      · exact ⟨tc, hgt⟩
    obtain ⟨tc1, htc1⟩ := hlive
    simp only [htc1, ptd_set_ptd]
    split <;> exact ⟨_, rfl⟩

theorem queue_step_inv (env : Env) (hf : env.frame) (hp : env.propagate_wf) (w w1 : World)
    (hwf : pairing_wf w) (hstep : queue_step env w w1) : pairing_wf w1 := by
  cases hstep with
  | wait uc hn h =>
    obtain ⟨hpl, q, L, hls⟩ := hwf
    obtain ⟨hq, hl⟩ := hls.not_listed hn
    exact ⟨(uf_wait_any w uc w1 h).pool_kept hpl, _, L, wf_wait_any w uc w1 q L hls hq hl h⟩
  | assign h => exact wf_assign env hf hp w hwf _ h
  | remove c h =>
    obtain ⟨hpl, q, L, hls⟩ := hwf
    exact ⟨(uf_wait_queue_remove w c w1 h).pool_kept hpl, _, L, hls.remove_queue c w1 h⟩
  | timeout h => exact wf_timeout env hf w w1 hwf h

theorem queue_reachable_inv (env : Env) (hf : env.frame) (hp : env.propagate_wf)
    (w0 w : World) (hwf : pairing_wf w0) (hreach : queue_reachable env w0 w) :
    pairing_wf w := by
  induction hreach with
  | init => exact hwf
  | step _ hstep ih => exact queue_step_inv env hf hp _ _ ih hstep

/-- C39.  Wait-queue well-formedness.  Start from a state in which the pool
lists, the wait queue and the upstream lists are proper and pairwise disjoint
and the tail pointer designates the last element of the queue; assume the
host functions only change connections and the forwarding function keeps the
pairing state well formed.  In every state reached by
`cproxy_wait_any_downstream` (of an upstream that is on no list),
`cproxy_assign_downstream`, `conn_list_remove` on the wait queue and
`wait_queue_timeout` returning normally, the wait queue is a proper list `q`,
`waiting_any_downstream_tail` is `NULL` exactly when
`waiting_any_downstream_head` is, and otherwise the tail is the last element
of `q` and its `next` is `NULL`.  In such a state
`cproxy_wait_any_downstream(ptd, uc)`, for a connection `uc` that is on no
list, returns and turns the queue `q` into `q` followed by `uc`, with `uc` as
the new tail. -/
theorem wait_queue_wf (env : Env) (hf : env.frame) (hp : env.propagate_wf)
    (w0 w : World) (hwf : pairing_wf w0) (hreach : queue_reachable env w0 w) :
    ∃ q, w.wait_queue = some q ∧
      (w.ptd.waiting_any_downstream_tail = none ↔ w.ptd.waiting_any_downstream_head = none) ∧
      (∀ t, w.ptd.waiting_any_downstream_tail = some t →
        q.getLast? = some t ∧ w.cnext t = some none) ∧
      ∀ uc, w.get_c uc ≠ none → (∀ l, w.all_upstreams = some l → uc ∉ l) →
        ∃ w1, cproxy_wait_any_downstream w uc = .ok w1 ∧
          w1.wait_queue = some (q ++ [uc]) ∧
          w1.ptd.waiting_any_downstream_tail = some uc ∧ w1.cnext uc = some none := by
  obtain ⟨_, q, L, hls⟩ := queue_reachable_inv env hf hp w0 w hwf hreach
  refine ⟨q, wait_queue_iff.2 hls.queue, ?_, ?_, ?_⟩
  · rw [hls.tail, hls.queue.head]
    cases q with
    | nil => simp
    | cons a q => simp
  · intro t ht
    have hl : q.getLast? = some t := by rw [← hls.tail, ht]
    exact ⟨hl, chain_last_next hls.queue hl⟩
  · intro uc hlive hn
    cases hu : w.get_c uc with
    | none => exact absurd hu hlive
    | some ucc =>
      obtain ⟨w1, h1⟩ := wait_any_total w uc ucc q hls.queue hls.tail hu
      obtain ⟨hq, hl⟩ := hls.not_listed hn
      have k := wf_wait_any w uc w1 q L hls hq hl h1
      have ht1 : w1.ptd.waiting_any_downstream_tail = some uc := by
        rw [k.tail]; simp
      exact ⟨w1, h1, wait_queue_iff.2 k.queue, ht1,
        chain_last_next k.queue (by simp)⟩

/-- Witness for C39: the state reached from `waiting_world` by one
`cproxy_assign_downstream`; the upstream 3 is left alone on the queue. -/
theorem wait_queue_wf_witness :
    quiet_env.frame ∧ quiet_env.propagate_wf ∧ pairing_wf waiting_world ∧
    queue_reachable quiet_env waiting_world paired_world ∧
    paired_world.wait_queue = some [3] ∧
    ∃ q, paired_world.wait_queue = some q ∧
      (paired_world.ptd.waiting_any_downstream_tail = none ↔
        paired_world.ptd.waiting_any_downstream_head = none) ∧
      (∀ t, paired_world.ptd.waiting_any_downstream_tail = some t →
        q.getLast? = some t ∧ paired_world.cnext t = some none) ∧
      ∀ uc, paired_world.get_c uc ≠ none →
        (∀ l, paired_world.all_upstreams = some l → uc ∉ l) →
        ∃ w1, cproxy_wait_any_downstream paired_world uc = .ok w1 ∧
          w1.wait_queue = some (q ++ [uc]) ∧
          w1.ptd.waiting_any_downstream_tail = some uc ∧ w1.cnext uc = some none :=
  ⟨quiet_env_frame, quiet_env_propagate_wf, waiting_world_wf,
    queue_reachable.step queue_reachable.init (queue_step.assign assign_waiting_world),
    by decide,
    wait_queue_wf quiet_env quiet_env_frame quiet_env_propagate_wf waiting_world
      paired_world waiting_world_wf
      (queue_reachable.step queue_reachable.init (queue_step.assign assign_waiting_world))⟩

theorem account_step.to_pool {env : Env} {w w1 : World} (h : account_step env w w1) :
    pool_step env w w1 := by
  cases h with
  | add h => exact pool_step.add h
  | reserve h => exact pool_step.reserve h
  | release d force h => exact pool_step.release d force h
  | free d h => exact pool_step.free d h
  | config c v b => exact pool_step.config c v b
  | use h _ _ => exact pool_step.use h

theorem account_step_inv (env : Env) (hf : env.frame) (w w1 : World) (rs ls : List Nat)
    (hwf : pool_wf w rs ls)
    (hacc : w.ptd.downstream_num =
      (w.ptd.downstream_tot : Int) - (w.ptd.stats.tot_downstream_freed : Int))
    (hstep : account_step env w w1) :
    w1.ptd.downstream_num =
      (w1.ptd.downstream_tot : Int) - (w1.ptd.stats.tot_downstream_freed : Int) ∧
    w.ptd.downstream_tot ≤ w1.ptd.downstream_tot := by
  obtain ⟨hr, hl, hdis, hlive⟩ := hwf
  cases hstep with
  | add hadd =>
    obtain ⟨w2, h2, hcases⟩ := add_spec env hf w rs ls hr hl hdis
    rw [hadd] at h2
    cases h2
    rcases hcases with ⟨_, rfl⟩ | ⟨_, _, rfl⟩ | ⟨_, _, rfl⟩ | ⟨_, ha⟩
    · exact ⟨hacc, le_refl _⟩
    · exact ⟨hacc, le_refl _⟩
    · exact ⟨hacc, le_refl _⟩
    · obtain ⟨n, hp⟩ := ha.ptd
      rw [hp]
      simp only
      constructor
      · rw [hacc]; push_cast; omega
      · omega
  | reserve hres =>
    obtain ⟨p1, _⟩ := reserve_spec env hf w rs ls hr hl hdis
    rcases p1 _ _ hres with ⟨d, stale, rest, fresh, _, hs⟩ | ⟨_, hn⟩
    · obtain ⟨r, l, st, hp, _, hfr⟩ := hs.ptd
      rw [hp]
      simp only
      rw [hfr]
      constructor
      · rw [hacc]
        cases fresh <;> simp <;> omega
      · omega
    · obtain ⟨r, st, hp, _, hfr⟩ := hn.ptd
      rw [hp]
      simp only
      rw [hfr]
      constructor
      · rw [hacc]; push_cast; omega
      · exact le_refl _
  | release d force hrel =>
    rename_i b
    obtain ⟨dd, hd⟩ := release_live env w d force b w1 hrel
    obtain ⟨p1, _⟩ := release_spec env hf w d dd rs ls force hr hl hdis hd
    obtain ⟨_, ht, hfl⟩ := p1 b w1 hrel
    cases b with
    | true =>
      obtain ⟨r, n, hp⟩ := (ht rfl).ptd
      rw [hp]
      exact ⟨hacc, le_refl _⟩
    | false =>
      obtain ⟨r, l, n, hp⟩ := (hfl rfl).ptd
      rw [hp]
      simp only
      constructor
      · rw [hacc]; push_cast; omega
      · exact le_refl _
  | free d hfree =>
    obtain ⟨_, hfd⟩ := free_partial w d rs ls hr hl hdis w1 hfree
    obtain ⟨r, l, hp⟩ := hfd.ptd
    rw [hp]
    simp only
    constructor
    · rw [hacc]; push_cast; omega
    · exact le_refl _
  | config c v b => exact ⟨hacc, le_refl _⟩
  | use hu h1 h2 =>
    rw [h1, h2, hu.2.2.2.1]
    exact ⟨hacc, le_refl _⟩

theorem account_reachable_inv (env : Env) (hf : env.frame) (w0 w : World) (rs0 ls0 : List Nat)
    (hwf : pool_wf w0 rs0 ls0)
    (hnum : w0.ptd.downstream_num = (rs0.length + ls0.length : Nat))
    (hacc : w0.ptd.downstream_num =
      (w0.ptd.downstream_tot : Int) - (w0.ptd.stats.tot_downstream_freed : Int))
    (hreach : account_reachable env w0 w) :
    (∃ rs ls, pool_wf w rs ls ∧ w.ptd.downstream_num = (rs.length + ls.length : Nat)) ∧
    w.ptd.downstream_num =
      (w.ptd.downstream_tot : Int) - (w.ptd.stats.tot_downstream_freed : Int) ∧
    w0.ptd.downstream_tot ≤ w.ptd.downstream_tot := by
  induction hreach with
  | init => exact ⟨⟨rs0, ls0, hwf, hnum⟩, hacc, le_refl _⟩
  | step _ hs ih =>
    obtain ⟨⟨rs, ls, h1, h2⟩, h3, h4⟩ := ih
    obtain ⟨rs1, ls1, g1, g2, _, _⟩ := pool_step_inv env hf _ _ rs ls h1 h2 hs.to_pool
    obtain ⟨a1, a2⟩ := account_step_inv env hf _ _ rs ls h1 h3 hs
    exact ⟨⟨rs1, ls1, g1, g2⟩, a1, le_trans h4 a2⟩

theorem cproxy_create_counters (name : String) (port : Int) (config : Option String)
    (config_ver : Nat) (behavior : proxy_behavior) (w0 : World)
    (hc : cproxy_create name port config config_ver behavior = .ok w0) :
    w0.ptd.downstream_tot = 0 ∧ w0.ptd.stats.tot_downstream_freed = 0 := by
  unfold cproxy_create at hc
  by_cases h1 : port ≤ 0
  · simp [h1] at hc
  · by_cases h2 : config.isNone = true
    · simp [h1, h2] at hc
    · rw [if_neg h1, if_neg h2] at hc
      simp only [Except.ok.injEq] at hc
      subst hc
      exact ⟨rfl, rfl⟩

/-- C40.  Creation and free accounting.  In every state `w` reached from
`cproxy_create` by the pool operations (`cproxy_add_downstream`,
`cproxy_reserve_downstream`, `cproxy_release_downstream`,
`cproxy_free_downstream`), changes of the configuration and code that leaves
the counters alone (no `cproxy_reset_stats`), when the host functions only
change connections: `downstream_num` equals `downstream_tot` minus
`tot_downstream_freed`, `downstream_num` is not negative, and in every state
`w1` reached later `downstream_tot` is at least what it was in `w`. -/
theorem creation_free_accounting (env : Env) (hf : env.frame) (name : String) (port : Int)
    (config : Option String) (config_ver : Nat) (behavior : proxy_behavior) (w0 w w1 : World)
    (hc : cproxy_create name port config config_ver behavior = .ok w0)
    (hreach : account_reachable env w0 w) (hlater : account_reachable env w w1) :
    w.ptd.downstream_num =
      (w.ptd.downstream_tot : Int) - (w.ptd.stats.tot_downstream_freed : Int) ∧
    0 ≤ w.ptd.downstream_num ∧ w.ptd.downstream_tot ≤ w1.ptd.downstream_tot := by
  obtain ⟨hwf, hn0, _⟩ := cproxy_create_pool name port config config_ver behavior w0 hc
  obtain ⟨ht0, hf0⟩ := cproxy_create_counters name port config config_ver behavior w0 hc
  obtain ⟨⟨rs, ls, g1, g2⟩, g3, _⟩ := account_reachable_inv env hf w0 w [] [] hwf
    (by rw [hn0]; rfl) (by rw [hn0, ht0, hf0]; rfl) hreach
  obtain ⟨_, _, k3⟩ := account_reachable_inv env hf w w1 rs ls g1 g2 g3 hlater
  exact ⟨g3, by rw [g2]; exact Int.natCast_nonneg _, k3⟩

/-- Witness for C40: after `cproxy_create`, one `cproxy_add_downstream` and
then one `cproxy_reserve_downstream`. -/
theorem creation_free_accounting_witness :
    quiet_env.frame ∧
    cproxy_create "moxi" 11211 (some "a:11211") 1 { nthreads := 4, downstream_max := 2 } =
      .ok created_world ∧
    account_reachable quiet_env created_world one_released_world ∧
    account_reachable quiet_env one_released_world one_reserved_world ∧
    one_released_world.ptd.downstream_num =
      (one_released_world.ptd.downstream_tot : Int) -
        (one_released_world.ptd.stats.tot_downstream_freed : Int) ∧
    0 ≤ one_released_world.ptd.downstream_num ∧
    one_released_world.ptd.downstream_tot ≤ one_reserved_world.ptd.downstream_tot :=
  ⟨quiet_env_frame, created_world_eq,
    account_reachable.step account_reachable.init (account_step.add add_created_world),
    account_reachable.step account_reachable.init
      (account_step.reserve reserve_one_released_world),
    creation_free_accounting quiet_env quiet_env_frame "moxi" 11211 (some "a:11211") 1
      { nthreads := 4, downstream_max := 2 } created_world one_released_world
      one_reserved_world created_world_eq
      (account_reachable.step account_reachable.init (account_step.add add_created_world))
      (account_reachable.step account_reachable.init
        (account_step.reserve reserve_one_released_world))⟩

set_option maxRecDepth 100000 in
theorem early_timeout_run :
    (wait_queue_timeout early_env timer_world).map
      (fun w => (w.wait_queue, (w.get_c 0).map (fun x => (x.cmd_start_time, x.out)))) =
      .ok (some [], some (0, ["END"])) := by
  decide

set_option maxRecDepth 100000 in
theorem fraction_timeout_run :
    (wait_queue_timeout clock_env fraction_world).map
      (fun w => (w.wait_queue, (w.get_c 0).map (fun x => (x.cmd_start_time, x.out)))) =
      .ok (some [], some (9, ["END"])) := by
  decide

/-- C38 (failing input).  With a wait-queue timeout of 5 seconds and the
clock at 3 seconds, the cutoff `current_time - wqt_sec` of
`wait_queue_timeout` wraps around to `2^32 - 2`: the upstream 0 of
`timer_world`, which arrived at time 0 and has waited 3 seconds, is taken off
the queue and gets an error line, and so are the others.  With a timeout of
1.5 seconds the value `wqt_sec` is 1: at time 10 the upstreams of
`fraction_world`, which arrived at time 9 and have waited 1 second, are timed
out as well.  When the timeout has no microsecond part and is at most the
clock, which is below `2^32`, an upstream that has waited less than the
timeout does not pass the test `cmd_start_time <= current_time - wqt_sec`. -/
theorem wait_queue_timeout_premature :
    (wqt_sec timer_world.proxy.behavior.wait_queue_timeout = 5 ∧
      early_env.current_time = 3 ∧
      (early_env.current_time % 2 ^ 32 + 2 ^ 32 -
        wqt_sec timer_world.proxy.behavior.wait_queue_timeout) % 2 ^ 32 = 2 ^ 32 - 2 ∧
      (timer_world.get_c 0).map (fun x => (x.cmd_start_time, x.out)) = some (0, []) ∧
      timer_world.wait_queue = some [0, 1, 2, 3] ∧
      (wait_queue_timeout early_env timer_world).map
        (fun w => (w.wait_queue, (w.get_c 0).map (fun x => (x.cmd_start_time, x.out)))) =
        .ok (some [], some (0, ["END"]))) ∧
    (wqt_sec fraction_world.proxy.behavior.wait_queue_timeout = 1 ∧
      clock_env.current_time = 10 ∧
      (fraction_world.get_c 0).map (fun x => (x.cmd_start_time, x.out)) = some (9, []) ∧
      (wait_queue_timeout clock_env fraction_world).map
        (fun w => (w.wait_queue, (w.get_c 0).map (fun x => (x.cmd_start_time, x.out)))) =
        .ok (some [], some (9, ["END"]))) ∧
    (∀ s : Nat, s < 2 ^ 32 → wqt_sec { tv_sec := s, tv_usec := 0 } = s) ∧
    ∀ (ct : Nat) (wqt : timeval) (cst : Nat), wqt_sec wqt ≤ ct → ct < 2 ^ 32 → cst ≤ ct →
      ct - cst < wqt_sec wqt → ¬ cst ≤ (ct % 2 ^ 32 + 2 ^ 32 - wqt_sec wqt) % 2 ^ 32 := by
  refine ⟨⟨by decide, rfl, by decide, by decide, by decide, early_timeout_run⟩,
    ⟨by decide, rfl, by decide, fraction_timeout_run⟩, ?_, ?_⟩
  · intro s hs
    unfold wqt_sec
    simp only [Int.add_zero]
    rw [Int.mul_tdiv_cancel _ (by decide)]
    have h1 : ((s : Int) % 2 ^ 32).toNat = s := by
      have : (s : Int) % 2 ^ 32 = s := Int.emod_eq_of_lt (by omega) (by exact_mod_cast hs)
      rw [this]
      rfl
    exact h1
  · intro ct wqt cst h1 h2 h3 h4
    have e : (ct % 2 ^ 32 + 2 ^ 32 - wqt_sec wqt) % 2 ^ 32 = ct - wqt_sec wqt := by
      rw [Nat.mod_eq_of_lt h2]
      have : ct + 2 ^ 32 - wqt_sec wqt = (ct - wqt_sec wqt) + 2 ^ 32 := by omega
      rw [this, Nat.add_mod_right]
      exact Nat.mod_eq_of_lt (by omega)
    rw [e]
    omega

theorem takeWhile_space_free (cur rest : List Char) (hc : ∀ ch, ch ∈ cur → ch ≠ ' ') :
    (cur ++ ' ' :: rest).takeWhile (fun ch => ch ≠ ' ') = cur ∧
    (cur ++ ' ' :: rest).dropWhile (fun ch => ch ≠ ' ') = ' ' :: rest ∧
    cur.takeWhile (fun ch => ch ≠ ' ') = cur ∧ cur.dropWhile (fun ch => ch ≠ ' ') = [] := by
  induction cur with
  | nil => simp
  | cons a cur ih =>
    have ha : a ≠ ' ' := hc a (List.mem_cons_self _ _)
    obtain ⟨h1, h2, h3, h4⟩ := ih fun ch h => hc ch (List.mem_cons_of_mem _ h)
    simp only [List.cons_append, List.takeWhile_cons, List.dropWhile_cons, ne_eq, ha,
      not_false_eq_true, decide_True, if_true]
    refine ⟨by rw [h1], h2, by rw [h3], h4⟩

theorem reference_space (cur rest : List Char) (hc : ∀ ch, ch ∈ cur → ch ≠ ' ') :
    scan_tokens_reference (cur ++ ' ' :: rest) =
      (if cur ≠ [] then [cur] else []) ++ scan_tokens_reference rest := by
  obtain ⟨h1, h2, _, _⟩ := takeWhile_space_free cur rest hc
  unfold scan_tokens_reference
  rw [split_keys_step (cur ++ ' ' :: rest), h1, h2]

theorem reference_word (cur : List Char) (hc : ∀ ch, ch ∈ cur → ch ≠ ' ') :
    scan_tokens_reference cur = if cur ≠ [] then [cur] else [] := by
  obtain ⟨_, _, h3, h4⟩ := takeWhile_space_free cur [] hc
  unfold scan_tokens_reference
  rw [split_keys_step cur, h3, h4]
  simp

theorem slice_store (pre cur rest : List Char) :
    token_t.slice (pre ++ cur ++ rest)
      { value := some pre.length, length := pre.length + cur.length - pre.length } = cur := by
  unfold token_t.slice
  simp only
  rw [List.append_assoc, List.drop_left, Nat.add_sub_cancel_left, List.take_left]

theorem map_store (command pre cur rest : List Char) (toks : List token_t)
    (hcmd : command = pre ++ cur ++ rest) :
    (if pre.length ≠ pre.length + cur.length then
        toks ++ [({ value := some pre.length,
                    length := pre.length + cur.length - pre.length } : token_t)]
      else toks).map (token_t.slice command) =
      toks.map (token_t.slice command) ++ (if cur ≠ [] then [cur] else []) := by
  by_cases hc : cur = []
  · subst hc
    simp
  · have hl : pre.length ≠ pre.length + cur.length := by
      have := List.length_pos.2 hc
      omega
    rw [if_pos hl, if_pos hc, List.map_append, List.map_singleton, hcmd, slice_store]

theorem scan_loop_reference (command : List Char) (max_tokens : Nat) :
    ∀ (rest pre cur : List Char) (toks : List token_t),
      command = pre ++ cur ++ rest → (∀ ch, ch ∈ cur → ch ≠ ' ') →
      (toks.length < max_tokens - 1 ∨ (toks.length = max_tokens - 1 ∧ cur = [])) →
      (∀ t, t ∈ toks → t.value ≠ none ∧ 0 < t.length) →
      ∀ r term,
        scan_tokens_loop max_tokens rest pre.length (pre.length + cur.length) toks = (r, term) →
        r.map (token_t.slice command) =
          (toks.map (token_t.slice command) ++ scan_tokens_reference (cur ++ rest)).take
            (max_tokens - 1) ∧
        (toks.length + (scan_tokens_reference (cur ++ rest)).length < max_tokens - 1 →
          term = none) ∧
        (∀ t, t ∈ r → t.value ≠ none ∧ 0 < t.length) := by
  intro rest
  induction rest with
  | nil =>
    intro pre cur toks hcmd hcur hlen htok r term h
    unfold scan_tokens_loop at h
    rw [List.append_nil, reference_word cur hcur]
    split at h
    · rename_i hl
      simp only [Prod.mk.injEq] at h
      obtain ⟨h1, h2⟩ := h
      subst h1 h2
      rw [map_store command pre cur [] toks hcmd]
      refine ⟨?_, fun _ => rfl, ?_⟩
      · rw [List.take_of_length_le]
        rw [List.length_append, List.length_map]
        split <;> simp <;> omega
      · intro t ht
        split at ht
        · rcases List.mem_append.1 ht with ht | ht
          · exact htok t ht
          · rw [List.mem_singleton] at ht
            subst ht
            rename_i hne
            exact ⟨by simp, by simp only; omega⟩
        · exact htok t ht
    · rename_i hl
      simp only [Prod.mk.injEq] at h
      obtain ⟨h1, h2⟩ := h
      subst h1 h2
      have hc : cur = [] := by
        rcases hlen with h | h
        · exact absurd h hl
        · exact h.2
      have hlt : toks.length = max_tokens - 1 := by
        rcases hlen with h | h
        · exact absurd h hl
        · exact h.1
      subst hc
      refine ⟨?_, fun _ => rfl, htok⟩
      simp only [ne_eq, not_true_eq_false, if_false, List.append_nil]
      rw [List.take_of_length_le (by rw [List.length_map]; omega)]
  | cons ch rest ih =>
    intro pre cur toks hcmd hcur hlen htok r term h
    unfold scan_tokens_loop at h
    split at h
    · rename_i hl
      split at h
      · rename_i hsp
        subst hsp
        have hpre : (pre ++ cur ++ [' ']).length = pre.length + cur.length + 1 := by
          simp only [List.length_append, List.length_singleton]
        have key := ih (pre ++ cur ++ [' ']) []
          (if pre.length ≠ pre.length + cur.length then
            toks ++ [({ value := some pre.length,
                        length := pre.length + cur.length - pre.length } : token_t)]
          else toks)
          (by rw [hcmd]; simp) (fun ch hch => (by cases hch))
          (by
            split
            · rw [List.length_append, List.length_singleton]
              by_cases h1 : toks.length + 1 < max_tokens - 1
              · exact Or.inl h1
              · exact Or.inr ⟨by omega, rfl⟩
            · exact Or.inl hl)
          (by
            intro t ht
            split at ht
            · rcases List.mem_append.1 ht with ht | ht
              · exact htok t ht
              · rw [List.mem_singleton] at ht
                subst ht
                exact ⟨by simp, by simp only; omega⟩
            · exact htok t ht)
          r term (by rw [hpre, List.length_nil, Nat.add_zero]; exact h)
        obtain ⟨k1, k2, k3⟩ := key
        rw [map_store command pre cur (' ' :: rest) toks hcmd, List.nil_append,
          List.append_assoc] at k1
        rw [reference_space cur rest hcur]
        refine ⟨k1, ?_, k3⟩
        intro hlt
        apply k2
        rw [List.nil_append]
        have e := congrArg List.length (map_store command pre cur (' ' :: rest) toks hcmd)
        rw [List.length_map, List.length_append, List.length_map] at e
        rw [e]
        rw [List.length_append] at hlt
        omega
      · rename_i hsp
        have key := ih pre (cur ++ [ch]) toks (by rw [hcmd]; simp)
          (by
            intro c hc
            rcases List.mem_append.1 hc with hc | hc
            · exact hcur c hc
            · rw [List.mem_singleton] at hc
              subst hc
              exact hsp)
          (Or.inl hl) htok r term
          (by rw [List.length_append, List.length_singleton, ← Nat.add_assoc]; exact h)
        rw [List.append_assoc, List.singleton_append] at key
        exact key
    · rename_i hl
      simp only [Prod.mk.injEq] at h
      obtain ⟨h1, h2⟩ := h
      subst h1 h2
      have hlt : toks.length = max_tokens - 1 := by
        rcases hlen with h | h
        · exact absurd h hl
        · exact h.1
      refine ⟨?_, ?_, htok⟩
      · rw [List.take_append_of_le_length (by rw [List.length_map]; omega),
          List.take_of_length_le (by rw [List.length_map]; omega)]
      · intro hlt2
        omega

/-- C37.  The function `scan_tokens` against the reference split.  For every
command string and every `max_tokens > 1` the call returns; the tokens before
the terminal one designate, in order, the first `min(k, max_tokens - 1)`
strings of the reference split of the command (its maximal space-free
non-empty substrings), where `k` is the number of these strings; each has a
non-`NULL` pointer and a length above 0, so runs of spaces and leading or
trailing spaces give no empty token; and when `k < max_tokens - 1` the
returned count is `k + 1` and the terminal value is `NULL`. -/
theorem scan_tokens_refines (command : List Char) (max_tokens : Nat) (hm : 1 < max_tokens) :
    ∃ toks term, scan_tokens command max_tokens = .ok (toks ++ [{ value := term, length := 0 }]) ∧
      toks.map (token_t.slice command) =
        (scan_tokens_reference command).take (max_tokens - 1) ∧
      toks.length = min (scan_tokens_reference command).length (max_tokens - 1) ∧
      (∀ t, t ∈ toks → t.value ≠ none ∧ 0 < t.length ∧ token_t.slice command t ≠ []) ∧
      ((scan_tokens_reference command).length < max_tokens - 1 →
        (toks ++ [({ value := term, length := 0 } : token_t)]).length =
          (scan_tokens_reference command).length + 1 ∧ term = none) := by
  cases hl : scan_tokens_loop max_tokens command 0 0 [] with
  | mk toks term =>
    obtain ⟨k1, k2, k3⟩ := scan_loop_reference command max_tokens command [] [] []
      (by simp) (fun ch h => (by cases h)) (Or.inl (by simp; omega))
      (fun t h => (by cases h)) toks term hl
    simp only [List.map_nil, List.nil_append, List.length_nil, Nat.zero_add] at k1 k2
    have hlen : toks.length = min (scan_tokens_reference command).length (max_tokens - 1) := by
      have := congrArg List.length k1
      rw [List.length_map, List.length_take] at this
      rw [this, Nat.min_comm]
    refine ⟨toks, term, ?_, k1, hlen, ?_, ?_⟩
    · unfold scan_tokens
      rw [if_neg (by omega), hl]
    · intro t ht
      obtain ⟨a1, a2⟩ := k3 t ht
      refine ⟨a1, a2, ?_⟩
      have hm1 : token_t.slice command t ∈ (scan_tokens_reference command).take
          (max_tokens - 1) := by
        rw [← k1]
        exact List.mem_map_of_mem _ ht
      have hm2 := List.mem_of_mem_take hm1
      unfold scan_tokens_reference at hm2
      have := (List.mem_filter.1 hm2).2
      simpa using this
    · intro hk
      refine ⟨?_, k2 hk⟩
      rw [List.length_append, List.length_singleton, hlen]
      omega

/-- Witness for C37: a command with leading, doubled and trailing spaces. -/
theorem scan_tokens_refines_witness :
    1 < MAX_TOKENS ∧
    scan_tokens_reference "  get  a b ".toList = ["get".toList, "a".toList, "b".toList] ∧
    ∃ toks term, scan_tokens "  get  a b ".toList MAX_TOKENS =
        .ok (toks ++ [{ value := term, length := 0 }]) ∧
      toks.map (token_t.slice "  get  a b ".toList) =
        (scan_tokens_reference "  get  a b ".toList).take (MAX_TOKENS - 1) ∧
      toks.length = min (scan_tokens_reference "  get  a b ".toList).length (MAX_TOKENS - 1) ∧
      (∀ t, t ∈ toks → t.value ≠ none ∧ 0 < t.length ∧
        token_t.slice "  get  a b ".toList t ≠ []) ∧
      ((scan_tokens_reference "  get  a b ".toList).length < MAX_TOKENS - 1 →
        (toks ++ [({ value := term, length := 0 } : token_t)]).length =
          (scan_tokens_reference "  get  a b ".toList).length + 1 ∧ term = none) :=
  ⟨by decide, by decide, scan_tokens_refines "  get  a b ".toList MAX_TOKENS (by decide)⟩

theorem fill_token_total (spec : A2BSpec) (i : Nat) (command : List Char) (toks : List token_t)
    (r : a2b_request) (h1 : spec.ntokens > 1) (ht : spec.tag i ≠ none) (h2 : i > 0)
    (h3 : i < toks.length) (h4 : i < spec.ntokens) (hv : (toks.getD i {}).value ≠ none) :
    ∃ b r1, a2b_fill_request_token spec i command toks r = .ok (b, r1) ∧
      (b = false ↔ (spec.tag i = some 'x' ∨ spec.tag i = some 'a' ∨
        (spec.tag i = some 'v' ∧
          ∃ s, (toks.getD i {}).str command = some s ∧ safe_strtoull s = none))) := by
  unfold A2BSpec.tag at ht ⊢
  cases hst : (spec.tokens.getD i {}).str spec.line with
  | none => rw [hst] at ht; exact absurd rfl ht
  | some st =>
    unfold a2b_fill_request_token
    simp only [h1, not_true_eq_false, if_false, hst, h2, h3, h4]
    cases hs : (toks.getD i {}).str command with
    | none =>
      unfold token_t.str at hs
      cases hvv : (toks.getD i {}).value with
      | none => exact absurd hvv hv
      | some a => rw [hvv] at hs; cases hs
    | some s =>
      split
      · rename_i hk
        exact ⟨_, _, rfl, by simp [hk]⟩
      · rename_i hk
        cases hd : safe_strtoull s with
        | none =>
          simp only [hd]
          exact ⟨_, _, rfl, by simp [hk, hd]⟩
        | some delta =>
          simp only [hd]
          exact ⟨_, _, rfl, by simp [hk, hd]⟩
      · rename_i hk
        exact ⟨_, _, rfl, by simp [hk]⟩
      · rename_i hk
        exact ⟨_, _, rfl, by simp [hk]⟩
      · rename_i k1 k2 k3 k4
        refine ⟨_, _, rfl, ?_⟩
        constructor
        · intro h
          cases h
        · rintro (h | h | ⟨h, _⟩)
          · exact absurd h k3
          · exact absurd h k4
          · exact absurd h k2

theorem fill_loop_total (spec : A2BSpec) (command : List Char) (toks : List token_t)
    (h1 : spec.ntokens > 1) :
    ∀ (n i : Nat) (r : a2b_request), 0 < i → i + n ≤ toks.length → i + n ≤ spec.ntokens →
      (∀ j, i ≤ j → j < i + n → spec.tag j ≠ none) →
      (∀ j, i ≤ j → j < i + n → (toks.getD j {}).value ≠ none) →
      ∃ b r1, a2b_fill_request_loop spec command toks n i r = .ok (b, r1) ∧
        (b = false ↔ ∃ j, i ≤ j ∧ j < i + n ∧
          (spec.tag j = some 'x' ∨ spec.tag j = some 'a' ∨
            (spec.tag j = some 'v' ∧
              ∃ s, (toks.getD j {}).str command = some s ∧ safe_strtoull s = none))) := by
  intro n
  induction n with
  | zero =>
    intro i r _ _ _ _ _
    refine ⟨true, r, by rw [a2b_fill_request_loop], ?_⟩
    constructor
    · intro h
      cases h
    · rintro ⟨j, a, b, _⟩
      omega
  | succ n ih =>
    intro i r hi hl hs htag hval
    obtain ⟨b, r1, e, hb⟩ := fill_token_total spec i command toks r h1
      (htag i (Nat.le_refl _) (by omega)) hi (by omega) (by omega)
      (hval i (Nat.le_refl _) (by omega))
    rw [a2b_fill_request_loop, e]
    cases b with
    | false =>
      exact ⟨false, r1, rfl, ⟨fun _ => ⟨i, Nat.le_refl _, by omega, hb.1 rfl⟩, fun _ => rfl⟩⟩
    | true =>
      obtain ⟨b2, r2, e2, hb2⟩ := ih (i + 1) r1 (by omega) (by omega) (by omega)
        (fun j a b => htag j (by omega) (by omega)) (fun j a b => hval j (by omega) (by omega))
      refine ⟨b2, r2, e2, ?_⟩
      rw [hb2]
      constructor
      · rintro ⟨j, a, b, c⟩
        exact ⟨j, by omega, by omega, c⟩
      · rintro ⟨j, a, b, c⟩
        by_cases hji : j = i
        · subst hji
          have := hb.2 c
          cases this
        · exact ⟨j, by omega, by omega, c⟩

theorem a2b_ready_slots :
    ∀ e ∈ a2b_ready.a2b_spec_map.getD [],
      1 < e.2.ntokens ∧ 0 < e.2.size ∧ e.2.num_optional < e.2.ntokens - 1 ∧
      (∀ j < e.2.ntokens - 1, e.2.tag j ≠ none) := by
  decide

theorem a2b_ready_rejecting :
    ∀ e ∈ a2b_ready.a2b_spec_map.getD [],
      (e.1 = "flush_all".toList → e.2.tag 1 = some 'x') ∧
      (e.1 = "stats".toList → e.2.tag 1 = some 'a') ∧
      (e.1 = "incr".toList ∨ e.1 = "decr".toList →
        e.2.ntokens = 5 ∧ e.2.num_optional = 1 ∧ e.2.tag 1 = some 'k' ∧
        e.2.tag 2 = some 'v' ∧ e.2.tag 3 = some 'n') := by
  decide

theorem a2b_ready_accepting :
    ∀ e ∈ a2b_ready.a2b_spec_map.getD [],
      e.1 ∉ ["flush_all".toList, "stats".toList, "incr".toList, "decr".toList] →
        ∀ j < e.2.ntokens - 1, 0 < j →
          e.2.tag j ∉ [some 'x', some 'a', some 'v'] := by
  decide

theorem a2b_ready_verbs :
    a2b_ready.a2b_spec_map = some (a2b_ready.a2b_spec_map.getD []) ∧
    (a2b_ready.a2b_spec_map.getD []).map (fun e => e.1) =
      ["stats".toList, "gets".toList, "get".toList, "flush_all".toList, "decr".toList,
        "incr".toList, "delete".toList, "cas".toList, "prepend".toList, "append".toList,
        "replace".toList, "add".toList, "set".toList] := by
  decide

theorem skey_lookup_none {α : Type} (m : List (List Char × α)) (k : List Char) :
    skey_lookup m k = none ↔ k ∉ m.map (fun e => e.1) := by
  unfold skey_lookup
  rw [Option.map_eq_none', List.find?_eq_none]
  simp only [decide_eq_true_eq, List.mem_map, not_exists, not_and]

theorem verbs_distinct :
    "flush_all".toList ≠ "stats".toList ∧ "flush_all".toList ≠ "incr".toList ∧
    "flush_all".toList ≠ "decr".toList ∧ "stats".toList ≠ "incr".toList ∧
    "stats".toList ≠ "decr".toList := by
  decide

theorem reject_slots (spec : A2BSpec) (k command : List Char) (toks : List token_t)
    (hmem : (k, spec) ∈ a2b_ready.a2b_spec_map.getD [])
    (hlo : toks.length ≥ spec.ntokens - spec.num_optional) (hhi : toks.length ≤ spec.ntokens) :
    (∃ j, 1 ≤ j ∧ j < 1 + (toks.length - 2) ∧
      (spec.tag j = some 'x' ∨ spec.tag j = some 'a' ∨
        (spec.tag j = some 'v' ∧
          ∃ s, (toks.getD j {}).str command = some s ∧ safe_strtoull s = none))) ↔
    ((k = "flush_all".toList ∧ 2 < toks.length) ∨ (k = "stats".toList ∧ 2 < toks.length) ∨
      ((k = "incr".toList ∨ k = "decr".toList) ∧
        ∃ s, (toks.getD 2 {}).str command = some s ∧ safe_strtoull s = none)) := by
  obtain ⟨d1, d2, d3, d4, d5⟩ := verbs_distinct
  obtain ⟨s1, s2, s3, s4⟩ := a2b_ready_slots (k, spec) hmem
  obtain ⟨t1, t2, t3⟩ := a2b_ready_rejecting (k, spec) hmem
  have t4 := a2b_ready_accepting (k, spec) hmem
  simp only at s1 s2 s3 s4 t1 t2 t3 t4
  by_cases hf : k = "flush_all".toList
  · have hx := t1 hf
    constructor
    · rintro ⟨j, a, b, _⟩
      exact Or.inl ⟨hf, by omega⟩
    · rintro (⟨_, h⟩ | ⟨h, _⟩ | ⟨h | h, _⟩)
      · exact ⟨1, Nat.le_refl _, by omega, Or.inl hx⟩
      · exact absurd (hf.symm.trans h) d1
      · exact absurd (hf.symm.trans h) d2
      · exact absurd (hf.symm.trans h) d3
  by_cases hs : k = "stats".toList
  · have hx := t2 hs
    constructor
    · rintro ⟨j, a, b, _⟩
      exact Or.inr (Or.inl ⟨hs, by omega⟩)
    · rintro (⟨h, _⟩ | ⟨_, h⟩ | ⟨h | h, _⟩)
      · exact absurd h hf
      · exact ⟨1, Nat.le_refl _, by omega, Or.inr (Or.inl hx)⟩
      · exact absurd (hs.symm.trans h) d4
      · exact absurd (hs.symm.trans h) d5
  by_cases hi : k = "incr".toList ∨ k = "decr".toList
  · obtain ⟨e1, e2, k1, k2, k3⟩ := t3 hi
    rw [e1, e2] at hlo
    rw [e1] at hhi
    constructor
    · rintro ⟨j, a, b, c⟩
      have hj : j = 1 ∨ j = 2 ∨ j = 3 := by omega
      rcases hj with hj | hj | hj
      · subst hj
        rw [k1] at c
        simp at c
      · subst hj
        rw [k2] at c
        rcases c with c | c | ⟨_, c⟩
        · simp at c
        · simp at c
        · exact Or.inr (Or.inr ⟨hi, c⟩)
      · subst hj
        rw [k3] at c
        simp at c
    · rintro (⟨h, _⟩ | ⟨h, _⟩ | ⟨_, h⟩)
      · exact absurd h hf
      · exact absurd h hs
      · exact ⟨2, by omega, by omega, Or.inr (Or.inr ⟨k2, h⟩)⟩
  · have hnot : k ∉ ["flush_all".toList, "stats".toList, "incr".toList, "decr".toList] := by
      intro h
      simp only [List.mem_cons, List.mem_singleton, List.not_mem_nil, or_false] at h
      rcases h with h | h | h | h
      · exact hf h
      · exact hs h
      · exact hi (Or.inl h)
      · exact hi (Or.inr h)
    constructor
    · rintro ⟨j, a, b, c⟩
      have := t4 hnot j (by omega) (by omega)
      simp only [List.mem_cons, List.mem_singleton, List.not_mem_nil, or_false, not_or] at this
      rcases c with c | c | ⟨c, _⟩
      · exact absurd c this.1
      · exact absurd c this.2.1
      · exact absurd c this.2.2
    · rintro (⟨h, _⟩ | ⟨h, _⟩ | ⟨h, _⟩)
      · exact absurd h hf
      · exact absurd h hs
      · exact absurd h hi

/-- C31.  Rejection of unsupported arguments by `a2b_fill_request`, with
the spec map built by `cproxy_init_a2b`.  On a token list with a verb token
and non-`NULL` argument tokens the call returns; the size returned is 0 when
the verb is not one of the thirteen verbs of the table; for a verb of the
table it is 0 or the size of the row, which is above 0, and it is 0 exactly
when the token count is outside `[ntokens - num_optional, ntokens]` of the
row, or the verb is `flush_all` and any token follows it (the first token
after the verb is matched against the expiration slot, be it a number or
`noreply`), or the verb is `stats` and a token follows it, or the verb is
`incr` or `decr` and `safe_strtoull` rejects the value token. -/
theorem a2b_fill_request_rejects (command : List Char) (toks : List token_t) (noreply : Bool)
    (r : a2b_request) (v : List Char) (hlen : 1 < toks.length)
    (hverb : (toks.getD CMD_TOKEN {}).str command = some v)
    (hvl : 0 < (toks.getD CMD_TOKEN {}).length)
    (hval : ∀ j, 0 < j → j < toks.length - 1 → (toks.getD j {}).value ≠ none) :
    ∃ size r1, a2b_fill_request a2b_ready command toks noreply r = .ok (size, r1) ∧
      (skey v ∉ ["stats".toList, "gets".toList, "get".toList, "flush_all".toList,
          "decr".toList, "incr".toList, "delete".toList, "cas".toList, "prepend".toList,
          "append".toList, "replace".toList, "add".toList, "set".toList] ↔
        skey_lookup (a2b_ready.a2b_spec_map.getD []) (skey v) = none) ∧
      (skey_lookup (a2b_ready.a2b_spec_map.getD []) (skey v) = none → size = 0) ∧
      ∀ spec, skey_lookup (a2b_ready.a2b_spec_map.getD []) (skey v) = some spec →
        0 < spec.size ∧ (size = 0 ∨ size = spec.size) ∧
        (size = 0 ↔
          ((toks.length < spec.ntokens - spec.num_optional ∨ spec.ntokens < toks.length) ∨
            (skey v = "flush_all".toList ∧ 2 < toks.length) ∨
            (skey v = "stats".toList ∧ 2 < toks.length) ∨
            ((skey v = "incr".toList ∨ skey v = "decr".toList) ∧
              ∃ s, (toks.getD 2 {}).str command = some s ∧ safe_strtoull s = none))) := by
  obtain ⟨hm, hnames⟩ := a2b_ready_verbs
  have hnone := skey_lookup_none (a2b_ready.a2b_spec_map.getD []) (skey v)
  rw [hnames] at hnone
  obtain ⟨m, hmdef⟩ : ∃ m, m = a2b_ready.a2b_spec_map.getD [] := ⟨_, rfl⟩
  rw [← hmdef] at hm hnone ⊢
  unfold a2b_fill_request
  rw [if_neg (by omega)]
  simp only [hverb]
  rw [if_neg (by omega), hm]
  simp only
  cases hl : skey_lookup m (skey v) with
  | none =>
    refine ⟨0, r, rfl, ?_, fun _ => rfl, fun spec h => (by cases h)⟩
    rw [hl] at hnone
    exact ⟨fun _ => rfl, fun _ => hnone.1 rfl⟩
  | some spec =>
    have hmem := skey_lookup_mem hl
    rw [hmdef] at hmem
    obtain ⟨s1, s2, s3, s4⟩ := a2b_ready_slots (skey v, spec) hmem
    simp only at s1 s2 s3 s4
    have hknown : (skey v ∉ ["stats".toList, "gets".toList, "get".toList, "flush_all".toList,
          "decr".toList, "incr".toList, "delete".toList, "cas".toList, "prepend".toList,
          "append".toList, "replace".toList, "add".toList, "set".toList] ↔
        some spec = none) := by
      rw [hl] at hnone
      exact ⟨fun h => hnone.2 h, fun h => (by cases h)⟩
    dsimp only
    by_cases hr : toks.length ≥ spec.ntokens - spec.num_optional ∧ toks.length ≤ spec.ntokens
    · rw [if_pos hr]
      obtain ⟨b, r1, e, hb⟩ := fill_loop_total spec command toks s1 (toks.length - 2) 1
        { r with
          header := List.set (r.header.set 0 PROTOCOL_BINARY_REQ) 1
                      (if noreply then spec.cmdq else spec.cmd) }
        Nat.one_pos (by omega) (by omega) (fun j a b => s4 j (by omega))
        (fun j a b => hval j (by omega) (by omega))
      rw [reject_slots spec (skey v) command toks hmem hr.1 hr.2] at hb
      rw [e]
      cases b with
      | false =>
        refine ⟨0, r1, rfl, hknown, fun h => (by cases h), ?_⟩
        intro sp hsp
        cases hsp
        exact ⟨s2, Or.inl rfl, fun _ => Or.inr (hb.1 rfl), fun _ => rfl⟩
      | true =>
        refine ⟨spec.size, r1, rfl, hknown, fun h => (by cases h), ?_⟩
        intro sp hsp
        cases hsp
        refine ⟨s2, Or.inr rfl, fun h => absurd h (by omega), ?_⟩
        rintro (h | h)
        · omega
        · have := hb.2 h
          cases this
    · rw [if_neg hr]
      refine ⟨0, r, rfl, hknown, fun h => (by cases h), ?_⟩
      intro sp hsp
      cases hsp
      exact ⟨s2, Or.inl rfl, fun _ => Or.inl (by omega), fun _ => rfl⟩

/-- Witness for C31: `incr key 300 noreply` is accepted with the size of the
`incr` row. -/
theorem a2b_fill_request_rejects_witness :
    ∃ size r1, a2b_fill_request a2b_ready "incr key 300 noreply".toList incr_tokens true
        { header := List.replicate 44 0 } = .ok (size, r1) ∧
      (skey "incr key 300 noreply".toList ∉ ["stats".toList, "gets".toList, "get".toList,
          "flush_all".toList, "decr".toList, "incr".toList, "delete".toList, "cas".toList,
          "prepend".toList, "append".toList, "replace".toList, "add".toList, "set".toList] ↔
        skey_lookup (a2b_ready.a2b_spec_map.getD []) (skey "incr key 300 noreply".toList) =
          none) ∧
      (skey_lookup (a2b_ready.a2b_spec_map.getD []) (skey "incr key 300 noreply".toList) =
          none → size = 0) ∧
      ∀ spec, skey_lookup (a2b_ready.a2b_spec_map.getD [])
          (skey "incr key 300 noreply".toList) = some spec →
        0 < spec.size ∧ (size = 0 ∨ size = spec.size) ∧
        (size = 0 ↔
          ((incr_tokens.length < spec.ntokens - spec.num_optional ∨
              spec.ntokens < incr_tokens.length) ∨
            (skey "incr key 300 noreply".toList = "flush_all".toList ∧
              2 < incr_tokens.length) ∨
            (skey "incr key 300 noreply".toList = "stats".toList ∧ 2 < incr_tokens.length) ∨
            ((skey "incr key 300 noreply".toList = "incr".toList ∨
                skey "incr key 300 noreply".toList = "decr".toList) ∧
              ∃ s, (incr_tokens.getD 2 {}).str "incr key 300 noreply".toList = some s ∧
                safe_strtoull s = none))) :=
  a2b_fill_request_rejects "incr key 300 noreply".toList incr_tokens true
    { header := List.replicate 44 0 } "incr key 300 noreply".toList (by decide) (by decide)
    (by decide)
    (fun j a b => by
      have hb : j < 4 := b
      have hj : j = 1 ∨ j = 2 ∨ j = 3 := by omega
      rcases hj with hj | hj | hj <;> subst hj <;> decide)

/-- Counterexample for C31: `flush_all noreply` carries no expiration
argument, its token count 3 is inside the range `[2, 4]` of the row, and
`a2b_fill_request` returns 0 on it. -/
theorem flush_all_noreply_rejected :
    scan_tokens "flush_all noreply".toList MAX_TOKENS = .ok flush_noreply_tokens ∧
    (skey_lookup (a2b_ready.a2b_spec_map.getD []) "flush_all".toList).map
      (fun spec => (spec.ntokens - spec.num_optional, spec.ntokens, spec.size)) =
      some (2, 4, 28) ∧
    flush_noreply_tokens.length = 3 ∧
    a2b_fill_request a2b_ready "flush_all noreply".toList flush_noreply_tokens true
        { header := List.replicate 44 0 } =
      .ok (0, { header := List.set ((List.replicate 44 0).set 0 PROTOCOL_BINARY_REQ) 1
                  PROTOCOL_BINARY_CMD_FLUSHQ }) := by
  decide

theorem squash_loop_step (s : proxy_stats) (n : Nat) :
    cproxy_assign_downstream_loop requeue_env 1 (some 1) (n + 1) false (squash_loop_world s) =
    match cproxy_assign_downstream_loop requeue_env 1 (some 1) n false
        (squash_loop_world
          { s with
            tot_downstream_reserved := s.tot_downstream_reserved + 1
            tot_downstream_released := s.tot_downstream_released + 1
            tot_assign_downstream := s.tot_assign_downstream + 1
            tot_assign_upstream := s.tot_assign_upstream + 1 + 1 }) with
    | .error f => .error f
    | .ok (rest, w10) => .ok (some [0, 1] :: rest, w10) := by
  rfl

theorem squash_loop_livelock : ∀ (n : Nat) (s : proxy_stats),
    cproxy_assign_downstream_loop requeue_env 1 (some 1) n false (squash_loop_world s) =
      .error .out_of_fuel := by
  intro n
  induction n with
  | zero =>
    intro s
    rfl
  | succ n ih =>
    intro s
    rw [squash_loop_step, ih]

set_option maxRecDepth 100000 in
theorem tack_run :
    tack_world.wait_queue = some [0, 1] ∧
    tack_world.ptd.waiting_any_downstream_tail = some 1 ∧
    (match cproxy_assign_downstream tack_env tack_world with
      | .ok (trace, w1) => some (trace, w1.ptd.stats.tot_downstream_reserved, w1.wait_queue)
      | .error _ => none) = some ([some [0, 1], some [2], some [3]], 3, some []) := by
  decide

/-- C32.  The loop of `cproxy_assign_downstream` is not bounded by its tail
snapshot.  On the wait queue `[0, 1]` of two simple gets the inner loop puts
the upstream 1, the snapshot of the tail, on the first batch, so the test
`head == tail` never holds.  With a forwarding function that puts the
upstreams back on the queue and returns `false`, the loop started by the call
(`da` = 1, `tail` = 1) is out of fuel for every bound on its iterations: the
call does not terminate.  With a forwarding function during which one more
upstream arrives, the call on `tack_world` (queue `[0, 1]`, pool cap 3)
returns after three reservations, more than the two upstreams queued at
entry, having paired the upstreams 2 and 3 that arrived after the snapshot. -/
theorem assign_downstream_unbounded :
    squash_world.wait_queue = some [0, 1] ∧
    squash_world.ptd.waiting_any_downstream_tail = some 1 ∧
    squash_world.set_ptd
        { squash_world.ptd with
          downstream_assigns := squash_world.ptd.downstream_assigns + 1 } =
      squash_loop_world squash_world.ptd.stats ∧
    (∀ fuel, cproxy_assign_downstream_loop requeue_env 1 (some 1) fuel false
        (squash_loop_world squash_world.ptd.stats) = .error .out_of_fuel) ∧
    cproxy_assign_downstream requeue_env squash_world = .error .out_of_fuel ∧
    tack_world.wait_queue = some [0, 1] ∧
    tack_world.ptd.waiting_any_downstream_tail = some 1 ∧
    (match cproxy_assign_downstream tack_env tack_world with
      | .ok (trace, w1) => some (trace, w1.ptd.stats.tot_downstream_reserved, w1.wait_queue)
      | .error _ => none) = some ([some [0, 1], some [2], some [3]], 3, some []) :=
  ⟨by decide, rfl, rfl, fun fuel => squash_loop_livelock fuel _,
    squash_loop_livelock _ _, tack_run⟩

theorem response_upstreams_total (it : Nat) :
    ∀ (us : List Nat) (fuel : Nat) (h : Option Nat) (w : World),
      IsChain w.cnext h us → us.length ≤ fuel →
      ∃ w1, a2b_response_upstreams it fuel h w = .ok w1 ∧
        (∀ u ucc, u ∈ us → w.get_c u = some ucc →
          w1.get_c u = some { ucc with ilist := ucc.ilist ++ [it] }) ∧
        (∀ a, a ∉ us → w1.get_c a = w.get_c a) ∧ w1.ds = w.ds ∧ w1.ptd = w.ptd := by
  intro us
  induction us with
  | nil =>
    intro fuel h w hc _
    have hn := hc.of_nil
    subst hn
    refine ⟨w, ?_, fun u ucc hm => (by cases hm), fun _ _ => rfl, rfl, rfl⟩
    cases fuel <;> rfl
  | cons u us ih =>
    intro fuel h w hc hfuel
    have hu := hc.head_eq
    subst hu
    obtain ⟨p, hp, hrest⟩ := hc.tail
    obtain ⟨ucc, hucc, hnext⟩ := get_c_of_cnext hp
    have hnot : u ∉ us := (List.nodup_cons.1 hc.nodup).1
    cases fuel with
    | zero => simp at hfuel
    | succ fuel =>
      obtain ⟨wa, hwa⟩ : ∃ wa : World, wa = w.set_c u { ucc with ilist := ucc.ilist ++ [it] } :=
        ⟨_, rfl⟩
      have hca : wa.get_c u = some { ucc with ilist := ucc.ilist ++ [it] } := by
        rw [hwa]
        exact get_c_set_c_same w u _ (lt_of_get_c hucc)
      have hcb : ∀ a, a ≠ u → wa.get_c a = w.get_c a := by
        intro a ha
        rw [hwa, get_c_set_c_ne _ _ _ _ (Ne.symm ha)]
      have hch : IsChain wa.cnext p us := by
        refine hrest.congr fun a ha => ?_
        have hne : a ≠ u := fun e => hnot (e ▸ ha)
        unfold World.cnext
        rw [hcb a hne]
      obtain ⟨w1, h1, k1, k2, k3, k4⟩ := ih fuel p wa hch (by simpa using hfuel)
      refine ⟨w1, ?_, ?_, ?_, by rw [k3, hwa]; rfl, by rw [k4, hwa]; rfl⟩
      · rw [a2b_response_upstreams]
        simp only [cproxy_upstream_ascii_item_response, hucc]
        rw [← hwa]
        simp only [hca, hnext]
        exact h1
      · intro a acc hm hacc
        rcases List.mem_cons.1 hm with e | hm1
        · subst e
          rw [hucc] at hacc
          cases hacc
          rw [k2 a hnot]
          exact hca
        · have hne : a ≠ u := fun e => hnot (e ▸ hm1)
          exact k1 a acc hm1 (by rw [hcb a hne]; exact hacc)
      · intro a ha
        have hne : a ≠ u := fun e => ha (e ▸ List.mem_cons_self _ _)
        rw [k2 a fun h => ha (List.mem_cons_of_mem _ h), hcb a hne]

theorem response_entries_total (it : Nat) :
    ∀ (chain : List (Option Nat)) (w : World), (∀ u, some u ∈ chain → w.get_c u ≠ none) →
      ∃ w1, a2b_response_entries it chain w = .ok w1 ∧
        (∀ u ucc, w.get_c u = some ucc →
          w1.get_c u =
            some { ucc with ilist := ucc.ilist ++ List.replicate (chain.count (some u)) it }) ∧
        w1.ds = w.ds ∧ w1.ptd = w.ptd := by
  intro chain
  induction chain with
  | nil =>
    intro w _
    refine ⟨w, rfl, ?_, rfl, rfl⟩
    intro u ucc hu
    rw [hu]
    simp
  | cons e chain ih =>
    intro w hv
    cases e with
    | none =>
      obtain ⟨w1, h1, k1, k2, k3⟩ := ih w fun u hu => hv u (List.mem_cons_of_mem _ hu)
      refine ⟨w1, by rw [a2b_response_entries]; exact h1, ?_, k2, k3⟩
      intro u ucc hu
      rw [k1 u ucc hu, List.count_cons_of_ne (by simp)]
    | some x =>
      cases hx : w.get_c x with
      | none => exact absurd hx (hv x (List.mem_cons_self _ _))
      | some xc =>
        obtain ⟨wa, hwa⟩ : ∃ wa : World, wa = w.set_c x { xc with ilist := xc.ilist ++ [it] } :=
          ⟨_, rfl⟩
        have hca : wa.get_c x = some { xc with ilist := xc.ilist ++ [it] } := by
          rw [hwa]
          exact get_c_set_c_same w x _ (lt_of_get_c hx)
        have hcb : ∀ a, a ≠ x → wa.get_c a = w.get_c a := by
          intro a ha
          rw [hwa, get_c_set_c_ne _ _ _ _ (Ne.symm ha)]
        obtain ⟨w1, h1, k1, k2, k3⟩ := ih wa (by
          intro u hu
          by_cases hux : u = x
          · subst hux
            rw [hca]
            simp
          · rw [hcb u hux]
            exact hv u (List.mem_cons_of_mem _ hu))
        refine ⟨w1, ?_, ?_, by rw [k2, hwa]; rfl, by rw [k3, hwa]; rfl⟩
        · rw [a2b_response_entries]
          simp only [cproxy_upstream_ascii_item_response, hx]
          rw [← hwa]
          exact h1
        · intro u ucc hu
          by_cases hux : u = x
          · subst hux
            rw [hx] at hu
            cases hu
            rw [k1 u _ hca, List.count_cons_self, List.replicate_succ]
            simp
          · rw [k1 u ucc (by rw [hcb u hux]; exact hu),
              List.count_cons_of_ne (by simpa using fun hh => hux hh)]


theorem quiet_get_opcodes (x : conn) :
    (x.cmd = PROTOCOL_BINARY_CMD_GETQ → (process_bin_noreply x).noreply = true ∧
      (process_bin_noreply x).cmd = PROTOCOL_BINARY_CMD_GET) ∧
    (x.cmd = PROTOCOL_BINARY_CMD_GETKQ → (process_bin_noreply x).noreply = true ∧
      (process_bin_noreply x).cmd = PROTOCOL_BINARY_CMD_GETK) ∧
    (x.cmd = PROTOCOL_BINARY_CMD_GET ∨ x.cmd = PROTOCOL_BINARY_CMD_GETK →
      (process_bin_noreply x).noreply = false ∧ (process_bin_noreply x).cmd = x.cmd) := by
  refine ⟨?_, ?_, ?_⟩
  · intro h
    unfold process_bin_noreply
    rw [h]
    exact ⟨rfl, rfl⟩
  · intro h
    unfold process_bin_noreply
    rw [h]
    exact ⟨rfl, rfl⟩
  · intro h
    unfold process_bin_noreply
    rcases h with h | h <;> rw [h] <;> exact ⟨rfl, rfl⟩

/-- C34.  GET and GETK dispatch in `a2b_process_downstream_response`, for a
response on the socket `c` of the downstream `d`.  A response with status
`KEY_ENOENT` changes nothing but `c`.  A response with status 0 and the item
`it` appends the item once to the item list of every upstream of the list
attached to `d` when `d->multiget` is `NULL`, and changes no other upstream;
when the map is set it appends the item to every upstream as many times as
the upstream is registered under the key of the item (entries of a closed
upstream hold `NULL` and are skipped), so to no upstream that is not
registered under the key.  In each case the call returns, and the socket `c`
is left in `conn_new_cmd` when `c->noreply` is set, which
`process_bin_noreply` does for the quiet opcodes `GETQ` and `GETKQ`, and in
`conn_pause` otherwise. -/
theorem get_response_dispatch (env : Env) (w : World) (c d : Nat) (cc : conn) (s : String)
    (dd : downstream) (hc : w.get_c c = some cc)
    (hcmd : cc.cmd = PROTOCOL_BINARY_CMD_GET ∨ cc.cmd = PROTOCOL_BINARY_CMD_GETK)
    (hn : cc.next = none) (hs : cc.cmd_start = some s) (hx : cc.extra = some d)
    (hd : w.get_d d = some dd) :
    (cc.binary_header.status = PROTOCOL_BINARY_RESPONSE_KEY_ENOENT → cc.item = none →
      a2b_process_downstream_response env w c =
        .ok (w.set_c c
          { cc with
            item := none
            state := if cc.noreply then conn_state.conn_new_cmd else conn_state.conn_pause })) ∧
    (cc.binary_header.status = 0 → ∀ it, cc.item = some it → env.item_nbytes it ≥ 2 →
      cc.binary_header.keylen > 0 → cc.binary_header.extlen > 0 →
      cc.binary_header.bodylen ≥ cc.binary_header.keylen + cc.binary_header.extlen →
      (dd.multiget = none → ∀ us, IsChain w.cnext dd.upstream_conn us → c ∉ us →
        ∃ w1, a2b_process_downstream_response env w c = .ok w1 ∧
          (∀ u ucc, u ∈ us → w.get_c u = some ucc →
            w1.get_c u = some { ucc with ilist := ucc.ilist ++ [it] }) ∧
          (∀ a, a ∉ us → a ≠ c → w1.get_c a = w.get_c a) ∧
          w1.get_c c = some
            { cc with
              item := none
              state := if cc.noreply then conn_state.conn_new_cmd
                       else conn_state.conn_pause }) ∧
      (∀ m, dd.multiget = some m →
        (∀ u, some u ∈ (skey_lookup m (env.item_key it)).getD [] → w.get_c u ≠ none) →
        some c ∉ (skey_lookup m (env.item_key it)).getD [] →
        ∃ w1, a2b_process_downstream_response env w c = .ok w1 ∧
          (∀ u ucc, u ≠ c → w.get_c u = some ucc →
            w1.get_c u = some
              { ucc with
                ilist := ucc.ilist ++ List.replicate
                  (((skey_lookup m (env.item_key it)).getD []).count (some u)) it }) ∧
          w1.get_c c = some
            { cc with
              item := none
              state := if cc.noreply then conn_state.conn_new_cmd
                       else conn_state.conn_pause })) ∧
    (∀ x : conn,
      (x.cmd = PROTOCOL_BINARY_CMD_GETQ → (process_bin_noreply x).noreply = true ∧
        (process_bin_noreply x).cmd = PROTOCOL_BINARY_CMD_GET) ∧
      (x.cmd = PROTOCOL_BINARY_CMD_GETKQ → (process_bin_noreply x).noreply = true ∧
        (process_bin_noreply x).cmd = PROTOCOL_BINARY_CMD_GETK) ∧
      (x.cmd = PROTOCOL_BINARY_CMD_GET ∨ x.cmd = PROTOCOL_BINARY_CMD_GETK →
        (process_bin_noreply x).noreply = false ∧ (process_bin_noreply x).cmd = x.cmd)) := by
  have hge : cc.cmd ≥ 0 := by
    rcases hcmd with h | h <;> rw [h] <;> exact Int.natCast_nonneg _
  obtain ⟨st, hst⟩ : ∃ st, st =
      (if cc.noreply then conn_state.conn_new_cmd else conn_state.conn_pause) := ⟨_, rfl⟩
  obtain ⟨w1, hw1⟩ : ∃ w1 : World, w1 = w.set_c c { cc with item := none, state := st } :=
    ⟨_, rfl⟩
  have hlt := lt_of_get_c hc
  have hrun : a2b_process_downstream_response env w c =
      a2b_response_get env w1 d cc.binary_header cc.item dd.upstream_conn := by
    unfold a2b_process_downstream_response
    simp only [hc, hge, not_true_eq_false, if_false, hn, ne_eq, hs, hx, hd, hcmd, if_true,
      conn_set_state]
    rw [get_c_set_c_same w c _ hlt]
    simp only
    rw [hw1, hst]
    congr 1
    unfold World.set_c
    simp [hn, hs, hx]
  have hc1 : w1.get_c c = some { cc with item := none, state := st } := by
    rw [hw1]
    exact get_c_set_c_same w c _ hlt
  have hcb : ∀ a, a ≠ c → w1.get_c a = w.get_c a := by
    intro a ha
    rw [hw1, get_c_set_c_ne _ _ _ _ (Ne.symm ha)]
  have hd1 : w1.get_d d = some dd := by
    rw [hw1]
    exact hd
  subst hst
  refine ⟨?_, ?_, quiet_get_opcodes⟩
  · intro hstat hit
    rw [hrun, ← hw1]
    unfold a2b_response_get
    rw [hstat, hit]
    rfl
  · intro hstat it hit hnb hk he hb
    rw [hrun]
    have hget : a2b_response_get env w1 d cc.binary_header (some it) dd.upstream_conn =
        match dd.multiget with
        | some m => a2b_response_entries it ((skey_lookup m (env.item_key it)).getD []) w1
        | none => a2b_response_upstreams it (w1.conns.length + 1) dd.upstream_conn w1 := by
      unfold a2b_response_get
      simp only [hstat, ne_eq, not_true_eq_false, if_false, hnb, hk, he, hb, if_true, hd1]
    rw [hit, hget]
    constructor
    · intro hm us hus hcus
      rw [hm]
      simp only
      have hch : IsChain w1.cnext dd.upstream_conn us := by
        refine hus.congr fun a ha => ?_
        have hne : a ≠ c := fun e => hcus (e ▸ ha)
        unfold World.cnext
        rw [hcb a hne]
      obtain ⟨w2, h2, k1, k2, _, _⟩ := response_upstreams_total it us (w1.conns.length + 1)
        dd.upstream_conn w1 hch (Nat.le_succ_of_le (cchain_length_le hch))
      refine ⟨w2, h2, ?_, ?_, ?_⟩
      · intro u ucc hu hucc
        have hne : u ≠ c := fun e => hcus (e ▸ hu)
        exact k1 u ucc hu (by rw [hcb u hne]; exact hucc)
      · intro a ha hac
        rw [k2 a ha, hcb a hac]
      · rw [k2 c hcus]
        exact hc1
    · intro m hm hval hcm
      rw [hm]
      simp only
      obtain ⟨w2, h2, k1, _, _⟩ := response_entries_total it
        ((skey_lookup m (env.item_key it)).getD []) w1 (by
          intro u hu
          by_cases huc : u = c
          · subst huc
            rw [hc1]
            simp
          · rw [hcb u huc]
            exact hval u hu)
      refine ⟨w2, h2, ?_, ?_⟩
      · intro u ucc hu hucc
        exact k1 u ucc (by rw [hcb u hu]; exact hucc)
      · rw [k1 c _ hc1, List.count_eq_zero_of_not_mem hcm]
        simp

/-- Witness for C34: the hit response of a quiet `GETKQ` on the socket 2 of
`hit_world`; both attached upstreams get the item 7 and the socket goes to
`conn_new_cmd`. -/
theorem get_response_dispatch_witness :
    hit_world.get_c 2 = some hit_conn ∧
    (hit_conn.cmd = PROTOCOL_BINARY_CMD_GET ∨ hit_conn.cmd = PROTOCOL_BINARY_CMD_GETK) ∧
    hit_conn.next = none ∧ hit_conn.cmd_start = some "" ∧ hit_conn.extra = some 0 ∧
    hit_world.upstream_list_at 0 = some [0, 1] ∧
    ∃ w1, a2b_process_downstream_response quiet_env hit_world 2 = .ok w1 ∧
      (∀ u ucc, u ∈ [0, 1] → hit_world.get_c u = some ucc →
        w1.get_c u = some { ucc with ilist := ucc.ilist ++ [7] }) ∧
      (∀ a, a ∉ [0, 1] → a ≠ 2 → w1.get_c a = hit_world.get_c a) ∧
      w1.get_c 2 = some
        { hit_conn with
          item := none
          state := if hit_conn.noreply then conn_state.conn_new_cmd
                   else conn_state.conn_pause } :=
  ⟨rfl, Or.inr rfl, rfl, rfl, rfl, by decide,
    ((get_response_dispatch quiet_env hit_world 2 0 hit_conn "" _ rfl (Or.inr rfl) rfl rfl rfl
      rfl).2.1 rfl 7 rfl (by decide) (by decide) (by decide) (by decide)).1 rfl [0, 1]
      (chain_of_walk 3 (some 0) [0, 1] (by decide)) (by decide)⟩

theorem queue_frame.rfl_queue (w : World) : queue_frame w w :=
  ⟨fun _ cc h => ⟨cc, [], h, rfl, rfl, rfl, rfl, rfl, rfl, rfl, by simp,
    fun _ hs => (by cases hs)⟩, fun _ dd h => ⟨dd, h, rfl⟩⟩

theorem queue_frame.trans_queue {w w1 w2 : World} (h1 : queue_frame w w1)
    (h2 : queue_frame w1 w2) : queue_frame w w2 := by
  refine ⟨?_, ?_⟩
  · intro c cc hc
    obtain ⟨cc1, a1, g1, s1, n1, m1, r1, c1, k1, t1, i1, p1⟩ := h1.1 c cc hc
    obtain ⟨cc2, a2, g2, s2, n2, m2, r2, c2, k2, t2, i2, p2⟩ := h2.1 c cc1 g1
    refine ⟨cc2, a1 ++ a2, g2, s2.trans s1, n2.trans n1, m2.trans m1, r2.trans r1,
      c2.trans c1, k2.trans k1, t2.trans t1, by rw [i2, i1, List.append_assoc], ?_⟩
    intro s hs
    rcases List.mem_append.1 hs with hs | hs
    · exact p1 s hs
    · exact p2 s hs
  · intro a dd hd
    obtain ⟨dd1, g1, e1⟩ := h1.2 a dd hd
    obtain ⟨dd2, g2, e2⟩ := h2.2 a dd1 g1
    exact ⟨dd2, g2, e2.trans e1⟩

theorem queue_frame.of_set_d (w : World) (d : Nat) (dd v : downstream)
    (hd : w.get_d d = some dd) (hv : v.downstream_conns = dd.downstream_conns) :
    queue_frame w (w.set_d d v) := by
  refine ⟨fun c cc h => ⟨cc, [], h, rfl, rfl, rfl, rfl, rfl, rfl, rfl, by simp,
    fun _ hs => (by cases hs)⟩, ?_⟩
  intro a da ha
  by_cases had : d = a
  · subst had
    rw [hd] at ha
    cases ha
    exact ⟨v, get_d_set_d_live w d v dd hd, hv⟩
  · refine ⟨da, ?_, rfl⟩
    rw [get_d_set_d, if_neg (fun hh => had hh.1)]
    exact ha

theorem add_iov_queue (env : Env) (w : World) (c : Nat) (s : String) (b : Bool) (w1 : World)
    (hs : 0 < s.length) (h : add_iov env w c s = .ok (b, w1)) : queue_frame w w1 := by
  unfold add_iov at h
  cases hc : w.get_c c with
  | none => rw [hc] at h; cases h
  | some cc =>
    rw [hc] at h
    simp only at h
    split at h
    · cases h
      refine ⟨?_, fun a dd hd => ⟨dd, hd, rfl⟩⟩
      intro x xc hx
      by_cases hxc : c = x
      · subst hxc
        rw [hc] at hx
        cases hx
        refine ⟨_, [s], get_c_set_c_same w c _ (lt_of_get_c hc), rfl, rfl, rfl, rfl, rfl, rfl,
          rfl, rfl, ?_⟩
        intro t ht
        rw [List.mem_singleton] at ht
        subst ht
        exact hs
      · refine ⟨xc, [], ?_, rfl, rfl, rfl, rfl, rfl, rfl, rfl, by simp,
          fun _ ht => (by cases ht)⟩
        rw [get_c_set_c_ne _ _ _ _ hxc]
        exact hx
    · cases h
      exact queue_frame.rfl_queue w

theorem multiget_key_tail (env : Env) (d uc_num : Nat) (verb key : List Char)
    (hv : verb ≠ []) (wa w1 : World)
    (h : (match cproxy_find_downstream_conn env wa d (some key) with
      | .error f => (.error f : Except Fault World)
      | .ok none => .ok wa
      | .ok (some c) =>
        match wa.get_c c with
        | none => .error .bad_pointer
        | some cc =>
          if cc.item ≠ none then .error .assert_failed
          else if cc.state ≠ conn_state.conn_pause then .error .assert_failed
          else
            let wv : Except Fault World :=
              if uc_num ≤ 0 ∧ cc.msgused ≤ 1 ∧ cc.msgbytes ≤ 0 then
                (add_iov env wa c (String.mk verb)).map (fun (r : Bool × World) => r.2)
              else .ok wa
            match wv with
            | .error f => .error f
            | .ok w2 =>
              (add_iov env w2 c (String.mk (' ' :: key))).map
                (fun (r : Bool × World) => r.2)) =
        .ok w1) : queue_frame wa w1 := by
  split at h
  · cases h
  · cases h
    exact queue_frame.rfl_queue wa
  · rename_i c hfind
    split at h
    · cases h
    · rename_i cc hcc
      split at h
      · cases h
      · split at h
        · cases h
        · have hverb : 0 < (String.mk verb).length := by
            rw [String.length_mk]
            exact List.length_pos.2 hv
          have hkey : 0 < (String.mk (' ' :: key)).length := by
            rw [String.length_mk]
            simp
          simp only at h
          split at h
          · cases h
          · rename_i w2 hwv
            have hq2 : queue_frame wa w2 := by
              split at hwv
              · cases hadd : add_iov env wa c (String.mk verb) with
                | error f => rw [hadd] at hwv; cases hwv
                | ok r =>
                  rw [hadd] at hwv
                  cases hwv
                  exact add_iov_queue env wa c _ r.1 r.2 hverb hadd
              · cases hwv
                exact queue_frame.rfl_queue wa
            cases hadd : add_iov env w2 c (String.mk (' ' :: key)) with
            | error f => rw [hadd] at h; cases h
            | ok r =>
              rw [hadd] at h
              cases h
              exact hq2.trans_queue (add_iov_queue env w2 c _ r.1 r.2 hkey hadd)

theorem multiget_key_queue (env : Env) (d uc_cur uc_num : Nat) (verb key : List Char)
    (hv : verb ≠ []) (w w1 : World)
    (h : a2b_multiget_key env d uc_cur uc_num verb key w = .ok w1) : queue_frame w w1 := by
  unfold a2b_multiget_key at h
  cases hd : w.get_d d with
  | none => rw [hd] at h; cases h
  | some dd =>
    rw [hd] at h
    simp only at h
    cases hm : dd.multiget with
    | none =>
      simp only [hm, if_true] at h
      exact multiget_key_tail env d uc_num verb key hv w w1 h
    | some m =>
      by_cases hcal : env.calloc_multiget_entry w = true
      · cases hl : skey_lookup m key with
        | none =>
          simp only [hm, hcal, hl, if_true] at h
          exact (queue_frame.of_set_d w d dd
              { dd with multiget := some (skey_insert m key [some uc_cur]) } hd rfl).trans_queue
            (multiget_key_tail env d uc_num verb key hv
              (w.set_d d { dd with multiget := some (skey_insert m key [some uc_cur]) }) w1 h)
        | some chain =>
          simp only [hm, hcal, hl, if_true, Bool.false_eq_true, if_false] at h
          cases h
          exact queue_frame.of_set_d w d dd _ hd rfl
      · simp only [hm, hcal, if_true, Bool.false_eq_true, if_false] at h
        exact multiget_key_tail env d uc_num verb key hv w w1 h

theorem multiget_keys_queue (env : Env) (d uc_cur uc_num : Nat) (verb : List Char)
    (hv : verb ≠ []) :
    ∀ (fuel : Nat) (rest : List Char) (w w1 : World),
      a2b_multiget_keys env d uc_cur uc_num verb fuel rest w = .ok w1 → queue_frame w w1 := by
  intro fuel
  induction fuel with
  | zero => intro rest w w1 h; cases h
  | succ fuel ih =>
    intro rest w w1 h
    unfold a2b_multiget_keys at h
    simp only at h
    split at h
    · cases h
    · rename_i wa hwa
      have hq : queue_frame w wa := by
        split at hwa
        · exact multiget_key_queue env d uc_cur uc_num verb _ hv w wa hwa
        · cases hwa
          exact queue_frame.rfl_queue w
      split at h
      · cases h
        exact hq
      · exact hq.trans_queue (ih _ wa w1 h)

theorem multiget_upstreams_queue (env : Env) (d : Nat) :
    ∀ (fuel : Nat) (cur : Option Nat) (n : Nat) (w w1 : World),
      a2b_multiget_upstreams env d fuel cur n w = .ok w1 → queue_frame w w1 := by
  intro fuel
  induction fuel with
  | zero =>
    intro cur n w w1 h
    cases cur with
    | none =>
      unfold a2b_multiget_upstreams at h
      cases h
      exact queue_frame.rfl_queue w
    | some a => unfold a2b_multiget_upstreams at h; cases h
  | succ fuel ih =>
    intro cur n w w1 h
    cases cur with
    | none =>
      unfold a2b_multiget_upstreams at h
      cases h
      exact queue_frame.rfl_queue w
    | some a =>
      unfold a2b_multiget_upstreams at h
      simp only at h
      split at h
      · cases h
      split at h
      · cases h
      split at h
      · cases h
      split at h
      · cases h
      split at h
      · cases h
      split at h
      · cases h
      split at h
      · cases h
      rename_i hvl
      split at h
      · cases h
      split at h
      · cases h
      rename_i wa hwa
      have hq := multiget_keys_queue env d a n _ (by
        intro he
        rw [he] at hvl
        simp at hvl) _ _ w wa hwa
      split at h
      · cases h
      · exact hq.trans_queue (ih _ _ _ w1 h)

theorem prep_conn_post (env : Env) (w : World) (c : Nat) (b : Bool) (w1 : World)
    (h : cproxy_prep_conn_for_write env w c = .ok (b, w1)) :
    (∃ cc cp, w.get_c c = some cc ∧ w1.get_c c = some cp ∧ cp.iov = [] ∧ cp.msgused ≤ 1 ∧
      0 ≤ cp.msgused ∧ cp.state = cc.state) ∧
    (∀ a, a ≠ c → w1.get_c a = w.get_c a) ∧ w1.ds = w.ds := by
  unfold cproxy_prep_conn_for_write at h
  cases hc : w.get_c c with
  | none => rw [hc] at h; cases h
  | some cc =>
    rw [hc] at h
    simp only at h
    have hlt := lt_of_get_c hc
    split at h
    · cases h
    · split at h
      · cases h
        refine ⟨⟨cc, _, rfl, get_c_set_c_same _ c _ (by simpa [World.set_c] using hlt), rfl,
          by simp, by simp, rfl⟩, ?_, rfl⟩
        intro a ha
        rw [get_c_set_c_ne _ _ _ _ (Ne.symm ha), get_c_set_c_ne _ _ _ _ (Ne.symm ha)]
      · cases h
        refine ⟨⟨cc, _, rfl, get_c_set_c_same _ c _ hlt, rfl, by simp, by simp, rfl⟩, ?_, rfl⟩
        intro a ha
        rw [get_c_set_c_ne _ _ _ _ (Ne.symm ha)]

theorem multiget_prep_post (env : Env) :
    ∀ (slots : List (Option Nat)) (w wp : World), a2b_multiget_prep env slots w = .ok wp →
      (∀ c, (∃ cp, w.get_c c = some cp ∧ cp.iov = [] ∧ cp.state = conn_state.conn_pause ∧
          cp.msgused ≤ 1) →
        ∃ cp, wp.get_c c = some cp ∧ cp.iov = [] ∧ cp.state = conn_state.conn_pause ∧
          cp.msgused ≤ 1) ∧
      (∀ c, some c ∈ slots →
        ∃ cp, wp.get_c c = some cp ∧ cp.iov = [] ∧ cp.state = conn_state.conn_pause ∧
          cp.msgused ≤ 1) := by
  intro slots
  induction slots with
  | nil =>
    intro w wp h
    cases h
    exact ⟨fun _ h => h, fun _ h => (by cases h)⟩
  | cons s slots ih =>
    intro w wp h
    cases s with
    | none =>
      obtain ⟨k1, k2⟩ := ih w wp h
      refine ⟨k1, ?_⟩
      intro c hc
      rcases List.mem_cons.1 hc with e | e
      · cases e
      · exact k2 c e
    | some c =>
      unfold a2b_multiget_prep at h
      split at h
      · cases h
      · rename_i b w1 hp
        obtain ⟨⟨cc, cp, g1, g2, g3, g4, _, g5⟩, hoth, _⟩ := prep_conn_post env w c b w1 hp
        split at h
        · cases h
        · rename_i cc1 hc1
          split at h
          · cases h
          · rename_i hst
            rw [g2] at hc1
            cases hc1
            have hst1 : cp.state = conn_state.conn_pause := by
              by_contra hne
              exact hst hne
            have hpc : ∃ cp, w1.get_c c = some cp ∧ cp.iov = [] ∧
                cp.state = conn_state.conn_pause ∧ cp.msgused ≤ 1 := ⟨cp, g2, g3, hst1, g4⟩
            obtain ⟨k1, k2⟩ := ih w1 wp h
            refine ⟨?_, ?_⟩
            · intro a ha
              by_cases hac : a = c
              · subst hac
                exact k1 a hpc
              · apply k1 a
                rw [hoth a hac]
                exact ha
            · intro a ha
              rcases List.mem_cons.1 ha with e | e
              · have e1 : a = c := Option.some.inj e
                rw [e1]
                exact k1 c hpc
              · exact k2 a e

theorem nqueued_congr {w w1 : World} (h : ∀ x, w1.queued x = w.queued x)
    (slots : List (Option Nat)) : w1.nqueued slots = w.nqueued slots := by
  unfold World.nqueued
  congr 1
  funext s
  cases s with
  | none => rfl
  | some c => exact h c

theorem msgbytes_append (cc : conn) (s : String) (v : conn) (h : v.iov = cc.iov ++ [s]) :
    cc.msgbytes ≤ v.msgbytes := by
  unfold conn.msgbytes
  rw [h]
  simp

theorem queued_step (w w1 : World) (c : Nat) (cc cc1 : conn) (hc : w.get_c c = some cc)
    (hq : cc.msgused > 1 ∨ cc.msgbytes > 0) (hc1 : w1.get_c c = some cc1)
    (hm : cc1.msgused = cc.msgused) (hi : cc1.iov = cc.iov ∨ cc1.iov = cc.iov ++ ["\r\n"])
    (hoth : ∀ a, a ≠ c → w1.get_c a = w.get_c a) :
    (∀ x, w1.queued x = w.queued x) ∧ ∀ x, w.queued x = false → w1.get_c x = w.get_c x := by
  have hqc : w.queued c = true := by
    unfold World.queued
    rw [hc]
    simpa using hq
  have hle : cc.msgbytes ≤ cc1.msgbytes := by
    rcases hi with hi | hi
    · unfold conn.msgbytes
      rw [hi]
    · exact msgbytes_append cc _ cc1 hi
  have hqc1 : w1.queued c = true := by
    unfold World.queued
    rw [hc1]
    simp only [decide_eq_true_eq]
    rcases hq with hq | hq
    · exact Or.inl (by rw [hm]; exact hq)
    · exact Or.inr (lt_of_lt_of_le hq hle)
  refine ⟨?_, ?_⟩
  · intro x
    by_cases hx : x = c
    · subst hx
      rw [hqc, hqc1]
    · unfold World.queued
      rw [hoth x hx]
  · intro x hx
    by_cases hxc : x = c
    · subst hxc
      rw [hqc] at hx
      cases hx
    · exact hoth x hxc

theorem add_iov_conn (env : Env) (w : World) (c : Nat) (s : String) (b : Bool) (w1 : World)
    (cc : conn) (hc : w.get_c c = some cc) (h : add_iov env w c s = .ok (b, w1)) :
    (∃ cc1, w1.get_c c = some cc1 ∧ cc1.msgused = cc.msgused ∧ cc1.state = cc.state ∧
      (cc1.iov = cc.iov ∨ cc1.iov = cc.iov ++ [s])) ∧
    (∀ a, a ≠ c → w1.get_c a = w.get_c a) ∧ w1.ds = w.ds := by
  unfold add_iov at h
  rw [hc] at h
  simp only at h
  split at h
  · cases h
    refine ⟨⟨_, get_c_set_c_same w c _ (lt_of_get_c hc), rfl, rfl, Or.inr rfl⟩, ?_, rfl⟩
    intro a ha
    rw [get_c_set_c_ne _ _ _ _ (Ne.symm ha)]
  · cases h
    exact ⟨⟨cc, hc, rfl, rfl, Or.inl rfl⟩, fun _ _ => rfl, rfl⟩

theorem multiget_flush_count (env : Env) (hev : ∀ w c, env.update_event w c = true)
    (uc : Nat) :
    ∀ (slots : List (Option Nat)) (n : Nat) (w : World) (r : Nat × World),
      a2b_multiget_flush env uc slots n w = .ok r →
      r.1 = n + w.nqueued slots ∧ (∀ c, w.queued c = false → r.2.get_c c = w.get_c c) ∧
        r.2.ds = w.ds := by
  intro slots
  induction slots with
  | nil =>
    intro n w r h
    cases h
    exact ⟨rfl, fun _ _ => rfl, rfl⟩
  | cons s slots ih =>
    intro n w r h
    cases s with
    | none =>
      obtain ⟨k1, k2, k3⟩ := ih n w r h
      refine ⟨?_, k2, k3⟩
      rw [k1]
      unfold World.nqueued
      rw [List.countP_cons_of_neg]
      simp
    | some c =>
      unfold a2b_multiget_flush at h
      cases hc : w.get_c c with
      | none => rw [hc] at h; cases h
      | some cc =>
        rw [hc] at h
        simp only at h
        by_cases hq : cc.msgused > 1 ∨ cc.msgbytes > 0
        · rw [if_pos hq] at h
          have hqc : w.queued c = true := by
            unfold World.queued
            rw [hc]
            simpa using hq
          cases hadd : add_iov env w c "\r\n" with
          | error f => rw [hadd] at h; cases h
          | ok r1 =>
            obtain ⟨b, w1⟩ := r1
            rw [hadd] at h
            simp only at h
            obtain ⟨⟨cc1, hc1, m1, _, i1⟩, o1, d1⟩ := add_iov_conn env w c _ b w1 cc hc hadd
            unfold conn_set_state at h
            rw [hc1] at h
            simp only at h
            have hlt1 := lt_of_get_c hc1
            rw [get_c_set_c_same w1 c _ hlt1] at h
            simp only [hev, if_true] at h
            obtain ⟨w3, hw3⟩ : ∃ w3 : World, w3 =
                (w1.set_c c { cc1 with state := conn_state.conn_mwrite }).set_c c
                  { cc1 with
                    state := conn_state.conn_mwrite
                    write_and_go := conn_state.conn_new_cmd } := ⟨_, rfl⟩
            rw [← hw3] at h
            have hc3 : w3.get_c c = some
                { cc1 with
                  state := conn_state.conn_mwrite
                  write_and_go := conn_state.conn_new_cmd } := by
              rw [hw3]
              exact get_c_set_c_same _ c _ (by simpa [World.set_c] using hlt1)
            have ho3 : ∀ a, a ≠ c → w3.get_c a = w.get_c a := by
              intro a ha
              rw [hw3, get_c_set_c_ne _ _ _ _ (Ne.symm ha), get_c_set_c_ne _ _ _ _ (Ne.symm ha),
                o1 a ha]
            have hd3 : w3.ds = w.ds := by
              rw [hw3]
              exact d1
            rw [hc3] at h
            cases hu : w3.get_c uc with
            | none => rw [hu] at h; cases h
            | some ucc =>
              rw [hu] at h
              simp only at h
              have hn : w.nqueued (some c :: slots) = w.nqueued slots + 1 := by
                unfold World.nqueued
                rw [List.countP_cons_of_pos]
                exact hqc
              split at h
              · obtain ⟨wf, hwf⟩ : ∃ wf : World, wf = w3.set_c c
                    { cc1 with
                      state := conn_state.conn_mwrite
                      write_and_go := conn_state.conn_pause } := ⟨_, rfl⟩
                have hcf : wf.get_c c = some
                    { cc1 with
                      state := conn_state.conn_mwrite
                      write_and_go := conn_state.conn_pause } := by
                  rw [hwf]
                  exact get_c_set_c_same _ c _ (lt_of_get_c hc3)
                have hof : ∀ a, a ≠ c → wf.get_c a = w.get_c a := by
                  intro a ha
                  rw [hwf, get_c_set_c_ne _ _ _ _ (Ne.symm ha), ho3 a ha]
                obtain ⟨q1, q2⟩ := queued_step w wf c cc _ hc hq hcf m1 i1 hof
                have h1 : a2b_multiget_flush env uc slots (n + 1) wf = .ok r := by
                  rw [hwf]
                  exact h
                obtain ⟨k1, k2, k3⟩ := ih (n + 1) wf r h1
                refine ⟨?_, ?_, ?_⟩
                · rw [k1, nqueued_congr q1, hn]
                  omega
                · intro x hx
                  rw [k2 x (by rw [q1 x]; exact hx), q2 x hx]
                · rw [k3, hwf]
                  exact hd3
              · obtain ⟨q1, q2⟩ := queued_step w w3 c cc _ hc hq hc3 m1 i1 ho3
                obtain ⟨k1, k2, k3⟩ := ih (n + 1) w3 r h
                refine ⟨?_, ?_, ?_⟩
                · rw [k1, nqueued_congr q1, hn]
                  omega
                · intro x hx
                  rw [k2 x (by rw [q1 x]; exact hx), q2 x hx]
                · rw [k3]
                  exact hd3
        · rw [if_neg hq] at h
          have hqc : w.queued c = false := by
            unfold World.queued
            rw [hc]
            simpa using hq
          obtain ⟨k1, k2, k3⟩ := ih n w r h
          refine ⟨?_, k2, k3⟩
          rw [k1]
          unfold World.nqueued
          rw [List.countP_cons_of_neg]
          simp only
          rw [hqc]
          simp

theorem a2b_finish_counts (env : Env) (w : World) (d uc n : Nat) (suffix : String) (b : Bool)
    (w1 : World) (ucc : conn) (dd : downstream) (hu : w.get_c uc = some ucc)
    (hn : ucc.noreply = false) (hd : w.get_d d = some dd)
    (h : a2b_finish env w d uc n suffix = .ok (b, w1)) :
    b = decide (n > 0) ∧ w1.conns = w.conns ∧
      ∃ dd1, w1.get_d d = some dd1 ∧ dd1.downstream_used = n ∧
        dd1.downstream_used_start = n ∧ dd1.upstream_suffix = some suffix ∧
        dd1.downstream_conns = dd.downstream_conns := by
  unfold a2b_finish at h
  rw [hd] at h
  simp only at h
  unfold cproxy_dettach_if_noreply at h
  rw [get_c_set_d, hu] at h
  simp only [hn, Bool.false_eq_true, if_false] at h
  rw [get_d_set_d_live w d _ dd hd] at h
  simp only at h
  unfold cproxy_start_downstream_timeout at h
  obtain ⟨wz, hwz⟩ : ∃ wz, wz =
      w.set_d d { dd with downstream_used_start := n, downstream_used := n } := ⟨_, rfl⟩
  rw [← hwz] at h
  have hzc : wz.conns = w.conns := by rw [hwz]; rfl
  have hzd : wz.get_d d = some { dd with downstream_used_start := n, downstream_used := n } := by
    rw [hwz]; exact get_d_set_d_live w d _ dd hd
  obtain ⟨wy, hwy⟩ : ∃ wy, wy = wz.set_d d
      { dd with
        downstream_used_start := n, downstream_used := n, upstream_suffix := some suffix } :=
    ⟨_, rfl⟩
  rw [← hwy] at h
  have hyc : wy.conns = w.conns := by rw [hwy]; exact hzc
  have hyd : wy.get_d d = some
      { dd with
        downstream_used_start := n, downstream_used := n, upstream_suffix := some suffix } := by
    rw [hwy]; exact get_d_set_d_live wz d _ _ hzd
  rw [hyd] at h
  simp only at h
  split at h
  · cases h
  · rename_i x b2 w9 heq
    cases h
    refine ⟨rfl, ?_⟩
    split at heq
    · cases heq
    split at heq
    · cases heq
    split at heq
    · cases heq
      exact ⟨hyc, _, hyd, rfl, rfl, rfl, rfl⟩
    · split at heq
      · cases heq
      · split at heq
        · cases heq
        · split at heq
          · cases heq
          · cases heq
            exact ⟨hyc, _, get_d_set_d_live wy d _ _ hyd, rfl, rfl, rfl, rfl⟩

theorem msgbytes_pos_iff (cc : conn) (h : ∀ s, s ∈ cc.iov → 0 < s.length) :
    0 < cc.msgbytes ↔ cc.iov ≠ [] := by
  unfold conn.msgbytes
  cases hi : cc.iov with
  | nil => simp
  | cons s rest =>
    have hs := h s (by rw [hi]; exact List.mem_cons_self _ _)
    simp only [List.map_cons, List.sum_cons, ne_eq, reduceCtorEq, not_false_eq_true, iff_true]
    have : (0 : Int) < ((s.length + (rest.map String.length).sum : Nat) : Int) := by
      exact_mod_cast Nat.lt_of_lt_of_le hs (Nat.le_add_right _ _)
    exact this

theorem get_c_of_conns_eq {w w1 : World} (h : w1.conns = w.conns) (c : Nat) :
    w1.get_c c = w.get_c c := by
  unfold World.get_c
  rw [h]

/-- C36.  Multiget use count.  Let `cproxy_forward_a2b_multiget_downstream`
return on the downstream `d`, in an environment where every write-event
registration succeeds.  Let `wp` be the state after the sockets were prepared
and `w3` the state after the keys of all upstreams were handled.  Every socket
in a slot of `d` has an empty queue in `wp` and is in `conn_pause`, and
something is queued on it in `w3` exactly when the key loop put a buffer on
it.  Afterwards `downstream_used` and `downstream_used_start` both equal the
number of slots whose socket has something queued in `w3`, the function
returns `true` exactly when this number is above 0, `upstream_suffix` is
`"END\r\n"`, and a socket on which nothing was queued is still in
`conn_pause` with an empty queue. -/
theorem multiget_use_count (env : Env) (hev : ∀ w c, env.update_event w c = true)
    (w : World) (d uc : Nat) (b : Bool) (w1 : World)
    (h : cproxy_forward_a2b_multiget_downstream env w d uc = .ok (b, w1)) :
    ∃ dd wp w2 w3 dd1, w.get_d d = some dd ∧
      a2b_multiget_prep env dd.downstream_conns w = .ok wp ∧
      (w2 = wp ∨ w2 = wp.set_d d { dd with multiget := some [] }) ∧
      a2b_multiget_upstreams env d (w2.conns.length + 1) (some uc) 0 w2 = .ok w3 ∧
      (∀ c, some c ∈ dd.downstream_conns →
        ∃ cp cc3, wp.get_c c = some cp ∧ cp.iov = [] ∧ cp.state = conn_state.conn_pause ∧
          w3.get_c c = some cc3 ∧ cc3.state = conn_state.conn_pause ∧
          (w3.queued c = true ↔ cc3.iov ≠ [])) ∧
      w1.get_d d = some dd1 ∧ dd1.downstream_conns = dd.downstream_conns ∧
      dd1.downstream_used = (w3.nqueued dd.downstream_conns : Nat) ∧
      dd1.downstream_used_start = (w3.nqueued dd.downstream_conns : Nat) ∧
      dd1.upstream_suffix = some "END\r\n" ∧
      b = decide (w3.nqueued dd.downstream_conns > 0) ∧
      ∀ c, some c ∈ dd.downstream_conns → w3.queued c = false →
        ∃ cc1, w1.get_c c = some cc1 ∧ cc1.state = conn_state.conn_pause ∧ cc1.iov = [] := by
  unfold cproxy_forward_a2b_multiget_downstream at h
  cases hd : w.get_d d with
  | none => rw [hd] at h; cases h
  | some dd =>
    rw [hd] at h
    simp only at h
    split at h
    · cases h
    cases hu : w.get_c uc with
    | none => rw [hu] at h; cases h
    | some ucc =>
      rw [hu] at h
      simp only at h
      split at h
      · cases h
      rename_i hnr
      have hnr1 : ucc.noreply = false := by
        cases hb : ucc.noreply with
        | false => rfl
        | true => exact absurd hb (by simpa using hnr)
      cases hprep : a2b_multiget_prep env dd.downstream_conns w with
      | error f => rw [hprep] at h; cases h
      | ok wp =>
        rw [hprep] at h
        simp only at h
        obtain ⟨fp, dp⟩ := multiget_prep_frame env dd.downstream_conns w wp hprep
        obtain ⟨_, hpost⟩ := multiget_prep_post env dd.downstream_conns w wp hprep
        obtain ⟨ucp, hucp, _, _, hnp⟩ := fp uc ucc hu
        have hdp : wp.get_d d = some dd := by
          rw [get_d_of_ds_eq dp]
          exact hd
        rw [hucp, hdp] at h
        simp only at h
        obtain ⟨w2, hw2⟩ : ∃ w2 : World, w2 =
            (if ucp.next ≠ none then wp.set_d d { dd with multiget := some [] } else wp) :=
          ⟨_, rfl⟩
        rw [← hw2] at h
        have hw2c : w2 = wp ∨ w2 = wp.set_d d { dd with multiget := some [] } := by
          rw [hw2]
          split
          · exact Or.inr rfl
          · exact Or.inl rfl
        have hq2 : queue_frame wp w2 := by
          rcases hw2c with e | e
          · rw [e]
            exact queue_frame.rfl_queue wp
          · rw [e]
            exact queue_frame.of_set_d wp d dd _ hdp rfl
        cases hups : a2b_multiget_upstreams env d (w2.conns.length + 1) (some uc) 0 w2 with
        | error f => rw [hups] at h; cases h
        | ok w3 =>
          rw [hups] at h
          simp only at h
          have hq3 : queue_frame wp w3 :=
            hq2.trans_queue (multiget_upstreams_queue env d _ _ _ w2 w3 hups)
          obtain ⟨dd3, hd3, hslots⟩ := hq3.2 d dd hdp
          rw [hd3] at h
          simp only at h
          rw [hslots] at h
          cases hfl : a2b_multiget_flush env uc dd.downstream_conns 0 w3 with
          | error f => rw [hfl] at h; cases h
          | ok r =>
            obtain ⟨nwrite, w4⟩ := r
            rw [hfl] at h
            simp only at h
            obtain ⟨c1, c2, c3⟩ := multiget_flush_count env hev uc dd.downstream_conns 0 w3 _ hfl
            simp only [Nat.zero_add] at c1 c2 c3
            obtain ⟨ff, _, _⟩ := multiget_flush_frame env hev uc dd.downstream_conns 0 w3 _ hfl
            simp only at ff
            obtain ⟨uc3, _, huc3, _, _, _, hn3, _⟩ := hq3.1 uc ucp hucp
            obtain ⟨uc4, huc4, _, _, hn4⟩ := ff uc uc3 huc3
            have hd4 : w4.get_d d = some dd3 := by
              rw [get_d_of_ds_eq c3]
              exact hd3
            obtain ⟨e1, e2, dd1, g1, g2, g3, g4, g5⟩ := a2b_finish_counts env w4 d uc nwrite _ b
              w1 uc4 dd3 huc4 (by rw [hn4, hn3, hnp, hnr1]) hd4 h
            have hslot : ∀ c, some c ∈ dd.downstream_conns →
                ∃ cp cc3, wp.get_c c = some cp ∧ cp.iov = [] ∧
                  cp.state = conn_state.conn_pause ∧ w3.get_c c = some cc3 ∧
                  cc3.state = conn_state.conn_pause ∧ (w3.queued c = true ↔ cc3.iov ≠ []) := by
              intro c hc
              obtain ⟨cp, p1, p2, p3, p4⟩ := hpost c hc
              obtain ⟨cc3, added, q1, q2, _, q4, _, _, _, _, q9, q10⟩ := hq3.1 c cp p1
              refine ⟨cp, cc3, p1, p2, p3, q1, q2.trans p3, ?_⟩
              have hne : ∀ s, s ∈ cc3.iov → 0 < s.length := by
                intro s hs
                rw [q9, p2, List.nil_append] at hs
                exact q10 s hs
              unfold World.queued
              rw [q1]
              simp only [decide_eq_true_eq]
              rw [← msgbytes_pos_iff cc3 hne]
              constructor
              · rintro (hm | hm)
                · rw [q4] at hm
                  omega
                · exact hm
              · exact fun hm => Or.inr hm
            refine ⟨dd, wp, w2, w3, dd1, rfl, hprep, hw2c, hups, hslot, g1, g5.trans hslots,
              by rw [g2, c1], by rw [g3, c1], g4, by rw [e1, c1], ?_⟩
            intro c hc hqf
            obtain ⟨cp, cc3, _, _, _, q1, q2, q3⟩ := hslot c hc
            refine ⟨cc3, ?_, q2, ?_⟩
            · rw [get_c_of_conns_eq e2, c2 c hqf]
              exact q1
            · by_contra hne
              have := q3.2 hne
              rw [hqf] at this
              cases this

set_option maxRecDepth 100000 in
theorem multiget_result_run :
    cproxy_forward_a2b_multiget_downstream hash_env (multiget_world "get a b" "get b c") 0 0 =
      .ok (true, multiget_result) := by
  decide

/-- Witness for C36: the two upstreams `get a b` and `get b c` of
`multiget_world`, whose keys go to both sockets. -/
theorem multiget_use_count_witness :
    ∃ dd wp w2 w3 dd1, (multiget_world "get a b" "get b c").get_d 0 = some dd ∧
      a2b_multiget_prep hash_env dd.downstream_conns (multiget_world "get a b" "get b c") =
        .ok wp ∧
      (w2 = wp ∨ w2 = wp.set_d 0 { dd with multiget := some [] }) ∧
      a2b_multiget_upstreams hash_env 0 (w2.conns.length + 1) (some 0) 0 w2 = .ok w3 ∧
      (∀ c, some c ∈ dd.downstream_conns →
        ∃ cp cc3, wp.get_c c = some cp ∧ cp.iov = [] ∧ cp.state = conn_state.conn_pause ∧
          w3.get_c c = some cc3 ∧ cc3.state = conn_state.conn_pause ∧
          (w3.queued c = true ↔ cc3.iov ≠ [])) ∧
      multiget_result.get_d 0 = some dd1 ∧ dd1.downstream_conns = dd.downstream_conns ∧
      dd1.downstream_used = (w3.nqueued dd.downstream_conns : Nat) ∧
      dd1.downstream_used_start = (w3.nqueued dd.downstream_conns : Nat) ∧
      dd1.upstream_suffix = some "END\r\n" ∧
      true = decide (w3.nqueued dd.downstream_conns > 0) ∧
      ∀ c, some c ∈ dd.downstream_conns → w3.queued c = false →
        ∃ cc1, multiget_result.get_c c = some cc1 ∧ cc1.state = conn_state.conn_pause ∧
          cc1.iov = [] :=
  multiget_use_count hash_env (fun _ _ => rfl) (multiget_world "get a b" "get b c") 0 0 true
    multiget_result multiget_result_run

end Moxi
